import Mathlib

/-!
# Triangular solve on a 3D process grid (`SRC/pdgstrs3d.c`)

Shallow embedding of the solve engine of `pdgstrs3d.c`.

Conventions of the embedding.

* C arrays are total functions on `Nat`; a write is `Function.update`.  An array
  obtained from `malloc` starts from an unspecified content, passed as the
  argument `heap`.
* A pointer that may be `NULL` is an `Option`.
* Index arrays (`lsub`, `usub`, `xsup`, `ilsum`, node lists) hold natural
  numbers; the modification counters (`fmod`, `bmod`, `frecv`, `brecv`) are
  integers because the code stores the sentinel `-1` in them.
* A `for` loop over `0 .. n-1` is a left fold over `List.range n`.
* Numerical values (`double`) are rational numbers: exact arithmetic.
-/

namespace Pdgstrs3d

/-! ## Process grid and ownership macros -/

/-- The 2D process grid `gridinfo_t`: my rank and the grid shape. -/
structure gridinfo_t where
  iam : Nat
  nprow : Nat
  npcol : Nat

/-- Modelled from the spec: macro `MYROW` of `superlu_defs.h` (that header is not
among the sources); processes are numbered row by row in the 2D grid. -/
def MYROW (iam : Nat) (grid : gridinfo_t) : Nat := iam / grid.npcol

/-- Modelled from the spec: macro `MYCOL` of `superlu_defs.h` (not among the
sources); processes are numbered row by row in the 2D grid. -/
def MYCOL (iam : Nat) (grid : gridinfo_t) : Nat := iam % grid.npcol

/-- Modelled from the spec: macro `PROW` of `superlu_defs.h` (not among the
sources); the spec's cyclic mapping of supernodes to process rows. -/
def PROW (bnum : Nat) (grid : gridinfo_t) : Nat := bnum % grid.nprow

/-- Modelled from the spec: macro `PCOL` of `superlu_defs.h` (not among the
sources); the spec's cyclic mapping of supernodes to process columns. -/
def PCOL (bnum : Nat) (grid : gridinfo_t) : Nat := bnum % grid.npcol

/-- Modelled from the spec: macro `LBi` of `superlu_defs.h` (not among the
sources); global to local block number, row-wise, for the cyclic mapping.  The
sources invert it as `gik = ik * grid->nprow + myrow`. -/
def LBi (bnum : Nat) (grid : gridinfo_t) : Nat := bnum / grid.nprow

/-- Modelled from the spec: macro `LBj` of `superlu_defs.h` (not among the
sources); global to local block number, column-wise, for the cyclic mapping. -/
def LBj (bnum : Nat) (grid : gridinfo_t) : Nat := bnum / grid.npcol

/-- Modelled from the spec: macro `PNUM` of `superlu_defs.h` (not among the
sources); rank of the process at grid coordinate `(i, j)`. -/
def PNUM (i j : Nat) (grid : gridinfo_t) : Nat := i * grid.npcol + j

/-- Modelled from the spec: macro `SuperSize` of `superlu_defs.h` (not among the
sources); number of columns of a supernode, from the boundaries `xsup`. -/
def SuperSize (xsup : Nat → Nat) (bnum : Nat) : Nat := xsup (bnum + 1) - xsup bnum

/-- Modelled from the spec: constant `BR_HEADER` of `superlu_defs.h` (not among
the sources); length of the header of a block row of U. -/
def BR_HEADER : Nat := 3

/-- Modelled from the spec: constant `UB_DESCRIPTOR` of `superlu_defs.h` (not
among the sources); length of the descriptor of one U block. -/
def UB_DESCRIPTOR : Nat := 2

/-! ## Elimination forest -/

/-- The fields of `sForest_t` read by the solve: number of nodes and node list. -/
structure sForest_t where
  nNodes : Nat
  nodeList : Nat → Nat

/-- The nodes of a forest in list order, `nodeList[0 .. nNodes-1]`. -/
def sForest_t.nodes (sforest : sForest_t) : List Nat :=
  (List.range sforest.nNodes).map sforest.nodeList

/-! ## Local factor storage -/

/-- Modelled from the spec: constant `BC_HEADER` of `superlu_defs.h` (not among
the sources); length of the header of a block column of L. -/
def BC_HEADER : Nat := 2

/-- Modelled from the spec: constant `LB_DESCRIPTOR` of `superlu_defs.h` (not
among the sources); length of the descriptor of one L block. -/
def LB_DESCRIPTOR : Nat := 2

/-- Modelled from the spec: constant `XK_H` of `superlu_defs.h` (not among the
sources); size of the header preceding each block of `x`, which records the
supernode number (the layout comment of `pdgstrs3d.c` draws a header of size 2). -/
def XK_H : Nat := 2

/-- Modelled from the spec: constant `LSUM_H` of `superlu_defs.h` (not among the
sources); size of the header preceding each block of `lsum` (the layout comment
of `pdgstrs3d.c` draws a header of size 2). -/
def LSUM_H : Nat := 2

/-- Modelled from the spec: constant `EMPTY` of `superlu_defs.h` (not among the
sources); marks an unused entry of a send list. -/
def EMPTY : Int := -1

/-- Modelled from the spec: macro `X_BLK` of `superlu_defs.h` (not among the
sources); start of block `i` of `x`, after the headers of blocks `0 .. i`. -/
def X_BLK (ilsum : Nat → Nat) (nrhs : Nat) (i : Nat) : Nat := ilsum i * nrhs + (i + 1) * XK_H

/-- Modelled from the spec: macro `LSUM_BLK` of `superlu_defs.h` (not among the
sources); start of block `i` of `lsum`, after the headers of blocks `0 .. i`. -/
def LSUM_BLK (ilsum : Nat → Nat) (nrhs : Nat) (i : Nat) : Nat :=
  ilsum i * nrhs + (i + 1) * LSUM_H

/-- Entry of the vertical linked list `Ucb_indptr`: local block row and start
of the block in the index array of that block row. -/
structure Ucb_indptr_t where
  lbnum : Nat
  indpos : Nat

/-- The read-only fields of `dLocalLU_t` used by the solve.  The counters and
message bookkeeping that the solve mutates (`frecv`, `brecv`, `mod_bit`,
`SolveMsgSent`) are part of the solver state instead. -/
structure dLocalLU_t where
  Lrowind_bc_ptr : Nat → Option (Nat → Nat)
  Lnzval_bc_ptr : Nat → Nat → ℚ
  Ufstnz_br_ptr : Nat → Option (Nat → Nat)
  Unzval_br_ptr : Nat → Nat → ℚ
  fmod : Nat → Int
  fsendx_plist : Nat → Nat → Int
  bsendx_plist : Nat → Nat → Int
  ilsum : Nat → Nat
  ldalsum : Nat
  Urbs : Nat → Nat
  Ucb_indptr : Nat → Nat → Ucb_indptr_t
  Ucb_valptr : Nat → Nat → Nat

/-- The supernode partition `Glu_persist_t`: `xsup[k]` is the first column of
supernode `k`, `supno[i]` the supernode of column `i`. -/
structure Glu_persist_t where
  xsup : Nat → Nat
  supno : Nat → Nat

/-- The factor handle `dLUstruct_t`. -/
structure dLUstruct_t where
  Glu_persist : Glu_persist_t
  Llu : dLocalLU_t

/-- The fields of `dtrf3Dpartition_t` read by the solve: the forests by tree id
(`NULL` for an empty one), the tree of every supernode, and per level the tree
owned by my layer and the flag telling that my layer is idle at that level. -/
structure dtrf3Dpartition_t where
  sForests : Nat → Option sForest_t
  supernode2treeMap : Nat → Nat
  myTreeIdxs : Nat → Nat
  myZeroTrIdxs : Nat → Nat

/-- The communicator along the depth dimension: number of layers and my layer. -/
structure superlu_scope_t where
  Np : Nat
  Iam : Nat

/-- The 3D process grid `gridinfo3d_t`: my 2D grid and the depth communicator. -/
structure gridinfo3d_t where
  grid2d : gridinfo_t
  zscp : superlu_scope_t

/-! ## Dependency tracker, backward direction: `getBmod3d` -/

/-- Body of the inner loop of `getBmod3d` over the blocks of one block row of U:
the state is the read position `iukp` and the counter array. -/
def getBmod3d_block (treeId : Nat) (xsup : Nat → Nat) (supernode2treeMap : Nat → Nat)
    (usub : Nat → Nat) (lk : Nat) (st : Nat × (Nat → Int)) : Nat × (Nat → Int) :=
  let iukp := st.1
  let bmod := st.2
  let jb := usub iukp
  let bmod := if supernode2treeMap jb = treeId then Function.update bmod lk (bmod lk + 1) else bmod
  (iukp + UB_DESCRIPTOR + SuperSize xsup jb, bmod)

/-- Body of the outer loop of `getBmod3d` for the forest node `k`. -/
def getBmod3d_node (treeId : Nat) (LUstruct : dLUstruct_t)
    (trf3Dpartition : dtrf3Dpartition_t) (grid : gridinfo_t)
    (bmod : Nat → Int) (k : Nat) : Nat → Int :=
  let xsup := LUstruct.Glu_persist.xsup
  let myrow := MYROW grid.iam grid
  let krow := PROW k grid
  if myrow = krow then
    let lk := LBi k grid
    let bmod := Function.update bmod lk 0
    match LUstruct.Llu.Ufstnz_br_ptr lk with
    | some usub =>
      let nub := usub 0
      ((List.range nub).foldl
        (fun st _ => getBmod3d_block treeId xsup trf3Dpartition.supernode2treeMap usub lk st)
        (BR_HEADER, bmod)).2
    | none => Function.update bmod lk 0
  else bmod

/-- The routine `getBmod3d`: `NULL` for a forest without nodes, otherwise the
freshly allocated counter array (`heap` is the content `malloc` returned). -/
def getBmod3d (treeId nlb : Nat) (sforest : sForest_t) (LUstruct : dLUstruct_t)
    (trf3Dpartition : dtrf3Dpartition_t) (grid : gridinfo_t) (heap : Nat → Int) :
    Option (Nat → Int) :=
  if sforest.nNodes < 1 then none
  else
    let bmod : Nat → Int := fun k => if k < nlb then 0 else heap k
    some ((List.range sforest.nNodes).foldl
      (fun bmod k0 =>
        getBmod3d_node treeId LUstruct trf3Dpartition grid bmod (sforest.nodeList k0))
      bmod)

/-- Column supernodes of the first `nub` U blocks stored in the index array of a
block row, read from position `iukp`: each block is a descriptor of
`UB_DESCRIPTOR` words followed by one word per column of its supernode. -/
def uBlockColumns (xsup : Nat → Nat) (usub : Nat → Nat) : Nat → Nat → List Nat
  | 0, _ => []
  | nub + 1, iukp =>
    usub iukp :: uBlockColumns xsup usub nub (iukp + UB_DESCRIPTOR + SuperSize xsup (usub iukp))

/-- Number of U blocks stored in local block row `lk` whose column supernode is
mapped to the tree `treeId`; `0` when the row has no U storage. -/
def countUBlocksInTree (treeId : Nat) (LUstruct : dLUstruct_t)
    (trf3Dpartition : dtrf3Dpartition_t) (lk : Nat) : Nat :=
  match LUstruct.Llu.Ufstnz_br_ptr lk with
  | some usub =>
    ((uBlockColumns LUstruct.Glu_persist.xsup usub (usub 0) BR_HEADER).filter
      (fun jb => trf3Dpartition.supernode2treeMap jb = treeId)).length
  | none => 0


/-! ## Dependency tracker, forward direction: `getfmodLeaf`, `getfrecvLeaf` -/

/-- The routine `getfmodLeaf`: a fresh array holding `Llu->fmod[0 .. nlb-1]`. -/
def getfmodLeaf (nlb : Nat) (LUstruct : dLUstruct_t) (heap : Nat → Int) : Nat → Int :=
  let Llu := LUstruct.Llu
  (List.range nlb).foldl (fun fmod i => Function.update fmod i (Llu.fmod i)) heap

/-- Global block rows of the first `nb` L blocks stored in the index array of a
block column, read from position `lptr`: each block is a descriptor
(`lsub[lptr]` the block row, `lsub[lptr+1]` its number of rows) followed by its
row indices. -/
def lBlockRows (lsub : Nat → Nat) : Nat → Nat → List Nat
  | 0, _ => []
  | nb + 1, lptr =>
    lsub lptr :: lBlockRows lsub nb (lptr + LB_DESCRIPTOR + lsub (lptr + 1))

/-- Number of off-diagonal L blocks stored on this process (local block columns
`0 .. ncol-1`) that lie in local block row `lk` and satisfy `keep k ik`, where
`k` is the column supernode and `ik` the row supernode of the block. -/
def countLBlocksOfRow (keep : Nat → Nat → Bool) (Llu : dLocalLU_t)
    (grid : gridinfo_t) (ncol lk : Nat) : Nat :=
  ((List.range ncol).map (fun ljb =>
    let k := ljb * grid.npcol + MYCOL grid.iam grid
    match Llu.Lrowind_bc_ptr ljb with
    | some lsub =>
      ((lBlockRows lsub (lsub 0) BC_HEADER).filter
        (fun ik => decide (LBi ik grid = lk) && decide (ik ≠ k) && keep k ik)).length
    | none => 0)).sum

/-- Number of local off-diagonal L blocks of local block row `lk`. -/
def countLocalLBlocks (Llu : dLocalLU_t) (grid : gridinfo_t)
    (ncol lk : Nat) : Nat :=
  countLBlocksOfRow (fun _ _ => true) Llu grid ncol lk

/-- Number of local off-diagonal L blocks of local block row `lk` whose column
supernode belongs to the same forest as the row. -/
def countLocalLBlocksSameForest (supernode2treeMap : Nat → Nat)
    (Llu : dLocalLU_t) (grid : gridinfo_t) (ncol lk : Nat) : Nat :=
  countLBlocksOfRow (fun k ik => decide (supernode2treeMap k = supernode2treeMap ik))
    Llu grid ncol lk

/-- Local part of `getfrecvLeaf`: `mod_bit` is cleared on `0 .. nlb-1`, then set
to 1 for the rows of forest nodes of my process row for which I am not the
diagonal process and my `fmod` is non-zero. -/
def getfrecvLeaf_mod_bit (sforest : sForest_t) (nlb : Nat) (fmod : Nat → Int)
    (grid : gridinfo_t) (mod_bit : Nat → Int) : Nat → Int :=
  let mod_bit := (List.range nlb).foldl (fun mod_bit k => Function.update mod_bit k 0) mod_bit
  let myrow := MYROW grid.iam grid
  let mycol := MYCOL grid.iam grid
  (List.range sforest.nNodes).foldl
    (fun mod_bit k0 =>
      let k := sforest.nodeList k0
      let krow := PROW k grid
      if myrow = krow then
        let lk := LBi k grid
        let kcol := PCOL k grid
        if mycol ≠ kcol ∧ fmod lk ≠ 0 then Function.update mod_bit lk 1 else mod_bit
      else mod_bit)
    mod_bit

/-- Modelled from the spec: the collective `MPI_Allreduce` with `MPI_SUM` on a communicator of `size`
processes: the first `count` entries of the receive buffer become the sums of
the send buffers of all members. -/
def MPI_Allreduce_SUM (sendbuf : Nat → Nat → Int) (count size : Nat)
    (recvbuf : Nat → Int) : Nat → Int :=
  fun i => if i < count then ((List.range size).map (fun c => sendbuf c i)).sum else recvbuf i

/-- The grid as seen by the process of my process row in column `c`. -/
def gridinfo_t.inColumn (grid : gridinfo_t) (c : Nat) : gridinfo_t :=
  { grid with iam := PNUM (MYROW grid.iam grid) c grid }

/-- The routine `getfrecvLeaf` run by the whole process row: the process in
column `c` holds the counters `fmodRow c` and the scratch array `mod_bitRow c`;
the all-reduce over the row communicator sums the `mod_bit` arrays. -/
def getfrecvLeaf (sforest : sForest_t) (nlb : Nat) (fmodRow : Nat → Nat → Int)
    (grid : gridinfo_t) (mod_bitRow : Nat → Nat → Int) (heap : Nat → Int) : Nat → Int :=
  MPI_Allreduce_SUM
    (fun c => getfrecvLeaf_mod_bit sforest nlb (fmodRow c) (grid.inColumn c) (mod_bitRow c))
    nlb grid.npcol heap

/-! ## Dense kernels (BLAS) in exact arithmetic -/

/-- Modelled from the spec: the BLAS routine `dgemm_("N", "N", m, n, k, alpha, A, lda, B, ldb, beta, C, ldc)` in
exact arithmetic: `C := alpha*A*B + beta*C` for column-major `A` (`m x k`), `B`
(`k x n`) and `C` (`m x n`).  `A` and `B` are the arrays seen through the pointers
passed; `C` is written in the array `C` from the offset `coff`. -/
def dgemm_ (m n k : Nat) (alpha : ℚ) (A : Nat → ℚ) (lda : Nat) (B : Nat → ℚ) (ldb : Nat)
    (beta : ℚ) (C : Nat → ℚ) (coff ldc : Nat) : Nat → ℚ :=
  (List.range n).foldl
    (fun C j =>
      (List.range m).foldl
        (fun C i =>
          Function.update C (coff + i + j * ldc)
            (alpha * ((List.range k).map (fun l => A (i + l * lda) * B (l + j * ldb))).sum
              + beta * C (coff + i + j * ldc)))
        C)
    C

/-- The argument `uplo` of `dtrsm_`: `"L"` or `"U"`. -/
inductive UpLo where
  | lower
  | upper
deriving DecidableEq

/-- The argument `diag` of `dtrsm_`: `"U"` (unit diagonal) or `"N"`. -/
inductive Diag where
  | unit
  | nonUnit
deriving DecidableEq

/-- Modelled from the spec: the BLAS routine `dtrsm_("L", uplo, "N", diag, m, n, alpha, A, lda, B, ldb)` as an
exact triangular solve: the `m x n` block of `B` at offset `boff` is overwritten
by the solution `X` of `op(A) * X = alpha * B`, column by column, by forward
substitution (lower) or back substitution (upper); a unit diagonal is not read. -/
def dtrsm_ (uplo : UpLo) (diag : Diag) (m n : Nat) (alpha : ℚ) (A : Nat → ℚ) (lda : Nat)
    (B : Nat → ℚ) (boff ldb : Nat) : Nat → ℚ :=
  (List.range n).foldl
    (fun B j =>
      (match uplo with
        | UpLo.lower => List.range m
        | UpLo.upper => (List.range m).reverse).foldl
        (fun B i =>
          let others := match uplo with
            | UpLo.lower => List.range i
            | UpLo.upper => (List.range (m - (i + 1))).map (fun l => l + (i + 1))
          let v := alpha * B (boff + i + j * ldb)
            - (others.map (fun l => A (i + l * lda) * B (boff + l + j * ldb))).sum
          Function.update B (boff + i + j * ldb)
            (match diag with
              | Diag.unit => v
              | Diag.nonUnit => v / A (i + i * lda)))
        B)
    B

/-! ## Messages and solver state -/

/-- The message tags of the solve; `other` stands for any tag that is neither
`Xk` nor `LSUM`. -/
inductive MsgTag where
  | Xk
  | LSUM
  | other
deriving DecidableEq

/-- A point-to-point message: destination rank, tag, number of `double` words
and the words themselves (`data i` for `i < count`). -/
structure Message where
  dest : Nat
  tag : MsgTag
  count : Nat
  data : Nat → ℚ

/-- Record of one diagonal-block solve: the supernode, the index of its
counters, and the values of the modification counter and of the receive
counter when the block was found ready. -/
structure SolveEvent where
  k : Nat
  lk : Nat
  modAt : Int
  recvAt : Int

/-- The mutable data of one process during a solve call.  `x`, `lsum`, `xT`,
`recvbuf`, `rtemp` are the work arrays of `pdgstrs3d`, `tX`, `tU`, `indCols` the
buffers of `lsumBmod_buff_t`; `fmod`/`frecv` and
`bmod`/`brecv` the dependency counters of the forward and backward leaf solves;
`SolveMsgSent` is `Llu->SolveMsgSent` and `ops` is `stat->ops[SOLVE]`.  The
remaining fields record what happened and are never read by the code: `sent`
lists the messages posted by `MPI_Isend` (oldest first), `solved` the
diagonal-block solves, `lsumFwd` the forwardings of a local `lsum` block in the
backward leaf solve (counter index, `true` for an `LSUM` message and `false`
for an addition into `x`), `decs` the decrements of `bmod` (counter index and
value after the decrement). -/
structure SolveState where
  x : Nat → ℚ
  lsum : Nat → ℚ
  xT : Nat → ℚ
  recvbuf : Nat → ℚ
  rtemp : Nat → ℚ
  tX : Nat → ℚ
  tU : Nat → ℚ
  indCols : Nat → Nat
  fmod : Nat → Int
  frecv : Nat → Int
  bmod : Nat → Int
  brecv : Nat → Int
  SolveMsgSent : Nat
  ops : ℚ
  sent : List Message
  solved : List SolveEvent
  lsumFwd : List (Nat × Bool)
  decs : List (Nat × Int)

/-- Modelled from the spec: `MPI_Isend(&buf[start], count, MPI_DOUBLE, dest, tag, ..., &send_req[Llu->SolveMsgSent++])`:
the message is posted with the current content of the buffer. -/
def MPI_Isend (buf : Nat → ℚ) (start count dest : Nat) (tag : MsgTag) (s : SolveState) :
    SolveState :=
  { s with
    sent := s.sent ++ [{ dest := dest, tag := tag, count := count,
                         data := fun i => buf (start + i) }]
    SolveMsgSent := s.SolveMsgSent + 1 }

/-- Left fold of a step that may fail. -/
def foldlOpt {σ β : Type} (f : σ → β → Option σ) : σ → List β → Option σ
  | s, [] => some s
  | s, a :: l =>
    match f s a with
    | none => none
    | some s' => foldlOpt f s' l

/-- The pointer `xk` handed to the block-update routines: it points either into
the receive buffer or into `x`. -/
inductive XkPtr where
  | recvbuf (off : Nat)
  | x (off : Nat)

/-- The array seen through an `xk` pointer in the current state. -/
def XkPtr.read (xk : XkPtr) (s : SolveState) : Nat → ℚ :=
  match xk with
  | XkPtr.recvbuf off => fun i => s.recvbuf (off + i)
  | XkPtr.x off => fun i => s.x (off + i)

/-- The conversion `int_t k = *recvbuf` of a header word to a block number. -/
def headerToBlock (q : ℚ) : Nat := ⌊q⌋₊

/-- The type `trtype_t` of `localSolveXkYk`. -/
inductive trtype_t where
  | UPPER_TRI
  | LOWER_TRI
deriving DecidableEq

/-- The loop `x[i + ii + j*knsupc] += src[i + soff + j*knsupc]` over `j < nrhs`,
`i < knsupc`, used to add a received or local partial sum into a block of `x`. -/
def addBlock (x : Nat → ℚ) (ii : Nat) (src : Nat → ℚ) (soff knsupc nrhs : Nat) : Nat → ℚ :=
  (List.range nrhs).foldl
    (fun x j =>
      (List.range knsupc).foldl
        (fun x i =>
          Function.update x (i + ii + j * knsupc)
            (x (i + ii + j * knsupc) + src (i + soff + j * knsupc)))
        x)
    x

/-- The routine `localSolveXkYk`: triangular solve of the block of `x` at offset
`xoff` with the diagonal block of supernode `k`.  `none` when the L storage of
the block column is `NULL` (the code dereferences it). -/
def localSolveXkYk (trtype : trtype_t) (k xoff nrhs : Nat) (LUstruct : dLUstruct_t)
    (grid : gridinfo_t) (s : SolveState) : Option SolveState :=
  let xsup := LUstruct.Glu_persist.xsup
  let Llu := LUstruct.Llu
  let knsupc := SuperSize xsup k
  let lk := LBj k grid
  match Llu.Lrowind_bc_ptr lk with
  | none => none
  | some lsub =>
    let lusup := Llu.Lnzval_bc_ptr lk
    let nsupr := lsub 1
    let x := match trtype with
      | trtype_t.UPPER_TRI => dtrsm_ UpLo.upper Diag.nonUnit knsupc nrhs 1 lusup nsupr s.x xoff knsupc
      | trtype_t.LOWER_TRI => dtrsm_ UpLo.lower Diag.unit knsupc nrhs 1 lusup nsupr s.x xoff knsupc
    some { s with x := x, ops := s.ops + ((knsupc * (knsupc + 1) * nrhs : Nat) : ℚ) }

/-- The routine `iBcastXk2Pck`: post the block of `x` starting at its header
(offset `xhdr`) to every process row marked in the send list of the column. -/
def iBcastXk2Pck (k xhdr nrhs : Nat) (sendList : Nat → Nat → Int) (LUstruct : dLUstruct_t)
    (grid : gridinfo_t) (s : SolveState) : SolveState :=
  let xsup := LUstruct.Glu_persist.xsup
  let Pr := grid.nprow
  let knsupc := SuperSize xsup k
  let lk := LBj k grid
  let kcol := PCOL k grid
  (List.range Pr).foldl
    (fun s p =>
      if sendList lk p ≠ EMPTY then
        let pi := PNUM p kcol grid
        MPI_Isend s.x xhdr (knsupc * nrhs + XK_H) pi MsgTag.Xk s
      else s)
    s

/-! ## Forward leaf solve: `dlsum_fmod_leaf` -/

/-- The scatter loop of the block updates: for `i < nbrow`, `j < nrhs`,
`dest[irow + j*iknsupc] -= rtemp[i + j*nbrow]` with `irow = lsub[lptr + i] - rel`
and `dest = &lsum[il]`. -/
def lsumScatterSub (lsum : Nat → ℚ) (il iknsupc nbrow nrhs : Nat) (lsub : Nat → Nat)
    (lptr rel : Nat) (rtemp : Nat → ℚ) : Nat → ℚ :=
  (List.range nbrow).foldl
    (fun lsum i =>
      let irow := lsub (lptr + i) - rel
      (List.range nrhs).foldl
        (fun lsum j =>
          Function.update lsum (il + irow + j * iknsupc)
            (lsum (il + irow + j * iknsupc) - rtemp (i + j * nbrow)))
        lsum)
    lsum

/-- The arguments that change between the calls of `dlsum_fmod_leaf`: the
pointer `xk`, the size `knsupc` and number `k` of the supernode, the number of
blocks `nlb` and the start positions `lptr`, `luptr`. -/
structure FmodCall where
  xk : XkPtr
  knsupc : Nat
  k : Nat
  nlb : Nat
  lptr : Nat
  luptr : Nat

/-- Body of the loop `for (lb = 0; lb < nlb; ++lb)` of `dlsum_fmod_leaf`; the loop
state is `(lptr, luptr, s)`.  `recurse` is the routine itself, called for the
cascade.  `none` when the code dereferences a `NULL` block column or `recurse`
fails. -/
def dlsum_fmod_leaf_block (recurse : FmodCall → SolveState → Option SolveState)
    (treeId : Nat) (trf3Dpartition : dtrf3Dpartition_t) (xk : XkPtr) (nrhs knsupc : Nat)
    (xsup : Nat → Nat) (grid : gridinfo_t) (Llu : dLocalLU_t)
    (lsub : Nat → Nat) (lusup : Nat → ℚ) (nsupr : Nat)
    (st : Nat × Nat × SolveState) : Option (Nat × Nat × SolveState) :=
  let lptr := st.1
  let luptr := st.2.1
  let s := st.2.2
  let iam := grid.iam
  let myrow := MYROW iam grid
  let ik := lsub lptr
  let nbrow := lsub (lptr + 1)
  let rtemp := dgemm_ nbrow nrhs knsupc 1 (fun i => lusup (luptr + i)) nsupr (xk.read s) knsupc
    0 s.rtemp 0 nbrow
  let ops := s.ops + ((2 * nbrow * nrhs * knsupc + nbrow * nrhs : Nat) : ℚ)
  let lk := LBi ik grid
  let iknsupc := SuperSize xsup ik
  let il := LSUM_BLK Llu.ilsum nrhs lk
  let lptr := lptr + LB_DESCRIPTOR
  let rel := xsup ik
  let lsum := lsumScatterSub s.lsum il iknsupc nbrow nrhs lsub lptr rel rtemp
  let lptr := lptr + nbrow
  let luptr := luptr + nbrow
  let s : SolveState := { s with
    rtemp := rtemp
    ops := ops
    lsum := lsum
    fmod := Function.update s.fmod lk (s.fmod lk - 1) }
  if s.fmod lk = 0 then
    if trf3Dpartition.supernode2treeMap ik = treeId then
      let ikcol := PCOL ik grid
      let p := PNUM myrow ikcol grid
      if iam ≠ p then
        some (lptr, luptr,
          MPI_Isend s.lsum (il - LSUM_H) (iknsupc * nrhs + LSUM_H) p MsgTag.LSUM s)
      else
        let ii := X_BLK Llu.ilsum nrhs lk
        let s : SolveState := { s with x := addBlock s.x ii s.lsum il iknsupc nrhs }
        if s.frecv lk = 0 then
          let s : SolveState := { s with
            solved := s.solved ++ [SolveEvent.mk ik lk (s.fmod lk) (s.frecv lk)]
            fmod := Function.update s.fmod lk (-1) }
          let lkj := LBj ik grid
          match Llu.Lrowind_bc_ptr lkj with
          | none => none
          | some lsub1 =>
            let lusup1 := Llu.Lnzval_bc_ptr lkj
            let nsupr1 := lsub1 1
            let s : SolveState := { s with
              x := dtrsm_ UpLo.lower Diag.unit iknsupc nrhs 1 lusup1 nsupr1 s.x ii iknsupc
              ops := s.ops + ((iknsupc * (iknsupc - 1) * nrhs : Nat) : ℚ) }
            let s : SolveState := (List.range grid.nprow).foldl
              (fun s p =>
                if Llu.fsendx_plist lkj p ≠ EMPTY then
                  let pi := PNUM p ikcol grid
                  MPI_Isend s.x (ii - XK_H) (iknsupc * nrhs + XK_H) pi MsgTag.Xk s
                else s)
              s
            let nlb1 := lsub1 0 - 1
            let lptr1 := BC_HEADER + LB_DESCRIPTOR + iknsupc
            let luptr1 := iknsupc
            match recurse { xk := XkPtr.x ii, knsupc := iknsupc, k := ik, nlb := nlb1,
                            lptr := lptr1, luptr := luptr1 } s with
            | none => none
            | some s => some (lptr, luptr, s)
        else some (lptr, luptr, s)
    else some (lptr, luptr, s)
  else some (lptr, luptr, s)

/-- One activation of `dlsum_fmod_leaf` given the routine used for the cascade. -/
def dlsum_fmod_leaf_with (recurse : FmodCall → SolveState → Option SolveState)
    (treeId : Nat) (trf3Dpartition : dtrf3Dpartition_t) (nrhs : Nat) (xsup : Nat → Nat)
    (grid : gridinfo_t) (Llu : dLocalLU_t) (c : FmodCall) (s : SolveState) :
    Option SolveState :=
  let lk := LBj c.k grid
  match Llu.Lrowind_bc_ptr lk with
  | none => none
  | some lsub =>
    let lusup := Llu.Lnzval_bc_ptr lk
    let nsupr := lsub 1
    match foldlOpt
        (fun st _ => dlsum_fmod_leaf_block recurse treeId trf3Dpartition c.xk nrhs c.knsupc
          xsup grid Llu lsub lusup nsupr st)
        (c.lptr, c.luptr, s) (List.range c.nlb) with
    | none => none
    | some st => some st.2.2

/-- The routine `dlsum_fmod_leaf`.  `fuel` bounds the depth of the cascade of
recursive calls: with `fuel = 0` a recursive call yields `none`. -/
def dlsum_fmod_leaf : Nat → Nat → dtrf3Dpartition_t → Nat → (Nat → Nat) → gridinfo_t →
    dLocalLU_t → FmodCall → SolveState → Option SolveState
  | 0, treeId, trf3Dpartition, nrhs, xsup, grid, Llu, c, s =>
    dlsum_fmod_leaf_with (fun _ _ => none) treeId trf3Dpartition nrhs xsup grid Llu c s
  | fuel + 1, treeId, trf3Dpartition, nrhs, xsup, grid, Llu, c, s =>
    dlsum_fmod_leaf_with
      (fun c1 s1 => dlsum_fmod_leaf fuel treeId trf3Dpartition nrhs xsup grid Llu c1 s1)
      treeId trf3Dpartition nrhs xsup grid Llu c s

/-! ## Forward leaf solve: `leafForestForwardSolve3d` -/

/-- Modelled from the spec: macro `CEILING` of `superlu_defs.h` (not among the
sources); the quotient rounded up. -/
def CEILING (a b : Nat) : Nat := if a % b ≠ 0 then a / b + 1 else a / b

/-- The routine `getNfrecvxLeaf`: number of `Xk` messages this process expects. -/
def getNfrecvxLeaf (sforest : sForest_t) (LUstruct : dLUstruct_t) (grid : gridinfo_t) : Int :=
  let myrow := MYROW grid.iam grid
  let mycol := MYCOL grid.iam grid
  (List.range sforest.nNodes).foldl
    (fun (nfrecvx : Int) k0 =>
      let k := sforest.nodeList k0
      let krow := PROW k grid
      let kcol := PCOL k grid
      if mycol = kcol ∧ myrow ≠ krow then
        let lk := LBj k grid
        match LUstruct.Llu.Lrowind_bc_ptr lk with
        | some lsub => if lsub 0 > 0 then nfrecvx + 1 else nfrecvx
        | none => nfrecvx
      else nfrecvx)
    0

/-- The routine `getNfrecvmodLeaf`: the pair `(nfrecvmod, nleaf)` of the number
of `LSUM` messages this process expects and of the updated leaf count. -/
def getNfrecvmodLeaf (nleaf : Int) (sforest : sForest_t) (frecv fmod : Nat → Int)
    (grid : gridinfo_t) : Int × Int :=
  let myrow := MYROW grid.iam grid
  let mycol := MYCOL grid.iam grid
  (List.range sforest.nNodes).foldl
    (fun (st : Int × Int) k0 =>
      let k := sforest.nodeList k0
      let krow := PROW k grid
      if myrow = krow then
        let lk := LBi k grid
        let kcol := PCOL k grid
        if mycol = kcol then
          (st.1 + frecv lk, if frecv lk = 0 ∧ fmod lk = 0 then st.2 + 1 else st.2)
        else st
      else st)
    (0, nleaf)

/-- What the environment supplies to one call of a leaf solve: the contents of
the freshly allocated counter arrays, the counters and scratch arrays of the
processes of my process row (indexed by process column, used by the
all-reduce), and the messages delivered by `MPI_Recv`, in order. -/
structure LeafEnv where
  modHeap : Nat → Int
  recvHeap : Nat → Int
  rowMod : Nat → Nat → Int
  rowModBit : Nat → Nat → Int
  msgs : List Message

/-- Body of the seeding loop of `leafForestForwardSolve3d` for the node `k`; the
loop state is `(nleaf, s)`.  The loop condition `k0 < nnodes && nleaf` ends the
loop once `nleaf` is 0: from then on the body is skipped. -/
def leafForestForwardSolve3d_seed (fuel treeId nrhs : Nat) (LUstruct : dLUstruct_t)
    (trf3Dpartition : dtrf3Dpartition_t) (grid : gridinfo_t)
    (st : Int × SolveState) (k : Nat) : Option (Int × SolveState) :=
  let xsup := LUstruct.Glu_persist.xsup
  let Llu := LUstruct.Llu
  let myrow := MYROW grid.iam grid
  let mycol := MYCOL grid.iam grid
  let nleaf := st.1
  let s := st.2
  if nleaf = 0 then some st
  else
    let krow := PROW k grid
    let kcol := PCOL k grid
    if myrow = krow ∧ mycol = kcol then
      let knsupc := SuperSize xsup k
      let lk := LBi k grid
      if s.frecv lk = 0 ∧ s.fmod lk = 0 then
        let s : SolveState := { s with
          solved := s.solved ++ [SolveEvent.mk k lk (s.fmod lk) (s.frecv lk)]
          fmod := Function.update s.fmod lk (-1) }
        let ii := X_BLK Llu.ilsum nrhs lk
        let lkj := LBj k grid
        match localSolveXkYk trtype_t.LOWER_TRI k ii nrhs LUstruct grid s with
        | none => none
        | some s =>
          let s := iBcastXk2Pck k (ii - XK_H) nrhs Llu.fsendx_plist LUstruct grid s
          let nleaf := nleaf - 1
          match Llu.Lrowind_bc_ptr lkj with
          | none => none
          | some lsub =>
            let nb := lsub 0 - 1
            let lptr := BC_HEADER + LB_DESCRIPTOR + knsupc
            let luptr := knsupc
            match dlsum_fmod_leaf fuel treeId trf3Dpartition nrhs xsup grid Llu
                { xk := XkPtr.x ii, knsupc := knsupc, k := k, nlb := nb,
                  lptr := lptr, luptr := luptr } s with
            | none => none
            | some s => some (nleaf, s)
      else some st
    else some st

/-- Modelled from the spec: `MPI_Recv(recvbuf, ...)`; the words of the message overwrite the start of
the receive buffer. -/
def MPI_Recv (m : Message) (s : SolveState) : SolveState :=
  { s with recvbuf := fun i => if i < m.count then m.data i else s.recvbuf i }

/-- The case `Xk` of the receive loop of `leafForestForwardSolve3d`. -/
def leafForestForwardSolve3d_Xk (fuel treeId nrhs : Nat) (LUstruct : dLUstruct_t)
    (trf3Dpartition : dtrf3Dpartition_t) (grid : gridinfo_t) (k : Nat)
    (s : SolveState) : Option SolveState :=
  let xsup := LUstruct.Glu_persist.xsup
  let Llu := LUstruct.Llu
  let lk := LBj k grid
  match Llu.Lrowind_bc_ptr lk with
  | some lsub =>
    let nb := lsub 0
    let lptr := BC_HEADER
    let luptr := 0
    let knsupc := SuperSize xsup k
    dlsum_fmod_leaf fuel treeId trf3Dpartition nrhs xsup grid Llu
      { xk := XkPtr.recvbuf XK_H, knsupc := knsupc, k := k, nlb := nb,
        lptr := lptr, luptr := luptr } s
  | none => some s

/-- The case `LSUM` of the receive loop of `leafForestForwardSolve3d`. -/
def leafForestForwardSolve3d_LSUM (fuel treeId nrhs : Nat) (LUstruct : dLUstruct_t)
    (trf3Dpartition : dtrf3Dpartition_t) (grid : gridinfo_t) (k : Nat)
    (s : SolveState) : Option SolveState :=
  let xsup := LUstruct.Glu_persist.xsup
  let Llu := LUstruct.Llu
  let lk := LBi k grid
  let ii := X_BLK Llu.ilsum nrhs lk
  let knsupc := SuperSize xsup k
  let s : SolveState := { s with x := addBlock s.x ii s.recvbuf LSUM_H knsupc nrhs }
  let s : SolveState := { s with frecv := Function.update s.frecv lk (s.frecv lk - 1) }
  if s.frecv lk = 0 ∧ s.fmod lk = 0 then
    let s : SolveState := { s with
      solved := s.solved ++ [SolveEvent.mk k lk (s.fmod lk) (s.frecv lk)]
      fmod := Function.update s.fmod lk (-1) }
    let lkj := LBj k grid
    match localSolveXkYk trtype_t.LOWER_TRI k ii nrhs LUstruct grid s with
    | none => none
    | some s =>
      let s := iBcastXk2Pck k (ii - XK_H) nrhs Llu.fsendx_plist LUstruct grid s
      match Llu.Lrowind_bc_ptr lkj with
      | none => none
      | some lsub =>
        let nb := lsub 0 - 1
        let lptr := BC_HEADER + LB_DESCRIPTOR + knsupc
        let luptr := knsupc
        dlsum_fmod_leaf fuel treeId trf3Dpartition nrhs xsup grid Llu
          { xk := XkPtr.x ii, knsupc := knsupc, k := k, nlb := nb,
            lptr := lptr, luptr := luptr } s
  else some s

/-- The loop `while (nfrecvx || nfrecvmod)` of `leafForestForwardSolve3d`, fed
with the messages that `MPI_Recv` delivers.  `none` when the loop still waits
and no message is left (the process blocks), or when a handler fails. -/
def leafForestForwardSolve3d_recv (fuel treeId nrhs : Nat) (LUstruct : dLUstruct_t)
    (trf3Dpartition : dtrf3Dpartition_t) (grid : gridinfo_t) :
    Int → Int → SolveState → List Message → Option SolveState
  | nfrecvx, nfrecvmod, s, [] => if nfrecvx ≠ 0 ∨ nfrecvmod ≠ 0 then none else some s
  | nfrecvx, nfrecvmod, s, m :: rest =>
    if nfrecvx ≠ 0 ∨ nfrecvmod ≠ 0 then
      let s := MPI_Recv m s
      let k := headerToBlock (s.recvbuf 0)
      match m.tag with
      | MsgTag.Xk =>
        match leafForestForwardSolve3d_Xk fuel treeId nrhs LUstruct trf3Dpartition grid k s with
        | none => none
        | some s =>
          leafForestForwardSolve3d_recv fuel treeId nrhs LUstruct trf3Dpartition grid
            (nfrecvx - 1) nfrecvmod s rest
      | MsgTag.LSUM =>
        match leafForestForwardSolve3d_LSUM fuel treeId nrhs LUstruct trf3Dpartition grid k s with
        | none => none
        | some s =>
          leafForestForwardSolve3d_recv fuel treeId nrhs LUstruct trf3Dpartition grid
            nfrecvx (nfrecvmod - 1) s rest
      | MsgTag.other =>
        leafForestForwardSolve3d_recv fuel treeId nrhs LUstruct trf3Dpartition grid
          nfrecvx nfrecvmod s rest
    else some s

/-- The part of `leafForestForwardSolve3d` from the set-up of the counters to the
exit of the receive loop, for a non-empty forest. -/
def leafForestForwardSolve3d_loop (fuel treeId n : Nat) (LUstruct : dLUstruct_t)
    (trf3Dpartition : dtrf3Dpartition_t) (grid : gridinfo_t) (nrhs : Nat)
    (sforest : sForest_t) (env : LeafEnv) (s : SolveState) : Option SolveState :=
  let Glu_persist := LUstruct.Glu_persist
  let mycol := MYCOL grid.iam grid
  let nsupers := Glu_persist.supno (n - 1) + 1
  let Pr := grid.nprow
  let nlb := CEILING nsupers Pr
  let fmod := getfmodLeaf nlb LUstruct env.modHeap
  let frecv := getfrecvLeaf sforest nlb (fun c => if c = mycol then fmod else env.rowMod c)
    grid env.rowModBit env.recvHeap
  let s : SolveState := { s with fmod := fmod, frecv := frecv }
  let nfrecvx := getNfrecvxLeaf sforest LUstruct grid
  let cnt := getNfrecvmodLeaf 0 sforest frecv fmod grid
  let nfrecvmod := cnt.1
  let nleaf := cnt.2
  match foldlOpt
      (fun st k0 => leafForestForwardSolve3d_seed fuel treeId nrhs LUstruct trf3Dpartition grid
        st (sforest.nodeList k0))
      (nleaf, s) (List.range sforest.nNodes) with
  | none => none
  | some st =>
    leafForestForwardSolve3d_recv fuel treeId nrhs LUstruct trf3Dpartition grid
      nfrecvx nfrecvmod st.2 env.msgs

/-- The routine `leafForestForwardSolve3d`: the return value and the final
state.  After the receive loop the counter arrays are freed (their last content
stays visible in the state), every posted send is waited for and
`Llu->SolveMsgSent` is reset. -/
def leafForestForwardSolve3d (fuel treeId n : Nat) (LUstruct : dLUstruct_t)
    (trf3Dpartition : dtrf3Dpartition_t) (grid3d : gridinfo3d_t) (nrhs : Nat)
    (env : LeafEnv) (s : SolveState) : Option (Int × SolveState) :=
  match trf3Dpartition.sForests treeId with
  | none => some (0, s)
  | some sforest =>
    if sforest.nNodes < 1 then some (1, s)
    else
      match leafForestForwardSolve3d_loop fuel treeId n LUstruct trf3Dpartition grid3d.grid2d
          nrhs sforest env s with
      | none => none
      | some s => some (0, { s with SolveMsgSent := 0 })

/-! ## Backward leaf solve: block updates with U -/

/-- Modelled from the spec: macro `FstBlockC` of `superlu_defs.h` (not among the
sources); the first column of supernode `k`. -/
def FstBlockC (xsup : Nat → Nat) (k : Nat) : Nat := xsup k

/-- The routine `getldu`: the longest segment of the block, `usub` being the
array seen through the pointer passed. -/
def getldu (knsupc iklrow : Nat) (usub : Nat → Nat) : Nat :=
  (List.range knsupc).foldl
    (fun ldu jj =>
      let fnz := usub jj
      if fnz < iklrow then max ldu (iklrow - fnz) else ldu)
    0

/-- Loop state of `packUblock`: the count `ncols`, the arrays `indCols` and `tU`
and the distances the pointers `tempu` and `uval` have moved. -/
structure PackState where
  ncols : Nat
  indCols : Nat → Nat
  tempu : Nat → ℚ
  tpos : Nat
  upos : Nat

/-- The routine `packUblock`.  `none` when a segment size `iklrow - usub[jj]` is
negative or exceeds `ldu`: the code would then move its pointers backwards. -/
def packUblock (ldu : Nat) (indCols : Nat → Nat) (knsupc iklrow : Nat) (usub : Nat → Nat)
    (tempu : Nat → ℚ) (uval : Nat → ℚ) : Option PackState :=
  foldlOpt
    (fun (st : PackState) jj =>
      if iklrow < usub jj then none
      else
        let segsize := iklrow - usub jj
        if segsize ≠ 0 then
          if ldu < segsize then none
          else
            let lead_zero := ldu - segsize
            let t := (List.range lead_zero).foldl
              (fun t i => Function.update t (st.tpos + i) 0) st.tempu
            let tpos := st.tpos + lead_zero
            let t := (List.range segsize).foldl
              (fun t i => Function.update t (tpos + i) (uval (st.upos + i))) t
            some { ncols := st.ncols + 1
                   indCols := Function.update st.indCols st.ncols jj
                   tempu := t
                   tpos := tpos + segsize
                   upos := st.upos + segsize }
        else some st)
    { ncols := 0, indCols := indCols, tempu := tempu, tpos := 0, upos := 0 }
    (List.range knsupc)

/-- The routine `packXbmod`: gather the rows `indCols` of `xk` into `tempx`. -/
def packXbmod (knsupc ncols nrhs : Nat) (indCols : Nat → Nat) (xk : Nat → ℚ)
    (tempx : Nat → ℚ) : Nat → ℚ :=
  (List.range nrhs).foldl
    (fun tempx j =>
      (List.range ncols).foldl
        (fun tempx jj => Function.update tempx (j * ncols + jj) (xk (j * knsupc + indCols jj)))
        tempx)
    tempx

/-- The routine `lsumBmod`: `lsum -= U(gik, gjk) * xk` through the packed block.
`usub`, `uval` and `xk` are the arrays seen through the pointers passed; the
pointer `lsum` is `&lsum[il]`.  `none` when `packUblock` fails or the block is
longer than the supernode `gik`. -/
def lsumBmod (gik gjk nrhs : Nat) (usub : Nat → Nat) (uval : Nat → ℚ) (xk : Nat → ℚ)
    (il : Nat) (xsup : Nat → Nat) (s : SolveState) : Option SolveState :=
  let iknsupc := SuperSize xsup gik
  let knsupc := SuperSize xsup gjk
  let iklrow := FstBlockC xsup (gik + 1)
  let ldu := getldu knsupc iklrow usub
  match packUblock ldu s.indCols knsupc iklrow usub s.tU uval with
  | none => none
  | some ps =>
    let ncols := ps.ncols
    let tX := if ncols < knsupc then packXbmod knsupc ncols nrhs ps.indCols xk s.tX else s.tX
    let X := if ncols < knsupc then tX else xk
    if iknsupc < ldu then none
    else
      let lsum := dgemm_ ldu nrhs ncols (-1) ps.tempu ldu X ncols 1 s.lsum
        (il + (iknsupc - ldu)) iknsupc
      some { s with
        tU := ps.tempu
        indCols := ps.indCols
        tX := tX
        lsum := lsum
        ops := s.ops + ((2 * ldu * nrhs * ncols : Nat) : ℚ) }

/-- The arguments that change between the calls of `dlsum_bmod_GG`: the pointer
`xk` and the number `k` of the supernode. -/
structure BmodCall where
  xk : XkPtr
  k : Nat

/-- Body of the loop `for (ub = 0; ub < nub; ++ub)` of `dlsum_bmod_GG`.  `recurse`
is the routine itself, called for the cascade.  `none` when the code
dereferences a `NULL` pointer, `lsumBmod` fails or `recurse` fails. -/
def dlsum_bmod_GG_block (recurse : BmodCall → SolveState → Option SolveState)
    (xk : XkPtr) (nrhs k : Nat) (xsup : Nat → Nat) (grid : gridinfo_t) (Llu : dLocalLU_t)
    (s : SolveState) (ub : Nat) : Option SolveState :=
  let iam := grid.iam
  let myrow := MYROW iam grid
  let lk := LBj k grid
  let ik := (Llu.Ucb_indptr lk ub).lbnum
  match Llu.Ufstnz_br_ptr ik with
  | none => none
  | some usub =>
    let uval := Llu.Unzval_br_ptr ik
    let i := (Llu.Ucb_indptr lk ub).indpos + UB_DESCRIPTOR
    let il := LSUM_BLK Llu.ilsum nrhs ik
    let gik := ik * grid.nprow + myrow
    let iknsupc := SuperSize xsup gik
    match lsumBmod gik k nrhs (fun j => usub (i + j))
        (fun j => uval (Llu.Ucb_valptr lk ub + j)) (xk.read s) il xsup s with
    | none => none
    | some s =>
      let s : SolveState := { s with
        bmod := Function.update s.bmod ik (s.bmod ik - 1)
        decs := s.decs ++ [(ik, s.bmod ik - 1)] }
      if s.bmod ik = 0 then
        let gikcol := PCOL gik grid
        let p := PNUM myrow gikcol grid
        if iam ≠ p then
          let s := MPI_Isend s.lsum (il - LSUM_H) (iknsupc * nrhs + LSUM_H) p MsgTag.LSUM s
          some { s with lsumFwd := s.lsumFwd ++ [(ik, true)] }
        else
          let ii := X_BLK Llu.ilsum nrhs ik
          let s : SolveState := { s with
            x := addBlock s.x ii s.lsum il iknsupc nrhs
            lsumFwd := s.lsumFwd ++ [(ik, false)] }
          if s.brecv ik = 0 then
            let s : SolveState := { s with
              solved := s.solved ++ [SolveEvent.mk gik ik (s.bmod ik) (s.brecv ik)]
              bmod := Function.update s.bmod ik (-1) }
            let lk1 := LBj gik grid
            match Llu.Lrowind_bc_ptr lk1 with
            | none => none
            | some lsub =>
              let lusup := Llu.Lnzval_bc_ptr lk1
              let nsupr := lsub 1
              let s : SolveState := { s with
                x := dtrsm_ UpLo.upper Diag.nonUnit iknsupc nrhs 1 lusup nsupr s.x ii iknsupc
                ops := s.ops + ((iknsupc * (iknsupc + 1) * nrhs : Nat) : ℚ) }
              let s : SolveState := (List.range grid.nprow).foldl
                (fun s p =>
                  if Llu.bsendx_plist lk1 p ≠ EMPTY then
                    let pi := PNUM p gikcol grid
                    MPI_Isend s.x (ii - XK_H) (iknsupc * nrhs + XK_H) pi MsgTag.Xk s
                  else s)
                s
              if Llu.Urbs lk1 ≠ 0 then recurse { xk := XkPtr.x ii, k := gik } s
              else some s
          else some s
      else some s

/-- One activation of `dlsum_bmod_GG` given the routine used for the cascade. -/
def dlsum_bmod_GG_with (recurse : BmodCall → SolveState → Option SolveState)
    (nrhs : Nat) (xsup : Nat → Nat) (grid : gridinfo_t) (Llu : dLocalLU_t)
    (c : BmodCall) (s : SolveState) : Option SolveState :=
  let lk := LBj c.k grid
  let nub := Llu.Urbs lk
  foldlOpt (fun s ub => dlsum_bmod_GG_block recurse c.xk nrhs c.k xsup grid Llu s ub)
    s (List.range nub)

/-- The routine `dlsum_bmod_GG`.  `fuel` bounds the depth of the cascade of
recursive calls: with `fuel = 0` a recursive call yields `none`. -/
def dlsum_bmod_GG : Nat → Nat → (Nat → Nat) → gridinfo_t → dLocalLU_t →
    BmodCall → SolveState → Option SolveState
  | 0, nrhs, xsup, grid, Llu, c, s =>
    dlsum_bmod_GG_with (fun _ _ => none) nrhs xsup grid Llu c s
  | fuel + 1, nrhs, xsup, grid, Llu, c, s =>
    dlsum_bmod_GG_with (fun c1 s1 => dlsum_bmod_GG fuel nrhs xsup grid Llu c1 s1)
      nrhs xsup grid Llu c s

/-! ## Backward leaf solve: `leafForestBackSolve3d` -/

/-- The array `mod_bit` built by `getBrecvTree` before the all-reduce. -/
def getBrecvTree_mod_bit (nlb : Nat) (sforest : sForest_t) (grid : gridinfo_t)
    (mod_bit : Nat → Int) : Nat → Int :=
  let mod_bit := (List.range nlb).foldl (fun mod_bit k => Function.update mod_bit k 0) mod_bit
  let myrow := MYROW grid.iam grid
  let mycol := MYCOL grid.iam grid
  (List.range sforest.nNodes).foldl
    (fun mod_bit k0 =>
      let k := sforest.nodeList k0
      let krow := PROW k grid
      if myrow = krow then
        let lk := LBi k grid
        let kcol := PCOL k grid
        if mycol ≠ kcol then Function.update mod_bit lk 1 else mod_bit
      else mod_bit)
    mod_bit

/-- The routine `getBrecvTree` run by the whole process row: the process in column
`c` starts from the scratch array `mod_bitRow c`; the all-reduce over the row
communicator sums the `mod_bit` arrays.  `none` is the `NULL` returned for a
forest without nodes. -/
def getBrecvTree (nlb : Nat) (sforest : sForest_t) (grid : gridinfo_t)
    (mod_bitRow : Nat → Nat → Int) (heap : Nat → Int) : Option (Nat → Int) :=
  if sforest.nNodes < 1 then none
  else
    some (MPI_Allreduce_SUM
      (fun c => getBrecvTree_mod_bit nlb sforest (grid.inColumn c) (mod_bitRow c))
      nlb grid.npcol heap)

/-- The routine `getNrootUsolveTree`: the pair `(nroot, nbrecvmod)` of the return
value and of the updated message count. -/
def getNrootUsolveTree (nbrecvmod : Int) (sforest : sForest_t) (brecv bmod : Nat → Int)
    (grid : gridinfo_t) : Int × Int :=
  if sforest.nNodes < 1 then (0, nbrecvmod)
  else
    let myrow := MYROW grid.iam grid
    let mycol := MYCOL grid.iam grid
    (List.range sforest.nNodes).foldl
      (fun (st : Int × Int) k0 =>
        let k := sforest.nodeList k0
        let krow := PROW k grid
        if myrow = krow then
          let lk := LBi k grid
          let kcol := PCOL k grid
          if mycol = kcol then
            (if brecv lk = 0 ∧ bmod lk = 0 then st.1 + 1 else st.1, st.2 + brecv lk)
          else st
        else st)
      (0, nbrecvmod)

/-- The routine `getNbrecvX`: number of `Xk` messages this process expects. -/
def getNbrecvX (sforest : sForest_t) (Urbs : Nat → Nat) (grid : gridinfo_t) : Int :=
  if sforest.nNodes < 1 then 0
  else
    let myrow := MYROW grid.iam grid
    let mycol := MYCOL grid.iam grid
    (List.range sforest.nNodes).foldl
      (fun (nbrecvx : Int) k0 =>
        let k := sforest.nodeList k0
        let krow := PROW k grid
        let kcol := PCOL k grid
        if mycol = kcol ∧ myrow ≠ krow then
          let lk := LBj k grid
          let nub := Urbs lk
          if nub > 0 then nbrecvx + 1 else nbrecvx
        else nbrecvx)
      0

/-- Body of the seeding loop of `leafForestBackSolve3d` for the node `k`; the loop
state is `(nroot, s)`. -/
def leafForestBackSolve3d_seed (fuel nrhs : Nat) (LUstruct : dLUstruct_t)
    (grid : gridinfo_t) (st : Int × SolveState) (k : Nat) : Option (Int × SolveState) :=
  let xsup := LUstruct.Glu_persist.xsup
  let Llu := LUstruct.Llu
  let myrow := MYROW grid.iam grid
  let mycol := MYCOL grid.iam grid
  let nroot := st.1
  let s := st.2
  let krow := PROW k grid
  let kcol := PCOL k grid
  if myrow = krow then
    let lk := LBi k grid
    if s.bmod lk = 0 then
      let il := LSUM_BLK Llu.ilsum nrhs lk
      let knsupc := SuperSize xsup k
      if mycol ≠ kcol then
        let p := PNUM myrow kcol grid
        let s := MPI_Isend s.lsum (il - LSUM_H) (knsupc * nrhs + LSUM_H) p MsgTag.LSUM s
        some (nroot, { s with lsumFwd := s.lsumFwd ++ [(lk, true)] })
      else
        let ii := X_BLK Llu.ilsum nrhs lk
        let s : SolveState := { s with
          x := addBlock s.x ii s.lsum il knsupc nrhs
          lsumFwd := s.lsumFwd ++ [(lk, false)] }
        if s.brecv lk = 0 then
          let s : SolveState := { s with
            solved := s.solved ++ [SolveEvent.mk k lk (s.bmod lk) (s.brecv lk)]
            bmod := Function.update s.bmod lk (-1) }
          let lkj := LBj k grid
          match localSolveXkYk trtype_t.UPPER_TRI k ii nrhs LUstruct grid s with
          | none => none
          | some s =>
            let nroot := nroot - 1
            let s := iBcastXk2Pck k (ii - XK_H) nrhs Llu.bsendx_plist LUstruct grid s
            if Llu.Urbs lkj ≠ 0 then
              match dlsum_bmod_GG fuel nrhs xsup grid Llu { xk := XkPtr.x ii, k := k } s with
              | none => none
              | some s => some (nroot, s)
            else some (nroot, s)
        else some (nroot, s)
    else some st
  else some st

/-- The case `LSUM` of the receive loop of `leafForestBackSolve3d`. -/
def leafForestBackSolve3d_LSUM (fuel nrhs : Nat) (LUstruct : dLUstruct_t)
    (grid : gridinfo_t) (k : Nat) (s : SolveState) : Option SolveState :=
  let xsup := LUstruct.Glu_persist.xsup
  let Llu := LUstruct.Llu
  let lk := LBi k grid
  let ii := X_BLK Llu.ilsum nrhs lk
  let knsupc := SuperSize xsup k
  let s : SolveState := { s with x := addBlock s.x ii s.recvbuf LSUM_H knsupc nrhs }
  let s : SolveState := { s with brecv := Function.update s.brecv lk (s.brecv lk - 1) }
  if s.brecv lk = 0 ∧ s.bmod lk = 0 then
    let s : SolveState := { s with
      solved := s.solved ++ [SolveEvent.mk k lk (s.bmod lk) (s.brecv lk)]
      bmod := Function.update s.bmod lk (-1) }
    let lkj := LBj k grid
    match localSolveXkYk trtype_t.UPPER_TRI k ii nrhs LUstruct grid s with
    | none => none
    | some s =>
      let s := iBcastXk2Pck k (ii - XK_H) nrhs Llu.bsendx_plist LUstruct grid s
      if Llu.Urbs lkj ≠ 0 then
        dlsum_bmod_GG fuel nrhs xsup grid Llu { xk := XkPtr.x ii, k := k } s
      else some s
  else some s

/-- The loop `while (nbrecvx || nbrecvmod)` of `leafForestBackSolve3d`, fed with
the messages that `MPI_Recv` delivers.  `none` when the loop still waits and no
message is left (the process blocks), or when a handler fails. -/
def leafForestBackSolve3d_recv (fuel nrhs : Nat) (LUstruct : dLUstruct_t)
    (grid : gridinfo_t) : Int → Int → SolveState → List Message → Option SolveState
  | nbrecvx, nbrecvmod, s, [] => if nbrecvx ≠ 0 ∨ nbrecvmod ≠ 0 then none else some s
  | nbrecvx, nbrecvmod, s, m :: rest =>
    if nbrecvx ≠ 0 ∨ nbrecvmod ≠ 0 then
      let s := MPI_Recv m s
      let k := headerToBlock (s.recvbuf 0)
      match m.tag with
      | MsgTag.Xk =>
        match dlsum_bmod_GG fuel nrhs LUstruct.Glu_persist.xsup grid LUstruct.Llu
            { xk := XkPtr.recvbuf XK_H, k := k } s with
        | none => none
        | some s => leafForestBackSolve3d_recv fuel nrhs LUstruct grid (nbrecvx - 1) nbrecvmod s rest
      | MsgTag.LSUM =>
        match leafForestBackSolve3d_LSUM fuel nrhs LUstruct grid k s with
        | none => none
        | some s => leafForestBackSolve3d_recv fuel nrhs LUstruct grid nbrecvx (nbrecvmod - 1) s rest
      | MsgTag.other => leafForestBackSolve3d_recv fuel nrhs LUstruct grid nbrecvx nbrecvmod s rest
    else some s

/-- The part of `leafForestBackSolve3d` from the set-up of the counters to the
exit of the receive loop, for a non-empty forest. -/
def leafForestBackSolve3d_loop (fuel treeId n : Nat) (LUstruct : dLUstruct_t)
    (trf3Dpartition : dtrf3Dpartition_t) (grid : gridinfo_t) (nrhs : Nat)
    (sforest : sForest_t) (env : LeafEnv) (s : SolveState) : Option SolveState :=
  let Llu := LUstruct.Llu
  let nsupers := LUstruct.Glu_persist.supno (n - 1) + 1
  let Pr := grid.nprow
  let nlb := CEILING nsupers Pr
  match getBmod3d treeId nlb sforest LUstruct trf3Dpartition grid env.modHeap with
  | none => none
  | some bmod =>
    match getBrecvTree nlb sforest grid env.rowModBit env.recvHeap with
    | none => none
    | some brecv =>
      let s : SolveState := { s with bmod := bmod, brecv := brecv }
      let cnt := getNrootUsolveTree 0 sforest brecv bmod grid
      let nroot := cnt.1
      let nbrecvmod := cnt.2
      let nbrecvx := getNbrecvX sforest Llu.Urbs grid
      match foldlOpt
          (fun st k0 => leafForestBackSolve3d_seed fuel nrhs LUstruct grid st (sforest.nodeList k0))
          (nroot, s) (List.range sforest.nNodes).reverse with
      | none => none
      | some st => leafForestBackSolve3d_recv fuel nrhs LUstruct grid nbrecvx nbrecvmod st.2 env.msgs

/-- The routine `leafForestBackSolve3d`: the return value and the final state. -/
def leafForestBackSolve3d (fuel treeId n : Nat) (LUstruct : dLUstruct_t)
    (trf3Dpartition : dtrf3Dpartition_t) (grid3d : gridinfo3d_t) (nrhs : Nat)
    (env : LeafEnv) (s : SolveState) : Option (Int × SolveState) :=
  match trf3Dpartition.sForests treeId with
  | none => some (0, s)
  | some sforest =>
    if sforest.nNodes < 1 then some (1, s)
    else
      match leafForestBackSolve3d_loop fuel treeId n LUstruct trf3Dpartition grid3d.grid2d
          nrhs sforest env s with
      | none => none
      | some s => some (0, { s with SolveMsgSent := 0 })

/-! ## Redistribution between `B` and `X` -/

/-- The permutation vectors of `dScalePermstruct_t` that the solve reads. -/
structure dScalePermstruct_t where
  perm_r : Nat → Nat
  perm_c : Nat → Nat

/-- The count arrays of `pxgstrs_comm_t`; each holds eight consecutive arrays of
`procs` entries (send counts, send counts times `nrhs`, receive counts, receive
counts times `nrhs`, and the four displacement arrays in the same order). -/
structure pxgstrs_comm_t where
  B_to_X_SendCnt : Nat → Nat
  X_to_B_SendCnt : Nat → Nat

/-- The fields of `dSOLVEstruct_t` that the solve reads. -/
structure dSOLVEstruct_t where
  row_to_proc : Nat → Nat
  num_diag_procs : Nat
  diag_procs : Nat → Nat
  gstrs_comm : pxgstrs_comm_t

/-- Modelled from the spec: macro `BlockNum` of `superlu_defs.h` (not among the
sources); the supernode of column `i`. -/
def BlockNum (supno : Nat → Nat) (i : Nat) : Nat := supno i

/-- The buffers of a redistribution: the index buffer `send_ibuf` and the value
buffer `send_dbuf` (their receive halves start at the offsets `k` and
`k * nrhs`), and the cursors `ptr_to_ibuf`, `ptr_to_dbuf`. -/
structure RedistBuf where
  ibuf : Nat → Nat
  dbuf : Nat → ℚ
  ptr_to_ibuf : Nat → Nat
  ptr_to_dbuf : Nat → Nat

/-- Modelled from the spec: `MPI_Alltoallv` on a communicator whose only member
is the caller; the `SendCnt[0]` words at `sendoff + sdispls[0]` are copied to
`recvoff + rdispls[0]`.  `none` when the message is longer than the receive
count. -/
def MPI_Alltoallv_self {α : Type} (buf : Nat → α) (sendoff : Nat) (SendCnt sdispls : Nat → Nat)
    (recvoff : Nat) (RecvCnt rdispls : Nat → Nat) : Option (Nat → α) :=
  if RecvCnt 0 < SendCnt 0 then none
  else
    some (fun i =>
      if recvoff + rdispls 0 ≤ i ∧ i < recvoff + rdispls 0 + SendCnt 0 then
        buf (sendoff + sdispls 0 + (i - (recvoff + rdispls 0)))
      else buf i)

/-- The loop of `pdReDistribute3d_B_to_X` that copies the row indices and the
values of `B` to the send buffers. -/
def pdReDistribute3d_B_to_X_pack (B : Nat → ℚ) (m_loc nrhs ldb fst_row : Nat)
    (ScalePermstruct : dScalePermstruct_t) (Glu_persist : Glu_persist_t) (grid : gridinfo_t)
    (st : RedistBuf) : RedistBuf :=
  (List.range m_loc).foldl
    (fun (st : RedistBuf) i =>
      let l := fst_row + i
      let irow := ScalePermstruct.perm_c (ScalePermstruct.perm_r l)
      let gbi := BlockNum Glu_persist.supno irow
      let p := PNUM (PROW gbi grid) (PCOL gbi grid) grid
      let k := st.ptr_to_ibuf p
      let ibuf := Function.update st.ibuf k irow
      let k := st.ptr_to_dbuf p
      let dbuf := (List.range nrhs).foldl
        (fun dbuf j => Function.update dbuf (k + j) (B (i + j * ldb))) st.dbuf
      { ibuf := ibuf
        dbuf := dbuf
        ptr_to_ibuf := Function.update st.ptr_to_ibuf p (st.ptr_to_ibuf p + 1)
        ptr_to_dbuf := Function.update st.ptr_to_dbuf p (st.ptr_to_dbuf p + nrhs) })
    st

/-- The loop of `pdReDistribute3d_B_to_X` that copies the receive buffers into
`x`; `recv_ibuf` and `recv_dbuf` are the arrays seen through the pointers. -/
def pdReDistribute3d_B_to_X_unpack (x : Nat → ℚ) (procs nrhs : Nat)
    (RecvCnt rdispls_nrhs : Nat → Nat) (recv_ibuf : Nat → Nat) (recv_dbuf : Nat → ℚ)
    (ilsum : Nat → Nat) (Glu_persist : Glu_persist_t) (grid : gridinfo_t) : Nat → ℚ :=
  ((List.range procs).foldl
    (fun (st : (Nat → ℚ) × Nat) p =>
      let r := (List.range (RecvCnt p)).foldl
        (fun (st : (Nat → ℚ) × Nat × Nat) _ =>
          let x := st.1
          let ii := st.2.1
          let jj := st.2.2
          let irow := recv_ibuf ii
          let k := BlockNum Glu_persist.supno irow
          let knsupc := SuperSize Glu_persist.xsup k
          let lk := LBi k grid
          let l := X_BLK ilsum nrhs lk
          let x := Function.update x (l - XK_H) (k : ℚ)
          let irow := irow - FstBlockC Glu_persist.xsup k
          let x := (List.range nrhs).foldl
            (fun x j => Function.update x (l + irow + j * knsupc) (recv_dbuf (jj + j))) x
          (x, ii + 1, jj + nrhs))
        (st.1, st.2, rdispls_nrhs p)
      (r.1, r.2.1))
    (x, 0)).1

/-- The routine `pdReDistribute3d_B_to_X` on a grid layer made of one process:
the new `x` and the new cursors.  `heap` is the content of the freshly
allocated buffers.  On a layer other than layer 0 nothing is done; `none` on a
2D grid of more than one process, which this model does not cover. -/
def pdReDistribute3d_B_to_X (B : Nat → ℚ) (m_loc nrhs ldb fst_row : Nat) (ilsum : Nat → Nat)
    (x : Nat → ℚ) (ScalePermstruct : dScalePermstruct_t) (Glu_persist : Glu_persist_t)
    (grid3d : gridinfo3d_t) (SOLVEstruct : dSOLVEstruct_t) (heap : RedistBuf) :
    Option ((Nat → ℚ) × RedistBuf) :=
  let grid := grid3d.grid2d
  if grid3d.zscp.Iam ≠ 0 then some (x, heap)
  else
    let procs := grid.nprow * grid.npcol
    if procs ≠ 1 then none
    else
      let cnt := SOLVEstruct.gstrs_comm.B_to_X_SendCnt
      let SendCnt := cnt
      let SendCnt_nrhs := fun p => cnt (procs + p)
      let RecvCnt := fun p => cnt (2 * procs + p)
      let RecvCnt_nrhs := fun p => cnt (3 * procs + p)
      let sdispls := fun p => cnt (4 * procs + p)
      let sdispls_nrhs := fun p => cnt (5 * procs + p)
      let rdispls := fun p => cnt (6 * procs + p)
      let rdispls_nrhs := fun p => cnt (7 * procs + p)
      let k := sdispls (procs - 1) + SendCnt (procs - 1)
      let st : RedistBuf := (List.range procs).foldl
        (fun (st : RedistBuf) p =>
          { st with
            ptr_to_ibuf := Function.update st.ptr_to_ibuf p (sdispls p)
            ptr_to_dbuf := Function.update st.ptr_to_dbuf p (sdispls p * nrhs) })
        heap
      let st := pdReDistribute3d_B_to_X_pack B m_loc nrhs ldb fst_row ScalePermstruct
        Glu_persist grid st
      match MPI_Alltoallv_self st.ibuf 0 SendCnt sdispls k RecvCnt rdispls with
      | none => none
      | some ibuf =>
        match MPI_Alltoallv_self st.dbuf 0 SendCnt_nrhs sdispls_nrhs (k * nrhs)
            RecvCnt_nrhs rdispls_nrhs with
        | none => none
        | some dbuf =>
          let x := pdReDistribute3d_B_to_X_unpack x procs nrhs RecvCnt rdispls_nrhs
            (fun i => ibuf (k + i)) (fun i => dbuf (k * nrhs + i)) ilsum Glu_persist grid
          some (x, { st with ibuf := ibuf, dbuf := dbuf })

/-- The loop of `pdReDistribute3d_X_to_B` that copies the solved blocks of `x`
owned by this process to the send buffers. -/
def pdReDistribute3d_X_to_B_pack (nsupers nrhs : Nat) (x : Nat → ℚ) (ilsum : Nat → Nat)
    (Glu_persist : Glu_persist_t) (grid : gridinfo_t) (SOLVEstruct : dSOLVEstruct_t)
    (st : RedistBuf) : RedistBuf :=
  let num_diag_procs := SOLVEstruct.num_diag_procs
  (List.range num_diag_procs).foldl
    (fun (st : RedistBuf) p =>
      let pkk := SOLVEstruct.diag_procs p
      if grid.iam = pkk then
        ((List.range ((nsupers - p + num_diag_procs - 1) / num_diag_procs)).map
            (fun t => p + t * num_diag_procs)).foldl
          (fun (st : RedistBuf) k =>
            let knsupc := SuperSize Glu_persist.xsup k
            let lk := LBi k grid
            let irow := FstBlockC Glu_persist.xsup k
            let l := X_BLK ilsum nrhs lk
            (List.range knsupc).foldl
              (fun (st : RedistBuf) i =>
                let ii := irow + i
                let q := SOLVEstruct.row_to_proc ii
                let jj := st.ptr_to_ibuf q
                let ibuf := Function.update st.ibuf jj ii
                let jj := st.ptr_to_dbuf q
                let dbuf := (List.range nrhs).foldl
                  (fun dbuf j => Function.update dbuf (jj + j) (x (l + i + j * knsupc))) st.dbuf
                { ibuf := ibuf
                  dbuf := dbuf
                  ptr_to_ibuf := Function.update st.ptr_to_ibuf q (st.ptr_to_ibuf q + 1)
                  ptr_to_dbuf := Function.update st.ptr_to_dbuf q (st.ptr_to_dbuf q + nrhs) })
              st)
          st
      else st)
    st

/-- The loop of `pdReDistribute3d_X_to_B` that copies the receive buffers into
`B`.  `none` when a received row index is below `fst_row`. -/
def pdReDistribute3d_X_to_B_unpack (B : Nat → ℚ) (m_loc ldb fst_row nrhs : Nat)
    (recv_ibuf : Nat → Nat) (recv_dbuf : Nat → ℚ) : Option (Nat → ℚ) :=
  (foldlOpt
    (fun (st : (Nat → ℚ) × Nat) i =>
      let B := st.1
      let k := st.2
      if recv_ibuf i < fst_row then none
      else
        let irow := recv_ibuf i - fst_row
        let B := (List.range nrhs).foldl
          (fun B j => Function.update B (irow + j * ldb) (recv_dbuf (k + j))) B
        some (B, k + nrhs))
    (B, 0) (List.range m_loc)).map (fun st => st.1)

/-- The routine `pdReDistribute3d_X_to_B` on a grid layer made of one process: the
new `B` and the buffers.  On a layer other than layer 0 nothing is done; `none`
on a 2D grid of more than one process, which this model does not cover. -/
def pdReDistribute3d_X_to_B (n : Nat) (B : Nat → ℚ) (m_loc ldb fst_row nrhs : Nat)
    (x : Nat → ℚ) (ilsum : Nat → Nat) (Glu_persist : Glu_persist_t)
    (grid3d : gridinfo3d_t) (SOLVEstruct : dSOLVEstruct_t) (heap : RedistBuf) :
    Option ((Nat → ℚ) × RedistBuf) :=
  let grid := grid3d.grid2d
  let nsupers := Glu_persist.supno (n - 1) + 1
  let procs := grid.nprow * grid.npcol
  if grid3d.zscp.Iam ≠ 0 then some (B, heap)
  else
    if procs ≠ 1 then none
    else
      let cnt := SOLVEstruct.gstrs_comm.X_to_B_SendCnt
      let SendCnt := cnt
      let SendCnt_nrhs := fun p => cnt (procs + p)
      let RecvCnt := fun p => cnt (2 * procs + p)
      let RecvCnt_nrhs := fun p => cnt (3 * procs + p)
      let sdispls := fun p => cnt (4 * procs + p)
      let sdispls_nrhs := fun p => cnt (5 * procs + p)
      let rdispls := fun p => cnt (6 * procs + p)
      let rdispls_nrhs := fun p => cnt (7 * procs + p)
      let k := sdispls (procs - 1) + SendCnt (procs - 1)
      let st : RedistBuf := (List.range procs).foldl
        (fun (st : RedistBuf) p =>
          { st with
            ptr_to_ibuf := Function.update st.ptr_to_ibuf p (sdispls p)
            ptr_to_dbuf := Function.update st.ptr_to_dbuf p (sdispls_nrhs p) })
        heap
      let st := pdReDistribute3d_X_to_B_pack nsupers nrhs x ilsum Glu_persist grid
        SOLVEstruct st
      match MPI_Alltoallv_self st.ibuf 0 SendCnt sdispls k RecvCnt rdispls with
      | none => none
      | some ibuf =>
        match MPI_Alltoallv_self st.dbuf 0 SendCnt_nrhs sdispls_nrhs (k * nrhs)
            RecvCnt_nrhs rdispls_nrhs with
        | none => none
        | some dbuf =>
          match pdReDistribute3d_X_to_B_unpack B m_loc ldb fst_row nrhs
              (fun i => ibuf (k + i)) (fun i => dbuf (k * nrhs + i)) with
          | none => none
          | some B => some (B, { st with ibuf := ibuf, dbuf := dbuf })

/-! ## The drivers of the two sweeps and `pdgstrs3d` -/

/-- Modelled from the spec: the function `log2i` (not among the sources), the
integer binary logarithm, so that `maxLvl = log2(D) + 1`. -/
def log2i (a : Nat) : Nat := Nat.log2 a

/-- Modelled from the spec: the function `sp_ienv_dist(3, options)` (not among
the sources), the maximum supernode size; the model takes it from the
argument. -/
def sp_ienv_dist (maxsup : Nat) : Nat := maxsup

/-- The loop that writes the block numbers into the headers of `lsum`. -/
def lsumHeaders (nsupers nrhs : Nat) (LUstruct : dLUstruct_t) (grid : gridinfo_t)
    (lsum : Nat → ℚ) : Nat → ℚ :=
  (List.range nsupers).foldl
    (fun lsum k =>
      if MYROW grid.iam grid = PROW k grid then
        let lk := LBi k grid
        let il := LSUM_BLK LUstruct.Llu.ilsum nrhs lk
        Function.update lsum (il - LSUM_H) (k : ℚ)
      else lsum)
    lsum

/-- The loop that sets the blocks of `lsum` of my process row to zero. -/
def lsumZero (nsupers nrhs : Nat) (LUstruct : dLUstruct_t) (grid : gridinfo_t)
    (lsum : Nat → ℚ) : Nat → ℚ :=
  (List.range nsupers).foldl
    (fun lsum k =>
      if MYROW grid.iam grid = PROW k grid then
        let knsupc := SuperSize LUstruct.Glu_persist.xsup k
        let lk := LBi k grid
        let il := LSUM_BLK LUstruct.Llu.ilsum nrhs lk
        (List.range nrhs).foldl
          (fun lsum j =>
            (List.range knsupc).foldl
              (fun lsum i => Function.update lsum (il + (i + j * knsupc)) 0) lsum)
          lsum
      else lsum)
    lsum

/-- The routine `pdgsTrForwardSolve3d` as far as one grid layer alone can run it.
`none` where the code needs a peer layer (the reduction of `lsum` after a level
that is not the last) or runs a non-leaf forest, which this model does not
cover, and where the leaf solve fails. -/
def pdgsTrForwardSolve3d (fuel n : Nat) (LUstruct : dLUstruct_t)
    (trf3Dpartition : dtrf3Dpartition_t) (grid3d : gridinfo3d_t) (nrhs maxsup : Nat)
    (env : LeafEnv) (s : SolveState) : Option SolveState :=
  let grid := grid3d.grid2d
  let nsupers := LUstruct.Glu_persist.supno (n - 1) + 1
  let maxLvl := log2i grid3d.zscp.Np + 1
  let knsupc := sp_ienv_dist maxsup
  let maxrecvsz := knsupc * nrhs + max XK_H LSUM_H
  let s : SolveState := { s with rtemp := fun i => if i < maxrecvsz then 0 else s.rtemp i }
  let s : SolveState := { s with lsum := lsumHeaders nsupers nrhs LUstruct grid s.lsum }
  let s : SolveState := { s with lsum := lsumZero nsupers nrhs LUstruct grid s.lsum }
  let s : SolveState := { s with SolveMsgSent := 0 }
  match foldlOpt
      (fun (s : SolveState) ilvl =>
        if trf3Dpartition.myZeroTrIdxs ilvl = 0 then
          let tree := trf3Dpartition.myTreeIdxs ilvl
          let r : Option SolveState :=
            match trf3Dpartition.sForests tree with
            | some _ =>
              if ilvl = 0 then
                (leafForestForwardSolve3d fuel tree n LUstruct trf3Dpartition grid3d nrhs
                  env s).map (fun r => r.2)
              else none
            | none => some s
          match r with
          | none => none
          | some s => if ilvl ≠ maxLvl - 1 then none else some s
        else some s)
      s (List.range maxLvl) with
  | none => none
  | some s => some { s with SolveMsgSent := 0 }

/-- The routine `pdgsTrBackSolve3d` as far as one grid layer alone can run it.
`none` where the code needs a peer layer (the broadcast of `xT` before a level
that is not the last), applies the updates of an ancestor forest or runs a
non-leaf forest, which this model does not cover, and where the leaf solve
fails. -/
def pdgsTrBackSolve3d (fuel n : Nat) (LUstruct : dLUstruct_t)
    (trf3Dpartition : dtrf3Dpartition_t) (grid3d : gridinfo3d_t) (nrhs : Nat)
    (env : LeafEnv) (s : SolveState) : Option SolveState :=
  let grid := grid3d.grid2d
  let nsupers := LUstruct.Glu_persist.supno (n - 1) + 1
  let maxLvl := log2i grid3d.zscp.Np + 1
  let s : SolveState := { s with lsum := lsumZero nsupers nrhs LUstruct grid s.lsum }
  let s : SolveState := { s with SolveMsgSent := 0 }
  match foldlOpt
      (fun (s : SolveState) ilvl =>
        if trf3Dpartition.myZeroTrIdxs ilvl = 0 then
          if ilvl ≠ maxLvl - 1 then none
          else
            let tree := trf3Dpartition.myTreeIdxs ilvl
            let trParent : Int := ((tree : Int) + 1) / 2 - 1
            if trParent > -1 then none
            else
              match trf3Dpartition.sForests tree with
              | some _ =>
                if ilvl = 0 then
                  (leafForestBackSolve3d fuel tree n LUstruct trf3Dpartition grid3d nrhs
                    env s).map (fun r => r.2)
                else none
              | none => some s
        else some s)
      s (List.range maxLvl).reverse with
  | none => none
  | some s => some { s with SolveMsgSent := 0 }

/-- The routine `trs_X_gather3d` as far as one grid layer alone can run it: `none`
when a level in which this layer takes part gathers from a peer layer. -/
def trs_X_gather3d (trf3Dpartition : dtrf3Dpartition_t) (grid3d : gridinfo3d_t)
    (s : SolveState) : Option SolveState :=
  let maxLvl := log2i grid3d.zscp.Np + 1
  foldlOpt
    (fun (s : SolveState) ilvl =>
      if trf3Dpartition.myZeroTrIdxs ilvl = 0 then none else some s)
    s (List.range (maxLvl - 1))

/-- What one call of `pdgstrs3d` can change: the right-hand side `B`, the solver
state, the cursors of `gstrs_comm`, and the list of the arguments with which
`pxerr_dist` was called. -/
structure SolveWorld where
  B : Nat → ℚ
  s : SolveState
  ptr_to_ibuf : Nat → Nat
  ptr_to_dbuf : Nat → Nat
  xerr : List Int

/-- What the environment supplies to one call of `pdgstrs3d`: the environments of
the two leaf solves and the contents of the freshly allocated redistribution
buffers. -/
structure SolveEnv where
  fwd : LeafEnv
  bwd : LeafEnv
  ibuf1 : Nat → Nat
  dbuf1 : Nat → ℚ
  ibuf2 : Nat → Nat
  dbuf2 : Nat → ℚ

/-- Modelled from the spec: macro `XT_BLK` (not among the sources), the start of
block `i` in `xT`, laid out like `X_BLK` with the offsets `ilsumT`. -/
def XT_BLK (ilsumT : Nat → Nat) (nrhs i : Nat) : Nat := ilsumT i * nrhs + (i + 1) * XK_H

/-- The loop of `pdgstrs3d` that fills `ilsumT`, starting from `ilsumT[0] = 0`. -/
def xT_ilsumT (nsupers : Nat) (LUstruct : dLUstruct_t) (grid : gridinfo_t)
    (heap : Nat → Nat) : Nat → Nat :=
  (List.range nsupers).foldl
    (fun ilsumT jb =>
      if MYCOL grid.iam grid = PCOL jb grid then
        let i := SuperSize LUstruct.Glu_persist.xsup jb
        let ljb := LBj jb grid
        Function.update ilsumT (ljb + 1) (ilsumT ljb + i)
      else ilsumT)
    (Function.update heap 0 0)

/-- The loop of `pdgstrs3d` that writes the block numbers into the headers of
`xT`. -/
def xT_headers (nsupers nrhs : Nat) (grid : gridinfo_t) (ilsumT : Nat → Nat)
    (xT : Nat → ℚ) : Nat → ℚ :=
  (List.range nsupers).foldl
    (fun xT jb =>
      if MYCOL grid.iam grid = PCOL jb grid then
        let ljb := LBj jb grid
        let jj := XT_BLK ilsumT nrhs ljb
        Function.update xT jj (jb : ℚ)
      else xT)
    xT

/-- The routine `trs_B_init3d` on layer 0: every broadcast over the layers has
this process as its root, so `x` keeps its content. -/
def trs_B_init3d (x : Nat → ℚ) : Nat → ℚ := x

/-- The part of `pdgstrs3d` after the test of the input parameters, as far as a
process of layer 0 alone can run it.  `none` for `n = 0` (the code reads
`supno[-1]`), on another layer (the factor arrives from layer 0), on more than
one layer at the final reduction of the statistics, and where a step fails. -/
def pdgstrs3d_solve (fuel n : Nat) (LUstruct : dLUstruct_t)
    (ScalePermstruct : dScalePermstruct_t) (trf3Dpartition : dtrf3Dpartition_t)
    (grid3d : gridinfo3d_t) (m_loc fst_row ldb nrhs maxsup : Nat)
    (SOLVEstruct : dSOLVEstruct_t) (env : SolveEnv) (w : SolveWorld) : Option SolveWorld :=
  let grid := grid3d.grid2d
  let Glu_persist := LUstruct.Glu_persist
  let Llu := LUstruct.Llu
  let nsupers := Glu_persist.supno (n - 1) + 1
  let nlb := CEILING nsupers grid.nprow
  let s : SolveState := { w.s with ops := 0, SolveMsgSent := 0 }
  if n = 0 ∨ grid3d.zscp.Iam ≠ 0 then none
  else
    let ilsum := Llu.ilsum
    let ldalsum := Llu.ldalsum
    let s : SolveState := { s with
      lsum := fun i => if i < ldalsum * nrhs + nlb * LSUM_H then 0 else s.lsum i }
    let ilsumT := xT_ilsumT nsupers LUstruct grid (fun _ => 0)
    let s : SolveState := { s with xT := xT_headers nsupers nrhs grid ilsumT s.xT }
    match pdReDistribute3d_B_to_X w.B m_loc nrhs ldb fst_row ilsum s.x ScalePermstruct
        Glu_persist grid3d SOLVEstruct
        { ibuf := env.ibuf1, dbuf := env.dbuf1,
          ptr_to_ibuf := w.ptr_to_ibuf, ptr_to_dbuf := w.ptr_to_dbuf } with
    | none => none
    | some r1 =>
      let s : SolveState := { s with x := trs_B_init3d r1.1 }
      match pdgsTrForwardSolve3d fuel n LUstruct trf3Dpartition grid3d nrhs maxsup env.fwd s with
      | none => none
      | some s =>
        match pdgsTrBackSolve3d fuel n LUstruct trf3Dpartition grid3d nrhs env.bwd s with
        | none => none
        | some s =>
          match trs_X_gather3d trf3Dpartition grid3d s with
          | none => none
          | some s =>
            match pdReDistribute3d_X_to_B n w.B m_loc ldb fst_row nrhs s.x ilsum Glu_persist
                grid3d SOLVEstruct
                { ibuf := env.ibuf2, dbuf := env.dbuf2,
                  ptr_to_ibuf := r1.2.ptr_to_ibuf, ptr_to_dbuf := r1.2.ptr_to_dbuf } with
            | none => none
            | some r2 =>
              if grid3d.zscp.Np ≠ 1 then none
              else
                some { w with
                  B := r2.1
                  s := s
                  ptr_to_ibuf := r2.2.ptr_to_ibuf
                  ptr_to_dbuf := r2.2.ptr_to_dbuf }

/-- The routine `pdgstrs3d`: the value stored in `*info` and what the call has
changed.  The dimensions `n` and `nrhs` are signed, as in the code. -/
def pdgstrs3d (fuel : Nat) (n : Int) (LUstruct : dLUstruct_t)
    (ScalePermstruct : dScalePermstruct_t) (trf3Dpartition : dtrf3Dpartition_t)
    (grid3d : gridinfo3d_t) (m_loc fst_row ldb : Nat) (nrhs : Int) (maxsup : Nat)
    (SOLVEstruct : dSOLVEstruct_t) (env : SolveEnv) (w : SolveWorld) :
    Option (Int × SolveWorld) :=
  let info : Int := 0
  let info : Int := if n < 0 then -1 else if nrhs < 0 then -9 else info
  if info ≠ 0 then some (info, { w with xerr := w.xerr ++ [-info] })
  else
    (pdgstrs3d_solve fuel n.toNat LUstruct ScalePermstruct trf3Dpartition grid3d m_loc
      fst_row ldb nrhs.toNat maxsup SOLVEstruct env w).map (fun w1 => (info, w1))

/-! ## Reduction of `lsum` between two layers: `fsolveReduceLsum3d` -/

/-- The arrays `lsum` and `recvbuf` of every process: `lsum layer iam` is the
array of the process with rank `iam` in the 2D grid of layer `layer`. -/
structure LayersState where
  lsum : Nat → Nat → Nat → ℚ
  recvbuf : Nat → Nat → Nat → ℚ

/-- Replace the array of the process `iam` of layer `layer`. -/
def setArray (a : Nat → Nat → Nat → ℚ) (layer iam : Nat) (v : Nat → ℚ) : Nat → Nat → Nat → ℚ :=
  Function.update a layer (Function.update (a layer) iam v)

/-- Modelled from the spec: `MPI_Reduce` with `MPI_SUM` over a communicator of
`size` processes, as seen by the root; the first `count` words of the receive
buffer of the root become the sums of the send buffers of all members. -/
def MPI_Reduce_SUM (sendbuf : Nat → Nat → ℚ) (count size : Nat) (recvbuf : Nat → ℚ) :
    Nat → ℚ :=
  fun t => if t < count then ((List.range size).map (fun c => sendbuf c t)).sum else recvbuf t

/-- Modelled from the spec: a matched pair `MPI_Send` / `MPI_Recv` of `count`
words; the first `count` words of the receive buffer become those of the send
buffer. -/
def MPI_SendRecv (sendbuf : Nat → ℚ) (count : Nat) (recvbuf : Nat → ℚ) : Nat → ℚ :=
  fun t => if t < count then sendbuf t else recvbuf t

/-- Body of the loop of `fsolveReduceLsum3d` for the node `k`, run by all the
processes of the layers `sender` and `receiver` together.  On layer `sender`
the processes of the process row of `k` (the test `myrow == krow`) reduce their
blocks `&lsum[LSUM_BLK(lk)]` into `recvbuf` of the process in column `kcol`,
which sends it to the process of the same rank on layer `receiver`; this
process (the tests `myrow == krow` and `mycol == kcol`) receives it into its
`recvbuf` and adds it into its block.  `ilsum iam` is the array `Llu->ilsum` of
the processes of rank `iam`, which `pdgstrs3d` broadcasts over the layers. -/
def fsolveReduceLsum3d_node (sender receiver nrhs : Nat) (xsup : Nat → Nat)
    (ilsum : Nat → Nat → Nat) (grid : gridinfo_t) (st : LayersState) (k : Nat) : LayersState :=
  let krow := PROW k grid
  let kcol := PCOL k grid
  let lk := LBi k grid
  let knsupc := SuperSize xsup k
  let root := PNUM krow kcol grid
  let red := MPI_Reduce_SUM
    (fun c t => st.lsum sender (PNUM krow c grid)
      (LSUM_BLK (ilsum (PNUM krow c grid)) nrhs lk + t))
    (knsupc * nrhs) grid.npcol (st.recvbuf sender root)
  let st : LayersState := { st with recvbuf := setArray st.recvbuf sender root red }
  let got := MPI_SendRecv (st.recvbuf sender root) (knsupc * nrhs) (st.recvbuf receiver root)
  let st : LayersState := { st with recvbuf := setArray st.recvbuf receiver root got }
  let ii := LSUM_BLK (ilsum root) nrhs lk
  { st with
    lsum := setArray st.lsum receiver root
      (addBlock (st.lsum receiver root) ii (st.recvbuf receiver root) 0 knsupc nrhs) }

/-- The routine `fsolveReduceLsum3d` run by all the processes of the layers
`sender` and `receiver`: nothing happens when the forest is `NULL`; `none` when
`sender = receiver` and the forest has a node, where every process takes the
sending branch and no receive is posted. -/
def fsolveReduceLsum3d (treeId sender receiver nrhs : Nat)
    (trf3Dpartition : dtrf3Dpartition_t) (xsup : Nat → Nat) (ilsum : Nat → Nat → Nat)
    (grid : gridinfo_t) (st : LayersState) : Option LayersState :=
  match trf3Dpartition.sForests treeId with
  | none => some st
  | some sforest =>
    if sender = receiver ∧ 0 < sforest.nNodes then none
    else
      some ((List.range sforest.nNodes).foldl
        (fun st k0 =>
          fsolveReduceLsum3d_node sender receiver nrhs xsup ilsum grid st (sforest.nodeList k0))
        st)

/-! ## Control flow of the drivers: layer pairs, ancestor trees, calls -/

/-- The pair `(sender, receiver)` that `pdgsTrForwardSolve3d` computes at the
level `ilvl` on the layer `myGrid`.  The shift `1 << k` is `2 ^ k` (the levels of
a grid stay far below the width of an `int`). -/
def pdgsTrForwardSolve3d_pair (myGrid ilvl : Nat) : Int × Int :=
  if myGrid % (1 <<< (ilvl + 1)) = 0 then
    ((myGrid : Int) + ((1 <<< ilvl : Nat) : Int), (myGrid : Int))
  else
    ((myGrid : Int), (myGrid : Int) - ((1 <<< ilvl : Nat) : Int))

/-- The pair `(sender, receiver)` that `trs_X_gather3d` computes at the level
`ilvl` on the layer `myGrid`. -/
def trs_X_gather3d_pair (myGrid ilvl : Nat) : Int × Int :=
  if myGrid % (1 <<< (ilvl + 1)) = 0 then
    ((myGrid : Int) + ((1 <<< ilvl : Nat) : Int), (myGrid : Int))
  else
    ((myGrid : Int), (myGrid : Int) - ((1 <<< ilvl : Nat) : Int))

/-- The pair `(sender, receiver)` that `bsolve_Xt_bcast` computes for the level
`ilvl` on the layer `myGrid`. -/
def bsolve_Xt_bcast_pair (myGrid ilvl : Nat) : Int × Int :=
  if myGrid % (1 <<< (ilvl + 1)) = 0 then
    ((myGrid : Int), (myGrid : Int) + ((1 <<< ilvl : Nat) : Int))
  else
    ((myGrid : Int) - ((1 <<< ilvl : Nat) : Int), (myGrid : Int))

/-- The loop `while (trParent > -1) { dlasum_bmod_Tree(trParent, tree, ...);
trParent = (trParent + 1) / 2 - 1; }` of `pdgsTrBackSolve3d`: the values of
`trParent` passed as `pTree`, in the order of the calls. -/
def ancestorLoop (trParent : Int) : List Int :=
  if h : trParent > -1 then trParent :: ancestorLoop ((trParent + 1) / 2 - 1) else []
termination_by (trParent + 1).toNat
decreasing_by
  show ((trParent + 1) / 2 - 1 + 1).toNat < (trParent + 1).toNat
  omega

/-- A call made by the level loop of one of the two drivers. -/
inductive DriverCall where
  | leafForestForwardSolve3d (tree : Nat)
  | nonLeafForestForwardSolve3d (tree : Nat)
  | fsolveReduceLsum3d (treeId : Nat) (sender receiver : Int)
  | bsolve_Xt_bcast (ilvl : Nat)
  | dlasum_bmod_Tree (pTree : Int) (cTree : Nat)
  | leafForestBackSolve3d (tree : Nat)
  | nonLeafForestBackSolve3d (tree : Nat)
deriving DecidableEq

/-- The level loop of `pdgsTrForwardSolve3d` as the list of the calls it makes,
each with the level `ilvl` of the iteration that makes it, every call being
taken to return. -/
def pdgsTrForwardSolve3d_calls (trf3Dpartition : dtrf3Dpartition_t) (grid3d : gridinfo3d_t) :
    List (Nat × DriverCall) :=
  let maxLvl := log2i grid3d.zscp.Np + 1
  (List.range maxLvl).foldl
    (fun (log : List (Nat × DriverCall)) ilvl =>
      if trf3Dpartition.myZeroTrIdxs ilvl = 0 then
        let tree := trf3Dpartition.myTreeIdxs ilvl
        let log :=
          match trf3Dpartition.sForests tree with
          | some _ =>
            if ilvl = 0 then log ++ [(ilvl, DriverCall.leafForestForwardSolve3d tree)]
            else log ++ [(ilvl, DriverCall.nonLeafForestForwardSolve3d tree)]
          | none => log
        if ilvl ≠ maxLvl - 1 then
          let myGrid := grid3d.zscp.Iam
          let sr := pdgsTrForwardSolve3d_pair myGrid ilvl
          (List.range' (ilvl + 1) (maxLvl - (ilvl + 1))).foldl
            (fun (log : List (Nat × DriverCall)) alvl =>
              let treeId := trf3Dpartition.myTreeIdxs alvl
              log ++ [(ilvl, DriverCall.fsolveReduceLsum3d treeId sr.1 sr.2)])
            log
        else log
      else log)
    []

/-- The level loop of `pdgsTrBackSolve3d` as the list of the calls it makes, each
with the level `ilvl` of the iteration that makes it, every call being taken to
return. -/
def pdgsTrBackSolve3d_calls (trf3Dpartition : dtrf3Dpartition_t) (grid3d : gridinfo3d_t) :
    List (Nat × DriverCall) :=
  let maxLvl := log2i grid3d.zscp.Np + 1
  (List.range maxLvl).reverse.foldl
    (fun (log : List (Nat × DriverCall)) ilvl =>
      if trf3Dpartition.myZeroTrIdxs ilvl = 0 then
        let log := log ++ [(ilvl, DriverCall.bsolve_Xt_bcast ilvl)]
        let tree := trf3Dpartition.myTreeIdxs ilvl
        let trParent : Int := ((tree : Int) + 1) / 2 - 1
        let log := (ancestorLoop trParent).foldl
          (fun (log : List (Nat × DriverCall)) pTree =>
            log ++ [(ilvl, DriverCall.dlasum_bmod_Tree pTree tree)])
          log
        match trf3Dpartition.sForests tree with
        | some _ =>
          if ilvl = 0 then log ++ [(ilvl, DriverCall.leafForestBackSolve3d tree)]
          else log ++ [(ilvl, DriverCall.nonLeafForestBackSolve3d tree)]
        | none => log
      else log)
    []

/-! ## Non-leaf forests: `nonLeafForestForwardSolve3d`, `nonLeafForestBackSolve3d` -/

/-- Modelled from the spec: the C library routine `memcpy` on `count` words of
type `double`: `dst[doff .. doff + count)` becomes `src[soff .. soff + count)`. -/
def memcpy (dst : Nat → ℚ) (doff : Nat) (src : Nat → ℚ) (soff count : Nat) : Nat → ℚ :=
  fun i => if doff ≤ i ∧ i < doff + count then src (soff + (i - doff)) else dst i

/-- Modelled from the spec: `MPI_Bcast` of `count` words as seen by one member of
the communicator: the root keeps its buffer, every other member gets the words
`rootData` of the root at the offset `off` of its buffer. -/
def MPI_Bcast (isRoot : Bool) (buf : Nat → ℚ) (off count : Nat) (rootData : Nat → ℚ) :
    Nat → ℚ :=
  if isRoot then buf
  else fun i => if off ≤ i ∧ i < off + count then rootData (i - off) else buf i

/-- What the other processes feed into the collectives of a non-leaf solve, for
the node `k`: `rowLsum k c` is the block `lsum_k` that the process in column `c`
of my process row contributes to the reduction, `colXk k` the block of `xT` that
the diagonal process of `k` broadcasts along my process column. -/
structure NonLeafEnv where
  rowLsum : Nat → Nat → Nat → ℚ
  colXk : Nat → Nat → ℚ

/-- A step of the node loop of a non-leaf solve. -/
inductive NonLeafStep where
  | lsumReducePrK (k : Nat)
  | localSolveXkYk (k : Nat)
  | bCastXk2Pck (k : Nat)
  | lsumForestFsolve (k : Nat)
  | lsumForestBsolve (k : Nat)
deriving DecidableEq

/-- The routine `lsumReducePrK`: the blocks `lsum_k` of my process row are summed
into `recvbuf` of the process in column `PCOL(k)`, which adds the sum into its
block of `x`. -/
def lsumReducePrK (k nrhs : Nat) (LUstruct : dLUstruct_t) (grid : gridinfo_t)
    (env : NonLeafEnv) (s : SolveState) : SolveState :=
  let xsup := LUstruct.Glu_persist.xsup
  let Llu := LUstruct.Llu
  let knsupc := SuperSize xsup k
  let lk := LBi k grid
  let mycol := MYCOL grid.iam grid
  let kcol := PCOL k grid
  let ii := LSUM_BLK Llu.ilsum nrhs lk
  let s : SolveState :=
    if mycol = kcol then
      let red := MPI_Reduce_SUM
        (fun c t => if c = mycol then s.lsum (ii + t) else env.rowLsum k c t)
        (knsupc * nrhs) grid.npcol s.recvbuf
      { s with recvbuf := red }
    else s
  if mycol = kcol then
    let ii := X_BLK Llu.ilsum nrhs lk
    { s with x := addBlock s.x ii s.recvbuf 0 knsupc nrhs }
  else s

/-- The routine `bCastXk2Pck`: the block of `xT` of supernode `k` is broadcast
along the process column from the process in row `PROW(k)`. -/
def bCastXk2Pck (k nrhs : Nat) (LUstruct : dLUstruct_t) (grid : gridinfo_t)
    (ilsumT : Nat → Nat) (env : NonLeafEnv) (s : SolveState) : SolveState :=
  let xsup := LUstruct.Glu_persist.xsup
  let lk := LBj k grid
  let ii := XT_BLK ilsumT nrhs lk
  let knsupc := SuperSize xsup k
  let krow := PROW k grid
  let xk := MPI_Bcast (decide (MYROW grid.iam grid = krow)) s.xT ii (knsupc * nrhs)
    (env.colXk k)
  { s with xT := xk }

/-- Body of the loop `for (lb = 0; lb < nlb; ++lb)` of `lsumForestFsolve`; the
loop state is `(lptr, luptr, s)` and `xk` is the array seen through `&xT[ii]`. -/
def lsumForestFsolve_block (nrhs knsupc : Nat) (xsup : Nat → Nat) (grid : gridinfo_t)
    (Llu : dLocalLU_t) (lsub : Nat → Nat) (lusup : Nat → ℚ) (nsupr : Nat) (xk : Nat → ℚ)
    (st : Nat × Nat × SolveState) : Nat × Nat × SolveState :=
  let lptr := st.1
  let luptr := st.2.1
  let s := st.2.2
  let ik := lsub lptr
  let nbrow := lsub (lptr + 1)
  let rtemp := dgemm_ nbrow nrhs knsupc 1 (fun i => lusup (luptr + i)) nsupr xk knsupc
    0 s.rtemp 0 nbrow
  let ops := s.ops + ((2 * nbrow * nrhs * knsupc + nbrow * nrhs : Nat) : ℚ)
  let lk := LBi ik grid
  let iknsupc := SuperSize xsup ik
  let il := LSUM_BLK Llu.ilsum nrhs lk
  let lptr := lptr + LB_DESCRIPTOR
  let rel := xsup ik
  let lsum := lsumScatterSub s.lsum il iknsupc nbrow nrhs lsub lptr rel rtemp
  (lptr + nbrow, luptr + nbrow, { s with rtemp := rtemp, ops := ops, lsum := lsum })

/-- The routine `lsumForestFsolve`: `lsum[i] -= L_i,k * X[k]` for the blocks of the
block column of `k` below the diagonal block, with `X[k]` read from `xT`. -/
def lsumForestFsolve (k nrhs : Nat) (LUstruct : dLUstruct_t) (grid : gridinfo_t)
    (ilsumT : Nat → Nat) (s : SolveState) : SolveState :=
  let xsup := LUstruct.Glu_persist.xsup
  let Llu := LUstruct.Llu
  let myrow := MYROW grid.iam grid
  let lk := LBj k grid
  match Llu.Lrowind_bc_ptr lk with
  | none => s
  | some lsub =>
    let lusup := Llu.Lnzval_bc_ptr lk
    let nsupr := lsub 1
    let krow := PROW k grid
    let knsupc := SuperSize xsup k
    let nlb := if myrow = krow then lsub 0 - 1 else lsub 0
    let lptr := if myrow = krow then BC_HEADER + (LB_DESCRIPTOR + knsupc) else BC_HEADER
    let luptr := if myrow = krow then knsupc else 0
    let ii := XT_BLK ilsumT nrhs lk
    ((List.range nlb).foldl
      (fun st _ => lsumForestFsolve_block nrhs knsupc xsup grid Llu lsub lusup nsupr
        (fun i => s.xT (ii + i)) st)
      (lptr, luptr, s)).2.2

/-- The routine `lsumForestBsolve`: `lsum[i] -= U_i,k * X[k]` for the blocks of the
block column of `k` whose row supernode is in the forest `treeId`, with `X[k]`
read from `xT`.  `none` when such a block row has no U storage (the code reads
through the `NULL` pointer) or `lsumBmod` fails. -/
def lsumForestBsolve (k treeId nrhs : Nat) (LUstruct : dLUstruct_t)
    (trf3Dpartition : dtrf3Dpartition_t) (grid : gridinfo_t) (ilsumT : Nat → Nat)
    (s : SolveState) : Option SolveState :=
  let xsup := LUstruct.Glu_persist.xsup
  let Llu := LUstruct.Llu
  let myrow := MYROW grid.iam grid
  let lk := LBj k grid
  let nub := Llu.Urbs lk
  let ii := XT_BLK ilsumT nrhs lk
  foldlOpt
    (fun (s : SolveState) ub =>
      let ik := (Llu.Ucb_indptr lk ub).lbnum
      let gik := ik * grid.nprow + myrow
      if trf3Dpartition.supernode2treeMap gik = treeId then
        match Llu.Ufstnz_br_ptr ik with
        | none => none
        | some usub =>
          let uval := Llu.Unzval_br_ptr ik
          let i := (Llu.Ucb_indptr lk ub).indpos + UB_DESCRIPTOR
          let il := LSUM_BLK Llu.ilsum nrhs ik
          lsumBmod gik k nrhs (fun j => usub (i + j))
            (fun j => uval (Llu.Ucb_valptr lk ub + j)) (fun t => s.xT (ii + t)) il xsup s
      else some s)
    s (List.range nub)

/-- The step of the diagonal process in the node loop of a non-leaf solve:
`localSolveXkYk` on the block of `x`, then the `memcpy` of the solved block to
the block of `xT`. -/
def nonLeafForest_diagSolve (trtype : trtype_t) (k nrhs : Nat) (LUstruct : dLUstruct_t)
    (grid : gridinfo_t) (ilsumT : Nat → Nat) (s : SolveState) : Option SolveState :=
  let lk := LBi k grid
  let ii := X_BLK LUstruct.Llu.ilsum nrhs lk
  match localSolveXkYk trtype k ii nrhs LUstruct grid s with
  | none => none
  | some s =>
    let lkj := LBj k grid
    let jj := XT_BLK ilsumT nrhs lkj
    let knsupc := SuperSize LUstruct.Glu_persist.xsup k
    some { s with xT := memcpy s.xT jj s.x ii (knsupc * nrhs) }

/-- Body of the node loop of `nonLeafForestForwardSolve3d` for the node `k`; the
loop state is the list of the steps run so far and the solver state. -/
def nonLeafForestForwardSolve3d_node (nrhs : Nat) (LUstruct : dLUstruct_t)
    (grid : gridinfo_t) (ilsumT : Nat → Nat) (env : NonLeafEnv)
    (st : List NonLeafStep × SolveState) (k : Nat) : Option (List NonLeafStep × SolveState) :=
  let myrow := MYROW grid.iam grid
  let mycol := MYCOL grid.iam grid
  let krow := PROW k grid
  let kcol := PCOL k grid
  let st : List NonLeafStep × SolveState :=
    if myrow = krow then
      (st.1 ++ [NonLeafStep.lsumReducePrK k], lsumReducePrK k nrhs LUstruct grid env st.2)
    else st
  if mycol = kcol then
    let r : Option (List NonLeafStep × SolveState) :=
      if myrow = krow then
        match nonLeafForest_diagSolve trtype_t.LOWER_TRI k nrhs LUstruct grid ilsumT st.2 with
        | none => none
        | some s => some (st.1 ++ [NonLeafStep.localSolveXkYk k], s)
      else some st
    match r with
    | none => none
    | some st =>
      let st : List NonLeafStep × SolveState :=
        (st.1 ++ [NonLeafStep.bCastXk2Pck k], bCastXk2Pck k nrhs LUstruct grid ilsumT env st.2)
      some (st.1 ++ [NonLeafStep.lsumForestFsolve k],
        lsumForestFsolve k nrhs LUstruct grid ilsumT st.2)
  else some st

/-- The routine `nonLeafForestForwardSolve3d` as seen by one process: the return
value, the steps of the node loop in the order in which they were run, and the
final state. -/
def nonLeafForestForwardSolve3d (treeId nrhs : Nat) (LUstruct : dLUstruct_t)
    (trf3Dpartition : dtrf3Dpartition_t) (grid3d : gridinfo3d_t) (ilsumT : Nat → Nat)
    (env : NonLeafEnv) (s : SolveState) : Option (Int × List NonLeafStep × SolveState) :=
  match trf3Dpartition.sForests treeId with
  | none => some (0, [], s)
  | some sforest =>
    if sforest.nNodes < 1 then some (1, [], s)
    else
      (foldlOpt
        (fun st k0 => nonLeafForestForwardSolve3d_node nrhs LUstruct grid3d.grid2d ilsumT env
          st (sforest.nodeList k0))
        ([], s) (List.range sforest.nNodes)).map (fun st => (0, st))

/-- Body of the node loop of `nonLeafForestBackSolve3d` for the node `k`; the loop
state is the list of the steps run so far and the solver state. -/
def nonLeafForestBackSolve3d_node (treeId nrhs : Nat) (LUstruct : dLUstruct_t)
    (trf3Dpartition : dtrf3Dpartition_t) (grid : gridinfo_t) (ilsumT : Nat → Nat)
    (env : NonLeafEnv) (st : List NonLeafStep × SolveState) (k : Nat) :
    Option (List NonLeafStep × SolveState) :=
  let myrow := MYROW grid.iam grid
  let mycol := MYCOL grid.iam grid
  let krow := PROW k grid
  let kcol := PCOL k grid
  let st : List NonLeafStep × SolveState :=
    if myrow = krow then
      (st.1 ++ [NonLeafStep.lsumReducePrK k], lsumReducePrK k nrhs LUstruct grid env st.2)
    else st
  if mycol = kcol then
    let r : Option (List NonLeafStep × SolveState) :=
      if myrow = krow then
        match nonLeafForest_diagSolve trtype_t.UPPER_TRI k nrhs LUstruct grid ilsumT st.2 with
        | none => none
        | some s => some (st.1 ++ [NonLeafStep.localSolveXkYk k], s)
      else some st
    match r with
    | none => none
    | some st =>
      let st : List NonLeafStep × SolveState :=
        (st.1 ++ [NonLeafStep.bCastXk2Pck k], bCastXk2Pck k nrhs LUstruct grid ilsumT env st.2)
      match lsumForestBsolve k treeId nrhs LUstruct trf3Dpartition grid ilsumT st.2 with
      | none => none
      | some s => some (st.1 ++ [NonLeafStep.lsumForestBsolve k], s)
  else some st

/-- The routine `nonLeafForestBackSolve3d` as seen by one process: the return
value, the steps of the node loop in the order in which they were run, and the
final state. -/
def nonLeafForestBackSolve3d (treeId nrhs : Nat) (LUstruct : dLUstruct_t)
    (trf3Dpartition : dtrf3Dpartition_t) (grid3d : gridinfo3d_t) (ilsumT : Nat → Nat)
    (env : NonLeafEnv) (s : SolveState) : Option (Int × List NonLeafStep × SolveState) :=
  match trf3Dpartition.sForests treeId with
  | none => some (0, [], s)
  | some sforest =>
    if sforest.nNodes < 1 then some (1, [], s)
    else
      (foldlOpt
        (fun st k0 => nonLeafForestBackSolve3d_node treeId nrhs LUstruct trf3Dpartition
          grid3d.grid2d ilsumT env st (sforest.nodeList k0))
        ([], s) (List.range sforest.nNodes).reverse).map (fun st => (0, st))

/-! ## Concrete inputs used to evaluate the definitions -/

/-- A forest without nodes. -/
def emptyForest : sForest_t := { nNodes := 0, nodeList := fun _ => 0 }

/-- A one-process 2D grid. -/
def grid1x1 : gridinfo_t := { iam := 0, nprow := 1, npcol := 1 }

/-- Process 0 of a 1 x 2 grid. -/
def grid1x2 : gridinfo_t := { iam := 0, nprow := 1, npcol := 2 }

/-- The forest made of the supernodes 0 and 1. -/
def forest01 : sForest_t := { nNodes := 2, nodeList := fun i => i }

/-- Index array of a block row of U with two blocks, in the columns 1 and 2
(supernodes of one column each): header of `BR_HEADER` words, then per block a
descriptor of `UB_DESCRIPTOR` words and one word per column. -/
def usubTwoBlocks : Nat → Nat := fun i => [2, 6, 2, 1, 1, 1, 2, 1, 2].getD i 0

/-- Supernode boundaries for supernodes of one column each. -/
def xsupUnit : Nat → Nat := fun k => k

/-- A local factor without any block. -/
def LluEmpty : dLocalLU_t :=
  { Lrowind_bc_ptr := fun _ => none
    Lnzval_bc_ptr := fun _ _ => 0
    Ufstnz_br_ptr := fun _ => none
    Unzval_br_ptr := fun _ _ => 0
    fmod := fun _ => 0
    fsendx_plist := fun _ _ => EMPTY
    bsendx_plist := fun _ _ => EMPTY
    ilsum := fun lk => lk
    ldalsum := 0
    Urbs := fun _ => 0
    Ucb_indptr := fun _ _ => { lbnum := 0, indpos := 0 }
    Ucb_valptr := fun _ _ => 0 }

/-- A factor without any block, supernodes of one column each. -/
def LUEmpty : dLUstruct_t :=
  { Glu_persist := { xsup := xsupUnit, supno := fun i => i }, Llu := LluEmpty }

/-- A factor whose every block row of U is `usubTwoBlocks`. -/
def LUTwoBlocks : dLUstruct_t :=
  { Glu_persist := { xsup := xsupUnit, supno := fun i => i }
    Llu := { LluEmpty with Ufstnz_br_ptr := fun _ => some usubTwoBlocks } }

/-- A partition in which every supernode is in tree 0. -/
def trfOneTree : dtrf3Dpartition_t :=
  { sForests := fun t => if t = 0 then some forest01 else none
    supernode2treeMap := fun _ => 0
    myTreeIdxs := fun _ => 0
    myZeroTrIdxs := fun _ => 0 }

/-- Tree map of three supernodes on layer 0 of a two-layer grid: supernode 0 is
in the leaf forest 1, supernode 1 in the leaf forest 2, supernode 2 in the root
forest 0. -/
def treeMap3 : Nat → Nat := fun k => [1, 2, 0].getD k 0

/-- Local factor on a one-process grid for three supernodes of one column each:
L has the diagonal blocks and the off-diagonal blocks (2,0) and (2,1); `fmod`
counts the off-diagonal L blocks of each block row. -/
def Llu3 : dLocalLU_t :=
  { LluEmpty with
    Lrowind_bc_ptr := fun ljb =>
      if ljb = 0 then some (fun i => [2, 2, 0, 1, 0, 2, 1, 2].getD i 0)
      else if ljb = 1 then some (fun i => [2, 2, 1, 1, 1, 2, 1, 2].getD i 0)
      else if ljb = 2 then some (fun i => [1, 1, 2, 1, 2].getD i 0)
      else none
    Lnzval_bc_ptr := fun _ _ => 1
    fmod := fun lk => [0, 0, 2].getD lk 0
    ldalsum := 3 }

/-- The factor handle of `Llu3`. -/
def LU3 : dLUstruct_t :=
  { Glu_persist := { xsup := xsupUnit, supno := fun i => i }, Llu := Llu3 }

/-- The partition of layer 0 with the tree map `treeMap3`: the leaf forest 1 is
the supernode 0, the root forest 0 is the supernode 2. -/
def trf3 : dtrf3Dpartition_t :=
  { sForests := fun t =>
      if t = 1 then some { nNodes := 1, nodeList := fun _ => 0 }
      else if t = 0 then some { nNodes := 1, nodeList := fun _ => 2 }
      else none
    supernode2treeMap := treeMap3
    myTreeIdxs := fun l => if l = 0 then 1 else 0
    myZeroTrIdxs := fun _ => 0 }

/-- Index array of the block column 0 of `Llu3`. -/
def lsubCol0 : Nat → Nat := fun i => [2, 2, 0, 1, 0, 2, 1, 2].getD i 0

/-- A solve state with every array zero and nothing sent or solved. -/
def state0 : SolveState :=
  { x := fun _ => 0, lsum := fun _ => 0, xT := fun _ => 0, recvbuf := fun _ => 0,
    rtemp := fun _ => 0, tX := fun _ => 0, tU := fun _ => 0, indCols := fun _ => 0,
    fmod := fun _ => 0, frecv := fun _ => 0, bmod := fun _ => 0,
    brecv := fun _ => 0, SolveMsgSent := 0, ops := 0, sent := [], solved := [],
    lsumFwd := [], decs := [] }

/-- A partition with the single forest 0 made of the supernodes 0, 1 and 2. -/
def trfAll3 : dtrf3Dpartition_t :=
  { sForests := fun t => if t = 0 then some { nNodes := 3, nodeList := fun i => i } else none
    supernode2treeMap := fun _ => 0
    myTreeIdxs := fun _ => 0
    myZeroTrIdxs := fun _ => 0 }

/-- The 1 x 1 x 1 process grid. -/
def grid1x1x1 : gridinfo3d_t := { grid2d := grid1x1, zscp := { Np := 1, Iam := 0 } }

/-- An environment that delivers no message; fresh arrays hold arbitrary
values. -/
def envQuiet : LeafEnv :=
  { modHeap := fun _ => 7, recvHeap := fun _ => 9, rowMod := fun _ _ => 0,
    rowModBit := fun _ _ => 7, msgs := [] }

/-- The identity permutations. -/
def permId : dScalePermstruct_t := { perm_r := fun i => i, perm_c := fun i => i }

/-- Index array of a block column that holds one block of two rows: the header
(one block, two rows in all), the descriptor of the block (block row 0, two
rows) and its row indices. -/
def lsubOne : Nat → Nat := fun i => [1, 2, 0, 2, 0, 1].getD i 0

/-- Local factor on a one-process grid for one supernode of two columns: the
diagonal block stored column by column with leading dimension 2 holds
`L = [[1, 0], [3, 1]]` (unit diagonal not stored) and `U = [[2, 1], [0, 4]]`. -/
def Llu1 : dLocalLU_t :=
  { LluEmpty with
    Lrowind_bc_ptr := fun ljb => if ljb = 0 then some lsubOne else none
    Lnzval_bc_ptr := fun _ i => [2, 3, 1, 4].getD i 0
    ilsum := fun _ => 0
    ldalsum := 2 }

/-- The factor handle of `Llu1`: one supernode made of the columns 0 and 1. -/
def LU1 : dLUstruct_t :=
  { Glu_persist := { xsup := fun k => 2 * k, supno := fun _ => 0 }, Llu := Llu1 }

/-- A partition with the single forest 0 made of the supernode 0. -/
def trfOne : dtrf3Dpartition_t :=
  { sForests := fun t => if t = 0 then some { nNodes := 1, nodeList := fun _ => 0 } else none
    supernode2treeMap := fun _ => 0
    myTreeIdxs := fun _ => 0
    myZeroTrIdxs := fun _ => 0 }

/-- Communication structure of one process that owns the two rows of `B`, for
one right-hand side: both redistributions send two rows (two values) to the
process itself, all displacements are 0. -/
def solveStructOne : dSOLVEstruct_t :=
  { row_to_proc := fun _ => 0
    num_diag_procs := 1
    diag_procs := fun _ => 0
    gstrs_comm :=
      { B_to_X_SendCnt := fun i => [2, 2, 2, 2, 0, 0, 0, 0].getD i 0
        X_to_B_SendCnt := fun i => [2, 2, 2, 2, 0, 0, 0, 0].getD i 0 } }

/-- An environment of `pdgstrs3d` that delivers no message; fresh buffers hold
arbitrary values. -/
def envSolve : SolveEnv :=
  { fwd := envQuiet, bwd := envQuiet, ibuf1 := fun _ => 5, dbuf1 := fun _ => 6,
    ibuf2 := fun _ => 7, dbuf2 := fun _ => 8 }

/-- A world whose right-hand side is the column `(2, 14)`. -/
def world0 : SolveWorld :=
  { B := fun i => [2, 14].getD i 0, s := state0, ptr_to_ibuf := fun _ => 3,
    ptr_to_dbuf := fun _ => 4, xerr := [] }

/-- Arrays of the processes of a two-layer grid: entry `idx` of `lsum` of the
process `iam` of layer `layer` is `100 * layer + 10 * iam + idx`. -/
def layers0 : LayersState :=
  { lsum := fun layer iam idx => ((100 * layer + 10 * iam + idx : Nat) : ℚ)
    recvbuf := fun _ _ _ => 0 }

/-- Index array of a block row of U with one block, in the column supernode 1
(one column): the header, the descriptor of the block and the first row of its
only column. -/
def usubOneBlock : Nat → Nat := fun i => [1, 3, 1, 1, 1, 0].getD i 0

/-- Local factor on a one-process grid for two supernodes of one column each:
the diagonal blocks are 2 and U has the block (0, 1), equal to 3. -/
def LluBack : dLocalLU_t :=
  { LluEmpty with
    Lrowind_bc_ptr := fun ljb =>
      if ljb = 0 then some (fun i => [1, 1, 0, 1, 0].getD i 0)
      else if ljb = 1 then some (fun i => [1, 1, 1, 1, 1].getD i 0)
      else none
    Lnzval_bc_ptr := fun _ _ => 2
    Ufstnz_br_ptr := fun lk => if lk = 0 then some usubOneBlock else none
    Unzval_br_ptr := fun _ _ => 3
    ldalsum := 2
    Urbs := fun lkj => if lkj = 1 then 1 else 0
    Ucb_indptr := fun _ _ => { lbnum := 0, indpos := BR_HEADER }
    Ucb_valptr := fun _ _ => 0 }

/-- The factor handle of `LluBack`. -/
def LUBack : dLUstruct_t :=
  { Glu_persist := { xsup := xsupUnit, supno := fun i => i }, Llu := LluBack }

/-- Layer 0 of a grid of four layers whose 2D grid is one process. -/
def grid1x1x4 : gridinfo3d_t := { grid2d := grid1x1, zscp := { Np := 4, Iam := 0 } }

/-- A partition of a layer of a grid of depth 4 whose leaf forest is empty: the
level 1 is marked in `myZeroTrIdxs`, the root forest 0 exists. -/
def trfEmptyLeaf : dtrf3Dpartition_t :=
  { sForests := fun t => if t = 0 then some forest01 else none
    supernode2treeMap := fun _ => 0
    myTreeIdxs := fun l => [3, 1, 0].getD l 0
    myZeroTrIdxs := fun l => [0, 1, 0].getD l 0 }

/-- A solve state whose block of `x` for the first supernode holds `(5, 0)` after
a header `(0, 7)`, every other array being zero. -/
def stateX : SolveState :=
  { state0 with x := fun i => [0, 7, 5].getD i 0 }

/-- The factor handle of three columns in two supernodes, the columns 0 and 1
and the column 2, whose blocks of `x` follow each other; the factor itself is
empty. -/
def LUThreeRows : dLUstruct_t :=
  { Glu_persist :=
      { xsup := fun k => [0, 2, 3].getD k 3
        supno := fun i => [0, 0, 1].getD i 1 }
    Llu :=
      { LluEmpty with
        ilsum := fun k => [0, 2].getD k 3 } }

/-- A row permutation that moves the rows 0, 1, 2 to 1, 2, 0, with the identity
as column permutation. -/
def permRot : dScalePermstruct_t :=
  { perm_r := fun i => [1, 2, 0].getD i i
    perm_c := fun i => i }

/-- Communication structure of one process that owns the three rows of `B`, for
two right-hand sides: both redistributions send three rows (six values) to the
process itself, all displacements are 0. -/
def solveStructThree : dSOLVEstruct_t :=
  { row_to_proc := fun _ => 0
    num_diag_procs := 1
    diag_procs := fun _ => 0
    gstrs_comm :=
      { B_to_X_SendCnt := fun i => [3, 6, 3, 6, 0, 0, 0, 0].getD i 0
        X_to_B_SendCnt := fun i => [3, 6, 3, 6, 0, 0, 0, 0].getD i 0 } }

/-- A right-hand side of three rows and two columns stored with the leading
dimension 4: the columns `(10, 20, 30)` and `(11, 21, 31)`. -/
def BThree : Nat → ℚ := fun i => [10, 20, 30, 0, 11, 21, 31, 0].getD i 0

/-- Freshly allocated redistribution buffers with arbitrary content. -/
def heapAny : RedistBuf :=
  { ibuf := fun _ => 5
    dbuf := fun _ => 6
    ptr_to_ibuf := fun _ => 3
    ptr_to_dbuf := fun _ => 4 }

/-! ## Predicates used in the statements -/

/-- The log of solved blocks is consistent with the counters: every logged
solve happened with both counters of its block at 0, the counter `fmod` of
every solved block is negative now, and no block is logged twice. -/
def SolvedOnce (s : SolveState) : Prop :=
  (∀ e ∈ s.solved, e.modAt = 0 ∧ e.recvAt = 0 ∧ s.fmod e.lk < 0) ∧
    (s.solved.map SolveEvent.lk).Nodup

/-- Entry `(i, m)` of the unit lower triangular factor `L` held in the diagonal
block `lusup` (column-major, leading dimension `nsupr`): the stored entry below
the diagonal, 1 on the diagonal, 0 above. -/
def unitLower (lusup : Nat → ℚ) (nsupr i m : Nat) : ℚ :=
  if m < i then lusup (i + m * nsupr) else if m = i then 1 else 0

/-- Entry `(m, l)` of the upper triangular factor `U` held in the diagonal block
`lusup` (column-major, leading dimension `nsupr`): the stored entry on and above
the diagonal, 0 below. -/
def upperTri (lusup : Nat → ℚ) (nsupr m l : Nat) : ℚ :=
  if m ≤ l then lusup (m + l * nsupr) else 0

/-- The set-up of a solve with one process and one supernode: a 1 x 1 x 1 grid,
a factor stored as the single supernode 0 made of the columns `0 .. n-1` whose
block column holds only the diagonal block (index array `lsub`), no U block
row, counters and send lists for a supernode without dependencies, identity
permutations, a partition whose level 0 is the forest made of supernode 0, and
redistribution tables that send the `n` rows of the process to itself. -/
structure OneSupernode (n nrhs : Nat) (LUstruct : dLUstruct_t)
    (ScalePermstruct : dScalePermstruct_t) (trf3Dpartition : dtrf3Dpartition_t)
    (grid3d : gridinfo3d_t) (SOLVEstruct : dSOLVEstruct_t) (lsub : Nat → Nat) : Prop where
  n_pos : 1 ≤ n
  nrhs_pos : 1 ≤ nrhs
  iam : grid3d.grid2d.iam = 0
  nprow : grid3d.grid2d.nprow = 1
  npcol : grid3d.grid2d.npcol = 1
  layers : grid3d.zscp.Np = 1
  layer : grid3d.zscp.Iam = 0
  supno : ∀ i < n, LUstruct.Glu_persist.supno i = 0
  xsup0 : LUstruct.Glu_persist.xsup 0 = 0
  xsup1 : LUstruct.Glu_persist.xsup 1 = n
  perm : ∀ i < n, ScalePermstruct.perm_c (ScalePermstruct.perm_r i) = i
  column : LUstruct.Llu.Lrowind_bc_ptr 0 = some lsub
  blocks : lsub 0 = 1
  fmod : LUstruct.Llu.fmod 0 = 0
  noU : LUstruct.Llu.Ufstnz_br_ptr 0 = none
  urbs : LUstruct.Llu.Urbs 0 = 0
  fsend : LUstruct.Llu.fsendx_plist 0 0 = EMPTY
  bsend : LUstruct.Llu.bsendx_plist 0 0 = EMPTY
  zeroTr : trf3Dpartition.myZeroTrIdxs 0 = 0
  tree : trf3Dpartition.myTreeIdxs 0 = 0
  forest : ∃ sf, trf3Dpartition.sForests 0 = some sf ∧ sf.nNodes = 1 ∧ sf.nodeList 0 = 0
  row_to_proc : ∀ i < n, SOLVEstruct.row_to_proc i = 0
  ndiag : SOLVEstruct.num_diag_procs = 1
  diag0 : SOLVEstruct.diag_procs 0 = 0
  cntB : ∀ t, SOLVEstruct.gstrs_comm.B_to_X_SendCnt t
    = [n, n * nrhs, n, n * nrhs, 0, 0, 0, 0].getD t 0
  cntX : ∀ t, SOLVEstruct.gstrs_comm.X_to_B_SendCnt t
    = [n, n * nrhs, n, n * nrhs, 0, 0, 0, 0].getD t 0

/-- Rank, in the 2D grid, of the diagonal process of supernode `k`. -/
def diagProc (grid : gridinfo_t) (k : Nat) : Nat := PNUM (PROW k grid) (PCOL k grid) grid

/-- Position of the entry `(i, j)` of the `lsum` block of supernode `k` in the
array `lsum` of the process of rank `iam`, whose offsets are `ilsum iam`. -/
def lsumIndex (ilsum : Nat → Nat → Nat) (nrhs : Nat) (xsup : Nat → Nat) (grid : gridinfo_t)
    (iam k i j : Nat) : Nat :=
  LSUM_BLK (ilsum iam) nrhs (LBi k grid) + (i + j * SuperSize xsup k)

/-- The values that `bmod[lk]` took right after each of its decrements, oldest
first. -/
def rowDecs (s : SolveState) (lk : Nat) : List Int :=
  (s.decs.filter (fun e => e.1 = lk)).map (fun e => e.2)

/-- The forwardings of the local `lsum` block with counter index `lk`, oldest
first: `true` for an `LSUM` message, `false` for an addition into `x`. -/
def rowFwds (s : SolveState) (lk : Nat) : List Bool :=
  (s.lsumFwd.filter (fun e => e.1 = lk)).map (fun e => e.2)

/-- The counter `bmod[lk]` is consistent with its history, for an initial value
`b0`, as long as it was not decremented more than `b0` times: the decrements
produced `b0 - 1, b0 - 2, ...`, and either the counter is still positive and
the block was not forwarded, or it reached 0, the block was forwarded once and
the counter is 0 or the sentinel -1.  `v` tells whether the seeding loop has
visited the node; before the visit a counter that starts at 0 waits at 0. -/
def RowGood (b0 : Nat) (v : Bool) (lk : Nat) (s : SolveState) : Prop :=
  rowDecs s lk = (List.range (rowDecs s lk).length).map (fun (t : Nat) => (b0 : Int) - 1 - (t : Int)) ∧
  (((rowDecs s lk).length < b0 ∧ s.bmod lk = (b0 : Int) - ((rowDecs s lk).length : Int) ∧
      rowFwds s lk = []) ∨
    ((rowDecs s lk).length = b0 ∧ s.bmod lk = -1 ∧ (rowFwds s lk).length = 1) ∨
    ((rowDecs s lk).length = b0 ∧ s.bmod lk = 0 ∧ v = true ∧ (rowFwds s lk).length = 1) ∨
    ((rowDecs s lk).length = b0 ∧ b0 = 0 ∧ s.bmod lk = 0 ∧ v = false ∧ rowFwds s lk = []))

/-- Invariant of the backward leaf solve for the counter index `lk`: every
forwarding of the block was of the kind `flag`; before the seeding loop visits
the node, the grid has one process column and nothing is to be received for the
block; and the counter is consistent with its history or was decremented more
than `b0` times. -/
def RowInv (b0 : Nat) (flag : Bool) (npcol : Nat) (v : Bool) (lk : Nat) (s : SolveState) : Prop :=
  (∀ e ∈ rowFwds s lk, e = flag) ∧ (v = false → npcol = 1 ∧ s.brecv lk = 0) ∧
    (b0 < (rowDecs s lk).length ∨ RowGood b0 v lk s)

/-- The calls of the iteration `ilvl` of the level loop of the forward driver in
closed form: nothing at a level marked in `myZeroTrIdxs`; otherwise the solve of
the owned forest if there is one, the leaf procedure at level 0 and the non-leaf
procedure above, followed by one reduction per ancestor level
`ilvl + 1, ..., maxLvl - 1`. -/
def forwardLevelCalls (trf3Dpartition : dtrf3Dpartition_t) (grid3d : gridinfo3d_t)
    (ilvl : Nat) : List DriverCall :=
  if trf3Dpartition.myZeroTrIdxs ilvl = 0 then
    (match trf3Dpartition.sForests (trf3Dpartition.myTreeIdxs ilvl) with
      | some _ =>
        [if ilvl = 0 then DriverCall.leafForestForwardSolve3d (trf3Dpartition.myTreeIdxs ilvl)
          else DriverCall.nonLeafForestForwardSolve3d (trf3Dpartition.myTreeIdxs ilvl)]
      | none => [])
    ++ (List.range' (ilvl + 1) (log2i grid3d.zscp.Np + 1 - (ilvl + 1))).map
        (fun alvl => DriverCall.fsolveReduceLsum3d (trf3Dpartition.myTreeIdxs alvl)
          (pdgsTrForwardSolve3d_pair grid3d.zscp.Iam ilvl).1
          (pdgsTrForwardSolve3d_pair grid3d.zscp.Iam ilvl).2)
  else []

/-- The calls of the iteration `ilvl` of the level loop of the backward driver in
closed form: nothing at a level marked in `myZeroTrIdxs`; otherwise the broadcast
for the level, one update per tree of the ancestor loop, and the solve of the
owned forest if there is one, the leaf procedure at level 0 and the non-leaf
procedure above. -/
def backLevelCalls (trf3Dpartition : dtrf3Dpartition_t) (ilvl : Nat) : List DriverCall :=
  if trf3Dpartition.myZeroTrIdxs ilvl = 0 then
    [DriverCall.bsolve_Xt_bcast ilvl]
    ++ (ancestorLoop ((((trf3Dpartition.myTreeIdxs ilvl : Nat) : Int) + 1) / 2 - 1)).map
        (fun pTree => DriverCall.dlasum_bmod_Tree pTree (trf3Dpartition.myTreeIdxs ilvl))
    ++ (match trf3Dpartition.sForests (trf3Dpartition.myTreeIdxs ilvl) with
      | some _ =>
        [if ilvl = 0 then DriverCall.leafForestBackSolve3d (trf3Dpartition.myTreeIdxs ilvl)
          else DriverCall.nonLeafForestBackSolve3d (trf3Dpartition.myTreeIdxs ilvl)]
      | none => [])
  else []

/-- The shape of a message of the leaf solves: an `Xk` message of `XK_H` header
words and `SuperSize(k) * nrhs` values, or an `LSUM` message of `LSUM_H` header
words and `SuperSize(k) * nrhs` values, for some supernode `k`. -/
def WireShape (nrhs : Nat) (xsup : Nat → Nat) (m : Message) : Prop :=
  (m.tag = MsgTag.Xk ∧ ∃ k, m.count = SuperSize xsup k * nrhs + XK_H) ∨
  (m.tag = MsgTag.LSUM ∧ ∃ k, m.count = SuperSize xsup k * nrhs + LSUM_H)

/-- A property of the solver state that the leaf procedures keep: it only looks
at `xT` and at the list of the posted messages, and it survives the posting of
a message of the shape `WireShape`. -/
structure LeafKept (nrhs : Nat) (xsup : Nat → Nat) (P : SolveState → Prop) : Prop where
  frame : ∀ s s' : SolveState, s'.xT = s.xT → s'.sent = s.sent → P s → P s'
  post : ∀ (s s' : SolveState) (m : Message), s'.xT = s.xT → s'.sent = s.sent ++ [m] →
    WireShape nrhs xsup m → P s → P s'

/-- A property of the solver state that the loops of the leaf procedures keep: it
only looks at `xT`, at the list of the posted messages and at the counter
`Llu->SolveMsgSent`, and it survives the posting of a message of the shape
`WireShape`, which increments the counter. -/
structure SendKept (nrhs : Nat) (xsup : Nat → Nat) (P : SolveState → Prop) : Prop where
  frame : ∀ s s' : SolveState, s'.xT = s.xT → s'.sent = s.sent →
    s'.SolveMsgSent = s.SolveMsgSent → P s → P s'
  post : ∀ (s s' : SolveState) (m : Message), s'.xT = s.xT → s'.sent = s.sent ++ [m] →
    s'.SolveMsgSent = s.SolveMsgSent + 1 → WireShape nrhs xsup m → P s → P s'

/-- The state with the entry `(lk, true)` appended to the log of forwarded
partial sums. -/
def SolveState.logLsumFwd (lk : Nat) (s : SolveState) : SolveState :=
  { s with lsumFwd := s.lsumFwd ++ [(lk, true)] }

/-- Position in `x` of the entry of row `r` (a row of the permuted system) and
right-hand side `j` on a grid of one process row: the block of the supernode of
`r` starts at `X_BLK(LBi(k))` and is stored column by column with the leading
dimension `knsupc`. -/
def xRowIndex (ilsum : Nat → Nat) (nrhs : Nat) (Glu_persist : Glu_persist_t) (r j : Nat) : Nat :=
  X_BLK ilsum nrhs (Glu_persist.supno r) + (r - Glu_persist.xsup (Glu_persist.supno r))
    + j * SuperSize Glu_persist.xsup (Glu_persist.supno r)

/-- The set-up of the two redistributions on a grid layer made of one process
that owns the `n` rows of `B`: a 1 x 1 grid on layer 0, a partition of the
columns `0 .. n-1` into the non-empty supernodes `0 .. supno[n-1]` with the
boundaries `xsup`, blocks of `x` that do not overlap (`ilsum`), row and column
permutations whose composition maps the rows `0 .. n-1` one-to-one to
themselves, and redistribution tables that send the `n` rows of the process to
itself. -/
structure OneProcessRows (n nrhs : Nat) (LUstruct : dLUstruct_t)
    (ScalePermstruct : dScalePermstruct_t) (grid3d : gridinfo3d_t)
    (SOLVEstruct : dSOLVEstruct_t) : Prop where
  n_pos : 1 ≤ n
  iam : grid3d.grid2d.iam = 0
  nprow : grid3d.grid2d.nprow = 1
  npcol : grid3d.grid2d.npcol = 1
  layer : grid3d.zscp.Iam = 0
  xsup0 : LUstruct.Glu_persist.xsup 0 = 0
  xsup_lt : ∀ k < LUstruct.Glu_persist.supno (n - 1) + 1,
    LUstruct.Glu_persist.xsup k < LUstruct.Glu_persist.xsup (k + 1)
  xsup_n : LUstruct.Glu_persist.xsup (LUstruct.Glu_persist.supno (n - 1) + 1) = n
  supno_row : ∀ r < n, LUstruct.Glu_persist.supno r < LUstruct.Glu_persist.supno (n - 1) + 1 ∧
    LUstruct.Glu_persist.xsup (LUstruct.Glu_persist.supno r) ≤ r ∧
    r < LUstruct.Glu_persist.xsup (LUstruct.Glu_persist.supno r + 1)
  ilsum_blk : ∀ k' < LUstruct.Glu_persist.supno (n - 1) + 1, ∀ k < k',
    LUstruct.Llu.ilsum k + SuperSize LUstruct.Glu_persist.xsup k ≤ LUstruct.Llu.ilsum k'
  perm_lt : ∀ i < n, ScalePermstruct.perm_c (ScalePermstruct.perm_r i) < n
  perm_inj : ∀ i < n, ∀ i' < n,
    ScalePermstruct.perm_c (ScalePermstruct.perm_r i)
      = ScalePermstruct.perm_c (ScalePermstruct.perm_r i') → i = i'
  row_to_proc : ∀ i < n, SOLVEstruct.row_to_proc i = 0
  ndiag : SOLVEstruct.num_diag_procs = 1
  diag0 : SOLVEstruct.diag_procs 0 = 0
  cntB : ∀ t, SOLVEstruct.gstrs_comm.B_to_X_SendCnt t
    = [n, n * nrhs, n, n * nrhs, 0, 0, 0, 0].getD t 0
  cntX : ∀ t, SOLVEstruct.gstrs_comm.X_to_B_SendCnt t
    = [n, n * nrhs, n, n * nrhs, 0, 0, 0, 0].getD t 0

/-- The redistribution `B` to `X` followed directly by the redistribution `X` to
`B`, the buffers of each being freshly allocated with the content `heap1` and
`heap2`; the result is the new `B`. -/
def redistributeRoundTrip (n : Nat) (B : Nat → ℚ) (m_loc nrhs ldb fst_row : Nat)
    (x : Nat → ℚ) (LUstruct : dLUstruct_t) (ScalePermstruct : dScalePermstruct_t)
    (grid3d : gridinfo3d_t) (SOLVEstruct : dSOLVEstruct_t) (heap1 heap2 : RedistBuf) :
    Option (Nat → ℚ) :=
  match pdReDistribute3d_B_to_X B m_loc nrhs ldb fst_row LUstruct.Llu.ilsum x ScalePermstruct
      LUstruct.Glu_persist grid3d SOLVEstruct heap1 with
  | none => none
  | some r1 =>
    match pdReDistribute3d_X_to_B n B m_loc ldb fst_row nrhs r1.1 LUstruct.Llu.ilsum
        LUstruct.Glu_persist grid3d SOLVEstruct heap2 with
    | none => none
    | some r2 => some r2.1
/-! ## Order of the messages in the forward leaf solve -/

/-- Positions `(lptr, luptr)` of the block `lb` of a block column in its index
array and in its value array: the first block starts after the header, and
each block is a descriptor followed by its row indices. -/
def lBlockPos (lsub : Nat → Nat) : Nat → Nat × Nat
  | 0 => (BC_HEADER, 0)
  | lb + 1 =>
    ((lBlockPos lsub lb).1 + LB_DESCRIPTOR + lsub ((lBlockPos lsub lb).1 + 1),
      (lBlockPos lsub lb).2 + lsub ((lBlockPos lsub lb).1 + 1))

/-- The supernode named by the header of a message, as the receive loop decodes
it from the first word. -/
def Message.block (m : Message) : Nat := headerToBlock (m.data 0)

/-- The static data of one call of the forward leaf solve on one process. -/
structure LeafCtx where
  treeId : Nat
  nrhs : Nat
  LUstruct : dLUstruct_t
  trf3Dpartition : dtrf3Dpartition_t
  grid : gridinfo_t
  nsupers : Nat

/-- My process row. -/
def LeafCtx.myrow (c : LeafCtx) : Nat := MYROW c.grid.iam c.grid

/-- My process column. -/
def LeafCtx.mycol (c : LeafCtx) : Nat := MYCOL c.grid.iam c.grid

/-- The supernode of my process row with the local block row number `lk`. -/
def LeafCtx.rowOf (c : LeafCtx) (lk : Nat) : Nat := lk * c.grid.nprow + c.myrow

/-- Number of columns of the supernode `k`. -/
def LeafCtx.size (c : LeafCtx) (k : Nat) : Nat := SuperSize c.LUstruct.Glu_persist.xsup k

/-- Start of the block of `x` of the local block row `lk`. -/
def LeafCtx.xBlk (c : LeafCtx) (lk : Nat) : Nat := X_BLK c.LUstruct.Llu.ilsum c.nrhs lk

/-- Start of the block of `lsum` of the local block row `lk`. -/
def LeafCtx.lsumBlk (c : LeafCtx) (lk : Nat) : Nat := LSUM_BLK c.LUstruct.Llu.ilsum c.nrhs lk

/-- The index array of the local block column of the supernode `k`; an array of
zeros (no block) when the column is not stored. -/
def LeafCtx.colSub (c : LeafCtx) (k : Nat) : Nat → Nat :=
  match c.LUstruct.Llu.Lrowind_bc_ptr (LBj k c.grid) with
  | some lsub => lsub
  | none => fun _ => 0

/-- The value array of the local block column of the supernode `k`. -/
def LeafCtx.colVal (c : LeafCtx) (k : Nat) : Nat → ℚ :=
  c.LUstruct.Llu.Lnzval_bc_ptr (LBj k c.grid)

/-- Index of the first off-diagonal block of the local block column of `k`: the
diagonal block comes first on the process row that owns it. -/
def LeafCtx.colStart (c : LeafCtx) (k : Nat) : Nat :=
  if PROW k c.grid = c.myrow then 1 else 0

/-- Row supernode of the block `b = (k, lb)`, the block `lb` of the column of
`k`. -/
def LeafCtx.blkRow (c : LeafCtx) (b : Nat × Nat) : Nat :=
  c.colSub b.1 (lBlockPos (c.colSub b.1) b.2).1

/-- Local block row number of the block `b`. -/
def LeafCtx.blkLk (c : LeafCtx) (b : Nat × Nat) : Nat := LBi (c.blkRow b) c.grid

/-- Number of rows of the block `b`. -/
def LeafCtx.blkRows (c : LeafCtx) (b : Nat × Nat) : Nat :=
  c.colSub b.1 ((lBlockPos (c.colSub b.1) b.2).1 + 1)

/-- What a block update subtracts from the entry `q` of `lsum`: the entries of the
product of the block (`nbrow x knsupc`, stored in `A` with the leading dimension
`nsupr`) with the vector `v` (`knsupc x nrhs`) that are scattered to `q`. -/
def updSum (nbrow nrhs knsupc il iknsupc : Nat) (lsub : Nat → Nat) (lptr rel : Nat)
    (A : Nat → ℚ) (nsupr : Nat) (v : Nat → ℚ) (q : Nat) : ℚ :=
  ((List.range nbrow).map (fun i =>
    (((List.range nrhs).filter (fun j => il + (lsub (lptr + i) - rel) + j * iknsupc = q)).map
      (fun j => ((List.range knsupc).map (fun t => A (i + t * nsupr) * v (t + j * knsupc))).sum)
      ).sum)).sum

/-- What the update with the block `b` and the vector `v` adds to `lsum`: the
code of the update run on an array of zeros. -/
def LeafCtx.blkDelta (c : LeafCtx) (b : Nat × Nat) (v : Nat → ℚ) : Nat → ℚ :=
  lsumScatterSub (fun _ => 0) (c.lsumBlk (c.blkLk b)) (c.size (c.blkRow b)) (c.blkRows b)
    c.nrhs (c.colSub b.1) ((lBlockPos (c.colSub b.1) b.2).1 + LB_DESCRIPTOR)
    (c.LUstruct.Glu_persist.xsup (c.blkRow b))
    (dgemm_ (c.blkRows b) c.nrhs (c.size b.1) 1
      (fun i => c.colVal b.1 ((lBlockPos (c.colSub b.1) b.2).2 + i)) (c.colSub b.1 1) v
      (c.size b.1) 0 (fun _ => 0) 0 (c.blkRows b))

/-- The off-diagonal blocks of the local block column of `k`. -/
def LeafCtx.colBlocks (c : LeafCtx) (k : Nat) : Finset (Nat × Nat) :=
  (Finset.Ico (c.colStart k) (c.colSub k 0)).image (fun lb => (k, lb))

/-- The off-diagonal blocks of the local block columns of a set of supernodes. -/
def LeafCtx.full (c : LeafCtx) (cols : Finset Nat) : Finset (Nat × Nat) :=
  cols.biUnion c.colBlocks

/-- Number of blocks of a set that lie in the local block row `lk`. -/
def LeafCtx.cnt (c : LeafCtx) (A : Finset (Nat × Nat)) (lk : Nat) : Nat :=
  (A.filter (fun b => c.blkLk b = lk)).card

/-- The supernodes named by the `Xk` messages of a list. -/
def xkCols (P : List Message) : Finset Nat :=
  ((P.filter (fun m => m.tag = MsgTag.Xk)).map Message.block).toFinset

/-- The `LSUM` messages of a list for the local block row `lk`. -/
def LeafCtx.lsumMsgs (c : LeafCtx) (P : List Message) (lk : Nat) : List Message :=
  P.filter (fun m => m.tag = MsgTag.LSUM ∧ LBi m.block c.grid = lk)

/-- Number of `LSUM` messages of a list for the local block row `lk`. -/
def LeafCtx.lsumCount (c : LeafCtx) (P : List Message) (lk : Nat) : Nat :=
  (c.lsumMsgs P lk).length

/-- Sum of the payload words `t` of the `LSUM` messages of a list for the local
block row `lk`. -/
def LeafCtx.lsumPay (c : LeafCtx) (P : List Message) (lk t : Nat) : ℚ :=
  ((c.lsumMsgs P lk).map (fun m => m.data (LSUM_H + t))).sum

/-- The payload of the first `Xk` message of a list for the supernode `k`. -/
def xkData (M : List Message) (k : Nat) : Nat → ℚ :=
  match M.find? (fun m => m.tag = MsgTag.Xk ∧ m.block = k) with
  | some m => fun t => m.data (XK_H + t)
  | none => fun _ => 0

/-- The vector of the supernode `k` used by the updates with the blocks of its
column: its block of `x` when the supernode is of my process row, the payload
`D k` of its `Xk` message otherwise. -/
def LeafCtx.val (c : LeafCtx) (D : Nat → Nat → ℚ) (s : SolveState) (k : Nat) : Nat → ℚ :=
  fun t =>
    if t < c.size k * c.nrhs then
      if PROW k c.grid = c.myrow then s.x (c.xBlk (LBi k c.grid) + t) else D k t
    else 0

/-- The blocks applied so far: those of the columns received or solved, but
for the blocks `O` still owed by the updates in progress. -/
def LeafCtx.applied (c : LeafCtx) (P : List Message) (S : Finset Nat)
    (O : Finset (Nat × Nat)) : Finset (Nat × Nat) :=
  c.full (xkCols P ∪ S) \ O

/-- The local sum of the block row `lk` has been added into `x`: the last local
update of the row has been applied on its diagonal process, for a row of the
forest. -/
@[reducible] def LeafCtx.trig (c : LeafCtx) (s0 : SolveState) (A : Finset (Nat × Nat)) (lk : Nat) : Prop :=
  0 < c.cnt A lk ∧ s0.fmod lk = (c.cnt A lk : Int) ∧
    c.trf3Dpartition.supernode2treeMap (c.rowOf lk) = c.treeId ∧
    PCOL (c.rowOf lk) c.grid = c.mycol


/-- The right-hand side of the diagonal solve of the block row `lk`, entry
`(i, j)`: the initial entry of `x`, the payloads of the `LSUM` messages received
for the row, and the local sum once it has been added. -/
def LeafCtx.Y (c : LeafCtx) (s0 : SolveState) (P : List Message) (A : Finset (Nat × Nat))
    (s : SolveState) (lk i j : Nat) : ℚ :=
  s0.x (c.xBlk lk + i + j * c.size (c.rowOf lk))
    + c.lsumPay P lk (i + j * c.size (c.rowOf lk))
    + (if c.trig s0 A lk then s.lsum (c.lsumBlk lk + i + j * c.size (c.rowOf lk)) else 0)

/-- The supernode `k` has been solved in the receive loop: it is a supernode of
the forest whose diagonal block is mine, all the local updates and all the
`LSUM` messages its counters waited for have come, and at least one of them
came in the loop. -/
def LeafCtx.ready (c : LeafCtx) (s0 : SolveState) (P : List Message)
    (A : Finset (Nat × Nat)) (k : Nat) : Prop :=
  k < c.nsupers ∧ PROW k c.grid = c.myrow ∧ PCOL k c.grid = c.mycol ∧
    c.trf3Dpartition.supernode2treeMap k = c.treeId ∧
    s0.fmod (LBi k c.grid) = (c.cnt A (LBi k c.grid) : Int) ∧
    s0.frecv (LBi k c.grid) = (c.lsumCount P (LBi k c.grid) : Int) ∧
    (0 < c.cnt A (LBi k c.grid) ∨ 0 < c.lsumCount P (LBi k c.grid))

/-- The state `s` reached from `s0` after the messages `P` (a prefix of `l`),
with the supernodes `S` solved and the blocks `O` still to be applied by the
updates in progress; `r` is a supernode that is complete and about to be
solved.  The counters, `lsum` and `x` are given by the messages received and the
blocks applied, whatever the order in which they came. -/
structure GInv (c : LeafCtx) (D : Nat → Nat → ℚ) (s0 : SolveState) (l : List Message)
    (r : Option Nat) (P : List Message) (S : Finset Nat) (O : Finset (Nat × Nat))
    (s : SolveState) : Prop where
  pre : P <+: l
  sub : O ⊆ c.full (xkCols P ∪ S)
  fmod : ∀ lk, s.fmod lk
    = if c.rowOf lk ∈ S then -1 else s0.fmod lk - (c.cnt (c.applied P S O) lk : Int)
  frecv : ∀ lk, s.frecv lk = s0.frecv lk - (c.lsumCount P lk : Int)
  lsum : ∀ q, s.lsum q
    = s0.lsum q + ∑ b in c.applied P S O, c.blkDelta b (c.val D s b.1) q
  xin : ∀ lk, c.rowOf lk < c.nsupers → ∀ j < c.nrhs, ∀ i < c.size (c.rowOf lk),
    s.x (c.xBlk lk + i + j * c.size (c.rowOf lk))
      = c.Y s0 P (c.applied P S O) s lk i j
        - (if c.rowOf lk ∈ S then
            ((List.range i).map (fun t =>
              c.colVal (c.rowOf lk) (i + t * c.colSub (c.rowOf lk) 1)
                * s.x (c.xBlk lk + t + j * c.size (c.rowOf lk)))).sum
          else 0)
  xout : ∀ q, (∀ lk, c.rowOf lk < c.nsupers → ∀ j < c.nrhs, ∀ i < c.size (c.rowOf lk),
      q ≠ c.xBlk lk + i + j * c.size (c.rowOf lk)) → s.x q = s0.x q
  solved : ∀ k, (k ∈ S ∨ r = some k) ↔ c.ready s0 P (c.applied P S O) k
  fresh : ∀ k, r = some k → k ∉ S
  log : ∃ L : List SolveEvent, s.solved = s0.solved ++ L ∧
    ∀ k, (∃ e ∈ L, e.k = k) ↔ k ∈ S

/-- The supernodes of my diagonal whose counter `fmod` is not negative: those
that the receive loop may still solve. -/
def LeafCtx.pendCols (c : LeafCtx) (s0 : SolveState) : Finset Nat :=
  (Finset.range c.nsupers).filter (fun k =>
    PROW k c.grid = c.myrow ∧ PCOL k c.grid = c.mycol ∧ 0 ≤ s0.fmod (LBi k c.grid))

/-- The messages `l` are consistent with the counters of the state `s0` and with
the factor stored on the process: the L blocks of my block columns lie in block
rows of my process row, below the diagonal, with row indices inside their
supernode, the diagonal block coming first in a column whose diagonal is mine;
the blocks of `x` and of `lsum` do not overlap; every message is an `Xk` message
of a supernode of my process column whose diagonal is not mine, or an `LSUM`
message of a supernode of the forest whose diagonal is mine, long enough for
its block; no two `Xk` messages name the same supernode; a counter `frecv`
is at least the number of `LSUM` messages for its row, and a counter `fmod` that
is not negative is at least the number of blocks of its row in the columns that
may still be applied. -/
structure FwdHyp (c : LeafCtx) (s0 : SolveState) (l : List Message) : Prop where
  iam_lt : c.grid.iam < c.grid.nprow * c.grid.npcol
  blocks : ∀ k < c.nsupers, PCOL k c.grid = c.mycol → ∀ lb < c.colSub k 0, c.colStart k ≤ lb →
    c.blkRow (k, lb) < c.nsupers ∧ PROW (c.blkRow (k, lb)) c.grid = c.myrow ∧
    (PROW k c.grid = c.myrow → k < c.blkRow (k, lb)) ∧
    ∀ t < c.blkRows (k, lb),
      c.LUstruct.Glu_persist.xsup (c.blkRow (k, lb))
          ≤ c.colSub k ((lBlockPos (c.colSub k) lb).1 + LB_DESCRIPTOR + t) ∧
        c.colSub k ((lBlockPos (c.colSub k) lb).1 + LB_DESCRIPTOR + t)
          < c.LUstruct.Glu_persist.xsup (c.blkRow (k, lb) + 1)
  diag : ∀ k < c.nsupers, PROW k c.grid = c.myrow → PCOL k c.grid = c.mycol →
    c.LUstruct.Llu.Lrowind_bc_ptr (LBj k c.grid) ≠ none →
    c.colSub k (BC_HEADER + 1) = c.size k
  regions : ∀ lk < c.nsupers, c.rowOf lk < c.nsupers → ∀ lk0 < lk,
    c.LUstruct.Llu.ilsum lk0 + c.size (c.rowOf lk0) ≤ c.LUstruct.Llu.ilsum lk
  msgs : ∀ m ∈ l,
    (m.tag = MsgTag.Xk ∧ m.block < c.nsupers ∧ PCOL m.block c.grid = c.mycol ∧
      PROW m.block c.grid ≠ c.myrow ∧ c.size m.block * c.nrhs + XK_H ≤ m.count) ∨
    (m.tag = MsgTag.LSUM ∧ m.block < c.nsupers ∧ PROW m.block c.grid = c.myrow ∧
      PCOL m.block c.grid = c.mycol ∧
      c.trf3Dpartition.supernode2treeMap m.block = c.treeId ∧
      c.size m.block * c.nrhs + LSUM_H ≤ m.count ∧
      (c.lsumCount l (LBi m.block c.grid) : Int) ≤ s0.frecv (LBi m.block c.grid))
  xk_nodup : ((l.filter (fun m => m.tag = MsgTag.Xk)).map Message.block).Nodup
  fmod_cons : ∀ lk < c.nsupers, 0 ≤ s0.fmod lk →
    (c.cnt (c.full (xkCols l ∪ c.pendCols s0)) lk : Int) ≤ s0.fmod lk

/-- What the routine `dlsum_fmod_leaf` is expected to do when it is called for
the blocks `lb0 .. lb0 + nlb - 1` of the column of a supernode whose vector is
read through `xk`: it applies these blocks and the blocks of the columns of the
supernodes it solves, and leaves the receive buffer as it is. -/
def BigStep (c : LeafCtx) (D : Nat → Nat → ℚ) (s0 : SolveState) (l : List Message)
    (run : FmodCall → SolveState → Option SolveState) : Prop :=
  ∀ (call : FmodCall) (lb0 : Nat) (P : List Message) (S : Finset Nat)
    (O : Finset (Nat × Nat)) (s s' : SolveState),
    GInv c D s0 l none P S O s →
    call.knsupc = c.size call.k →
    call.lptr = (lBlockPos (c.colSub call.k) lb0).1 →
    call.luptr = (lBlockPos (c.colSub call.k) lb0).2 →
    (Finset.Ico lb0 (lb0 + call.nlb)).image (fun lb => (call.k, lb)) ⊆ O →
    (∀ s1 : SolveState, s1.recvbuf = s.recvbuf →
      ∀ t < c.size call.k * c.nrhs, call.xk.read s1 t = c.val D s1 call.k t) →
    run call s = some s' →
    ∃ S', S ⊆ S' ∧
      GInv c D s0 l none P S'
        (O \ (Finset.Ico lb0 (lb0 + call.nlb)).image (fun lb => (call.k, lb))) s' ∧
      s'.recvbuf = s.recvbuf

/-- The loop invariant of one activation of `dlsum_fmod_leaf` for the column of
`k`, started at the block `lb0` in the state `s`: after `t` iterations the loop
stands at the block `lb0 + t`, and the blocks passed are no longer owed. -/
def FmodLoopInv (c : LeafCtx) (D : Nat → Nat → ℚ) (s0 : SolveState) (l : List Message)
    (k lb0 : Nat) (P : List Message) (S : Finset Nat) (O : Finset (Nat × Nat))
    (s : SolveState) (t : Nat) (st : Nat × Nat × SolveState) : Prop :=
  st.1 = (lBlockPos (c.colSub k) (lb0 + t)).1 ∧
  st.2.1 = (lBlockPos (c.colSub k) (lb0 + t)).2 ∧
  ∃ S', S ⊆ S' ∧
    GInv c D s0 l none P S' (O \ (Finset.Ico lb0 (lb0 + t)).image (fun lb => (k, lb))) st.2.2 ∧
    st.2.2.recvbuf = s.recvbuf

/-- The diagonal block columns of the forest that are mine are stored. -/
def LeafCtx.stored (c : LeafCtx) : Prop :=
  ∀ k < c.nsupers, PROW k c.grid = c.myrow → PCOL k c.grid = c.mycol →
    c.trf3Dpartition.supernode2treeMap k = c.treeId →
    c.LUstruct.Llu.Lrowind_bc_ptr (LBj k c.grid) ≠ none

/-- A bound on the depth of the cascade started by an update with the column of
`k`: a cascade goes from a supernode of my process row to a later one. -/
def LeafCtx.depth (c : LeafCtx) (k : Nat) : Nat :=
  if PROW k c.grid = c.myrow then c.nsupers - 1 - k else c.nsupers

/-- The routine `run` returns on every call for a column of depth at most `n`,
made in a state of the receive loop for blocks that are owed. -/
def TotalStep (c : LeafCtx) (D : Nat → Nat → ℚ) (s0 : SolveState) (l : List Message)
    (n : Nat) (run : FmodCall → SolveState → Option SolveState) : Prop :=
  ∀ (call : FmodCall) (lb0 : Nat) (P : List Message) (S : Finset Nat)
    (O : Finset (Nat × Nat)) (s : SolveState),
    GInv c D s0 l none P S O s → call.knsupc = c.size call.k →
    call.lptr = (lBlockPos (c.colSub call.k) lb0).1 →
    call.luptr = (lBlockPos (c.colSub call.k) lb0).2 →
    (Finset.Ico lb0 (lb0 + call.nlb)).image (fun lb => (call.k, lb)) ⊆ O →
    (∀ s1 : SolveState, s1.recvbuf = s.recvbuf →
      ∀ t < c.size call.k * c.nrhs, call.xk.read s1 t = c.val D s1 call.k t) →
    c.LUstruct.Llu.Lrowind_bc_ptr (LBj call.k c.grid) ≠ none →
    c.depth call.k ≤ n →
    run call s ≠ none

/-- Process 0 of a grid of 2 process rows and 3 process columns. -/
def grid2x3 : gridinfo_t := { iam := 0, nprow := 2, npcol := 3 }

/-- Index array of a block column that holds the diagonal block of the
supernode 0 only. -/
def lsubDiag0 : Nat → Nat := fun i => [1, 1, 0, 1, 0].getD i 0

/-- Index array of the block column of the supernode 3 on the process 0: a block
in the block row of the supernode 4 and one in that of the supernode 6. -/
def lsubCol3 : Nat → Nat := fun i => [2, 2, 4, 1, 4, 6, 1, 6].getD i 0

/-- Index array of a block column that holds the diagonal block of the
supernode 6 only. -/
def lsubDiag6 : Nat → Nat := fun i => [1, 1, 6, 1, 6].getD i 0

/-- The part of a factor with 7 supernodes of one column each stored on the
process 0 of `grid2x3`: the block columns of the supernodes 0, 3 and 6. -/
def LUSeven : dLUstruct_t :=
  { Glu_persist := { xsup := xsupUnit, supno := fun i => i }
    Llu := { LluEmpty with
      Lrowind_bc_ptr := fun lk =>
        if lk = 0 then some lsubDiag0 else if lk = 1 then some lsubCol3
        else if lk = 2 then some lsubDiag6 else none
      Lnzval_bc_ptr := fun lk i => if lk = 1 then [3, 2].getD i 0 else if i = 0 then 1 else 0 } }

/-- The forward leaf solve of the tree 0 on the process 0 of `grid2x3`, one
right-hand side. -/
def ctxSeven : LeafCtx :=
  { treeId := 0, nrhs := 1, LUstruct := LUSeven, trf3Dpartition := trfOneTree,
    grid := grid2x3, nsupers := 7 }

/-- A state at the entry of the receive loop: the supernode 0 is solved, the
block rows of the supernodes 4 and 6 wait for one update each, and the
supernode 6 waits for one `LSUM` message. -/
def stateSeven : SolveState :=
  { state0 with
    x := fun i => if i = 11 then 4 else 0
    fmod := fun lk => [-1, 0, 1, 1].getD lk 0
    frecv := fun lk => if lk = 3 then 1 else 0 }

/-- The `Xk` message of the supernode 3 with the value 5. -/
def msgXk3 : Message :=
  { dest := 0, tag := MsgTag.Xk, count := 3, data := fun i => [3, 0, 5].getD i 0 }

/-- An `LSUM` message for the supernode 6 with the partial sum 7. -/
def msgLsum6 : Message :=
  { dest := 0, tag := MsgTag.LSUM, count := 3, data := fun i => [6, 0, 7].getD i 0 }


/-! ## Return values, parameter list and the set-up of `xT` -/

/-- The routine `lsumForestFsolve` with its return value: both `return`
statements of the routine return 0. -/
def lsumForestFsolve_status (k nrhs : Nat) (LUstruct : dLUstruct_t) (grid : gridinfo_t)
    (ilsumT : Nat → Nat) (s : SolveState) : Int × SolveState :=
  match LUstruct.Llu.Lrowind_bc_ptr (LBj k grid) with
  | none => (0, s)
  | some _ => (0, lsumForestFsolve k nrhs LUstruct grid ilsumT s)

/-- The parameter list of `pdgstrs3d`, in the order of its definition. -/
def pdgstrs3d_params : List String :=
  ["options", "n", "LUstruct", "ScalePermstruct", "trf3Dpartition", "grid3d", "B", "m_loc",
    "fst_row", "ldb", "nrhs", "SOLVEstruct", "stat", "info"]

/-- Start of the block `lb` in the index array of a block column, counted from
the block that starts at `lptr0`: each block is a descriptor followed by its row
indices. -/
def blockStart (lsub : Nat → Nat) (lptr0 : Nat) : Nat → Nat
  | 0 => lptr0
  | lb + 1 => blockStart lsub lptr0 lb + LB_DESCRIPTOR + lsub (blockStart lsub lptr0 lb + 1)

/-- The routine `dlasum_bmod_Tree`: the updates `lsum[i] -= U_i,k * X[k]` of the
block rows of the forest `cTree` with the nodes `k` of the forest `pTree` that
are in my process column.  `none` when `lsumForestBsolve` fails. -/
def dlasum_bmod_Tree (pTree cTree nrhs : Nat) (LUstruct : dLUstruct_t)
    (trf3Dpartition : dtrf3Dpartition_t) (grid : gridinfo_t) (ilsumT : Nat → Nat)
    (s : SolveState) : Option SolveState :=
  match trf3Dpartition.sForests pTree, trf3Dpartition.sForests cTree with
  | some pforest, some _ =>
    if pforest.nNodes < 1 then some s
    else
      foldlOpt
        (fun (s : SolveState) k0 =>
          let k := pforest.nodeList k0
          if MYCOL grid.iam grid = PCOL k grid then
            lsumForestBsolve k cTree nrhs LUstruct trf3Dpartition grid ilsumT s
          else some s)
        s (List.range pforest.nNodes)
  | _, _ => some s

/-- The state `s'` differs from `s` in `lsum` at most inside the blocks of the
local block rows whose supernode is in the forest `treeId` (and in work
buffers): `x`, `xT`, the dependency counters and the posted messages are the
same, and so is every entry of `lsum` outside these blocks. -/
def ForestRowsOnly (treeId nrhs : Nat) (LUstruct : dLUstruct_t)
    (trf3Dpartition : dtrf3Dpartition_t) (grid : gridinfo_t) (s s' : SolveState) : Prop :=
  s'.x = s.x ∧ s'.xT = s.xT ∧ s'.fmod = s.fmod ∧ s'.frecv = s.frecv ∧ s'.bmod = s.bmod ∧
  s'.brecv = s.brecv ∧ s'.sent = s.sent ∧
  ∀ q, (∀ ik, trf3Dpartition.supernode2treeMap (ik * grid.nprow + MYROW grid.iam grid) = treeId →
      ¬ (LSUM_BLK LUstruct.Llu.ilsum nrhs ik ≤ q ∧
        q < LSUM_BLK LUstruct.Llu.ilsum nrhs ik
          + SuperSize LUstruct.Glu_persist.xsup (ik * grid.nprow + MYROW grid.iam grid) * nrhs)) →
    s'.lsum q = s.lsum q

/-- A solve state whose block of `xT` for the block column 1 holds 4, every other
array being zero. -/
def stateXT : SolveState := { state0 with xT := fun i => if i = 5 then 4 else 0 }



/-! ## Trees gathered and messages exchanged between two layers -/

/-- The first tree id that `trs_X_gather3d` computes for the level `alvl`:
`blvl = maxLvl - alvl - 1; st = (1 << blvl) - 1 + (sender >> alvl)`. -/
def trs_X_gather3d_st (maxLvl sender alvl : Nat) : Nat :=
  let blvl := maxLvl - alvl - 1
  (1 <<< blvl) - 1 + (sender >>> alvl)

/-- The tree ids that `trs_X_gather3d` passes to `gatherSolvedX3d` at the level
`ilvl`, in the order of the calls: for `alvl = 0 .. ilvl` the `numTrees` trees from
`st` on. -/
def trs_X_gather3d_trees (maxLvl sender ilvl : Nat) : List Nat :=
  (List.range (ilvl + 1)).flatMap (fun alvl =>
    let diffLvl := ilvl - alvl
    let numTrees := 1 <<< diffLvl
    let st := trs_X_gather3d_st maxLvl sender alvl
    List.range' st numTrees)

/-- The parent of the tree `t` in the heap numbering, `(t + 1) / 2 - 1`; the root 0
has none (the expression gives -1 in the code). -/
def heapParent (t : Nat) : Option Nat :=
  if t = 0 then none else some ((t + 1) / 2 - 1)

/-- The ancestor of the tree `t` that lies `d` levels above it, if there is one. -/
def heapAncestor : Nat → Nat → Option Nat
  | 0, t => some t
  | d + 1, t => (heapAncestor d t).bind heapParent

/-- A point-to-point operation posted on the depth communicator `zscp.comm`, with
the peer layer, the tag and the number of words. -/
inductive ZOp where
  | MPI_Send (dest : Int) (tag count : Nat)
  | MPI_Recv (source : Int) (tag count : Nat)
deriving DecidableEq

/-- The operations on the depth communicator that one process posts in
`fsolveReduceLsum3d`, in program order. -/
def fsolveReduceLsum3d_zops (treeId : Nat) (sender receiver : Int) (nrhs : Nat)
    (trf3Dpartition : dtrf3Dpartition_t) (LUstruct : dLUstruct_t) (grid3d : gridinfo3d_t) :
    List ZOp :=
  match trf3Dpartition.sForests treeId with
  | none => []
  | some sforest =>
    let grid := grid3d.grid2d
    let myGrid := grid3d.zscp.Iam
    let xsup := LUstruct.Glu_persist.xsup
    let myrow := MYROW grid.iam grid
    let mycol := MYCOL grid.iam grid
    (List.range sforest.nNodes).flatMap (fun k0 =>
      let k := sforest.nodeList k0
      let krow := PROW k grid
      let kcol := PCOL k grid
      if myrow = krow then
        let knsupc := SuperSize xsup k
        if (myGrid : Int) = sender then
          if mycol = kcol then [ZOp.MPI_Send receiver k (knsupc * nrhs)] else []
        else
          if mycol = kcol then [ZOp.MPI_Recv sender k (knsupc * nrhs)] else []
      else [])

/-- The operations on the depth communicator that one process posts in the
reduction that follows the level `ilvl` in `pdgsTrForwardSolve3d`: one call of
`fsolveReduceLsum3d` per ancestor level. -/
def pdgsTrForwardSolve3d_zops (ilvl nrhs : Nat) (trf3Dpartition : dtrf3Dpartition_t)
    (LUstruct : dLUstruct_t) (grid3d : gridinfo3d_t) : List ZOp :=
  let maxLvl := log2i grid3d.zscp.Np + 1
  if ilvl ≠ maxLvl - 1 then
    let myGrid := grid3d.zscp.Iam
    let sr := pdgsTrForwardSolve3d_pair myGrid ilvl
    (List.range' (ilvl + 1) (maxLvl - (ilvl + 1))).flatMap (fun alvl =>
      let treeId := trf3Dpartition.myTreeIdxs alvl
      fsolveReduceLsum3d_zops treeId sr.1 sr.2 nrhs trf3Dpartition LUstruct grid3d)
  else []

/-- The operations on the depth communicator that one process posts in
`bsolve_Xt_bcast`, in program order. -/
def bsolve_Xt_bcast_zops (ilvl nrhs : Nat) (trf3Dpartition : dtrf3Dpartition_t)
    (LUstruct : dLUstruct_t) (grid3d : gridinfo3d_t) : List ZOp :=
  let xsup := LUstruct.Glu_persist.xsup
  let maxLvl := log2i grid3d.zscp.Np + 1
  let grid := grid3d.grid2d
  let myGrid := grid3d.zscp.Iam
  let myrow := MYROW grid.iam grid
  let mycol := MYCOL grid.iam grid
  let sr := bsolve_Xt_bcast_pair myGrid ilvl
  let sender := sr.1
  let receiver := sr.2
  (List.range' (ilvl + 1) (maxLvl - (ilvl + 1))).flatMap (fun alvl =>
    let treeId := trf3Dpartition.myTreeIdxs alvl
    match trf3Dpartition.sForests treeId with
    | some sforest =>
      (List.range sforest.nNodes).flatMap (fun k0 =>
        let k := sforest.nodeList k0
        let krow := PROW k grid
        let kcol := PCOL k grid
        let knsupc := SuperSize xsup k
        if (myGrid : Int) = sender then
          if mycol = kcol ∧ myrow = krow then [ZOp.MPI_Send receiver k (knsupc * nrhs)] else []
        else
          if mycol = kcol then
            if myrow = krow then [ZOp.MPI_Recv sender k (knsupc * nrhs)] else []
          else [])
    | none => [])

/-- The nodes of the ancestor forests of the layer `g` above the level `ilvl`
whose diagonal block is on this process of the 2D grid, level by level and in
the order of the node lists. -/
def ancestorDiagNodes (trf3Dpartition : dtrf3Dpartition_t) (grid : gridinfo_t)
    (maxLvl g ilvl : Nat) : List Nat :=
  (List.range' (ilvl + 1) (maxLvl - (ilvl + 1))).flatMap (fun alvl =>
    match trf3Dpartition.sForests (trs_X_gather3d_st maxLvl g alvl) with
    | none => []
    | some sforest =>
      sforest.nodes.filter (fun k =>
        decide (MYROW grid.iam grid = PROW k grid ∧ MYCOL grid.iam grid = PCOL k grid)))

/-- Layer 0 of a grid of 4 layers, on a single process per layer. -/
def grid3dLayer0 : gridinfo3d_t := { grid2d := grid1x1, zscp := { Np := 4, Iam := 0 } }

/-- Layer 1 of a grid of 4 layers, on a single process per layer. -/
def grid3dLayer1 : gridinfo3d_t := { grid2d := grid1x1, zscp := { Np := 4, Iam := 1 } }

/-- A partition of 4 layers whose tree ids follow the heap numbering for the layer
`g`; the root forest 0 holds the supernode 1, the forest 1 the supernode 0. -/
def trfHeap (g : Nat) : dtrf3Dpartition_t :=
  { sForests := fun t =>
      if t = 0 then some { nNodes := 1, nodeList := fun _ => 1 }
      else if t = 1 then some { nNodes := 1, nodeList := fun _ => 0 }
      else none
    supernode2treeMap := fun k => if k = 1 then 0 else 1
    myTreeIdxs := fun lvl => trs_X_gather3d_st 3 g lvl
    myZeroTrIdxs := fun _ => 0 }



/-! ## Completion of the sends of the leaf solves -/

/-- A call that completes a send or synchronises the processes of the 2D grid:
`MPI_Wait(&send_req[req], ...)` or `MPI_Barrier(grid->comm)`. -/
inductive CommEvent where
  | MPI_Wait (req : Nat)
  | MPI_Barrier
deriving DecidableEq

/-- The end of `leafForestForwardSolve3d` after the receive loop: `MPI_Wait` on
the requests `0 .. SolveMsgSent - 1`, the reset of `Llu->SolveMsgSent`, then
`MPI_Barrier(grid->comm)`.  The result is the list of the calls in program order
and the state. -/
def leafForestForwardSolve3d_finish (s : SolveState) : List CommEvent × SolveState :=
  let log := (List.range s.SolveMsgSent).foldl
    (fun (log : List CommEvent) i => log ++ [CommEvent.MPI_Wait i]) []
  let s : SolveState := { s with SolveMsgSent := 0 }
  let log := log ++ [CommEvent.MPI_Barrier]
  (log, s)

/-- The end of `leafForestBackSolve3d` after the receive loop: `MPI_Wait` on the
requests `0 .. SolveMsgSent - 1` and the reset of `Llu->SolveMsgSent`; the
routine then returns. -/
def leafForestBackSolve3d_finish (s : SolveState) : List CommEvent × SolveState :=
  let log := (List.range s.SolveMsgSent).foldl
    (fun (log : List CommEvent) i => log ++ [CommEvent.MPI_Wait i]) []
  let s : SolveState := { s with SolveMsgSent := 0 }
  (log, s)

/-- The routine `leafForestForwardSolve3d` with the list of its `MPI_Wait` and
`MPI_Barrier` calls: the return value, the calls in program order and the final
state.  The set-up, the seeding loop, the receive loop and the routines they
call contain no such call, so the list is the one of the end of the routine. -/
def leafForestForwardSolve3d_comm (fuel treeId n : Nat) (LUstruct : dLUstruct_t)
    (trf3Dpartition : dtrf3Dpartition_t) (grid3d : gridinfo3d_t) (nrhs : Nat)
    (env : LeafEnv) (s : SolveState) : Option (Int × List CommEvent × SolveState) :=
  match trf3Dpartition.sForests treeId with
  | none => some (0, [], s)
  | some sforest =>
    if sforest.nNodes < 1 then some (1, [], s)
    else
      match leafForestForwardSolve3d_loop fuel treeId n LUstruct trf3Dpartition grid3d.grid2d
          nrhs sforest env s with
      | none => none
      | some s =>
        let r := leafForestForwardSolve3d_finish s
        some (0, r.1, r.2)

/-- The routine `leafForestBackSolve3d` with the list of its `MPI_Wait` and
`MPI_Barrier` calls: the return value, the calls in program order and the final
state. -/
def leafForestBackSolve3d_comm (fuel treeId n : Nat) (LUstruct : dLUstruct_t)
    (trf3Dpartition : dtrf3Dpartition_t) (grid3d : gridinfo3d_t) (nrhs : Nat)
    (env : LeafEnv) (s : SolveState) : Option (Int × List CommEvent × SolveState) :=
  match trf3Dpartition.sForests treeId with
  | none => some (0, [], s)
  | some sforest =>
    if sforest.nNodes < 1 then some (1, [], s)
    else
      match leafForestBackSolve3d_loop fuel treeId n LUstruct trf3Dpartition grid3d.grid2d
          nrhs sforest env s with
      | none => none
      | some s =>
        let r := leafForestBackSolve3d_finish s
        some (0, r.1, r.2)

/-- The number of sends posted between the states `s0` and `s`: the log of the
posted messages has grown by as many entries as the counter
`Llu->SolveMsgSent`. -/
def SendsCounted (s0 s : SolveState) : Prop :=
  s.SolveMsgSent + s0.sent.length = s0.SolveMsgSent + s.sent.length ∧
    ∃ posted, s.sent = s0.sent ++ posted

/-- Process 0 of a grid of two process rows and one process column, on a single
layer. -/
def grid2x1x1 : gridinfo3d_t :=
  { grid2d := { iam := 0, nprow := 2, npcol := 1 }, zscp := { Np := 1, Iam := 0 } }

/-- The factor `LluBack` without its block of U, whose send lists of the block
column 0 name the process row 1. -/
def LUSend : dLUstruct_t :=
  { Glu_persist := { xsup := xsupUnit, supno := fun i => i }
    Llu := { LluBack with
      fsendx_plist := fun lk p => if lk = 0 ∧ p = 1 then 1 else EMPTY
      bsendx_plist := fun lk p => if lk = 0 ∧ p = 1 then 1 else EMPTY
      Ufstnz_br_ptr := fun _ => none
      Urbs := fun _ => 0 } }

/-- The forest made of the supernode 0 alone. -/
def forest0 : sForest_t := { nNodes := 1, nodeList := fun _ => 0 }

/-- A partition whose tree 0 is the forest `forest0`. -/
def trfNode0 : dtrf3Dpartition_t :=
  { sForests := fun t => if t = 0 then some forest0 else none
    supernode2treeMap := fun _ => 0
    myTreeIdxs := fun _ => 0
    myZeroTrIdxs := fun _ => 0 }



/-! ## The block update `lsumBmod` and its reference loop -/

/-- The reference loop for one block of U kept in the source under `#else` (in
`lsumForestBsolve` and in `dlsum_bmod_GG`): for every right-hand side `j` and
every column `jj` with a non-empty segment, the AXPY
`dest[irow - ikfrow] -= uval[uptr++] * y[jj]` over the rows of the segment, with
`dest = &lsum[il + j * iknsupc]`, `y = &xk[j * knsupc]` and `uptr` restarting at
the start of the block for every `j`.  `usub`, `uval` and `xk` are the arrays seen
from the start of the block. -/
def lsumBmod_reference (gik gjk nrhs : Nat) (usub : Nat → Nat) (uval : Nat → ℚ)
    (xk : Nat → ℚ) (il : Nat) (xsup : Nat → Nat) (lsum : Nat → ℚ) : Nat → ℚ :=
  let iknsupc := SuperSize xsup gik
  let knsupc := SuperSize xsup gjk
  let ikfrow := FstBlockC xsup gik
  let iklrow := FstBlockC xsup (gik + 1)
  (List.range nrhs).foldl
    (fun lsum j =>
      ((List.range knsupc).foldl
        (fun (st : Nat × (Nat → ℚ)) jj =>
          let fnz := usub jj
          if fnz < iklrow then
            (List.range' fnz (iklrow - fnz)).foldl
              (fun (st : Nat × (Nat → ℚ)) irow =>
                (st.1 + 1,
                  Function.update st.2 (il + j * iknsupc + (irow - ikfrow))
                    (st.2 (il + j * iknsupc + (irow - ikfrow))
                      - uval st.1 * xk (j * knsupc + jj))))
              st
          else st)
        (0, lsum)).2)
    lsum

/-- Start in `uval` of the segment of the column `jj` of a block of U: the
segments of the columns before `jj` are stored one after the other, the one of
the column `t` having `iklrow - usub[t]` entries. -/
def segOff (iklrow : Nat) (usub : Nat → Nat) (jj : Nat) : Nat :=
  ((List.range jj).map (fun t => iklrow - usub t)).sum

/-- Number of the columns before `jj` with a non-empty segment: the position of
the column `jj` among the packed columns. -/
def segCount (iklrow : Nat) (usub : Nat → Nat) (jj : Nat) : Nat :=
  ((List.range jj).filter (fun t => decide (usub t < iklrow))).length

/-- The state of `packUblock` after the columns `0 .. n-1`: the packed columns are
counted, the pointers `tempu` and `uval` have moved by one column of `ldu` entries
per packed column and by the segments read, `indCols` lists the packed columns,
and the packed column of `jj` holds `ldu - segsize` zeros followed by the
segment. -/
structure PackInv (ldu iklrow : Nat) (usub : Nat → Nat) (uval : Nat → ℚ) (n : Nat)
    (st : PackState) : Prop where
  ncols : st.ncols = segCount iklrow usub n
  tpos : st.tpos = segCount iklrow usub n * ldu
  upos : st.upos = segOff iklrow usub n
  ind : ∀ jj < n, usub jj < iklrow → st.indCols (segCount iklrow usub jj) = jj
  val : ∀ jj < n, usub jj < iklrow → ∀ i < ldu,
    st.tempu (segCount iklrow usub jj * ldu + i)
      = if i < ldu - (iklrow - usub jj) then 0
        else uval (segOff iklrow usub jj + (i - (ldu - (iklrow - usub jj))))

/-- Boundaries of three supernodes: the columns 0-1, 2-4 and 5. -/
def xsupBlock : Nat → Nat := fun k => [0, 2, 5, 6].getD k 6

/-- First rows of the three columns of a block of U in the block row of the
supernode 0 (rows 0-1): a full segment, an empty one and a segment of one row. -/
def usubSeg : Nat → Nat := fun jj => [0, 2, 1].getD jj 2

/-- First rows of three full segments in the block row of the supernode 0. -/
def usubFull : Nat → Nat := fun _ => 0

/-- The values of a block of U, segment after segment: 1, 2, 3, ... -/
def uvalSeg : Nat → ℚ := fun i => (i : ℚ) + 1

/-- Values of a block of the solution for the supernode 1 and two right-hand
sides. -/
def xkSeg : Nat → ℚ := fun i => [1, 10, 100, 2, 20, 200].getD i 0

/-! ## The wire format of the messages of the leaf solves -/

/-- The supernode `k` exists and lies in my process row: its blocks of `x` and of
`lsum` are stored on this process. -/
def LeafCtx.mine (c : LeafCtx) (k : Nat) : Prop :=
  k < c.nsupers ∧ PROW k c.grid = c.myrow

/-- The header words of the blocks are the same in the two states. -/
def LeafCtx.headersSame (c : LeafCtx) (s s' : SolveState) : Prop :=
  ∀ k, c.mine k →
    s'.lsum (c.lsumBlk (LBi k c.grid) - LSUM_H) = s.lsum (c.lsumBlk (LBi k c.grid) - LSUM_H) ∧
    s'.x (c.xBlk (LBi k c.grid) - XK_H) = s.x (c.xBlk (LBi k c.grid) - XK_H)

theorem LBi_PROW_inj (grid : gridinfo_t) {k k2 : Nat}
    (hr : PROW k grid = PROW k2 grid) (hl : LBi k grid = LBi k2 grid) : k = k2 := by
  unfold PROW at hr
  unfold LBi at hl
  have h1 := Nat.div_add_mod k grid.nprow
  have h2 := Nat.div_add_mod k2 grid.nprow
  rw [hr, hl] at h1
  omega

/-! ## `getBmod3d` -/

theorem getBmod3d_block_loop (treeId : Nat) (xsup map usub : Nat → Nat) (lk : Nat)
    (l : List Nat) (iukp : Nat) (bmod : Nat → Int) :
    (l.foldl (fun st _ => getBmod3d_block treeId xsup map usub lk st) (iukp, bmod)).2
      = Function.update bmod lk
          (bmod lk + (((uBlockColumns xsup usub l.length iukp).filter
            (fun jb => map jb = treeId)).length : Nat)) := by
  induction l generalizing iukp bmod with
  | nil => simp [uBlockColumns]
  | cons a t ih =>
    simp only [List.foldl_cons, List.length_cons, uBlockColumns]
    have hstep : getBmod3d_block treeId xsup map usub lk (iukp, bmod)
        = (iukp + UB_DESCRIPTOR + SuperSize xsup (usub iukp),
            if map (usub iukp) = treeId then Function.update bmod lk (bmod lk + 1) else bmod) := rfl
    rw [hstep, ih]
    by_cases h : map (usub iukp) = treeId
    · simp [h, List.filter_cons]
      rw [add_assoc, add_comm (1 : Int)]
    · simp [h, List.filter_cons]

theorem getBmod3d_node_own (treeId : Nat) (LU : dLUstruct_t) (trf : dtrf3Dpartition_t)
    (grid : gridinfo_t) (bmod : Nat → Int) (k : Nat)
    (hrow : PROW k grid = MYROW grid.iam grid) :
    getBmod3d_node treeId LU trf grid bmod k
      = Function.update bmod (LBi k grid) (countUBlocksInTree treeId LU trf (LBi k grid)) := by
  unfold getBmod3d_node countUBlocksInTree
  simp only [hrow, if_true]
  cases hU : LU.Llu.Ufstnz_br_ptr (LBi k grid) with
  | none => simp
  | some usub =>
    simp only []
    rw [getBmod3d_block_loop]
    simp

theorem getBmod3d_node_other (treeId : Nat) (LU : dLUstruct_t) (trf : dtrf3Dpartition_t)
    (grid : gridinfo_t) (bmod : Nat → Int) (k : Nat)
    (hrow : PROW k grid ≠ MYROW grid.iam grid) :
    getBmod3d_node treeId LU trf grid bmod k = bmod := by
  unfold getBmod3d_node
  simp [Ne.symm hrow]

theorem getBmod3d_loop_frame (treeId : Nat) (LU : dLUstruct_t) (trf : dtrf3Dpartition_t)
    (grid : gridinfo_t) (ks : List Nat) (bmod : Nat → Int) (lk : Nat)
    (h : ∀ k ∈ ks, PROW k grid = MYROW grid.iam grid → LBi k grid ≠ lk) :
    (ks.foldl (getBmod3d_node treeId LU trf grid) bmod) lk = bmod lk := by
  induction ks generalizing bmod with
  | nil => rfl
  | cons k t ih =>
    simp only [List.foldl_cons]
    rw [ih _ (fun k2 hk2 => h k2 (List.mem_cons_of_mem _ hk2))]
    by_cases hrow : PROW k grid = MYROW grid.iam grid
    · rw [getBmod3d_node_own _ _ _ _ _ _ hrow]
      exact Function.update_noteq (Ne.symm (h k (List.mem_cons_self _ _) hrow)) _ _
    · rw [getBmod3d_node_other _ _ _ _ _ _ hrow]

theorem getBmod3d_loop_own (treeId : Nat) (LU : dLUstruct_t) (trf : dtrf3Dpartition_t)
    (grid : gridinfo_t) (ks : List Nat) (bmod : Nat → Int) (k : Nat)
    (hk : k ∈ ks) (hrow : PROW k grid = MYROW grid.iam grid) :
    (ks.foldl (getBmod3d_node treeId LU trf grid) bmod) (LBi k grid)
      = countUBlocksInTree treeId LU trf (LBi k grid) := by
  induction ks generalizing bmod with
  | nil => cases hk
  | cons k1 t ih =>
    simp only [List.foldl_cons]
    by_cases hmem : k ∈ t
    · exact ih _ hmem
    · have hk1 : k = k1 := by
        rcases List.mem_cons.mp hk with h | h
        · exact h
        · exact absurd h hmem
      subst hk1
      rw [getBmod3d_loop_frame]
      · rw [getBmod3d_node_own _ _ _ _ _ _ hrow]
        exact Function.update_same _ _ _
      · intro k2 hk2 hrow2 hl
        have : k2 = k := LBi_PROW_inj grid (hrow2.trans hrow.symm) hl
        exact hmem (this ▸ hk2)

theorem foldl_range_map {β : Type} (f : β → Nat → β) (g : Nat → Nat) (n : Nat) (b : β) :
    (List.range n).foldl (fun acc k0 => f acc (g k0)) b = ((List.range n).map g).foldl f b := by
  rw [List.foldl_map]

/-- C8 (amended): for a forest with at least one node, `getBmod3d` returns an array
whose entry `LBi(k)`, for every forest node `k` owned by my process row, is the
number of U blocks stored in that local block row whose column supernode is mapped
to `treeId` (0 without U storage), and whose every other entry below `nlb` is 0. -/
theorem getBmod3d_counts (treeId nlb : Nat) (sforest : sForest_t)
    (LU : dLUstruct_t) (trf : dtrf3Dpartition_t) (grid : gridinfo_t)
    (heap : Nat → Int) (hn : 1 ≤ sforest.nNodes) :
    ∃ bmod, getBmod3d treeId nlb sforest LU trf grid heap = some bmod ∧
      (∀ k ∈ sforest.nodes, PROW k grid = MYROW grid.iam grid →
        bmod (LBi k grid) = countUBlocksInTree treeId LU trf (LBi k grid)) ∧
      (∀ lk, lk < nlb →
        (∀ k ∈ sforest.nodes, PROW k grid = MYROW grid.iam grid → LBi k grid ≠ lk) →
        bmod lk = 0) := by
  unfold getBmod3d
  rw [if_neg (by omega)]
  refine ⟨_, rfl, ?_, ?_⟩
  · intro k hk hrow
    rw [foldl_range_map (getBmod3d_node treeId LU trf grid) sforest.nodeList]
    exact getBmod3d_loop_own treeId LU trf grid _ _ k hk hrow
  · intro lk hlk h
    rw [foldl_range_map (getBmod3d_node treeId LU trf grid) sforest.nodeList]
    have key := getBmod3d_loop_frame treeId LU trf grid sforest.nodes
      (fun k => if k < nlb then 0 else heap k) lk h
    unfold sForest_t.nodes at key
    rw [key]
    simp [hlk]


theorem getBmod3d_counts_witness :
    1 ≤ forest01.nNodes ∧
    ∃ bmod, getBmod3d 0 2 forest01 LUTwoBlocks trfOneTree
        grid1x1 (fun _ => 7) = some bmod ∧ bmod 0 = 2 ∧ bmod 1 = 2 := by
  refine ⟨by decide, ?_⟩
  obtain ⟨bmod, h1, h2, _⟩ := getBmod3d_counts 0 2 forest01 LUTwoBlocks
    trfOneTree grid1x1 (fun _ => 7) (by decide)
  refine ⟨bmod, h1, ?_, ?_⟩
  · exact h2 0 (by decide) (by decide)
  · exact h2 1 (by decide) (by decide)

/-- C8 fails as stated: for a forest without nodes `getBmod3d` returns `NULL`, not
an array of `nlb` zero counters. -/
theorem getBmod3d_empty_forest_null :
    ¬ ∃ bmod, getBmod3d 0 1 emptyForest LUEmpty trfOneTree grid1x1
        (fun _ => 0) = some bmod ∧
      (∀ k ∈ emptyForest.nodes, PROW k grid1x1 = MYROW grid1x1.iam grid1x1 →
        bmod (LBi k grid1x1)
          = countUBlocksInTree 0 LUEmpty trfOneTree (LBi k grid1x1)) ∧
      (∀ lk, lk < 1 →
        (∀ k ∈ emptyForest.nodes, PROW k grid1x1 = MYROW grid1x1.iam grid1x1 →
          LBi k grid1x1 ≠ lk) →
        bmod lk = 0) := by
  rintro ⟨bmod, h, _⟩
  have hnone : getBmod3d 0 1 emptyForest LUEmpty trfOneTree grid1x1
      (fun _ => 0) = none := rfl
  rw [hnone] at h
  cases h

/-! ## `getfmodLeaf` -/

theorem foldl_update_copy (n : Nat) (src a : Nat → Int) (i : Nat) :
    ((List.range n).foldl (fun m k => Function.update m k (src k)) a) i
      = if i < n then src i else a i := by
  induction n with
  | zero => simp
  | succ n ih =>
    rw [List.range_succ, List.foldl_append]
    simp only [List.foldl_cons, List.foldl_nil]
    by_cases h : i = n
    · subst h
      simp
    · rw [Function.update_noteq h, ih]
      by_cases h2 : i < n
      · simp [h2, Nat.lt_succ_of_lt h2]
      · have : ¬ i < n + 1 := by omega
        simp [h2, this]

/-- C9 (amended): the forward counter array produced by `getfmodLeaf` is a copy of
the first `nlb` entries of the precomputed `Llu->fmod`; entries beyond `nlb` are
not written, and no forest enters the computation. -/
theorem getfmodLeaf_copy (nlb : Nat) (LUstruct : dLUstruct_t) (heap : Nat → Int)
    (lk : Nat) :
    getfmodLeaf nlb LUstruct heap lk = if lk < nlb then LUstruct.Llu.fmod lk else heap lk := by
  unfold getfmodLeaf
  exact foldl_update_copy nlb LUstruct.Llu.fmod heap lk

/-- C9 fails as stated: on a factor whose `fmod` counts the local off-diagonal L
blocks of every block row, block row 2 (root forest) has two L blocks, both in
columns of leaf forests; `getfmodLeaf` yields 2 for it, while the number of its
L blocks whose column is in the forest of the row is 0. -/
theorem getfmodLeaf_not_same_forest_count :
    (∀ lk, lk < 3 → Llu3.fmod lk = (countLocalLBlocks Llu3 grid1x1 3 lk : Int)) ∧
    ¬ ∀ lk, lk < 3 →
      getfmodLeaf 3 LU3 (fun _ => 0) lk
        = (countLocalLBlocksSameForest treeMap3 Llu3 grid1x1 3 lk : Int) := by
  refine ⟨by decide, ?_⟩
  intro h
  have h2 := h 2 (by decide)
  revert h2
  decide

/-! ## `getfrecvLeaf` -/

theorem MYROW_inColumn (grid : gridinfo_t) (c : Nat) (hc : c < grid.npcol) :
    MYROW (grid.inColumn c).iam (grid.inColumn c) = MYROW grid.iam grid := by
  unfold gridinfo_t.inColumn MYROW PNUM
  simp only []
  have hpos : 0 < grid.npcol := by omega
  rw [Nat.add_comm, Nat.add_mul_div_right _ _ hpos, Nat.div_eq_of_lt hc]
  simp

theorem MYCOL_inColumn (grid : gridinfo_t) (c : Nat) (hc : c < grid.npcol) :
    MYCOL (grid.inColumn c).iam (grid.inColumn c) = c := by
  unfold gridinfo_t.inColumn MYCOL PNUM
  simp only []
  rw [Nat.add_comm, Nat.add_mul_mod_self_right, Nat.mod_eq_of_lt hc]

theorem foldl_update_const (n : Nat) (v : Int) (a : Nat → Int) (i : Nat) :
    ((List.range n).foldl (fun m k => Function.update m k v) a) i = if i < n then v else a i := by
  induction n with
  | zero => simp
  | succ n ih =>
    rw [List.range_succ, List.foldl_append]
    simp only [List.foldl_cons, List.foldl_nil]
    by_cases h : i = n
    · subst h
      simp
    · rw [Function.update_noteq h, ih]
      by_cases h2 : i < n
      · simp [h2, Nat.lt_succ_of_lt h2]
      · have : ¬ i < n + 1 := by omega
        simp [h2, this]

/-- One iteration of the node loop of `getfrecvLeaf`, for the node `k`. -/
theorem getfrecvLeaf_mod_bit_loop (ks : List Nat) (fmod : Nat → Int) (myrow mycol : Nat)
    (grid : gridinfo_t) (m : Nat → Int) (lk : Nat) :
    (ks.foldl (fun mod_bit k =>
        if myrow = PROW k grid then
          if mycol ≠ PCOL k grid ∧ fmod (LBi k grid) ≠ 0
          then Function.update mod_bit (LBi k grid) 1 else mod_bit
        else mod_bit) m) lk
      = if ∃ k ∈ ks, myrow = PROW k grid ∧ LBi k grid = lk ∧ mycol ≠ PCOL k grid ∧ fmod lk ≠ 0
        then 1 else m lk := by
  induction ks generalizing m with
  | nil => simp
  | cons k t ih =>
    simp only [List.foldl_cons]
    rw [ih]
    by_cases hex : ∃ k2 ∈ t, myrow = PROW k2 grid ∧ LBi k2 grid = lk ∧ mycol ≠ PCOL k2 grid ∧ fmod lk ≠ 0
    · have : ∃ k2 ∈ k :: t, myrow = PROW k2 grid ∧ LBi k2 grid = lk ∧ mycol ≠ PCOL k2 grid ∧ fmod lk ≠ 0 := by
        obtain ⟨k2, h1, h2⟩ := hex
        exact ⟨k2, List.mem_cons_of_mem _ h1, h2⟩
      rw [if_pos hex, if_pos this]
    · rw [if_neg hex]
      by_cases hk : myrow = PROW k grid ∧ LBi k grid = lk ∧ mycol ≠ PCOL k grid ∧ fmod lk ≠ 0
      · have : ∃ k2 ∈ k :: t, myrow = PROW k2 grid ∧ LBi k2 grid = lk ∧ mycol ≠ PCOL k2 grid ∧ fmod lk ≠ 0 :=
          ⟨k, List.mem_cons_self _ _, hk⟩
        rw [if_pos this]
        obtain ⟨h1, h2, h3, h4⟩ := hk
        subst h2
        rw [if_pos h1, if_pos ⟨h3, h4⟩]
        exact Function.update_same _ _ _
      · have : ¬ ∃ k2 ∈ k :: t, myrow = PROW k2 grid ∧ LBi k2 grid = lk ∧ mycol ≠ PCOL k2 grid ∧ fmod lk ≠ 0 := by
          rintro ⟨k2, hmem, h2⟩
          rcases List.mem_cons.mp hmem with h | h
          · exact hk (h ▸ h2)
          · exact hex ⟨k2, h, h2⟩
        rw [if_neg this]
        by_cases h1 : myrow = PROW k grid
        · rw [if_pos h1]
          by_cases h34 : mycol ≠ PCOL k grid ∧ fmod (LBi k grid) ≠ 0
          · rw [if_pos h34]
            have hne : lk ≠ LBi k grid := by
              intro h
              apply hk
              exact ⟨h1, h.symm, h34.1, h ▸ h34.2⟩
            exact Function.update_noteq hne _ _
          · rw [if_neg h34]
        · rw [if_neg h1]

theorem getfrecvLeaf_mod_bit_eq (sforest : sForest_t) (nlb : Nat) (fmod : Nat → Int)
    (grid : gridinfo_t) (mod_bit : Nat → Int) (lk : Nat) :
    getfrecvLeaf_mod_bit sforest nlb fmod grid mod_bit lk
      = if ∃ k ∈ sforest.nodes, MYROW grid.iam grid = PROW k grid ∧ LBi k grid = lk ∧
            MYCOL grid.iam grid ≠ PCOL k grid ∧ fmod lk ≠ 0
        then 1 else if lk < nlb then 0 else mod_bit lk := by
  unfold getfrecvLeaf_mod_bit
  simp only []
  have h := getfrecvLeaf_mod_bit_loop sforest.nodes fmod (MYROW grid.iam grid)
    (MYCOL grid.iam grid) grid
    ((List.range nlb).foldl (fun mod_bit k => Function.update mod_bit k 0) mod_bit) lk
  unfold sForest_t.nodes at h
  rw [List.foldl_map] at h
  rw [h, foldl_update_const]
  rfl

theorem sum_indicator_eq_filter_length (l : List Nat) (p : Nat → Prop) [DecidablePred p] :
    (l.map (fun c => if p c then (1 : Int) else 0)).sum = ((l.filter (fun c => decide (p c))).length : Nat) := by
  induction l with
  | nil => simp
  | cons a t ih =>
    simp only [List.map_cons, List.sum_cons, ih, List.filter_cons]
    by_cases h : p a
    · simp [h]
      ring
    · simp [h]

theorem filter_ne_length_le (n kcol : Nat) (q : Nat → Bool) (h : kcol < n) :
    ((List.range n).filter (fun c => decide (c ≠ kcol) && q c)).length ≤ n - 1 := by
  have h1 : ((List.range n).filter (fun c => decide (c ≠ kcol) && q c)).length
      ≤ ((List.range n).filter (fun c => decide (c ≠ kcol))).length := by
    have hsub : List.Sublist ((List.range n).filter (fun c => decide (c ≠ kcol) && q c))
        ((List.range n).filter (fun c => decide (c ≠ kcol))) := by
      apply List.monotone_filter_right
      intro c hc
      simp only [Bool.and_eq_true] at hc
      exact hc.1
    exact hsub.length_le
  have h2 : ((List.range n).filter (fun c => decide (c ≠ kcol))).length = n - 1 := by
    have hnd : (List.range n).Nodup := List.nodup_range n
    have hm : kcol ∈ List.range n := List.mem_range.mpr h
    have : (List.range n).filter (fun c => decide (c ≠ kcol)) = (List.range n).erase kcol := by
      rw [hnd.erase_eq_filter]
      congr 1
      funext c
      by_cases hc : c = kcol <;> simp [hc]
    rw [this, List.length_erase_of_mem hm]
    simp
  omega


/-- C10: in `getfrecvLeaf`, with the all-reduce as the sum over the `npcol`
processes of my process row, every process contributes 0 or 1 per local block
row; for a forest node `k` of my row `frecv[LBi(k)]` is the number of process
columns other than `PCOL(k)` whose `fmod[LBi(k)]` is non-zero; a block row with
no forest node gets 0; and `0 ≤ frecv ≤ npcol - 1`. -/
theorem getfrecvLeaf_counts (sforest : sForest_t) (nlb : Nat) (fmodRow : Nat → Nat → Int)
    (grid : gridinfo_t) (mod_bitRow : Nat → Nat → Int) (heap : Nat → Int)
    (hc : 0 < grid.npcol) :
    (∀ c lk, c < grid.npcol → lk < nlb →
      getfrecvLeaf_mod_bit sforest nlb (fmodRow c) (grid.inColumn c) (mod_bitRow c) lk = 0 ∨
      getfrecvLeaf_mod_bit sforest nlb (fmodRow c) (grid.inColumn c) (mod_bitRow c) lk = 1) ∧
    (∀ k ∈ sforest.nodes, PROW k grid = MYROW grid.iam grid → LBi k grid < nlb →
      getfrecvLeaf sforest nlb fmodRow grid mod_bitRow heap (LBi k grid)
        = (((List.range grid.npcol).filter
            (fun c => decide (c ≠ PCOL k grid) && decide (fmodRow c (LBi k grid) ≠ 0))).length : Nat)) ∧
    (∀ lk, lk < nlb →
      (∀ k ∈ sforest.nodes, PROW k grid = MYROW grid.iam grid → LBi k grid ≠ lk) →
      getfrecvLeaf sforest nlb fmodRow grid mod_bitRow heap lk = 0) ∧
    (∀ lk, lk < nlb →
      0 ≤ getfrecvLeaf sforest nlb fmodRow grid mod_bitRow heap lk ∧
      getfrecvLeaf sforest nlb fmodRow grid mod_bitRow heap lk ≤ (grid.npcol : Int) - 1) := by
  have hloc : ∀ c lk, c < grid.npcol → lk < nlb →
      getfrecvLeaf_mod_bit sforest nlb (fmodRow c) (grid.inColumn c) (mod_bitRow c) lk
        = if ∃ k ∈ sforest.nodes, MYROW grid.iam grid = PROW k grid ∧ LBi k grid = lk ∧
            c ≠ PCOL k grid ∧ fmodRow c lk ≠ 0 then 1 else 0 := by
    intro c lk hcl hlk
    rw [getfrecvLeaf_mod_bit_eq, MYROW_inColumn grid c hcl, MYCOL_inColumn grid c hcl]
    simp only [hlk, if_true]
    rfl
  have hown : ∀ k ∈ sforest.nodes, PROW k grid = MYROW grid.iam grid → LBi k grid < nlb →
      getfrecvLeaf sforest nlb fmodRow grid mod_bitRow heap (LBi k grid)
        = (((List.range grid.npcol).filter
            (fun c => decide (c ≠ PCOL k grid) && decide (fmodRow c (LBi k grid) ≠ 0))).length : Nat) := by
    intro k hk hrow hlk
    unfold getfrecvLeaf MPI_Allreduce_SUM
    simp only [hlk, if_true]
    have hmap : (List.range grid.npcol).map (fun c =>
          getfrecvLeaf_mod_bit sforest nlb (fmodRow c) (grid.inColumn c) (mod_bitRow c) (LBi k grid))
        = (List.range grid.npcol).map (fun c =>
          if (c ≠ PCOL k grid ∧ fmodRow c (LBi k grid) ≠ 0) then (1 : Int) else 0) := by
      apply List.map_congr_left
      intro c hcm
      rw [hloc c _ (List.mem_range.mp hcm) hlk]
      by_cases hq : c ≠ PCOL k grid ∧ fmodRow c (LBi k grid) ≠ 0
      · rw [if_pos hq, if_pos ⟨k, hk, hrow.symm, rfl, hq.1, hq.2⟩]
      · rw [if_neg hq, if_neg]
        rintro ⟨k2, hk2, h1, h2, h3, h4⟩
        have : k2 = k := LBi_PROW_inj grid (h1.symm.trans hrow.symm) h2
        subst this
        exact hq ⟨h3, h4⟩
    rw [hmap, sum_indicator_eq_filter_length]
    congr 3
    funext c
    simp
  have hzero : ∀ lk, lk < nlb →
      (∀ k ∈ sforest.nodes, PROW k grid = MYROW grid.iam grid → LBi k grid ≠ lk) →
      getfrecvLeaf sforest nlb fmodRow grid mod_bitRow heap lk = 0 := by
    intro lk hlk hno
    unfold getfrecvLeaf MPI_Allreduce_SUM
    simp only [hlk, if_true]
    have hmap : (List.range grid.npcol).map (fun c =>
          getfrecvLeaf_mod_bit sforest nlb (fmodRow c) (grid.inColumn c) (mod_bitRow c) lk)
        = (List.range grid.npcol).map (fun _ => (0 : Int)) := by
      apply List.map_congr_left
      intro c hcm
      rw [hloc c _ (List.mem_range.mp hcm) hlk, if_neg]
      rintro ⟨k2, hk2, h1, h2, _⟩
      exact hno k2 hk2 h1.symm h2
    rw [hmap]
    simp
  refine ⟨?_, hown, hzero, ?_⟩
  · intro c lk hcl hlk
    rw [hloc c lk hcl hlk]
    by_cases h : ∃ k ∈ sforest.nodes, MYROW grid.iam grid = PROW k grid ∧ LBi k grid = lk ∧
            c ≠ PCOL k grid ∧ fmodRow c lk ≠ 0
    · right
      rw [if_pos h]
    · left
      rw [if_neg h]
  · intro lk hlk
    by_cases h : ∃ k ∈ sforest.nodes, PROW k grid = MYROW grid.iam grid ∧ LBi k grid = lk
    · obtain ⟨k, hk, hrow, hl⟩ := h
      subst hl
      rw [hown k hk hrow hlk]
      have hb := filter_ne_length_le grid.npcol (PCOL k grid)
        (fun c => decide (fmodRow c (LBi k grid) ≠ 0)) (Nat.mod_lt _ hc)
      simp only [] at hb
      constructor
      · exact Int.natCast_nonneg _
      · have : (1 : Int) ≤ grid.npcol := by exact_mod_cast hc
        omega
    · rw [hzero lk hlk]
      · constructor
        · exact le_refl _
        · have : (1 : Int) ≤ grid.npcol := by exact_mod_cast hc
          omega
      · intro k hk hrow hl
        exact h ⟨k, hk, hrow, hl⟩


theorem getfrecvLeaf_counts_witness :
    0 < grid1x2.npcol ∧
    getfrecvLeaf forest01 2 (fun c lk => if c = 1 ∧ lk = 0 then 3 else 0) grid1x2
      (fun _ _ => 7) (fun _ => 9) 0 = 1 := by
  refine ⟨by decide, ?_⟩
  have h := (getfrecvLeaf_counts forest01 2 (fun c lk => if c = 1 ∧ lk = 0 then 3 else 0)
    grid1x2 (fun _ _ => 7) (fun _ => 9) (by decide)).2.1 0 (by decide) (by decide) (by decide)
  exact h.trans (by decide)

/-! ## The loop body of `dlsum_fmod_leaf` for a row of another forest -/

/-- C6: in the loop body of `dlsum_fmod_leaf`, for a target block row
`ik = lsub[lptr]` with `supernode2treeMap[ik] ≠ treeId`, whatever routine is
used for the cascade, the body succeeds and its only effects are: `rtemp` holds
the block product, `ops` is increased, the product is subtracted from `lsum`
by the scatter loop, and `fmod[LBi ik]` is decremented by one.  In particular
`x`, the list of sent messages, `SolveMsgSent`, the list of solved blocks and
`frecv` are unchanged, also when `fmod` reaches 0. -/
theorem dlsum_fmod_leaf_block_other_forest
    (recurse : FmodCall → SolveState → Option SolveState)
    (treeId : Nat) (trf3Dpartition : dtrf3Dpartition_t) (xk : XkPtr) (nrhs knsupc : Nat)
    (xsup : Nat → Nat) (grid : gridinfo_t) (Llu : dLocalLU_t)
    (lsub : Nat → Nat) (lusup : Nat → ℚ) (nsupr : Nat)
    (lptr luptr : Nat) (s : SolveState)
    (h : trf3Dpartition.supernode2treeMap (lsub lptr) ≠ treeId) :
    ∃ s1 : SolveState,
      dlsum_fmod_leaf_block recurse treeId trf3Dpartition xk nrhs knsupc xsup grid Llu
        lsub lusup nsupr (lptr, luptr, s)
        = some (lptr + LB_DESCRIPTOR + lsub (lptr + 1), luptr + lsub (lptr + 1), s1)
      ∧ s1.lsum = lsumScatterSub s.lsum (LSUM_BLK Llu.ilsum nrhs (LBi (lsub lptr) grid))
          (SuperSize xsup (lsub lptr)) (lsub (lptr + 1)) nrhs lsub (lptr + LB_DESCRIPTOR)
          (xsup (lsub lptr))
          (dgemm_ (lsub (lptr + 1)) nrhs knsupc 1 (fun i => lusup (luptr + i)) nsupr
            (xk.read s) knsupc 0 s.rtemp 0 (lsub (lptr + 1)))
      ∧ s1.fmod = Function.update s.fmod (LBi (lsub lptr) grid)
          (s.fmod (LBi (lsub lptr) grid) - 1)
      ∧ s1.x = s.x ∧ s1.sent = s.sent ∧ s1.SolveMsgSent = s.SolveMsgSent
      ∧ s1.solved = s.solved ∧ s1.frecv = s.frecv
      ∧ s1.xT = s.xT ∧ s1.recvbuf = s.recvbuf ∧ s1.bmod = s.bmod ∧ s1.brecv = s.brecv := by
  unfold dlsum_fmod_leaf_block
  simp only [h, if_false, ite_self]
  exact ⟨_, rfl, rfl, rfl, rfl, rfl, rfl, rfl, rfl, rfl, rfl, rfl, rfl⟩

theorem dlsum_fmod_leaf_block_other_forest_witness :
    trf3.supernode2treeMap (lsubCol0 5) ≠ 1 ∧
    ∃ s1 : SolveState,
      dlsum_fmod_leaf_block (fun _ _ => none) 1 trf3 (XkPtr.x 2) 1 1 xsupUnit grid1x1 Llu3
        lsubCol0 (fun _ => 1) 2 (5, 1, { state0 with fmod := fun _ => 1 })
        = some (8, 2, s1)
      ∧ s1.fmod 2 = 0 ∧ s1.x = state0.x ∧ s1.sent = [] ∧ s1.solved = [] := by
  refine ⟨by decide, ?_⟩
  obtain ⟨s1, h1, _, h3, h4, h5, _, h7, _⟩ :=
    dlsum_fmod_leaf_block_other_forest (fun _ _ => none) 1 trf3 (XkPtr.x 2) 1 1 xsupUnit
      grid1x1 Llu3 lsubCol0 (fun _ => 1) 2 5 1 { state0 with fmod := fun _ => 1 } (by decide)
  refine ⟨s1, h1, ?_, h4, h5, h7⟩
  rw [h3]
  decide

/-! ## Each diagonal block is solved at most once in the forward leaf solve -/

theorem SolvedOnce_mono {s s' : SolveState} (hs : s'.solved = s.solved)
    (hf : ∀ lk, s.fmod lk < 0 → s'.fmod lk < 0) (h : SolvedOnce s) : SolvedOnce s' := by
  refine ⟨fun e he => ?_, ?_⟩
  · rw [hs] at he
    obtain ⟨h1, h2, h3⟩ := h.1 e he
    exact ⟨h1, h2, hf _ h3⟩
  · rw [hs]; exact h.2

theorem SolvedOnce_solve {s s' : SolveState} (k lk : Nat) (h : SolvedOnce s)
    (hm : s.fmod lk = 0) (hr : s.frecv lk = 0)
    (hs : s'.solved = s.solved ++ [SolveEvent.mk k lk (s.fmod lk) (s.frecv lk)])
    (hf : s'.fmod = Function.update s.fmod lk (-1)) : SolvedOnce s' := by
  have hnot : lk ∉ s.solved.map SolveEvent.lk := by
    intro hmem
    obtain ⟨e, he, hlk⟩ := List.mem_map.1 hmem
    have := (h.1 e he).2.2
    rw [hlk, hm] at this
    exact absurd this (by decide)
  refine ⟨fun e he => ?_, ?_⟩
  · rw [hs, List.mem_append, List.mem_singleton] at he
    rcases he with he | he
    · obtain ⟨h1, h2, h3⟩ := h.1 e he
      refine ⟨h1, h2, ?_⟩
      rw [hf]
      by_cases hc : e.lk = lk
      · rw [hc, Function.update_same]; decide
      · rw [Function.update_noteq hc]; exact h3
    · subst he
      refine ⟨hm, hr, ?_⟩
      rw [hf]; simp
  · rw [hs, List.map_append, List.map_singleton, List.nodup_append]
    refine ⟨h.2, List.nodup_singleton _, ?_⟩
    intro a ha hb
    rw [List.mem_singleton] at hb
    have hb' : a = lk := hb
    rw [hb'] at ha
    exact hnot ha

theorem foldlOpt_inv {σ β : Type} (P : σ → Prop) (f : σ → β → Option σ)
    (hf : ∀ a x b, P a → f a x = some b → P b) :
    ∀ (l : List β) (a b : σ), P a → foldlOpt f a l = some b → P b := by
  intro l
  induction l with
  | nil => intro a b ha h; simp [foldlOpt] at h; exact h ▸ ha
  | cons x l ih =>
    intro a b ha h
    unfold foldlOpt at h
    cases hfx : f a x with
    | none => simp [hfx] at h
    | some a1 =>
      simp only [hfx] at h
      exact ih a1 b (hf a x a1 ha hfx) h

theorem foldl_inv {σ β : Type} (P : σ → Prop) (f : σ → β → σ)
    (hf : ∀ a x, P a → P (f a x)) :
    ∀ (l : List β) (a : σ), P a → P (l.foldl f a) := by
  intro l
  induction l with
  | nil => intro a ha; exact ha
  | cons x l ih => intro a ha; exact ih _ (hf a x ha)


theorem MPI_Isend_fmod (buf : Nat → ℚ) (start count dest : Nat) (tag : MsgTag)
    (s : SolveState) : (MPI_Isend buf start count dest tag s).fmod = s.fmod := rfl

theorem MPI_Isend_solved (buf : Nat → ℚ) (start count dest : Nat) (tag : MsgTag)
    (s : SolveState) : (MPI_Isend buf start count dest tag s).solved = s.solved := rfl

theorem MPI_Isend_SolvedOnce (buf : Nat → ℚ) (start count dest : Nat) (tag : MsgTag)
    (s : SolveState) (h : SolvedOnce s) : SolvedOnce (MPI_Isend buf start count dest tag s) :=
  SolvedOnce_mono rfl (fun _ h => h) h

theorem SolvedOnce_dec {s s1 : SolveState} (lk : Nat) (h : SolvedOnce s)
    (hs : s1.solved = s.solved)
    (hf : s1.fmod = Function.update s.fmod lk (s.fmod lk - 1)) : SolvedOnce s1 := by
  refine SolvedOnce_mono hs (fun lk' hlt => ?_) h
  rw [hf]
  by_cases hc : lk' = lk
  · rw [hc, Function.update_same]; rw [hc] at hlt; omega
  · rw [Function.update_noteq hc]; exact hlt

theorem foldl_Isend_SolvedOnce (c : Nat → Prop) [DecidablePred c] (start count : Nat)
    (dest : Nat → Nat) (tag : MsgTag) (l : List Nat) (s : SolveState) (h : SolvedOnce s) :
    SolvedOnce (l.foldl (fun s p => if c p then MPI_Isend s.x start count (dest p) tag s else s)
      s) := by
  refine foldl_inv SolvedOnce _ (fun a p ha => ?_) l s h
  by_cases hc : c p
  · simp only [hc, if_true]; exact MPI_Isend_SolvedOnce _ _ _ _ _ _ ha
  · simp only [hc, if_false]; exact ha

theorem dlsum_fmod_leaf_block_SolvedOnce
    (recurse : FmodCall → SolveState → Option SolveState)
    (hrec : ∀ c s s', SolvedOnce s → recurse c s = some s' → SolvedOnce s')
    (treeId : Nat) (trf3Dpartition : dtrf3Dpartition_t) (xk : XkPtr) (nrhs knsupc : Nat)
    (xsup : Nat → Nat) (grid : gridinfo_t) (Llu : dLocalLU_t)
    (lsub : Nat → Nat) (lusup : Nat → ℚ) (nsupr : Nat)
    (st st' : Nat × Nat × SolveState) (hinv : SolvedOnce st.2.2)
    (h : dlsum_fmod_leaf_block recurse treeId trf3Dpartition xk nrhs knsupc xsup grid Llu
      lsub lusup nsupr st = some st') : SolvedOnce st'.2.2 := by
  obtain ⟨lptr, luptr, s⟩ := st
  have hinv : SolvedOnce s := hinv
  unfold dlsum_fmod_leaf_block at h
  simp only [] at h
  split at h
  · rename_i h0
    split at h
    · split at h
      · simp only [Option.some.injEq] at h
        subst h
        exact MPI_Isend_SolvedOnce _ _ _ _ _ _ (SolvedOnce_dec _ hinv rfl rfl)
      · split at h
        · rename_i hr
          split at h
          · exact absurd h (by simp)
          · split at h
            · exact absurd h (by simp)
            · rename_i s2 hs2
              simp only [Option.some.injEq] at h
              subst h
              refine hrec _ _ _ ?_ hs2
              apply foldl_Isend_SolvedOnce (fun p => Llu.fsendx_plist _ p ≠ EMPTY)
              have hs1 : SolvedOnce ({ s with
                  fmod := Function.update s.fmod (LBi (lsub lptr) grid)
                    (s.fmod (LBi (lsub lptr) grid) - 1) } : SolveState) :=
                SolvedOnce_dec _ hinv rfl rfl
              exact SolvedOnce_solve (lsub lptr) (LBi (lsub lptr) grid) hs1 h0 hr rfl rfl
        · simp only [Option.some.injEq] at h
          subst h
          exact SolvedOnce_dec _ hinv rfl rfl
    · simp only [Option.some.injEq] at h
      subst h
      exact SolvedOnce_dec _ hinv rfl rfl
  · simp only [Option.some.injEq] at h
    subst h
    exact SolvedOnce_dec _ hinv rfl rfl


theorem dlsum_fmod_leaf_with_SolvedOnce
    (recurse : FmodCall → SolveState → Option SolveState)
    (hrec : ∀ c s s', SolvedOnce s → recurse c s = some s' → SolvedOnce s')
    (treeId : Nat) (trf3Dpartition : dtrf3Dpartition_t) (nrhs : Nat) (xsup : Nat → Nat)
    (grid : gridinfo_t) (Llu : dLocalLU_t) (c : FmodCall) (s s' : SolveState)
    (hinv : SolvedOnce s)
    (h : dlsum_fmod_leaf_with recurse treeId trf3Dpartition nrhs xsup grid Llu c s = some s') :
    SolvedOnce s' := by
  unfold dlsum_fmod_leaf_with at h
  simp only [] at h
  split at h
  · exact absurd h (by simp)
  · rename_i lsub _
    split at h
    · exact absurd h (by simp)
    · rename_i st hst
      simp only [Option.some.injEq] at h
      subst h
      exact foldlOpt_inv (fun st : Nat × Nat × SolveState => SolvedOnce st.2.2) _
        (fun a _ b ha hab =>
          dlsum_fmod_leaf_block_SolvedOnce recurse hrec _ _ _ _ _ _ _ _ _ _ _ a b ha hab)
        _ _ _ hinv hst

theorem dlsum_fmod_leaf_SolvedOnce (fuel treeId : Nat) (trf3Dpartition : dtrf3Dpartition_t)
    (nrhs : Nat) (xsup : Nat → Nat) (grid : gridinfo_t) (Llu : dLocalLU_t) :
    ∀ (c : FmodCall) (s s' : SolveState), SolvedOnce s →
      dlsum_fmod_leaf fuel treeId trf3Dpartition nrhs xsup grid Llu c s = some s' →
      SolvedOnce s' := by
  induction fuel with
  | zero =>
    intro c s s' hinv h
    unfold dlsum_fmod_leaf at h
    exact dlsum_fmod_leaf_with_SolvedOnce _ (fun _ _ _ _ hc => absurd hc (by simp))
      _ _ _ _ _ _ c s s' hinv h
  | succ fuel ih =>
    intro c s s' hinv h
    unfold dlsum_fmod_leaf at h
    exact dlsum_fmod_leaf_with_SolvedOnce _ (fun c1 s1 s2 h1 h2 => ih c1 s1 s2 h1 h2)
      _ _ _ _ _ _ c s s' hinv h

theorem localSolveXkYk_SolvedOnce (trtype : trtype_t) (k xoff nrhs : Nat)
    (LUstruct : dLUstruct_t) (grid : gridinfo_t) (s s' : SolveState) (hinv : SolvedOnce s)
    (h : localSolveXkYk trtype k xoff nrhs LUstruct grid s = some s') : SolvedOnce s' := by
  unfold localSolveXkYk at h
  simp only [] at h
  split at h
  · exact absurd h (by simp)
  · simp only [Option.some.injEq] at h
    subst h
    exact SolvedOnce_mono rfl (fun _ h => h) hinv

theorem iBcastXk2Pck_SolvedOnce (k xhdr nrhs : Nat) (sendList : Nat → Nat → Int)
    (LUstruct : dLUstruct_t) (grid : gridinfo_t) (s : SolveState) (hinv : SolvedOnce s) :
    SolvedOnce (iBcastXk2Pck k xhdr nrhs sendList LUstruct grid s) := by
  unfold iBcastXk2Pck
  exact foldl_Isend_SolvedOnce (fun p => sendList _ p ≠ EMPTY) _ _ _ _ _ _ hinv


theorem leafForestForwardSolve3d_seed_SolvedOnce (fuel treeId nrhs : Nat)
    (LUstruct : dLUstruct_t) (trf3Dpartition : dtrf3Dpartition_t) (grid : gridinfo_t)
    (st st' : Int × SolveState) (k : Nat) (hinv : SolvedOnce st.2)
    (h : leafForestForwardSolve3d_seed fuel treeId nrhs LUstruct trf3Dpartition grid st k
      = some st') : SolvedOnce st'.2 := by
  obtain ⟨nleaf, s⟩ := st
  have hinv : SolvedOnce s := hinv
  unfold leafForestForwardSolve3d_seed at h
  simp only [] at h
  split at h
  · simp only [Option.some.injEq] at h
    subst h; exact hinv
  · split at h
    · split at h
      · rename_i hc
        split at h
        · exact absurd h (by simp)
        · rename_i s1 hs1
          split at h
          · exact absurd h (by simp)
          · split at h
            · exact absurd h (by simp)
            · rename_i s2 hs2
              simp only [Option.some.injEq] at h
              subst h
              refine dlsum_fmod_leaf_SolvedOnce _ _ _ _ _ _ _ _ _ _ ?_ hs2
              apply iBcastXk2Pck_SolvedOnce
              refine localSolveXkYk_SolvedOnce _ _ _ _ _ _ _ _ ?_ hs1
              exact SolvedOnce_solve k (LBi k grid) hinv hc.2 hc.1 rfl rfl
      · simp only [Option.some.injEq] at h
        subst h; exact hinv
    · simp only [Option.some.injEq] at h
      subst h; exact hinv

theorem leafForestForwardSolve3d_Xk_SolvedOnce (fuel treeId nrhs : Nat)
    (LUstruct : dLUstruct_t) (trf3Dpartition : dtrf3Dpartition_t) (grid : gridinfo_t)
    (k : Nat) (s s' : SolveState) (hinv : SolvedOnce s)
    (h : leafForestForwardSolve3d_Xk fuel treeId nrhs LUstruct trf3Dpartition grid k s
      = some s') : SolvedOnce s' := by
  unfold leafForestForwardSolve3d_Xk at h
  simp only [] at h
  split at h
  · exact dlsum_fmod_leaf_SolvedOnce _ _ _ _ _ _ _ _ _ _ hinv h
  · simp only [Option.some.injEq] at h
    subst h; exact hinv

theorem leafForestForwardSolve3d_LSUM_SolvedOnce (fuel treeId nrhs : Nat)
    (LUstruct : dLUstruct_t) (trf3Dpartition : dtrf3Dpartition_t) (grid : gridinfo_t)
    (k : Nat) (s s' : SolveState) (hinv : SolvedOnce s)
    (h : leafForestForwardSolve3d_LSUM fuel treeId nrhs LUstruct trf3Dpartition grid k s
      = some s') : SolvedOnce s' := by
  have hs2 : SolvedOnce ({ s with
      x := addBlock s.x (X_BLK LUstruct.Llu.ilsum nrhs (LBi k grid)) s.recvbuf LSUM_H
        (SuperSize LUstruct.Glu_persist.xsup k) nrhs
      frecv := Function.update s.frecv (LBi k grid) (s.frecv (LBi k grid) - 1) } :
      SolveState) := SolvedOnce_mono rfl (fun _ h => h) hinv
  unfold leafForestForwardSolve3d_LSUM at h
  simp only [] at h
  split at h
  · rename_i hc
    split at h
    · exact absurd h (by simp)
    · rename_i s1 hs1
      split at h
      · exact absurd h (by simp)
      · refine dlsum_fmod_leaf_SolvedOnce _ _ _ _ _ _ _ _ _ _ ?_ h
        apply iBcastXk2Pck_SolvedOnce
        refine localSolveXkYk_SolvedOnce _ _ _ _ _ _ _ _ ?_ hs1
        exact SolvedOnce_solve k (LBi k grid) hs2 hc.2 hc.1 rfl rfl
  · simp only [Option.some.injEq] at h
    subst h; exact hs2

theorem MPI_Recv_SolvedOnce (m : Message) (s : SolveState) (hinv : SolvedOnce s) :
    SolvedOnce (MPI_Recv m s) :=
  SolvedOnce_mono rfl (fun _ h => h) hinv

theorem leafForestForwardSolve3d_recv_SolvedOnce (fuel treeId nrhs : Nat)
    (LUstruct : dLUstruct_t) (trf3Dpartition : dtrf3Dpartition_t) (grid : gridinfo_t) :
    ∀ (msgs : List Message) (nfrecvx nfrecvmod : Int) (s s' : SolveState), SolvedOnce s →
      leafForestForwardSolve3d_recv fuel treeId nrhs LUstruct trf3Dpartition grid
        nfrecvx nfrecvmod s msgs = some s' → SolvedOnce s' := by
  intro msgs
  induction msgs with
  | nil =>
    intro nfrecvx nfrecvmod s s' hinv h
    unfold leafForestForwardSolve3d_recv at h
    split at h
    · exact absurd h (by simp)
    · simp only [Option.some.injEq] at h
      subst h; exact hinv
  | cons m rest ih =>
    intro nfrecvx nfrecvmod s s' hinv h
    unfold leafForestForwardSolve3d_recv at h
    simp only [] at h
    split at h
    · split at h
      · split at h
        · exact absurd h (by simp)
        · rename_i s1 hs1
          exact ih _ _ _ _ (leafForestForwardSolve3d_Xk_SolvedOnce _ _ _ _ _ _ _ _ _
            (MPI_Recv_SolvedOnce m s hinv) hs1) h
      · split at h
        · exact absurd h (by simp)
        · rename_i s1 hs1
          exact ih _ _ _ _ (leafForestForwardSolve3d_LSUM_SolvedOnce _ _ _ _ _ _ _ _ _
            (MPI_Recv_SolvedOnce m s hinv) hs1) h
      · exact ih _ _ _ _ (MPI_Recv_SolvedOnce m s hinv) h
    · simp only [Option.some.injEq] at h
      subst h; exact hinv


/-- C3: in any run of `leafForestForwardSolve3d` that starts with an empty log of
solved blocks and returns, whatever messages were received and whatever the
depth of the cascade: every solve of a diagonal block `lk` happened at a moment
when `fmod[lk] = 0` and `frecv[lk] = 0`, the counter `fmod[lk]` of every solved
block is negative at the end (the sentinel -1 was stored at the solve and the
counter is never increased), and no block was solved twice. -/
theorem leafForestForwardSolve3d_solves_once (fuel treeId n : Nat) (LUstruct : dLUstruct_t)
    (trf3Dpartition : dtrf3Dpartition_t) (grid3d : gridinfo3d_t) (nrhs : Nat)
    (env : LeafEnv) (s : SolveState) (res : Int × SolveState)
    (h0 : s.solved = [])
    (h : leafForestForwardSolve3d fuel treeId n LUstruct trf3Dpartition grid3d nrhs env s
      = some res) :
    (∀ e ∈ res.2.solved, e.modAt = 0 ∧ e.recvAt = 0 ∧ res.2.fmod e.lk < 0) ∧
      (res.2.solved.map SolveEvent.lk).Nodup := by
  have hinit : ∀ (fm fr : Nat → Int),
      SolvedOnce ({ s with fmod := fm, frecv := fr } : SolveState) := by
    intro fm fr
    refine ⟨fun e he => ?_, ?_⟩
    · have he' : e ∈ s.solved := he
      rw [h0] at he'
      exact absurd he' (List.not_mem_nil _)
    · show (s.solved.map SolveEvent.lk).Nodup
      rw [h0]; exact List.nodup_nil
  have hs : SolvedOnce s := by
    have := hinit s.fmod s.frecv
    exact this
  suffices hres : SolvedOnce res.2 from hres
  unfold leafForestForwardSolve3d at h
  split at h
  · simp only [Option.some.injEq] at h
    subst h; exact hs
  · rename_i sforest _
    split at h
    · simp only [Option.some.injEq] at h
      subst h; exact hs
    · split at h
      · exact absurd h (by simp)
      · rename_i s1 hs1
        simp only [Option.some.injEq] at h
        subst h
        refine SolvedOnce_mono (s := s1) rfl (fun _ h => h) ?_
        unfold leafForestForwardSolve3d_loop at hs1
        simp only [] at hs1
        split at hs1
        · exact absurd hs1 (by simp)
        · rename_i st hst
          refine leafForestForwardSolve3d_recv_SolvedOnce _ _ _ _ _ _ _ _ _ _ _ ?_ hs1
          exact foldlOpt_inv (fun st : Int × SolveState => SolvedOnce st.2) _
            (fun a k0 b ha hab =>
              leafForestForwardSolve3d_seed_SolvedOnce _ _ _ _ _ _ a b _ ha hab)
            _ _ _ (hinit _ _) hst

theorem leafForestForwardSolve3d_solves_once_witness :
    state0.solved = [] ∧
    ∃ res : Int × SolveState,
      leafForestForwardSolve3d 1 0 3 LU3 trfAll3 grid1x1x1 1 envQuiet state0 = some res ∧
      res.2.solved.map SolveEvent.lk = [0, 1, 2] ∧
      (∀ e ∈ res.2.solved, e.modAt = 0 ∧ e.recvAt = 0 ∧ res.2.fmod e.lk < 0) ∧
      (res.2.solved.map SolveEvent.lk).Nodup := by
  refine ⟨rfl, ?_⟩
  have hev : Option.map (fun r : Int × SolveState => r.2.solved.map SolveEvent.lk)
      (leafForestForwardSolve3d 1 0 3 LU3 trfAll3 grid1x1x1 1 envQuiet state0)
      = some [0, 1, 2] := by decide!
  cases hres : leafForestForwardSolve3d 1 0 3 LU3 trfAll3 grid1x1x1 1 envQuiet state0 with
  | none => rw [hres] at hev; exact absurd hev (by simp)
  | some res =>
    rw [hres] at hev
    simp only [Option.map_some', Option.some.injEq] at hev
    exact ⟨res, rfl, hev,
      leafForestForwardSolve3d_solves_once 1 0 3 LU3 trfAll3 grid1x1x1 1 envQuiet state0 res
        rfl hres⟩

/-! ## The test of the input parameters of `pdgstrs3d` -/

/-- C2: `pdgstrs3d` tests its dimensions first.  With `n < 0` it stores -1 in
`*info`, otherwise with `nrhs < 0` it stores -9, and in both cases it returns
at once: `pxerr_dist` is called with the parameter number and `B`, the
operation count, `SolveMsgSent`, the counters and the buffers are as before the
call.  With `n >= 0` and `nrhs >= 0` the value stored in `*info` is 0 and the
result is that of the solve proper. -/
theorem pdgstrs3d_validates (fuel : Nat) (n : Int) (LUstruct : dLUstruct_t)
    (ScalePermstruct : dScalePermstruct_t) (trf3Dpartition : dtrf3Dpartition_t)
    (grid3d : gridinfo3d_t) (m_loc fst_row ldb : Nat) (nrhs : Int) (maxsup : Nat)
    (SOLVEstruct : dSOLVEstruct_t) (env : SolveEnv) (w : SolveWorld) :
    (n < 0 →
      pdgstrs3d fuel n LUstruct ScalePermstruct trf3Dpartition grid3d m_loc fst_row ldb nrhs
        maxsup SOLVEstruct env w = some (-1, { w with xerr := w.xerr ++ [1] })) ∧
    (0 ≤ n → nrhs < 0 →
      pdgstrs3d fuel n LUstruct ScalePermstruct trf3Dpartition grid3d m_loc fst_row ldb nrhs
        maxsup SOLVEstruct env w = some (-9, { w with xerr := w.xerr ++ [9] })) ∧
    (0 ≤ n → 0 ≤ nrhs →
      pdgstrs3d fuel n LUstruct ScalePermstruct trf3Dpartition grid3d m_loc fst_row ldb nrhs
        maxsup SOLVEstruct env w =
      (pdgstrs3d_solve fuel n.toNat LUstruct ScalePermstruct trf3Dpartition grid3d m_loc
        fst_row ldb nrhs.toNat maxsup SOLVEstruct env w).map (fun w1 => (0, w1))) := by
  refine ⟨fun hn => ?_, fun hn hr => ?_, fun hn hr => ?_⟩
  · unfold pdgstrs3d
    simp [hn]
  · unfold pdgstrs3d
    have hn' : ¬ n < 0 := not_lt.mpr hn
    simp [hn', hr]
  · unfold pdgstrs3d
    have hn' : ¬ n < 0 := not_lt.mpr hn
    have hr' : ¬ nrhs < 0 := not_lt.mpr hr
    simp [hn', hr']

theorem pdgstrs3d_validates_witness :
    pdgstrs3d 0 (-1) LU1 permId trfOne grid1x1x1 2 0 2 (-1) 2 solveStructOne envSolve world0
      = some (-1, { world0 with xerr := [1] }) ∧
    pdgstrs3d 0 2 LU1 permId trfOne grid1x1x1 2 0 2 (-1) 2 solveStructOne envSolve world0
      = some (-9, { world0 with xerr := [9] }) ∧
    pdgstrs3d 0 2 LU1 permId trfOne grid1x1x1 2 0 2 1 2 solveStructOne envSolve world0
      = (pdgstrs3d_solve 0 2 LU1 permId trfOne grid1x1x1 2 0 2 1 2 solveStructOne envSolve
          world0).map (fun w1 => (0, w1)) :=
  ⟨(pdgstrs3d_validates 0 (-1) LU1 permId trfOne grid1x1x1 2 0 2 (-1) 2 solveStructOne
      envSolve world0).1 (by decide),
   (pdgstrs3d_validates 0 2 LU1 permId trfOne grid1x1x1 2 0 2 (-1) 2 solveStructOne
      envSolve world0).2.1 (by decide) (by decide),
   (pdgstrs3d_validates 0 2 LU1 permId trfOne grid1x1x1 2 0 2 1 2 solveStructOne
      envSolve world0).2.2 (by decide) (by decide)⟩

/-! ## Exact triangular solves -/

theorem list_range_map_sum (f : Nat → ℚ) (k : Nat) :
    ((List.range k).map f).sum = ∑ i in Finset.range k, f i := by
  induction k with
  | zero => simp
  | succ k ih =>
    rw [List.range_succ, List.map_append, List.sum_append, ih, Finset.sum_range_succ]
    simp

/-- One column of the forward substitution of `dtrsm_`: the sweep over the rows
`0 .. r-1` of the column whose entries sit at `idx i`. -/
theorem lower_sweep (alpha : ℚ) (A : Nat → ℚ) (lda : Nat) (idx : Nat → Nat)
    (hidx : Function.Injective idx) (B0 : Nat → ℚ) (r : Nat) :
    let S := (List.range r).foldl
      (fun B i => Function.update B (idx i)
        (alpha * B (idx i) - ((List.range i).map (fun l => A (i + l * lda) * B (idx l))).sum))
      B0
    (∀ p, (∀ i < r, p ≠ idx i) → S p = B0 p) ∧
    (∀ i < r, S (idx i) = alpha * B0 (idx i)
      - ((List.range i).map (fun l => A (i + l * lda) * S (idx l))).sum) := by
  induction r with
  | zero => exact ⟨fun p _ => rfl, fun i hi => absurd hi (Nat.not_lt_zero _)⟩
  | succ r ih =>
    intro S
    have hS : S = Function.update
        ((List.range r).foldl
          (fun B i => Function.update B (idx i)
            (alpha * B (idx i) - ((List.range i).map (fun l => A (i + l * lda) * B (idx l))).sum))
          B0) (idx r)
        (alpha * ((List.range r).foldl
          (fun B i => Function.update B (idx i)
            (alpha * B (idx i) - ((List.range i).map (fun l => A (i + l * lda) * B (idx l))).sum))
          B0) (idx r) - ((List.range r).map (fun l => A (r + l * lda) *
            ((List.range r).foldl
          (fun B i => Function.update B (idx i)
            (alpha * B (idx i) - ((List.range i).map (fun l => A (i + l * lda) * B (idx l))).sum))
          B0) (idx l))).sum) := by
      show (List.range (r + 1)).foldl _ B0 = _
      rw [List.range_succ, List.foldl_append]
      rfl
    obtain ⟨ih1, ih2⟩ := ih
    generalize (List.range r).foldl
          (fun B i => Function.update B (idx i)
            (alpha * B (idx i) - ((List.range i).map (fun l => A (i + l * lda) * B (idx l))).sum))
          B0 = Sr at hS ih1 ih2
    have hne : ∀ i < r, idx i ≠ idx r := fun i hi h => absurd (hidx h) (Nat.ne_of_lt hi)
    have hsum : ∀ i, i ≤ r →
        ((List.range i).map (fun l => A (i + l * lda) * S (idx l))).sum
        = ((List.range i).map (fun l => A (i + l * lda) * Sr (idx l))).sum := by
      intro i hi
      congr 1
      apply List.map_congr_left
      intro l hl
      rw [List.mem_range] at hl
      rw [hS, Function.update_noteq (hne l (lt_of_lt_of_le hl hi))]
    refine ⟨fun p hp => ?_, fun i hi => ?_⟩
    · rw [hS, Function.update_noteq (hp r (Nat.lt_succ_self r))]
      exact ih1 p (fun i hi => hp i (Nat.lt_succ_of_lt hi))
    · rcases Nat.lt_succ_iff_lt_or_eq.1 hi with hlt | heq
      · rw [hsum i (Nat.le_of_lt hlt), hS, Function.update_noteq (hne i hlt)]
        exact ih2 i hlt
      · subst heq
        rw [hsum i (le_refl _), hS, Function.update_same, ih1 (idx i) (fun l hl => (hne l hl).symm)]


/-- One column of the back substitution of `dtrsm_`: the sweep over the rows
`r-1 .. 0` of the column whose entries sit at `idx i`, in a block of `M` rows. -/
theorem upper_sweep (alpha : ℚ) (A : Nat → ℚ) (lda : Nat) (idx : Nat → Nat)
    (hidx : Function.Injective idx) (M : Nat) (r : Nat) :
    ∀ B0 : Nat → ℚ,
    let S := (List.range r).reverse.foldl
      (fun B i => Function.update B (idx i)
        ((alpha * B (idx i) - (((List.range (M - (i + 1))).map (fun l => l + (i + 1))).map
          (fun l => A (i + l * lda) * B (idx l))).sum) / A (i + i * lda)))
      B0
    (∀ p, (∀ i < r, p ≠ idx i) → S p = B0 p) ∧
    (∀ i < r, S (idx i) = (alpha * B0 (idx i)
      - (((List.range (M - (i + 1))).map (fun l => l + (i + 1))).map
          (fun l => A (i + l * lda) * S (idx l))).sum) / A (i + i * lda)) := by
  induction r with
  | zero => exact fun B0 => ⟨fun p _ => rfl, fun i hi => absurd hi (Nat.not_lt_zero _)⟩
  | succ r ih =>
    intro B0 S
    have hS : S = (List.range r).reverse.foldl
        (fun B i => Function.update B (idx i)
          ((alpha * B (idx i) - (((List.range (M - (i + 1))).map (fun l => l + (i + 1))).map
            (fun l => A (i + l * lda) * B (idx l))).sum) / A (i + i * lda)))
        (Function.update B0 (idx r)
          ((alpha * B0 (idx r) - (((List.range (M - (r + 1))).map (fun l => l + (r + 1))).map
            (fun l => A (r + l * lda) * B0 (idx l))).sum) / A (r + r * lda))) := by
      show (List.range (r + 1)).reverse.foldl _ B0 = _
      rw [List.range_succ, List.reverse_append]
      rfl
    obtain ⟨ih1, ih2⟩ := ih (Function.update B0 (idx r)
          ((alpha * B0 (idx r) - (((List.range (M - (r + 1))).map (fun l => l + (r + 1))).map
            (fun l => A (r + l * lda) * B0 (idx l))).sum) / A (r + r * lda)))
    rw [← hS] at ih1 ih2
    have hne : ∀ i l, i ≠ l → idx i ≠ idx l := fun i l hil h => hil (hidx h)
    refine ⟨fun p hp => ?_, fun i hi => ?_⟩
    · rw [ih1 p (fun i hi => hp i (Nat.lt_succ_of_lt hi)),
        Function.update_noteq (hp r (Nat.lt_succ_self r))]
    · rcases Nat.lt_succ_iff_lt_or_eq.1 hi with hlt | heq
      · rw [ih2 i hlt, Function.update_noteq (hne i r (Nat.ne_of_lt hlt))]
      · subst heq
        rw [ih1 (idx i) (fun l hl => hne i l (Nat.ne_of_gt hl)), Function.update_same]
        congr 2
        congr 1
        apply List.map_congr_left
        intro l hl
        rw [List.mem_map] at hl
        obtain ⟨t, _, ht⟩ := hl
        have hli : i < l := by omega
        rw [ih1 (idx l) (fun l' hl' => hne l l' (by omega)),
          Function.update_noteq (hne l i (Nat.ne_of_gt hli))]


/-- A sweep over columns: each pass changes only its own column and establishes
a relation between the column before and after; the relation then holds for
every column between the initial and the final array. -/
theorem columns_sweep (col : Nat → (Nat → ℚ) → (Nat → ℚ)) (inCol : Nat → Nat → Prop)
    (Rel : Nat → (Nat → ℚ) → (Nat → ℚ) → Prop)
    (hdisj : ∀ j j' p, inCol j p → inCol j' p → j = j')
    (hframe : ∀ j B p, ¬ inCol j p → col j B p = B p)
    (hrel : ∀ j B, Rel j B (col j B))
    (hcongr : ∀ j B S B' S', Rel j B S → (∀ p, inCol j p → B' p = B p) →
      (∀ p, inCol j p → S' p = S p) → Rel j B' S')
    (B0 : Nat → ℚ) (n : Nat) :
    (∀ p, (∀ j < n, ¬ inCol j p) → (List.range n).foldl (fun B j => col j B) B0 p = B0 p) ∧
    (∀ j < n, Rel j B0 ((List.range n).foldl (fun B j => col j B) B0)) := by
  induction n with
  | zero => exact ⟨fun p _ => rfl, fun j hj => absurd hj (Nat.not_lt_zero _)⟩
  | succ n ih =>
    obtain ⟨ih1, ih2⟩ := ih
    have hT : (List.range (n + 1)).foldl (fun B j => col j B) B0
        = col n ((List.range n).foldl (fun B j => col j B) B0) := by
      rw [List.range_succ, List.foldl_append]
      rfl
    rw [hT]
    generalize (List.range n).foldl (fun B j => col j B) B0 = T at ih1 ih2
    refine ⟨fun p hp => ?_, fun j hj => ?_⟩
    · rw [hframe n T p (hp n (Nat.lt_succ_self n))]
      exact ih1 p (fun j hj => hp j (Nat.lt_succ_of_lt hj))
    · rcases Nat.lt_succ_iff_lt_or_eq.1 hj with hlt | heq
      · refine hcongr j B0 T B0 (col n T) (ih2 j hlt) (fun _ _ => rfl) (fun p hp => ?_)
        exact hframe n T p (fun hn => absurd (hdisj j n p hp hn) (Nat.ne_of_lt hlt))
      · subst heq
        refine hcongr j T (col j T) B0 (col j T) (hrel j T) (fun p hp => ?_) (fun _ _ => rfl)
        exact (ih1 p (fun j' hj' hin => absurd (hdisj j' j p hin hp) (Nat.ne_of_lt hj'))).symm

theorem block_index_inj (boff j ldb : Nat) :
    Function.Injective (fun i => boff + i + j * ldb) := by
  intro a b h
  simp only at h
  omega

theorem block_index_disj (boff m ldb : Nat) (hm : m ≤ ldb) (j j' p : Nat)
    (h : ∃ i < m, p = boff + i + j * ldb) (h' : ∃ i < m, p = boff + i + j' * ldb) : j = j' := by
  obtain ⟨i, hi, hp⟩ := h
  obtain ⟨i', hi', hp'⟩ := h'
  rw [hp] at hp'
  by_contra hne
  rcases Nat.lt_or_gt_of_ne hne with hlt | hgt
  · have : (j + 1) * ldb ≤ j' * ldb := Nat.mul_le_mul_right _ hlt
    rw [Nat.add_mul] at this
    omega
  · have : (j' + 1) * ldb ≤ j * ldb := Nat.mul_le_mul_right _ hgt
    rw [Nat.add_mul] at this
    omega

/-- Forward substitution by `dtrsm_`: outside the block nothing changes, and in
the block every entry of the result is the old entry times `alpha` minus the
products of the strictly lower part of its row with the result. -/
theorem dtrsm_lower_unit (m n : Nat) (alpha : ℚ) (A : Nat → ℚ) (lda : Nat) (B : Nat → ℚ)
    (boff ldb : Nat) (hm : m ≤ ldb) :
    (∀ p, (∀ j < n, ∀ i < m, p ≠ boff + i + j * ldb) →
      dtrsm_ UpLo.lower Diag.unit m n alpha A lda B boff ldb p = B p) ∧
    (∀ j < n, ∀ i < m,
      dtrsm_ UpLo.lower Diag.unit m n alpha A lda B boff ldb (boff + i + j * ldb)
        = alpha * B (boff + i + j * ldb)
          - ((List.range i).map (fun l => A (i + l * lda) *
              dtrsm_ UpLo.lower Diag.unit m n alpha A lda B boff ldb (boff + l + j * ldb))).sum) := by
  have key := columns_sweep
    (fun j B => (List.range m).foldl
      (fun B i => Function.update B (boff + i + j * ldb)
        (alpha * B (boff + i + j * ldb)
          - ((List.range i).map (fun l => A (i + l * lda) * B (boff + l + j * ldb))).sum))
      B)
    (fun j p => ∃ i < m, p = boff + i + j * ldb)
    (fun j Bin S => ∀ i < m, S (boff + i + j * ldb) = alpha * Bin (boff + i + j * ldb)
      - ((List.range i).map (fun l => A (i + l * lda) * S (boff + l + j * ldb))).sum)
    (block_index_disj boff m ldb hm)
    (fun j B0 p hp => (lower_sweep alpha A lda (fun i => boff + i + j * ldb)
      (block_index_inj boff j ldb) B0 m).1 p (fun i hi h => hp ⟨i, hi, h⟩))
    (fun j B0 => (lower_sweep alpha A lda (fun i => boff + i + j * ldb)
      (block_index_inj boff j ldb) B0 m).2)
    (fun j B0 S B' S' h hB hS i hi => by
      rw [hS _ ⟨i, hi, rfl⟩, hB _ ⟨i, hi, rfl⟩, h i hi]
      congr 2
      apply List.map_congr_left
      intro l hl
      rw [List.mem_range] at hl
      rw [hS _ ⟨l, lt_trans hl hi, rfl⟩])
    B n
  refine ⟨fun p hp => ?_, fun j hj i hi => ?_⟩
  · exact key.1 p (fun j hj ⟨i, hi, h⟩ => hp j hj i hi h)
  · exact key.2 j hj i hi


/-- Back substitution by `dtrsm_`: outside the block nothing changes, and in the
block every entry of the result is the old entry times `alpha` minus the
products of the strictly upper part of its row with the result, divided by the
diagonal entry. -/
theorem dtrsm_upper_nonUnit (m n : Nat) (alpha : ℚ) (A : Nat → ℚ) (lda : Nat) (B : Nat → ℚ)
    (boff ldb : Nat) (hm : m ≤ ldb) :
    (∀ p, (∀ j < n, ∀ i < m, p ≠ boff + i + j * ldb) →
      dtrsm_ UpLo.upper Diag.nonUnit m n alpha A lda B boff ldb p = B p) ∧
    (∀ j < n, ∀ i < m,
      dtrsm_ UpLo.upper Diag.nonUnit m n alpha A lda B boff ldb (boff + i + j * ldb)
        = (alpha * B (boff + i + j * ldb)
          - (((List.range (m - (i + 1))).map (fun l => l + (i + 1))).map
              (fun l => A (i + l * lda) *
                dtrsm_ UpLo.upper Diag.nonUnit m n alpha A lda B boff ldb
                  (boff + l + j * ldb))).sum) / A (i + i * lda)) := by
  have key := columns_sweep
    (fun j B => (List.range m).reverse.foldl
      (fun B i => Function.update B (boff + i + j * ldb)
        ((alpha * B (boff + i + j * ldb)
          - (((List.range (m - (i + 1))).map (fun l => l + (i + 1))).map
              (fun l => A (i + l * lda) * B (boff + l + j * ldb))).sum) / A (i + i * lda)))
      B)
    (fun j p => ∃ i < m, p = boff + i + j * ldb)
    (fun j Bin S => ∀ i < m, S (boff + i + j * ldb) = (alpha * Bin (boff + i + j * ldb)
      - (((List.range (m - (i + 1))).map (fun l => l + (i + 1))).map
          (fun l => A (i + l * lda) * S (boff + l + j * ldb))).sum) / A (i + i * lda))
    (block_index_disj boff m ldb hm)
    (fun j B0 p hp => (upper_sweep alpha A lda (fun i => boff + i + j * ldb)
      (block_index_inj boff j ldb) m m B0).1 p (fun i hi h => hp ⟨i, hi, h⟩))
    (fun j B0 => (upper_sweep alpha A lda (fun i => boff + i + j * ldb)
      (block_index_inj boff j ldb) m m B0).2)
    (fun j B0 S B' S' h hB hS i hi => by
      rw [hS _ ⟨i, hi, rfl⟩, hB _ ⟨i, hi, rfl⟩, h i hi]
      congr 2
      congr 1
      apply List.map_congr_left
      intro l hl
      rw [List.mem_map] at hl
      obtain ⟨t, ht, htl⟩ := hl
      rw [List.mem_range] at ht
      rw [hS _ ⟨l, by omega, rfl⟩])
    B n
  refine ⟨fun p hp => ?_, fun j hj i hi => ?_⟩
  · exact key.1 p (fun j hj ⟨i, hi, h⟩ => hp j hj i hi h)
  · exact key.2 j hj i hi

/-! ## The triangular factors as matrices -/

theorem unitLower_mul (A : Nat → ℚ) (lda n i : Nat) (hi : i < n) (y : Nat → ℚ) :
    ∑ m in Finset.range n, unitLower A lda i m * y m
      = ((List.range i).map (fun l => A (i + l * lda) * y l)).sum + y i := by
  rw [list_range_map_sum]
  have hsub : Finset.range (i + 1) ⊆ Finset.range n :=
    Finset.range_subset.2 (Nat.succ_le_of_lt hi)
  rw [← Finset.sum_subset hsub]
  · rw [Finset.sum_range_succ]
    congr 1
    · apply Finset.sum_congr rfl
      intro m hm
      rw [Finset.mem_range] at hm
      simp [unitLower, hm]
    · simp [unitLower]
  · intro m _ hm
    rw [Finset.mem_range] at hm
    have h1 : ¬ m < i := by omega
    have h2 : ¬ m = i := by omega
    simp [unitLower, h1, h2]

theorem upperTri_mul (A : Nat → ℚ) (lda n m : Nat) (hm : m < n) (x : Nat → ℚ) :
    ∑ l in Finset.range n, upperTri A lda m l * x l
      = A (m + m * lda) * x m
        + (((List.range (n - (m + 1))).map (fun l => l + (m + 1))).map
            (fun l => A (m + l * lda) * x l)).sum := by
  rw [List.map_map, list_range_map_sum]
  have hn : n = m + 1 + (n - (m + 1)) := by omega
  conv_lhs => rw [hn]
  rw [Finset.sum_range_add, Finset.sum_range_succ]
  have h0 : ∑ l in Finset.range m, upperTri A lda m l * x l = 0 := by
    apply Finset.sum_eq_zero
    intro l hl
    rw [Finset.mem_range] at hl
    have : ¬ m ≤ l := by omega
    simp [upperTri, this]
  rw [h0, zero_add]
  congr 1
  · simp [upperTri]
  · apply Finset.sum_congr rfl
    intro t _
    have : m ≤ m + 1 + t := by omega
    simp only [upperTri, this, if_true, Function.comp]
    rw [show m + 1 + t = t + (m + 1) by omega]

theorem lu_solve_eq (A : Nat → ℚ) (lda n : Nat) (b y x : Nat → ℚ)
    (hd : ∀ i < n, A (i + i * lda) ≠ 0)
    (hy : ∀ i < n, y i = 1 * b i - ((List.range i).map (fun l => A (i + l * lda) * y l)).sum)
    (hx : ∀ i < n, x i = (1 * y i
      - (((List.range (n - (i + 1))).map (fun l => l + (i + 1))).map
          (fun l => A (i + l * lda) * x l)).sum) / A (i + i * lda)) :
    ∀ i < n, ∑ m in Finset.range n, unitLower A lda i m *
      (∑ l in Finset.range n, upperTri A lda m l * x l) = b i := by
  intro i hi
  have hU : ∀ m ∈ Finset.range n,
      unitLower A lda i m * (∑ l in Finset.range n, upperTri A lda m l * x l)
      = unitLower A lda i m * y m := by
    intro m hm
    rw [Finset.mem_range] at hm
    rw [upperTri_mul A lda n m hm x]
    congr 1
    have h := hx m hm
    have hdm := hd m hm
    rw [h]
    field_simp
  rw [Finset.sum_congr rfl hU, unitLower_mul A lda n i hi y]
  have h := hy i hi
  linarith

/-! ## The leaf solves on one process with one supernode -/

/-- The 2D grid made of one process. -/
theorem grid_one_eq (g : gridinfo_t) (h1 : g.iam = 0) (h2 : g.nprow = 1) (h3 : g.npcol = 1) :
    g = { iam := 0, nprow := 1, npcol := 1 } := by
  cases g
  simp only at h1 h2 h3
  subst h1 h2 h3
  rfl

theorem dlsum_fmod_leaf_no_block (fuel treeId : Nat) (trf3Dpartition : dtrf3Dpartition_t)
    (nrhs : Nat) (xsup : Nat → Nat) (grid : gridinfo_t) (Llu : dLocalLU_t) (c : FmodCall)
    (s : SolveState) (lsub : Nat → Nat) (hl : Llu.Lrowind_bc_ptr (LBj c.k grid) = some lsub)
    (hn : c.nlb = 0) :
    dlsum_fmod_leaf fuel treeId trf3Dpartition nrhs xsup grid Llu c s = some s := by
  cases fuel <;>
    simp [dlsum_fmod_leaf, dlsum_fmod_leaf_with, hl, hn, foldlOpt]

theorem leafForestForwardSolve3d_recv_done (fuel treeId nrhs : Nat) (LUstruct : dLUstruct_t)
    (trf3Dpartition : dtrf3Dpartition_t) (grid : gridinfo_t) (s : SolveState)
    (msgs : List Message) :
    leafForestForwardSolve3d_recv fuel treeId nrhs LUstruct trf3Dpartition grid 0 0 s msgs
      = some s := by
  cases msgs <;> simp [leafForestForwardSolve3d_recv]

theorem leafForestBackSolve3d_recv_done (fuel nrhs : Nat) (LUstruct : dLUstruct_t)
    (grid : gridinfo_t) (s : SolveState) (msgs : List Message) :
    leafForestBackSolve3d_recv fuel nrhs LUstruct grid 0 0 s msgs = some s := by
  cases msgs <;> simp [leafForestBackSolve3d_recv]

theorem leafForward_one (fuel n nrhs : Nat) (LUstruct : dLUstruct_t)
    (ScalePermstruct : dScalePermstruct_t) (trf3Dpartition : dtrf3Dpartition_t)
    (grid3d : gridinfo3d_t) (SOLVEstruct : dSOLVEstruct_t) (lsub : Nat → Nat)
    (h : OneSupernode n nrhs LUstruct ScalePermstruct trf3Dpartition grid3d SOLVEstruct lsub)
    (env : LeafEnv) (s : SolveState) :
    ∃ s', leafForestForwardSolve3d fuel 0 n LUstruct trf3Dpartition grid3d nrhs env s
        = some (0, s') ∧
      s'.x = dtrsm_ UpLo.lower Diag.unit n nrhs 1 (LUstruct.Llu.Lnzval_bc_ptr 0) (lsub 1)
        s.x (X_BLK LUstruct.Llu.ilsum nrhs 0) n ∧ s'.lsum = s.lsum := by
  obtain ⟨sf, hsf, hn1, hnl⟩ := h.forest
  have hg := grid_one_eq grid3d.grid2d h.iam h.nprow h.npcol
  have hsup : LUstruct.Glu_persist.supno (n - 1) = 0 := h.supno _ (by have := h.n_pos; omega)
  have hsz : SuperSize LUstruct.Glu_persist.xsup 0 = n := by
    simp [SuperSize, h.xsup0, h.xsup1]
  have hfm : getfmodLeaf 1 LUstruct env.modHeap 0 = 0 := by
    simp [getfmodLeaf, List.range_succ, h.fmod]
  have hfr : ∀ fmodRow, getfrecvLeaf sf 1 fmodRow { iam := 0, nprow := 1, npcol := 1 }
      env.rowModBit env.recvHeap 0 = 0 := by
    intro fmodRow
    simp [getfrecvLeaf, MPI_Allreduce_SUM, getfrecvLeaf_mod_bit, List.range_succ, hn1, hnl,
      gridinfo_t.inColumn, MYROW, MYCOL, PROW, PCOL, PNUM, LBi]
  have hnx : getNfrecvxLeaf sf LUstruct { iam := 0, nprow := 1, npcol := 1 } = 0 := by
    simp [getNfrecvxLeaf, List.range_succ, hn1, hnl, MYROW, MYCOL, PROW, PCOL]
  have hnm : ∀ frecv fmod : Nat → Int, frecv 0 = 0 → fmod 0 = 0 →
      getNfrecvmodLeaf 0 sf frecv fmod { iam := 0, nprow := 1, npcol := 1 } = (0, 1) := by
    intro frecv fmod h0 h1
    simp [getNfrecvmodLeaf, List.range_succ, hn1, hnl, MYROW, MYCOL, PROW, PCOL, LBi, h0, h1]
  have hbc : ∀ s1 : SolveState, iBcastXk2Pck 0 (X_BLK LUstruct.Llu.ilsum nrhs 0 - XK_H) nrhs
      LUstruct.Llu.fsendx_plist LUstruct { iam := 0, nprow := 1, npcol := 1 } s1 = s1 := by
    intro s1
    simp [iBcastXk2Pck, List.range_succ, LBj, h.fsend]
  unfold leafForestForwardSolve3d
  simp only [hsf, hn1, Nat.lt_irrefl, if_false]
  unfold leafForestForwardSolve3d_loop
  simp only [hg, hsup, zero_add, CEILING, Nat.mod_self, ne_eq, not_true_eq_false, if_false,
    Nat.div_self, Nat.lt_one_iff, hn1]
  rw [hnx, hnm _ _ (hfr _) hfm]
  simp only [List.range_succ, List.range_zero, List.nil_append, foldlOpt, hnl]
  unfold leafForestForwardSolve3d_seed
  simp only [MYROW, MYCOL, PROW, PCOL, LBi, LBj, Nat.div_one, Nat.mod_one, Nat.zero_div,
    one_ne_zero, if_false, and_self, if_true, hfr, hfm, localSolveXkYk, h.column, hsz, hbc]
  rw [dlsum_fmod_leaf_no_block _ _ _ _ _ _ _ _ _ lsub (by simpa [LBj] using h.column)
    (by simp [h.blocks])]
  simp only [leafForestForwardSolve3d_recv_done]
  exact ⟨_, rfl, rfl, rfl⟩


theorem foldl_fixed {α β : Type} (f : β → α → β) (l : List α) (b : β)
    (h : ∀ a ∈ l, f b a = b) : l.foldl f b = b := by
  induction l with
  | nil => rfl
  | cons a l ih =>
    rw [List.foldl_cons, h a (List.mem_cons_self a l)]
    exact ih (fun a' ha' => h a' (List.mem_cons_of_mem a ha'))

theorem addBlock_zero (x : Nat → ℚ) (ii : Nat) (src : Nat → ℚ) (soff knsupc nrhs : Nat)
    (h : ∀ j < nrhs, ∀ i < knsupc, src (i + soff + j * knsupc) = 0) :
    addBlock x ii src soff knsupc nrhs = x := by
  unfold addBlock
  apply foldl_fixed
  intro j hj
  rw [List.mem_range] at hj
  apply foldl_fixed
  intro i hi
  rw [List.mem_range] at hi
  rw [h j hj i hi, add_zero, Function.update_eq_self]

theorem leafBackward_one (fuel n nrhs : Nat) (LUstruct : dLUstruct_t)
    (ScalePermstruct : dScalePermstruct_t) (trf3Dpartition : dtrf3Dpartition_t)
    (grid3d : gridinfo3d_t) (SOLVEstruct : dSOLVEstruct_t) (lsub : Nat → Nat)
    (h : OneSupernode n nrhs LUstruct ScalePermstruct trf3Dpartition grid3d SOLVEstruct lsub)
    (env : LeafEnv) (s : SolveState)
    (hz : ∀ j < nrhs, ∀ i < n, s.lsum (i + LSUM_BLK LUstruct.Llu.ilsum nrhs 0 + j * n) = 0) :
    ∃ s', leafForestBackSolve3d fuel 0 n LUstruct trf3Dpartition grid3d nrhs env s
        = some (0, s') ∧
      s'.x = dtrsm_ UpLo.upper Diag.nonUnit n nrhs 1 (LUstruct.Llu.Lnzval_bc_ptr 0) (lsub 1)
        s.x (X_BLK LUstruct.Llu.ilsum nrhs 0) n := by
  obtain ⟨sf, hsf, hn1, hnl⟩ := h.forest
  have hg := grid_one_eq grid3d.grid2d h.iam h.nprow h.npcol
  have hsup : LUstruct.Glu_persist.supno (n - 1) = 0 := h.supno _ (by have := h.n_pos; omega)
  have hsz : SuperSize LUstruct.Glu_persist.xsup 0 = n := by
    simp [SuperSize, h.xsup0, h.xsup1]
  have hbm : ∃ bmod, getBmod3d 0 1 sf LUstruct trf3Dpartition
      { iam := 0, nprow := 1, npcol := 1 } env.modHeap = some bmod ∧ bmod 0 = 0 := by
    simp only [getBmod3d, hn1, Nat.lt_irrefl, if_false]
    refine ⟨_, rfl, ?_⟩
    simp [List.range_succ, hnl, getBmod3d_node, MYROW, PROW, LBi, h.noU]
  obtain ⟨bmod, hbm1, hbm0⟩ := hbm
  have hbr : ∃ brecv, getBrecvTree 1 sf { iam := 0, nprow := 1, npcol := 1 }
      env.rowModBit env.recvHeap = some brecv ∧ brecv 0 = 0 := by
    simp only [getBrecvTree, hn1, Nat.lt_irrefl, if_false]
    refine ⟨_, rfl, ?_⟩
    simp [MPI_Allreduce_SUM, getBrecvTree_mod_bit, List.range_succ, hn1, hnl,
      gridinfo_t.inColumn, MYROW, MYCOL, PROW, PCOL, PNUM, LBi]
  obtain ⟨brecv, hbr1, hbr0⟩ := hbr
  have hnr : getNrootUsolveTree 0 sf brecv bmod { iam := 0, nprow := 1, npcol := 1 } = (1, 0) := by
    simp [getNrootUsolveTree, List.range_succ, hn1, hnl, MYROW, MYCOL, PROW, PCOL, LBi,
      hbm0, hbr0]
  have hnx : getNbrecvX sf LUstruct.Llu.Urbs { iam := 0, nprow := 1, npcol := 1 } = 0 := by
    simp [getNbrecvX, List.range_succ, hn1, hnl, MYROW, MYCOL, PROW, PCOL]
  have hbc : ∀ s1 : SolveState, iBcastXk2Pck 0 (X_BLK LUstruct.Llu.ilsum nrhs 0 - XK_H) nrhs
      LUstruct.Llu.bsendx_plist LUstruct { iam := 0, nprow := 1, npcol := 1 } s1 = s1 := by
    intro s1
    simp [iBcastXk2Pck, List.range_succ, LBj, h.bsend]
  unfold leafForestBackSolve3d
  simp only [hsf, hn1, Nat.lt_irrefl, if_false]
  unfold leafForestBackSolve3d_loop
  simp only [hg, hsup, zero_add, CEILING, Nat.mod_self, ne_eq, not_true_eq_false, if_false,
    Nat.div_self, Nat.lt_one_iff, hn1, hbm1, hbr1, hnr, hnx]
  simp only [List.range_succ, List.range_zero, List.nil_append, List.reverse_singleton,
    foldlOpt, hnl]
  unfold leafForestBackSolve3d_seed
  simp only [MYROW, MYCOL, PROW, PCOL, LBi, LBj, Nat.div_one, Nat.mod_one, Nat.zero_div,
    one_ne_zero, if_false, and_self, if_true, hbm0, hbr0, localSolveXkYk, h.column, hsz, hbc,
    h.urbs, ne_eq, not_true_eq_false, addBlock_zero _ _ _ _ _ _ hz]
  simp only [leafForestBackSolve3d_recv_done]
  exact ⟨_, rfl, rfl⟩


theorem foldl_zero_keep_set {α : Type} (step : (Nat → ℚ) → α → (Nat → ℚ)) (S : α → Nat → Prop)
    (hkeep : ∀ a g p, g p = 0 → step g a p = 0)
    (hset : ∀ a g p, S a p → step g a p = 0) (l : List α) :
    ∀ g : Nat → ℚ, (∀ p, g p = 0 → l.foldl step g p = 0) ∧
      (∀ a ∈ l, ∀ p, S a p → l.foldl step g p = 0) := by
  induction l with
  | nil => exact fun g => ⟨fun p hp => hp, fun a ha => absurd ha (List.not_mem_nil a)⟩
  | cons b l ih =>
    intro g
    obtain ⟨ih1, ih2⟩ := ih (step g b)
    refine ⟨fun p hp => ih1 p (hkeep b g p hp), fun a ha p hp => ?_⟩
    rcases List.mem_cons.1 ha with hab | hal
    · subst hab
      exact ih1 p (hset a g p hp)
    · exact ih2 a hal p hp

theorem lsumZero_block (n nrhs : Nat) (LUstruct : dLUstruct_t) (lsum : Nat → ℚ)
    (hsz : SuperSize LUstruct.Glu_persist.xsup 0 = n) :
    ∀ j < nrhs, ∀ i < n,
      lsumZero 1 nrhs LUstruct { iam := 0, nprow := 1, npcol := 1 } lsum
        (i + LSUM_BLK LUstruct.Llu.ilsum nrhs 0 + j * n) = 0 := by
  intro j hj i hi
  simp only [lsumZero, List.range_succ, List.range_zero, List.nil_append, List.foldl_cons,
    List.foldl_nil, MYROW, PROW, LBi, Nat.zero_div, Nat.mod_one, if_true, hsz, Nat.div_one]
  have inner := fun j' : Nat => foldl_zero_keep_set
    (fun (g : Nat → ℚ) (i' : Nat) =>
      Function.update g (LSUM_BLK LUstruct.Llu.ilsum nrhs 0 + (i' + j' * n)) 0)
    (fun i' p => p = LSUM_BLK LUstruct.Llu.ilsum nrhs 0 + (i' + j' * n))
    (fun a g p hp => by
      show Function.update g (LSUM_BLK LUstruct.Llu.ilsum nrhs 0 + (a + j' * n)) 0 p = 0
      by_cases hc : p = LSUM_BLK LUstruct.Llu.ilsum nrhs 0 + (a + j' * n)
      · rw [hc, Function.update_same]
      · rw [Function.update_noteq hc]; exact hp)
    (fun a g p hp => by
      show Function.update g (LSUM_BLK LUstruct.Llu.ilsum nrhs 0 + (a + j' * n)) 0 p = 0
      have hp' : p = LSUM_BLK LUstruct.Llu.ilsum nrhs 0 + (a + j' * n) := hp
      rw [hp', Function.update_same])
    (List.range n)
  have outer := foldl_zero_keep_set
    (fun (g : Nat → ℚ) (j' : Nat) => (List.range n).foldl
      (fun (g : Nat → ℚ) (i' : Nat) =>
        Function.update g (LSUM_BLK LUstruct.Llu.ilsum nrhs 0 + (i' + j' * n)) 0) g)
    (fun j' p => ∃ i' < n, p = LSUM_BLK LUstruct.Llu.ilsum nrhs 0 + (i' + j' * n))
    (fun a g p hp => (inner a g).1 p hp)
    (fun a g p ⟨i', hi', hp⟩ => (inner a g).2 i' (List.mem_range.2 hi') p hp)
    (List.range nrhs) lsum
  exact outer.2 j (List.mem_range.2 hj) _ ⟨i, hi, by omega⟩

theorem log2i_one : log2i 1 = 0 := by
  unfold log2i
  rw [Nat.log2]
  simp

theorem forwardDriver_one (fuel n nrhs maxsup : Nat) (LUstruct : dLUstruct_t)
    (ScalePermstruct : dScalePermstruct_t) (trf3Dpartition : dtrf3Dpartition_t)
    (grid3d : gridinfo3d_t) (SOLVEstruct : dSOLVEstruct_t) (lsub : Nat → Nat)
    (h : OneSupernode n nrhs LUstruct ScalePermstruct trf3Dpartition grid3d SOLVEstruct lsub)
    (env : LeafEnv) (s : SolveState) :
    ∃ s', pdgsTrForwardSolve3d fuel n LUstruct trf3Dpartition grid3d nrhs maxsup env s
        = some s' ∧
      s'.x = dtrsm_ UpLo.lower Diag.unit n nrhs 1 (LUstruct.Llu.Lnzval_bc_ptr 0) (lsub 1)
        s.x (X_BLK LUstruct.Llu.ilsum nrhs 0) n := by
  obtain ⟨sf, hsf, hn1, hnl⟩ := h.forest
  unfold pdgsTrForwardSolve3d
  simp only [h.layers, log2i_one, zero_add, List.range_succ, List.range_zero, List.nil_append,
    foldlOpt, h.zeroTr, if_true, h.tree, hsf]
  obtain ⟨s', hs', hx, _⟩ := leafForward_one fuel n nrhs LUstruct ScalePermstruct
    trf3Dpartition grid3d SOLVEstruct lsub h env
    { s with
      rtemp := fun i => if i < sp_ienv_dist maxsup * nrhs + max XK_H LSUM_H then 0 else s.rtemp i
      lsum := lsumZero (LUstruct.Glu_persist.supno (n - 1) + 1) nrhs LUstruct grid3d.grid2d
        (lsumHeaders (LUstruct.Glu_persist.supno (n - 1) + 1) nrhs LUstruct grid3d.grid2d s.lsum)
      SolveMsgSent := 0 }
  rw [hs']
  simp only [Option.map_some', ne_eq, Nat.sub_self, not_true_eq_false, if_false]
  exact ⟨_, rfl, hx⟩

theorem backwardDriver_one (fuel n nrhs : Nat) (LUstruct : dLUstruct_t)
    (ScalePermstruct : dScalePermstruct_t) (trf3Dpartition : dtrf3Dpartition_t)
    (grid3d : gridinfo3d_t) (SOLVEstruct : dSOLVEstruct_t) (lsub : Nat → Nat)
    (h : OneSupernode n nrhs LUstruct ScalePermstruct trf3Dpartition grid3d SOLVEstruct lsub)
    (env : LeafEnv) (s : SolveState) :
    ∃ s', pdgsTrBackSolve3d fuel n LUstruct trf3Dpartition grid3d nrhs env s = some s' ∧
      s'.x = dtrsm_ UpLo.upper Diag.nonUnit n nrhs 1 (LUstruct.Llu.Lnzval_bc_ptr 0) (lsub 1)
        s.x (X_BLK LUstruct.Llu.ilsum nrhs 0) n := by
  obtain ⟨sf, hsf, hn1, hnl⟩ := h.forest
  have hg := grid_one_eq grid3d.grid2d h.iam h.nprow h.npcol
  have hsup : LUstruct.Glu_persist.supno (n - 1) = 0 := h.supno _ (by have := h.n_pos; omega)
  have hsz : SuperSize LUstruct.Glu_persist.xsup 0 = n := by
    simp [SuperSize, h.xsup0, h.xsup1]
  unfold pdgsTrBackSolve3d
  simp only [h.layers, log2i_one, zero_add, List.range_succ, List.range_zero, List.nil_append,
    List.reverse_singleton, foldlOpt, h.zeroTr, if_true, h.tree, hsf, hsup, hg]
  obtain ⟨s', hs', hx⟩ := leafBackward_one fuel n nrhs LUstruct ScalePermstruct
    trf3Dpartition grid3d SOLVEstruct lsub h env
    { s with
      lsum := lsumZero 1 nrhs LUstruct { iam := 0, nprow := 1, npcol := 1 } s.lsum
      SolveMsgSent := 0 }
    (lsumZero_block n nrhs LUstruct s.lsum hsz)
  rw [hs']
  simp
  exact hx

/-! ## The redistributions on one process with one supernode -/

theorem foldl_update_offset {α : Type} (n k : Nat) (v : Nat → α) (d0 : Nat → α) (p : Nat) :
    ((List.range n).foldl (fun d j => Function.update d (k + j) (v j)) d0) p
      = if k ≤ p ∧ p < k + n then v (p - k) else d0 p := by
  induction n with
  | zero =>
    have : ¬ (k ≤ p ∧ p < k + 0) := by omega
    rw [if_neg this]
    rfl
  | succ n ih =>
    rw [List.range_succ, List.foldl_append]
    simp only [List.foldl_cons, List.foldl_nil]
    by_cases h : p = k + n
    · subst h
      simp
    · rw [Function.update_noteq h, ih]
      by_cases h2 : k ≤ p ∧ p < k + n
      · have h3 : k ≤ p ∧ p < k + (n + 1) := ⟨h2.1, by omega⟩
        simp [h2, h3]
      · have h3 : ¬ (k ≤ p ∧ p < k + (n + 1)) := by
          intro hc
          exact h2 ⟨hc.1, by omega⟩
        simp [h2, h3]

theorem foldl_update_strided {α : Type} (n base stride : Nat) (hs : 1 ≤ stride) (v : Nat → α)
    (d0 : Nat → α) :
    (∀ j < n, ((List.range n).foldl (fun d j => Function.update d (base + j * stride) (v j)) d0)
      (base + j * stride) = v j) ∧
    (∀ p, (∀ j < n, p ≠ base + j * stride) →
      ((List.range n).foldl (fun d j => Function.update d (base + j * stride) (v j)) d0) p
        = d0 p) := by
  induction n with
  | zero => exact ⟨fun j hj => absurd hj (Nat.not_lt_zero _), fun p _ => rfl⟩
  | succ n ih =>
    obtain ⟨ih1, ih2⟩ := ih
    rw [List.range_succ, List.foldl_append]
    simp only [List.foldl_cons, List.foldl_nil]
    refine ⟨fun j hj => ?_, fun p hp => ?_⟩
    · rcases Nat.lt_succ_iff_lt_or_eq.1 hj with hlt | heq
      · have hne : base + j * stride ≠ base + n * stride := by
          intro hc
          have h1 : j * stride = n * stride := by omega
          have h2 : (j + 1) * stride ≤ n * stride := Nat.mul_le_mul_right _ hlt
          rw [Nat.add_mul] at h2
          omega
        rw [Function.update_noteq hne]
        exact ih1 j hlt
      · subst heq
        rw [Function.update_same]
    · rw [Function.update_noteq (hp n (Nat.lt_succ_self n))]
      exact ih2 p (fun j hj => hp j (Nat.lt_succ_of_lt hj))

theorem mul_add_lt {i j n nrhs : Nat} (hi : i < n) (hj : j < nrhs) : i * nrhs + j < n * nrhs := by
  have h : (i + 1) * nrhs ≤ n * nrhs := Nat.mul_le_mul_right _ hi
  rw [Nat.add_mul] at h
  omega

/-- The packing loop shared by the two redistributions when every row goes to
process 0: row `i` puts its index at position `i` of the index buffer and its
`nrhs` values at position `i * nrhs` of the value buffer. -/
theorem pack_loop (nrhs : Nat) (row : Nat → Nat) (val : Nat → Nat → ℚ) (m : Nat) :
    ∀ st0 : RedistBuf, st0.ptr_to_ibuf 0 = 0 → st0.ptr_to_dbuf 0 = 0 →
    let st := (List.range m).foldl
      (fun (st : RedistBuf) i =>
        ({ ibuf := Function.update st.ibuf (st.ptr_to_ibuf 0) (row i)
           dbuf := (List.range nrhs).foldl
             (fun dbuf j => Function.update dbuf (st.ptr_to_dbuf 0 + j) (val i j)) st.dbuf
           ptr_to_ibuf := Function.update st.ptr_to_ibuf 0 (st.ptr_to_ibuf 0 + 1)
           ptr_to_dbuf := Function.update st.ptr_to_dbuf 0 (st.ptr_to_dbuf 0 + nrhs) } :
          RedistBuf))
      st0
    st.ptr_to_ibuf 0 = m ∧ st.ptr_to_dbuf 0 = m * nrhs ∧ (∀ i < m, st.ibuf i = row i) ∧
      (∀ i < m, ∀ j < nrhs, st.dbuf (i * nrhs + j) = val i j) := by
  induction m with
  | zero =>
    intro st0 h0 h1
    exact ⟨h0, by simpa using h1, fun i hi => absurd hi (Nat.not_lt_zero _),
      fun i hi => absurd hi (Nat.not_lt_zero _)⟩
  | succ m ih =>
    intro st0 h0 h1
    obtain ⟨a1, a2, a3, a4⟩ := ih st0 h0 h1
    simp only [List.range_succ, List.foldl_append, List.foldl_cons, List.foldl_nil]
    generalize (List.range m).foldl
      (fun (st : RedistBuf) i =>
        ({ ibuf := Function.update st.ibuf (st.ptr_to_ibuf 0) (row i)
           dbuf := (List.range nrhs).foldl
             (fun dbuf j => Function.update dbuf (st.ptr_to_dbuf 0 + j) (val i j)) st.dbuf
           ptr_to_ibuf := Function.update st.ptr_to_ibuf 0 (st.ptr_to_ibuf 0 + 1)
           ptr_to_dbuf := Function.update st.ptr_to_dbuf 0 (st.ptr_to_dbuf 0 + nrhs) } :
          RedistBuf))
      st0 = st at a1 a2 a3 a4
    refine ⟨?_, ?_, fun i hi => ?_, fun i hi j hj => ?_⟩
    · simp [a1]
    · simp [a2, Nat.add_mul]
    · rw [a1]
      rcases Nat.lt_succ_iff_lt_or_eq.1 hi with hlt | heq
      · rw [Function.update_noteq (Nat.ne_of_lt hlt)]
        exact a3 i hlt
      · subst heq
        rw [Function.update_same]
    · rw [a2, foldl_update_offset]
      rcases Nat.lt_succ_iff_lt_or_eq.1 hi with hlt | heq
      · have hlt2 : i * nrhs + j < m * nrhs := mul_add_lt hlt hj
        have : ¬ (m * nrhs ≤ i * nrhs + j ∧ i * nrhs + j < m * nrhs + nrhs) := by omega
        rw [if_neg this]
        exact a4 i hlt j hj
      · subst heq
        have : i * nrhs ≤ i * nrhs + j ∧ i * nrhs + j < i * nrhs + nrhs := by omega
        rw [if_pos this]
        congr 1
        omega


theorem strided_ne {i m j j' n X : Nat} (hi : i < n) (hm : m < n) (him : i ≠ m) :
    X + i + j * n ≠ X + m + j' * n := by
  intro hc
  have h1 : (i + j * n) % n = (m + j' * n) % n := by
    congr 1
    omega
  rw [Nat.add_mul_mod_self_right, Nat.add_mul_mod_self_right, Nat.mod_eq_of_lt hi,
    Nat.mod_eq_of_lt hm] at h1
  exact him h1

/-- The copy of the receive buffers into `x` on a one-process grid with one
supernode: row `i` of right-hand side `j` lands at `X_BLK(0) + i + j * n`. -/
theorem B_to_X_unpack_one (n nrhs : Nat) (ilsum : Nat → Nat) (Glu_persist : Glu_persist_t)
    (hn : 1 ≤ n) (hsup : ∀ i < n, Glu_persist.supno i = 0) (hx0 : Glu_persist.xsup 0 = 0)
    (hx1 : Glu_persist.xsup 1 = n) (x : Nat → ℚ) (RecvCnt rdispls_nrhs : Nat → Nat)
    (hR : RecvCnt 0 = n) (hd : rdispls_nrhs 0 = 0) (recv_ibuf : Nat → Nat)
    (recv_dbuf : Nat → ℚ) (hri : ∀ i < n, recv_ibuf i = i) :
    ∀ i < n, ∀ j < nrhs,
      pdReDistribute3d_B_to_X_unpack x 1 nrhs RecvCnt rdispls_nrhs recv_ibuf recv_dbuf ilsum
        Glu_persist { iam := 0, nprow := 1, npcol := 1 } (X_BLK ilsum nrhs 0 + i + j * n)
        = recv_dbuf (i * nrhs + j) := by
  have hsz : SuperSize Glu_persist.xsup 0 = n := by simp [SuperSize, hx0, hx1]
  have key : ∀ m, m ≤ n →
      let r := (List.range m).foldl
        (fun (st : (Nat → ℚ) × Nat × Nat) (_ : Nat) =>
          ((List.range nrhs).foldl
            (fun x j => Function.update x
              (X_BLK ilsum nrhs (LBi (BlockNum Glu_persist.supno (recv_ibuf st.2.1))
                  { iam := 0, nprow := 1, npcol := 1 })
                + (recv_ibuf st.2.1
                  - FstBlockC Glu_persist.xsup (BlockNum Glu_persist.supno (recv_ibuf st.2.1)))
                + j * SuperSize Glu_persist.xsup (BlockNum Glu_persist.supno (recv_ibuf st.2.1)))
              (recv_dbuf (st.2.2 + j)))
            (Function.update st.1
              (X_BLK ilsum nrhs (LBi (BlockNum Glu_persist.supno (recv_ibuf st.2.1))
                  { iam := 0, nprow := 1, npcol := 1 }) - XK_H)
              ((BlockNum Glu_persist.supno (recv_ibuf st.2.1) : Nat) : ℚ)),
           st.2.1 + 1, st.2.2 + nrhs))
        (x, 0, 0)
      r.2.1 = m ∧ r.2.2 = m * nrhs ∧
        ∀ i < m, ∀ j < nrhs, r.1 (X_BLK ilsum nrhs 0 + i + j * n) = recv_dbuf (i * nrhs + j) := by
    intro m
    induction m with
    | zero =>
      intro _
      exact ⟨rfl, by simp, fun i hi => absurd hi (Nat.not_lt_zero _)⟩
    | succ m ih =>
      intro hm
      obtain ⟨a1, a2, a3⟩ := ih (Nat.le_of_succ_le hm)
      simp only [List.range_succ, List.foldl_append, List.foldl_cons, List.foldl_nil]
      generalize (List.range m).foldl _ (x, 0, 0) = r at a1 a2 a3
      have hmn : m < n := hm
      simp only [a1, a2, hri m hmn, BlockNum, hsup m hmn, LBi, Nat.zero_div, FstBlockC, hx0,
        Nat.sub_zero, hsz]
      refine ⟨trivial, by rw [Nat.add_mul, one_mul], fun i hi j hj => ?_⟩
      obtain ⟨s1, s2⟩ := foldl_update_strided nrhs (X_BLK ilsum nrhs 0 + m) n hn
        (fun j => recv_dbuf (m * nrhs + j))
        (Function.update r.1 (X_BLK ilsum nrhs 0 - XK_H) ((0 : Nat) : ℚ))
      rcases Nat.lt_succ_iff_lt_or_eq.1 hi with hlt | heq
      · rw [s2 _ (fun j' _ => strided_ne (lt_trans hlt hmn) hmn (Nat.ne_of_lt hlt))]
        have hne : X_BLK ilsum nrhs 0 + i + j * n ≠ X_BLK ilsum nrhs 0 - XK_H := by
          unfold X_BLK XK_H
          omega
        rw [Function.update_noteq hne]
        exact a3 i hlt j hj
      · subst heq
        exact s1 j hj
  intro i hi j hj
  unfold pdReDistribute3d_B_to_X_unpack
  simp only [List.range_succ, List.range_zero, List.nil_append, List.foldl_cons,
    List.foldl_nil, hR, hd]
  exact (key n (le_refl n)).2.2 i hi j hj


theorem B_to_X_pack_one (B : Nat → ℚ) (n nrhs ldb : Nat) (ScalePermstruct : dScalePermstruct_t)
    (Glu_persist : Glu_persist_t) (hsup : ∀ i < n, Glu_persist.supno i = 0)
    (hperm : ∀ i < n, ScalePermstruct.perm_c (ScalePermstruct.perm_r i) = i)
    (st0 : RedistBuf) (h0 : st0.ptr_to_ibuf 0 = 0) (h1 : st0.ptr_to_dbuf 0 = 0) :
    (∀ i < n, (pdReDistribute3d_B_to_X_pack B n nrhs ldb 0 ScalePermstruct Glu_persist
      { iam := 0, nprow := 1, npcol := 1 } st0).ibuf i = i) ∧
    (∀ i < n, ∀ j < nrhs, (pdReDistribute3d_B_to_X_pack B n nrhs ldb 0 ScalePermstruct
      Glu_persist { iam := 0, nprow := 1, npcol := 1 } st0).dbuf (i * nrhs + j)
        = B (i + j * ldb)) := by
  have heq : pdReDistribute3d_B_to_X_pack B n nrhs ldb 0 ScalePermstruct Glu_persist
      { iam := 0, nprow := 1, npcol := 1 } st0
      = (List.range n).foldl
      (fun (st : RedistBuf) i =>
        ({ ibuf := Function.update st.ibuf (st.ptr_to_ibuf 0) ((fun i => i) i)
           dbuf := (List.range nrhs).foldl
             (fun dbuf j => Function.update dbuf (st.ptr_to_dbuf 0 + j)
               ((fun i j => B (i + j * ldb)) i j)) st.dbuf
           ptr_to_ibuf := Function.update st.ptr_to_ibuf 0 (st.ptr_to_ibuf 0 + 1)
           ptr_to_dbuf := Function.update st.ptr_to_dbuf 0 (st.ptr_to_dbuf 0 + nrhs) } :
          RedistBuf))
      st0 := by
    unfold pdReDistribute3d_B_to_X_pack
    apply List.foldl_ext
    intro st i hi
    rw [List.mem_range] at hi
    simp only [zero_add, hperm i hi, BlockNum, hsup i hi, PNUM, PROW, PCOL, Nat.mod_one,
      zero_mul]
  rw [heq]
  obtain ⟨_, _, a3, a4⟩ := pack_loop nrhs (fun i => i) (fun i j => B (i + j * ldb)) n st0 h0 h1
  exact ⟨a3, a4⟩

theorem getD8 (a b c d e f g i : Nat) :
    [a, b, c, d, e, f, g, i].getD 0 0 = a ∧ [a, b, c, d, e, f, g, i].getD 1 0 = b ∧
    [a, b, c, d, e, f, g, i].getD 2 0 = c ∧ [a, b, c, d, e, f, g, i].getD 3 0 = d ∧
    [a, b, c, d, e, f, g, i].getD 4 0 = e ∧ [a, b, c, d, e, f, g, i].getD 5 0 = f ∧
    [a, b, c, d, e, f, g, i].getD 6 0 = g ∧ [a, b, c, d, e, f, g, i].getD 7 0 = i :=
  ⟨rfl, rfl, rfl, rfl, rfl, rfl, rfl, rfl⟩

theorem B_to_X_one (n nrhs ldb : Nat) (LUstruct : dLUstruct_t)
    (ScalePermstruct : dScalePermstruct_t) (trf3Dpartition : dtrf3Dpartition_t)
    (grid3d : gridinfo3d_t) (SOLVEstruct : dSOLVEstruct_t) (lsub : Nat → Nat)
    (h : OneSupernode n nrhs LUstruct ScalePermstruct trf3Dpartition grid3d SOLVEstruct lsub)
    (B x : Nat → ℚ) (heap : RedistBuf) :
    ∃ r, pdReDistribute3d_B_to_X B n nrhs ldb 0 LUstruct.Llu.ilsum x ScalePermstruct
        LUstruct.Glu_persist grid3d SOLVEstruct heap = some r ∧
      ∀ i < n, ∀ j < nrhs,
        r.1 (X_BLK LUstruct.Llu.ilsum nrhs 0 + i + j * n) = B (i + j * ldb) := by
  have hg := grid_one_eq grid3d.grid2d h.iam h.nprow h.npcol
  obtain ⟨c0, c1, c2, c3, c4, c5, c6, c7⟩ := getD8 n (n * nrhs) n (n * nrhs) 0 0 0 0
  have d0 := (h.cntB 0).trans c0
  have d1 := (h.cntB 1).trans c1
  have d2 := (h.cntB 2).trans c2
  have d3 := (h.cntB 3).trans c3
  have d4 := (h.cntB 4).trans c4
  have d5 := (h.cntB 5).trans c5
  have d6 := (h.cntB 6).trans c6
  have d7 := (h.cntB 7).trans c7
  unfold pdReDistribute3d_B_to_X
  simp only [h.layer, hg, ne_eq, not_true_eq_false, if_false, mul_one, Nat.sub_self, zero_add,
    Nat.add_zero, d0, d1, d2, d3, d4, d5, d6, d7, MPI_Alltoallv_self, Nat.lt_irrefl,
    List.range_succ, List.range_zero, List.nil_append, List.foldl_cons, List.foldl_nil,
    zero_mul]
  refine ⟨_, rfl, ?_⟩
  obtain ⟨p1, p2⟩ := B_to_X_pack_one B n nrhs ldb ScalePermstruct LUstruct.Glu_persist
    h.supno h.perm
    { heap with
      ptr_to_ibuf := Function.update heap.ptr_to_ibuf 0 0
      ptr_to_dbuf := Function.update heap.ptr_to_dbuf 0 0 }
    (by simp) (by simp)
  generalize pdReDistribute3d_B_to_X_pack B n nrhs ldb 0 ScalePermstruct LUstruct.Glu_persist
      { iam := 0, nprow := 1, npcol := 1 }
      { heap with
        ptr_to_ibuf := Function.update heap.ptr_to_ibuf 0 0
        ptr_to_dbuf := Function.update heap.ptr_to_dbuf 0 0 } = pk at p1 p2
  intro i hi j hj
  have hu := B_to_X_unpack_one n nrhs LUstruct.Llu.ilsum LUstruct.Glu_persist h.n_pos h.supno
    h.xsup0 h.xsup1 x (fun p => SOLVEstruct.gstrs_comm.B_to_X_SendCnt (2 + p))
    (fun p => SOLVEstruct.gstrs_comm.B_to_X_SendCnt (7 + p)) d2 d7
    (fun i => if n ≤ n + i ∧ n + i < n + n then pk.ibuf (n + i - n) else pk.ibuf (n + i))
    (fun i => if n * nrhs ≤ n * nrhs + i ∧ n * nrhs + i < n * nrhs + n * nrhs then
      pk.dbuf (n * nrhs + i - n * nrhs) else pk.dbuf (n * nrhs + i))
  refine Eq.trans (hu ?_ i hi j hj) ?_
  · intro t ht
    have hc : n ≤ n + t ∧ n + t < n + n := by omega
    simp only [hc, and_self, if_true, Nat.add_sub_cancel_left]
    exact p1 t ht
  · have hlt : i * nrhs + j < n * nrhs := mul_add_lt hi hj
    have hc : n * nrhs ≤ n * nrhs + (i * nrhs + j) ∧
        n * nrhs + (i * nrhs + j) < n * nrhs + n * nrhs := by omega
    simp only [hc, and_self, if_true, Nat.add_sub_cancel_left]
    exact p2 i hi j hj


theorem foldlOpt_concat {σ β : Type} (f : σ → β → Option σ) (l : List β) (a : β) :
    ∀ s : σ, foldlOpt f s (l ++ [a]) = (foldlOpt f s l).bind (fun s' => f s' a) := by
  induction l with
  | nil =>
    intro s
    show foldlOpt f s [a] = f s a
    unfold foldlOpt
    cases hfs : f s a <;> rfl
  | cons b l ih =>
    intro s
    simp only [List.cons_append, foldlOpt]
    cases f s b with
    | none => rfl
    | some s1 => exact ih s1

theorem strided_ne' {i m j j' n ldb : Nat} (hn : n ≤ ldb) (hi : i < n) (hm : m < n)
    (him : i ≠ m) : i + j * ldb ≠ m + j' * ldb := by
  have h := @strided_ne i m j j' ldb 0 (lt_of_lt_of_le hi hn) (lt_of_lt_of_le hm hn) him
  simpa using h

/-- The copy of the receive buffers into `B` when the received row indices are
`0 .. n-1` in order: row `i` of right-hand side `j` lands at `i + j * ldb`. -/
theorem X_to_B_unpack_one (B : Nat → ℚ) (n ldb nrhs : Nat) (hldb : n ≤ ldb)
    (recv_ibuf : Nat → Nat) (recv_dbuf : Nat → ℚ) (hri : ∀ i < n, recv_ibuf i = i) :
    ∃ B', pdReDistribute3d_X_to_B_unpack B n ldb 0 nrhs recv_ibuf recv_dbuf = some B' ∧
      ∀ i < n, ∀ j < nrhs, B' (i + j * ldb) = recv_dbuf (i * nrhs + j) := by
  have hpos : 1 ≤ ldb ∨ n = 0 := by omega
  have key : ∀ m, m ≤ n → ∃ Bm,
      foldlOpt
        (fun (st : (Nat → ℚ) × Nat) i =>
          if recv_ibuf i < 0 then none
          else
            some ((List.range nrhs).foldl
              (fun B j => Function.update B (recv_ibuf i - 0 + j * ldb) (recv_dbuf (st.2 + j)))
              st.1, st.2 + nrhs))
        (B, 0) (List.range m) = some (Bm, m * nrhs) ∧
      ∀ i < m, ∀ j < nrhs, Bm (i + j * ldb) = recv_dbuf (i * nrhs + j) := by
    intro m
    induction m with
    | zero =>
      intro _
      exact ⟨B, by simp [foldlOpt], fun i hi => absurd hi (Nat.not_lt_zero _)⟩
    | succ m ih =>
      intro hm
      obtain ⟨Bm, a1, a2⟩ := ih (Nat.le_of_succ_le hm)
      have hmn : m < n := hm
      have hl : 1 ≤ ldb := by omega
      rw [List.range_succ, foldlOpt_concat, a1]
      refine ⟨(List.range nrhs).foldl
          (fun B j => Function.update B (m + j * ldb) (recv_dbuf (m * nrhs + j))) Bm, ?_,
        fun i hi j hj => ?_⟩
      · show (if recv_ibuf m < 0 then none
          else
            some ((List.range nrhs).foldl
              (fun B j => Function.update B (recv_ibuf m - 0 + j * ldb)
                (recv_dbuf (m * nrhs + j)))
              Bm, m * nrhs + nrhs)) = _
        simp only [Nat.not_lt_zero, if_false, hri m hmn, Nat.sub_zero]
        rw [Nat.add_mul, one_mul]
      obtain ⟨s1, s2⟩ := foldl_update_strided nrhs m ldb hl
        (fun j => recv_dbuf (m * nrhs + j)) Bm
      rcases Nat.lt_succ_iff_lt_or_eq.1 hi with hlt | heq
      · rw [s2 _ (fun j' _ => strided_ne' hldb (lt_trans hlt hmn) hmn (Nat.ne_of_lt hlt))]
        exact a2 i hlt j hj
      · subst heq
        exact s1 j hj
  obtain ⟨Bn, b1, b2⟩ := key n (le_refl n)
  refine ⟨Bn, ?_, b2⟩
  unfold pdReDistribute3d_X_to_B_unpack
  rw [b1]
  rfl


theorem X_to_B_pack_one (n nrhs : Nat) (x : Nat → ℚ) (ilsum : Nat → Nat)
    (Glu_persist : Glu_persist_t) (SOLVEstruct : dSOLVEstruct_t)
    (hx0 : Glu_persist.xsup 0 = 0) (hx1 : Glu_persist.xsup 1 = n)
    (hrow : ∀ i < n, SOLVEstruct.row_to_proc i = 0) (hnd : SOLVEstruct.num_diag_procs = 1)
    (hd0 : SOLVEstruct.diag_procs 0 = 0)
    (st0 : RedistBuf) (h0 : st0.ptr_to_ibuf 0 = 0) (h1 : st0.ptr_to_dbuf 0 = 0) :
    (∀ i < n, (pdReDistribute3d_X_to_B_pack 1 nrhs x ilsum Glu_persist
      { iam := 0, nprow := 1, npcol := 1 } SOLVEstruct st0).ibuf i = i) ∧
    (∀ i < n, ∀ j < nrhs, (pdReDistribute3d_X_to_B_pack 1 nrhs x ilsum Glu_persist
      { iam := 0, nprow := 1, npcol := 1 } SOLVEstruct st0).dbuf (i * nrhs + j)
        = x (X_BLK ilsum nrhs 0 + i + j * n)) := by
  have hsz : SuperSize Glu_persist.xsup 0 = n := by simp [SuperSize, hx0, hx1]
  have heq : pdReDistribute3d_X_to_B_pack 1 nrhs x ilsum Glu_persist
      { iam := 0, nprow := 1, npcol := 1 } SOLVEstruct st0
      = (List.range n).foldl
      (fun (st : RedistBuf) i =>
        ({ ibuf := Function.update st.ibuf (st.ptr_to_ibuf 0) ((fun i => i) i)
           dbuf := (List.range nrhs).foldl
             (fun dbuf j => Function.update dbuf (st.ptr_to_dbuf 0 + j)
               ((fun i j => x (X_BLK ilsum nrhs 0 + i + j * n)) i j)) st.dbuf
           ptr_to_ibuf := Function.update st.ptr_to_ibuf 0 (st.ptr_to_ibuf 0 + 1)
           ptr_to_dbuf := Function.update st.ptr_to_dbuf 0 (st.ptr_to_dbuf 0 + nrhs) } :
          RedistBuf))
      st0 := by
    unfold pdReDistribute3d_X_to_B_pack
    simp only [hnd, List.range_succ, List.range_zero, List.nil_append, List.foldl_cons,
      List.foldl_nil, hd0, if_true, Nat.sub_zero, Nat.add_sub_cancel, Nat.div_one,
      List.map_cons, List.map_nil, zero_mul, add_zero, hsz, LBi, Nat.zero_div, FstBlockC, hx0,
      zero_add]
    apply List.foldl_ext
    intro st i hi
    rw [List.mem_range] at hi
    simp only [hrow i hi]
  rw [heq]
  obtain ⟨_, _, a3, a4⟩ := pack_loop nrhs (fun i => i)
    (fun i j => x (X_BLK ilsum nrhs 0 + i + j * n)) n st0 h0 h1
  exact ⟨a3, a4⟩

theorem X_to_B_one (n nrhs ldb : Nat) (hldb : n ≤ ldb) (LUstruct : dLUstruct_t)
    (ScalePermstruct : dScalePermstruct_t) (trf3Dpartition : dtrf3Dpartition_t)
    (grid3d : gridinfo3d_t) (SOLVEstruct : dSOLVEstruct_t) (lsub : Nat → Nat)
    (h : OneSupernode n nrhs LUstruct ScalePermstruct trf3Dpartition grid3d SOLVEstruct lsub)
    (B x : Nat → ℚ) (heap : RedistBuf) :
    ∃ r, pdReDistribute3d_X_to_B n B n ldb 0 nrhs x LUstruct.Llu.ilsum
        LUstruct.Glu_persist grid3d SOLVEstruct heap = some r ∧
      ∀ i < n, ∀ j < nrhs,
        r.1 (i + j * ldb) = x (X_BLK LUstruct.Llu.ilsum nrhs 0 + i + j * n) := by
  have hg := grid_one_eq grid3d.grid2d h.iam h.nprow h.npcol
  have hsup : LUstruct.Glu_persist.supno (n - 1) = 0 := h.supno _ (by have := h.n_pos; omega)
  obtain ⟨c0, c1, c2, c3, c4, c5, c6, c7⟩ := getD8 n (n * nrhs) n (n * nrhs) 0 0 0 0
  have d0 := (h.cntX 0).trans c0
  have d1 := (h.cntX 1).trans c1
  have d2 := (h.cntX 2).trans c2
  have d3 := (h.cntX 3).trans c3
  have d4 := (h.cntX 4).trans c4
  have d5 := (h.cntX 5).trans c5
  have d6 := (h.cntX 6).trans c6
  have d7 := (h.cntX 7).trans c7
  obtain ⟨p1, p2⟩ := X_to_B_pack_one n nrhs x LUstruct.Llu.ilsum LUstruct.Glu_persist
    SOLVEstruct h.xsup0 h.xsup1 h.row_to_proc h.ndiag h.diag0
    { heap with
      ptr_to_ibuf := Function.update heap.ptr_to_ibuf 0 0
      ptr_to_dbuf := Function.update heap.ptr_to_dbuf 0 0 }
    (by simp) (by simp)
  unfold pdReDistribute3d_X_to_B
  simp only [h.layer, hg, hsup, ne_eq, not_true_eq_false, if_false, mul_one, Nat.sub_self,
    zero_add, Nat.add_zero, d0, d1, d2, d3, d4, d5, d6, d7, MPI_Alltoallv_self, Nat.lt_irrefl,
    List.range_succ, List.range_zero, List.nil_append, List.foldl_cons, List.foldl_nil,
    zero_mul]
  generalize pdReDistribute3d_X_to_B_pack 1 nrhs x LUstruct.Llu.ilsum LUstruct.Glu_persist
      { iam := 0, nprow := 1, npcol := 1 } SOLVEstruct
      { heap with
        ptr_to_ibuf := Function.update heap.ptr_to_ibuf 0 0
        ptr_to_dbuf := Function.update heap.ptr_to_dbuf 0 0 } = pk at p1 p2
  obtain ⟨B', hB1, hB2⟩ := X_to_B_unpack_one B n ldb nrhs hldb
    (fun i => if n ≤ n + i ∧ n + i < n + n then pk.ibuf (n + i - n) else pk.ibuf (n + i))
    (fun i => if n * nrhs ≤ n * nrhs + i ∧ n * nrhs + i < n * nrhs + n * nrhs then
      pk.dbuf (n * nrhs + i - n * nrhs) else pk.dbuf (n * nrhs + i))
    (by
      intro t ht
      have hc : n ≤ n + t ∧ n + t < n + n := by omega
      simp only [hc, and_self, if_true, Nat.add_sub_cancel_left]
      exact p1 t ht)
  rw [hB1]
  refine ⟨_, rfl, fun i hi j hj => ?_⟩
  show B' (i + j * ldb) = _
  rw [hB2 i hi j hj]
  have hlt : i * nrhs + j < n * nrhs := mul_add_lt hi hj
  have hc : n * nrhs ≤ n * nrhs + (i * nrhs + j) ∧
      n * nrhs + (i * nrhs + j) < n * nrhs + n * nrhs := by omega
  simp only [hc, and_self, if_true, Nat.add_sub_cancel_left]
  exact p2 i hi j hj

/-! ## The solve on one process with one supernode -/

/-- C1: on a 1 x 1 x 1 grid, for a factor stored as a single supernode of `n`
columns with identity permutations and a non-singular `U`, `pdgstrs3d` with
`nrhs >= 1` returns with `*info = 0` and overwrites `B` with the `X` such that
`L * (U * X) = B`, where `L` is the unit lower and `U` the upper triangle of the
stored diagonal block (exact arithmetic). -/
theorem pdgstrs3d_single_supernode (fuel n nrhs ldb maxsup : Nat) (LUstruct : dLUstruct_t)
    (ScalePermstruct : dScalePermstruct_t) (trf3Dpartition : dtrf3Dpartition_t)
    (grid3d : gridinfo3d_t) (SOLVEstruct : dSOLVEstruct_t) (lsub : Nat → Nat)
    (env : SolveEnv) (w : SolveWorld)
    (h : OneSupernode n nrhs LUstruct ScalePermstruct trf3Dpartition grid3d SOLVEstruct lsub)
    (hldb : n ≤ ldb)
    (hd : ∀ i < n, LUstruct.Llu.Lnzval_bc_ptr 0 (i + i * lsub 1) ≠ 0) :
    ∃ w', pdgstrs3d fuel (n : Int) LUstruct ScalePermstruct trf3Dpartition grid3d n 0 ldb
        (nrhs : Int) maxsup SOLVEstruct env w = some (0, w') ∧
      ∀ i < n, ∀ j < nrhs,
        ∑ m in Finset.range n, unitLower (LUstruct.Llu.Lnzval_bc_ptr 0) (lsub 1) i m *
          (∑ l in Finset.range n, upperTri (LUstruct.Llu.Lnzval_bc_ptr 0) (lsub 1) m l *
            w'.B (l + j * ldb)) = w.B (i + j * ldb) := by
  have hn0 : n ≠ 0 := by have := h.n_pos; omega
  unfold pdgstrs3d
  simp only [Int.natCast_nonneg, not_lt.mpr, if_false, Int.toNat_ofNat, ne_eq,
    not_true_eq_false]
  unfold pdgstrs3d_solve
  simp only [hn0, h.layer, ne_eq, not_true_eq_false, or_self, if_false]
  obtain ⟨r1, hr1, hx1⟩ := B_to_X_one n nrhs ldb LUstruct ScalePermstruct trf3Dpartition
    grid3d SOLVEstruct lsub h w.B w.s.x
    { ibuf := env.ibuf1, dbuf := env.dbuf1, ptr_to_ibuf := w.ptr_to_ibuf,
      ptr_to_dbuf := w.ptr_to_dbuf }
  rw [hr1]
  simp only []
  generalize hs1 : ({ w.s with
      x := trs_B_init3d r1.1
      lsum := fun i =>
        if i < LUstruct.Llu.ldalsum * nrhs +
            CEILING (LUstruct.Glu_persist.supno (n - 1) + 1) grid3d.grid2d.nprow * LSUM_H then 0
        else w.s.lsum i
      xT := xT_headers (LUstruct.Glu_persist.supno (n - 1) + 1) nrhs grid3d.grid2d
        (xT_ilsumT (LUstruct.Glu_persist.supno (n - 1) + 1) LUstruct grid3d.grid2d fun _ => 0)
        w.s.xT
      SolveMsgSent := 0
      ops := 0 } : SolveState) = s1
  have hs1x : s1.x = r1.1 := by rw [← hs1]; rfl
  obtain ⟨s2, hs2, hx2⟩ := forwardDriver_one fuel n nrhs maxsup LUstruct ScalePermstruct
    trf3Dpartition grid3d SOLVEstruct lsub h env.fwd s1
  rw [hs2]
  simp only []
  obtain ⟨s3, hs3, hx3⟩ := backwardDriver_one fuel n nrhs LUstruct ScalePermstruct
    trf3Dpartition grid3d SOLVEstruct lsub h env.bwd s2
  rw [hs3]
  simp only []
  have hg3 : trs_X_gather3d trf3Dpartition grid3d s3 = some s3 := by
    simp [trs_X_gather3d, h.layers, log2i_one, foldlOpt]
  rw [hg3]
  simp only []
  obtain ⟨r2, hr2, hx4⟩ := X_to_B_one n nrhs ldb hldb LUstruct ScalePermstruct trf3Dpartition
    grid3d SOLVEstruct lsub h w.B s3.x
    { ibuf := env.ibuf2, dbuf := env.dbuf2, ptr_to_ibuf := r1.2.ptr_to_ibuf,
      ptr_to_dbuf := r1.2.ptr_to_dbuf }
  rw [hr2]
  simp only [h.layers, not_true_eq_false, if_false, Option.map_some']
  refine ⟨_, rfl, fun i hi j hj => ?_⟩
  simp only []
  obtain ⟨_, hL⟩ := dtrsm_lower_unit n nrhs 1 (LUstruct.Llu.Lnzval_bc_ptr 0) (lsub 1) s1.x
    (X_BLK LUstruct.Llu.ilsum nrhs 0) n (le_refl n)
  obtain ⟨_, hU⟩ := dtrsm_upper_nonUnit n nrhs 1 (LUstruct.Llu.Lnzval_bc_ptr 0) (lsub 1) s2.x
    (X_BLK LUstruct.Llu.ilsum nrhs 0) n (le_refl n)
  rw [← hx2] at hL
  rw [← hx3] at hU
  have key := lu_solve_eq (LUstruct.Llu.Lnzval_bc_ptr 0) (lsub 1) n
    (fun i => w.B (i + j * ldb))
    (fun i => s2.x (X_BLK LUstruct.Llu.ilsum nrhs 0 + i + j * n))
    (fun i => r2.1 (i + j * ldb)) hd
    (fun i hi => by
      simp only []
      rw [hL j hj i hi, hs1x, hx1 i hi j hj])
    (fun i hi => by
      simp only []
      rw [hx4 i hi j hj, hU j hj i hi]
      congr 2
      congr 1
      apply List.map_congr_left
      intro l hl
      rw [List.mem_map] at hl
      obtain ⟨t, ht, htl⟩ := hl
      rw [List.mem_range] at ht
      rw [hx4 l (by omega) j hj])
    i hi
  exact key


theorem pdgstrs3d_single_supernode_witness :
    OneSupernode 2 1 LU1 permId trfOne grid1x1x1 solveStructOne lsubOne ∧
    ∃ w', pdgstrs3d 0 ((2 : Nat) : Int) LU1 permId trfOne grid1x1x1 2 0 2 ((1 : Nat) : Int) 2
        solveStructOne envSolve world0 = some (0, w') ∧
      ∀ i < 2, ∀ j < 1,
        ∑ m in Finset.range 2, unitLower (LU1.Llu.Lnzval_bc_ptr 0) (lsubOne 1) i m *
          (∑ l in Finset.range 2, upperTri (LU1.Llu.Lnzval_bc_ptr 0) (lsubOne 1) m l *
            w'.B (l + j * 2)) = world0.B (i + j * 2) := by
  have hs : OneSupernode 2 1 LU1 permId trfOne grid1x1x1 solveStructOne lsubOne :=
    { n_pos := by decide
      nrhs_pos := by decide
      iam := rfl
      nprow := rfl
      npcol := rfl
      layers := rfl
      layer := rfl
      supno := fun _ _ => rfl
      xsup0 := rfl
      xsup1 := rfl
      perm := fun _ _ => rfl
      column := rfl
      blocks := rfl
      fmod := rfl
      noU := rfl
      urbs := rfl
      fsend := rfl
      bsend := rfl
      zeroTr := rfl
      tree := rfl
      forest := ⟨_, rfl, rfl, rfl⟩
      row_to_proc := fun _ _ => rfl
      ndiag := rfl
      diag0 := rfl
      cntB := fun _ => rfl
      cntX := fun _ => rfl }
  refine ⟨hs, ?_⟩
  exact pdgstrs3d_single_supernode 0 2 1 2 2 LU1 permId trfOne grid1x1x1 solveStructOne
    lsubOne envSolve world0 hs (by decide) (by
      intro i hi
      have h2 : i = 0 ∨ i = 1 := by omega
      rcases h2 with h2 | h2 <;> subst h2 <;> simp [LU1, Llu1, lsubOne])

/-! ## The reduction of `lsum` between two layers -/

theorem foldl_update_self (n : Nat) (idx : Nat → Nat) (hidx : Function.Injective idx)
    (g : Nat → ℚ → ℚ) (x0 : Nat → ℚ) :
    (∀ p, (∀ i < n, p ≠ idx i) →
      (List.range n).foldl (fun x i => Function.update x (idx i) (g i (x (idx i)))) x0 p = x0 p) ∧
    (∀ i < n,
      (List.range n).foldl (fun x i => Function.update x (idx i) (g i (x (idx i)))) x0 (idx i)
        = g i (x0 (idx i))) := by
  induction n with
  | zero => exact ⟨fun p _ => rfl, fun i hi => absurd hi (Nat.not_lt_zero _)⟩
  | succ n ih =>
    obtain ⟨ih1, ih2⟩ := ih
    rw [List.range_succ, List.foldl_append]
    simp only [List.foldl_cons, List.foldl_nil]
    refine ⟨fun p hp => ?_, fun i hi => ?_⟩
    · rw [Function.update_noteq (hp n (Nat.lt_succ_self n))]
      exact ih1 p (fun i hi => hp i (Nat.lt_succ_of_lt hi))
    · rcases Nat.lt_succ_iff_lt_or_eq.1 hi with hlt | heq
      · rw [Function.update_noteq (fun hc => absurd (hidx hc) (Nat.ne_of_lt hlt))]
        exact ih2 i hlt
      · subst heq
        rw [Function.update_same, ih1 (idx i) (fun l hl hc => absurd (hidx hc).symm (Nat.ne_of_lt hl))]

/-- The loop of `addBlock` adds each entry of the source once: entry `(i, j)` of
the block grows by the entry `(i, j)` of the source, everything else stays. -/
theorem addBlock_apply (x : Nat → ℚ) (ii : Nat) (src : Nat → ℚ) (soff knsupc nrhs : Nat) :
    (∀ p, (∀ j < nrhs, ∀ i < knsupc, p ≠ i + ii + j * knsupc) →
      addBlock x ii src soff knsupc nrhs p = x p) ∧
    (∀ j < nrhs, ∀ i < knsupc,
      addBlock x ii src soff knsupc nrhs (i + ii + j * knsupc)
        = x (i + ii + j * knsupc) + src (i + soff + j * knsupc)) := by
  have hinj : ∀ j, Function.Injective (fun i => i + ii + j * knsupc) := by
    intro j a b hab
    simp only at hab
    omega
  have key := columns_sweep
    (fun j X => (List.range knsupc).foldl
      (fun x i => Function.update x (i + ii + j * knsupc)
        (x (i + ii + j * knsupc) + src (i + soff + j * knsupc))) X)
    (fun j p => ∃ i < knsupc, p = i + ii + j * knsupc)
    (fun j Bin S => ∀ i < knsupc, S (i + ii + j * knsupc)
      = Bin (i + ii + j * knsupc) + src (i + soff + j * knsupc))
    (fun j j' p ⟨i, hi, hp⟩ ⟨i', hi', hp'⟩ =>
      block_index_disj ii knsupc knsupc (le_refl _) j j' p ⟨i, hi, by omega⟩ ⟨i', hi', by omega⟩)
    (fun j B0 p hp => (foldl_update_self knsupc (fun i => i + ii + j * knsupc) (hinj j)
      (fun i v => v + src (i + soff + j * knsupc)) B0).1 p (fun i hi h => hp ⟨i, hi, h⟩))
    (fun j B0 => (foldl_update_self knsupc (fun i => i + ii + j * knsupc) (hinj j)
      (fun i v => v + src (i + soff + j * knsupc)) B0).2)
    (fun j B0 S B' S' h hB hS i hi => by
      rw [hS _ ⟨i, hi, rfl⟩, hB _ ⟨i, hi, rfl⟩, h i hi])
    x nrhs
  refine ⟨fun p hp => ?_, fun j hj i hi => ?_⟩
  · exact key.1 p (fun j hj ⟨i, hi, h⟩ => hp j hj i hi h)
  · exact key.2 j hj i hi


theorem setArray_layer_ne (a : Nat → Nat → Nat → ℚ) (layer iam : Nat) (v : Nat → ℚ)
    (l : Nat) (h : l ≠ layer) : setArray a layer iam v l = a l := by
  unfold setArray
  rw [Function.update_noteq h]

theorem setArray_iam_ne (a : Nat → Nat → Nat → ℚ) (layer iam : Nat) (v : Nat → ℚ)
    (p : Nat) (h : p ≠ iam) : setArray a layer iam v layer p = a layer p := by
  unfold setArray
  rw [Function.update_same, Function.update_noteq h]

theorem setArray_same (a : Nat → Nat → Nat → ℚ) (layer iam : Nat) (v : Nat → ℚ) :
    setArray a layer iam v layer iam = v := by
  unfold setArray
  rw [Function.update_same, Function.update_same]

/-- Effect of the loop body of `fsolveReduceLsum3d` for one node on the arrays
`lsum`. -/
theorem fsolveReduceLsum3d_node_lsum (sender receiver nrhs : Nat) (xsup : Nat → Nat)
    (ilsum : Nat → Nat → Nat) (grid : gridinfo_t) (st : LayersState) (k : Nat)
    (hsr : sender ≠ receiver) :
    (∀ layer, layer ≠ receiver →
      (fsolveReduceLsum3d_node sender receiver nrhs xsup ilsum grid st k).lsum layer
        = st.lsum layer) ∧
    (∀ iam, iam ≠ diagProc grid k →
      (fsolveReduceLsum3d_node sender receiver nrhs xsup ilsum grid st k).lsum receiver iam
        = st.lsum receiver iam) ∧
    (∀ p, (∀ i < SuperSize xsup k, ∀ j < nrhs,
        p ≠ lsumIndex ilsum nrhs xsup grid (diagProc grid k) k i j) →
      (fsolveReduceLsum3d_node sender receiver nrhs xsup ilsum grid st k).lsum receiver
        (diagProc grid k) p = st.lsum receiver (diagProc grid k) p) ∧
    (∀ i < SuperSize xsup k, ∀ j < nrhs,
      (fsolveReduceLsum3d_node sender receiver nrhs xsup ilsum grid st k).lsum receiver
        (diagProc grid k) (lsumIndex ilsum nrhs xsup grid (diagProc grid k) k i j)
      = st.lsum receiver (diagProc grid k)
          (lsumIndex ilsum nrhs xsup grid (diagProc grid k) k i j)
        + ((List.range grid.npcol).map (fun c => st.lsum sender (PNUM (PROW k grid) c grid)
            (lsumIndex ilsum nrhs xsup grid (PNUM (PROW k grid) c grid) k i j))).sum) := by
  have hidx : ∀ i j, lsumIndex ilsum nrhs xsup grid (diagProc grid k) k i j
      = i + LSUM_BLK (ilsum (diagProc grid k)) nrhs (LBi k grid) + j * SuperSize xsup k := by
    intro i j
    unfold lsumIndex
    omega
  obtain ⟨ab1, ab2⟩ := addBlock_apply (st.lsum receiver (diagProc grid k))
    (LSUM_BLK (ilsum (diagProc grid k)) nrhs (LBi k grid))
    (MPI_SendRecv
      (MPI_Reduce_SUM
        (fun c t => st.lsum sender (PNUM (PROW k grid) c grid)
          (LSUM_BLK (ilsum (PNUM (PROW k grid) c grid)) nrhs (LBi k grid) + t))
        (SuperSize xsup k * nrhs) grid.npcol (st.recvbuf sender (diagProc grid k)))
      (SuperSize xsup k * nrhs) (st.recvbuf receiver (diagProc grid k)))
    0 (SuperSize xsup k) nrhs
  have hl : (fsolveReduceLsum3d_node sender receiver nrhs xsup ilsum grid st k).lsum
      = setArray st.lsum receiver (diagProc grid k)
        (addBlock (st.lsum receiver (diagProc grid k))
          (LSUM_BLK (ilsum (diagProc grid k)) nrhs (LBi k grid))
          (MPI_SendRecv
            (MPI_Reduce_SUM
              (fun c t => st.lsum sender (PNUM (PROW k grid) c grid)
                (LSUM_BLK (ilsum (PNUM (PROW k grid) c grid)) nrhs (LBi k grid) + t))
              (SuperSize xsup k * nrhs) grid.npcol (st.recvbuf sender (diagProc grid k)))
            (SuperSize xsup k * nrhs) (st.recvbuf receiver (diagProc grid k)))
          0 (SuperSize xsup k) nrhs) := by
    unfold fsolveReduceLsum3d_node diagProc
    simp only [setArray_same, setArray_layer_ne _ _ _ _ _ (Ne.symm hsr)]
  rw [hl]
  refine ⟨fun layer hne => setArray_layer_ne _ _ _ _ _ hne,
    fun iam hne => setArray_iam_ne _ _ _ _ _ hne, fun p hp => ?_, fun i hi j hj => ?_⟩
  · rw [setArray_same]
    exact ab1 p (fun j hj i hi => by rw [← hidx]; exact hp i hi j hj)
  · rw [setArray_same, hidx, ab2 j hj i hi]
    congr 1
    have hlt : i + j * SuperSize xsup k < SuperSize xsup k * nrhs := by
      have h : (j + 1) * SuperSize xsup k ≤ nrhs * SuperSize xsup k :=
        Nat.mul_le_mul_right _ hj
      rw [Nat.add_mul] at h
      rw [Nat.mul_comm (SuperSize xsup k) nrhs]
      omega
    simp only [MPI_SendRecv, MPI_Reduce_SUM, add_zero, hlt, if_true, lsumIndex]


theorem fsolveReduceLsum3d_loop (sender receiver nrhs : Nat) (xsup : Nat → Nat)
    (ilsum : Nat → Nat → Nat) (grid : gridinfo_t) (st : LayersState) (nodeList : Nat → Nat)
    (N : Nat) (hsr : sender ≠ receiver)
    (hdisj : ∀ a < N, ∀ b < N, a ≠ b →
      diagProc grid (nodeList a) = diagProc grid (nodeList b) →
      ∀ i < SuperSize xsup (nodeList a), ∀ j < nrhs,
      ∀ i' < SuperSize xsup (nodeList b), ∀ j' < nrhs,
        lsumIndex ilsum nrhs xsup grid (diagProc grid (nodeList a)) (nodeList a) i j
          ≠ lsumIndex ilsum nrhs xsup grid (diagProc grid (nodeList b)) (nodeList b) i' j') :
    ∀ m, m ≤ N →
      (∀ k0 < m, ∀ i < SuperSize xsup (nodeList k0), ∀ j < nrhs,
        ((List.range m).foldl
          (fun st k0 => fsolveReduceLsum3d_node sender receiver nrhs xsup ilsum grid st
            (nodeList k0)) st).lsum receiver (diagProc grid (nodeList k0))
          (lsumIndex ilsum nrhs xsup grid (diagProc grid (nodeList k0)) (nodeList k0) i j)
        = st.lsum receiver (diagProc grid (nodeList k0))
            (lsumIndex ilsum nrhs xsup grid (diagProc grid (nodeList k0)) (nodeList k0) i j)
          + ((List.range grid.npcol).map (fun c =>
              st.lsum sender (PNUM (PROW (nodeList k0) grid) c grid)
                (lsumIndex ilsum nrhs xsup grid (PNUM (PROW (nodeList k0) grid) c grid)
                  (nodeList k0) i j))).sum) ∧
      (∀ iam p, (∀ k0 < m, ∀ i < SuperSize xsup (nodeList k0), ∀ j < nrhs,
          ¬ (iam = diagProc grid (nodeList k0) ∧
            p = lsumIndex ilsum nrhs xsup grid (diagProc grid (nodeList k0)) (nodeList k0) i j)) →
        ((List.range m).foldl
          (fun st k0 => fsolveReduceLsum3d_node sender receiver nrhs xsup ilsum grid st
            (nodeList k0)) st).lsum receiver iam p = st.lsum receiver iam p) ∧
      (∀ layer, layer ≠ receiver →
        ((List.range m).foldl
          (fun st k0 => fsolveReduceLsum3d_node sender receiver nrhs xsup ilsum grid st
            (nodeList k0)) st).lsum layer = st.lsum layer) := by
  intro m
  induction m with
  | zero =>
    intro _
    exact ⟨fun k0 hk => absurd hk (Nat.not_lt_zero _), fun _ _ _ => rfl, fun _ _ => rfl⟩
  | succ m ih =>
    intro hm
    obtain ⟨a1, a2, a3⟩ := ih (Nat.le_of_succ_le hm)
    have hmN : m < N := hm
    rw [List.range_succ, List.foldl_append]
    simp only [List.foldl_cons, List.foldl_nil]
    generalize (List.range m).foldl
      (fun st k0 => fsolveReduceLsum3d_node sender receiver nrhs xsup ilsum grid st
        (nodeList k0)) st = sm at a1 a2 a3
    obtain ⟨n1, n2, n3, n4⟩ := fsolveReduceLsum3d_node_lsum sender receiver nrhs xsup ilsum
      grid sm (nodeList m) hsr
    refine ⟨fun k0 hk i hi j hj => ?_, fun iam p hp => ?_, fun layer hl => ?_⟩
    · rcases Nat.lt_succ_iff_lt_or_eq.1 hk with hlt | heq
      · rw [← a1 k0 hlt i hi j hj]
        by_cases hproc : diagProc grid (nodeList k0) = diagProc grid (nodeList m)
        · rw [hproc]
          apply n3
          intro i' hi' j' hj' hc
          refine hdisj k0 (lt_trans hlt hmN) m hmN (Nat.ne_of_lt hlt) hproc i hi j hj i' hi' j' hj' ?_
          rw [hproc]
          exact hc
        · rw [n2 _ hproc]
      · subst k0
        rw [n4 i hi j hj, a3 sender hsr]
        congr 1
        apply a2
        intro k0 hk0 i' hi' j' hj' hc
        exact hdisj k0 (lt_trans hk0 hmN) m hmN (Nat.ne_of_lt hk0) hc.1.symm i' hi' j' hj' i hi
          j hj hc.2.symm
    · have hpm := fun k0 hk0 => hp k0 (Nat.lt_succ_of_lt hk0)
      rw [← a2 iam p hpm]
      by_cases hproc : iam = diagProc grid (nodeList m)
      · rw [hproc]
        apply n3
        intro i hi j hj hc
        exact hp m (Nat.lt_succ_self m) i hi j hj ⟨hproc, hc⟩
      · rw [n2 _ hproc]
    · rw [n1 layer hl, a3 layer hl]


/-- C5: `fsolveReduceLsum3d(treeId, sender, receiver, ...)` run by the layers
`sender ≠ receiver` for a forest whose `lsum` blocks on a common diagonal
process do not overlap.  The call returns, and for every node `k` of the forest
the diagonal process of `k` on layer `receiver` holds, in every entry of its
`lsum` block of `k`, its previous value plus the sum of that entry over the
processes of the process row of `k` on layer `sender`; every other entry of
`lsum` on layer `receiver` and every `lsum` array of any other layer, the
sender included, is unchanged. -/
theorem fsolveReduceLsum3d_adds_once (treeId sender receiver nrhs : Nat)
    (trf3Dpartition : dtrf3Dpartition_t) (xsup : Nat → Nat) (ilsum : Nat → Nat → Nat)
    (grid : gridinfo_t) (st : LayersState) (sforest : sForest_t)
    (hf : trf3Dpartition.sForests treeId = some sforest) (hsr : sender ≠ receiver)
    (hdisj : ∀ a < sforest.nNodes, ∀ b < sforest.nNodes, a ≠ b →
      diagProc grid (sforest.nodeList a) = diagProc grid (sforest.nodeList b) →
      ∀ i < SuperSize xsup (sforest.nodeList a), ∀ j < nrhs,
      ∀ i' < SuperSize xsup (sforest.nodeList b), ∀ j' < nrhs,
        lsumIndex ilsum nrhs xsup grid (diagProc grid (sforest.nodeList a))
            (sforest.nodeList a) i j
          ≠ lsumIndex ilsum nrhs xsup grid (diagProc grid (sforest.nodeList b))
            (sforest.nodeList b) i' j') :
    ∃ st', fsolveReduceLsum3d treeId sender receiver nrhs trf3Dpartition xsup ilsum grid st
        = some st' ∧
      (∀ k0 < sforest.nNodes, ∀ i < SuperSize xsup (sforest.nodeList k0), ∀ j < nrhs,
        st'.lsum receiver (diagProc grid (sforest.nodeList k0))
          (lsumIndex ilsum nrhs xsup grid (diagProc grid (sforest.nodeList k0))
            (sforest.nodeList k0) i j)
        = st.lsum receiver (diagProc grid (sforest.nodeList k0))
            (lsumIndex ilsum nrhs xsup grid (diagProc grid (sforest.nodeList k0))
              (sforest.nodeList k0) i j)
          + ((List.range grid.npcol).map (fun c =>
              st.lsum sender (PNUM (PROW (sforest.nodeList k0) grid) c grid)
                (lsumIndex ilsum nrhs xsup grid (PNUM (PROW (sforest.nodeList k0) grid) c grid)
                  (sforest.nodeList k0) i j))).sum) ∧
      (∀ iam p, (∀ k0 < sforest.nNodes, ∀ i < SuperSize xsup (sforest.nodeList k0),
          ∀ j < nrhs,
          ¬ (iam = diagProc grid (sforest.nodeList k0) ∧
            p = lsumIndex ilsum nrhs xsup grid (diagProc grid (sforest.nodeList k0))
              (sforest.nodeList k0) i j)) →
        st'.lsum receiver iam p = st.lsum receiver iam p) ∧
      (∀ layer, layer ≠ receiver → st'.lsum layer = st.lsum layer) := by
  unfold fsolveReduceLsum3d
  simp only [hf, hsr, false_and, if_false]
  exact ⟨_, rfl, fsolveReduceLsum3d_loop sender receiver nrhs xsup ilsum grid st
    sforest.nodeList sforest.nNodes hsr hdisj sforest.nNodes (le_refl _)⟩

theorem fsolveReduceLsum3d_adds_once_witness :
    ∃ st', fsolveReduceLsum3d 0 1 0 1 trfOneTree xsupUnit (fun _ lk => lk) grid1x2 layers0
        = some st' ∧
      st'.lsum 0 1 5 = layers0.lsum 0 1 5 + (layers0.lsum 1 0 5 + layers0.lsum 1 1 5) ∧
      st'.lsum 1 = layers0.lsum 1 := by
  obtain ⟨st', h1, h2, _, h4⟩ := fsolveReduceLsum3d_adds_once 0 1 0 1 trfOneTree xsupUnit
    (fun _ lk => lk) grid1x2 layers0 forest01 rfl (by decide)
    (by
      intro a ha b hb hab hproc
      have ha' : a = 0 ∨ a = 1 := by
        have : a < 2 := ha
        omega
      have hb' : b = 0 ∨ b = 1 := by
        have : b < 2 := hb
        omega
      rcases ha' with rfl | rfl <;> rcases hb' with rfl | rfl
      · exact absurd rfl hab
      · exact absurd hproc (by decide)
      · exact absurd hproc (by decide)
      · exact absurd rfl hab)
  refine ⟨st', h1, ?_, h4 1 (by decide)⟩
  have h := h2 1 (by decide) 0 (by decide) 0 (by decide)
  simpa [diagProc, lsumIndex, forest01, grid1x2, PNUM, PROW, PCOL, LBi, LSUM_BLK, LSUM_H,
    xsupUnit, SuperSize, List.range_succ] using h

/-! ## Backward leaf solve: every block row is forwarded once -/

theorem rowDecs_append_ne (s : SolveState) (lk ik : Nat) (val : Int) (h : ik ≠ lk) :
    (((s.decs ++ [(ik, val)]).filter (fun e => e.1 = lk)).map (fun e => e.2))
      = rowDecs s lk := by
  simp [rowDecs, List.filter_append, List.filter_cons, h]

theorem rowDecs_append_eq (s : SolveState) (lk : Nat) (val : Int) :
    (((s.decs ++ [(lk, val)]).filter (fun e => e.1 = lk)).map (fun e => e.2))
      = rowDecs s lk ++ [val] := by
  simp [rowDecs, List.filter_append, List.filter_cons]

theorem rowFwds_append_ne (s : SolveState) (lk ik : Nat) (b : Bool) (h : ik ≠ lk) :
    (((s.lsumFwd ++ [(ik, b)]).filter (fun e => e.1 = lk)).map (fun e => e.2))
      = rowFwds s lk := by
  simp [rowFwds, List.filter_append, List.filter_cons, h]

theorem rowFwds_append_eq (s : SolveState) (lk : Nat) (b : Bool) :
    (((s.lsumFwd ++ [(lk, b)]).filter (fun e => e.1 = lk)).map (fun e => e.2))
      = rowFwds s lk ++ [b] := by
  simp [rowFwds, List.filter_append, List.filter_cons]

/-- The invariant only looks at the two logs and at the counters of `lk`. -/
theorem RowInv_frame {b0 : Nat} {flag : Bool} {npcol : Nat} {v : Bool} {lk : Nat}
    {s s' : SolveState} (hd : rowDecs s' lk = rowDecs s lk) (hf : rowFwds s' lk = rowFwds s lk)
    (hb : s'.bmod lk = s.bmod lk) (hr : s'.brecv lk = s.brecv lk)
    (h : RowInv b0 flag npcol v lk s) : RowInv b0 flag npcol v lk s' := by
  unfold RowInv RowGood at *
  rw [hd, hf, hb, hr]
  exact h

theorem RowInv_frame_true {b0 : Nat} {flag : Bool} {npcol : Nat} {lk : Nat}
    {s s' : SolveState} (hd : rowDecs s' lk = rowDecs s lk) (hf : rowFwds s' lk = rowFwds s lk)
    (hb : s'.bmod lk = s.bmod lk)
    (h : RowInv b0 flag npcol true lk s) : RowInv b0 flag npcol true lk s' := by
  unfold RowInv RowGood at *
  rw [hd, hf, hb]
  exact ⟨h.1, fun hc => absurd hc (by decide), h.2.2⟩


theorem range_map_succ (b0 : Nat) (len : Nat) :
    (List.range (len + 1)).map (fun (t : Nat) => (b0 : Int) - 1 - (t : Int))
      = (List.range len).map (fun (t : Nat) => (b0 : Int) - 1 - (t : Int)) ++ [(b0 : Int) - 1 - len] := by
  rw [List.range_succ, List.map_append]
  rfl

/-- A decrement of `bmod[lk]` that does not reach 0. -/
theorem RowInv_dec_keep {b0 : Nat} {flag : Bool} {npcol : Nat} {v : Bool} {lk : Nat}
    {s s' : SolveState} (hd : rowDecs s' lk = rowDecs s lk ++ [s.bmod lk - 1])
    (hf : rowFwds s' lk = rowFwds s lk) (hb : s'.bmod lk = s.bmod lk - 1)
    (hr : s'.brecv lk = s.brecv lk) (hnz : s.bmod lk - 1 ≠ 0)
    (h : RowInv b0 flag npcol v lk s) : RowInv b0 flag npcol v lk s' := by
  obtain ⟨h1, h2, h3⟩ := h
  refine ⟨by rw [hf]; exact h1, by rw [hr]; exact h2, ?_⟩
  rcases h3 with h3 | ⟨hv, hc⟩
  · left
    rw [hd, List.length_append, List.length_singleton]
    omega
  · rcases hc with ⟨c1, c2, c3⟩ | ⟨c1, _, _⟩ | ⟨c1, _, _, _⟩ | ⟨c1, _, _, _, _⟩
    · right
      have hlen : (rowDecs s' lk).length = (rowDecs s lk).length + 1 := by
        rw [hd, List.length_append, List.length_singleton]
      refine ⟨?_, Or.inl ⟨?_, ?_, ?_⟩⟩
      · rw [hlen, range_map_succ, hd, ← hv, c2]
        congr 2
        omega
      · rw [hlen]
        rw [c2] at hnz
        omega
      · rw [hb, c2, hlen]
        push_cast
        omega
      · rw [hf, c3]
    all_goals
      left
      rw [hd, List.length_append, List.length_singleton]
      omega

/-- A decrement of `bmod[lk]` to 0 followed by the forwarding of the block, after
the seeding loop has visited the node. -/
theorem RowInv_dec_zero {b0 : Nat} {flag : Bool} {npcol : Nat} {lk : Nat}
    {s s' : SolveState} (hd : rowDecs s' lk = rowDecs s lk ++ [s.bmod lk - 1])
    (hf : rowFwds s' lk = rowFwds s lk ++ [flag]) (hb : s'.bmod lk = s.bmod lk - 1)
    (hz : s.bmod lk - 1 = 0)
    (h : RowInv b0 flag npcol true lk s) : RowInv b0 flag npcol true lk s' := by
  obtain ⟨h1, _, h3⟩ := h
  refine ⟨?_, fun hc => absurd hc (by decide), ?_⟩
  · rw [hf]
    intro e he
    rcases List.mem_append.1 he with he | he
    · exact h1 e he
    · exact List.mem_singleton.1 he
  rcases h3 with h3 | ⟨hv, hc⟩
  · left
    rw [hd, List.length_append, List.length_singleton]
    omega
  · rcases hc with ⟨c1, c2, c3⟩ | ⟨c1, _, _⟩ | ⟨c1, _, _, _⟩ | ⟨c1, _, _, _, _⟩
    · right
      have hlen : (rowDecs s' lk).length = (rowDecs s lk).length + 1 := by
        rw [hd, List.length_append, List.length_singleton]
      refine ⟨?_, Or.inr (Or.inr (Or.inl ⟨?_, ?_, rfl, ?_⟩))⟩
      · rw [hlen, range_map_succ, hd, ← hv, c2]
        congr 2
        omega
      · rw [hlen]
        rw [c2] at hz
        omega
      · rw [hb, hz]
      · rw [hf, c3]
        rfl
    all_goals
      left
      rw [hd, List.length_append, List.length_singleton]
      omega

/-- A decrement of `bmod[lk]` to 0 followed by the forwarding of the block and
the sentinel. -/
theorem RowInv_dec_sentinel {b0 : Nat} {flag : Bool} {npcol : Nat} {v : Bool} {lk : Nat}
    {s s' : SolveState} (hd : rowDecs s' lk = rowDecs s lk ++ [s.bmod lk - 1])
    (hf : rowFwds s' lk = rowFwds s lk ++ [flag]) (hb : s'.bmod lk = -1)
    (hr : s'.brecv lk = s.brecv lk) (hz : s.bmod lk - 1 = 0)
    (h : RowInv b0 flag npcol v lk s) : RowInv b0 flag npcol v lk s' := by
  obtain ⟨h1, h2, h3⟩ := h
  refine ⟨?_, by rw [hr]; exact h2, ?_⟩
  · rw [hf]
    intro e he
    rcases List.mem_append.1 he with he | he
    · exact h1 e he
    · exact List.mem_singleton.1 he
  rcases h3 with h3 | ⟨hv, hc⟩
  · left
    rw [hd, List.length_append, List.length_singleton]
    omega
  · rcases hc with ⟨c1, c2, c3⟩ | ⟨c1, _, _⟩ | ⟨c1, _, _, _⟩ | ⟨c1, _, _, _, _⟩
    · right
      have hlen : (rowDecs s' lk).length = (rowDecs s lk).length + 1 := by
        rw [hd, List.length_append, List.length_singleton]
      refine ⟨?_, Or.inr (Or.inl ⟨?_, hb, ?_⟩)⟩
      · rw [hlen, range_map_succ, hd, ← hv, c2]
        congr 2
        omega
      · rw [hlen]
        rw [c2] at hz
        omega
      · rw [hf, c3]
        rfl
    all_goals
      left
      rw [hd, List.length_append, List.length_singleton]
      omega

/-- The sentinel stored in `bmod[lk]` when it is 0, after the seeding loop has
visited the node. -/
theorem RowInv_sentinel {b0 : Nat} {flag : Bool} {npcol : Nat} {lk : Nat}
    {s s' : SolveState} (hd : rowDecs s' lk = rowDecs s lk)
    (hf : rowFwds s' lk = rowFwds s lk) (hb : s'.bmod lk = -1) (hz : s.bmod lk = 0)
    (h : RowInv b0 flag npcol true lk s) : RowInv b0 flag npcol true lk s' := by
  obtain ⟨h1, _, h3⟩ := h
  refine ⟨by rw [hf]; exact h1, fun hc => absurd hc (by decide), ?_⟩
  rcases h3 with h3 | ⟨hv, hc⟩
  · left
    rw [hd]
    exact h3
  · right
    rw [RowGood, hd, hf]
    refine ⟨hv, ?_⟩
    rcases hc with ⟨c1, c2, c3⟩ | ⟨c1, c2, c3⟩ | ⟨c1, c2, c3, c4⟩ | ⟨c1, c2, c3, c4, c5⟩
    · rw [c2] at hz
      omega
    · rw [c2] at hz
      omega
    · exact Or.inr (Or.inl ⟨c1, hb, c4⟩)
    · exact absurd c4 (by decide)

/-- The visit of the node by the seeding loop when `bmod[lk]` is 0: the block is
forwarded. -/
theorem RowInv_seed_forward {b0 : Nat} {flag : Bool} {npcol : Nat} {lk : Nat}
    {s s' : SolveState} (hd : rowDecs s' lk = rowDecs s lk)
    (hf : rowFwds s' lk = rowFwds s lk ++ [flag]) (hb : s'.bmod lk = s.bmod lk)
    (hz : s.bmod lk = 0)
    (h : RowInv b0 flag npcol false lk s) : RowInv b0 flag npcol true lk s' := by
  obtain ⟨h1, _, h3⟩ := h
  refine ⟨?_, fun hc => absurd hc (by decide), ?_⟩
  · rw [hf]
    intro e he
    rcases List.mem_append.1 he with he | he
    · exact h1 e he
    · exact List.mem_singleton.1 he
  rcases h3 with h3 | ⟨hv, hc⟩
  · left
    rw [hd]
    exact h3
  · right
    rw [RowGood, hd, hf, hb]
    refine ⟨hv, ?_⟩
    rcases hc with ⟨c1, c2, c3⟩ | ⟨c1, c2, c3⟩ | ⟨c1, c2, c3, c4⟩ | ⟨c1, c2, c3, c4, c5⟩
    · rw [c2] at hz
      omega
    · rw [c2] at hz
      omega
    · exact absurd c3 (by decide)
    · exact Or.inr (Or.inr (Or.inl ⟨c1, c3, rfl, by rw [c5]; rfl⟩))

/-- The visit of the node by the seeding loop when `bmod[lk]` is not 0: nothing
happens. -/
theorem RowInv_seed_skip {b0 : Nat} {flag : Bool} {npcol : Nat} {lk : Nat}
    {s : SolveState} (hnz : s.bmod lk ≠ 0)
    (h : RowInv b0 flag npcol false lk s) : RowInv b0 flag npcol true lk s := by
  obtain ⟨h1, _, h3⟩ := h
  refine ⟨h1, fun hc => absurd hc (by decide), ?_⟩
  rcases h3 with h3 | ⟨hv, hc⟩
  · exact Or.inl h3
  · right
    refine ⟨hv, ?_⟩
    rcases hc with c | c | ⟨c1, c2, c3, c4⟩ | ⟨c1, c2, c3, c4, c5⟩
    · exact Or.inl c
    · exact Or.inr (Or.inl c)
    · exact absurd c3 (by decide)
    · exact absurd c3 hnz

theorem lsumBmod_frame (gik gjk nrhs : Nat) (usub : Nat → Nat) (uval : Nat → ℚ)
    (xk : Nat → ℚ) (il : Nat) (xsup : Nat → Nat) (s s' : SolveState)
    (h : lsumBmod gik gjk nrhs usub uval xk il xsup s = some s') :
    s'.decs = s.decs ∧ s'.lsumFwd = s.lsumFwd ∧ s'.bmod = s.bmod ∧ s'.brecv = s.brecv := by
  unfold lsumBmod at h
  simp only [] at h
  split at h
  · exact absurd h (by simp)
  · split at h
    · exact absurd h (by simp)
    · simp only [Option.some.injEq] at h
      subst h
      exact ⟨rfl, rfl, rfl, rfl⟩

theorem foldl_Isend_obs (c : Nat → Prop) [DecidablePred c] (start count : Nat)
    (dest : Nat → Nat) (tag : MsgTag) (l : List Nat) (s : SolveState) :
    (l.foldl (fun s p => if c p then MPI_Isend s.x start count (dest p) tag s else s) s).decs
        = s.decs ∧
    (l.foldl (fun s p => if c p then MPI_Isend s.x start count (dest p) tag s else s) s).lsumFwd
        = s.lsumFwd ∧
    (l.foldl (fun s p => if c p then MPI_Isend s.x start count (dest p) tag s else s) s).bmod
        = s.bmod ∧
    (l.foldl (fun s p => if c p then MPI_Isend s.x start count (dest p) tag s else s) s).brecv
        = s.brecv := by
  refine foldl_inv (fun s' : SolveState => s'.decs = s.decs ∧ s'.lsumFwd = s.lsumFwd ∧
    s'.bmod = s.bmod ∧ s'.brecv = s.brecv) _ (fun a p ha => ?_) l s ⟨rfl, rfl, rfl, rfl⟩
  by_cases hc : c p
  · simp only [hc, if_true]
    exact ha
  · simp only [hc, if_false]
    exact ha


theorem RowInv_sends {b0 : Nat} {flag : Bool} {npcol : Nat} {v : Bool} {lk : Nat}
    (c : Nat → Prop) [DecidablePred c] (start count : Nat)
    (dest : Nat → Nat) (tag : MsgTag) (l : List Nat) (s : SolveState)
    (h : RowInv b0 flag npcol v lk s) :
    RowInv b0 flag npcol v lk
      (l.foldl (fun s p => if c p then MPI_Isend s.x start count (dest p) tag s else s) s) := by
  obtain ⟨g1, g2, g3, g4⟩ := foldl_Isend_obs c start count dest tag l s
  exact RowInv_frame (by rw [rowDecs, rowDecs, g1]) (by rw [rowFwds, rowFwds, g2])
    (by rw [g3]) (by rw [g4]) h

/-- On a grid with one process column every process is the diagonal process of
every block row it owns. -/
theorem PNUM_one_col (grid : gridinfo_t) (h : grid.npcol = 1) (g : Nat) :
    PNUM (MYROW grid.iam grid) (PCOL g grid) grid = grid.iam := by
  simp [PNUM, MYROW, PCOL, h, Nat.mod_one]

theorem dlsum_bmod_GG_block_RowInv (b0 : Nat) (v : Bool) (lk : Nat)
    (recurse : BmodCall → SolveState → Option SolveState)
    (xk : XkPtr) (nrhs k : Nat) (xsup : Nat → Nat) (grid : gridinfo_t) (Llu : dLocalLU_t)
    (hrec : ∀ c s s',
      RowInv b0 (decide (grid.iam ≠ PNUM (MYROW grid.iam grid)
        (PCOL (lk * grid.nprow + MYROW grid.iam grid) grid) grid)) grid.npcol v lk s →
      recurse c s = some s' →
      RowInv b0 (decide (grid.iam ≠ PNUM (MYROW grid.iam grid)
        (PCOL (lk * grid.nprow + MYROW grid.iam grid) grid) grid)) grid.npcol v lk s')
    (s s' : SolveState) (ub : Nat)
    (hinv : RowInv b0 (decide (grid.iam ≠ PNUM (MYROW grid.iam grid)
        (PCOL (lk * grid.nprow + MYROW grid.iam grid) grid) grid)) grid.npcol v lk s)
    (h : dlsum_bmod_GG_block recurse xk nrhs k xsup grid Llu s ub = some s') :
    RowInv b0 (decide (grid.iam ≠ PNUM (MYROW grid.iam grid)
        (PCOL (lk * grid.nprow + MYROW grid.iam grid) grid) grid)) grid.npcol v lk s' := by
  unfold dlsum_bmod_GG_block at h
  simp only [] at h
  split at h
  · exact absurd h (by simp)
  · rename_i usub husub
    split at h
    · exact absurd h (by simp)
    · rename_i s1 hs1
      obtain ⟨f1, f2, f3, f4⟩ := lsumBmod_frame _ _ _ _ _ _ _ _ _ _ hs1
      have hinv1 : RowInv b0 (decide (grid.iam ≠ PNUM (MYROW grid.iam grid)
          (PCOL (lk * grid.nprow + MYROW grid.iam grid) grid) grid)) grid.npcol v lk s1 :=
        RowInv_frame (by rw [rowDecs, rowDecs, f1]) (by rw [rowFwds, rowFwds, f2])
          (by rw [f3]) (by rw [f4]) hinv
      clear hinv hs1 f1 f2 f3 f4
      generalize hik : (Llu.Ucb_indptr (LBj k grid) ub).lbnum = ik at h
      by_cases hlk : ik = lk
      · subst hlk
        split at h
        · rename_i hz
          rw [Function.update_same] at hz
          split at h
          · rename_i hp
            simp only [Option.some.injEq] at h
            subst h
            cases v with
            | false =>
              exact absurd (PNUM_one_col grid (hinv1.2.1 rfl).1 _).symm hp
            | true =>
              refine RowInv_dec_zero (rowDecs_append_eq s1 ik _) ?_ (Function.update_same _ _ _)
                hz hinv1
              rw [show (decide (grid.iam ≠ PNUM (MYROW grid.iam grid)
                (PCOL (ik * grid.nprow + MYROW grid.iam grid) grid) grid)) = true from
                decide_eq_true hp]
              exact rowFwds_append_eq s1 ik true
          · rename_i hp
            have hflag : (decide (grid.iam ≠ PNUM (MYROW grid.iam grid)
                (PCOL (ik * grid.nprow + MYROW grid.iam grid) grid) grid)) = false :=
              decide_eq_false hp
            rw [hflag] at hinv1 hrec ⊢
            split at h
            · rename_i hbr
              have hsent : RowInv b0 false grid.npcol v ik
                  ({ s1 with
                    decs := s1.decs ++ [(ik, s1.bmod ik - 1)]
                    lsumFwd := s1.lsumFwd ++ [(ik, false)]
                    bmod := Function.update (Function.update s1.bmod ik (s1.bmod ik - 1)) ik
                      (-1) } : SolveState) :=
                RowInv_dec_sentinel (rowDecs_append_eq s1 ik _) (rowFwds_append_eq s1 ik false)
                  (Function.update_same _ _ _) rfl hz hinv1
              split at h
              · exact absurd h (by simp)
              · rename_i lsub hlsub
                split at h
                · rename_i hurbs
                  refine hrec _ _ _ ?_ h
                  apply RowInv_sends (fun p => Llu.bsendx_plist
                      (LBj (ik * grid.nprow + MYROW grid.iam grid) grid) p ≠ EMPTY)
                  exact RowInv_frame rfl rfl rfl rfl hsent
                · simp only [Option.some.injEq] at h
                  subst h
                  apply RowInv_sends (fun p => Llu.bsendx_plist
                      (LBj (ik * grid.nprow + MYROW grid.iam grid) grid) p ≠ EMPTY)
                  exact RowInv_frame rfl rfl rfl rfl hsent
            · rename_i hbr
              simp only [Option.some.injEq] at h
              subst h
              cases v with
              | false => exact absurd (hinv1.2.1 rfl).2 hbr
              | true =>
                exact RowInv_dec_zero (rowDecs_append_eq s1 ik _) (rowFwds_append_eq s1 ik false)
                  (Function.update_same _ _ _) hz hinv1
        · rename_i hz
          rw [Function.update_same] at hz
          simp only [Option.some.injEq] at h
          subst h
          exact RowInv_dec_keep (rowDecs_append_eq s1 ik _) rfl (Function.update_same _ _ _) rfl
            hz hinv1
      · have hdec : RowInv b0 (decide (grid.iam ≠ PNUM (MYROW grid.iam grid)
            (PCOL (lk * grid.nprow + MYROW grid.iam grid) grid) grid)) grid.npcol v lk
            ({ s1 with
              decs := s1.decs ++ [(ik, s1.bmod ik - 1)]
              bmod := Function.update s1.bmod ik (s1.bmod ik - 1) } : SolveState) :=
          RowInv_frame (rowDecs_append_ne s1 lk ik _ hlk) rfl
            (Function.update_noteq (Ne.symm hlk) _ _) rfl hinv1
        have hb2 : Function.update (Function.update s1.bmod ik (s1.bmod ik - 1)) ik (-1) lk
            = s1.bmod lk := by
          rw [Function.update_noteq (Ne.symm hlk), Function.update_noteq (Ne.symm hlk)]
        split at h
        · split at h
          · simp only [Option.some.injEq] at h
            subst h
            exact RowInv_frame (rowDecs_append_ne s1 lk ik _ hlk)
              (rowFwds_append_ne s1 lk ik true hlk)
              (Function.update_noteq (Ne.symm hlk) _ _) rfl hinv1
          · split at h
            · split at h
              · exact absurd h (by simp)
              · split at h
                · refine hrec _ _ _ ?_ h
                  apply RowInv_sends (fun p => Llu.bsendx_plist
                      (LBj (ik * grid.nprow + MYROW grid.iam grid) grid) p ≠ EMPTY)
                  exact RowInv_frame (rowDecs_append_ne s1 lk ik _ hlk)
                    (rowFwds_append_ne s1 lk ik false hlk) hb2 rfl hinv1
                · simp only [Option.some.injEq] at h
                  subst h
                  apply RowInv_sends (fun p => Llu.bsendx_plist
                      (LBj (ik * grid.nprow + MYROW grid.iam grid) grid) p ≠ EMPTY)
                  exact RowInv_frame (rowDecs_append_ne s1 lk ik _ hlk)
                    (rowFwds_append_ne s1 lk ik false hlk) hb2 rfl hinv1
            · simp only [Option.some.injEq] at h
              subst h
              exact RowInv_frame (rowDecs_append_ne s1 lk ik _ hlk)
                (rowFwds_append_ne s1 lk ik false hlk)
                (Function.update_noteq (Ne.symm hlk) _ _) rfl hinv1
        · simp only [Option.some.injEq] at h
          subst h
          exact hdec

theorem foldlOpt_inv_mem {σ β : Type} (P : σ → Prop) (f : σ → β → Option σ) :
    ∀ (l : List β), (∀ a x b, x ∈ l → P a → f a x = some b → P b) →
      ∀ (a b : σ), P a → foldlOpt f a l = some b → P b := by
  intro l
  induction l with
  | nil => intro _ a b ha h; simp [foldlOpt] at h; exact h ▸ ha
  | cons x l ih =>
    intro hf a b ha h
    unfold foldlOpt at h
    cases hfx : f a x with
    | none => simp [hfx] at h
    | some a1 =>
      simp only [hfx] at h
      exact ih (fun a' x' b' hx' => hf a' x' b' (List.mem_cons_of_mem x hx')) a1 b
        (hf a x a1 (List.mem_cons_self x l) ha hfx) h

theorem dlsum_bmod_GG_RowInv (b0 : Nat) (v : Bool) (lk : Nat) (fuel nrhs : Nat)
    (xsup : Nat → Nat) (grid : gridinfo_t) (Llu : dLocalLU_t) :
    ∀ (c : BmodCall) (s s' : SolveState),
      RowInv b0 (decide (grid.iam ≠ PNUM (MYROW grid.iam grid)
        (PCOL (lk * grid.nprow + MYROW grid.iam grid) grid) grid)) grid.npcol v lk s →
      dlsum_bmod_GG fuel nrhs xsup grid Llu c s = some s' →
      RowInv b0 (decide (grid.iam ≠ PNUM (MYROW grid.iam grid)
        (PCOL (lk * grid.nprow + MYROW grid.iam grid) grid) grid)) grid.npcol v lk s' := by
  induction fuel with
  | zero =>
    intro c s s' hinv h
    unfold dlsum_bmod_GG dlsum_bmod_GG_with at h
    exact foldlOpt_inv _ _
      (fun a ub b ha hab => dlsum_bmod_GG_block_RowInv b0 v lk _ c.xk nrhs c.k xsup grid Llu
        (fun _ _ _ _ hc => absurd hc (by simp)) a b ub ha hab) _ _ _ hinv h
  | succ fuel ih =>
    intro c s s' hinv h
    unfold dlsum_bmod_GG dlsum_bmod_GG_with at h
    exact foldlOpt_inv _ _
      (fun a ub b ha hab => dlsum_bmod_GG_block_RowInv b0 v lk _ c.xk nrhs c.k xsup grid Llu
        (fun c1 s1 s2 h1 h2 => ih c1 s1 s2 h1 h2) a b ub ha hab) _ _ _ hinv h

theorem localSolveXkYk_RowInv {b0 : Nat} {flag : Bool} {npcol : Nat} {v : Bool} {lk : Nat}
    (trtype : trtype_t) (k xoff nrhs : Nat)
    (LUstruct : dLUstruct_t) (grid : gridinfo_t) (s s' : SolveState)
    (hinv : RowInv b0 flag npcol v lk s)
    (h : localSolveXkYk trtype k xoff nrhs LUstruct grid s = some s') :
    RowInv b0 flag npcol v lk s' := by
  unfold localSolveXkYk at h
  simp only [] at h
  split at h
  · exact absurd h (by simp)
  · simp only [Option.some.injEq] at h
    subst h
    exact RowInv_frame (by rfl) (by rfl) (by rfl) (by rfl) hinv

theorem iBcastXk2Pck_RowInv {b0 : Nat} {flag : Bool} {npcol : Nat} {v : Bool} {lk : Nat}
    (k xhdr nrhs : Nat) (sendList : Nat → Nat → Int)
    (LUstruct : dLUstruct_t) (grid : gridinfo_t) (s : SolveState)
    (hinv : RowInv b0 flag npcol v lk s) :
    RowInv b0 flag npcol v lk (iBcastXk2Pck k xhdr nrhs sendList LUstruct grid s) := by
  unfold iBcastXk2Pck
  exact RowInv_sends (fun p => sendList _ p ≠ EMPTY) _ _ _ _ _ _ hinv

theorem leafForestBackSolve3d_LSUM_RowInv (b0 : Nat) (lk : Nat) (fuel nrhs : Nat)
    (LUstruct : dLUstruct_t) (grid : gridinfo_t) (k : Nat) (s s' : SolveState)
    (hinv : RowInv b0 (decide (grid.iam ≠ PNUM (MYROW grid.iam grid)
        (PCOL (lk * grid.nprow + MYROW grid.iam grid) grid) grid)) grid.npcol true lk s)
    (h : leafForestBackSolve3d_LSUM fuel nrhs LUstruct grid k s = some s') :
    RowInv b0 (decide (grid.iam ≠ PNUM (MYROW grid.iam grid)
        (PCOL (lk * grid.nprow + MYROW grid.iam grid) grid) grid)) grid.npcol true lk s' := by
  have hs2 : RowInv b0 (decide (grid.iam ≠ PNUM (MYROW grid.iam grid)
        (PCOL (lk * grid.nprow + MYROW grid.iam grid) grid) grid)) grid.npcol true lk
      ({ s with
        x := addBlock s.x (X_BLK LUstruct.Llu.ilsum nrhs (LBi k grid)) s.recvbuf LSUM_H
          (SuperSize LUstruct.Glu_persist.xsup k) nrhs
        brecv := Function.update s.brecv (LBi k grid) (s.brecv (LBi k grid) - 1) } :
        SolveState) := RowInv_frame_true (by rfl) (by rfl) (by rfl) hinv
  unfold leafForestBackSolve3d_LSUM at h
  simp only [] at h
  split at h
  · rename_i hc
    have hs3 : RowInv b0 (decide (grid.iam ≠ PNUM (MYROW grid.iam grid)
        (PCOL (lk * grid.nprow + MYROW grid.iam grid) grid) grid)) grid.npcol true lk
        ({ s with
          x := addBlock s.x (X_BLK LUstruct.Llu.ilsum nrhs (LBi k grid)) s.recvbuf LSUM_H
            (SuperSize LUstruct.Glu_persist.xsup k) nrhs
          brecv := Function.update s.brecv (LBi k grid) (s.brecv (LBi k grid) - 1)
          solved := s.solved ++ [SolveEvent.mk k (LBi k grid) (s.bmod (LBi k grid))
            (Function.update s.brecv (LBi k grid) (s.brecv (LBi k grid) - 1) (LBi k grid))]
          bmod := Function.update s.bmod (LBi k grid) (-1) } : SolveState) := by
      by_cases hlk : LBi k grid = lk
      · exact RowInv_sentinel (by rfl) (by rfl) (by rw [← hlk]; exact Function.update_same _ _ _)
          (by rw [← hlk]; exact hc.2) hs2
      · exact RowInv_frame_true (by rfl) (by rfl) (by exact Function.update_noteq (Ne.symm hlk) _ _) hs2
    split at h
    · exact absurd h (by simp)
    · rename_i s1 hs1
      have hs4 := iBcastXk2Pck_RowInv k (X_BLK LUstruct.Llu.ilsum nrhs (LBi k grid) - XK_H) nrhs
        LUstruct.Llu.bsendx_plist LUstruct grid s1
        (localSolveXkYk_RowInv _ _ _ _ _ _ _ _ hs3 hs1)
      split at h
      · exact dlsum_bmod_GG_RowInv b0 true lk fuel nrhs _ grid _ _ _ _ hs4 h
      · simp only [Option.some.injEq] at h
        subst h
        exact hs4
  · simp only [Option.some.injEq] at h
    subst h
    exact hs2

theorem leafForestBackSolve3d_recv_RowInv (b0 : Nat) (lk : Nat) (fuel nrhs : Nat)
    (LUstruct : dLUstruct_t) (grid : gridinfo_t) :
    ∀ (msgs : List Message) (nbrecvx nbrecvmod : Int) (s s' : SolveState),
      RowInv b0 (decide (grid.iam ≠ PNUM (MYROW grid.iam grid)
        (PCOL (lk * grid.nprow + MYROW grid.iam grid) grid) grid)) grid.npcol true lk s →
      leafForestBackSolve3d_recv fuel nrhs LUstruct grid nbrecvx nbrecvmod s msgs = some s' →
      RowInv b0 (decide (grid.iam ≠ PNUM (MYROW grid.iam grid)
        (PCOL (lk * grid.nprow + MYROW grid.iam grid) grid) grid)) grid.npcol true lk s' := by
  intro msgs
  induction msgs with
  | nil =>
    intro nbrecvx nbrecvmod s s' hinv h
    unfold leafForestBackSolve3d_recv at h
    split at h
    · exact absurd h (by simp)
    · simp only [Option.some.injEq] at h
      subst h; exact hinv
  | cons m rest ih =>
    intro nbrecvx nbrecvmod s s' hinv h
    have hr : RowInv b0 (decide (grid.iam ≠ PNUM (MYROW grid.iam grid)
        (PCOL (lk * grid.nprow + MYROW grid.iam grid) grid) grid)) grid.npcol true lk
        (MPI_Recv m s) := RowInv_frame (by rfl) (by rfl) (by rfl) (by rfl) hinv
    unfold leafForestBackSolve3d_recv at h
    simp only [] at h
    split at h
    · split at h
      · split at h
        · exact absurd h (by simp)
        · rename_i s1 hs1
          exact ih _ _ _ _ (dlsum_bmod_GG_RowInv b0 true lk fuel nrhs _ grid _ _ _ _ hr hs1) h
      · split at h
        · exact absurd h (by simp)
        · rename_i s1 hs1
          exact ih _ _ _ _ (leafForestBackSolve3d_LSUM_RowInv b0 lk fuel nrhs LUstruct grid _ _ _
            hr hs1) h
      · exact ih _ _ _ _ hr h
    · simp only [Option.some.injEq] at h
      subst h; exact hinv

/-- A seeding step for a node other than the one whose counter is watched. -/
theorem leafForestBackSolve3d_seed_RowInv_other (b0 : Nat) (v : Bool) (lk : Nat)
    (fuel nrhs : Nat) (LUstruct : dLUstruct_t) (grid : gridinfo_t)
    (st st' : Int × SolveState) (k : Nat)
    (hne : ¬ (MYROW grid.iam grid = PROW k grid ∧ LBi k grid = lk))
    (hinv : RowInv b0 (decide (grid.iam ≠ PNUM (MYROW grid.iam grid)
        (PCOL (lk * grid.nprow + MYROW grid.iam grid) grid) grid)) grid.npcol v lk st.2)
    (h : leafForestBackSolve3d_seed fuel nrhs LUstruct grid st k = some st') :
    RowInv b0 (decide (grid.iam ≠ PNUM (MYROW grid.iam grid)
        (PCOL (lk * grid.nprow + MYROW grid.iam grid) grid) grid)) grid.npcol v lk st'.2 := by
  obtain ⟨nroot, s⟩ := st
  have hinv : RowInv b0 (decide (grid.iam ≠ PNUM (MYROW grid.iam grid)
        (PCOL (lk * grid.nprow + MYROW grid.iam grid) grid) grid)) grid.npcol v lk s := hinv
  unfold leafForestBackSolve3d_seed at h
  simp only [] at h
  split at h
  · rename_i hrow
    have hlk : LBi k grid ≠ lk := fun hc => hne ⟨hrow, hc⟩
    split at h
    · split at h
      · simp only [Option.some.injEq] at h
        subst h
        exact RowInv_frame (by rfl) (rowFwds_append_ne s lk (LBi k grid) true hlk) (by rfl)
          (by rfl) hinv
      · have hF : RowInv b0 (decide (grid.iam ≠ PNUM (MYROW grid.iam grid)
            (PCOL (lk * grid.nprow + MYROW grid.iam grid) grid) grid)) grid.npcol v lk
            ({ s with
              x := addBlock s.x (X_BLK LUstruct.Llu.ilsum nrhs (LBi k grid)) s.lsum
                (LSUM_BLK LUstruct.Llu.ilsum nrhs (LBi k grid))
                (SuperSize LUstruct.Glu_persist.xsup k) nrhs
              lsumFwd := s.lsumFwd ++ [(LBi k grid, false)] } : SolveState) :=
          RowInv_frame (by rfl) (rowFwds_append_ne s lk (LBi k grid) false hlk) (by rfl)
            (by rfl) hinv
        split at h
        · have hS : RowInv b0 (decide (grid.iam ≠ PNUM (MYROW grid.iam grid)
              (PCOL (lk * grid.nprow + MYROW grid.iam grid) grid) grid)) grid.npcol v lk
              ({ s with
                x := addBlock s.x (X_BLK LUstruct.Llu.ilsum nrhs (LBi k grid)) s.lsum
                  (LSUM_BLK LUstruct.Llu.ilsum nrhs (LBi k grid))
                  (SuperSize LUstruct.Glu_persist.xsup k) nrhs
                lsumFwd := s.lsumFwd ++ [(LBi k grid, false)]
                solved := s.solved ++ [SolveEvent.mk k (LBi k grid) (s.bmod (LBi k grid))
                  (s.brecv (LBi k grid))]
                bmod := Function.update s.bmod (LBi k grid) (-1) } : SolveState) :=
            RowInv_frame (by rfl) (by rfl)
              (by exact Function.update_noteq (Ne.symm hlk) _ _) (by rfl) hF
          split at h
          · exact absurd h (by simp)
          · rename_i s1 hs1
            have hs4 := iBcastXk2Pck_RowInv k
              (X_BLK LUstruct.Llu.ilsum nrhs (LBi k grid) - XK_H) nrhs
              LUstruct.Llu.bsendx_plist LUstruct grid s1
              (localSolveXkYk_RowInv _ _ _ _ _ _ _ _ hS hs1)
            split at h
            · split at h
              · exact absurd h (by simp)
              · rename_i s2 hs2
                simp only [Option.some.injEq] at h
                subst h
                exact dlsum_bmod_GG_RowInv b0 v lk fuel nrhs _ grid _ _ _ _ hs4 hs2
            · simp only [Option.some.injEq] at h
              subst h
              exact hs4
        · simp only [Option.some.injEq] at h
          subst h
          exact hF
    · simp only [Option.some.injEq] at h
      subst h
      exact hinv
  · simp only [Option.some.injEq] at h
    subst h
    exact hinv


/-- The seeding step for the node whose counter is watched. -/
theorem leafForestBackSolve3d_seed_RowInv_target (b0 : Nat) (lk : Nat)
    (fuel nrhs : Nat) (LUstruct : dLUstruct_t) (grid : gridinfo_t)
    (st st' : Int × SolveState) (k : Nat)
    (hk : MYROW grid.iam grid = PROW k grid ∧ LBi k grid = lk)
    (hflag : decide (MYCOL grid.iam grid ≠ PCOL k grid)
      = decide (grid.iam ≠ PNUM (MYROW grid.iam grid)
        (PCOL (lk * grid.nprow + MYROW grid.iam grid) grid) grid))
    (hinv : RowInv b0 (decide (grid.iam ≠ PNUM (MYROW grid.iam grid)
        (PCOL (lk * grid.nprow + MYROW grid.iam grid) grid) grid)) grid.npcol false lk st.2)
    (h : leafForestBackSolve3d_seed fuel nrhs LUstruct grid st k = some st') :
    RowInv b0 (decide (grid.iam ≠ PNUM (MYROW grid.iam grid)
        (PCOL (lk * grid.nprow + MYROW grid.iam grid) grid) grid)) grid.npcol true lk st'.2 := by
  obtain ⟨nroot, s⟩ := st
  have hinv : RowInv b0 (decide (grid.iam ≠ PNUM (MYROW grid.iam grid)
        (PCOL (lk * grid.nprow + MYROW grid.iam grid) grid) grid)) grid.npcol false lk s := hinv
  obtain ⟨hrow, hlk⟩ := hk
  unfold leafForestBackSolve3d_seed at h
  simp only [hrow, if_true] at h
  rw [hlk] at h
  split at h
  · rename_i hz
    split at h
    · rename_i hcol
      simp only [Option.some.injEq] at h
      subst h
      refine RowInv_seed_forward (by rfl) ?_ (by rfl) hz hinv
      rw [← hflag, decide_eq_true hcol]
      exact rowFwds_append_eq s lk true
    · rename_i hcol
      have hF : RowInv b0 (decide (grid.iam ≠ PNUM (MYROW grid.iam grid)
          (PCOL (lk * grid.nprow + MYROW grid.iam grid) grid) grid)) grid.npcol true lk
          ({ s with
            x := addBlock s.x (X_BLK LUstruct.Llu.ilsum nrhs lk) s.lsum
              (LSUM_BLK LUstruct.Llu.ilsum nrhs lk)
              (SuperSize LUstruct.Glu_persist.xsup k) nrhs
            lsumFwd := s.lsumFwd ++ [(lk, false)] } : SolveState) := by
        refine RowInv_seed_forward (by rfl) ?_ (by rfl) hz hinv
        rw [← hflag, decide_eq_false hcol]
        exact rowFwds_append_eq s lk false
      split at h
      · have hS : RowInv b0 (decide (grid.iam ≠ PNUM (MYROW grid.iam grid)
            (PCOL (lk * grid.nprow + MYROW grid.iam grid) grid) grid)) grid.npcol true lk
            ({ s with
              x := addBlock s.x (X_BLK LUstruct.Llu.ilsum nrhs lk) s.lsum
                (LSUM_BLK LUstruct.Llu.ilsum nrhs lk)
                (SuperSize LUstruct.Glu_persist.xsup k) nrhs
              lsumFwd := s.lsumFwd ++ [(lk, false)]
              solved := s.solved ++ [SolveEvent.mk k lk (s.bmod lk) (s.brecv lk)]
              bmod := Function.update s.bmod lk (-1) } : SolveState) :=
          RowInv_sentinel (by rfl) (by rfl) (by exact Function.update_same _ _ _)
            (by exact hz) hF
        split at h
        · exact absurd h (by simp)
        · rename_i s1 hs1
          have hs4 := iBcastXk2Pck_RowInv k
            (X_BLK LUstruct.Llu.ilsum nrhs lk - XK_H) nrhs
            LUstruct.Llu.bsendx_plist LUstruct grid s1
            (localSolveXkYk_RowInv _ _ _ _ _ _ _ _ hS hs1)
          split at h
          · split at h
            · exact absurd h (by simp)
            · rename_i s2 hs2
              simp only [Option.some.injEq] at h
              subst h
              exact dlsum_bmod_GG_RowInv b0 true lk fuel nrhs _ grid _ _ _ _ hs4 hs2
          · simp only [Option.some.injEq] at h
            subst h
            exact hs4
      · simp only [Option.some.injEq] at h
        subst h
        exact hF
  · rename_i hz
    simp only [Option.some.injEq] at h
    subst h
    exact RowInv_seed_skip hz hinv

theorem LBi_lt_CEILING (grid : gridinfo_t) (k nsupers : Nat) (hpr : 0 < grid.nprow)
    (hk : k < nsupers) : LBi k grid < CEILING nsupers grid.nprow := by
  unfold LBi CEILING
  have hle : k / grid.nprow ≤ nsupers / grid.nprow := Nat.div_le_div_right (Nat.le_of_lt hk)
  by_cases hm : nsupers % grid.nprow ≠ 0
  · rw [if_pos hm]
    omega
  · rw [if_neg hm]
    have hm0 : nsupers % grid.nprow = 0 := by
      by_contra hc
      exact hm hc
    have hd := Nat.div_add_mod nsupers grid.nprow
    rw [hm0, Nat.add_zero] at hd
    rw [Nat.div_lt_iff_lt_mul hpr, Nat.mul_comm, hd]
    exact hk

theorem getBrecvTree_mod_bit_eq (sforest : sForest_t) (nlb : Nat)
    (grid : gridinfo_t) (mod_bit : Nat → Int) (lk : Nat) :
    getBrecvTree_mod_bit nlb sforest grid mod_bit lk
      = if ∃ k ∈ sforest.nodes, MYROW grid.iam grid = PROW k grid ∧ LBi k grid = lk ∧
            MYCOL grid.iam grid ≠ PCOL k grid
        then 1 else if lk < nlb then 0 else mod_bit lk := by
  have h := getfrecvLeaf_mod_bit_eq sforest nlb (fun _ => 1) grid mod_bit lk
  have he : getBrecvTree_mod_bit nlb sforest grid mod_bit
      = getfrecvLeaf_mod_bit sforest nlb (fun _ => 1) grid mod_bit := by
    unfold getBrecvTree_mod_bit getfrecvLeaf_mod_bit
    simp
  rw [he, h]
  simp

theorem filter_ne_length (n kcol : Nat) (h : kcol < n) :
    ((List.range n).filter (fun c => decide (c ≠ kcol))).length = n - 1 := by
  have hnd : (List.range n).Nodup := List.nodup_range n
  have hm : kcol ∈ List.range n := List.mem_range.mpr h
  have : (List.range n).filter (fun c => decide (c ≠ kcol)) = (List.range n).erase kcol := by
    rw [hnd.erase_eq_filter]
    congr 1
    funext c
    by_cases hc : c = kcol <;> simp [hc]
  rw [this, List.length_erase_of_mem hm]
  simp

/-- With one process column nothing is to be received for a block row. -/
theorem getBrecvTree_one_col (nlb : Nat) (sforest : sForest_t) (grid : gridinfo_t)
    (mod_bitRow : Nat → Nat → Int) (heap : Nat → Int) (brecv : Nat → Int)
    (hc : grid.npcol = 1) (h : getBrecvTree nlb sforest grid mod_bitRow heap = some brecv)
    (lk : Nat) (hlk : lk < nlb) : brecv lk = 0 := by
  unfold getBrecvTree at h
  split at h
  · exact absurd h (by simp)
  · simp only [Option.some.injEq] at h
    subst h
    unfold MPI_Allreduce_SUM
    simp only [hlk, if_true, hc]
    have hr1 : List.range 1 = [0] := rfl
    rw [hr1]
    simp only [List.map_cons, List.map_nil, List.sum_cons, List.sum_nil, add_zero]
    rw [getBrecvTree_mod_bit_eq, MYCOL_inColumn grid 0 (by omega)]
    rw [if_neg, if_pos hlk]
    rintro ⟨k, _, _, _, h3⟩
    apply h3
    unfold PCOL gridinfo_t.inColumn
    simp only [hc, Nat.mod_one]

/-- With two process columns or more, the diagonal process of a forest node of my
process row waits for `npcol - 1` messages. -/
theorem getBrecvTree_own (nlb : Nat) (sforest : sForest_t) (grid : gridinfo_t)
    (mod_bitRow : Nat → Nat → Int) (heap : Nat → Int) (brecv : Nat → Int)
    (hc : 0 < grid.npcol) (h : getBrecvTree nlb sforest grid mod_bitRow heap = some brecv)
    (k : Nat) (hk : k ∈ sforest.nodes) (hrow : PROW k grid = MYROW grid.iam grid)
    (hlk : LBi k grid < nlb) : brecv (LBi k grid) = ((grid.npcol - 1 : Nat) : Int) := by
  unfold getBrecvTree at h
  split at h
  · exact absurd h (by simp)
  · simp only [Option.some.injEq] at h
    subst h
    unfold MPI_Allreduce_SUM
    simp only [hlk, if_true]
    have hmap : (List.range grid.npcol).map (fun c =>
          getBrecvTree_mod_bit nlb sforest (grid.inColumn c) (mod_bitRow c) (LBi k grid))
        = (List.range grid.npcol).map (fun c =>
          if c ≠ PCOL k grid then (1 : Int) else 0) := by
      apply List.map_congr_left
      intro c hcm
      have hcl : c < grid.npcol := List.mem_range.mp hcm
      rw [getBrecvTree_mod_bit_eq, MYROW_inColumn grid c hcl, MYCOL_inColumn grid c hcl]
      have hP : ∀ k2, PROW k2 (grid.inColumn c) = PROW k2 grid := fun _ => rfl
      have hL : ∀ k2, LBi k2 (grid.inColumn c) = LBi k2 grid := fun _ => rfl
      have hC : ∀ k2, PCOL k2 (grid.inColumn c) = PCOL k2 grid := fun _ => rfl
      simp only [hP, hL, hC]
      by_cases hq : c ≠ PCOL k grid
      · rw [if_pos hq, if_pos ⟨k, hk, hrow.symm, rfl, hq⟩]
      · rw [if_neg hq, if_neg, if_pos hlk]
        rintro ⟨k2, _, h1, h2, h3⟩
        have : k2 = k := LBi_PROW_inj grid (h1.symm.trans hrow.symm) h2
        subst this
        exact hq h3
    rw [hmap, sum_indicator_eq_filter_length, filter_ne_length]
    unfold PCOL
    exact Nat.mod_lt _ hc

/-- The block row `LBi k` of my process row holds the supernode `k`, and being
off the diagonal process is being in another process column. -/
theorem flag_eq (grid : gridinfo_t) (k : Nat)
    (hrow : MYROW grid.iam grid = PROW k grid) :
    decide (MYCOL grid.iam grid ≠ PCOL k grid)
      = decide (grid.iam ≠ PNUM (MYROW grid.iam grid)
        (PCOL (LBi k grid * grid.nprow + MYROW grid.iam grid) grid) grid) := by
  have hk : LBi k grid * grid.nprow + MYROW grid.iam grid = k := by
    rw [hrow]
    unfold LBi PROW
    exact Nat.div_add_mod' k grid.nprow
  rw [hk]
  have hi : grid.iam = MYROW grid.iam grid * grid.npcol + MYCOL grid.iam grid := by
    unfold MYROW MYCOL
    exact (Nat.div_add_mod' grid.iam grid.npcol).symm
  have hiff : (MYCOL grid.iam grid ≠ PCOL k grid)
      ↔ (grid.iam ≠ PNUM (MYROW grid.iam grid) (PCOL k grid) grid) := by
    unfold PNUM
    constructor
    · intro h hc
      apply h
      have := hi.symm.trans hc
      omega
    · intro h hc
      apply h
      rw [← hc]
      exact hi
  exact decide_eq_decide.mpr hiff

/-- An invariant that a loop keeps at every element but one, where it steps
from its unvisited to its visited form. -/
theorem foldlOpt_visit {σ : Type} (Inv : Bool → σ → Prop) (f : σ → Nat → Option σ) (t : Nat) :
    ∀ (L : List Nat), L.Nodup →
      (∀ v s s' a, a ∈ L → a ≠ t → Inv v s → f s a = some s' → Inv v s') →
      (∀ s s', Inv false s → f s t = some s' → Inv true s') →
      t ∈ L → ∀ s s', Inv false s → foldlOpt f s L = some s' → Inv true s' := by
  intro L
  induction L with
  | nil => intro _ _ _ ht; cases ht
  | cons a L ih =>
    intro hnd hO hT ht s s' hinv h
    have hnd2 := List.nodup_cons.mp hnd
    unfold foldlOpt at h
    cases hfa : f s a with
    | none => simp [hfa] at h
    | some s1 =>
      simp only [hfa] at h
      by_cases hat : a = t
      · subst hat
        have h1 : Inv true s1 := hT s s1 hinv hfa
        refine foldlOpt_inv_mem (Inv true) f L ?_ s1 s' h1 h
        intro x y b hy hx hf
        refine hO true x b y (List.mem_cons_of_mem _ hy) ?_ hx hf
        intro hc
        exact hnd2.1 (hc ▸ hy)
      · have h1 : Inv false s1 := hO false s s1 a (List.mem_cons_self _ _) hat hinv hfa
        have htL : t ∈ L := by
          rcases List.mem_cons.mp ht with hh | hh
          · exact absurd hh.symm hat
          · exact hh
        exact ih hnd2.2 (fun v s s' b hb => hO v s s' b (List.mem_cons_of_mem _ hb)) hT htL
          s1 s' h1 h

/-- A seeding step for a node whose block still waits for messages: nothing is
solved, and the block is forwarded if its counter is 0. -/
theorem leafForestBackSolve3d_seed_waiting (fuel nrhs : Nat) (LUstruct : dLUstruct_t)
    (grid : gridinfo_t) (st st' : Int × SolveState) (k : Nat)
    (hw : MYROW grid.iam grid = PROW k grid → st.2.brecv (LBi k grid) ≠ 0)
    (h : leafForestBackSolve3d_seed fuel nrhs LUstruct grid st k = some st') :
    st'.2.decs = st.2.decs ∧ st'.2.bmod = st.2.bmod ∧ st'.2.brecv = st.2.brecv ∧
      st'.2.lsumFwd = st.2.lsumFwd ++
        (if MYROW grid.iam grid = PROW k grid ∧ st.2.bmod (LBi k grid) = 0
          then [(LBi k grid, decide (MYCOL grid.iam grid ≠ PCOL k grid))] else []) := by
  obtain ⟨nroot, s⟩ := st
  have hw : MYROW grid.iam grid = PROW k grid → s.brecv (LBi k grid) ≠ 0 := hw
  show st'.2.decs = s.decs ∧ st'.2.bmod = s.bmod ∧ st'.2.brecv = s.brecv ∧
      st'.2.lsumFwd = s.lsumFwd ++
        (if MYROW grid.iam grid = PROW k grid ∧ s.bmod (LBi k grid) = 0
          then [(LBi k grid, decide (MYCOL grid.iam grid ≠ PCOL k grid))] else [])
  unfold leafForestBackSolve3d_seed at h
  simp only [] at h
  split at h
  · rename_i hrow
    split at h
    · rename_i hz
      rw [if_pos ⟨hrow, hz⟩]
      split at h
      · rename_i hcol
        simp only [Option.some.injEq] at h
        subst h
        refine ⟨rfl, rfl, rfl, ?_⟩
        rw [decide_eq_true hcol]
        rfl
      · rename_i hcol
        rw [if_neg (hw hrow)] at h
        simp only [Option.some.injEq] at h
        subst h
        refine ⟨rfl, rfl, rfl, ?_⟩
        rw [decide_eq_false hcol]
    · rename_i hz
      simp only [Option.some.injEq] at h
      subst h
      rw [if_neg (fun hc => hz hc.2)]
      exact ⟨rfl, rfl, rfl, (List.append_nil _).symm⟩
  · rename_i hrow
    simp only [Option.some.injEq] at h
    subst h
    rw [if_neg (fun hc => hrow hc.1)]
    exact ⟨rfl, rfl, rfl, (List.append_nil _).symm⟩

theorem getBmod3d_own (treeId nlb : Nat) (sforest : sForest_t)
    (LU : dLUstruct_t) (trf : dtrf3Dpartition_t) (grid : gridinfo_t)
    (heap : Nat → Int) (bmod : Nat → Int)
    (h : getBmod3d treeId nlb sforest LU trf grid heap = some bmod)
    (k : Nat) (hk : k ∈ sforest.nodes) (hrow : PROW k grid = MYROW grid.iam grid) :
    bmod (LBi k grid) = countUBlocksInTree treeId LU trf (LBi k grid) := by
  unfold getBmod3d at h
  split at h
  · exact absurd h (by simp)
  · simp only [Option.some.injEq] at h
    subst h
    rw [foldl_range_map (getBmod3d_node treeId LU trf grid) sforest.nodeList]
    exact getBmod3d_loop_own treeId LU trf grid _ _ k hk hrow

/-- The invariant before the seeding loop, on a grid with one process column. -/
theorem RowInv_init {b0 : Nat} {flag : Bool} {npcol : Nat} {lk : Nat} {s : SolveState}
    (hd : s.decs = []) (hf : s.lsumFwd = []) (hb : s.bmod lk = (b0 : Int))
    (hc : npcol = 1) (hr : s.brecv lk = 0) : RowInv b0 flag npcol false lk s := by
  have hrd : rowDecs s lk = [] := by simp [rowDecs, hd]
  have hrf : rowFwds s lk = [] := by simp [rowFwds, hf]
  unfold RowInv RowGood
  rw [hrd, hrf]
  refine ⟨by simp, fun _ => ⟨hc, hr⟩, Or.inr ⟨by simp, ?_⟩⟩
  by_cases h0 : b0 = 0
  · right; right; right
    subst h0
    exact ⟨rfl, rfl, by simpa using hb, rfl, rfl⟩
  · left
    refine ⟨?_, ?_, rfl⟩
    · simp only [List.length_nil]
      omega
    · simp [hb]

/-- The invariant after a seeding loop that solved nothing. -/
theorem RowInv_seeded {b0 : Nat} {flag : Bool} {npcol : Nat} {lk : Nat} {s : SolveState}
    (hd : s.decs = []) (hb : s.bmod lk = (b0 : Int))
    (hf : rowFwds s lk = if b0 = 0 then [flag] else []) :
    RowInv b0 flag npcol true lk s := by
  have hrd : rowDecs s lk = [] := by simp [rowDecs, hd]
  unfold RowInv RowGood
  rw [hrd, hf]
  refine ⟨?_, fun hc => absurd hc (by decide), Or.inr ⟨by simp, ?_⟩⟩
  · intro e he
    by_cases h0 : b0 = 0
    · rw [if_pos h0] at he
      exact List.mem_singleton.mp he
    · rw [if_neg h0] at he
      cases he
  · by_cases h0 : b0 = 0
    · right; right; left
      subst h0
      exact ⟨rfl, by simpa using hb, rfl, by simp⟩
    · left
      refine ⟨?_, ?_, by rw [if_neg h0]⟩
      · simp only [List.length_nil]
        omega
      · simp [hb]

/-- What the invariant says once the row was decremented `b0` times. -/
theorem RowInv_final {b0 : Nat} {flag : Bool} {npcol : Nat} {lk : Nat} {s : SolveState}
    (h : RowInv b0 flag npcol true lk s) (hc : (rowDecs s lk).length = b0) :
    rowFwds s lk = [flag] ∧
      rowDecs s lk = (List.range b0).map (fun (t : Nat) => (b0 : Int) - 1 - (t : Int)) ∧
      (s.bmod lk = 0 ∨ s.bmod lk = -1) := by
  obtain ⟨h1, _, h3⟩ := h
  have hone : (rowFwds s lk).length = 1 → rowFwds s lk = [flag] := by
    intro hl
    obtain ⟨e, he⟩ := List.length_eq_one.mp hl
    have : e = flag := h1 e (by rw [he]; exact List.mem_singleton_self e)
    rw [he, this]
  rcases h3 with h3 | ⟨hv, hcase⟩
  · omega
  · have hv2 : rowDecs s lk
        = (List.range b0).map (fun (t : Nat) => (b0 : Int) - 1 - (t : Int)) := by
      have := hv
      rw [hc] at this
      exact this
    rcases hcase with ⟨c1, _, _⟩ | ⟨_, c2, c3⟩ | ⟨_, c2, _, c3⟩ | ⟨_, _, _, c4, _⟩
    · omega
    · exact ⟨hone c3, hv2, Or.inr c2⟩
    · exact ⟨hone c3, hv2, Or.inl c2⟩
    · exact absurd c4 (by decide)

theorem desc_count (c : Int) (n : Nat) :
    ((List.range n).map (fun (t : Nat) => c - (t : Int))).count 0
      = if 0 ≤ c ∧ c < n then 1 else 0 := by
  induction n with
  | zero =>
    have : ¬ (0 ≤ c ∧ c < ((0 : Nat) : Int)) := by
      intro h
      have := h.2
      simp at this
      omega
    rw [if_neg this]
    rfl
  | succ n ih =>
    rw [List.range_succ, List.map_append, List.count_append, ih]
    simp only [List.map_cons, List.map_nil, List.count_cons, List.count_nil, Nat.zero_add]
    by_cases h1 : 0 ≤ c ∧ c < (n : Int)
    · have h2 : 0 ≤ c ∧ c < ((n + 1 : Nat) : Int) := ⟨h1.1, by push_cast; omega⟩
      have h3 : ¬ ((c - (n : Int) == 0) = true) := by
        simp only [beq_iff_eq]
        omega
      rw [if_pos h1, if_pos h2, if_neg h3]
    · rw [if_neg h1]
      by_cases h3 : c - (n : Int) = 0
      · have h2 : 0 ≤ c ∧ c < ((n + 1 : Nat) : Int) := by
          push_cast
          omega
        have h4 : (c - (n : Int) == 0) = true := by
          simp only [beq_iff_eq]
          exact h3
        rw [if_pos h2, if_pos h4]
      · have h2 : ¬ (0 ≤ c ∧ c < ((n + 1 : Nat) : Int)) := by
          push_cast
          omega
        have h4 : ¬ ((c - (n : Int) == 0) = true) := by
          simp only [beq_iff_eq]
          exact h3
        rw [if_neg h2, if_neg h4]

/-- The seeding loop of `leafForestBackSolve3d` establishes the invariant of the
block row of a forest node `k` of my process row. -/
theorem leafForestBackSolve3d_seedLoop_RowInv (fuel nrhs : Nat) (LUstruct : dLUstruct_t)
    (grid : gridinfo_t) (sforest : sForest_t) (b0 : Nat) (k : Nat)
    (hk : k ∈ sforest.nodes) (hnodup : sforest.nodes.Nodup)
    (hrow : MYROW grid.iam grid = PROW k grid)
    (st st' : Int × SolveState)
    (hd : st.2.decs = []) (hf : st.2.lsumFwd = [])
    (hb : st.2.bmod (LBi k grid) = (b0 : Int))
    (hr1 : grid.npcol = 1 → st.2.brecv (LBi k grid) = 0)
    (hr2 : grid.npcol ≠ 1 → ∀ k2 ∈ sforest.nodes, MYROW grid.iam grid = PROW k2 grid →
      st.2.brecv (LBi k2 grid) ≠ 0)
    (h : foldlOpt
      (fun st k0 => leafForestBackSolve3d_seed fuel nrhs LUstruct grid st (sforest.nodeList k0))
      st (List.range sforest.nNodes).reverse = some st') :
    RowInv b0 (decide (grid.iam ≠ PNUM (MYROW grid.iam grid)
        (PCOL (LBi k grid * grid.nprow + MYROW grid.iam grid) grid) grid)) grid.npcol true
      (LBi k grid) st'.2 := by
  unfold sForest_t.nodes at hk
  obtain ⟨t, ht, htk⟩ := List.mem_map.mp hk
  have hinj := List.inj_on_of_nodup_map hnodup
  have hL : (List.range sforest.nNodes).reverse.Nodup :=
    List.nodup_reverse.mpr (List.nodup_range _)
  have htL : t ∈ (List.range sforest.nNodes).reverse := List.mem_reverse.mpr ht
  have hother : ∀ a, a ∈ (List.range sforest.nNodes).reverse → a ≠ t →
      ¬ (MYROW grid.iam grid = PROW (sforest.nodeList a) grid ∧
        LBi (sforest.nodeList a) grid = LBi k grid) := by
    intro a ha hat hc
    have h1 : sforest.nodeList a = k := LBi_PROW_inj grid (hc.1.symm.trans hrow) hc.2
    exact hat (hinj (List.mem_reverse.mp ha) ht (h1.trans htk.symm))
  by_cases hc1 : grid.npcol = 1
  · refine foldlOpt_visit
      (fun v (st : Int × SolveState) => RowInv b0 (decide (grid.iam ≠ PNUM (MYROW grid.iam grid)
        (PCOL (LBi k grid * grid.nprow + MYROW grid.iam grid) grid) grid)) grid.npcol v
        (LBi k grid) st.2)
      (fun st k0 => leafForestBackSolve3d_seed fuel nrhs LUstruct grid st (sforest.nodeList k0))
      t _ hL ?_ ?_ htL st st' (RowInv_init hd hf hb hc1 (hr1 hc1)) h
    · intro v s s' a ha hat hinv hs
      exact leafForestBackSolve3d_seed_RowInv_other b0 v (LBi k grid) fuel nrhs LUstruct grid
        s s' (sforest.nodeList a) (hother a ha hat) hinv hs
    · intro s s' hinv hs
      have hs : leafForestBackSolve3d_seed fuel nrhs LUstruct grid s (sforest.nodeList t)
          = some s' := hs
      rw [htk] at hs
      exact leafForestBackSolve3d_seed_RowInv_target b0 (LBi k grid) fuel nrhs LUstruct grid
        s s' k ⟨hrow, rfl⟩ (flag_eq grid k hrow) hinv hs
  · have hw := hr2 hc1
    have key := foldlOpt_visit
      (fun v (s : Int × SolveState) => s.2.decs = [] ∧ s.2.bmod = st.2.bmod ∧
        s.2.brecv = st.2.brecv ∧
        rowFwds s.2 (LBi k grid) = if v = true ∧ b0 = 0
          then [decide (MYCOL grid.iam grid ≠ PCOL k grid)] else [])
      (fun st k0 => leafForestBackSolve3d_seed fuel nrhs LUstruct grid st (sforest.nodeList k0))
      t _ hL ?_ ?_ htL st st' ⟨hd, rfl, rfl, by simp [rowFwds, hf]⟩ h
    · obtain ⟨k1, k2, _, k4⟩ := key
      rw [← flag_eq grid k hrow]
      refine RowInv_seeded k1 (by rw [k2]; exact hb) ?_
      rw [k4]
      simp
    · intro v s s' a ha hat ⟨i1, i2, i3, i4⟩ hs
      have hmem : sforest.nodeList a ∈ sforest.nodes :=
        List.mem_map.mpr ⟨a, List.mem_reverse.mp ha, rfl⟩
      obtain ⟨o1, o2, o3, o4⟩ := leafForestBackSolve3d_seed_waiting fuel nrhs LUstruct grid
        s s' (sforest.nodeList a) (by rw [i3]; exact hw _ hmem) hs
      refine ⟨o1.trans i1, o2.trans i2, o3.trans i3, ?_⟩
      rw [← i4]
      unfold rowFwds
      rw [o4, List.filter_append, List.map_append]
      by_cases hq : MYROW grid.iam grid = PROW (sforest.nodeList a) grid ∧
          s.2.bmod (LBi (sforest.nodeList a) grid) = 0
      · rw [if_pos hq]
        have hne : LBi (sforest.nodeList a) grid ≠ LBi k grid :=
          fun hc => hother a ha hat ⟨hq.1, hc⟩
        simp [List.filter_cons, hne]
      · rw [if_neg hq]
        simp
    · intro s s' ⟨i1, i2, i3, i4⟩ hs
      have hs : leafForestBackSolve3d_seed fuel nrhs LUstruct grid s (sforest.nodeList t)
          = some s' := hs
      rw [htk] at hs
      obtain ⟨o1, o2, o3, o4⟩ := leafForestBackSolve3d_seed_waiting fuel nrhs LUstruct grid
        s s' k (by rw [i3]; exact hw _ (List.mem_map.mpr ⟨t, ht, htk⟩)) hs
      refine ⟨o1.trans i1, o2.trans i2, o3.trans i3, ?_⟩
      have i4' : rowFwds s.2 (LBi k grid) = [] := by
        rw [i4]
        simp
      unfold rowFwds at i4' ⊢
      rw [o4, List.filter_append, List.map_append, i4', i2, hb]
      by_cases h0 : b0 = 0
      · have hq : MYROW grid.iam grid = PROW k grid ∧ ((b0 : Nat) : Int) = 0 :=
          ⟨hrow, by rw [h0]; rfl⟩
        rw [if_pos hq, if_pos ⟨rfl, h0⟩]
        simp [List.filter_cons]
      · have hq : ¬ (MYROW grid.iam grid = PROW k grid ∧ ((b0 : Nat) : Int) = 0) := by
          intro hc
          exact h0 (by exact_mod_cast hc.2)
        rw [if_neg hq, if_neg (fun hc => h0 hc.2)]
        simp

/-- C4: in `leafForestBackSolve3d` with its seeding loop, its receive loop and
the cascade of `dlsum_bmod_GG`, started with empty logs on a forest whose nodes
are distinct supernodes of the factor: if the call returns and the counter
`bmod[LBi(k)]` of a forest node `k` of my process row was decremented as many
times as `getBmod3d` counted updates for it, then the local `lsum` block of `k`
was forwarded exactly once, as an `LSUM` message off the diagonal process and as
an addition into `x` on it; the decrements produced `b0 - 1, ..., 1, 0`, so the
counter was never negative before the sentinel and reached 0 by a decrement
exactly once when `b0 > 0`; and the counter ends at 0 or at the sentinel -1. -/
theorem leafForestBackSolve3d_forwards_once (fuel treeId n : Nat) (LUstruct : dLUstruct_t)
    (trf3Dpartition : dtrf3Dpartition_t) (grid3d : gridinfo3d_t) (nrhs : Nat)
    (env : LeafEnv) (s : SolveState) (sforest : sForest_t) (r : Int × SolveState)
    (hforest : trf3Dpartition.sForests treeId = some sforest)
    (hpr : 0 < grid3d.grid2d.nprow) (hpc : 0 < grid3d.grid2d.npcol)
    (hnodup : sforest.nodes.Nodup)
    (hsup : ∀ k ∈ sforest.nodes, k < LUstruct.Glu_persist.supno (n - 1) + 1)
    (hdecs : s.decs = []) (hfwd : s.lsumFwd = [])
    (hrun : leafForestBackSolve3d fuel treeId n LUstruct trf3Dpartition grid3d nrhs env s
      = some r)
    (k : Nat) (hk : k ∈ sforest.nodes)
    (hrow : PROW k grid3d.grid2d = MYROW grid3d.grid2d.iam grid3d.grid2d)
    (hcount : (rowDecs r.2 (LBi k grid3d.grid2d)).length
      = countUBlocksInTree treeId LUstruct trf3Dpartition (LBi k grid3d.grid2d)) :
    rowFwds r.2 (LBi k grid3d.grid2d)
        = [decide (MYCOL grid3d.grid2d.iam grid3d.grid2d ≠ PCOL k grid3d.grid2d)] ∧
      rowDecs r.2 (LBi k grid3d.grid2d)
        = (List.range (countUBlocksInTree treeId LUstruct trf3Dpartition (LBi k grid3d.grid2d))).map
            (fun (t : Nat) =>
              ((countUBlocksInTree treeId LUstruct trf3Dpartition (LBi k grid3d.grid2d) : Nat) : Int)
                - 1 - (t : Int)) ∧
      (∀ d ∈ rowDecs r.2 (LBi k grid3d.grid2d), 0 ≤ d) ∧
      (0 < countUBlocksInTree treeId LUstruct trf3Dpartition (LBi k grid3d.grid2d) →
        (rowDecs r.2 (LBi k grid3d.grid2d)).count 0 = 1) ∧
      (r.2.bmod (LBi k grid3d.grid2d) = 0 ∨ r.2.bmod (LBi k grid3d.grid2d) = -1) := by
  generalize hb0 : countUBlocksInTree treeId LUstruct trf3Dpartition (LBi k grid3d.grid2d) = b0
    at hcount ⊢
  have hinv : RowInv b0 (decide (grid3d.grid2d.iam ≠ PNUM
      (MYROW grid3d.grid2d.iam grid3d.grid2d)
      (PCOL (LBi k grid3d.grid2d * grid3d.grid2d.nprow + MYROW grid3d.grid2d.iam grid3d.grid2d)
        grid3d.grid2d) grid3d.grid2d)) grid3d.grid2d.npcol true (LBi k grid3d.grid2d) r.2 := by
    unfold leafForestBackSolve3d at hrun
    rw [hforest] at hrun
    simp only [] at hrun
    split at hrun
    · rename_i hlt
      unfold sForest_t.nodes at hk
      obtain ⟨t, ht, _⟩ := List.mem_map.mp hk
      have := List.mem_range.mp ht
      omega
    · split at hrun
      · exact absurd hrun (by simp)
      · rename_i s1 hloop
        simp only [Option.some.injEq] at hrun
        subst hrun
        refine RowInv_frame_true (s := s1) (by rfl) (by rfl) (by rfl) ?_
        unfold leafForestBackSolve3d_loop at hloop
        simp only [] at hloop
        split at hloop
        · exact absurd hloop (by simp)
        · rename_i bmod hbmod
          split at hloop
          · exact absurd hloop (by simp)
          · rename_i brecv hbrecv
            split at hloop
            · exact absurd hloop (by simp)
            · rename_i st hseed
              have hlt : ∀ k2 ∈ sforest.nodes, LBi k2 grid3d.grid2d
                  < CEILING (LUstruct.Glu_persist.supno (n - 1) + 1) grid3d.grid2d.nprow :=
                fun k2 hk2 => LBi_lt_CEILING grid3d.grid2d k2 _ hpr (hsup k2 hk2)
              have hs := leafForestBackSolve3d_seedLoop_RowInv fuel nrhs LUstruct grid3d.grid2d
                sforest b0 k hk hnodup hrow.symm _ st hdecs hfwd
                (by
                  show bmod (LBi k grid3d.grid2d) = (b0 : Int)
                  rw [getBmod3d_own _ _ _ _ _ _ _ _ hbmod k hk hrow, hb0])
                (fun hc1 => getBrecvTree_one_col _ _ _ _ _ _ hc1 hbrecv _ (hlt k hk))
                (by
                  intro hc1 k2 hk2 hrow2
                  show brecv (LBi k2 grid3d.grid2d) ≠ 0
                  rw [getBrecvTree_own _ _ _ _ _ _ hpc hbrecv k2 hk2 hrow2.symm (hlt k2 hk2)]
                  have : 0 < grid3d.grid2d.npcol - 1 := by omega
                  exact_mod_cast (Nat.pos_iff_ne_zero.mp this))
                hseed
              exact leafForestBackSolve3d_recv_RowInv b0 (LBi k grid3d.grid2d) fuel nrhs
                LUstruct grid3d.grid2d env.msgs _ _ st.2 s1 hs hloop
  obtain ⟨f1, f2, f3⟩ := RowInv_final hinv hcount
  rw [flag_eq grid3d.grid2d k hrow.symm]
  refine ⟨f1, f2, ?_, ?_, f3⟩
  · intro d hd
    rw [f2] at hd
    obtain ⟨t, ht, hdt⟩ := List.mem_map.mp hd
    have := List.mem_range.mp ht
    omega
  · intro hpos
    rw [f2, desc_count]
    rw [if_pos]
    omega

theorem leafForestBackSolve3d_forwards_once_witness :
    ∃ r, leafForestBackSolve3d 1 0 2 LUBack trfOneTree grid1x1x1 1 envQuiet state0 = some r ∧
      rowFwds r.2 (LBi 0 grid1x1x1.grid2d) = [false] ∧
      rowDecs r.2 (LBi 0 grid1x1x1.grid2d) = [0] := by
  have hproj : (leafForestBackSolve3d 1 0 2 LUBack trfOneTree grid1x1x1 1 envQuiet state0).map
      (fun r => (r.2.decs, r.2.lsumFwd)) = some ([(0, 0)], [(1, false), (0, false)]) := by
    decide!
  cases hres : leafForestBackSolve3d 1 0 2 LUBack trfOneTree grid1x1x1 1 envQuiet state0 with
  | none => rw [hres] at hproj; exact absurd hproj (by simp)
  | some r =>
    rw [hres] at hproj
    simp only [Option.map_some', Option.some.injEq, Prod.mk.injEq] at hproj
    have hcnt : (rowDecs r.2 (LBi 0 grid1x1x1.grid2d)).length
        = countUBlocksInTree 0 LUBack trfOneTree (LBi 0 grid1x1x1.grid2d) := by
      unfold rowDecs
      rw [hproj.1]
      decide
    have h := leafForestBackSolve3d_forwards_once 1 0 2 LUBack trfOneTree grid1x1x1 1 envQuiet
      state0 forest01 r rfl (by decide) (by decide) (by decide) (by decide) rfl rfl hres
      0 (by decide) (by decide) hcnt
    refine ⟨r, rfl, ?_, ?_⟩
    · exact h.1.trans (by decide)
    · exact h.2.1.trans (by decide)

/-! ## The layer pairs of the drivers -/

theorem two_pow_mul_xor (i a b : Nat) : (2 ^ i * a) ^^^ (2 ^ i * b) = 2 ^ i * (a ^^^ b) := by
  apply Nat.eq_of_testBit_eq
  intro j
  rw [Nat.testBit_xor, Nat.testBit_mul_pow_two, Nat.testBit_mul_pow_two,
    Nat.testBit_mul_pow_two, Nat.testBit_xor]
  by_cases h : j ≥ i <;> simp [h]

theorem xor_one_even (q : Nat) (h : q % 2 = 0) : q ^^^ 1 = q + 1 := by
  apply Nat.eq_of_testBit_eq
  intro j
  rw [Nat.testBit_xor]
  cases j with
  | zero =>
    simp only [Nat.testBit_zero]
    have h1 : (q + 1) % 2 = 1 := by omega
    simp [h, h1]
  | succ j =>
    rw [Nat.testBit_succ, Nat.testBit_succ, Nat.testBit_succ]
    have h1 : (q + 1) / 2 = q / 2 := by omega
    rw [h1]
    simp

theorem xor_one_odd (q : Nat) (h : q % 2 = 1) : q ^^^ 1 = q - 1 := by
  apply Nat.eq_of_testBit_eq
  intro j
  rw [Nat.testBit_xor]
  cases j with
  | zero =>
    simp only [Nat.testBit_zero]
    have h1 : (q - 1) % 2 = 0 := by omega
    simp [h, h1]
  | succ j =>
    rw [Nat.testBit_succ, Nat.testBit_succ, Nat.testBit_succ]
    have h1 : (q - 1) / 2 = q / 2 := by omega
    rw [h1]
    simp

theorem mod_two_pow_succ (i q : Nat) : (2 ^ i * q) % (1 <<< (i + 1)) = 0 ↔ q % 2 = 0 := by
  rw [Nat.one_shiftLeft, Nat.pow_succ, Nat.mul_mod_mul_left]
  have hp : 0 < 2 ^ i := Nat.two_pow_pos i
  constructor
  · intro h
    rcases Nat.mul_eq_zero.mp h with h1 | h1
    · omega
    · exact h1
  · intro h
    rw [h, Nat.mul_zero]

theorem pdgsTrForwardSolve3d_pair_mul (i q : Nat) :
    pdgsTrForwardSolve3d_pair (2 ^ i * q) i
      = if q % 2 = 0 then (((2 ^ i * q : Nat) : Int) + ((2 ^ i : Nat) : Int), ((2 ^ i * q : Nat) : Int))
        else (((2 ^ i * q : Nat) : Int), ((2 ^ i * q : Nat) : Int) - ((2 ^ i : Nat) : Int)) := by
  unfold pdgsTrForwardSolve3d_pair
  by_cases h : q % 2 = 0
  · rw [if_pos ((mod_two_pow_succ i q).mpr h), if_pos h, Nat.one_shiftLeft]
  · rw [if_neg (fun hc => h ((mod_two_pow_succ i q).mp hc)), if_neg h, Nat.one_shiftLeft]

/-- C11: at the level `ilvl`, on a layer `g` that is a multiple of `2 ^ ilvl`, the
pair computed by `pdgsTrForwardSolve3d`, which is also the pair computed by
`trs_X_gather3d`, is exactly one of `(g + 2 ^ ilvl, g)` and `(g, g - 2 ^ ilvl)`;
`sender - receiver = 2 ^ ilvl`, the receiver is a non-negative multiple of
`2 ^ (ilvl + 1)`, and the partner layer `g XOR 2 ^ ilvl` computes the same
pair. -/
theorem pdgsTrForwardSolve3d_pair_levels (g ilvl : Nat) (hg : 2 ^ ilvl ∣ g) :
    trs_X_gather3d_pair g ilvl = pdgsTrForwardSolve3d_pair g ilvl ∧
    Xor' (pdgsTrForwardSolve3d_pair g ilvl = ((g : Int) + 2 ^ ilvl, (g : Int)))
      (pdgsTrForwardSolve3d_pair g ilvl = ((g : Int), (g : Int) - 2 ^ ilvl)) ∧
    (pdgsTrForwardSolve3d_pair g ilvl).1 - (pdgsTrForwardSolve3d_pair g ilvl).2 = 2 ^ ilvl ∧
    0 ≤ (pdgsTrForwardSolve3d_pair g ilvl).2 ∧
    (2 : Int) ^ (ilvl + 1) ∣ (pdgsTrForwardSolve3d_pair g ilvl).2 ∧
    pdgsTrForwardSolve3d_pair (g ^^^ 2 ^ ilvl) ilvl = pdgsTrForwardSolve3d_pair g ilvl := by
  obtain ⟨q, rfl⟩ := hg
  have hp : 0 < 2 ^ ilvl := Nat.two_pow_pos ilvl
  have hpi : (0 : Int) < 2 ^ ilvl := by positivity
  have hcast : ((2 ^ ilvl : Nat) : Int) = (2 : Int) ^ ilvl := by push_cast; rfl
  have hpartner : (2 ^ ilvl * q) ^^^ 2 ^ ilvl = 2 ^ ilvl * (q ^^^ 1) := by
    have := two_pow_mul_xor ilvl q 1
    rw [Nat.mul_one] at this
    exact this
  refine ⟨rfl, ?_⟩
  rw [hpartner, pdgsTrForwardSolve3d_pair_mul, pdgsTrForwardSolve3d_pair_mul]
  by_cases h : q % 2 = 0
  · have hx : q ^^^ 1 = q + 1 := xor_one_even q h
    have h1 : ¬ (q + 1) % 2 = 0 := by omega
    rw [if_pos h, hx, if_neg h1, hcast]
    refine ⟨Or.inl ⟨rfl, ?_⟩, ?_, ?_, ?_, ?_⟩
    · intro hc
      have := congrArg Prod.fst hc
      simp only at this
      omega
    · simp
    · positivity
    · have : (2 : Int) ^ (ilvl + 1) ∣ (((2 ^ ilvl * q : Nat) : Int)) := by
        obtain ⟨r, hr⟩ : 2 ∣ q := Nat.dvd_of_mod_eq_zero h
        refine ⟨(r : Int), ?_⟩
        rw [hr]
        push_cast
        ring
      exact this
    · apply Prod.ext
      · simp only
        push_cast
        ring
      · simp only
        push_cast
        ring
  · have hodd : q % 2 = 1 := by omega
    have hx : q ^^^ 1 = q - 1 := xor_one_odd q hodd
    have h1 : (q - 1) % 2 = 0 := by omega
    obtain ⟨r, hr⟩ : ∃ r, q = 2 * r + 1 := ⟨q / 2, by omega⟩
    rw [if_neg h, hx, if_pos h1, hcast]
    have hq1 : q - 1 = 2 * r := by omega
    refine ⟨Or.inr ⟨rfl, ?_⟩, ?_, ?_, ?_, ?_⟩
    · intro hc
      have := congrArg Prod.fst hc
      simp only at this
      omega
    · simp
    · simp only
      rw [hr]
      push_cast
      have : (0 : Int) ≤ 2 ^ ilvl * (2 * (r : Int)) := by positivity
      linarith
    · simp only
      refine ⟨(r : Int), ?_⟩
      rw [hr]
      push_cast
      ring
    · rw [hq1]
      apply Prod.ext
      · simp only
        rw [hr]
        push_cast
        ring
      · simp only
        rw [hr]
        push_cast
        ring

theorem pdgsTrForwardSolve3d_pair_levels_witness :
    2 ^ 1 ∣ 6 ∧ pdgsTrForwardSolve3d_pair 6 1 = (6, 4) ∧
      pdgsTrForwardSolve3d_pair (6 ^^^ 2 ^ 1) 1 = (6, 4) := by
  have h := pdgsTrForwardSolve3d_pair_levels 6 1 (by decide)
  refine ⟨by decide, by decide, ?_⟩
  exact h.2.2.2.2.2.trans (by decide)

/-- C12: for every layer `g` and level `ilvl`, the pair of `bsolve_Xt_bcast` is
the pair of `pdgsTrForwardSolve3d` with the roles swapped: its sender is the
forward receiver and its receiver is the forward sender. -/
theorem bsolve_Xt_bcast_pair_swap (g ilvl : Nat) :
    (bsolve_Xt_bcast_pair g ilvl).1 = (pdgsTrForwardSolve3d_pair g ilvl).2 ∧
    (bsolve_Xt_bcast_pair g ilvl).2 = (pdgsTrForwardSolve3d_pair g ilvl).1 := by
  unfold bsolve_Xt_bcast_pair pdgsTrForwardSolve3d_pair
  by_cases h : g % (1 <<< (ilvl + 1)) = 0
  · rw [if_pos h, if_pos h]
    exact ⟨rfl, rfl⟩
  · rw [if_neg h, if_neg h]
    exact ⟨rfl, rfl⟩

/-! ## The ancestor loop of `pdgsTrBackSolve3d` -/

theorem ancestorLoop_neg : ancestorLoop (-1) = [] := by
  rw [ancestorLoop]
  simp

theorem ancestorLoop_nat (u : Nat) :
    ancestorLoop (u : Int) = (u : Int) :: ancestorLoop (((u : Int) + 1) / 2 - 1) := by
  rw [ancestorLoop]
  have : (u : Int) > -1 := by omega
  simp [this]

/-- The start of the ancestor loop for the tree `t`: nothing for the root, the
heap parent followed by its own ancestors otherwise. -/
theorem ancestorLoop_start (t : Nat) :
    ancestorLoop (((t : Int) + 1) / 2 - 1)
      = if t = 0 then []
        else (((t - 1) / 2 : Nat) : Int)
          :: ancestorLoop (((((t - 1) / 2 : Nat) : Int) + 1) / 2 - 1) := by
  by_cases h : t = 0
  · subst h
    rw [if_pos rfl]
    have : (((0 : Nat) : Int) + 1) / 2 - 1 = -1 := by decide
    rw [this, ancestorLoop_neg]
  · rw [if_neg h]
    have : ((t : Int) + 1) / 2 - 1 = (((t - 1) / 2 : Nat) : Int) := by omega
    rw [this, ancestorLoop_nat]

theorem log2_succ_step (t : Nat) (h : t ≠ 0) :
    Nat.log2 (t + 1) = Nat.log2 ((t - 1) / 2 + 1) + 1 := by
  rw [Nat.log2]
  have h2 : t + 1 ≥ 2 := by omega
  rw [if_pos h2]
  have : (t + 1) / 2 = (t - 1) / 2 + 1 := by omega
  rw [this]

theorem ancestorLoop_props (t : Nat) :
    (ancestorLoop (((t : Int) + 1) / 2 - 1)).length = Nat.log2 (t + 1) ∧
    List.Chain' (fun a b => a > b) (ancestorLoop (((t : Int) + 1) / 2 - 1)) ∧
    (∀ a ∈ ancestorLoop (((t : Int) + 1) / 2 - 1), 0 ≤ a ∧ a < (t : Int)) ∧
    (t ≠ 0 → (ancestorLoop (((t : Int) + 1) / 2 - 1)).getLast? = some 0) := by
  induction t using Nat.strong_induction_on with
  | _ t ih =>
    rw [ancestorLoop_start]
    by_cases h : t = 0
    · subst h
      rw [if_pos rfl]
      refine ⟨?_, List.chain'_nil, ?_, fun hc => absurd rfl hc⟩
      · rw [Nat.log2]
        simp
      · intro a ha
        cases ha
    · rw [if_neg h]
      have hlt : (t - 1) / 2 < t := by omega
      obtain ⟨i1, i2, i3, i4⟩ := ih ((t - 1) / 2) hlt
      refine ⟨?_, ?_, ?_, ?_⟩
      · rw [List.length_cons, i1, log2_succ_step t h]
      · cases hL : ancestorLoop (((((t - 1) / 2 : Nat) : Int) + 1) / 2 - 1) with
        | nil => exact List.chain'_singleton _
        | cons b L =>
          rw [hL] at i2 i3
          refine List.chain'_cons.mpr ⟨?_, i2⟩
          exact (i3 b (List.mem_cons_self _ _)).2
      · intro a ha
        rcases List.mem_cons.mp ha with ha | ha
        · rw [ha]
          omega
        · have := i3 a ha
          omega
      · intro _
        by_cases hu : (t - 1) / 2 = 0
        · rw [hu]
          have : (((0 : Nat) : Int) + 1) / 2 - 1 = -1 := by decide
          rw [this, ancestorLoop_neg]
          rfl
        · have hl := i4 hu
          cases hL : ancestorLoop (((((t - 1) / 2 : Nat) : Int) + 1) / 2 - 1) with
          | nil => rw [hL] at hl; cases hl
          | cons b L =>
            rw [hL] at hl
            rw [List.getLast?_cons_cons]
            exact hl

/-- C13: in `pdgsTrBackSolve3d`, for every tree id `t` the ancestor loop started
at `trParent = (t + 1) / 2 - 1` ends after exactly `floor(log2(t + 1))`
iterations; the tree ids it passes as `pTree` are strictly decreasing, start at
the heap parent `(t - 1) / 2` of `t` and end at the root 0; for `t = 0` the loop
body is not run. -/
theorem ancestorLoop_heap_path (t : Nat) :
    (ancestorLoop (((t : Int) + 1) / 2 - 1)).length = Nat.log2 (t + 1) ∧
    List.Chain' (fun a b => a > b) (ancestorLoop (((t : Int) + 1) / 2 - 1)) ∧
    (if t = 0 then ancestorLoop (((t : Int) + 1) / 2 - 1) = []
     else (ancestorLoop (((t : Int) + 1) / 2 - 1)).head? = some (((t - 1) / 2 : Nat) : Int) ∧
       (ancestorLoop (((t : Int) + 1) / 2 - 1)).getLast? = some 0) := by
  obtain ⟨h1, h2, _, h4⟩ := ancestorLoop_props t
  refine ⟨h1, h2, ?_⟩
  by_cases h : t = 0
  · rw [if_pos h, ancestorLoop_start, if_pos h]
  · rw [if_neg h]
    refine ⟨?_, h4 h⟩
    rw [ancestorLoop_start, if_neg h]
    rfl

/-! ## The level loops of the two drivers -/

theorem foldl_log_flatMap {α β : Type} (F : α → List β) (l : List α) (init : List β) :
    l.foldl (fun log a => log ++ F a) init = init ++ l.flatMap F := by
  induction l generalizing init with
  | nil => simp
  | cons a t ih =>
    simp only [List.foldl_cons, List.flatMap_cons]
    rw [ih, List.append_assoc]

theorem foldl_log_map {α β : Type} (f : α → β) (l : List α) (init : List β) :
    l.foldl (fun log a => log ++ [f a]) init = init ++ l.map f := by
  induction l generalizing init with
  | nil => simp
  | cons a t ih =>
    simp only [List.foldl_cons, List.map_cons]
    rw [ih, List.append_assoc]
    rfl

/-- A list built level by level: the levels of its entries follow the order of
the list of levels. -/
theorem tagged_pairwise {β : Type} (R : Nat → Nat → Prop) (hR : ∀ a, R a a) (F : Nat → List β)
    (L : List Nat) (hL : L.Pairwise R) :
    List.Pairwise (fun (a b : Nat × β) => R a.1 b.1)
      (L.flatMap (fun l => (F l).map (fun c => (l, c)))) := by
  rw [List.pairwise_flatMap]
  constructor
  · intro a _
    rw [List.pairwise_map]
    exact List.pairwise_of_forall (fun _ _ => hR a)
  · refine List.Pairwise.imp ?_ hL
    intro a b hab x hx y hy
    obtain ⟨_, _, rfl⟩ := List.mem_map.mp hx
    obtain ⟨_, _, rfl⟩ := List.mem_map.mp hy
    exact hab

/-- A list built level by level: the entries of the level `l`. -/
theorem tagged_filter {β : Type} (F : Nat → List β) (L : List Nat) (hL : L.Nodup) (l : Nat) :
    ((L.flatMap (fun l => (F l).map (fun c => (l, c)))).filter (fun c => c.1 = l)).map Prod.snd
      = if l ∈ L then F l else [] := by
  induction L with
  | nil => simp
  | cons a t ih =>
    have hnd := List.nodup_cons.mp hL
    rw [List.flatMap_cons, List.filter_append, List.map_append, ih hnd.2]
    by_cases hal : a = l
    · subst hal
      have h1 : ((F a).map (fun c => (a, c))).filter (fun c => c.1 = a)
          = (F a).map (fun c => (a, c)) := by
        apply List.filter_eq_self.mpr
        intro x hx
        obtain ⟨_, _, rfl⟩ := List.mem_map.mp hx
        simp
      rw [h1, if_neg hnd.1, if_pos (List.mem_cons_self _ _)]
      simp
    · have h1 : ((F a).map (fun c => (a, c))).filter (fun c => c.1 = l) = [] := by
        apply List.filter_eq_nil_iff.mpr
        intro x hx
        obtain ⟨_, _, rfl⟩ := List.mem_map.mp hx
        simp [hal]
      rw [h1]
      by_cases hmem : l ∈ t
      · rw [if_pos hmem, if_pos (List.mem_cons_of_mem _ hmem)]
        rfl
      · have : l ∉ a :: t := by
          intro hc
          rcases List.mem_cons.mp hc with hc | hc
          · exact hal hc.symm
          · exact hmem hc
        rw [if_neg hmem, if_neg this]
        rfl

/-- The level loop of the forward driver in closed form. -/
theorem pdgsTrForwardSolve3d_calls_eq (trf3Dpartition : dtrf3Dpartition_t)
    (grid3d : gridinfo3d_t) :
    pdgsTrForwardSolve3d_calls trf3Dpartition grid3d
      = (List.range (log2i grid3d.zscp.Np + 1)).flatMap
          (fun l => (forwardLevelCalls trf3Dpartition grid3d l).map (fun c => (l, c))) := by
  unfold pdgsTrForwardSolve3d_calls
  simp only []
  rw [← List.nil_append ((List.range (log2i grid3d.zscp.Np + 1)).flatMap _),
    ← foldl_log_flatMap]
  congr 1
  funext log ilvl
  unfold forwardLevelCalls
  by_cases hz : trf3Dpartition.myZeroTrIdxs ilvl = 0
  · rw [if_pos hz, if_pos hz, foldl_log_map, List.map_append, List.map_map]
    have hred : ∀ (lg : List (Nat × DriverCall)),
        (if ilvl ≠ log2i grid3d.zscp.Np + 1 - 1 then
          lg ++ (List.range' (ilvl + 1) (log2i grid3d.zscp.Np + 1 - (ilvl + 1))).map
            (fun alvl => (ilvl, DriverCall.fsolveReduceLsum3d (trf3Dpartition.myTreeIdxs alvl)
              (pdgsTrForwardSolve3d_pair grid3d.zscp.Iam ilvl).1
              (pdgsTrForwardSolve3d_pair grid3d.zscp.Iam ilvl).2))
        else lg)
        = lg ++ (List.range' (ilvl + 1) (log2i grid3d.zscp.Np + 1 - (ilvl + 1))).map
            (fun alvl => (ilvl, DriverCall.fsolveReduceLsum3d (trf3Dpartition.myTreeIdxs alvl)
              (pdgsTrForwardSolve3d_pair grid3d.zscp.Iam ilvl).1
              (pdgsTrForwardSolve3d_pair grid3d.zscp.Iam ilvl).2)) := by
      intro lg
      by_cases he : ilvl ≠ log2i grid3d.zscp.Np + 1 - 1
      · rw [if_pos he]
      · rw [if_neg he]
        have he2 : ilvl = log2i grid3d.zscp.Np + 1 - 1 := by
          by_contra hc
          exact he hc
        have : log2i grid3d.zscp.Np + 1 - (ilvl + 1) = 0 := by omega
        rw [this]
        simp
    rw [hred]
    cases hf : trf3Dpartition.sForests (trf3Dpartition.myTreeIdxs ilvl) with
    | none => rfl
    | some sf =>
      simp only []
      by_cases h0 : ilvl = 0
      · simp [h0]
      · simp [h0]
  · rw [if_neg hz, if_neg hz]
    simp

/-- The level loop of the backward driver in closed form. -/
theorem pdgsTrBackSolve3d_calls_eq (trf3Dpartition : dtrf3Dpartition_t)
    (grid3d : gridinfo3d_t) :
    pdgsTrBackSolve3d_calls trf3Dpartition grid3d
      = (List.range (log2i grid3d.zscp.Np + 1)).reverse.flatMap
          (fun l => (backLevelCalls trf3Dpartition l).map (fun c => (l, c))) := by
  unfold pdgsTrBackSolve3d_calls
  simp only []
  rw [← List.nil_append ((List.range (log2i grid3d.zscp.Np + 1)).reverse.flatMap _),
    ← foldl_log_flatMap]
  congr 1
  funext log ilvl
  unfold backLevelCalls
  by_cases hz : trf3Dpartition.myZeroTrIdxs ilvl = 0
  · rw [if_pos hz, if_pos hz, foldl_log_map]
    cases hf : trf3Dpartition.sForests (trf3Dpartition.myTreeIdxs ilvl) with
    | none => simp
    | some sf =>
      simp only []
      by_cases h0 : ilvl = 0
      · simp [h0]
      · simp [h0]
  · rw [if_neg hz, if_neg hz]
    simp

/-- C14: the calls of `pdgsTrForwardSolve3d` come level by level in ascending
order of `ilvl`; the calls of a level `ilvl < maxLvl` not marked in
`myZeroTrIdxs` are, in this order, the solve of the owned forest if it is not
`NULL`, which is `leafForestForwardSolve3d` if and only if `ilvl = 0` and
`nonLeafForestForwardSolve3d` otherwise, and then one `fsolveReduceLsum3d` per
ancestor level `alvl = ilvl + 1, ..., maxLvl - 1` in ascending order, none at
the root level; no other call is made. -/
theorem pdgsTrForwardSolve3d_calls_schedule (trf3Dpartition : dtrf3Dpartition_t)
    (grid3d : gridinfo3d_t) :
    List.Pairwise (fun a b => a.1 ≤ b.1) (pdgsTrForwardSolve3d_calls trf3Dpartition grid3d) ∧
    ∀ ilvl,
      ((pdgsTrForwardSolve3d_calls trf3Dpartition grid3d).filter (fun c => c.1 = ilvl)).map
          Prod.snd
        = if ilvl < log2i grid3d.zscp.Np + 1 ∧ trf3Dpartition.myZeroTrIdxs ilvl = 0 then
            (match trf3Dpartition.sForests (trf3Dpartition.myTreeIdxs ilvl) with
              | some _ =>
                [if ilvl = 0 then
                    DriverCall.leafForestForwardSolve3d (trf3Dpartition.myTreeIdxs ilvl)
                  else DriverCall.nonLeafForestForwardSolve3d (trf3Dpartition.myTreeIdxs ilvl)]
              | none => [])
            ++ (List.range' (ilvl + 1) (log2i grid3d.zscp.Np + 1 - (ilvl + 1))).map
                (fun alvl => DriverCall.fsolveReduceLsum3d (trf3Dpartition.myTreeIdxs alvl)
                  (pdgsTrForwardSolve3d_pair grid3d.zscp.Iam ilvl).1
                  (pdgsTrForwardSolve3d_pair grid3d.zscp.Iam ilvl).2)
          else [] := by
  rw [pdgsTrForwardSolve3d_calls_eq]
  constructor
  · refine tagged_pairwise (fun a b => a ≤ b) (fun a => Nat.le_refl a) _ _ ?_
    exact List.Pairwise.imp (fun h => Nat.le_of_lt h) (List.pairwise_lt_range _)
  · intro ilvl
    rw [tagged_filter _ _ (List.nodup_range _)]
    by_cases hl : ilvl < log2i grid3d.zscp.Np + 1
    · rw [if_pos (List.mem_range.mpr hl)]
      unfold forwardLevelCalls
      by_cases hz : trf3Dpartition.myZeroTrIdxs ilvl = 0
      · rw [if_pos hz, if_pos (And.intro hl hz)]
        first
          | done
          | cases trf3Dpartition.sForests (trf3Dpartition.myTreeIdxs ilvl) <;> rfl
      · rw [if_neg hz, if_neg (fun hc => hz hc.2)]
    · rw [if_neg (fun hc => hl (List.mem_range.mp hc)), if_neg (fun hc => hl hc.1)]

/-- C15: the calls of `pdgsTrBackSolve3d` come level by level in descending order
of `ilvl`; the calls of a level `ilvl < maxLvl` not marked in `myZeroTrIdxs` are,
in this order, `bsolve_Xt_bcast` for the level, then `dlasum_bmod_Tree(p, tree)`
for every tree `p` of the ancestor loop of the level's tree, and then the solve
of the owned forest if it is not `NULL`, which is `leafForestBackSolve3d` if and
only if `ilvl = 0` and `nonLeafForestBackSolve3d` otherwise; no other call is
made. -/
theorem pdgsTrBackSolve3d_calls_schedule (trf3Dpartition : dtrf3Dpartition_t)
    (grid3d : gridinfo3d_t) :
    List.Pairwise (fun a b => a.1 ≥ b.1) (pdgsTrBackSolve3d_calls trf3Dpartition grid3d) ∧
    ∀ ilvl,
      ((pdgsTrBackSolve3d_calls trf3Dpartition grid3d).filter (fun c => c.1 = ilvl)).map
          Prod.snd
        = if ilvl < log2i grid3d.zscp.Np + 1 ∧ trf3Dpartition.myZeroTrIdxs ilvl = 0 then
            [DriverCall.bsolve_Xt_bcast ilvl]
            ++ (ancestorLoop ((((trf3Dpartition.myTreeIdxs ilvl : Nat) : Int) + 1) / 2 - 1)).map
                (fun pTree =>
                  DriverCall.dlasum_bmod_Tree pTree (trf3Dpartition.myTreeIdxs ilvl))
            ++ (match trf3Dpartition.sForests (trf3Dpartition.myTreeIdxs ilvl) with
              | some _ =>
                [if ilvl = 0 then
                    DriverCall.leafForestBackSolve3d (trf3Dpartition.myTreeIdxs ilvl)
                  else DriverCall.nonLeafForestBackSolve3d (trf3Dpartition.myTreeIdxs ilvl)]
              | none => [])
          else [] := by
  rw [pdgsTrBackSolve3d_calls_eq]
  constructor
  · refine tagged_pairwise (fun a b => a ≥ b) (fun a => Nat.le_refl a) _ _ ?_
    rw [List.pairwise_reverse]
    exact List.Pairwise.imp (fun h => Nat.le_of_lt h) (List.pairwise_lt_range _)
  · intro ilvl
    rw [tagged_filter _ _ (List.nodup_reverse.mpr (List.nodup_range _))]
    by_cases hl : ilvl < log2i grid3d.zscp.Np + 1
    · rw [if_pos (List.mem_reverse.mpr (List.mem_range.mpr hl))]
      unfold backLevelCalls
      by_cases hz : trf3Dpartition.myZeroTrIdxs ilvl = 0
      · rw [if_pos hz, if_pos (And.intro hl hz)]
        first
          | done
          | cases trf3Dpartition.sForests (trf3Dpartition.myTreeIdxs ilvl) <;> rfl
      · rw [if_neg hz, if_neg (fun hc => hz hc.2)]
    · rw [if_neg (fun hc => hl (List.mem_range.mp (List.mem_reverse.mp hc))),
        if_neg (fun hc => hl hc.1)]

/-- C16: at a level `ilvl` marked in `myZeroTrIdxs` the iteration of neither
driver makes a call, so no forest is solved and nothing is exchanged between
layers at that level; and at a level `ilvl < maxLvl` not marked whose forest is
`NULL`, the forward driver calls no solve procedure and makes exactly the calls
`fsolveReduceLsum3d` for the ancestor levels `ilvl + 1, ..., maxLvl - 1`, the
root level included. -/
theorem drivers_skip_marked_levels (trf3Dpartition : dtrf3Dpartition_t)
    (grid3d : gridinfo3d_t) (ilvl : Nat) :
    (trf3Dpartition.myZeroTrIdxs ilvl ≠ 0 →
      (∀ c ∈ pdgsTrForwardSolve3d_calls trf3Dpartition grid3d, c.1 ≠ ilvl) ∧
      (∀ c ∈ pdgsTrBackSolve3d_calls trf3Dpartition grid3d, c.1 ≠ ilvl)) ∧
    (ilvl < log2i grid3d.zscp.Np + 1 → trf3Dpartition.myZeroTrIdxs ilvl = 0 →
      trf3Dpartition.sForests (trf3Dpartition.myTreeIdxs ilvl) = none →
      ((pdgsTrForwardSolve3d_calls trf3Dpartition grid3d).filter (fun c => c.1 = ilvl)).map
          Prod.snd
        = (List.range' (ilvl + 1) (log2i grid3d.zscp.Np + 1 - (ilvl + 1))).map
            (fun alvl => DriverCall.fsolveReduceLsum3d (trf3Dpartition.myTreeIdxs alvl)
              (pdgsTrForwardSolve3d_pair grid3d.zscp.Iam ilvl).1
              (pdgsTrForwardSolve3d_pair grid3d.zscp.Iam ilvl).2)) := by
  constructor
  · intro hz
    rw [pdgsTrForwardSolve3d_calls_eq, pdgsTrBackSolve3d_calls_eq]
    constructor
    · intro c hc hcl
      obtain ⟨l, _, hl⟩ := List.mem_flatMap.mp hc
      obtain ⟨d, hd, rfl⟩ := List.mem_map.mp hl
      have hl2 : l = ilvl := hcl
      subst hl2
      unfold forwardLevelCalls at hd
      rw [if_neg hz] at hd
      cases hd
    · intro c hc hcl
      obtain ⟨l, _, hl⟩ := List.mem_flatMap.mp hc
      obtain ⟨d, hd, rfl⟩ := List.mem_map.mp hl
      have hl2 : l = ilvl := hcl
      subst hl2
      unfold backLevelCalls at hd
      rw [if_neg hz] at hd
      cases hd
  · intro hl hz hf
    rw [pdgsTrForwardSolve3d_calls_eq, tagged_filter _ _ (List.nodup_range _),
      if_pos (List.mem_range.mpr hl)]
    unfold forwardLevelCalls
    rw [if_pos hz, hf]
    rfl

theorem drivers_skip_marked_levels_witness :
    trfEmptyLeaf.myZeroTrIdxs 1 ≠ 0 ∧
    (∀ c ∈ pdgsTrForwardSolve3d_calls trfEmptyLeaf grid1x1x4, c.1 ≠ 1) ∧
    trfEmptyLeaf.sForests (trfEmptyLeaf.myTreeIdxs 0) = none ∧
    ((pdgsTrForwardSolve3d_calls trfEmptyLeaf grid1x1x4).filter (fun c => c.1 = 0)).map Prod.snd
      = [DriverCall.fsolveReduceLsum3d 1 1 0, DriverCall.fsolveReduceLsum3d 0 1 0] := by
  have hlog : log2i grid1x1x4.zscp.Np = 2 := by
    show Nat.log2 4 = 2
    rw [Nat.log2]
    simp
    rw [Nat.log2]
    simp
    rw [Nat.log2]
    simp
  have h1 := (drivers_skip_marked_levels trfEmptyLeaf grid1x1x4 1).1 (by decide)
  have h2 := (drivers_skip_marked_levels trfEmptyLeaf grid1x1x4 0).2
    (by rw [hlog]; decide) (by decide) rfl
  refine ⟨by decide, h1.1, rfl, ?_⟩
  rw [h2, hlog]
  decide

/-! ## The node loop of the non-leaf solves -/

theorem LeafKept.toSendKept {nrhs : Nat} {xsup : Nat → Nat} {P : SolveState → Prop}
    (K : LeafKept nrhs xsup P) : SendKept nrhs xsup P :=
  { frame := fun s s' hx hs _ h => K.frame s s' hx hs h
    post := fun s s' m hx hs _ hw h => K.post s s' m hx hs hw h }

theorem foldl_Isend_kept {nrhs : Nat} {xsup : Nat → Nat} {P : SolveState → Prop}
    (K : SendKept nrhs xsup P) (c : Nat → Prop) [DecidablePred c] (start k : Nat)
    (dest : Nat → Nat) (l : List Nat) (s : SolveState) (h : P s) :
    P (l.foldl (fun s p =>
      if c p then MPI_Isend s.x start (SuperSize xsup k * nrhs + XK_H) (dest p) MsgTag.Xk s
      else s) s) := by
  refine foldl_inv P _ (fun a p ha => ?_) l s h
  by_cases hc : c p
  · simp only [hc, if_true]
    exact K.post a _ _ (by rfl) (by rfl) (by rfl) (Or.inl ⟨by rfl, k, by rfl⟩) ha
  · simp only [hc, if_false]
    exact ha

theorem dlsum_fmod_leaf_block_kept {nrhs : Nat} {xsup : Nat → Nat} {P : SolveState → Prop}
    (K : SendKept nrhs xsup P)
    (recurse : FmodCall → SolveState → Option SolveState)
    (hrec : ∀ c s s', P s → recurse c s = some s' → P s')
    (treeId : Nat) (trf3Dpartition : dtrf3Dpartition_t) (xk : XkPtr) (knsupc : Nat)
    (grid : gridinfo_t) (Llu : dLocalLU_t)
    (lsub : Nat → Nat) (lusup : Nat → ℚ) (nsupr : Nat)
    (st st' : Nat × Nat × SolveState) (hinv : P st.2.2)
    (h : dlsum_fmod_leaf_block recurse treeId trf3Dpartition xk nrhs knsupc xsup grid Llu
      lsub lusup nsupr st = some st') : P st'.2.2 := by
  obtain ⟨lptr, luptr, s⟩ := st
  have hinv : P s := hinv
  unfold dlsum_fmod_leaf_block at h
  simp only [] at h
  split at h
  · split at h
    · split at h
      · simp only [Option.some.injEq] at h
        subst h
        exact K.post s _ _ (by rfl) (by rfl) (by rfl) (Or.inr ⟨by rfl, _, by rfl⟩) hinv
      · split at h
        · split at h
          · exact absurd h (by simp)
          · split at h
            · exact absurd h (by simp)
            · rename_i s2 hs2
              simp only [Option.some.injEq] at h
              subst h
              refine hrec _ _ _ ?_ hs2
              apply foldl_Isend_kept K (fun p => Llu.fsendx_plist _ p ≠ EMPTY)
              exact K.frame s _ (by rfl) (by rfl) (by rfl) hinv
        · simp only [Option.some.injEq] at h
          subst h
          exact K.frame s _ (by rfl) (by rfl) (by rfl) hinv
    · simp only [Option.some.injEq] at h
      subst h
      exact K.frame s _ (by rfl) (by rfl) (by rfl) hinv
  · simp only [Option.some.injEq] at h
    subst h
    exact K.frame s _ (by rfl) (by rfl) (by rfl) hinv

theorem dlsum_fmod_leaf_with_kept {nrhs : Nat} {xsup : Nat → Nat} {P : SolveState → Prop}
    (K : SendKept nrhs xsup P)
    (recurse : FmodCall → SolveState → Option SolveState)
    (hrec : ∀ c s s', P s → recurse c s = some s' → P s')
    (treeId : Nat) (trf3Dpartition : dtrf3Dpartition_t)
    (grid : gridinfo_t) (Llu : dLocalLU_t) (c : FmodCall) (s s' : SolveState)
    (hinv : P s)
    (h : dlsum_fmod_leaf_with recurse treeId trf3Dpartition nrhs xsup grid Llu c s = some s') :
    P s' := by
  unfold dlsum_fmod_leaf_with at h
  simp only [] at h
  split at h
  · exact absurd h (by simp)
  · rename_i lsub _
    split at h
    · exact absurd h (by simp)
    · rename_i st hst
      simp only [Option.some.injEq] at h
      subst h
      exact foldlOpt_inv (fun st : Nat × Nat × SolveState => P st.2.2) _
        (fun a _ b ha hab =>
          dlsum_fmod_leaf_block_kept K recurse hrec _ _ _ _ _ _ _ _ _ a b ha hab)
        _ _ _ hinv hst

theorem dlsum_fmod_leaf_kept {nrhs : Nat} {xsup : Nat → Nat} {P : SolveState → Prop}
    (K : SendKept nrhs xsup P) (fuel treeId : Nat) (trf3Dpartition : dtrf3Dpartition_t)
    (grid : gridinfo_t) (Llu : dLocalLU_t) :
    ∀ (c : FmodCall) (s s' : SolveState), P s →
      dlsum_fmod_leaf fuel treeId trf3Dpartition nrhs xsup grid Llu c s = some s' → P s' := by
  induction fuel with
  | zero =>
    intro c s s' hinv h
    unfold dlsum_fmod_leaf at h
    exact dlsum_fmod_leaf_with_kept K _ (fun _ _ _ _ hc => absurd hc (by simp))
      _ _ _ _ c s s' hinv h
  | succ fuel ih =>
    intro c s s' hinv h
    unfold dlsum_fmod_leaf at h
    exact dlsum_fmod_leaf_with_kept K _ (fun c1 s1 s2 h1 h2 => ih c1 s1 s2 h1 h2)
      _ _ _ _ c s s' hinv h

theorem localSolveXkYk_kept {nrhs : Nat} {xsup : Nat → Nat} {P : SolveState → Prop}
    (K : SendKept nrhs xsup P) (trtype : trtype_t) (k xoff nrhs1 : Nat)
    (LUstruct : dLUstruct_t) (grid : gridinfo_t) (s s' : SolveState) (hinv : P s)
    (h : localSolveXkYk trtype k xoff nrhs1 LUstruct grid s = some s') : P s' := by
  unfold localSolveXkYk at h
  simp only [] at h
  split at h
  · exact absurd h (by simp)
  · simp only [Option.some.injEq] at h
    subst h
    exact K.frame s _ (by rfl) (by rfl) (by rfl) hinv

theorem iBcastXk2Pck_kept {nrhs : Nat} {P : SolveState → Prop} (LUstruct : dLUstruct_t)
    (K : SendKept nrhs LUstruct.Glu_persist.xsup P) (k xhdr : Nat)
    (sendList : Nat → Nat → Int) (grid : gridinfo_t) (s : SolveState) (hinv : P s) :
    P (iBcastXk2Pck k xhdr nrhs sendList LUstruct grid s) := by
  unfold iBcastXk2Pck
  exact foldl_Isend_kept K (fun p => sendList _ p ≠ EMPTY) _ _ _ _ _ hinv

theorem leafForestForwardSolve3d_seed_kept {nrhs : Nat} {P : SolveState → Prop}
    (LUstruct : dLUstruct_t) (K : SendKept nrhs LUstruct.Glu_persist.xsup P)
    (fuel treeId : Nat) (trf3Dpartition : dtrf3Dpartition_t) (grid : gridinfo_t)
    (st st' : Int × SolveState) (k : Nat) (hinv : P st.2)
    (h : leafForestForwardSolve3d_seed fuel treeId nrhs LUstruct trf3Dpartition grid st k
      = some st') : P st'.2 := by
  obtain ⟨nleaf, s⟩ := st
  have hinv : P s := hinv
  unfold leafForestForwardSolve3d_seed at h
  simp only [] at h
  split at h
  · simp only [Option.some.injEq] at h
    subst h; exact hinv
  · split at h
    · split at h
      · split at h
        · exact absurd h (by simp)
        · rename_i s1 hs1
          split at h
          · exact absurd h (by simp)
          · split at h
            · exact absurd h (by simp)
            · rename_i s2 hs2
              simp only [Option.some.injEq] at h
              subst h
              refine dlsum_fmod_leaf_kept K _ _ _ _ _ _ _ _ ?_ hs2
              apply iBcastXk2Pck_kept LUstruct K
              refine localSolveXkYk_kept K _ _ _ _ _ _ _ _ ?_ hs1
              exact K.frame s _ (by rfl) (by rfl) (by rfl) hinv
      · simp only [Option.some.injEq] at h
        subst h; exact hinv
    · simp only [Option.some.injEq] at h
      subst h; exact hinv

theorem leafForestForwardSolve3d_Xk_kept {nrhs : Nat} {P : SolveState → Prop}
    (LUstruct : dLUstruct_t) (K : SendKept nrhs LUstruct.Glu_persist.xsup P)
    (fuel treeId : Nat) (trf3Dpartition : dtrf3Dpartition_t) (grid : gridinfo_t)
    (k : Nat) (s s' : SolveState) (hinv : P s)
    (h : leafForestForwardSolve3d_Xk fuel treeId nrhs LUstruct trf3Dpartition grid k s
      = some s') : P s' := by
  unfold leafForestForwardSolve3d_Xk at h
  simp only [] at h
  split at h
  · exact dlsum_fmod_leaf_kept K _ _ _ _ _ _ _ _ hinv h
  · simp only [Option.some.injEq] at h
    subst h; exact hinv

theorem leafForestForwardSolve3d_LSUM_kept {nrhs : Nat} {P : SolveState → Prop}
    (LUstruct : dLUstruct_t) (K : SendKept nrhs LUstruct.Glu_persist.xsup P)
    (fuel treeId : Nat) (trf3Dpartition : dtrf3Dpartition_t) (grid : gridinfo_t)
    (k : Nat) (s s' : SolveState) (hinv : P s)
    (h : leafForestForwardSolve3d_LSUM fuel treeId nrhs LUstruct trf3Dpartition grid k s
      = some s') : P s' := by
  unfold leafForestForwardSolve3d_LSUM at h
  simp only [] at h
  split at h
  · split at h
    · exact absurd h (by simp)
    · rename_i s1 hs1
      split at h
      · exact absurd h (by simp)
      · refine dlsum_fmod_leaf_kept K _ _ _ _ _ _ _ _ ?_ h
        apply iBcastXk2Pck_kept LUstruct K
        refine localSolveXkYk_kept K _ _ _ _ _ _ _ _ ?_ hs1
        exact K.frame s _ (by rfl) (by rfl) (by rfl) hinv
  · simp only [Option.some.injEq] at h
    subst h
    exact K.frame s _ (by rfl) (by rfl) (by rfl) hinv

theorem leafForestForwardSolve3d_recv_kept {nrhs : Nat} {P : SolveState → Prop}
    (LUstruct : dLUstruct_t) (K : SendKept nrhs LUstruct.Glu_persist.xsup P)
    (fuel treeId : Nat) (trf3Dpartition : dtrf3Dpartition_t) (grid : gridinfo_t) :
    ∀ (msgs : List Message) (nfrecvx nfrecvmod : Int) (s s' : SolveState), P s →
      leafForestForwardSolve3d_recv fuel treeId nrhs LUstruct trf3Dpartition grid
        nfrecvx nfrecvmod s msgs = some s' → P s' := by
  intro msgs
  induction msgs with
  | nil =>
    intro nfrecvx nfrecvmod s s' hinv h
    unfold leafForestForwardSolve3d_recv at h
    split at h
    · exact absurd h (by simp)
    · simp only [Option.some.injEq] at h
      subst h; exact hinv
  | cons m rest ih =>
    intro nfrecvx nfrecvmod s s' hinv h
    have hr : P (MPI_Recv m s) := K.frame s _ (by rfl) (by rfl) (by rfl) hinv
    unfold leafForestForwardSolve3d_recv at h
    simp only [] at h
    split at h
    · split at h
      · split at h
        · exact absurd h (by simp)
        · rename_i s1 hs1
          exact ih _ _ _ _ (leafForestForwardSolve3d_Xk_kept LUstruct K _ _ _ _ _ _ _ hr hs1) h
      · split at h
        · exact absurd h (by simp)
        · rename_i s1 hs1
          exact ih _ _ _ _ (leafForestForwardSolve3d_LSUM_kept LUstruct K _ _ _ _ _ _ _ hr hs1) h
      · exact ih _ _ _ _ hr h
    · simp only [Option.some.injEq] at h
      subst h; exact hinv

/-- The forward leaf solve keeps every property that only looks at `xT` and at
the shape of the posted messages. -/
theorem leafForestForwardSolve3d_kept {nrhs : Nat} {P : SolveState → Prop}
    (LUstruct : dLUstruct_t) (K : LeafKept nrhs LUstruct.Glu_persist.xsup P)
    (fuel treeId n : Nat) (trf3Dpartition : dtrf3Dpartition_t) (grid3d : gridinfo3d_t)
    (env : LeafEnv) (s : SolveState) (res : Int × SolveState) (hinv : P s)
    (h : leafForestForwardSolve3d fuel treeId n LUstruct trf3Dpartition grid3d nrhs env s
      = some res) : P res.2 := by
  unfold leafForestForwardSolve3d at h
  split at h
  · simp only [Option.some.injEq] at h
    subst h; exact hinv
  · rename_i sforest _
    split at h
    · simp only [Option.some.injEq] at h
      subst h; exact hinv
    · split at h
      · exact absurd h (by simp)
      · rename_i s1 hs1
        simp only [Option.some.injEq] at h
        subst h
        refine K.frame s1 _ (by rfl) (by rfl) ?_
        unfold leafForestForwardSolve3d_loop at hs1
        simp only [] at hs1
        split at hs1
        · exact absurd hs1 (by simp)
        · rename_i st hst
          refine leafForestForwardSolve3d_recv_kept LUstruct K.toSendKept _ _ _ _ _ _ _ _ _ ?_ hs1
          exact foldlOpt_inv (fun st : Int × SolveState => P st.2) _
            (fun a k0 b ha hab =>
              leafForestForwardSolve3d_seed_kept LUstruct K.toSendKept _ _ _ _ a b _ ha hab)
            _ _ _ (K.frame s _ (by rfl) (by rfl) hinv) hst

theorem lsumBmod_kept {nrhs : Nat} {xsup : Nat → Nat} {P : SolveState → Prop}
    (K : SendKept nrhs xsup P) (gik gjk nrhs1 : Nat) (usub : Nat → Nat) (uval : Nat → ℚ)
    (xk : Nat → ℚ) (il : Nat) (xsup1 : Nat → Nat) (s s' : SolveState) (hinv : P s)
    (h : lsumBmod gik gjk nrhs1 usub uval xk il xsup1 s = some s') : P s' := by
  unfold lsumBmod at h
  simp only [] at h
  split at h
  · exact absurd h (by simp)
  · split at h
    · exact absurd h (by simp)
    · simp only [Option.some.injEq] at h
      subst h
      exact K.frame s _ (by rfl) (by rfl) (by rfl) hinv

theorem dlsum_bmod_GG_block_kept {nrhs : Nat} {xsup : Nat → Nat} {P : SolveState → Prop}
    (K : SendKept nrhs xsup P)
    (recurse : BmodCall → SolveState → Option SolveState)
    (hrec : ∀ c s s', P s → recurse c s = some s' → P s')
    (xk : XkPtr) (k : Nat) (grid : gridinfo_t) (Llu : dLocalLU_t)
    (s s' : SolveState) (ub : Nat) (hinv : P s)
    (h : dlsum_bmod_GG_block recurse xk nrhs k xsup grid Llu s ub = some s') : P s' := by
  unfold dlsum_bmod_GG_block at h
  simp only [] at h
  split at h
  · exact absurd h (by simp)
  · split at h
    · exact absurd h (by simp)
    · rename_i s1 hs1
      have hinv1 : P s1 := lsumBmod_kept K _ _ _ _ _ _ _ _ _ _ hinv hs1
      clear hinv hs1
      split at h
      · split at h
        · simp only [Option.some.injEq] at h
          subst h
          exact K.post s1 _ _ (by rfl) (by rfl) (by rfl) (Or.inr ⟨by rfl, _, by rfl⟩) hinv1
        · split at h
          · split at h
            · exact absurd h (by simp)
            · split at h
              · refine hrec _ _ _ ?_ h
                apply foldl_Isend_kept K (fun p => Llu.bsendx_plist _ p ≠ EMPTY)
                exact K.frame s1 _ (by rfl) (by rfl) (by rfl) hinv1
              · simp only [Option.some.injEq] at h
                subst h
                apply foldl_Isend_kept K (fun p => Llu.bsendx_plist _ p ≠ EMPTY)
                exact K.frame s1 _ (by rfl) (by rfl) (by rfl) hinv1
          · simp only [Option.some.injEq] at h
            subst h
            exact K.frame s1 _ (by rfl) (by rfl) (by rfl) hinv1
      · simp only [Option.some.injEq] at h
        subst h
        exact K.frame s1 _ (by rfl) (by rfl) (by rfl) hinv1

theorem dlsum_bmod_GG_kept {nrhs : Nat} {xsup : Nat → Nat} {P : SolveState → Prop}
    (K : SendKept nrhs xsup P) (fuel : Nat) (grid : gridinfo_t) (Llu : dLocalLU_t) :
    ∀ (c : BmodCall) (s s' : SolveState), P s →
      dlsum_bmod_GG fuel nrhs xsup grid Llu c s = some s' → P s' := by
  induction fuel with
  | zero =>
    intro c s s' hinv h
    unfold dlsum_bmod_GG dlsum_bmod_GG_with at h
    exact foldlOpt_inv P _
      (fun a ub b ha hab => dlsum_bmod_GG_block_kept K _
        (fun _ _ _ _ hc => absurd hc (by simp)) _ _ _ _ a b ub ha hab) _ _ _ hinv h
  | succ fuel ih =>
    intro c s s' hinv h
    unfold dlsum_bmod_GG dlsum_bmod_GG_with at h
    exact foldlOpt_inv P _
      (fun a ub b ha hab => dlsum_bmod_GG_block_kept K _
        (fun c1 s1 s2 h1 h2 => ih c1 s1 s2 h1 h2) _ _ _ _ a b ub ha hab) _ _ _ hinv h

theorem leafForestBackSolve3d_seed_kept {nrhs : Nat} {P : SolveState → Prop}
    (LUstruct : dLUstruct_t) (K : SendKept nrhs LUstruct.Glu_persist.xsup P)
    (fuel : Nat) (grid : gridinfo_t)
    (st st' : Int × SolveState) (k : Nat) (hinv : P st.2)
    (h : leafForestBackSolve3d_seed fuel nrhs LUstruct grid st k = some st') : P st'.2 := by
  obtain ⟨nroot, s⟩ := st
  have hinv : P s := hinv
  unfold leafForestBackSolve3d_seed at h
  simp only [] at h
  split at h
  · split at h
    · split at h
      · simp only [Option.some.injEq] at h
        subst h
        exact K.post s _ _ (by rfl) (by rfl) (by rfl) (Or.inr ⟨by rfl, _, by rfl⟩) hinv
      · split at h
        · split at h
          · exact absurd h (by simp)
          · rename_i s1 hs1
            have hs4 : P (iBcastXk2Pck k
                (X_BLK LUstruct.Llu.ilsum nrhs (LBi k grid) - XK_H) nrhs
                LUstruct.Llu.bsendx_plist LUstruct grid s1) :=
              iBcastXk2Pck_kept LUstruct K _ _ _ _ _
                (localSolveXkYk_kept K _ _ _ _ _ _ _ _ (K.frame s _ (by rfl) (by rfl) (by rfl) hinv) hs1)
            split at h
            · split at h
              · exact absurd h (by simp)
              · rename_i s2 hs2
                simp only [Option.some.injEq] at h
                subst h
                exact dlsum_bmod_GG_kept K _ _ _ _ _ _ hs4 hs2
            · simp only [Option.some.injEq] at h
              subst h
              exact hs4
        · simp only [Option.some.injEq] at h
          subst h
          exact K.frame s _ (by rfl) (by rfl) (by rfl) hinv
    · simp only [Option.some.injEq] at h
      subst h
      exact hinv
  · simp only [Option.some.injEq] at h
    subst h
    exact hinv

theorem leafForestBackSolve3d_LSUM_kept {nrhs : Nat} {P : SolveState → Prop}
    (LUstruct : dLUstruct_t) (K : SendKept nrhs LUstruct.Glu_persist.xsup P)
    (fuel : Nat) (grid : gridinfo_t) (k : Nat) (s s' : SolveState) (hinv : P s)
    (h : leafForestBackSolve3d_LSUM fuel nrhs LUstruct grid k s = some s') : P s' := by
  unfold leafForestBackSolve3d_LSUM at h
  simp only [] at h
  split at h
  · split at h
    · exact absurd h (by simp)
    · rename_i s1 hs1
      have hs4 : P (iBcastXk2Pck k
          (X_BLK LUstruct.Llu.ilsum nrhs (LBi k grid) - XK_H) nrhs
          LUstruct.Llu.bsendx_plist LUstruct grid s1) :=
        iBcastXk2Pck_kept LUstruct K _ _ _ _ _
          (localSolveXkYk_kept K _ _ _ _ _ _ _ _ (K.frame s _ (by rfl) (by rfl) (by rfl) hinv) hs1)
      split at h
      · exact dlsum_bmod_GG_kept K _ _ _ _ _ _ hs4 h
      · simp only [Option.some.injEq] at h
        subst h
        exact hs4
  · simp only [Option.some.injEq] at h
    subst h
    exact K.frame s _ (by rfl) (by rfl) (by rfl) hinv

theorem leafForestBackSolve3d_recv_kept {nrhs : Nat} {P : SolveState → Prop}
    (LUstruct : dLUstruct_t) (K : SendKept nrhs LUstruct.Glu_persist.xsup P)
    (fuel : Nat) (grid : gridinfo_t) :
    ∀ (msgs : List Message) (nbrecvx nbrecvmod : Int) (s s' : SolveState), P s →
      leafForestBackSolve3d_recv fuel nrhs LUstruct grid nbrecvx nbrecvmod s msgs = some s' →
      P s' := by
  intro msgs
  induction msgs with
  | nil =>
    intro nbrecvx nbrecvmod s s' hinv h
    unfold leafForestBackSolve3d_recv at h
    split at h
    · exact absurd h (by simp)
    · simp only [Option.some.injEq] at h
      subst h; exact hinv
  | cons m rest ih =>
    intro nbrecvx nbrecvmod s s' hinv h
    have hr : P (MPI_Recv m s) := K.frame s _ (by rfl) (by rfl) (by rfl) hinv
    unfold leafForestBackSolve3d_recv at h
    simp only [] at h
    split at h
    · split at h
      · split at h
        · exact absurd h (by simp)
        · rename_i s1 hs1
          exact ih _ _ _ _ (dlsum_bmod_GG_kept K _ _ _ _ _ _ hr hs1) h
      · split at h
        · exact absurd h (by simp)
        · rename_i s1 hs1
          exact ih _ _ _ _ (leafForestBackSolve3d_LSUM_kept LUstruct K _ _ _ _ _ hr hs1) h
      · exact ih _ _ _ _ hr h
    · simp only [Option.some.injEq] at h
      subst h; exact hinv

/-- The backward leaf solve keeps every property that only looks at `xT` and at
the shape of the posted messages. -/
theorem leafForestBackSolve3d_kept {nrhs : Nat} {P : SolveState → Prop}
    (LUstruct : dLUstruct_t) (K : LeafKept nrhs LUstruct.Glu_persist.xsup P)
    (fuel treeId n : Nat) (trf3Dpartition : dtrf3Dpartition_t) (grid3d : gridinfo3d_t)
    (env : LeafEnv) (s : SolveState) (res : Int × SolveState) (hinv : P s)
    (h : leafForestBackSolve3d fuel treeId n LUstruct trf3Dpartition grid3d nrhs env s
      = some res) : P res.2 := by
  unfold leafForestBackSolve3d at h
  split at h
  · simp only [Option.some.injEq] at h
    subst h; exact hinv
  · rename_i sforest _
    split at h
    · simp only [Option.some.injEq] at h
      subst h; exact hinv
    · split at h
      · exact absurd h (by simp)
      · rename_i s1 hs1
        simp only [Option.some.injEq] at h
        subst h
        refine K.frame s1 _ (by rfl) (by rfl) ?_
        unfold leafForestBackSolve3d_loop at hs1
        simp only [] at hs1
        split at hs1
        · exact absurd hs1 (by simp)
        · split at hs1
          · exact absurd hs1 (by simp)
          · split at hs1
            · exact absurd hs1 (by simp)
            · rename_i st hst
              refine leafForestBackSolve3d_recv_kept LUstruct K.toSendKept _ _ _ _ _ _ _ ?_ hs1
              exact foldlOpt_inv (fun st : Int × SolveState => P st.2) _
                (fun a k0 b ha hab =>
                  leafForestBackSolve3d_seed_kept LUstruct K.toSendKept _ _ a b _ ha hab)
                _ _ _ (K.frame s _ (by rfl) (by rfl) hinv) hst

/-! ## The mirror `xT` of the solved blocks -/

theorem LeafKept_shape (nrhs : Nat) (xsup : Nat → Nat) (old : List Message) :
    LeafKept nrhs xsup (fun st => ∀ m ∈ st.sent, m ∈ old ∨ WireShape nrhs xsup m) :=
  { frame := fun _ _ _ hs h m hm => h m (hs ▸ hm)
    post := fun _ _ m0 _ hs hw h m hm => by
      rw [hs] at hm
      rcases List.mem_append.mp hm with hm | hm
      · exact h m hm
      · rw [List.mem_singleton.mp hm]
        exact Or.inr hw }

theorem X_BLK_ge (ilsum : Nat → Nat) (nrhs lk : Nat) : XK_H ≤ X_BLK ilsum nrhs lk := by
  unfold X_BLK
  have : XK_H ≤ (lk + 1) * XK_H := Nat.le_mul_of_pos_left _ (Nat.succ_pos lk)
  omega

theorem LSUM_BLK_ge (ilsum : Nat → Nat) (nrhs lk : Nat) : LSUM_H ≤ LSUM_BLK ilsum nrhs lk := by
  unfold LSUM_BLK
  have : LSUM_H ≤ (lk + 1) * LSUM_H := Nat.le_mul_of_pos_left _ (Nat.succ_pos lk)
  omega

/-- What the receiver finds in `recvbuf` after the receipt of a message made of
a header of `H` words and the `size` words of a block, posted from the `H` words
before the block: the first header word and the block. -/
theorem wire_decode (m : Message) (buf : Nat → ℚ) (blk H size : Nat) (r : SolveState)
    (hH : 0 < H) (hblk : H ≤ blk) (hcount : m.count = size + H)
    (hdata : ∀ i, m.data i = buf (blk - H + i)) :
    (MPI_Recv m r).recvbuf 0 = buf (blk - H) ∧
    ∀ i < size, (MPI_Recv m r).recvbuf (H + i) = buf (blk + i) := by
  unfold MPI_Recv
  simp only []
  constructor
  · rw [if_pos (by omega), hdata 0, Nat.add_zero]
  · intro i hi
    rw [if_pos (by omega), hdata (H + i)]
    congr 1
    omega

theorem iBcastXk2Pck_sent (k xhdr nrhs : Nat) (sendList : Nat → Nat → Int)
    (LUstruct : dLUstruct_t) (grid : gridinfo_t) (s : SolveState) :
    ∀ m ∈ (iBcastXk2Pck k xhdr nrhs sendList LUstruct grid s).sent, m ∈ s.sent ∨
      (m.tag = MsgTag.Xk ∧ m.count = SuperSize LUstruct.Glu_persist.xsup k * nrhs + XK_H ∧
        ∀ i, m.data i = s.x (xhdr + i)) := by
  unfold iBcastXk2Pck
  simp only []
  refine (foldl_inv
    (fun a : SolveState => a.x = s.x ∧ ∀ m ∈ a.sent, m ∈ s.sent ∨
      (m.tag = MsgTag.Xk ∧ m.count = SuperSize LUstruct.Glu_persist.xsup k * nrhs + XK_H ∧
        ∀ i, m.data i = s.x (xhdr + i)))
    _ ?_ (List.range grid.nprow) s ⟨rfl, fun m hm => Or.inl hm⟩).2
  intro a p ha
  obtain ⟨ha1, ha2⟩ := ha
  by_cases hc : sendList (LBj k grid) p ≠ EMPTY
  · rw [if_pos hc]
    refine ⟨ha1, ?_⟩
    intro m hm
    have hm2 : m ∈ a.sent ++ [Message.mk (PNUM p (PCOL k grid) grid) MsgTag.Xk
        (SuperSize LUstruct.Glu_persist.xsup k * nrhs + XK_H) (fun i => a.x (xhdr + i))] := hm
    rcases List.mem_append.mp hm2 with h1 | h1
    · exact ha2 m h1
    · rw [List.mem_singleton.mp h1]
      exact Or.inr ⟨rfl, rfl, fun i => by rw [← ha1]⟩
  · rw [if_neg hc]
    exact ⟨ha1, ha2⟩

/-- The layout at the sites of the sends: every message posted by
`leafForestForwardSolve3d` and by `leafForestBackSolve3d`, cascades included, is an `Xk` message of
`SuperSize(k) * nrhs + XK_H` words or an `LSUM` message of
`SuperSize(k) * nrhs + LSUM_H` words for some supernode `k`, where
`XK_H = LSUM_H = 2`.  A message posted by `iBcastXk2Pck` for the block of `x` of
`k` is the `XK_H` header words of the block followed by its `knsupc * nrhs`
values, and the `LSUM` message of the backward seeding loop is the `LSUM_H`
header words of the block of `lsum` followed by its values; after the receipt
the first word of `recvbuf` decodes to `k` when the first header word holds `k`,
and the payload read from the offset `XK_H` (`LSUM_H`) of `recvbuf` is the block
of the sender. -/
theorem leaf_send_sites_layout :
    (∀ (fuel treeId n : Nat) (LUstruct : dLUstruct_t) (trf3Dpartition : dtrf3Dpartition_t)
        (grid3d : gridinfo3d_t) (nrhs : Nat) (env : LeafEnv) (s : SolveState)
        (r : Int × SolveState),
      leafForestForwardSolve3d fuel treeId n LUstruct trf3Dpartition grid3d nrhs env s = some r →
      ∀ m ∈ r.2.sent, m ∈ s.sent ∨ WireShape nrhs LUstruct.Glu_persist.xsup m) ∧
    (∀ (fuel treeId n : Nat) (LUstruct : dLUstruct_t) (trf3Dpartition : dtrf3Dpartition_t)
        (grid3d : gridinfo3d_t) (nrhs : Nat) (env : LeafEnv) (s : SolveState)
        (r : Int × SolveState),
      leafForestBackSolve3d fuel treeId n LUstruct trf3Dpartition grid3d nrhs env s = some r →
      ∀ m ∈ r.2.sent, m ∈ s.sent ∨ WireShape nrhs LUstruct.Glu_persist.xsup m) ∧
    (∀ (k nrhs : Nat) (sendList : Nat → Nat → Int) (LUstruct : dLUstruct_t) (grid : gridinfo_t)
        (s r : SolveState),
      ∀ m ∈ (iBcastXk2Pck k (X_BLK LUstruct.Llu.ilsum nrhs (LBi k grid) - XK_H) nrhs sendList
          LUstruct grid s).sent,
        m ∈ s.sent ∨
        (m.tag = MsgTag.Xk ∧
          m.count = SuperSize LUstruct.Glu_persist.xsup k * nrhs + XK_H ∧
          (s.x (X_BLK LUstruct.Llu.ilsum nrhs (LBi k grid) - XK_H) = (k : ℚ) →
            headerToBlock ((MPI_Recv m r).recvbuf 0) = k) ∧
          ∀ i < SuperSize LUstruct.Glu_persist.xsup k * nrhs,
            (XkPtr.recvbuf XK_H).read (MPI_Recv m r) i
              = s.x (X_BLK LUstruct.Llu.ilsum nrhs (LBi k grid) + i))) ∧
    (∀ (fuel nrhs : Nat) (LUstruct : dLUstruct_t) (grid : gridinfo_t) (nroot : Int)
        (s r : SolveState) (k : Nat),
      MYROW grid.iam grid = PROW k grid → s.bmod (LBi k grid) = 0 →
      MYCOL grid.iam grid ≠ PCOL k grid →
      ∃ st' m, leafForestBackSolve3d_seed fuel nrhs LUstruct grid (nroot, s) k = some st' ∧
        st'.2.sent = s.sent ++ [m] ∧ m.tag = MsgTag.LSUM ∧
        m.count = SuperSize LUstruct.Glu_persist.xsup k * nrhs + LSUM_H ∧
        (s.lsum (LSUM_BLK LUstruct.Llu.ilsum nrhs (LBi k grid) - LSUM_H) = (k : ℚ) →
          headerToBlock ((MPI_Recv m r).recvbuf 0) = k) ∧
        ∀ i < SuperSize LUstruct.Glu_persist.xsup k * nrhs,
          (MPI_Recv m r).recvbuf (LSUM_H + i)
            = s.lsum (LSUM_BLK LUstruct.Llu.ilsum nrhs (LBi k grid) + i)) := by
  refine ⟨?_, ?_, ?_, ?_⟩
  · intro fuel treeId n LUstruct trf3Dpartition grid3d nrhs env s r h
    exact leafForestForwardSolve3d_kept LUstruct
      (LeafKept_shape nrhs LUstruct.Glu_persist.xsup s.sent) fuel treeId n trf3Dpartition grid3d
      env s r (fun m hm => Or.inl hm) h
  · intro fuel treeId n LUstruct trf3Dpartition grid3d nrhs env s r h
    exact leafForestBackSolve3d_kept LUstruct
      (LeafKept_shape nrhs LUstruct.Glu_persist.xsup s.sent) fuel treeId n trf3Dpartition grid3d
      env s r (fun m hm => Or.inl hm) h
  · intro k nrhs sendList LUstruct grid s r m hm
    rcases iBcastXk2Pck_sent k _ nrhs sendList LUstruct grid s m hm with h1 | ⟨h1, h2, h3⟩
    · exact Or.inl h1
    · refine Or.inr ⟨h1, h2, ?_, ?_⟩
      · intro hk
        have hd := (wire_decode m s.x (X_BLK LUstruct.Llu.ilsum nrhs (LBi k grid)) XK_H
          (SuperSize LUstruct.Glu_persist.xsup k * nrhs) r (by decide) (X_BLK_ge _ _ _) h2 h3).1
        rw [hd, hk]
        unfold headerToBlock
        exact Nat.floor_natCast k
      · intro i hi
        have hd := (wire_decode m s.x (X_BLK LUstruct.Llu.ilsum nrhs (LBi k grid)) XK_H
          (SuperSize LUstruct.Glu_persist.xsup k * nrhs) r (by decide) (X_BLK_ge _ _ _) h2 h3).2
          i hi
        exact hd
  · intro fuel nrhs LUstruct grid nroot s r k hrow hz hcol
    have hrun : leafForestBackSolve3d_seed fuel nrhs LUstruct grid (nroot, s) k
        = some (nroot,
          SolveState.logLsumFwd (LBi k grid)
            (MPI_Isend s.lsum (LSUM_BLK LUstruct.Llu.ilsum nrhs (LBi k grid) - LSUM_H)
              (SuperSize LUstruct.Glu_persist.xsup k * nrhs + LSUM_H)
              (PNUM (MYROW grid.iam grid) (PCOL k grid) grid) MsgTag.LSUM s)) := by
      unfold leafForestBackSolve3d_seed
      simp only []
      rw [if_pos hrow, if_pos hz, if_pos hcol]
      rfl
    refine ⟨_, Message.mk (PNUM (MYROW grid.iam grid) (PCOL k grid) grid) MsgTag.LSUM
      (SuperSize LUstruct.Glu_persist.xsup k * nrhs + LSUM_H)
      (fun i => s.lsum (LSUM_BLK LUstruct.Llu.ilsum nrhs (LBi k grid) - LSUM_H + i)),
      hrun, rfl, rfl, rfl, ?_, ?_⟩
    · intro hk
      have hd := (wire_decode
        (Message.mk (PNUM (MYROW grid.iam grid) (PCOL k grid) grid) MsgTag.LSUM
          (SuperSize LUstruct.Glu_persist.xsup k * nrhs + LSUM_H)
          (fun i => s.lsum (LSUM_BLK LUstruct.Llu.ilsum nrhs (LBi k grid) - LSUM_H + i)))
        s.lsum (LSUM_BLK LUstruct.Llu.ilsum nrhs (LBi k grid)) LSUM_H
        (SuperSize LUstruct.Glu_persist.xsup k * nrhs) r (by decide) (LSUM_BLK_ge _ _ _) rfl
        (fun _ => rfl)).1
      rw [hd, hk]
      unfold headerToBlock
      exact Nat.floor_natCast k
    · intro i hi
      exact (wire_decode
        (Message.mk (PNUM (MYROW grid.iam grid) (PCOL k grid) grid) MsgTag.LSUM
          (SuperSize LUstruct.Glu_persist.xsup k * nrhs + LSUM_H)
          (fun i => s.lsum (LSUM_BLK LUstruct.Llu.ilsum nrhs (LBi k grid) - LSUM_H + i)))
        s.lsum (LSUM_BLK LUstruct.Llu.ilsum nrhs (LBi k grid)) LSUM_H
        (SuperSize LUstruct.Glu_persist.xsup k * nrhs) r (by decide) (LSUM_BLK_ge _ _ _) rfl
        (fun _ => rfl)).2 i hi

theorem leaf_send_sites_layout_example :
    ∀ m ∈ (iBcastXk2Pck 0 (X_BLK LUBack.Llu.ilsum 1 (LBi 0 grid1x1) - XK_H) 1 (fun _ _ => 0)
        LUBack grid1x1 stateX).sent,
      m.tag = MsgTag.Xk ∧ m.count = 3 ∧
        headerToBlock ((MPI_Recv m state0).recvbuf 0) = 0 ∧
        (XkPtr.recvbuf XK_H).read (MPI_Recv m state0) 0 = 5 := by
  intro m hm
  rcases leaf_send_sites_layout.2.2.1 0 1 (fun _ _ => 0) LUBack grid1x1 stateX state0 m hm
    with h | ⟨h1, h2, h3, h4⟩
  · exact absurd h (List.not_mem_nil _)
  · refine ⟨h1, h2, h3 (by decide!), ?_⟩
    rw [h4 0 (by decide)]
    decide!

/-- Boundaries that increase step by step increase. -/
theorem xsup_le_of_le (xsup : Nat → Nat) (N : Nat) (h : ∀ k < N, xsup k < xsup (k + 1)) :
    ∀ k' k, k ≤ k' → k' ≤ N → xsup k ≤ xsup k' := by
  intro k'
  induction k' with
  | zero =>
    intro k hk _
    have : k = 0 := by omega
    subst this
    exact le_refl _
  | succ k' ih =>
    intro k hk hN
    rcases Nat.lt_succ_iff_lt_or_eq.1 (Nat.lt_succ_of_le hk) with hlt | heq
    · have h1 := ih k (by omega) (by omega)
      have h2 := h k' (by omega)
      omega
    · subst heq
      exact le_refl _

/-- The supernode of a row is the one whose boundaries enclose it. -/
theorem supno_unique (xsup supno : Nat → Nat) (N n : Nat)
    (hlt : ∀ k < N, xsup k < xsup (k + 1))
    (hrow : ∀ r < n, supno r < N ∧ xsup (supno r) ≤ r ∧ r < xsup (supno r + 1))
    (k r : Nat) (hk : k < N) (hr : r < n) (h1 : xsup k ≤ r) (h2 : r < xsup (k + 1)) :
    supno r = k := by
  obtain ⟨a1, a2, a3⟩ := hrow r hr
  by_contra hne
  rcases Nat.lt_or_gt_of_ne hne with hc | hc
  · have := xsup_le_of_le xsup N hlt k (supno r + 1) (by omega) (by omega)
    omega
  · have := xsup_le_of_le xsup N hlt (supno r) (k + 1) (by omega) (by omega)
    omega

theorem add_mul_lt {i j sz nrhs : Nat} (hi : i < sz) (hj : j < nrhs) :
    i + j * sz < sz * nrhs := by
  have h : (j + 1) * sz ≤ nrhs * sz := Nat.mul_le_mul_right _ hj
  rw [Nat.add_mul, Nat.mul_comm nrhs sz] at h
  omega

/-- The block of `x` of a supernode ends, header of the next block included,
before the block of a later supernode starts. -/
theorem X_BLK_gap (ilsum xsup : Nat → Nat) (nrhs k k' : Nat) (hk : k < k')
    (h : ilsum k + SuperSize xsup k ≤ ilsum k') :
    X_BLK ilsum nrhs k + SuperSize xsup k * nrhs + XK_H ≤ X_BLK ilsum nrhs k' := by
  unfold X_BLK XK_H
  have h1 : (ilsum k + SuperSize xsup k) * nrhs ≤ ilsum k' * nrhs := Nat.mul_le_mul_right _ h
  rw [Nat.add_mul] at h1
  omega

/-- Within its block, a row of the permuted system lies below the block end. -/
theorem xRowIndex_bounds (n nrhs : Nat) (LUstruct : dLUstruct_t)
    (hrow : ∀ r < n, LUstruct.Glu_persist.supno r < LUstruct.Glu_persist.supno (n - 1) + 1 ∧
      LUstruct.Glu_persist.xsup (LUstruct.Glu_persist.supno r) ≤ r ∧
      r < LUstruct.Glu_persist.xsup (LUstruct.Glu_persist.supno r + 1))
    (r j : Nat) (hr : r < n) (hj : j < nrhs) :
    X_BLK LUstruct.Llu.ilsum nrhs (LUstruct.Glu_persist.supno r)
        ≤ xRowIndex LUstruct.Llu.ilsum nrhs LUstruct.Glu_persist r j ∧
      xRowIndex LUstruct.Llu.ilsum nrhs LUstruct.Glu_persist r j
        < X_BLK LUstruct.Llu.ilsum nrhs (LUstruct.Glu_persist.supno r)
          + SuperSize LUstruct.Glu_persist.xsup (LUstruct.Glu_persist.supno r) * nrhs := by
  obtain ⟨_, a2, a3⟩ := hrow r hr
  have hsz : r - LUstruct.Glu_persist.xsup (LUstruct.Glu_persist.supno r)
      < SuperSize LUstruct.Glu_persist.xsup (LUstruct.Glu_persist.supno r) := by
    unfold SuperSize
    omega
  have := add_mul_lt hsz hj
  unfold xRowIndex
  omega

/-- Two distinct rows never share a position of `x`. -/
theorem xRowIndex_ne (n nrhs : Nat) (LUstruct : dLUstruct_t)
    (ScalePermstruct : dScalePermstruct_t) (grid3d : gridinfo3d_t)
    (SOLVEstruct : dSOLVEstruct_t)
    (h : OneProcessRows n nrhs LUstruct ScalePermstruct grid3d SOLVEstruct)
    (r r' j j' : Nat) (hr : r < n) (hr' : r' < n) (hj : j < nrhs) (hj' : j' < nrhs)
    (hne : r ≠ r') :
    xRowIndex LUstruct.Llu.ilsum nrhs LUstruct.Glu_persist r j
      ≠ xRowIndex LUstruct.Llu.ilsum nrhs LUstruct.Glu_persist r' j' := by
  obtain ⟨b1, b2⟩ := xRowIndex_bounds n nrhs LUstruct h.supno_row r j hr hj
  obtain ⟨c1, c2⟩ := xRowIndex_bounds n nrhs LUstruct h.supno_row r' j' hr' hj'
  obtain ⟨a1, a2, a3⟩ := h.supno_row r hr
  obtain ⟨a1', a2', a3'⟩ := h.supno_row r' hr'
  rcases Nat.lt_trichotomy (LUstruct.Glu_persist.supno r) (LUstruct.Glu_persist.supno r')
    with hc | hc | hc
  · have := X_BLK_gap LUstruct.Llu.ilsum LUstruct.Glu_persist.xsup nrhs _ _ hc
      (h.ilsum_blk _ a1' _ hc)
    omega
  · unfold xRowIndex
    rw [hc] at a2 a3 ⊢
    refine strided_ne ?_ ?_ ?_
    · unfold SuperSize
      omega
    · unfold SuperSize
      omega
    · omega
  · have := X_BLK_gap LUstruct.Llu.ilsum LUstruct.Glu_persist.xsup nrhs _ _ hc
      (h.ilsum_blk _ a1 _ hc)
    omega

/-- No row shares a position of `x` with the first header word of a block. -/
theorem xRowIndex_ne_header (n nrhs : Nat) (LUstruct : dLUstruct_t)
    (ScalePermstruct : dScalePermstruct_t) (grid3d : gridinfo3d_t)
    (SOLVEstruct : dSOLVEstruct_t)
    (h : OneProcessRows n nrhs LUstruct ScalePermstruct grid3d SOLVEstruct)
    (r j k : Nat) (hr : r < n) (hj : j < nrhs)
    (hk : k < LUstruct.Glu_persist.supno (n - 1) + 1) :
    xRowIndex LUstruct.Llu.ilsum nrhs LUstruct.Glu_persist r j
      ≠ X_BLK LUstruct.Llu.ilsum nrhs k - XK_H := by
  obtain ⟨b1, b2⟩ := xRowIndex_bounds n nrhs LUstruct h.supno_row r j hr hj
  obtain ⟨a1, a2, a3⟩ := h.supno_row r hr
  have hX : XK_H ≤ X_BLK LUstruct.Llu.ilsum nrhs k := X_BLK_ge _ _ _
  have hX2 : XK_H = 2 := rfl
  rcases Nat.lt_trichotomy (LUstruct.Glu_persist.supno r) k with hc | hc | hc
  · have := X_BLK_gap LUstruct.Llu.ilsum LUstruct.Glu_persist.xsup nrhs _ _ hc
      (h.ilsum_blk _ hk _ hc)
    omega
  · rw [hc] at b1
    omega
  · have := X_BLK_gap LUstruct.Llu.ilsum LUstruct.Glu_persist.xsup nrhs _ _ hc
      (h.ilsum_blk _ a1 _ hc)
    omega

/-- The packing loop of `pdReDistribute3d_B_to_X` on one process: row `i` puts
its permuted index at position `i` of the index buffer and its `nrhs` values at
position `i * nrhs` of the value buffer. -/
theorem B_to_X_pack_rows (B : Nat → ℚ) (n nrhs ldb : Nat) (ScalePermstruct : dScalePermstruct_t)
    (Glu_persist : Glu_persist_t)
    (st0 : RedistBuf) (h0 : st0.ptr_to_ibuf 0 = 0) (h1 : st0.ptr_to_dbuf 0 = 0) :
    (∀ i < n, (pdReDistribute3d_B_to_X_pack B n nrhs ldb 0 ScalePermstruct Glu_persist
      { iam := 0, nprow := 1, npcol := 1 } st0).ibuf i
        = ScalePermstruct.perm_c (ScalePermstruct.perm_r i)) ∧
    (∀ i < n, ∀ j < nrhs, (pdReDistribute3d_B_to_X_pack B n nrhs ldb 0 ScalePermstruct
      Glu_persist { iam := 0, nprow := 1, npcol := 1 } st0).dbuf (i * nrhs + j)
        = B (i + j * ldb)) := by
  have heq : pdReDistribute3d_B_to_X_pack B n nrhs ldb 0 ScalePermstruct Glu_persist
      { iam := 0, nprow := 1, npcol := 1 } st0
      = (List.range n).foldl
      (fun (st : RedistBuf) i =>
        ({ ibuf := Function.update st.ibuf (st.ptr_to_ibuf 0)
             ((fun i => ScalePermstruct.perm_c (ScalePermstruct.perm_r i)) i)
           dbuf := (List.range nrhs).foldl
             (fun dbuf j => Function.update dbuf (st.ptr_to_dbuf 0 + j)
               ((fun i j => B (i + j * ldb)) i j)) st.dbuf
           ptr_to_ibuf := Function.update st.ptr_to_ibuf 0 (st.ptr_to_ibuf 0 + 1)
           ptr_to_dbuf := Function.update st.ptr_to_dbuf 0 (st.ptr_to_dbuf 0 + nrhs) } :
          RedistBuf))
      st0 := by
    unfold pdReDistribute3d_B_to_X_pack
    apply List.foldl_ext
    intro st i _
    simp only [zero_add, PNUM, PROW, PCOL, Nat.mod_one, zero_mul]
  rw [heq]
  obtain ⟨_, _, a3, a4⟩ := pack_loop nrhs
    (fun i => ScalePermstruct.perm_c (ScalePermstruct.perm_r i)) (fun i j => B (i + j * ldb))
    n st0 h0 h1
  exact ⟨a3, a4⟩

/-- The copy of the receive buffers into `x` on one process: the values of the
`i`-th received row land at the positions of the row `perm_c[perm_r[i]]`. -/
theorem B_to_X_unpack_rows (n nrhs : Nat) (LUstruct : dLUstruct_t)
    (ScalePermstruct : dScalePermstruct_t) (grid3d : gridinfo3d_t)
    (SOLVEstruct : dSOLVEstruct_t)
    (h : OneProcessRows n nrhs LUstruct ScalePermstruct grid3d SOLVEstruct)
    (x : Nat → ℚ) (RecvCnt rdispls_nrhs : Nat → Nat)
    (hR : RecvCnt 0 = n) (hd : rdispls_nrhs 0 = 0) (recv_ibuf : Nat → Nat)
    (recv_dbuf : Nat → ℚ)
    (hri : ∀ i < n, recv_ibuf i = ScalePermstruct.perm_c (ScalePermstruct.perm_r i)) :
    ∀ i < n, ∀ j < nrhs,
      pdReDistribute3d_B_to_X_unpack x 1 nrhs RecvCnt rdispls_nrhs recv_ibuf recv_dbuf
        LUstruct.Llu.ilsum LUstruct.Glu_persist { iam := 0, nprow := 1, npcol := 1 }
        (xRowIndex LUstruct.Llu.ilsum nrhs LUstruct.Glu_persist
          (ScalePermstruct.perm_c (ScalePermstruct.perm_r i)) j)
        = recv_dbuf (i * nrhs + j) := by
  have key : ∀ m, m ≤ n →
      let r := (List.range m).foldl
        (fun (st : (Nat → ℚ) × Nat × Nat) (_ : Nat) =>
          ((List.range nrhs).foldl
            (fun x j => Function.update x
              (X_BLK LUstruct.Llu.ilsum nrhs
                  (LBi (BlockNum LUstruct.Glu_persist.supno (recv_ibuf st.2.1))
                  { iam := 0, nprow := 1, npcol := 1 })
                + (recv_ibuf st.2.1
                  - FstBlockC LUstruct.Glu_persist.xsup
                    (BlockNum LUstruct.Glu_persist.supno (recv_ibuf st.2.1)))
                + j * SuperSize LUstruct.Glu_persist.xsup
                    (BlockNum LUstruct.Glu_persist.supno (recv_ibuf st.2.1)))
              (recv_dbuf (st.2.2 + j)))
            (Function.update st.1
              (X_BLK LUstruct.Llu.ilsum nrhs
                  (LBi (BlockNum LUstruct.Glu_persist.supno (recv_ibuf st.2.1))
                  { iam := 0, nprow := 1, npcol := 1 }) - XK_H)
              ((BlockNum LUstruct.Glu_persist.supno (recv_ibuf st.2.1) : Nat) : ℚ)),
           st.2.1 + 1, st.2.2 + nrhs))
        (x, 0, 0)
      r.2.1 = m ∧ r.2.2 = m * nrhs ∧
        ∀ i < m, ∀ j < nrhs,
          r.1 (xRowIndex LUstruct.Llu.ilsum nrhs LUstruct.Glu_persist
            (ScalePermstruct.perm_c (ScalePermstruct.perm_r i)) j)
            = recv_dbuf (i * nrhs + j) := by
    intro m
    induction m with
    | zero =>
      intro _
      exact ⟨rfl, by simp, fun i hi => absurd hi (Nat.not_lt_zero _)⟩
    | succ m ih =>
      intro hm
      obtain ⟨a1, a2, a3⟩ := ih (Nat.le_of_succ_le hm)
      simp only [List.range_succ, List.foldl_append, List.foldl_cons, List.foldl_nil]
      generalize (List.range m).foldl _ (x, 0, 0) = r at a1 a2 a3
      have hmn : m < n := hm
      simp only [a1, a2, hri m hmn, BlockNum, LBi, Nat.div_one, FstBlockC]
      refine ⟨trivial, by rw [Nat.add_mul, one_mul], fun i hi j hj => ?_⟩
      obtain ⟨q1, q2, q3⟩ := h.supno_row _ (h.perm_lt m hmn)
      have hsz : 1 ≤ SuperSize LUstruct.Glu_persist.xsup
          (LUstruct.Glu_persist.supno (ScalePermstruct.perm_c (ScalePermstruct.perm_r m))) := by
        unfold SuperSize
        omega
      obtain ⟨s1, s2⟩ := foldl_update_strided nrhs
        (X_BLK LUstruct.Llu.ilsum nrhs
            (LUstruct.Glu_persist.supno (ScalePermstruct.perm_c (ScalePermstruct.perm_r m)))
          + (ScalePermstruct.perm_c (ScalePermstruct.perm_r m)
            - LUstruct.Glu_persist.xsup
              (LUstruct.Glu_persist.supno (ScalePermstruct.perm_c (ScalePermstruct.perm_r m)))))
        (SuperSize LUstruct.Glu_persist.xsup
          (LUstruct.Glu_persist.supno (ScalePermstruct.perm_c (ScalePermstruct.perm_r m))))
        hsz (fun j => recv_dbuf (m * nrhs + j))
        (Function.update r.1
          (X_BLK LUstruct.Llu.ilsum nrhs
            (LUstruct.Glu_persist.supno (ScalePermstruct.perm_c (ScalePermstruct.perm_r m)))
            - XK_H)
          ((LUstruct.Glu_persist.supno (ScalePermstruct.perm_c (ScalePermstruct.perm_r m))
            : Nat) : ℚ))
      rcases Nat.lt_succ_iff_lt_or_eq.1 hi with hlt | heq
      · have hne : ScalePermstruct.perm_c (ScalePermstruct.perm_r i)
            ≠ ScalePermstruct.perm_c (ScalePermstruct.perm_r m) := by
          intro hc
          have := h.perm_inj i (lt_trans hlt hmn) m hmn hc
          omega
        rw [s2 _ (fun j' hj' => xRowIndex_ne n nrhs LUstruct ScalePermstruct grid3d SOLVEstruct h
          _ _ j j' (h.perm_lt i (lt_trans hlt hmn)) (h.perm_lt m hmn) hj hj' hne)]
        rw [Function.update_noteq (xRowIndex_ne_header n nrhs LUstruct ScalePermstruct grid3d
          SOLVEstruct h _ j _ (h.perm_lt i (lt_trans hlt hmn)) hj q1)]
        exact a3 i hlt j hj
      · subst heq
        exact s1 j hj
  intro i hi j hj
  unfold pdReDistribute3d_B_to_X_unpack
  simp only [List.range_succ, List.range_zero, List.nil_append, List.foldl_cons,
    List.foldl_nil, hR, hd]
  exact (key n (le_refl n)).2.2 i hi j hj

/-- The packing loop started at the position `a`: the `m` rows are appended to
the buffers, whose content below `a` is kept. -/
theorem pack_loop_from (nrhs : Nat) (row : Nat → Nat) (val : Nat → Nat → ℚ) (a m : Nat) :
    ∀ st0 : RedistBuf, st0.ptr_to_ibuf 0 = a → st0.ptr_to_dbuf 0 = a * nrhs →
    let st := (List.range m).foldl
      (fun (st : RedistBuf) i =>
        ({ ibuf := Function.update st.ibuf (st.ptr_to_ibuf 0) (row i)
           dbuf := (List.range nrhs).foldl
             (fun dbuf j => Function.update dbuf (st.ptr_to_dbuf 0 + j) (val i j)) st.dbuf
           ptr_to_ibuf := Function.update st.ptr_to_ibuf 0 (st.ptr_to_ibuf 0 + 1)
           ptr_to_dbuf := Function.update st.ptr_to_dbuf 0 (st.ptr_to_dbuf 0 + nrhs) } :
          RedistBuf))
      st0
    st.ptr_to_ibuf 0 = a + m ∧ st.ptr_to_dbuf 0 = (a + m) * nrhs ∧
      (∀ i < m, st.ibuf (a + i) = row i) ∧
      (∀ i < m, ∀ j < nrhs, st.dbuf ((a + i) * nrhs + j) = val i j) ∧
      (∀ p < a, st.ibuf p = st0.ibuf p) ∧ (∀ q < a * nrhs, st.dbuf q = st0.dbuf q) := by
  induction m with
  | zero =>
    intro st0 h0 h1
    exact ⟨h0, by simpa using h1, fun i hi => absurd hi (Nat.not_lt_zero _),
      fun i hi => absurd hi (Nat.not_lt_zero _), fun _ _ => rfl, fun _ _ => rfl⟩
  | succ m ih =>
    intro st0 h0 h1
    obtain ⟨a1, a2, a3, a4, a5, a6⟩ := ih st0 h0 h1
    simp only [List.range_succ, List.foldl_append, List.foldl_cons, List.foldl_nil]
    generalize (List.range m).foldl
      (fun (st : RedistBuf) i =>
        ({ ibuf := Function.update st.ibuf (st.ptr_to_ibuf 0) (row i)
           dbuf := (List.range nrhs).foldl
             (fun dbuf j => Function.update dbuf (st.ptr_to_dbuf 0 + j) (val i j)) st.dbuf
           ptr_to_ibuf := Function.update st.ptr_to_ibuf 0 (st.ptr_to_ibuf 0 + 1)
           ptr_to_dbuf := Function.update st.ptr_to_dbuf 0 (st.ptr_to_dbuf 0 + nrhs) } :
          RedistBuf))
      st0 = st at a1 a2 a3 a4 a5 a6
    have hmul : (a + m) * nrhs + nrhs = (a + (m + 1)) * nrhs := by
      rw [← Nat.add_assoc, Nat.add_mul (a + m) 1 nrhs, one_mul]
    refine ⟨?_, ?_, fun i hi => ?_, fun i hi j hj => ?_, fun p hp => ?_, fun q hq => ?_⟩
    · simp [a1, Nat.add_assoc]
    · simp [a2, hmul]
    · rw [a1]
      rcases Nat.lt_succ_iff_lt_or_eq.1 hi with hlt | heq
      · rw [Function.update_noteq (by omega)]
        exact a3 i hlt
      · subst heq
        rw [Function.update_same]
    · rw [a2, foldl_update_offset]
      rcases Nat.lt_succ_iff_lt_or_eq.1 hi with hlt | heq
      · have hlt2 : (a + i) * nrhs + j < (a + m) * nrhs :=
          mul_add_lt (Nat.add_lt_add_left hlt a) hj
        have : ¬ ((a + m) * nrhs ≤ (a + i) * nrhs + j
            ∧ (a + i) * nrhs + j < (a + m) * nrhs + nrhs) := by omega
        rw [if_neg this]
        exact a4 i hlt j hj
      · subst heq
        have : (a + i) * nrhs ≤ (a + i) * nrhs + j
            ∧ (a + i) * nrhs + j < (a + i) * nrhs + nrhs := by omega
        rw [if_pos this]
        congr 1
        omega
    · rw [a1, Function.update_noteq (by omega)]
      exact a5 p hp
    · rw [a2, foldl_update_offset]
      have hle : a * nrhs ≤ (a + m) * nrhs := Nat.mul_le_mul_right _ (Nat.le_add_right a m)
      have : ¬ ((a + m) * nrhs ≤ q ∧ q < (a + m) * nrhs + nrhs) := by omega
      rw [if_neg this]
      exact a6 q hq

/-- The packing loop of `pdReDistribute3d_X_to_B` on one process, supernode by
supernode: after the supernodes `0 .. K-1` the cursors stand at `xsup[K]` and
row `r < xsup[K]` has its index at position `r` of the index buffer and its
values at position `r * nrhs` of the value buffer. -/
theorem X_to_B_pack_prefix (n nrhs : Nat) (LUstruct : dLUstruct_t)
    (ScalePermstruct : dScalePermstruct_t) (grid3d : gridinfo3d_t)
    (SOLVEstruct : dSOLVEstruct_t)
    (h : OneProcessRows n nrhs LUstruct ScalePermstruct grid3d SOLVEstruct)
    (x : Nat → ℚ) (st0 : RedistBuf) (h0 : st0.ptr_to_ibuf 0 = 0) (h1 : st0.ptr_to_dbuf 0 = 0) :
    ∀ K, K ≤ LUstruct.Glu_persist.supno (n - 1) + 1 →
      (pdReDistribute3d_X_to_B_pack K nrhs x LUstruct.Llu.ilsum LUstruct.Glu_persist
        { iam := 0, nprow := 1, npcol := 1 } SOLVEstruct st0).ptr_to_ibuf 0
          = LUstruct.Glu_persist.xsup K ∧
      (pdReDistribute3d_X_to_B_pack K nrhs x LUstruct.Llu.ilsum LUstruct.Glu_persist
        { iam := 0, nprow := 1, npcol := 1 } SOLVEstruct st0).ptr_to_dbuf 0
          = LUstruct.Glu_persist.xsup K * nrhs ∧
      (∀ r < LUstruct.Glu_persist.xsup K,
        (pdReDistribute3d_X_to_B_pack K nrhs x LUstruct.Llu.ilsum LUstruct.Glu_persist
          { iam := 0, nprow := 1, npcol := 1 } SOLVEstruct st0).ibuf r = r) ∧
      (∀ r < LUstruct.Glu_persist.xsup K, ∀ j < nrhs,
        (pdReDistribute3d_X_to_B_pack K nrhs x LUstruct.Llu.ilsum LUstruct.Glu_persist
          { iam := 0, nprow := 1, npcol := 1 } SOLVEstruct st0).dbuf (r * nrhs + j)
            = x (xRowIndex LUstruct.Llu.ilsum nrhs LUstruct.Glu_persist r j)) := by
  have hstep : ∀ K, K < LUstruct.Glu_persist.supno (n - 1) + 1 →
      pdReDistribute3d_X_to_B_pack (K + 1) nrhs x LUstruct.Llu.ilsum LUstruct.Glu_persist
        { iam := 0, nprow := 1, npcol := 1 } SOLVEstruct st0
      = (List.range (SuperSize LUstruct.Glu_persist.xsup K)).foldl
        (fun (st : RedistBuf) i =>
          ({ ibuf := Function.update st.ibuf (st.ptr_to_ibuf 0)
               ((fun i => LUstruct.Glu_persist.xsup K + i) i)
             dbuf := (List.range nrhs).foldl
               (fun dbuf j => Function.update dbuf (st.ptr_to_dbuf 0 + j)
                 ((fun i j => x (X_BLK LUstruct.Llu.ilsum nrhs K + i
                   + j * SuperSize LUstruct.Glu_persist.xsup K)) i j)) st.dbuf
             ptr_to_ibuf := Function.update st.ptr_to_ibuf 0 (st.ptr_to_ibuf 0 + 1)
             ptr_to_dbuf := Function.update st.ptr_to_dbuf 0 (st.ptr_to_dbuf 0 + nrhs) } :
            RedistBuf))
        (pdReDistribute3d_X_to_B_pack K nrhs x LUstruct.Llu.ilsum LUstruct.Glu_persist
          { iam := 0, nprow := 1, npcol := 1 } SOLVEstruct st0) := by
    intro K hK
    unfold pdReDistribute3d_X_to_B_pack
    have hr1 : List.range 1 = [0] := rfl
    simp only [h.ndiag, hr1, List.foldl_cons, List.foldl_nil, h.diag0, if_true, Nat.sub_zero,
      Nat.add_sub_cancel, Nat.div_one, List.range_succ, List.map_append, List.map_cons,
      List.map_nil, List.foldl_append, zero_add, mul_one, LBi, FstBlockC]
    apply List.foldl_ext
    intro st i hi
    rw [List.mem_range] at hi
    have hlt := h.xsup_lt K hK
    have hle := xsup_le_of_le LUstruct.Glu_persist.xsup _ h.xsup_lt
      (LUstruct.Glu_persist.supno (n - 1) + 1) (K + 1) (by omega) (le_refl _)
    have hn := h.xsup_n
    have hrow : SOLVEstruct.row_to_proc (LUstruct.Glu_persist.xsup K + i) = 0 := by
      apply h.row_to_proc
      unfold SuperSize at hi
      omega
    simp only [hrow]
  intro K
  induction K with
  | zero =>
    intro _
    have hz : pdReDistribute3d_X_to_B_pack 0 nrhs x LUstruct.Llu.ilsum LUstruct.Glu_persist
        { iam := 0, nprow := 1, npcol := 1 } SOLVEstruct st0 = st0 := by
      unfold pdReDistribute3d_X_to_B_pack
      have hr1 : List.range 1 = [0] := rfl
      simp only [h.ndiag, hr1, List.foldl_cons, List.foldl_nil, h.diag0, if_true, Nat.sub_zero,
        Nat.zero_add, Nat.sub_self, Nat.zero_div, List.range_zero, List.map_nil]
    rw [hz, h.xsup0]
    exact ⟨h0, by simpa using h1, fun r hr => absurd hr (Nat.not_lt_zero _),
      fun r hr => absurd hr (Nat.not_lt_zero _)⟩
  | succ K ih =>
    intro hK
    have hK2 : K < LUstruct.Glu_persist.supno (n - 1) + 1 := hK
    obtain ⟨a1, a2, a3, a4⟩ := ih (Nat.le_of_lt hK2)
    rw [hstep K hK2]
    generalize pdReDistribute3d_X_to_B_pack K nrhs x LUstruct.Llu.ilsum LUstruct.Glu_persist
      { iam := 0, nprow := 1, npcol := 1 } SOLVEstruct st0 = stK at a1 a2 a3 a4
    obtain ⟨b1, b2, b3, b4, b5, b6⟩ := pack_loop_from nrhs
      (fun i => LUstruct.Glu_persist.xsup K + i)
      (fun i j => x (X_BLK LUstruct.Llu.ilsum nrhs K + i
        + j * SuperSize LUstruct.Glu_persist.xsup K))
      (LUstruct.Glu_persist.xsup K) (SuperSize LUstruct.Glu_persist.xsup K) stK a1 a2
    have hlt := h.xsup_lt K hK2
    have hsum : LUstruct.Glu_persist.xsup K + SuperSize LUstruct.Glu_persist.xsup K
        = LUstruct.Glu_persist.xsup (K + 1) := by
      unfold SuperSize
      omega
    have hle := xsup_le_of_le LUstruct.Glu_persist.xsup _ h.xsup_lt
      (LUstruct.Glu_persist.supno (n - 1) + 1) (K + 1) (by omega) (le_refl _)
    have hn := h.xsup_n
    rw [hsum] at b1 b2
    refine ⟨b1, b2, fun r hr => ?_, fun r hr j hj => ?_⟩
    · by_cases hc : r < LUstruct.Glu_persist.xsup K
      · rw [b5 r hc]
        exact a3 r hc
      · have hi : r - LUstruct.Glu_persist.xsup K < SuperSize LUstruct.Glu_persist.xsup K := by
          unfold SuperSize
          omega
        have hb := b3 _ hi
        have he : LUstruct.Glu_persist.xsup K + (r - LUstruct.Glu_persist.xsup K) = r := by
          omega
        rw [he] at hb
        exact hb
    · by_cases hc : r < LUstruct.Glu_persist.xsup K
      · rw [b6 _ (mul_add_lt hc hj)]
        exact a4 r hc j hj
      · have hi : r - LUstruct.Glu_persist.xsup K < SuperSize LUstruct.Glu_persist.xsup K := by
          unfold SuperSize
          omega
        have hb := b4 _ hi j hj
        have he : LUstruct.Glu_persist.xsup K + (r - LUstruct.Glu_persist.xsup K) = r := by
          omega
        rw [he] at hb
        rw [hb]
        have hs : LUstruct.Glu_persist.supno r = K :=
          supno_unique LUstruct.Glu_persist.xsup LUstruct.Glu_persist.supno _ n h.xsup_lt
            h.supno_row K r hK2 (by omega) (by omega) hr
        unfold xRowIndex
        rw [hs]

/-- The copy of the receive buffers into `B` when the received row indices are
`0 .. n-1` in order: row `i` of right-hand side `j` lands at `i + j * ldb`, and
nothing else of `B` is written. -/
theorem X_to_B_unpack_rows (B : Nat → ℚ) (n ldb nrhs : Nat) (hldb : n ≤ ldb)
    (recv_ibuf : Nat → Nat) (recv_dbuf : Nat → ℚ) (hri : ∀ i < n, recv_ibuf i = i) :
    ∃ B', pdReDistribute3d_X_to_B_unpack B n ldb 0 nrhs recv_ibuf recv_dbuf = some B' ∧
      (∀ i < n, ∀ j < nrhs, B' (i + j * ldb) = recv_dbuf (i * nrhs + j)) ∧
      (∀ p, (∀ i < n, ∀ j < nrhs, p ≠ i + j * ldb) → B' p = B p) := by
  have key : ∀ m, m ≤ n → ∃ Bm,
      foldlOpt
        (fun (st : (Nat → ℚ) × Nat) i =>
          if recv_ibuf i < 0 then none
          else
            some ((List.range nrhs).foldl
              (fun B j => Function.update B (recv_ibuf i - 0 + j * ldb) (recv_dbuf (st.2 + j)))
              st.1, st.2 + nrhs))
        (B, 0) (List.range m) = some (Bm, m * nrhs) ∧
      (∀ i < m, ∀ j < nrhs, Bm (i + j * ldb) = recv_dbuf (i * nrhs + j)) ∧
      (∀ p, (∀ i < m, ∀ j < nrhs, p ≠ i + j * ldb) → Bm p = B p) := by
    intro m
    induction m with
    | zero =>
      intro _
      exact ⟨B, by simp [foldlOpt], fun i hi => absurd hi (Nat.not_lt_zero _), fun _ _ => rfl⟩
    | succ m ih =>
      intro hm
      obtain ⟨Bm, a1, a2, a3⟩ := ih (Nat.le_of_succ_le hm)
      have hmn : m < n := hm
      have hl : 1 ≤ ldb := by omega
      rw [List.range_succ, foldlOpt_concat, a1]
      obtain ⟨s1, s2⟩ := foldl_update_strided nrhs m ldb hl
        (fun j => recv_dbuf (m * nrhs + j)) Bm
      refine ⟨(List.range nrhs).foldl
          (fun B j => Function.update B (m + j * ldb) (recv_dbuf (m * nrhs + j))) Bm, ?_,
        fun i hi j hj => ?_, fun p hp => ?_⟩
      · show (if recv_ibuf m < 0 then none
          else
            some ((List.range nrhs).foldl
              (fun B j => Function.update B (recv_ibuf m - 0 + j * ldb)
                (recv_dbuf (m * nrhs + j)))
              Bm, m * nrhs + nrhs)) = _
        simp only [Nat.not_lt_zero, if_false, hri m hmn, Nat.sub_zero]
        rw [Nat.add_mul, one_mul]
      · rcases Nat.lt_succ_iff_lt_or_eq.1 hi with hlt | heq
        · rw [s2 _ (fun j' _ => strided_ne' hldb (lt_trans hlt hmn) hmn (Nat.ne_of_lt hlt))]
          exact a2 i hlt j hj
        · subst heq
          exact s1 j hj
      · rw [s2 p (fun j hj => hp m (Nat.lt_succ_self m) j hj)]
        exact a3 p (fun i hi j hj => hp i (Nat.lt_succ_of_lt hi) j hj)
  obtain ⟨Bn, b1, b2, b3⟩ := key n (le_refl n)
  refine ⟨Bn, ?_, b2, b3⟩
  unfold pdReDistribute3d_X_to_B_unpack
  rw [b1]
  rfl

/-- The routine `pdReDistribute3d_B_to_X` on one process: row `i` of `B` lands
at the positions of the row `perm_c[perm_r[i]]` of `x`. -/
theorem B_to_X_rows (n nrhs ldb : Nat) (LUstruct : dLUstruct_t)
    (ScalePermstruct : dScalePermstruct_t) (grid3d : gridinfo3d_t)
    (SOLVEstruct : dSOLVEstruct_t)
    (h : OneProcessRows n nrhs LUstruct ScalePermstruct grid3d SOLVEstruct)
    (B x : Nat → ℚ) (heap : RedistBuf) :
    ∃ r, pdReDistribute3d_B_to_X B n nrhs ldb 0 LUstruct.Llu.ilsum x ScalePermstruct
        LUstruct.Glu_persist grid3d SOLVEstruct heap = some r ∧
      ∀ i < n, ∀ j < nrhs,
        r.1 (xRowIndex LUstruct.Llu.ilsum nrhs LUstruct.Glu_persist
          (ScalePermstruct.perm_c (ScalePermstruct.perm_r i)) j) = B (i + j * ldb) := by
  have hg := grid_one_eq grid3d.grid2d h.iam h.nprow h.npcol
  obtain ⟨c0, c1, c2, c3, c4, c5, c6, c7⟩ := getD8 n (n * nrhs) n (n * nrhs) 0 0 0 0
  have d0 := (h.cntB 0).trans c0
  have d1 := (h.cntB 1).trans c1
  have d2 := (h.cntB 2).trans c2
  have d3 := (h.cntB 3).trans c3
  have d4 := (h.cntB 4).trans c4
  have d5 := (h.cntB 5).trans c5
  have d6 := (h.cntB 6).trans c6
  have d7 := (h.cntB 7).trans c7
  unfold pdReDistribute3d_B_to_X
  simp only [h.layer, hg, ne_eq, not_true_eq_false, if_false, mul_one, Nat.sub_self, zero_add,
    Nat.add_zero, d0, d1, d2, d3, d4, d5, d6, d7, MPI_Alltoallv_self, Nat.lt_irrefl,
    List.range_succ, List.range_zero, List.nil_append, List.foldl_cons, List.foldl_nil,
    zero_mul]
  refine ⟨_, rfl, ?_⟩
  obtain ⟨p1, p2⟩ := B_to_X_pack_rows B n nrhs ldb ScalePermstruct LUstruct.Glu_persist
    { heap with
      ptr_to_ibuf := Function.update heap.ptr_to_ibuf 0 0
      ptr_to_dbuf := Function.update heap.ptr_to_dbuf 0 0 }
    (by simp) (by simp)
  generalize pdReDistribute3d_B_to_X_pack B n nrhs ldb 0 ScalePermstruct LUstruct.Glu_persist
      { iam := 0, nprow := 1, npcol := 1 }
      { heap with
        ptr_to_ibuf := Function.update heap.ptr_to_ibuf 0 0
        ptr_to_dbuf := Function.update heap.ptr_to_dbuf 0 0 } = pk at p1 p2
  intro i hi j hj
  have hu := B_to_X_unpack_rows n nrhs LUstruct ScalePermstruct grid3d SOLVEstruct h x
    (fun p => SOLVEstruct.gstrs_comm.B_to_X_SendCnt (2 + p))
    (fun p => SOLVEstruct.gstrs_comm.B_to_X_SendCnt (7 + p)) d2 d7
    (fun i => if n ≤ n + i ∧ n + i < n + n then pk.ibuf (n + i - n) else pk.ibuf (n + i))
    (fun i => if n * nrhs ≤ n * nrhs + i ∧ n * nrhs + i < n * nrhs + n * nrhs then
      pk.dbuf (n * nrhs + i - n * nrhs) else pk.dbuf (n * nrhs + i))
  refine Eq.trans (hu ?_ i hi j hj) ?_
  · intro t ht
    have hc : n ≤ n + t ∧ n + t < n + n := by omega
    simp only [hc, and_self, if_true, Nat.add_sub_cancel_left]
    exact p1 t ht
  · have hlt : i * nrhs + j < n * nrhs := mul_add_lt hi hj
    have hc : n * nrhs ≤ n * nrhs + (i * nrhs + j) ∧
        n * nrhs + (i * nrhs + j) < n * nrhs + n * nrhs := by omega
    simp only [hc, and_self, if_true, Nat.add_sub_cancel_left]
    exact p2 i hi j hj

/-- The routine `pdReDistribute3d_X_to_B` on one process: row `r` of `x` lands in
row `r` of `B`, and nothing else of `B` is written. -/
theorem X_to_B_rows (n nrhs ldb : Nat) (hldb : n ≤ ldb) (LUstruct : dLUstruct_t)
    (ScalePermstruct : dScalePermstruct_t) (grid3d : gridinfo3d_t)
    (SOLVEstruct : dSOLVEstruct_t)
    (h : OneProcessRows n nrhs LUstruct ScalePermstruct grid3d SOLVEstruct)
    (B x : Nat → ℚ) (heap : RedistBuf) :
    ∃ r, pdReDistribute3d_X_to_B n B n ldb 0 nrhs x LUstruct.Llu.ilsum
        LUstruct.Glu_persist grid3d SOLVEstruct heap = some r ∧
      (∀ i < n, ∀ j < nrhs,
        r.1 (i + j * ldb) = x (xRowIndex LUstruct.Llu.ilsum nrhs LUstruct.Glu_persist i j)) ∧
      (∀ p, (∀ i < n, ∀ j < nrhs, p ≠ i + j * ldb) → r.1 p = B p) := by
  have hg := grid_one_eq grid3d.grid2d h.iam h.nprow h.npcol
  obtain ⟨c0, c1, c2, c3, c4, c5, c6, c7⟩ := getD8 n (n * nrhs) n (n * nrhs) 0 0 0 0
  have d0 := (h.cntX 0).trans c0
  have d1 := (h.cntX 1).trans c1
  have d2 := (h.cntX 2).trans c2
  have d3 := (h.cntX 3).trans c3
  have d4 := (h.cntX 4).trans c4
  have d5 := (h.cntX 5).trans c5
  have d6 := (h.cntX 6).trans c6
  have d7 := (h.cntX 7).trans c7
  obtain ⟨_, _, p1, p2⟩ := X_to_B_pack_prefix n nrhs LUstruct ScalePermstruct grid3d
    SOLVEstruct h x
    { heap with
      ptr_to_ibuf := Function.update heap.ptr_to_ibuf 0 0
      ptr_to_dbuf := Function.update heap.ptr_to_dbuf 0 0 }
    (by simp) (by simp) (LUstruct.Glu_persist.supno (n - 1) + 1) (le_refl _)
  rw [h.xsup_n] at p1 p2
  unfold pdReDistribute3d_X_to_B
  simp only [h.layer, hg, ne_eq, not_true_eq_false, if_false, mul_one, Nat.sub_self,
    zero_add, Nat.add_zero, d0, d1, d2, d3, d4, d5, d6, d7, MPI_Alltoallv_self, Nat.lt_irrefl,
    List.range_succ, List.range_zero, List.nil_append, List.foldl_cons, List.foldl_nil,
    zero_mul]
  generalize pdReDistribute3d_X_to_B_pack (LUstruct.Glu_persist.supno (n - 1) + 1) nrhs x
      LUstruct.Llu.ilsum LUstruct.Glu_persist
      { iam := 0, nprow := 1, npcol := 1 } SOLVEstruct
      { heap with
        ptr_to_ibuf := Function.update heap.ptr_to_ibuf 0 0
        ptr_to_dbuf := Function.update heap.ptr_to_dbuf 0 0 } = pk at p1 p2
  obtain ⟨B', hB1, hB2, hB3⟩ := X_to_B_unpack_rows B n ldb nrhs hldb
    (fun i => if n ≤ n + i ∧ n + i < n + n then pk.ibuf (n + i - n) else pk.ibuf (n + i))
    (fun i => if n * nrhs ≤ n * nrhs + i ∧ n * nrhs + i < n * nrhs + n * nrhs then
      pk.dbuf (n * nrhs + i - n * nrhs) else pk.dbuf (n * nrhs + i))
    (by
      intro t ht
      have hc : n ≤ n + t ∧ n + t < n + n := by omega
      simp only [hc, and_self, if_true, Nat.add_sub_cancel_left]
      exact p1 t ht)
  rw [hB1]
  refine ⟨_, rfl, fun i hi j hj => ?_, fun p hp => ?_⟩
  · show B' (i + j * ldb) = _
    rw [hB2 i hi j hj]
    have hlt : i * nrhs + j < n * nrhs := mul_add_lt hi hj
    have hc : n * nrhs ≤ n * nrhs + (i * nrhs + j) ∧
        n * nrhs + (i * nrhs + j) < n * nrhs + n * nrhs := by omega
    simp only [hc, and_self, if_true, Nat.add_sub_cancel_left]
    exact p2 i hi j hj
  · exact hB3 p hp

/-- C18 (amended): on layer 0 of a grid whose 2D grid is one process that owns
the `n` rows, for every right-hand side `B` (any `nrhs`, any partition into
non-empty supernodes, any permutation vectors whose composition permutes the
rows `0 .. n-1`), `pdReDistribute3d_B_to_X` followed directly by
`pdReDistribute3d_X_to_B` returns, and the new `B` holds row `i` of the old `B`
in row `perm_c[perm_r[i]]`; the entries of `B` outside the `n` rows of the
`nrhs` columns are kept.  In particular `B` is unchanged when
`perm_c[perm_r[i]] = i` for every row. -/
theorem redistribute_round_trip (n nrhs ldb : Nat) (hldb : n ≤ ldb) (LUstruct : dLUstruct_t)
    (ScalePermstruct : dScalePermstruct_t) (grid3d : gridinfo3d_t)
    (SOLVEstruct : dSOLVEstruct_t)
    (h : OneProcessRows n nrhs LUstruct ScalePermstruct grid3d SOLVEstruct)
    (B x : Nat → ℚ) (heap1 heap2 : RedistBuf) :
    ∃ B', redistributeRoundTrip n B n nrhs ldb 0 x LUstruct ScalePermstruct grid3d SOLVEstruct
        heap1 heap2 = some B' ∧
      (∀ i < n, ∀ j < nrhs,
        B' (ScalePermstruct.perm_c (ScalePermstruct.perm_r i) + j * ldb) = B (i + j * ldb)) ∧
      (∀ p, (∀ i < n, ∀ j < nrhs, p ≠ i + j * ldb) → B' p = B p) ∧
      ((∀ i < n, ScalePermstruct.perm_c (ScalePermstruct.perm_r i) = i) → B' = B) := by
  obtain ⟨r1, e1, f1⟩ := B_to_X_rows n nrhs ldb LUstruct ScalePermstruct grid3d SOLVEstruct h
    B x heap1
  obtain ⟨r2, e2, f2, f3⟩ := X_to_B_rows n nrhs ldb hldb LUstruct ScalePermstruct grid3d
    SOLVEstruct h B r1.1 heap2
  have hrows : ∀ i < n, ∀ j < nrhs,
      r2.1 (ScalePermstruct.perm_c (ScalePermstruct.perm_r i) + j * ldb) = B (i + j * ldb) := by
    intro i hi j hj
    rw [f2 _ (h.perm_lt i hi) j hj]
    exact f1 i hi j hj
  refine ⟨r2.1, ?_, hrows, f3, fun hid => ?_⟩
  · unfold redistributeRoundTrip
    rw [e1]
    simp only []
    rw [e2]
  · funext p
    by_cases hp : ∃ i, i < n ∧ ∃ j, j < nrhs ∧ p = i + j * ldb
    · obtain ⟨i, hi, j, hj, rfl⟩ := hp
      have := hrows i hi j hj
      rw [hid i hi] at this
      exact this
    · exact f3 p (fun i hi j hj hc => hp ⟨i, hi, j, hj, hc⟩)

theorem redistribute_round_trip_witness :
    ∃ B', redistributeRoundTrip 3 BThree 3 2 4 0 (fun _ => 0) LUThreeRows permRot grid1x1x1
        solveStructThree heapAny heapAny = some B' ∧
      (∀ i < 3, ∀ j < 2,
        B' (permRot.perm_c (permRot.perm_r i) + j * 4) = BThree (i + j * 4)) ∧
      (∀ p, (∀ i < 3, ∀ j < 2, p ≠ i + j * 4) → B' p = BThree p) ∧
      ((∀ i < 3, permRot.perm_c (permRot.perm_r i) = i) → B' = BThree) :=
  redistribute_round_trip 3 2 4 (by decide) LUThreeRows permRot grid1x1x1 solveStructThree
    { n_pos := by decide
      iam := rfl
      nprow := rfl
      npcol := rfl
      layer := rfl
      xsup0 := rfl
      xsup_lt := by decide
      xsup_n := rfl
      supno_row := by decide
      ilsum_blk := by decide
      perm_lt := by decide
      perm_inj := by decide
      row_to_proc := fun _ _ => rfl
      ndiag := rfl
      diag0 := rfl
      cntB := fun _ => rfl
      cntX := fun _ => rfl }
    BThree (fun _ => 0) heapAny heapAny

/-- Counterexample to C18 as stated: with the row permutation `(1, 2, 0)` on one
process, the round trip returns, and the first column of `B = (10, 20, 30)`
comes back as `(30, 10, 20)`. -/
theorem redistribute_round_trip_permutes :
    (redistributeRoundTrip 3 BThree 3 2 4 0 (fun _ => 0) LUThreeRows permRot grid1x1x1
        solveStructThree heapAny heapAny).map (fun B' => (List.range 8).map B')
      = some [30, 10, 20, 0, 31, 11, 21, 0] ∧
    (List.range 8).map BThree = [10, 20, 30, 0, 11, 21, 31, 0] := by
  decide!

/-! ## The kernels of the block update as sums -/

/-- A loop that subtracts a value at a position per element subtracts, at each
position, the values of the elements sent there. -/
theorem foldl_update_sub {α : Type} (pos : α → Nat) (cst : α → ℚ) :
    ∀ (L : List α) (l0 : Nat → ℚ) (q : Nat),
      (L.foldl (fun l a => Function.update l (pos a) (l (pos a) - cst a)) l0) q
        = l0 q - ((L.filter (fun a => pos a = q)).map cst).sum := by
  intro L
  induction L with
  | nil => intro l0 q; simp
  | cons a L ih =>
    intro l0 q
    rw [List.foldl_cons, ih]
    by_cases h : pos a = q
    · subst h
      rw [Function.update_same, List.filter_cons_of_pos (by simp)]
      simp only [List.map_cons, List.sum_cons]
      ring
    · rw [Function.update_noteq (fun hc => h hc.symm), List.filter_cons_of_neg (by simpa using h)]

/-- A loop whose steps each subtract an array subtracts the sum of the arrays. -/
theorem foldl_shift {α : Type} (g : α → (Nat → ℚ) → (Nat → ℚ)) (d : α → Nat → ℚ)
    (hg : ∀ a l q, g a l q = l q - d a q) :
    ∀ (L : List α) (l0 : Nat → ℚ) (q : Nat),
      (L.foldl (fun l a => g a l) l0) q = l0 q - (L.map (fun a => d a q)).sum := by
  intro L
  induction L with
  | nil => intro l0 q; simp
  | cons a L ih =>
    intro l0 q
    rw [List.foldl_cons, ih, hg]
    simp only [List.map_cons, List.sum_cons]
    ring

/-- The scatter loop subtracts from each entry of `lsum` the entries of `rtemp`
sent there. -/
theorem lsumScatterSub_apply (lsum : Nat → ℚ) (il iknsupc nbrow nrhs : Nat) (lsub : Nat → Nat)
    (lptr rel : Nat) (rtemp : Nat → ℚ) (q : Nat) :
    lsumScatterSub lsum il iknsupc nbrow nrhs lsub lptr rel rtemp q
      = lsum q - ((List.range nbrow).map (fun i =>
          (((List.range nrhs).filter
            (fun j => il + (lsub (lptr + i) - rel) + j * iknsupc = q)).map
            (fun j => rtemp (i + j * nbrow))).sum)).sum := by
  unfold lsumScatterSub
  exact foldl_shift
    (fun i l => (List.range nrhs).foldl
      (fun lsum j => Function.update lsum (il + (lsub (lptr + i) - rel) + j * iknsupc)
        (lsum (il + (lsub (lptr + i) - rel) + j * iknsupc) - rtemp (i + j * nbrow))) l)
    (fun i q => (((List.range nrhs).filter
      (fun j => il + (lsub (lptr + i) - rel) + j * iknsupc = q)).map
      (fun j => rtemp (i + j * nbrow))).sum)
    (fun i l q => foldl_update_sub (fun j => il + (lsub (lptr + i) - rel) + j * iknsupc)
      (fun j => rtemp (i + j * nbrow)) (List.range nrhs) l q)
    (List.range nbrow) lsum q

/-- The entries of the product computed by `dgemm_`. -/
theorem dgemm_apply (m n k : Nat) (alpha : ℚ) (A : Nat → ℚ) (lda : Nat) (B : Nat → ℚ)
    (ldb : Nat) (beta : ℚ) (C : Nat → ℚ) (coff ldc : Nat) (hm : m ≤ ldc) :
    ∀ j < n, ∀ i < m,
      dgemm_ m n k alpha A lda B ldb beta C coff ldc (coff + i + j * ldc)
        = alpha * ((List.range k).map (fun t => A (i + t * lda) * B (t + j * ldb))).sum
          + beta * C (coff + i + j * ldc) := by
  have key := columns_sweep
    (fun j X => (List.range m).foldl
      (fun C i => Function.update C (coff + i + j * ldc)
        (alpha * ((List.range k).map (fun t => A (i + t * lda) * B (t + j * ldb))).sum
          + beta * C (coff + i + j * ldc))) X)
    (fun j p => ∃ i < m, p = coff + i + j * ldc)
    (fun j Bin S => ∀ i < m, S (coff + i + j * ldc)
      = alpha * ((List.range k).map (fun t => A (i + t * lda) * B (t + j * ldb))).sum
          + beta * Bin (coff + i + j * ldc))
    (block_index_disj coff m ldc hm)
    (fun j B0 p hp => (foldl_update_self m (fun i => coff + i + j * ldc)
      (block_index_inj coff j ldc)
      (fun i v => alpha * ((List.range k).map (fun t => A (i + t * lda) * B (t + j * ldb))).sum
          + beta * v) B0).1 p (fun i hi h => hp ⟨i, hi, h⟩))
    (fun j B0 => (foldl_update_self m (fun i => coff + i + j * ldc)
      (block_index_inj coff j ldc)
      (fun i v => alpha * ((List.range k).map (fun t => A (i + t * lda) * B (t + j * ldb))).sum
          + beta * v) B0).2)
    (fun j B0 S B' S' h hB hS i hi => by
      rw [hS _ ⟨i, hi, rfl⟩, hB _ ⟨i, hi, rfl⟩, h i hi])
    C n
  intro j hj i hi
  exact key.2 j hj i hi

/-- The block update of `dlsum_fmod_leaf`: the product by `dgemm_` followed by the
scatter loop subtracts `updSum` from `lsum`, whatever `rtemp` held. -/
theorem scatter_dgemm (lsum : Nat → ℚ) (il iknsupc nbrow nrhs knsupc : Nat) (lsub : Nat → Nat)
    (lptr rel : Nat) (A : Nat → ℚ) (nsupr : Nat) (v rtemp : Nat → ℚ) (q : Nat) :
    lsumScatterSub lsum il iknsupc nbrow nrhs lsub lptr rel
        (dgemm_ nbrow nrhs knsupc 1 A nsupr v knsupc 0 rtemp 0 nbrow) q
      = lsum q - updSum nbrow nrhs knsupc il iknsupc lsub lptr rel A nsupr v q := by
  rw [lsumScatterSub_apply]
  unfold updSum
  congr 2
  apply List.map_congr_left
  intro i hi
  rw [List.mem_range] at hi
  congr 1
  apply List.map_congr_left
  intro j hj
  have hj2 : j < nrhs := List.mem_range.mp (List.mem_of_mem_filter hj)
  have h := dgemm_apply nbrow nrhs knsupc 1 A nsupr v knsupc 0 rtemp 0 nbrow (le_refl _)
    j hj2 i hi
  rw [Nat.zero_add] at h
  rw [h]
  ring

/-- The sum `updSum` reads the vector inside its block only. -/
theorem updSum_congr (nbrow nrhs knsupc il iknsupc : Nat) (lsub : Nat → Nat) (lptr rel : Nat)
    (A : Nat → ℚ) (nsupr : Nat) (v v' : Nat → ℚ) (q : Nat)
    (h : ∀ t < knsupc * nrhs, v t = v' t) :
    updSum nbrow nrhs knsupc il iknsupc lsub lptr rel A nsupr v q
      = updSum nbrow nrhs knsupc il iknsupc lsub lptr rel A nsupr v' q := by
  unfold updSum
  congr 1
  apply List.map_congr_left
  intro i _
  congr 1
  apply List.map_congr_left
  intro j hj
  have hj2 : j < nrhs := List.mem_range.mp (List.mem_of_mem_filter hj)
  congr 1
  apply List.map_congr_left
  intro t ht
  rw [List.mem_range] at ht
  rw [h (t + j * knsupc) (add_mul_lt ht hj2)]

/-- The sum `updSum` vanishes at the entries that no row of the block is sent
to. -/
theorem updSum_support (nbrow nrhs knsupc il iknsupc : Nat) (lsub : Nat → Nat) (lptr rel : Nat)
    (A : Nat → ℚ) (nsupr : Nat) (v : Nat → ℚ) (q : Nat)
    (h : ∀ i < nbrow, ∀ j < nrhs, il + (lsub (lptr + i) - rel) + j * iknsupc ≠ q) :
    updSum nbrow nrhs knsupc il iknsupc lsub lptr rel A nsupr v q = 0 := by
  unfold updSum
  apply List.sum_eq_zero
  intro x hx
  obtain ⟨i, hi, rfl⟩ := List.mem_map.mp hx
  rw [List.mem_range] at hi
  have : (List.range nrhs).filter
      (fun j => il + (lsub (lptr + i) - rel) + j * iknsupc = q) = [] := by
    apply List.filter_eq_nil_iff.mpr
    intro j hj
    rw [List.mem_range] at hj
    simpa using h i hi j hj
  rw [this]
  rfl

/-! ## The process grid and the blocks of the local columns -/

theorem LeafCtx.myrow_lt (c : LeafCtx) (h : c.grid.iam < c.grid.nprow * c.grid.npcol) :
    c.myrow < c.grid.nprow := by
  unfold LeafCtx.myrow MYROW
  exact Nat.div_lt_of_lt_mul (by rw [Nat.mul_comm]; exact h)

theorem LeafCtx.iam_eq (c : LeafCtx) : c.grid.iam = c.myrow * c.grid.npcol + c.mycol := by
  unfold LeafCtx.myrow LeafCtx.mycol MYROW MYCOL
  exact (Nat.div_add_mod' c.grid.iam c.grid.npcol).symm

theorem LeafCtx.LBi_rowOf (c : LeafCtx) (h : c.grid.iam < c.grid.nprow * c.grid.npcol)
    (lk : Nat) : LBi (c.rowOf lk) c.grid = lk ∧ PROW (c.rowOf lk) c.grid = c.myrow := by
  have hlt := c.myrow_lt h
  unfold LBi PROW LeafCtx.rowOf
  constructor
  · rw [Nat.add_comm, Nat.add_mul_div_right _ _ (by omega), Nat.div_eq_of_lt hlt, Nat.zero_add]
  · rw [Nat.add_comm, Nat.add_mul_mod_self_right, Nat.mod_eq_of_lt hlt]

theorem LeafCtx.rowOf_LBi (c : LeafCtx) (k : Nat) (h : PROW k c.grid = c.myrow) :
    c.rowOf (LBi k c.grid) = k := by
  unfold LeafCtx.rowOf LBi
  rw [← h]
  unfold PROW
  exact Nat.div_add_mod' k c.grid.nprow

theorem LeafCtx.le_rowOf (c : LeafCtx) (h : c.grid.iam < c.grid.nprow * c.grid.npcol)
    (lk : Nat) : lk ≤ c.rowOf lk := by
  have hlt := c.myrow_lt h
  unfold LeafCtx.rowOf
  have : lk * 1 ≤ lk * c.grid.nprow := Nat.mul_le_mul_left _ (by omega)
  omega

/-- A block of the array ends, the header of the next block included, before a
later block starts. -/
theorem blk_gap (ilsum : Nat → Nat) (nrhs k k' sz : Nat) (hk : k < k')
    (h : ilsum k + sz ≤ ilsum k') :
    X_BLK ilsum nrhs k + sz * nrhs + XK_H ≤ X_BLK ilsum nrhs k' ∧
    LSUM_BLK ilsum nrhs k + sz * nrhs + LSUM_H ≤ LSUM_BLK ilsum nrhs k' := by
  unfold X_BLK LSUM_BLK XK_H LSUM_H
  have h1 : (ilsum k + sz) * nrhs ≤ ilsum k' * nrhs := Nat.mul_le_mul_right _ h
  rw [Nat.add_mul] at h1
  omega

/-- The blocks of `x` and of `lsum` of two local block rows do not overlap. -/
theorem LeafCtx.region_disj (c : LeafCtx) {s0 : SolveState} {l : List Message}
    (H : FwdHyp c s0 l) (lk lk' : Nat) (h1 : c.rowOf lk < c.nsupers)
    (h2 : c.rowOf lk' < c.nsupers) (hne : lk ≠ lk') (t t' : Nat)
    (ht : t < c.size (c.rowOf lk) * c.nrhs) (ht' : t' < c.size (c.rowOf lk') * c.nrhs) :
    c.xBlk lk + t ≠ c.xBlk lk' + t' ∧ c.lsumBlk lk + t ≠ c.lsumBlk lk' + t' ∧
    c.xBlk lk + t ≠ c.xBlk lk' - XK_H := by
  have e1 := c.le_rowOf H.iam_lt lk
  have e2 := c.le_rowOf H.iam_lt lk'
  have hX : XK_H = 2 := rfl
  have hL : LSUM_H = 2 := rfl
  have hge := X_BLK_ge c.LUstruct.Llu.ilsum c.nrhs lk'
  unfold LeafCtx.xBlk LeafCtx.lsumBlk
  rcases Nat.lt_or_gt_of_ne hne with hc | hc
  · have := blk_gap c.LUstruct.Llu.ilsum c.nrhs lk lk' (c.size (c.rowOf lk)) hc
      (H.regions lk' (by omega) h2 lk hc)
    omega
  · have := blk_gap c.LUstruct.Llu.ilsum c.nrhs lk' lk (c.size (c.rowOf lk')) hc
      (H.regions lk (by omega) h1 lk' hc)
    omega

theorem LeafCtx.mem_colBlocks (c : LeafCtx) (k : Nat) (b : Nat × Nat) :
    b ∈ c.colBlocks k ↔ b.1 = k ∧ c.colStart k ≤ b.2 ∧ b.2 < c.colSub k 0 := by
  unfold LeafCtx.colBlocks
  simp only [Finset.mem_image, Finset.mem_Ico]
  constructor
  · rintro ⟨lb, ⟨h1, h2⟩, rfl⟩
    exact ⟨rfl, h1, h2⟩
  · rintro ⟨h0, h1, h2⟩
    exact ⟨b.2, ⟨h1, h2⟩, by rw [← h0]⟩

theorem LeafCtx.mem_full (c : LeafCtx) (cols : Finset Nat) (b : Nat × Nat) :
    b ∈ c.full cols ↔ b.1 ∈ cols ∧ c.colStart b.1 ≤ b.2 ∧ b.2 < c.colSub b.1 0 := by
  unfold LeafCtx.full
  simp only [Finset.mem_biUnion, LeafCtx.mem_colBlocks]
  constructor
  · rintro ⟨k, hk, h0, h1, h2⟩
    subst h0
    exact ⟨hk, h1, h2⟩
  · rintro ⟨hk, h1, h2⟩
    exact ⟨b.1, hk, rfl, h1, h2⟩

theorem LeafCtx.full_mono (c : LeafCtx) {cols cols' : Finset Nat} (h : cols ⊆ cols') :
    c.full cols ⊆ c.full cols' := by
  intro b hb
  rw [LeafCtx.mem_full] at hb ⊢
  exact ⟨h hb.1, hb.2⟩

theorem LeafCtx.cnt_mono (c : LeafCtx) {A B : Finset (Nat × Nat)} (h : A ⊆ B) (lk : Nat) :
    c.cnt A lk ≤ c.cnt B lk := by
  unfold LeafCtx.cnt
  exact Finset.card_le_card (Finset.filter_subset_filter _ h)

theorem LeafCtx.cnt_insert (c : LeafCtx) (A : Finset (Nat × Nat)) (b : Nat × Nat)
    (hb : b ∉ A) (lk : Nat) :
    c.cnt (insert b A) lk = c.cnt A lk + (if c.blkLk b = lk then 1 else 0) := by
  unfold LeafCtx.cnt
  rw [Finset.filter_insert]
  by_cases h : c.blkLk b = lk
  · rw [if_pos h, if_pos h, Finset.card_insert_of_not_mem]
    intro hc
    exact hb (Finset.mem_of_mem_filter _ hc)
  · rw [if_neg h, if_neg h, Nat.add_zero]

/-- What an update adds to `lsum`, as a sum. -/
theorem LeafCtx.blkDelta_eq (c : LeafCtx) (b : Nat × Nat) (v : Nat → ℚ) (q : Nat) :
    c.blkDelta b v q
      = - updSum (c.blkRows b) c.nrhs (c.size b.1) (c.lsumBlk (c.blkLk b))
          (c.size (c.blkRow b)) (c.colSub b.1)
          ((lBlockPos (c.colSub b.1) b.2).1 + LB_DESCRIPTOR)
          (c.LUstruct.Glu_persist.xsup (c.blkRow b))
          (fun i => c.colVal b.1 ((lBlockPos (c.colSub b.1) b.2).2 + i)) (c.colSub b.1 1) v
          q := by
  unfold LeafCtx.blkDelta
  rw [scatter_dgemm]
  ring

theorem LeafCtx.blkDelta_congr (c : LeafCtx) (b : Nat × Nat) (v v' : Nat → ℚ) (q : Nat)
    (h : ∀ t < c.size b.1 * c.nrhs, v t = v' t) : c.blkDelta b v q = c.blkDelta b v' q := by
  rw [LeafCtx.blkDelta_eq, LeafCtx.blkDelta_eq, updSum_congr _ _ _ _ _ _ _ _ _ _ v v' q h]

/-- An update changes `lsum` inside the block of its row only. -/
theorem LeafCtx.blkDelta_support (c : LeafCtx) {s0 : SolveState} {l : List Message}
    (H : FwdHyp c s0 l) (k lb : Nat) (hk : k < c.nsupers)
    (hc : PCOL k c.grid = c.mycol) (h1 : c.colStart k ≤ lb) (h2 : lb < c.colSub k 0)
    (v : Nat → ℚ) (q : Nat)
    (hq : ¬ (c.lsumBlk (c.blkLk (k, lb)) ≤ q ∧
      q < c.lsumBlk (c.blkLk (k, lb)) + c.size (c.blkRow (k, lb)) * c.nrhs)) :
    c.blkDelta (k, lb) v q = 0 := by
  obtain ⟨_, _, _, hrows⟩ := H.blocks k hk hc lb h2 h1
  rw [LeafCtx.blkDelta_eq, updSum_support, neg_zero]
  intro i hi j hj hc
  apply hq
  obtain ⟨r1, r2⟩ := hrows i hi
  have hlt : c.colSub k ((lBlockPos (c.colSub k) lb).1 + LB_DESCRIPTOR + i)
      - c.LUstruct.Glu_persist.xsup (c.blkRow (k, lb)) < c.size (c.blkRow (k, lb)) := by
    unfold LeafCtx.size SuperSize
    omega
  have := add_mul_lt hlt hj
  dsimp only at hc
  omega

/-! ## The messages received so far -/

theorem xkCols_append_Xk (P : List Message) (m : Message) (h : m.tag = MsgTag.Xk) :
    xkCols (P ++ [m]) = insert m.block (xkCols P) := by
  unfold xkCols
  rw [List.filter_append, List.map_append, List.toFinset_append]
  have : [m].filter (fun m => decide (m.tag = MsgTag.Xk)) = [m] := by
    simp [h]
  rw [this]
  ext k
  simp only [List.map_cons, List.map_nil, List.toFinset_cons, List.toFinset_nil,
    Finset.mem_union, Finset.mem_insert, Finset.mem_singleton, Finset.not_mem_empty, or_false]
  tauto

theorem xkCols_append_LSUM (P : List Message) (m : Message) (h : m.tag = MsgTag.LSUM) :
    xkCols (P ++ [m]) = xkCols P := by
  unfold xkCols
  rw [List.filter_append]
  have : [m].filter (fun m => decide (m.tag = MsgTag.Xk)) = [] := by
    simp [h]
  rw [this, List.append_nil]

theorem LeafCtx.lsumMsgs_append (c : LeafCtx) (P : List Message) (m : Message) (lk : Nat) :
    c.lsumMsgs (P ++ [m]) lk
      = c.lsumMsgs P lk ++ (if m.tag = MsgTag.LSUM ∧ LBi m.block c.grid = lk then [m] else []) := by
  unfold LeafCtx.lsumMsgs
  rw [List.filter_append]
  congr 1
  by_cases h : m.tag = MsgTag.LSUM ∧ LBi m.block c.grid = lk
  · rw [if_pos h, List.filter_cons_of_pos (by simpa using h), List.filter_nil]
  · rw [if_neg h, List.filter_cons_of_neg (by simpa using h), List.filter_nil]

theorem LeafCtx.lsumCount_append (c : LeafCtx) (P : List Message) (m : Message) (lk : Nat) :
    c.lsumCount (P ++ [m]) lk
      = c.lsumCount P lk + (if m.tag = MsgTag.LSUM ∧ LBi m.block c.grid = lk then 1 else 0) := by
  unfold LeafCtx.lsumCount
  rw [LeafCtx.lsumMsgs_append, List.length_append]
  by_cases h : m.tag = MsgTag.LSUM ∧ LBi m.block c.grid = lk
  · rw [if_pos h, if_pos h]
    rfl
  · rw [if_neg h, if_neg h]
    rfl

theorem LeafCtx.lsumPay_append (c : LeafCtx) (P : List Message) (m : Message) (lk t : Nat) :
    c.lsumPay (P ++ [m]) lk t
      = c.lsumPay P lk t
        + (if m.tag = MsgTag.LSUM ∧ LBi m.block c.grid = lk then m.data (LSUM_H + t) else 0) := by
  unfold LeafCtx.lsumPay
  rw [LeafCtx.lsumMsgs_append, List.map_append, List.sum_append]
  by_cases h : m.tag = MsgTag.LSUM ∧ LBi m.block c.grid = lk
  · rw [if_pos h, if_pos h]
    simp
  · rw [if_neg h, if_neg h]
    simp

theorem xkCols_mono_pre {P l : List Message} (h : P <+: l) : xkCols P ⊆ xkCols l := by
  obtain ⟨r, rfl⟩ := h
  intro k hk
  unfold xkCols at hk ⊢
  rw [List.filter_append, List.map_append, List.toFinset_append]
  exact Finset.mem_union_left _ hk

theorem LeafCtx.lsumCount_mono_pre (c : LeafCtx) {P l : List Message} (h : P <+: l) (lk : Nat) :
    c.lsumCount P lk ≤ c.lsumCount l lk := by
  obtain ⟨r, rfl⟩ := h
  unfold LeafCtx.lsumCount LeafCtx.lsumMsgs
  rw [List.filter_append, List.length_append]
  exact Nat.le_add_right _ _

/-- The supernode of an `Xk` message is not the one of an `Xk` message received
before, when no two `Xk` messages of the list name the same supernode. -/
theorem xkCols_fresh {P l : List Message} (m : Message) (h : P ++ [m] <+: l)
    (hm : m.tag = MsgTag.Xk)
    (hnd : ((l.filter (fun m => m.tag = MsgTag.Xk)).map Message.block).Nodup) :
    m.block ∉ xkCols P := by
  obtain ⟨r, rfl⟩ := h
  rw [List.filter_append, List.filter_append, List.map_append, List.map_append] at hnd
  have h1 := (List.nodup_append.mp hnd).1
  have h2 := List.nodup_append.mp h1
  have hmem : m.block ∈ ([m].filter (fun m => decide (m.tag = MsgTag.Xk))).map Message.block := by
    simp [hm]
  intro hc
  unfold xkCols at hc
  rw [List.mem_toFinset] at hc
  exact h2.2.2 hc hmem

/-! ## The invariant of the receive loop: consequences -/

theorem xkCols_spec (c : LeafCtx) {s0 : SolveState} {l P : List Message} (H : FwdHyp c s0 l)
    (hP : P <+: l) (k : Nat) (hk : k ∈ xkCols P) :
    k < c.nsupers ∧ PCOL k c.grid = c.mycol ∧ PROW k c.grid ≠ c.myrow := by
  have hk2 := xkCols_mono_pre hP hk
  unfold xkCols at hk2
  rw [List.mem_toFinset, List.mem_map] at hk2
  obtain ⟨m, hm, rfl⟩ := hk2
  rw [List.mem_filter] at hm
  have htag : m.tag = MsgTag.Xk := by simpa using hm.2
  rcases H.msgs m hm.1 with h | h
  · exact ⟨h.2.1, h.2.2.1, h.2.2.2.1⟩
  · rw [htag] at h
    exact absurd h.1 (by decide)

theorem GInv.S_spec {c : LeafCtx} {D : Nat → Nat → ℚ} {s0 : SolveState} {l : List Message}
    {r : Option Nat} {P : List Message} {S : Finset Nat} {O : Finset (Nat × Nat)}
    {s : SolveState} (G : GInv c D s0 l r P S O s) (k : Nat) (hk : k ∈ S) :
    c.ready s0 P (c.applied P S O) k :=
  (G.solved k).mp (Or.inl hk)

/-- The blocks of the columns received or solved are blocks of the factor; a
column solved is of my process row, a column received is not. -/
theorem GInv.blk_valid {c : LeafCtx} {D : Nat → Nat → ℚ} {s0 : SolveState} {l : List Message}
    {r : Option Nat} {P : List Message} {S : Finset Nat} {O : Finset (Nat × Nat)}
    {s : SolveState} (H : FwdHyp c s0 l) (G : GInv c D s0 l r P S O s) (b : Nat × Nat)
    (hb : b ∈ c.full (xkCols P ∪ S)) :
    b.1 < c.nsupers ∧ PCOL b.1 c.grid = c.mycol ∧ c.colStart b.1 ≤ b.2 ∧
      b.2 < c.colSub b.1 0 ∧ (PROW b.1 c.grid = c.myrow ↔ b.1 ∈ S) := by
  rw [LeafCtx.mem_full] at hb
  obtain ⟨h0, h1, h2⟩ := hb
  rcases Finset.mem_union.mp h0 with hx | hs
  · obtain ⟨a1, a2, a3⟩ := xkCols_spec c H G.pre b.1 hx
    refine ⟨a1, a2, h1, h2, fun hc => absurd hc a3, fun hc => ?_⟩
    exact absurd (G.S_spec b.1 hc).2.1 a3
  · have hr := G.S_spec b.1 hs
    exact ⟨hr.1, hr.2.2.1, h1, h2, fun _ => hs, fun _ => hr.2.1⟩

theorem GInv.blk_row {c : LeafCtx} {D : Nat → Nat → ℚ} {s0 : SolveState} {l : List Message}
    {r : Option Nat} {P : List Message} {S : Finset Nat} {O : Finset (Nat × Nat)}
    {s : SolveState} (H : FwdHyp c s0 l) (G : GInv c D s0 l r P S O s) (b : Nat × Nat)
    (hb : b ∈ c.full (xkCols P ∪ S)) :
    c.blkRow b < c.nsupers ∧ PROW (c.blkRow b) c.grid = c.myrow ∧
      c.rowOf (c.blkLk b) = c.blkRow b ∧ c.blkLk b < c.nsupers := by
  obtain ⟨a1, a2, a3, a4, _⟩ := G.blk_valid H b hb
  obtain ⟨k, lb⟩ := b
  obtain ⟨b1, b2, _, _⟩ := H.blocks k a1 a2 lb a4 a3
  refine ⟨b1, b2, c.rowOf_LBi _ b2, ?_⟩
  have := c.le_rowOf H.iam_lt (c.blkLk (k, lb))
  rw [show c.rowOf (c.blkLk (k, lb)) = c.blkRow (k, lb) from c.rowOf_LBi _ b2] at this
  omega

theorem GInv.S_pend {c : LeafCtx} {D : Nat → Nat → ℚ} {s0 : SolveState} {l : List Message}
    {r : Option Nat} {P : List Message} {S : Finset Nat} {O : Finset (Nat × Nat)}
    {s : SolveState} (G : GInv c D s0 l r P S O s) : S ⊆ c.pendCols s0 := by
  intro k hk
  have hr := G.S_spec k hk
  unfold LeafCtx.pendCols
  rw [Finset.mem_filter, Finset.mem_range]
  refine ⟨hr.1, hr.2.1, hr.2.2.1, ?_⟩
  rw [hr.2.2.2.2.1]
  exact Int.natCast_nonneg _

theorem LeafCtx.applied_erase (c : LeafCtx) (P : List Message) (S : Finset Nat)
    (O : Finset (Nat × Nat)) (b : Nat × Nat) (hb : b ∈ O)
    (hO : O ⊆ c.full (xkCols P ∪ S)) :
    c.applied P S (O.erase b) = insert b (c.applied P S O) ∧ b ∉ c.applied P S O := by
  unfold LeafCtx.applied
  constructor
  · ext a
    simp only [Finset.mem_sdiff, Finset.mem_erase, Finset.mem_insert]
    constructor
    · rintro ⟨h1, h2⟩
      by_cases ha : a = b
      · exact Or.inl ha
      · exact Or.inr ⟨h1, fun hc => h2 ⟨ha, hc⟩⟩
    · rintro (h | ⟨h1, h2⟩)
      · subst h
        exact ⟨hO hb, fun hc => hc.1 rfl⟩
      · exact ⟨h1, fun hc => h2 hc.2⟩
  · intro hc
    exact (Finset.mem_sdiff.mp hc).2 hb

/-- A block still owed lies in a row whose counter, if it is not negative,
counts it: the blocks applied in the row are fewer than the counter says. -/
theorem GInv.cons {c : LeafCtx} {D : Nat → Nat → ℚ} {s0 : SolveState} {l : List Message}
    {r : Option Nat} {P : List Message} {S : Finset Nat} {O : Finset (Nat × Nat)}
    {s : SolveState} (H : FwdHyp c s0 l) (G : GInv c D s0 l r P S O s) (b : Nat × Nat)
    (hb : b ∈ O) (h0 : 0 ≤ s0.fmod (c.blkLk b)) :
    (c.cnt (c.applied P S O) (c.blkLk b) : Int) + 1 ≤ s0.fmod (c.blkLk b) := by
  obtain ⟨e1, e2⟩ := c.applied_erase P S O b hb G.sub
  have hsub : insert b (c.applied P S O) ⊆ c.full (xkCols l ∪ c.pendCols s0) := by
    intro a ha
    have ha2 : a ∈ c.full (xkCols P ∪ S) := by
      rcases Finset.mem_insert.mp ha with h | h
      · rw [h]
        exact G.sub hb
      · exact (Finset.mem_sdiff.mp h).1
    exact c.full_mono (Finset.union_subset_union (xkCols_mono_pre G.pre) G.S_pend) ha2
  have h1 := c.cnt_mono hsub (c.blkLk b)
  rw [c.cnt_insert _ _ e2, if_pos rfl] at h1
  have h2 := H.fmod_cons (c.blkLk b) (G.blk_row H b (G.sub hb)).2.2.2 h0
  have h3 : ((c.cnt (c.applied P S O) (c.blkLk b) + 1 : Nat) : Int)
      ≤ (c.cnt (c.full (xkCols l ∪ c.pendCols s0)) (c.blkLk b) : Int) := by
    exact_mod_cast h1
  push_cast at h3
  omega

/-- The row of a block still owed is not complete: it is neither solved nor
about to be, and its local sum has not been added into `x`. -/
theorem GInv.owed_row {c : LeafCtx} {D : Nat → Nat → ℚ} {s0 : SolveState} {l : List Message}
    {r : Option Nat} {P : List Message} {S : Finset Nat} {O : Finset (Nat × Nat)}
    {s : SolveState} (H : FwdHyp c s0 l) (G : GInv c D s0 l r P S O s) (b : Nat × Nat)
    (hb : b ∈ O) :
    s0.fmod (c.blkLk b) ≠ (c.cnt (c.applied P S O) (c.blkLk b) : Int) ∧
      c.blkRow b ∉ S ∧ r ≠ some (c.blkRow b) := by
  have hne : s0.fmod (c.blkLk b) ≠ (c.cnt (c.applied P S O) (c.blkLk b) : Int) := by
    intro hc
    have h0 : 0 ≤ s0.fmod (c.blkLk b) := by
      rw [hc]
      exact Int.natCast_nonneg _
    have := G.cons H b hb h0
    omega
  have hrow := G.blk_row H b (G.sub hb)
  refine ⟨hne, fun hc => ?_, fun hc => ?_⟩
  · have hr := G.S_spec _ hc
    exact hne hr.2.2.2.2.1
  · have hr := (G.solved (c.blkRow b)).mp (Or.inr hc)
    exact hne hr.2.2.2.2.1

theorem LeafCtx.val_congr (c : LeafCtx) (D : Nat → Nat → ℚ) (s s' : SolveState) (k : Nat)
    (h : PROW k c.grid = c.myrow → ∀ t < c.size k * c.nrhs,
      s'.x (c.xBlk (LBi k c.grid) + t) = s.x (c.xBlk (LBi k c.grid) + t)) :
    c.val D s' k = c.val D s k := by
  funext t
  unfold LeafCtx.val
  by_cases ht : t < c.size k * c.nrhs
  · rw [if_pos ht, if_pos ht]
    by_cases hp : PROW k c.grid = c.myrow
    · rw [if_pos hp, if_pos hp, h hp t ht]
    · rw [if_neg hp, if_neg hp]
  · rw [if_neg ht, if_neg ht]

/-- The sum of the updates applied is kept when `x` changes in the block of a row
that is not solved. -/
theorem GInv.sum_val {c : LeafCtx} {D : Nat → Nat → ℚ} {s0 : SolveState} {l : List Message}
    {r : Option Nat} {P : List Message} {S : Finset Nat} {O : Finset (Nat × Nat)}
    {s : SolveState} (H : FwdHyp c s0 l) (G : GInv c D s0 l r P S O s)
    (A : Finset (Nat × Nat)) (hA : A ⊆ c.full (xkCols P ∪ S)) (s' : SolveState)
    (hx : ∀ k ∈ S, ∀ t < c.size k * c.nrhs,
      s'.x (c.xBlk (LBi k c.grid) + t) = s.x (c.xBlk (LBi k c.grid) + t)) (q : Nat) :
    ∑ b in A, c.blkDelta b (c.val D s' b.1) q = ∑ b in A, c.blkDelta b (c.val D s b.1) q := by
  apply Finset.sum_congr rfl
  intro b hb
  rw [c.val_congr D s s' b.1]
  intro hp t ht
  exact hx b.1 ((G.blk_valid H b (hA hb)).2.2.2.2.mp hp) t ht

/-! ## The invariant of the receive loop: the steps -/

/-- A change of the fields that the invariant does not read keeps it. -/
theorem GInv.frame {c : LeafCtx} {D : Nat → Nat → ℚ} {s0 : SolveState} {l : List Message}
    {r : Option Nat} {P : List Message} {S : Finset Nat} {O : Finset (Nat × Nat)}
    {s : SolveState} (G : GInv c D s0 l r P S O s) (s' : SolveState)
    (hx : s'.x = s.x) (hl : s'.lsum = s.lsum) (hf : s'.fmod = s.fmod)
    (hr : s'.frecv = s.frecv) (hs : s'.solved = s.solved) :
    GInv c D s0 l r P S O s' := by
  have hv : ∀ k, c.val D s' k = c.val D s k := by
    intro k
    unfold LeafCtx.val
    rw [hx]
  have hY : ∀ A lk i j, c.Y s0 P A s' lk i j = c.Y s0 P A s lk i j := by
    intro A lk i j
    unfold LeafCtx.Y
    rw [hl]
  refine ⟨G.pre, G.sub, ?_, ?_, ?_, ?_, ?_, G.solved, G.fresh, ?_⟩
  · rw [hf]
    exact G.fmod
  · rw [hr]
    exact G.frecv
  · intro q
    rw [hl, G.lsum q]
    congr 1
    apply Finset.sum_congr rfl
    intro b _
    rw [hv]
  · intro lk hlk j hj i hi
    rw [hY, hx]
    exact G.xin lk hlk j hj i hi
  · rw [hx]
    exact G.xout
  · rw [hs]
    exact G.log

theorem LeafCtx.Y_congr (c : LeafCtx) (s0 : SolveState) (P : List Message)
    (A A' : Finset (Nat × Nat)) (s s' : SolveState) (lk i j : Nat)
    (ht : c.trig s0 A' lk ↔ c.trig s0 A lk)
    (hl : c.trig s0 A lk → s'.lsum (c.lsumBlk lk + i + j * c.size (c.rowOf lk))
      = s.lsum (c.lsumBlk lk + i + j * c.size (c.rowOf lk))) :
    c.Y s0 P A' s' lk i j = c.Y s0 P A s lk i j := by
  unfold LeafCtx.Y
  by_cases h : c.trig s0 A lk
  · rw [if_pos h, if_pos (ht.mpr h), hl h]
  · rw [if_neg h, if_neg (fun hc => h (ht.mp hc))]

/-- The update with a block still owed: `lsum` takes the update, the counter of
the row goes down by one, and the local sum is added into `x` when the counter
reaches 0 on the diagonal process of a row of the forest; the row is then about
to be solved if no `LSUM` message is waited for. -/
theorem GInv.upd {c : LeafCtx} {D : Nat → Nat → ℚ} {s0 : SolveState} {l : List Message}
    {P : List Message} {S : Finset Nat} {O : Finset (Nat × Nat)}
    {s : SolveState} (H : FwdHyp c s0 l) (G : GInv c D s0 l none P S O s) (b : Nat × Nat)
    (hb : b ∈ O) (s' : SolveState)
    (hl : ∀ q, s'.lsum q = s.lsum q + c.blkDelta b (c.val D s b.1) q)
    (hf : s'.fmod = Function.update s.fmod (c.blkLk b) (s.fmod (c.blkLk b) - 1))
    (hr : s'.frecv = s.frecv) (hs : s'.solved = s.solved)
    (hx : s'.x = if s.fmod (c.blkLk b) - 1 = 0 ∧
        c.trf3Dpartition.supernode2treeMap (c.blkRow b) = c.treeId ∧
        PCOL (c.blkRow b) c.grid = c.mycol
      then addBlock s.x (c.xBlk (c.blkLk b)) s'.lsum (c.lsumBlk (c.blkLk b))
        (c.size (c.blkRow b)) c.nrhs
      else s.x) :
    GInv c D s0 l
      (if s.fmod (c.blkLk b) - 1 = 0 ∧
          c.trf3Dpartition.supernode2treeMap (c.blkRow b) = c.treeId ∧
          PCOL (c.blkRow b) c.grid = c.mycol ∧ s.frecv (c.blkLk b) = 0
        then some (c.blkRow b) else none)
      P S (O.erase b) s' := by
  obtain ⟨eA, hbA⟩ := c.applied_erase P S O b hb G.sub
  obtain ⟨hne, hkS, _⟩ := G.owed_row H b hb
  obtain ⟨hkb, hprow, hrow, hlk⟩ := G.blk_row H b (G.sub hb)
  obtain ⟨v1, v2, v3, v4, _⟩ := G.blk_valid H b (G.sub hb)
  have hfm : s.fmod (c.blkLk b)
      = s0.fmod (c.blkLk b) - (c.cnt (c.applied P S O) (c.blkLk b) : Int) := by
    rw [G.fmod, hrow, if_neg hkS]
  have hcnt : ∀ lk', c.cnt (insert b (c.applied P S O)) lk'
      = c.cnt (c.applied P S O) lk' + (if c.blkLk b = lk' then 1 else 0) :=
    fun lk' => c.cnt_insert _ _ hbA lk'
  -- the entries of `x` outside the block of the row are kept
  have hxframe : ∀ p, (∀ j < c.nrhs, ∀ i < c.size (c.blkRow b),
      p ≠ c.xBlk (c.blkLk b) + i + j * c.size (c.blkRow b)) → s'.x p = s.x p := by
    intro p hp
    rw [hx]
    split
    · exact (addBlock_apply s.x _ s'.lsum _ _ _).1 p (fun j hj i hi hc => hp j hj i hi (by omega))
    · rfl
  have hxother : ∀ lk', c.rowOf lk' < c.nsupers → lk' ≠ c.blkLk b →
      ∀ t < c.size (c.rowOf lk') * c.nrhs, s'.x (c.xBlk lk' + t) = s.x (c.xBlk lk' + t) := by
    intro lk' h1 h2 t ht
    apply hxframe
    intro j hj i hi hc
    have hd := (c.region_disj H lk' (c.blkLk b) h1 (by rw [hrow]; exact hkb) h2 t
      (i + j * c.size (c.blkRow b)) ht (by rw [hrow]; exact add_mul_lt hi hj)).1
    omega
  have hxS : ∀ k ∈ S, ∀ t < c.size k * c.nrhs,
      s'.x (c.xBlk (LBi k c.grid) + t) = s.x (c.xBlk (LBi k c.grid) + t) := by
    intro k hk t ht
    have hrk := G.S_spec k hk
    have hro := c.rowOf_LBi k hrk.2.1
    apply hxother (LBi k c.grid) (by rw [hro]; exact hrk.1) _ t (by rw [hro]; exact ht)
    intro hc
    rw [hc, hrow] at hro
    exact hkS (hro ▸ hk)
  -- `lsum` outside the block of the row is kept
  have hlother : ∀ lk', c.rowOf lk' < c.nsupers → lk' ≠ c.blkLk b →
      ∀ t < c.size (c.rowOf lk') * c.nrhs,
        s'.lsum (c.lsumBlk lk' + t) = s.lsum (c.lsumBlk lk' + t) := by
    intro lk' h1 h2 t ht
    rw [hl]
    have : c.blkDelta b (c.val D s b.1) (c.lsumBlk lk' + t) = 0 := by
      apply c.blkDelta_support H b.1 b.2 v1 v2 v3 v4
      intro hc0
      have hc : c.lsumBlk (c.blkLk b) ≤ c.lsumBlk lk' + t ∧
          c.lsumBlk lk' + t < c.lsumBlk (c.blkLk b) + c.size (c.blkRow b) * c.nrhs := hc0
      clear hc0
      have hd := (c.region_disj H lk' (c.blkLk b) h1 (by rw [hrow]; exact hkb) h2 t
        (c.lsumBlk lk' + t - c.lsumBlk (c.blkLk b)) ht (by rw [hrow]; omega)).2.1
      omega
    rw [this, add_zero]
  have htrig0 : ¬ c.trig s0 (c.applied P S O) (c.blkLk b) := fun hc => hne hc.2.1
  have htrig1 : c.trig s0 (insert b (c.applied P S O)) (c.blkLk b) ↔
      (s.fmod (c.blkLk b) - 1 = 0 ∧
        c.trf3Dpartition.supernode2treeMap (c.blkRow b) = c.treeId ∧
        PCOL (c.blkRow b) c.grid = c.mycol) := by
    unfold LeafCtx.trig
    rw [hcnt, if_pos (rfl : c.blkLk b = c.blkLk b), hrow, hfm]
    constructor
    · rintro ⟨_, h2, h3, h4⟩
      refine ⟨?_, h3, h4⟩
      push_cast at h2
      omega
    · rintro ⟨h2, h3, h4⟩
      refine ⟨by omega, ?_, h3, h4⟩
      push_cast
      omega
  have htrigo : ∀ lk', lk' ≠ c.blkLk b →
      (c.trig s0 (insert b (c.applied P S O)) lk' ↔ c.trig s0 (c.applied P S O) lk') := by
    intro lk' h
    unfold LeafCtx.trig
    rw [hcnt, if_neg (show ¬ (c.blkLk b = lk') from fun hc => h hc.symm), Nat.add_zero]
  refine ⟨G.pre, (Finset.erase_subset _ _).trans G.sub, ?_, ?_, ?_, ?_, ?_, ?_, ?_, ?_⟩
  · -- fmod
    intro lk'
    rw [hf, eA, hcnt]
    by_cases h : lk' = c.blkLk b
    · subst h
      rw [Function.update_same, hrow, if_neg hkS, if_pos (rfl : c.blkLk b = c.blkLk b), hfm]
      push_cast
      ring
    · rw [Function.update_noteq h, if_neg (show ¬ (c.blkLk b = lk') from fun hc => h hc.symm), G.fmod, Nat.add_zero]
  · rw [hr]
    exact G.frecv
  · -- lsum
    intro q
    have hsubA : insert b (c.applied P S O) ⊆ c.full (xkCols P ∪ S) := by
      intro a ha
      rcases Finset.mem_insert.mp ha with h | h
      · rw [h]
        exact G.sub hb
      · exact (Finset.mem_sdiff.mp h).1
    rw [eA, G.sum_val H (insert b (c.applied P S O)) hsubA s' hxS q, Finset.sum_insert hbA, hl,
      G.lsum q]
    ring
  · -- x inside the blocks
    intro lk' hlk' j hj i hi
    rw [eA]
    by_cases h : lk' = c.blkLk b
    · subst h
      have hsz : c.size (c.rowOf (c.blkLk b)) = c.size (c.blkRow b) := by rw [hrow]
      have hS2 : c.rowOf (c.blkLk b) ∉ S := by
        rw [hrow]
        exact hkS
      have hi2 : i < c.size (c.blkRow b) := by
        rw [← hsz]
        exact hi
      rw [if_neg hS2, sub_zero]
      have hG := G.xin (c.blkLk b) hlk' j hj i hi
      rw [if_neg hS2, sub_zero] at hG
      unfold LeafCtx.Y at hG ⊢
      rw [if_neg htrig0, add_zero, hsz] at hG
      by_cases hc : s.fmod (c.blkLk b) - 1 = 0 ∧
          c.trf3Dpartition.supernode2treeMap (c.blkRow b) = c.treeId ∧
          PCOL (c.blkRow b) c.grid = c.mycol
      · rw [if_pos (htrig1.mpr hc), hsz]
        have hx2 : s'.x = addBlock s.x (c.xBlk (c.blkLk b)) s'.lsum (c.lsumBlk (c.blkLk b))
            (c.size (c.blkRow b)) c.nrhs := by
          rw [hx, if_pos hc]
        have ha := (addBlock_apply s.x (c.xBlk (c.blkLk b)) s'.lsum (c.lsumBlk (c.blkLk b))
          (c.size (c.blkRow b)) c.nrhs).2 j hj i hi2
        have e1 : i + c.xBlk (c.blkLk b) + j * c.size (c.blkRow b)
            = c.xBlk (c.blkLk b) + i + j * c.size (c.blkRow b) := by omega
        have e2 : i + c.lsumBlk (c.blkLk b) + j * c.size (c.blkRow b)
            = c.lsumBlk (c.blkLk b) + i + j * c.size (c.blkRow b) := by omega
        rw [e1, e2, ← hx2] at ha
        rw [ha, hG]
      · rw [if_neg (fun h => hc (htrig1.mp h)), add_zero, hsz]
        have hx2 : s'.x = s.x := by
          rw [hx, if_neg hc]
        rw [hx2, hG]
    · have hsz : i + j * c.size (c.rowOf lk') < c.size (c.rowOf lk') * c.nrhs :=
        add_mul_lt hi hj
      have e1 := hxother lk' hlk' h _ hsz
      rw [← Nat.add_assoc] at e1
      rw [e1, G.xin lk' hlk' j hj i hi]
      congr 1
      · symm
        apply c.Y_congr s0 P _ _ s s' lk' i j (htrigo lk' h)
        intro _
        have e2 := hlother lk' hlk' h _ hsz
        rw [← Nat.add_assoc] at e2
        exact e2
      · by_cases hS : c.rowOf lk' ∈ S
        · rw [if_pos hS, if_pos hS]
          congr 1
          apply List.map_congr_left
          intro t ht
          rw [List.mem_range] at ht
          have e3 := hxother lk' hlk' h _ (add_mul_lt (lt_trans ht hi) hj)
          rw [← Nat.add_assoc] at e3
          rw [e3]
        · rw [if_neg hS, if_neg hS]
  · -- x outside the blocks
    intro q hq
    rw [hxframe q (fun j hj i hi => by
      have := hq (c.blkLk b) (by rw [hrow]; exact hkb) j hj i (by rw [hrow]; exact hi)
      rw [hrow] at this
      exact this)]
    exact G.xout q hq
  · -- the supernodes solved
    intro k
    rw [eA]
    have hGs := G.solved k
    by_cases h : LBi k c.grid = c.blkLk b
    · by_cases hp : PROW k c.grid = c.myrow
      · have hk : k = c.blkRow b := by
          rw [← c.rowOf_LBi k hp, h, hrow]
        subst hk
        have hLB : LBi (c.blkRow b) c.grid = c.blkLk b := rfl
        unfold LeafCtx.ready
        rw [hLB, hcnt, if_pos (rfl : c.blkLk b = c.blkLk b)]
        constructor
        · rintro (h1 | h1)
          · exact absurd h1 hkS
          · split at h1
            · rename_i hc
              refine ⟨hkb, hprow, hc.2.2.1, hc.2.1, ?_, ?_, Or.inl (by omega)⟩
              · have := hc.1
                rw [hfm] at this
                push_cast
                omega
              · have := hc.2.2.2
                rw [G.frecv] at this
                omega
            · exact absurd h1 (by simp)
        · rintro ⟨_, _, h3, h4, h5, h6, _⟩
          right
          rw [if_pos]
          refine ⟨?_, h4, h3, ?_⟩
          · rw [hfm]
            push_cast at h5
            omega
          · rw [G.frecv]
            omega
      · constructor
        · rintro (h1 | h1)
          · exact absurd (G.S_spec k h1).2.1 hp
          · split at h1
            · simp only [Option.some.injEq] at h1
              rw [← h1] at hp
              exact absurd hprow hp
            · exact absurd h1 (by simp)
        · intro h1
          exact absurd h1.2.1 hp
    · have hk : k ≠ c.blkRow b := by
        intro hc
        apply h
        rw [hc]
        rfl
      have hrd : c.ready s0 P (insert b (c.applied P S O)) k
          ↔ c.ready s0 P (c.applied P S O) k := by
        unfold LeafCtx.ready
        rw [hcnt, if_neg (show ¬ (c.blkLk b = LBi k c.grid) from fun hc => h hc.symm),
          Nat.add_zero]
      rw [hrd, ← hGs]
      constructor
      · rintro (h1 | h1)
        · exact Or.inl h1
        · split at h1
          · simp only [Option.some.injEq] at h1
            exact absurd h1.symm hk
          · exact absurd h1 (by simp)
      · rintro (h1 | h1)
        · exact Or.inl h1
        · exact absurd h1 (by simp)
  · intro k hk
    split at hk
    · simp only [Option.some.injEq] at hk
      rw [← hk]
      exact hkS
    · exact absurd hk (by simp)
  · rw [hs]
    exact G.log

theorem LeafCtx.full_insert_sdiff (c : LeafCtx) (cols : Finset Nat) (k : Nat) (hk : k ∉ cols)
    (O : Finset (Nat × Nat)) :
    c.full (insert k cols) \ (O ∪ c.colBlocks k) = c.full cols \ O := by
  ext a
  simp only [Finset.mem_sdiff, Finset.mem_union, LeafCtx.mem_full, LeafCtx.mem_colBlocks,
    Finset.mem_insert]
  constructor
  · rintro ⟨⟨h1 | h1, h2, h3⟩, h4⟩
    · exact absurd (Or.inr ⟨h1, h1 ▸ h2, h1 ▸ h3⟩) h4
    · exact ⟨⟨h1, h2, h3⟩, fun hc => h4 (Or.inl hc)⟩
  · rintro ⟨⟨h1, h2, h3⟩, h4⟩
    refine ⟨⟨Or.inr h1, h2, h3⟩, ?_⟩
    rintro (hc | hc)
    · exact h4 hc
    · exact hk (hc.1 ▸ h1)

theorem LeafCtx.full_insert_sub (c : LeafCtx) (cols : Finset Nat) (k : Nat)
    (O : Finset (Nat × Nat)) (hO : O ⊆ c.full cols) :
    O ∪ c.colBlocks k ⊆ c.full (insert k cols) := by
  intro a ha
  rw [LeafCtx.mem_full]
  rcases Finset.mem_union.mp ha with h | h
  · have := (c.mem_full cols a).mp (hO h)
    exact ⟨Finset.mem_insert_of_mem this.1, this.2⟩
  · rw [LeafCtx.mem_colBlocks] at h
    exact ⟨h.1 ▸ Finset.mem_insert_self _ _, h.1 ▸ h.2.1, h.1 ▸ h.2.2⟩

/-- The diagonal solve of a supernode that is complete: its counter is set to -1,
its block of `x` is solved, and the blocks of its column become owed. -/
theorem GInv.solve {c : LeafCtx} {D : Nat → Nat → ℚ} {s0 : SolveState} {l : List Message}
    {P : List Message} {S : Finset Nat} {O : Finset (Nat × Nat)}
    {s : SolveState} (H : FwdHyp c s0 l) (k : Nat) (G : GInv c D s0 l (some k) P S O s)
    (s' : SolveState)
    (hx : s'.x = dtrsm_ UpLo.lower Diag.unit (c.size k) c.nrhs 1 (c.colVal k) (c.colSub k 1)
      s.x (c.xBlk (LBi k c.grid)) (c.size k))
    (hl : s'.lsum = s.lsum) (hf : s'.fmod = Function.update s.fmod (LBi k c.grid) (-1))
    (hr : s'.frecv = s.frecv) (hs : ∃ e : SolveEvent, e.k = k ∧ s'.solved = s.solved ++ [e]) :
    GInv c D s0 l none P (insert k S) (O ∪ c.colBlocks k) s' := by
  have hrd := (G.solved k).mp (Or.inr rfl)
  have hkS : k ∉ S := G.fresh k rfl
  have hkX : k ∉ xkCols P := fun hc => (xkCols_spec c H G.pre k hc).2.2 hrd.2.1
  have hkc : k ∉ xkCols P ∪ S := by
    intro hc
    rcases Finset.mem_union.mp hc with h | h
    · exact hkX h
    · exact hkS h
  have hcols : xkCols P ∪ insert k S = insert k (xkCols P ∪ S) := by
    rw [Finset.union_insert]
  have eA : c.applied P (insert k S) (O ∪ c.colBlocks k) = c.applied P S O := by
    unfold LeafCtx.applied
    rw [hcols, c.full_insert_sdiff _ k hkc]
  have hro : c.rowOf (LBi k c.grid) = k := c.rowOf_LBi k hrd.2.1
  have hdt := dtrsm_lower_unit (c.size k) c.nrhs 1 (c.colVal k) (c.colSub k 1) s.x
    (c.xBlk (LBi k c.grid)) (c.size k) (le_refl _)
  rw [← hx] at hdt
  have hxother : ∀ lk', c.rowOf lk' < c.nsupers → lk' ≠ LBi k c.grid →
      ∀ t < c.size (c.rowOf lk') * c.nrhs, s'.x (c.xBlk lk' + t) = s.x (c.xBlk lk' + t) := by
    intro lk' h1 h2 t ht
    apply hdt.1
    intro j hj i hi hc
    have hd := (c.region_disj H lk' (LBi k c.grid) h1 (by rw [hro]; exact hrd.1) h2 t
      (i + j * c.size k) ht (by rw [hro]; exact add_mul_lt hi hj)).1
    omega
  have hxS : ∀ k' ∈ S, ∀ t < c.size k' * c.nrhs,
      s'.x (c.xBlk (LBi k' c.grid) + t) = s.x (c.xBlk (LBi k' c.grid) + t) := by
    intro k' hk' t ht
    have hrk := G.S_spec k' hk'
    have hro' := c.rowOf_LBi k' hrk.2.1
    apply hxother (LBi k' c.grid) (by rw [hro']; exact hrk.1) _ t (by rw [hro']; exact ht)
    intro hc
    rw [hc, hro] at hro'
    exact hkS (hro' ▸ hk')
  have hYs : ∀ lk i j, c.Y s0 P (c.applied P S O) s' lk i j
      = c.Y s0 P (c.applied P S O) s lk i j := by
    intro lk i j
    unfold LeafCtx.Y
    rw [hl]
  have hmemS : ∀ lk', lk' ≠ LBi k c.grid → (c.rowOf lk' ∈ insert k S ↔ c.rowOf lk' ∈ S) := by
    intro lk' h
    rw [Finset.mem_insert]
    constructor
    · rintro (h1 | h1)
      · exact absurd ((c.LBi_rowOf H.iam_lt lk').1.symm.trans (by rw [h1])) h
      · exact h1
    · exact Or.inr
  refine ⟨G.pre, ?_, ?_, ?_, ?_, ?_, ?_, ?_, ?_, ?_⟩
  · rw [hcols]
    exact c.full_insert_sub _ k O G.sub
  · intro lk
    rw [hf, eA]
    by_cases h : lk = LBi k c.grid
    · subst h
      rw [Function.update_same, hro, if_pos (Finset.mem_insert_self _ _)]
    · rw [Function.update_noteq h, G.fmod]
      by_cases hS : c.rowOf lk ∈ S
      · rw [if_pos hS, if_pos ((hmemS lk h).mpr hS)]
      · rw [if_neg hS, if_neg (fun hc => hS ((hmemS lk h).mp hc))]
  · rw [hr]
    exact G.frecv
  · intro q
    rw [eA, G.sum_val H (c.applied P S O) Finset.sdiff_subset s' hxS q, hl]
    exact G.lsum q
  · intro lk' hlk' j hj i hi
    rw [eA, hYs]
    by_cases h : lk' = LBi k c.grid
    · subst h
      have hsz : c.size (c.rowOf (LBi k c.grid)) = c.size k := by rw [hro]
      have hi2 : i < c.size k := by
        rw [← hsz]
        exact hi
      have hG := G.xin (LBi k c.grid) hlk' j hj i hi
      rw [if_neg (by rw [hro]; exact hkS), sub_zero] at hG
      rw [if_pos (by rw [hro]; exact Finset.mem_insert_self _ _), ← hG, hro]
      have hd := hdt.2 j hj i hi2
      rw [one_mul] at hd
      exact hd
    · have hsz : i + j * c.size (c.rowOf lk') < c.size (c.rowOf lk') * c.nrhs :=
        add_mul_lt hi hj
      have e1 := hxother lk' hlk' h _ hsz
      rw [← Nat.add_assoc] at e1
      rw [e1, G.xin lk' hlk' j hj i hi]
      congr 1
      by_cases hS : c.rowOf lk' ∈ S
      · rw [if_pos hS, if_pos ((hmemS lk' h).mpr hS)]
        congr 1
        apply List.map_congr_left
        intro t ht
        rw [List.mem_range] at ht
        have e3 := hxother lk' hlk' h _ (add_mul_lt (lt_trans ht hi) hj)
        rw [← Nat.add_assoc] at e3
        rw [e3]
      · rw [if_neg hS, if_neg (fun hc => hS ((hmemS lk' h).mp hc))]
  · intro q hq
    rw [hdt.1 q (fun j hj i hi => by
      have := hq (LBi k c.grid) (by rw [hro]; exact hrd.1) j hj i (by rw [hro]; exact hi)
      rw [hro] at this
      exact this)]
    exact G.xout q hq
  · intro k'
    rw [eA, ← G.solved k', Finset.mem_insert]
    constructor
    · rintro (h1 | h1)
      · rcases h1 with h1 | h1
        · exact Or.inr (by rw [h1])
        · exact Or.inl h1
      · exact absurd h1 (by simp)
    · rintro (h1 | h1)
      · exact Or.inl (Or.inr h1)
      · simp only [Option.some.injEq] at h1
        exact Or.inl (Or.inl h1.symm)
  · intro k' hk'
    exact absurd hk' (by simp)
  · obtain ⟨L, hL1, hL2⟩ := G.log
    obtain ⟨e, he1, he2⟩ := hs
    refine ⟨L ++ [e], ?_, ?_⟩
    · rw [he2, hL1, List.append_assoc]
    · intro k'
      rw [Finset.mem_insert, ← hL2 k']
      constructor
      · rintro ⟨e', he', hk'⟩
        rcases List.mem_append.mp he' with h | h
        · exact Or.inr ⟨e', h, hk'⟩
        · rw [List.mem_singleton] at h
          left
          rw [← hk', h, he1]
      · rintro (h | ⟨e', he', hk'⟩)
        · exact ⟨e, List.mem_append_right _ (List.mem_singleton_self e), by rw [he1, h]⟩
        · exact ⟨e', List.mem_append_left _ he', hk'⟩

/-- The receipt of an `Xk` message: the blocks of its column become owed. -/
theorem GInv.xkMsg {c : LeafCtx} {D : Nat → Nat → ℚ} {s0 : SolveState} {l : List Message}
    {P : List Message} {S : Finset Nat} {O : Finset (Nat × Nat)}
    {s : SolveState} (H : FwdHyp c s0 l) (G : GInv c D s0 l none P S O s) (m : Message)
    (hm : P ++ [m] <+: l) (htag : m.tag = MsgTag.Xk) (s' : SolveState)
    (hx : s'.x = s.x) (hl : s'.lsum = s.lsum) (hf : s'.fmod = s.fmod)
    (hr : s'.frecv = s.frecv) (hs : s'.solved = s.solved) :
    GInv c D s0 l none (P ++ [m]) S (O ∪ c.colBlocks m.block) s' := by
  have G2 := G.frame s' hx hl hf hr hs
  have hkX : m.block ∉ xkCols P := xkCols_fresh m hm htag H.xk_nodup
  have hspec := xkCols_spec c H hm m.block (by
    rw [xkCols_append_Xk P m htag]
    exact Finset.mem_insert_self _ _)
  have hkS : m.block ∉ S := fun hc => hspec.2.2 (G.S_spec _ hc).2.1
  have hkc : m.block ∉ xkCols P ∪ S := by
    intro hc
    rcases Finset.mem_union.mp hc with h | h
    · exact hkX h
    · exact hkS h
  have hcols : xkCols (P ++ [m]) ∪ S = insert m.block (xkCols P ∪ S) := by
    rw [xkCols_append_Xk P m htag, Finset.insert_union]
  have eA : c.applied (P ++ [m]) S (O ∪ c.colBlocks m.block) = c.applied P S O := by
    unfold LeafCtx.applied
    rw [hcols, c.full_insert_sdiff _ _ hkc]
  have hcount : ∀ lk, c.lsumCount (P ++ [m]) lk = c.lsumCount P lk := by
    intro lk
    rw [c.lsumCount_append, if_neg (fun hc => by rw [htag] at hc; exact absurd hc.1 (by decide)),
      Nat.add_zero]
  have hpay : ∀ lk t, c.lsumPay (P ++ [m]) lk t = c.lsumPay P lk t := by
    intro lk t
    rw [c.lsumPay_append, if_neg (fun hc => by rw [htag] at hc; exact absurd hc.1 (by decide)),
      add_zero]
  have hY : ∀ lk i j, c.Y s0 (P ++ [m]) (c.applied P S O) s' lk i j
      = c.Y s0 P (c.applied P S O) s' lk i j := by
    intro lk i j
    unfold LeafCtx.Y
    rw [hpay]
  refine ⟨hm, ?_, ?_, ?_, ?_, ?_, G2.xout, ?_, G2.fresh, G2.log⟩
  · rw [hcols]
    exact c.full_insert_sub _ _ O G.sub
  · intro lk
    rw [eA]
    exact G2.fmod lk
  · intro lk
    rw [hcount]
    exact G2.frecv lk
  · intro q
    rw [eA]
    exact G2.lsum q
  · intro lk hlk j hj i hi
    rw [eA, hY]
    exact G2.xin lk hlk j hj i hi
  · intro k
    rw [eA, G2.solved k]
    unfold LeafCtx.ready
    rw [hcount]

/-- The receipt of an `LSUM` message: its payload is added into the block of `x`
of its row, the counter `frecv` of the row goes down by one, and the row is
about to be solved when both counters are 0. -/
theorem GInv.lsumMsg {c : LeafCtx} {D : Nat → Nat → ℚ} {s0 : SolveState} {l : List Message}
    {P : List Message} {S : Finset Nat} {O : Finset (Nat × Nat)}
    {s : SolveState} (H : FwdHyp c s0 l) (G : GInv c D s0 l none P S O s) (m : Message)
    (hm : P ++ [m] <+: l) (htag : m.tag = MsgTag.LSUM) (s' : SolveState) (rb : Nat → ℚ)
    (hrb : ∀ t < m.count, rb t = m.data t)
    (hx : s'.x = addBlock s.x (c.xBlk (LBi m.block c.grid)) rb LSUM_H (c.size m.block) c.nrhs)
    (hl : s'.lsum = s.lsum) (hf : s'.fmod = s.fmod)
    (hr : s'.frecv = Function.update s.frecv (LBi m.block c.grid)
      (s.frecv (LBi m.block c.grid) - 1))
    (hs : s'.solved = s.solved) :
    GInv c D s0 l
      (if s.frecv (LBi m.block c.grid) - 1 = 0 ∧ s.fmod (LBi m.block c.grid) = 0
        then some m.block else none)
      (P ++ [m]) S O s' := by
  have hml : m ∈ l := by
    obtain ⟨t, rfl⟩ := hm
    simp
  obtain ⟨hk, hprow, hpcol, htree, hcnt, hcons⟩ : m.block < c.nsupers ∧
      PROW m.block c.grid = c.myrow ∧ PCOL m.block c.grid = c.mycol ∧
      c.trf3Dpartition.supernode2treeMap m.block = c.treeId ∧
      c.size m.block * c.nrhs + LSUM_H ≤ m.count ∧
      (c.lsumCount l (LBi m.block c.grid) : Int) ≤ s0.frecv (LBi m.block c.grid) := by
    rcases H.msgs m hml with h | h
    · rw [htag] at h
      exact absurd h.1 (by decide)
    · exact h.2
  have hro : c.rowOf (LBi m.block c.grid) = m.block := c.rowOf_LBi _ hprow
  have hcols : xkCols (P ++ [m]) = xkCols P := xkCols_append_LSUM P m htag
  have eA : c.applied (P ++ [m]) S O = c.applied P S O := by
    unfold LeafCtx.applied
    rw [hcols]
  have hcount : ∀ lk, c.lsumCount (P ++ [m]) lk
      = c.lsumCount P lk + (if LBi m.block c.grid = lk then 1 else 0) := by
    intro lk
    rw [c.lsumCount_append]
    by_cases h : LBi m.block c.grid = lk
    · rw [if_pos (And.intro htag h), if_pos h]
    · rw [if_neg (fun hc => h hc.2), if_neg h]
  have hpay : ∀ lk t, c.lsumPay (P ++ [m]) lk t
      = c.lsumPay P lk t + (if LBi m.block c.grid = lk then m.data (LSUM_H + t) else 0) := by
    intro lk t
    rw [c.lsumPay_append]
    by_cases h : LBi m.block c.grid = lk
    · rw [if_pos (And.intro htag h), if_pos h]
    · rw [if_neg (fun hc => h hc.2), if_neg h]
  have hle := c.lsumCount_mono_pre hm (LBi m.block c.grid)
  rw [hcount, if_pos rfl] at hle
  have hkS : m.block ∉ S := by
    intro hc
    have := (G.S_spec _ hc).2.2.2.2.2.1
    omega
  have hfm : s.fmod (LBi m.block c.grid) = s0.fmod (LBi m.block c.grid)
      - (c.cnt (c.applied P S O) (LBi m.block c.grid) : Int) := by
    rw [G.fmod, hro, if_neg hkS]
  have hadd := addBlock_apply s.x (c.xBlk (LBi m.block c.grid)) rb LSUM_H (c.size m.block)
    c.nrhs
  rw [← hx] at hadd
  have hxother : ∀ lk', c.rowOf lk' < c.nsupers → lk' ≠ LBi m.block c.grid →
      ∀ t < c.size (c.rowOf lk') * c.nrhs, s'.x (c.xBlk lk' + t) = s.x (c.xBlk lk' + t) := by
    intro lk' h1 h2 t ht
    apply hadd.1
    intro j hj i hi hc
    have hd := (c.region_disj H lk' (LBi m.block c.grid) h1 (by rw [hro]; exact hk) h2 t
      (i + j * c.size m.block) ht (by rw [hro]; exact add_mul_lt hi hj)).1
    omega
  have hxS : ∀ k' ∈ S, ∀ t < c.size k' * c.nrhs,
      s'.x (c.xBlk (LBi k' c.grid) + t) = s.x (c.xBlk (LBi k' c.grid) + t) := by
    intro k' hk' t ht
    have hrk := G.S_spec k' hk'
    have hro' := c.rowOf_LBi k' hrk.2.1
    apply hxother (LBi k' c.grid) (by rw [hro']; exact hrk.1) _ t (by rw [hro']; exact ht)
    intro hc
    rw [hc, hro] at hro'
    exact hkS (hro' ▸ hk')
  refine ⟨hm, ?_, ?_, ?_, ?_, ?_, ?_, ?_, ?_, ?_⟩
  · rw [hcols]
    exact G.sub
  · intro lk
    rw [hf, eA]
    exact G.fmod lk
  · intro lk
    rw [hr, hcount]
    by_cases h : lk = LBi m.block c.grid
    · subst h
      rw [Function.update_same, if_pos rfl, G.frecv]
      push_cast
      ring
    · rw [Function.update_noteq h, if_neg (fun hc => h hc.symm), G.frecv, Nat.add_zero]
  · intro q
    rw [eA, G.sum_val H (c.applied P S O) Finset.sdiff_subset s' hxS q, hl]
    exact G.lsum q
  · intro lk' hlk' j hj i hi
    rw [eA]
    have hYl : c.Y s0 (P ++ [m]) (c.applied P S O) s' lk' i j
        = c.Y s0 P (c.applied P S O) s lk' i j
          + (if LBi m.block c.grid = lk' then
              m.data (LSUM_H + (i + j * c.size (c.rowOf lk'))) else 0) := by
      unfold LeafCtx.Y
      rw [hpay, hl]
      ring
    rw [hYl]
    by_cases h : lk' = LBi m.block c.grid
    · subst h
      have hsz : c.size (c.rowOf (LBi m.block c.grid)) = c.size m.block := by rw [hro]
      have hS2 : c.rowOf (LBi m.block c.grid) ∉ S := by
        rw [hro]
        exact hkS
      have hi2 : i < c.size m.block := by
        rw [← hsz]
        exact hi
      have hG := G.xin (LBi m.block c.grid) hlk' j hj i hi
      rw [if_neg hS2, sub_zero] at hG
      rw [if_neg hS2, sub_zero, if_pos rfl, ← hG, hsz]
      have ha := hadd.2 j hj i hi2
      have e1 : i + c.xBlk (LBi m.block c.grid) + j * c.size m.block
          = c.xBlk (LBi m.block c.grid) + i + j * c.size m.block := by omega
      have e2 : i + LSUM_H + j * c.size m.block = LSUM_H + (i + j * c.size m.block) := by
        omega
      rw [e1, e2] at ha
      rw [ha, hrb]
      have := add_mul_lt hi2 hj
      omega
    · rw [if_neg (fun hc => h hc.symm), add_zero]
      have hsz : i + j * c.size (c.rowOf lk') < c.size (c.rowOf lk') * c.nrhs :=
        add_mul_lt hi hj
      have e1 := hxother lk' hlk' h _ hsz
      rw [← Nat.add_assoc] at e1
      rw [e1, G.xin lk' hlk' j hj i hi]
      congr 1
      by_cases hS : c.rowOf lk' ∈ S
      · rw [if_pos hS, if_pos hS]
        congr 1
        apply List.map_congr_left
        intro t ht
        rw [List.mem_range] at ht
        have e3 := hxother lk' hlk' h _ (add_mul_lt (lt_trans ht hi) hj)
        rw [← Nat.add_assoc] at e3
        rw [e3]
      · rw [if_neg hS, if_neg hS]
  · intro q hq
    rw [hadd.1 q (fun j hj i hi => by
      have := hq (LBi m.block c.grid) (by rw [hro]; exact hk) j hj i (by rw [hro]; exact hi)
      rw [hro] at this
      omega)]
    exact G.xout q hq
  · intro k
    rw [eA]
    have hGs := G.solved k
    by_cases h : LBi k c.grid = LBi m.block c.grid
    · by_cases hp : PROW k c.grid = c.myrow
      · have hkk : k = m.block := by
          rw [← c.rowOf_LBi k hp, h, hro]
        subst hkk
        unfold LeafCtx.ready
        rw [hcount, if_pos rfl]
        constructor
        · rintro (h1 | h1)
          · exact absurd h1 hkS
          · split at h1
            · rename_i hc
              refine ⟨hk, hprow, hpcol, htree, ?_, ?_, Or.inr (by omega)⟩
              · have := hc.2
                rw [hfm] at this
                omega
              · have := hc.1
                rw [G.frecv] at this
                push_cast
                omega
            · exact absurd h1 (by simp)
        · rintro ⟨_, _, _, _, h5, h6, _⟩
          right
          rw [if_pos]
          refine ⟨?_, ?_⟩
          · rw [G.frecv]
            push_cast at h6
            omega
          · rw [hfm]
            omega
      · constructor
        · rintro (h1 | h1)
          · exact absurd (G.S_spec k h1).2.1 hp
          · split at h1
            · simp only [Option.some.injEq] at h1
              rw [← h1] at hp
              exact absurd hprow hp
            · exact absurd h1 (by simp)
        · intro h1
          exact absurd h1.2.1 hp
    · have hkk : k ≠ m.block := by
        intro hc
        apply h
        rw [hc]
      have hrd : c.ready s0 (P ++ [m]) (c.applied P S O) k
          ↔ c.ready s0 P (c.applied P S O) k := by
        unfold LeafCtx.ready
        rw [hcount, if_neg (fun hc => h hc.symm), Nat.add_zero]
      rw [hrd, ← hGs]
      constructor
      · rintro (h1 | h1)
        · exact Or.inl h1
        · split at h1
          · simp only [Option.some.injEq] at h1
            exact absurd h1.symm hkk
          · exact absurd h1 (by simp)
      · rintro (h1 | h1)
        · exact Or.inl h1
        · exact absurd h1 (by simp)
  · intro k hk'
    split at hk'
    · simp only [Option.some.injEq] at hk'
      rw [← hk']
      exact hkS
    · exact absurd hk' (by simp)
  · rw [hs]
    exact G.log

/-! ## The invariant along the code of the forward leaf solve -/

/-- A loop over `0 .. n-1` with an invariant indexed by the number of iterations
done. -/
theorem foldlOpt_range_inv {σ : Type} (f : σ → Nat → Option σ) (I : Nat → σ → Prop) :
    ∀ n, (∀ t < n, ∀ a b, I t a → f a t = some b → I (t + 1) b) →
      ∀ a b, I 0 a → foldlOpt f a (List.range n) = some b → I n b := by
  intro n
  induction n with
  | zero =>
    intro _ a b h0 h
    simp only [List.range_zero, foldlOpt, Option.some.injEq] at h
    exact h ▸ h0
  | succ n ih =>
    intro hstep a b h0 h
    rw [List.range_succ, foldlOpt_concat] at h
    cases hf : foldlOpt f a (List.range n) with
    | none => simp [hf] at h
    | some a1 =>
      rw [hf] at h
      have h1 := ih (fun t ht => hstep t (Nat.lt_succ_of_lt ht)) a a1 h0 hf
      exact hstep n (Nat.lt_succ_self n) a1 b h1 h

/-- Posting messages changes none of the arrays of the solve. -/
theorem foldl_Isend_fields (cnd : Nat → Prop) [DecidablePred cnd] (start count : Nat)
    (dest : Nat → Nat) (tag : MsgTag) (L : List Nat) (s : SolveState) :
    (L.foldl (fun s p => if cnd p then MPI_Isend s.x start count (dest p) tag s else s) s).x
        = s.x ∧
    (L.foldl (fun s p => if cnd p then MPI_Isend s.x start count (dest p) tag s else s) s).lsum
        = s.lsum ∧
    (L.foldl (fun s p => if cnd p then MPI_Isend s.x start count (dest p) tag s else s) s).fmod
        = s.fmod ∧
    (L.foldl (fun s p => if cnd p then MPI_Isend s.x start count (dest p) tag s else s) s).frecv
        = s.frecv ∧
    (L.foldl (fun s p => if cnd p then MPI_Isend s.x start count (dest p) tag s else s) s).solved
        = s.solved ∧
    (L.foldl (fun s p => if cnd p then MPI_Isend s.x start count (dest p) tag s else s)
        s).recvbuf = s.recvbuf := by
  refine foldl_inv (fun s' : SolveState => s'.x = s.x ∧ s'.lsum = s.lsum ∧
    s'.fmod = s.fmod ∧ s'.frecv = s.frecv ∧ s'.solved = s.solved ∧ s'.recvbuf = s.recvbuf)
    _ (fun a p ha => ?_) L s ⟨rfl, rfl, rfl, rfl, rfl, rfl⟩
  by_cases hc : cnd p
  · simp only [hc, if_true]
    exact ha
  · simp only [hc, if_false]
    exact ha

/-- I am the diagonal process of a supernode of my process row exactly when it
is of my process column. -/
theorem LeafCtx.diag_iff (c : LeafCtx) (h : c.grid.iam < c.grid.nprow * c.grid.npcol)
    (ik : Nat) :
    c.grid.iam = PNUM (MYROW c.grid.iam c.grid) (PCOL ik c.grid) c.grid
      ↔ PCOL ik c.grid = c.mycol := by
  have hi := c.iam_eq
  unfold LeafCtx.myrow LeafCtx.mycol at hi
  unfold PNUM LeafCtx.mycol
  constructor
  · intro hc
    have := hi.symm.trans hc
    omega
  · intro hc
    rw [hc]
    exact hi

theorem LeafCtx.colSub_eq (c : LeafCtx) (k : Nat) (lsub : Nat → Nat)
    (h : c.LUstruct.Llu.Lrowind_bc_ptr (LBj k c.grid) = some lsub) : c.colSub k = lsub := by
  unfold LeafCtx.colSub
  rw [h]

theorem LeafCtx.colBlocks_none (c : LeafCtx) (k : Nat)
    (h : c.LUstruct.Llu.Lrowind_bc_ptr (LBj k c.grid) = none) : c.colBlocks k = ∅ := by
  ext b
  rw [LeafCtx.mem_colBlocks]
  have : c.colSub k 0 = 0 := by
    unfold LeafCtx.colSub
    rw [h]
  rw [this]
  simp

/-- The update of `lsum` by the code of a block step is the update of the
invariant, when the vector read through `xk` is the vector of the column. -/
theorem LeafCtx.blk_lsum (c : LeafCtx) (D : Nat → Nat → ℚ) (s : SolveState) (b : Nat × Nat)
    (v rtemp : Nat → ℚ) (hv : ∀ t < c.size b.1 * c.nrhs, v t = c.val D s b.1 t) (q : Nat) :
    lsumScatterSub s.lsum (c.lsumBlk (c.blkLk b)) (c.size (c.blkRow b)) (c.blkRows b)
        c.nrhs (c.colSub b.1) ((lBlockPos (c.colSub b.1) b.2).1 + LB_DESCRIPTOR)
        (c.LUstruct.Glu_persist.xsup (c.blkRow b))
        (dgemm_ (c.blkRows b) c.nrhs (c.size b.1) 1
          (fun i => c.colVal b.1 ((lBlockPos (c.colSub b.1) b.2).2 + i)) (c.colSub b.1 1) v
          (c.size b.1) 0 rtemp 0 (c.blkRows b)) q
      = s.lsum q + c.blkDelta b (c.val D s b.1) q := by
  rw [scatter_dgemm, c.blkDelta_eq, updSum_congr _ _ _ _ _ _ _ _ _ _ v (c.val D s b.1) q hv]
  ring

/-- A block step that does not complete its row. -/
theorem GInv.upd_plain {c : LeafCtx} {D : Nat → Nat → ℚ} {s0 : SolveState} {l : List Message}
    {P : List Message} {S : Finset Nat} {O : Finset (Nat × Nat)}
    {s : SolveState} (H : FwdHyp c s0 l) (G : GInv c D s0 l none P S O s) (b : Nat × Nat)
    (hb : b ∈ O) (s' : SolveState)
    (hl : ∀ q, s'.lsum q = s.lsum q + c.blkDelta b (c.val D s b.1) q)
    (hf : s'.fmod = Function.update s.fmod (c.blkLk b) (s.fmod (c.blkLk b) - 1))
    (hr : s'.frecv = s.frecv) (hs : s'.solved = s.solved) (hx : s'.x = s.x)
    (hn : ¬ (s.fmod (c.blkLk b) - 1 = 0 ∧
        c.trf3Dpartition.supernode2treeMap (c.blkRow b) = c.treeId ∧
        PCOL (c.blkRow b) c.grid = c.mycol)) :
    GInv c D s0 l none P S (O.erase b) s' := by
  have G1 := G.upd H b hb s' hl hf hr hs (by rw [if_neg hn]; exact hx)
  rw [if_neg (fun hc => hn ⟨hc.1, hc.2.1, hc.2.2.1⟩)] at G1
  exact G1

/-- A block step that completes its row on the diagonal process while `LSUM`
messages are still waited for. -/
theorem GInv.upd_trig {c : LeafCtx} {D : Nat → Nat → ℚ} {s0 : SolveState} {l : List Message}
    {P : List Message} {S : Finset Nat} {O : Finset (Nat × Nat)}
    {s : SolveState} (H : FwdHyp c s0 l) (G : GInv c D s0 l none P S O s) (b : Nat × Nat)
    (hb : b ∈ O) (s' : SolveState)
    (hl : ∀ q, s'.lsum q = s.lsum q + c.blkDelta b (c.val D s b.1) q)
    (hf : s'.fmod = Function.update s.fmod (c.blkLk b) (s.fmod (c.blkLk b) - 1))
    (hr : s'.frecv = s.frecv) (hs : s'.solved = s.solved)
    (hx : s'.x = addBlock s.x (c.xBlk (c.blkLk b)) s'.lsum (c.lsumBlk (c.blkLk b))
        (c.size (c.blkRow b)) c.nrhs)
    (hc : s.fmod (c.blkLk b) - 1 = 0 ∧
        c.trf3Dpartition.supernode2treeMap (c.blkRow b) = c.treeId ∧
        PCOL (c.blkRow b) c.grid = c.mycol)
    (hfr : s.frecv (c.blkLk b) ≠ 0) :
    GInv c D s0 l none P S (O.erase b) s' := by
  have G1 := G.upd H b hb s' hl hf hr hs (by rw [if_pos hc]; exact hx)
  rw [if_neg (fun h => hfr h.2.2.2)] at G1
  exact G1

/-- A block step that completes its row on the diagonal process when no `LSUM`
message is waited for: the row is about to be solved. -/
theorem GInv.upd_ready {c : LeafCtx} {D : Nat → Nat → ℚ} {s0 : SolveState} {l : List Message}
    {P : List Message} {S : Finset Nat} {O : Finset (Nat × Nat)}
    {s : SolveState} (H : FwdHyp c s0 l) (G : GInv c D s0 l none P S O s) (b : Nat × Nat)
    (hb : b ∈ O) (s' : SolveState)
    (hl : ∀ q, s'.lsum q = s.lsum q + c.blkDelta b (c.val D s b.1) q)
    (hf : s'.fmod = Function.update s.fmod (c.blkLk b) (s.fmod (c.blkLk b) - 1))
    (hr : s'.frecv = s.frecv) (hs : s'.solved = s.solved)
    (hx : s'.x = addBlock s.x (c.xBlk (c.blkLk b)) s'.lsum (c.lsumBlk (c.blkLk b))
        (c.size (c.blkRow b)) c.nrhs)
    (hc : s.fmod (c.blkLk b) - 1 = 0 ∧
        c.trf3Dpartition.supernode2treeMap (c.blkRow b) = c.treeId ∧
        PCOL (c.blkRow b) c.grid = c.mycol)
    (hfr : s.frecv (c.blkLk b) = 0) :
    GInv c D s0 l (some (c.blkRow b)) P S (O.erase b) s' := by
  have G1 := G.upd H b hb s' hl hf hr hs (by rw [if_pos hc]; exact hx)
  rw [if_pos ⟨hc.1, hc.2.1, hc.2.2, hfr⟩] at G1
  exact G1

/-- A block step that completes its row and solves it. -/
theorem GInv.upd_solve {c : LeafCtx} {D : Nat → Nat → ℚ} {s0 : SolveState} {l : List Message}
    {P : List Message} {S : Finset Nat} {O : Finset (Nat × Nat)}
    {s : SolveState} (H : FwdHyp c s0 l) (G : GInv c D s0 l none P S O s) (b : Nat × Nat)
    (hb : b ∈ O) (s' : SolveState)
    (hl : ∀ q, s'.lsum q = s.lsum q + c.blkDelta b (c.val D s b.1) q)
    (hf : s'.fmod = Function.update
      (Function.update s.fmod (c.blkLk b) (s.fmod (c.blkLk b) - 1)) (c.blkLk b) (-1))
    (hr : s'.frecv = s.frecv)
    (hs : ∃ e : SolveEvent, e.k = c.blkRow b ∧ s'.solved = s.solved ++ [e])
    (hx : s'.x = dtrsm_ UpLo.lower Diag.unit (c.size (c.blkRow b)) c.nrhs 1
      (c.colVal (c.blkRow b)) (c.colSub (c.blkRow b) 1)
      (addBlock s.x (c.xBlk (c.blkLk b)) s'.lsum (c.lsumBlk (c.blkLk b))
        (c.size (c.blkRow b)) c.nrhs)
      (c.xBlk (c.blkLk b)) (c.size (c.blkRow b)))
    (hc : s.fmod (c.blkLk b) - 1 = 0 ∧
        c.trf3Dpartition.supernode2treeMap (c.blkRow b) = c.treeId ∧
        PCOL (c.blkRow b) c.grid = c.mycol)
    (hfr : s.frecv (c.blkLk b) = 0) :
    GInv c D s0 l none P (insert (c.blkRow b) S) (O.erase b ∪ c.colBlocks (c.blkRow b)) s' := by
  have G1 := G.upd_ready H b hb
    { s' with
      x := addBlock s.x (c.xBlk (c.blkLk b)) s'.lsum (c.lsumBlk (c.blkLk b))
        (c.size (c.blkRow b)) c.nrhs
      fmod := Function.update s.fmod (c.blkLk b) (s.fmod (c.blkLk b) - 1)
      solved := s.solved }
    hl rfl hr rfl rfl hc hfr
  exact G1.solve H (c.blkRow b) s' hx rfl hf rfl hs

/-- Posting messages keeps the invariant. -/
theorem GInv.sends {c : LeafCtx} {D : Nat → Nat → ℚ} {s0 : SolveState} {l : List Message}
    {r : Option Nat} {P : List Message} {S : Finset Nat} {O : Finset (Nat × Nat)}
    {s : SolveState} (G : GInv c D s0 l r P S O s)
    (cnd : Nat → Prop) [DecidablePred cnd] (start count : Nat)
    (dest : Nat → Nat) (tag : MsgTag) (L : List Nat) :
    GInv c D s0 l r P S O
      (L.foldl (fun s p => if cnd p then MPI_Isend s.x start count (dest p) tag s else s) s) := by
  obtain ⟨f1, f2, f3, f4, f5, _⟩ := foldl_Isend_fields cnd start count dest tag L s
  exact G.frame _ f1 f2 f3 f4 f5

/-- The blocks that a cascade call applies are the off-diagonal blocks of the
column of the supernode just solved. -/
theorem LeafCtx.cascade_blocks (c : LeafCtx) (k : Nat) (lsub1 : Nat → Nat)
    (h : c.LUstruct.Llu.Lrowind_bc_ptr (LBj k c.grid) = some lsub1)
    (hp : PROW k c.grid = c.myrow) :
    (Finset.Ico 1 (1 + (lsub1 0 - 1))).image (fun lb => (k, lb)) = c.colBlocks k := by
  unfold LeafCtx.colBlocks LeafCtx.colStart
  rw [if_pos hp, c.colSub_eq k lsub1 h]
  congr 1
  ext a
  simp only [Finset.mem_Ico]
  omega

/-- One iteration of the loop over the blocks of a column in `dlsum_fmod_leaf`:
the block is applied, and so are the blocks of the columns of the supernodes
solved in the cascade. -/
theorem dlsum_fmod_leaf_block_inv {c : LeafCtx} {D : Nat → Nat → ℚ} {s0 : SolveState}
    {l : List Message} (H : FwdHyp c s0 l)
    (recurse : FmodCall → SolveState → Option SolveState) (hrec : BigStep c D s0 l recurse)
    (k lb : Nat) (xk : XkPtr) (P : List Message) (S : Finset Nat) (O : Finset (Nat × Nat))
    (s : SolveState) (G : GInv c D s0 l none P S O s) (hb : (k, lb) ∈ O)
    (hxk : ∀ t < c.size k * c.nrhs, xk.read s t = c.val D s k t)
    (st' : Nat × Nat × SolveState)
    (h : dlsum_fmod_leaf_block recurse c.treeId c.trf3Dpartition xk c.nrhs (c.size k)
        c.LUstruct.Glu_persist.xsup c.grid c.LUstruct.Llu (c.colSub k) (c.colVal k)
        (c.colSub k 1)
        ((lBlockPos (c.colSub k) lb).1, (lBlockPos (c.colSub k) lb).2, s) = some st') :
    st'.1 = (lBlockPos (c.colSub k) (lb + 1)).1 ∧
    st'.2.1 = (lBlockPos (c.colSub k) (lb + 1)).2 ∧
    ∃ S', S ⊆ S' ∧ GInv c D s0 l none P S' (O.erase (k, lb)) st'.2.2 ∧
      st'.2.2.recvbuf = s.recvbuf := by
  have hl : ∀ (rt : Nat → ℚ) (q : Nat),
      lsumScatterSub s.lsum (c.lsumBlk (c.blkLk (k, lb))) (c.size (c.blkRow (k, lb)))
        (c.blkRows (k, lb)) c.nrhs (c.colSub k) ((lBlockPos (c.colSub k) lb).1 + LB_DESCRIPTOR)
        (c.LUstruct.Glu_persist.xsup (c.blkRow (k, lb)))
        (dgemm_ (c.blkRows (k, lb)) c.nrhs (c.size k) 1
          (fun i => c.colVal k ((lBlockPos (c.colSub k) lb).2 + i)) (c.colSub k 1) (xk.read s)
          (c.size k) 0 rt 0 (c.blkRows (k, lb))) q
      = s.lsum q + c.blkDelta (k, lb) (c.val D s k) q :=
    fun rt q => c.blk_lsum D s (k, lb) (xk.read s) rt hxk q
  obtain ⟨hne, hkS, _⟩ := G.owed_row H (k, lb) hb
  obtain ⟨hkb, hprow, hrow, hlk⟩ := G.blk_row H (k, lb) (G.sub hb)
  unfold dlsum_fmod_leaf_block at h
  simp only [] at h
  split at h
  · rename_i hz
    have hz1 : s.fmod (c.blkLk (k, lb)) - 1 = 0 := by
      have := hz
      rw [Function.update_same] at this
      exact this
    split at h
    · rename_i ht
      have ht1 : c.trf3Dpartition.supernode2treeMap (c.blkRow (k, lb)) = c.treeId := ht
      split at h
      · rename_i hp
        simp only [Option.some.injEq] at h
        subst h
        refine ⟨rfl, rfl, S, Finset.Subset.refl _, ?_, rfl⟩
        refine G.upd_plain H (k, lb) hb _ (fun q => hl s.rtemp q) (by rfl) (by rfl) (by rfl)
          (by rfl) ?_
        intro hc
        exact hp ((c.diag_iff H.iam_lt (c.blkRow (k, lb))).mpr hc.2.2)
      · rename_i hp
        have hp1 : PCOL (c.blkRow (k, lb)) c.grid = c.mycol := by
          apply (c.diag_iff H.iam_lt (c.blkRow (k, lb))).mp
          by_contra hc
          exact hp hc
        split at h
        · rename_i hfr
          have hfr1 : s.frecv (c.blkLk (k, lb)) = 0 := hfr
          split at h
          · exact absurd h (by simp)
          · rename_i lsub1 hsub1
            split at h
            · exact absurd h (by simp)
            · rename_i s6 hs6
              simp only [Option.some.injEq] at h
              subst h
              refine ⟨rfl, rfl, ?_⟩
              have hsub1' : c.LUstruct.Llu.Lrowind_bc_ptr (LBj (c.blkRow (k, lb)) c.grid)
                  = some lsub1 := hsub1
              have hcs1 := c.colSub_eq (c.blkRow (k, lb)) lsub1 hsub1'
              have hkX : c.blkRow (k, lb) ∉ xkCols P :=
                fun hc => (xkCols_spec c H G.pre _ hc).2.2 hprow
              have hpost := hrec _ 1 P (insert (c.blkRow (k, lb)) S)
                (O.erase (k, lb) ∪ c.colBlocks (c.blkRow (k, lb))) _ s6
                (GInv.sends (G.upd_solve H (k, lb) hb _ (fun q => hl s.rtemp q) (by rfl)
                    (by rfl) ⟨_, rfl, by rfl⟩ (by rw [hcs1]; rfl) ⟨hz1, ht1, hp1⟩ hfr1)
                  (fun p => c.LUstruct.Llu.fsendx_plist (LBj (c.blkRow (k, lb)) c.grid) p
                    ≠ EMPTY) _ _ _ _ _)
                (by rfl)
                (by
                  show BC_HEADER + LB_DESCRIPTOR + c.size (c.blkRow (k, lb))
                    = BC_HEADER + LB_DESCRIPTOR + c.colSub (c.blkRow (k, lb)) (BC_HEADER + 1)
                  rw [H.diag _ hkb hprow hp1 (by rw [hsub1']; simp)])
                (by
                  show c.size (c.blkRow (k, lb))
                    = 0 + c.colSub (c.blkRow (k, lb)) (BC_HEADER + 1)
                  rw [H.diag _ hkb hprow hp1 (by rw [hsub1']; simp), Nat.zero_add])
                (by
                  show (Finset.Ico 1 (1 + (lsub1 0 - 1))).image
                    (fun lb' => (c.blkRow (k, lb), lb')) ⊆ _
                  rw [c.cascade_blocks _ lsub1 hsub1' hprow]
                  exact Finset.subset_union_right)
                (by
                  intro s1 _ t ht
                  have ht' : t < c.size (c.blkRow (k, lb)) * c.nrhs := ht
                  show s1.x (c.xBlk (c.blkLk (k, lb)) + t) = c.val D s1 (c.blkRow (k, lb)) t
                  unfold LeafCtx.val
                  rw [if_pos ht', if_pos hprow]
                  rfl)
                hs6
              obtain ⟨S', hS', GS', hrb'⟩ := hpost
              refine ⟨S', (Finset.subset_insert _ _).trans hS', ?_, ?_⟩
              · have hset : (O.erase (k, lb) ∪ c.colBlocks (c.blkRow (k, lb)))
                    \ (Finset.Ico 1 (1 + (lsub1 0 - 1))).image
                      (fun lb' => (c.blkRow (k, lb), lb')) = O.erase (k, lb) := by
                  rw [c.cascade_blocks _ lsub1 hsub1' hprow]
                  ext a
                  simp only [Finset.mem_sdiff, Finset.mem_union]
                  constructor
                  · rintro ⟨h1 | h1, h2⟩
                    · exact h1
                    · exact absurd h1 h2
                  · intro h1
                    refine ⟨Or.inl h1, fun hc => ?_⟩
                    have ha := (c.mem_full _ a).mp (G.sub (Finset.mem_of_mem_erase h1))
                    rw [c.mem_colBlocks] at hc
                    rw [hc.1] at ha
                    rcases Finset.mem_union.mp ha.1 with h3 | h3
                    · exact hkX h3
                    · exact hkS h3
                have GS2 : GInv c D s0 l none P S'
                    ((O.erase (k, lb) ∪ c.colBlocks (c.blkRow (k, lb)))
                      \ (Finset.Ico 1 (1 + (lsub1 0 - 1))).image
                        (fun lb' => (c.blkRow (k, lb), lb'))) s6 := GS'
                rw [hset] at GS2
                exact GS2
              · rw [hrb']
                exact (foldl_Isend_fields _ _ _ _ _ _ _).2.2.2.2.2
        · rename_i hfr
          simp only [Option.some.injEq] at h
          subst h
          refine ⟨rfl, rfl, S, Finset.Subset.refl _, ?_, rfl⟩
          exact G.upd_trig H (k, lb) hb _ (fun q => hl s.rtemp q) (by rfl) (by rfl) (by rfl)
            (by rfl) ⟨hz1, ht1, hp1⟩ hfr
    · rename_i ht
      simp only [Option.some.injEq] at h
      subst h
      refine ⟨rfl, rfl, S, Finset.Subset.refl _, ?_, rfl⟩
      refine G.upd_plain H (k, lb) hb _ (fun q => hl s.rtemp q) (by rfl) (by rfl) (by rfl)
        (by rfl) ?_
      intro hc
      exact ht hc.2.1
  · rename_i hz
    simp only [Option.some.injEq] at h
    subst h
    refine ⟨rfl, rfl, S, Finset.Subset.refl _, ?_, rfl⟩
    refine G.upd_plain H (k, lb) hb _ (fun q => hl s.rtemp q) (by rfl) (by rfl) (by rfl)
      (by rfl) ?_
    intro hc
    apply hz
    rw [Function.update_same]
    exact hc.1

theorem owed_step (O : Finset (Nat × Nat)) (k lb0 t : Nat) :
    (O \ (Finset.Ico lb0 (lb0 + t)).image (fun lb => (k, lb))).erase (k, lb0 + t)
      = O \ (Finset.Ico lb0 (lb0 + (t + 1))).image (fun lb => (k, lb)) := by
  ext a
  simp only [Finset.mem_erase, Finset.mem_sdiff, Finset.mem_image, Finset.mem_Ico]
  constructor
  · rintro ⟨h1, h2, h3⟩
    refine ⟨h2, ?_⟩
    rintro ⟨lb, ⟨h4, h5⟩, rfl⟩
    by_cases hc : lb = lb0 + t
    · exact h1 (by rw [hc])
    · exact h3 ⟨lb, ⟨h4, by omega⟩, rfl⟩
  · rintro ⟨h2, h3⟩
    refine ⟨fun hc => h3 ⟨lb0 + t, ⟨by omega, by omega⟩, hc.symm⟩, h2, ?_⟩
    rintro ⟨lb, ⟨h4, h5⟩, rfl⟩
    exact h3 ⟨lb, ⟨h4, by omega⟩, rfl⟩

theorem owed_next {k lb0 : Nat} {O : Finset (Nat × Nat)} (nlb t : Nat) (ht : t < nlb)
    (hsub : (Finset.Ico lb0 (lb0 + nlb)).image (fun lb => (k, lb)) ⊆ O) :
    (k, lb0 + t) ∈ O \ (Finset.Ico lb0 (lb0 + t)).image (fun lb => (k, lb)) := by
  rw [Finset.mem_sdiff]
  refine ⟨hsub (Finset.mem_image.mpr ⟨lb0 + t, ?_, rfl⟩), ?_⟩
  · rw [Finset.mem_Ico]
    omega
  · intro hc
    obtain ⟨lb, hlb, he⟩ := Finset.mem_image.mp hc
    rw [Finset.mem_Ico] at hlb
    simp only [Prod.mk.injEq, true_and] at he
    omega

/-- One iteration of the block loop keeps the loop invariant. -/
theorem dlsum_fmod_leaf_step_inv {c : LeafCtx} {D : Nat → Nat → ℚ} {s0 : SolveState}
    {l : List Message} (H : FwdHyp c s0 l)
    (recurse : FmodCall → SolveState → Option SolveState) (hrec : BigStep c D s0 l recurse)
    (k lb0 nlb : Nat) (xk : XkPtr) (P : List Message) (S : Finset Nat)
    (O : Finset (Nat × Nat)) (s : SolveState)
    (hsub : (Finset.Ico lb0 (lb0 + nlb)).image (fun lb => (k, lb)) ⊆ O)
    (hxk : ∀ s1 : SolveState, s1.recvbuf = s.recvbuf →
      ∀ t < c.size k * c.nrhs, xk.read s1 t = c.val D s1 k t)
    (t : Nat) (ht : t < nlb) (a b : Nat × Nat × SolveState)
    (hI : FmodLoopInv c D s0 l k lb0 P S O s t a)
    (hf : dlsum_fmod_leaf_block recurse c.treeId c.trf3Dpartition xk c.nrhs (c.size k)
        c.LUstruct.Glu_persist.xsup c.grid c.LUstruct.Llu (c.colSub k) (c.colVal k)
        (c.colSub k 1) a = some b) :
    FmodLoopInv c D s0 l k lb0 P S O s (t + 1) b := by
  obtain ⟨lptr, luptr, sa⟩ := a
  obtain ⟨h1, h2, S1, hS1, G1, hr1⟩ := hI
  have h1' : lptr = (lBlockPos (c.colSub k) (lb0 + t)).1 := h1
  have h2' : luptr = (lBlockPos (c.colSub k) (lb0 + t)).2 := h2
  subst h1' h2'
  obtain ⟨r1, r2, S2, hS2, G2, hr2⟩ := dlsum_fmod_leaf_block_inv H recurse hrec k
    (lb0 + t) xk P S1 _ sa G1 (owed_next nlb t ht hsub) (hxk sa hr1) b hf
  refine ⟨r1, r2, S2, hS1.trans hS2, ?_, hr2.trans hr1⟩
  rw [owed_step] at G2
  exact G2

/-- One activation of `dlsum_fmod_leaf` applies the blocks it is called for, when
the routine used for the cascade does. -/
theorem dlsum_fmod_leaf_with_big {c : LeafCtx} {D : Nat → Nat → ℚ} {s0 : SolveState}
    {l : List Message} (H : FwdHyp c s0 l)
    (recurse : FmodCall → SolveState → Option SolveState) (hrec : BigStep c D s0 l recurse) :
    BigStep c D s0 l
      (dlsum_fmod_leaf_with recurse c.treeId c.trf3Dpartition c.nrhs
        c.LUstruct.Glu_persist.xsup c.grid c.LUstruct.Llu) := by
  intro call lb0 P S O s s' G hkn hlp hlu hsub hxk h
  unfold dlsum_fmod_leaf_with at h
  simp only [] at h
  split at h
  · exact absurd h (by simp)
  · rename_i lsub hlsub
    split at h
    · exact absurd h (by simp)
    · rename_i st hst
      simp only [Option.some.injEq] at h
      subst h
      have hcs : c.colSub call.k = lsub := c.colSub_eq _ _ hlsub
      subst hcs
      rw [hkn, hlp, hlu] at hst
      have key := foldlOpt_range_inv
        (fun st (_ : Nat) => dlsum_fmod_leaf_block recurse c.treeId c.trf3Dpartition call.xk
          c.nrhs (c.size call.k) c.LUstruct.Glu_persist.xsup c.grid c.LUstruct.Llu
          (c.colSub call.k) (c.LUstruct.Llu.Lnzval_bc_ptr (LBj call.k c.grid))
          (c.colSub call.k 1) st)
        (FmodLoopInv c D s0 l call.k lb0 P S O s)
        call.nlb
        (fun t ht a b hI hf => dlsum_fmod_leaf_step_inv H recurse hrec call.k lb0 call.nlb
          call.xk P S O s hsub hxk t ht a b hI hf)
        ((lBlockPos (c.colSub call.k) lb0).1, (lBlockPos (c.colSub call.k) lb0).2, s) st
        ⟨rfl, rfl, S, Finset.Subset.refl _, by simpa using G, rfl⟩ hst
      obtain ⟨_, _, S', hS', G', hr'⟩ := key
      exact ⟨S', hS', G', hr'⟩

/-- A run of `dlsum_fmod_leaf` applies the blocks it is called for, whatever the
fuel it returns with. -/
theorem dlsum_fmod_leaf_big {c : LeafCtx} {D : Nat → Nat → ℚ} {s0 : SolveState}
    {l : List Message} (H : FwdHyp c s0 l) :
    ∀ fuel, BigStep c D s0 l
      (dlsum_fmod_leaf fuel c.treeId c.trf3Dpartition c.nrhs
        c.LUstruct.Glu_persist.xsup c.grid c.LUstruct.Llu) := by
  intro fuel
  induction fuel with
  | zero =>
    intro call lb0 P S O s s' G hkn hlp hlu hsub hxk h
    unfold dlsum_fmod_leaf at h
    refine dlsum_fmod_leaf_with_big H _ ?_ call lb0 P S O s s' G hkn hlp hlu hsub hxk h
    intro call1 lb1 P1 S1 O1 s1 s1' _ _ _ _ _ _ h1
    exact absurd h1 (by simp)
  | succ fuel ih =>
    intro call lb0 P S O s s' G hkn hlp hlu hsub hxk h
    unfold dlsum_fmod_leaf at h
    exact dlsum_fmod_leaf_with_big H _ ih call lb0 P S O s s' G hkn hlp hlu hsub hxk h

theorem union_sdiff_self_empty (A : Finset (Nat × Nat)) : (∅ ∪ A) \ A = ∅ := by
  ext a
  simp

/-- The handler of an `Xk` message applies all the blocks of the column of the
message. -/
theorem leafForestForwardSolve3d_Xk_inv {c : LeafCtx} {D : Nat → Nat → ℚ} {s0 : SolveState}
    {l : List Message} (H : FwdHyp c s0 l)
    (hD : ∀ m ∈ l, m.tag = MsgTag.Xk → ∀ t < c.size m.block * c.nrhs,
      m.data (XK_H + t) = D m.block t)
    (fuel : Nat) (P : List Message) (S : Finset Nat) (s : SolveState)
    (G : GInv c D s0 l none P S ∅ s) (m : Message) (hm : P ++ [m] <+: l)
    (htag : m.tag = MsgTag.Xk) (s2 : SolveState)
    (h : leafForestForwardSolve3d_Xk fuel c.treeId c.nrhs c.LUstruct c.trf3Dpartition c.grid
      (headerToBlock ((MPI_Recv m s).recvbuf 0)) (MPI_Recv m s) = some s2) :
    ∃ S', S ⊆ S' ∧ GInv c D s0 l none (P ++ [m]) S' ∅ s2 := by
  have hml : m ∈ l := by
    obtain ⟨t, ht⟩ := hm
    rw [← ht]
    simp
  have hshape := H.msgs m hml
  rcases hshape with hx | hx
  swap
  · rw [htag] at hx
    exact absurd hx.1 (by simp)
  obtain ⟨_, hkn, hpc, hpr, hcount⟩ := hx
  have hXK : XK_H = 2 := rfl
  have hk : headerToBlock ((MPI_Recv m s).recvbuf 0) = m.block := by
    unfold MPI_Recv Message.block
    simp only []
    rw [if_pos (by omega)]
  rw [hk] at h
  have G1 := G.xkMsg H m hm htag (MPI_Recv m s) rfl rfl rfl rfl rfl
  unfold leafForestForwardSolve3d_Xk at h
  simp only [] at h
  split at h
  · rename_i lsub hlsub
    have hcs := c.colSub_eq m.block lsub hlsub
    have hst : c.colStart m.block = 0 := by
      unfold LeafCtx.colStart
      rw [if_neg hpr]
    have hcb : (Finset.Ico 0 (0 + lsub 0)).image (fun lb => (m.block, lb))
        = c.colBlocks m.block := by
      unfold LeafCtx.colBlocks
      rw [hst, hcs, Nat.zero_add]
    have hpost := dlsum_fmod_leaf_big H fuel _ 0 (P ++ [m]) S (∅ ∪ c.colBlocks m.block)
      (MPI_Recv m s) s2 G1 (by rfl) (by rfl) (by rfl)
      (by
        show (Finset.Ico 0 (0 + lsub 0)).image (fun lb => (m.block, lb)) ⊆ _
        rw [hcb]
        exact Finset.subset_union_right)
      (by
        intro s1 hs1 t ht
        have ht' : t < c.size m.block * c.nrhs := ht
        show s1.recvbuf (XK_H + t) = c.val D s1 m.block t
        rw [hs1]
        unfold LeafCtx.val
        rw [if_pos ht', if_neg hpr, ← hD m hml htag t ht']
        unfold MPI_Recv
        simp only []
        rw [if_pos (by omega)])
      h
    obtain ⟨S', hS', GS', _⟩ := hpost
    refine ⟨S', hS', ?_⟩
    have GS2 : GInv c D s0 l none (P ++ [m]) S'
        ((∅ ∪ c.colBlocks m.block)
          \ (Finset.Ico 0 (0 + lsub 0)).image (fun lb => (m.block, lb))) s2 := GS'
    rw [hcb, union_sdiff_self_empty] at GS2
    exact GS2
  · rename_i hnone
    simp only [Option.some.injEq] at h
    subst h
    refine ⟨S, Finset.Subset.refl _, ?_⟩
    rw [c.colBlocks_none m.block hnone, Finset.union_empty] at G1
    exact G1

theorem GInv.bcast {c : LeafCtx} {D : Nat → Nat → ℚ} {s0 : SolveState} {l : List Message}
    {r : Option Nat} {P : List Message} {S : Finset Nat} {O : Finset (Nat × Nat)}
    {s : SolveState} (G : GInv c D s0 l r P S O s) (k xhdr : Nat)
    (sendList : Nat → Nat → Int) :
    GInv c D s0 l r P S O (iBcastXk2Pck k xhdr c.nrhs sendList c.LUstruct c.grid s) := by
  unfold iBcastXk2Pck
  exact GInv.sends G (fun p => sendList (LBj k c.grid) p ≠ EMPTY) _ _ _ _ _

/-- The handler of an `LSUM` message adds the payload to the block of `x` and,
when the row is complete, solves it and applies the blocks of its column. -/
theorem leafForestForwardSolve3d_LSUM_inv {c : LeafCtx} {D : Nat → Nat → ℚ}
    {s0 : SolveState} {l : List Message} (H : FwdHyp c s0 l)
    (fuel : Nat) (P : List Message) (S : Finset Nat) (s : SolveState)
    (G : GInv c D s0 l none P S ∅ s) (m : Message) (hm : P ++ [m] <+: l)
    (htag : m.tag = MsgTag.LSUM) (s2 : SolveState)
    (h : leafForestForwardSolve3d_LSUM fuel c.treeId c.nrhs c.LUstruct c.trf3Dpartition c.grid
      (headerToBlock ((MPI_Recv m s).recvbuf 0)) (MPI_Recv m s) = some s2) :
    ∃ S', S ⊆ S' ∧ GInv c D s0 l none (P ++ [m]) S' ∅ s2 := by
  have hml : m ∈ l := by
    obtain ⟨t, ht⟩ := hm
    rw [← ht]
    simp
  have hshape := H.msgs m hml
  rcases hshape with hx | hx
  · rw [htag] at hx
    exact absurd hx.1 (by simp)
  obtain ⟨_, hkn, hpr, hpc, htree, hcount, _⟩ := hx
  have hLS : LSUM_H = 2 := rfl
  have hk : headerToBlock ((MPI_Recv m s).recvbuf 0) = m.block := by
    unfold MPI_Recv Message.block
    simp only []
    rw [if_pos (by omega)]
  rw [hk] at h
  have hrb : ∀ t < m.count, (MPI_Recv m s).recvbuf t = m.data t := by
    intro t ht
    unfold MPI_Recv
    simp only []
    rw [if_pos ht]
  have G1 := G.lsumMsg H m hm htag
    ({ MPI_Recv m s with x := addBlock s.x (c.xBlk (LBi m.block c.grid)) (MPI_Recv m s).recvbuf LSUM_H (c.size m.block) c.nrhs, frecv := Function.update s.frecv (LBi m.block c.grid) (s.frecv (LBi m.block c.grid) - 1) } : SolveState)
    (MPI_Recv m s).recvbuf hrb rfl rfl rfl rfl rfl
  unfold leafForestForwardSolve3d_LSUM at h
  simp only [] at h
  split at h
  · rename_i hc
    have hc1 : s.frecv (LBi m.block c.grid) - 1 = 0 ∧ s.fmod (LBi m.block c.grid) = 0 := by
      have h1 := hc.1
      rw [Function.update_same] at h1
      exact ⟨h1, hc.2⟩
    rw [if_pos hc1] at G1
    split at h
    · exact absurd h (by simp)
    · rename_i s5 hs5
      unfold localSolveXkYk at hs5
      simp only [] at hs5
      split at hs5
      · exact absurd hs5 (by simp)
      · rename_i lsub hlsub
        simp only [Option.some.injEq] at hs5
        subst hs5
        have hcs := c.colSub_eq m.block lsub hlsub
        split at h
        · exact absurd h (by simp)
        · rename_i lsub1 hlsub1
          have hlsub1' : c.LUstruct.Llu.Lrowind_bc_ptr (LBj m.block c.grid) = some lsub1 :=
            hlsub1
          have hdiag := H.diag _ hkn hpr hpc (by rw [hlsub1']; simp)
          have hpost := dlsum_fmod_leaf_big H fuel _ 1 (P ++ [m]) (insert m.block S)
            (∅ ∪ c.colBlocks m.block) _ s2
            ((GInv.solve H m.block G1 _ (by rw [hcs]; rfl) (by rfl) (by rfl) (by rfl)
              ⟨_, rfl, by rfl⟩).bcast m.block
                (X_BLK c.LUstruct.Llu.ilsum c.nrhs (LBi m.block c.grid) - XK_H)
                c.LUstruct.Llu.fsendx_plist)
            (by rfl)
            (by
              show BC_HEADER + LB_DESCRIPTOR + c.size m.block
                = BC_HEADER + LB_DESCRIPTOR + c.colSub m.block (BC_HEADER + 1)
              rw [hdiag])
            (by
              show c.size m.block = 0 + c.colSub m.block (BC_HEADER + 1)
              rw [hdiag, Nat.zero_add])
            (by
              show (Finset.Ico 1 (1 + (lsub1 0 - 1))).image (fun lb => (m.block, lb)) ⊆ _
              rw [c.cascade_blocks _ lsub1 hlsub1' hpr]
              exact Finset.subset_union_right)
            (by
              intro s1 _ t ht
              have ht' : t < c.size m.block * c.nrhs := ht
              show s1.x (c.xBlk (LBi m.block c.grid) + t) = c.val D s1 m.block t
              unfold LeafCtx.val
              rw [if_pos ht', if_pos hpr])
            h
          obtain ⟨S', hS', GS', _⟩ := hpost
          refine ⟨S', (Finset.subset_insert _ _).trans hS', ?_⟩
          have GS2 : GInv c D s0 l none (P ++ [m]) S'
              ((∅ ∪ c.colBlocks m.block)
                \ (Finset.Ico 1 (1 + (lsub1 0 - 1))).image (fun lb => (m.block, lb))) s2 := GS'
          rw [c.cascade_blocks _ lsub1 hlsub1' hpr, union_sdiff_self_empty] at GS2
          exact GS2
  · rename_i hc
    simp only [Option.some.injEq] at h
    subst h
    rw [if_neg] at G1
    · exact ⟨S, Finset.Subset.refl _, G1⟩
    · intro hc1
      apply hc
      refine ⟨?_, hc1.2⟩
      show Function.update s.frecv (LBi m.block c.grid) (s.frecv (LBi m.block c.grid) - 1)
        (LBi m.block c.grid) = 0
      rw [Function.update_same]
      exact hc1.1

/-- Number of messages of a list with a given tag. -/
theorem tagCount_cons (tag : MsgTag) (m : Message) (rest : List Message) :
    (((m :: rest).filter (fun a => a.tag = tag)).length : Int)
      = ((rest.filter (fun a => a.tag = tag)).length : Int) + (if m.tag = tag then 1 else 0) := by
  by_cases h : m.tag = tag
  · rw [List.filter_cons_of_pos (by simpa using h), if_pos h]
    simp
  · rw [List.filter_cons_of_neg (by simpa using h), if_neg h]
    simp

/-- The receive loop, started with counters equal to the numbers of messages
left, processes every message of the list. -/
theorem leafForestForwardSolve3d_recv_inv {c : LeafCtx} {D : Nat → Nat → ℚ} {s0 : SolveState}
    {l : List Message} (H : FwdHyp c s0 l)
    (hD : ∀ m ∈ l, m.tag = MsgTag.Xk → ∀ t < c.size m.block * c.nrhs,
      m.data (XK_H + t) = D m.block t)
    (fuel : Nat) :
    ∀ (rest P : List Message) (S : Finset Nat) (s : SolveState) (nfrecvx nfrecvmod : Int)
      (s' : SolveState), P ++ rest = l → GInv c D s0 l none P S ∅ s →
      nfrecvx = ((rest.filter (fun a => a.tag = MsgTag.Xk)).length : Int) →
      nfrecvmod = ((rest.filter (fun a => a.tag = MsgTag.LSUM)).length : Int) →
      leafForestForwardSolve3d_recv fuel c.treeId c.nrhs c.LUstruct c.trf3Dpartition c.grid
        nfrecvx nfrecvmod s rest = some s' →
      ∃ S', S ⊆ S' ∧ GInv c D s0 l none l S' ∅ s' := by
  intro rest
  induction rest with
  | nil =>
    intro P S s nfrecvx nfrecvmod s' hP G hx hmod h
    rw [List.append_nil] at hP
    subst hP
    unfold leafForestForwardSolve3d_recv at h
    split at h
    · exact absurd h (by simp)
    · simp only [Option.some.injEq] at h
      subst h
      exact ⟨S, Finset.Subset.refl _, G⟩
  | cons m rest ih =>
    intro P S s nfrecvx nfrecvmod s' hP G hx hmod h
    have hpre : P ++ [m] <+: l := by
      refine ⟨rest, ?_⟩
      rw [List.append_assoc]
      exact hP
    have hP' : (P ++ [m]) ++ rest = l := by
      rw [List.append_assoc]
      exact hP
    have hml : m ∈ l := by
      rw [← hP]
      simp
    rw [tagCount_cons] at hx hmod
    unfold leafForestForwardSolve3d_recv at h
    simp only [] at h
    split at h
    · split at h
      · rename_i htag
        split at h
        · exact absurd h (by simp)
        · rename_i s1 hs1
          obtain ⟨S1, hS1, G1⟩ :=
            leafForestForwardSolve3d_Xk_inv H hD fuel P S s G m hpre htag s1 hs1
          rw [if_pos htag] at hx
          rw [if_neg (by rw [htag]; simp)] at hmod
          obtain ⟨S2, hS2, G2⟩ := ih (P ++ [m]) S1 s1 _ _ s' hP' G1
            (by rw [hx]; ring) (by rw [hmod]; ring) h
          exact ⟨S2, hS1.trans hS2, G2⟩
      · rename_i htag
        split at h
        · exact absurd h (by simp)
        · rename_i s1 hs1
          obtain ⟨S1, hS1, G1⟩ :=
            leafForestForwardSolve3d_LSUM_inv H fuel P S s G m hpre htag s1 hs1
          rw [if_neg (by rw [htag]; simp)] at hx
          rw [if_pos htag] at hmod
          obtain ⟨S2, hS2, G2⟩ := ih (P ++ [m]) S1 s1 _ _ s' hP' G1
            (by rw [hx]; ring) (by rw [hmod]; ring) h
          exact ⟨S2, hS1.trans hS2, G2⟩
      · rename_i htag
        rcases H.msgs m hml with hc | hc
        · rw [htag] at hc
          exact absurd hc.1 (by simp)
        · rw [htag] at hc
          exact absurd hc.1 (by simp)
    · rename_i hz
      exfalso
      apply hz
      rcases H.msgs m hml with hc | hc
      · left
        rw [hx, if_pos hc.1]
        omega
      · right
        rw [hmod, if_pos hc.1]
        omega

/-- The state at the entry of the receive loop satisfies the invariant with
nothing received and nothing solved. -/
theorem GInv.init (c : LeafCtx) (D : Nat → Nat → ℚ) (s0 : SolveState) (l : List Message) :
    GInv c D s0 l none [] ∅ ∅ s0 := by
  have hA : c.applied [] ∅ ∅ = ∅ := by
    unfold LeafCtx.applied LeafCtx.full xkCols
    simp
  have hcnt : ∀ lk, c.cnt ∅ lk = 0 := by
    intro lk
    unfold LeafCtx.cnt
    simp
  have hlc : ∀ lk, c.lsumCount [] lk = 0 := by
    intro lk
    unfold LeafCtx.lsumCount LeafCtx.lsumMsgs
    simp
  refine ⟨⟨l, List.nil_append l⟩, ?_, ?_, ?_, ?_, ?_, ?_, ?_, ?_, ?_⟩
  · exact Finset.empty_subset _
  · intro lk
    rw [hA, hcnt, if_neg (Finset.not_mem_empty _)]
    simp
  · intro lk
    rw [hlc]
    simp
  · intro q
    rw [hA]
    simp
  · intro lk _ j _ i _
    rw [hA, if_neg (Finset.not_mem_empty _)]
    unfold LeafCtx.Y LeafCtx.lsumPay LeafCtx.lsumMsgs
    rw [if_neg]
    · simp
    · intro hc
      have := hc.1
      rw [hcnt] at this
      exact absurd this (by omega)
  · intro q _
    rfl
  · intro k
    rw [hA]
    constructor
    · rintro (h | h)
      · exact absurd h (Finset.not_mem_empty _)
      · exact absurd h (by simp)
    · intro h
      have := h.2.2.2.2.2.2
      rw [hcnt, hlc] at this
      omega
  · intro k h
    exact absurd h (by simp)
  · refine ⟨[], (List.append_nil _).symm, ?_⟩
    intro k
    simp

theorem LeafCtx.applied_empty (c : LeafCtx) (P : List Message) (S : Finset Nat) :
    c.applied P S ∅ = c.full (xkCols P ∪ S) := by
  unfold LeafCtx.applied
  exact Finset.sdiff_empty

theorem split_index (sz nrhs t : Nat) (h : t < sz * nrhs) :
    t % sz < sz ∧ t / sz < nrhs ∧ t % sz + t / sz * sz = t := by
  have hsz : 0 < sz := by
    rcases Nat.eq_zero_or_pos sz with h0 | h0
    · rw [h0, Nat.zero_mul] at h
      exact absurd h (Nat.not_lt_zero _)
    · exact h0
  refine ⟨Nat.mod_lt _ hsz, ?_, ?_⟩
  · rw [Nat.div_lt_iff_lt_mul hsz, Nat.mul_comm]
    exact h
  · rw [Nat.mul_comm]
    exact Nat.mod_add_div t sz

/-- A block applied lies in a column received, or in a column solved whose
supernode comes before the row of the block. -/
theorem GInv.row_block {c : LeafCtx} {D : Nat → Nat → ℚ} {s0 : SolveState} {l : List Message}
    {r : Option Nat} {P : List Message} {S : Finset Nat} {O : Finset (Nat × Nat)}
    {s : SolveState} (H : FwdHyp c s0 l) (G : GInv c D s0 l r P S O s) (b : Nat × Nat)
    (hb : b ∈ c.full (xkCols P ∪ S)) :
    b.1 ∈ xkCols P ∨ (b.1 ∈ S ∧ b.1 < c.blkRow b) := by
  obtain ⟨a1, a2, a3, a4, a5⟩ := G.blk_valid H b hb
  rw [LeafCtx.mem_full] at hb
  rcases Finset.mem_union.mp hb.1 with h | h
  · exact Or.inl h
  · right
    refine ⟨h, ?_⟩
    obtain ⟨k, lb⟩ := b
    exact (H.blocks k a1 a2 lb a4 a3).2.2.1 (a5.mpr h)

theorem GInv.row_filter_sub {c : LeafCtx} {D : Nat → Nat → ℚ} {s0 : SolveState}
    {l : List Message} {r : Option Nat} {P : List Message} {S : Finset Nat}
    {O : Finset (Nat × Nat)} {s : SolveState} (H : FwdHyp c s0 l)
    (G : GInv c D s0 l r P S O s) (P2 : List Message) (S2 : Finset Nat)
    (hX : xkCols P ⊆ xkCols P2) (lk : Nat) (hS : ∀ k < c.rowOf lk, k ∈ S → k ∈ S2) :
    (c.full (xkCols P ∪ S)).filter (fun b => c.blkLk b = lk)
      ⊆ (c.full (xkCols P2 ∪ S2)).filter (fun b => c.blkLk b = lk) := by
  intro b hb
  rw [Finset.mem_filter] at hb ⊢
  refine ⟨?_, hb.2⟩
  have hrow := (G.blk_row H b hb.1).2.2.1
  rw [hb.2] at hrow
  have hm := (c.mem_full _ b).mp hb.1
  rw [c.mem_full]
  refine ⟨?_, hm.2⟩
  rcases G.row_block H b hb.1 with h | h
  · exact Finset.mem_union_left _ (hX h)
  · exact Finset.mem_union_right _ (hS b.1 (by rw [hrow]; exact h.2) h.1)

/-- The local sum of a block row is the initial one plus the updates of the
blocks of the row that have been applied. -/
theorem GInv.lsum_row {c : LeafCtx} {D : Nat → Nat → ℚ} {s0 : SolveState} {l : List Message}
    {r : Option Nat} {P : List Message} {S : Finset Nat}
    {s : SolveState} (H : FwdHyp c s0 l) (G : GInv c D s0 l r P S ∅ s) (lk : Nat)
    (hlk : c.rowOf lk < c.nsupers) (t : Nat) (ht : t < c.size (c.rowOf lk) * c.nrhs) :
    s.lsum (c.lsumBlk lk + t) = s0.lsum (c.lsumBlk lk + t)
      + ∑ b in (c.full (xkCols P ∪ S)).filter (fun b => c.blkLk b = lk),
          c.blkDelta b (c.val D s b.1) (c.lsumBlk lk + t) := by
  rw [G.lsum, c.applied_empty]
  congr 1
  symm
  apply Finset.sum_filter_of_ne
  intro b hb hne
  by_contra hc
  apply hne
  obtain ⟨a1, a2, a3, a4, _⟩ := G.blk_valid H b hb
  obtain ⟨r1, _, r3, _⟩ := G.blk_row H b hb
  obtain ⟨k, lb⟩ := b
  apply c.blkDelta_support H k lb a1 a2 a3 a4
  rintro ⟨hq1, hq2⟩
  have hr : c.rowOf (c.blkLk (k, lb)) < c.nsupers := by
    rw [r3]
    exact r1
  have := (c.region_disj H lk (c.blkLk (k, lb)) hlk hr (fun h => hc h.symm) t
    (c.lsumBlk lk + t - c.lsumBlk (c.blkLk (k, lb))) ht (by rw [r3]; omega)).2.1
  omega

/-- Two states reached with the same `Xk` columns and the same `LSUM` payloads
per block row agree, supernode by supernode, on which supernodes are solved
and on their blocks of `x`. -/
theorem GInv.unique_aux {c : LeafCtx} {D : Nat → Nat → ℚ} {s0 : SolveState}
    {l1 l2 P1 P2 : List Message} {S1 S2 : Finset Nat} {s1 s2 : SolveState}
    (H1 : FwdHyp c s0 l1) (H2 : FwdHyp c s0 l2)
    (G1 : GInv c D s0 l1 none P1 S1 ∅ s1) (G2 : GInv c D s0 l2 none P2 S2 ∅ s2)
    (hX : xkCols P1 = xkCols P2) (hC : ∀ lk, c.lsumCount P1 lk = c.lsumCount P2 lk)
    (hPay : ∀ lk t, c.lsumPay P1 lk t = c.lsumPay P2 lk t) :
    ∀ k, (k ∈ S1 ↔ k ∈ S2) ∧
      (∀ lk, c.rowOf lk = k → k < c.nsupers → ∀ j < c.nrhs, ∀ i < c.size (c.rowOf lk),
        s1.x (c.xBlk lk + i + j * c.size (c.rowOf lk))
          = s2.x (c.xBlk lk + i + j * c.size (c.rowOf lk))) := by
  intro k
  induction k using Nat.strong_induction_on with
  | _ k ih =>
  by_cases hloc : k < c.nsupers ∧ PROW k c.grid = c.myrow
  swap
  · constructor
    · constructor
      · intro h
        exact absurd ⟨(G1.S_spec k h).1, (G1.S_spec k h).2.1⟩ hloc
      · intro h
        exact absurd ⟨(G2.S_spec k h).1, (G2.S_spec k h).2.1⟩ hloc
    · intro lk hlk hk
      exfalso
      apply hloc
      refine ⟨hk, ?_⟩
      rw [← hlk]
      exact (c.LBi_rowOf H1.iam_lt lk).2
  obtain ⟨hkn, hpr⟩ := hloc
  have hrowk : c.rowOf (LBi k c.grid) = k := c.rowOf_LBi k hpr
  generalize LBi k c.grid = lk at hrowk
  subst hrowk
  have hlk0 : LBi (c.rowOf lk) c.grid = lk := (c.LBi_rowOf H1.iam_lt lk).1
  have hf : (c.full (xkCols P1 ∪ S1)).filter (fun b => c.blkLk b = lk)
      = (c.full (xkCols P2 ∪ S2)).filter (fun b => c.blkLk b = lk) := by
    apply Finset.Subset.antisymm
    · exact G1.row_filter_sub H1 P2 S2 (by rw [hX]) lk (fun k' hk' h => (ih k' hk').1.mp h)
    · exact G2.row_filter_sub H2 P1 S1 (by rw [hX]) lk (fun k' hk' h => (ih k' hk').1.mpr h)
  have hcnt : c.cnt (c.applied P1 S1 ∅) lk = c.cnt (c.applied P2 S2 ∅) lk := by
    rw [c.applied_empty, c.applied_empty]
    unfold LeafCtx.cnt
    rw [hf]
  have hS : c.rowOf lk ∈ S1 ↔ c.rowOf lk ∈ S2 := by
    have e1 := G1.solved (c.rowOf lk)
    have e2 := G2.solved (c.rowOf lk)
    simp only [reduceCtorEq, or_false] at e1 e2
    rw [e1, e2]
    unfold LeafCtx.ready
    rw [hlk0, hcnt, hC]
  have htrig : c.trig s0 (c.applied P1 S1 ∅) lk ↔ c.trig s0 (c.applied P2 S2 ∅) lk := by
    unfold LeafCtx.trig
    rw [hcnt]
  have hval : ∀ b ∈ (c.full (xkCols P1 ∪ S1)).filter (fun b => c.blkLk b = lk),
      ∀ t < c.size b.1 * c.nrhs, c.val D s1 b.1 t = c.val D s2 b.1 t := by
    intro b hb t ht
    rw [Finset.mem_filter] at hb
    have hrow := (G1.blk_row H1 b hb.1).2.2.1
    rw [hb.2] at hrow
    unfold LeafCtx.val
    rw [if_pos ht, if_pos ht]
    by_cases hp : PROW b.1 c.grid = c.myrow
    · rw [if_pos hp, if_pos hp]
      rcases G1.row_block H1 b hb.1 with h | h
      · exact absurd hp (xkCols_spec c H1 G1.pre _ h).2.2
      · have hlt : b.1 < c.rowOf lk := by
          rw [hrow]
          exact h.2
        obtain ⟨d1, d2, d3⟩ := split_index _ _ t ht
        have hro := c.rowOf_LBi b.1 hp
        have key := (ih b.1 hlt).2 (LBi b.1 c.grid) hro (G1.blk_valid H1 b hb.1).1
          (t / c.size b.1) d2 (t % c.size b.1) (by rw [hro]; exact d1)
        rw [hro, Nat.add_assoc, d3] at key
        exact key
    · rw [if_neg hp, if_neg hp]
  have hls : ∀ t < c.size (c.rowOf lk) * c.nrhs,
      s1.lsum (c.lsumBlk lk + t) = s2.lsum (c.lsumBlk lk + t) := by
    intro t ht
    rw [G1.lsum_row H1 lk hkn t ht, G2.lsum_row H2 lk hkn t ht, ← hf]
    congr 1
    exact Finset.sum_congr rfl (fun b hb => c.blkDelta_congr b _ _ _ (hval b hb))
  have hxeq : ∀ j < c.nrhs, ∀ i, i < c.size (c.rowOf lk) →
      s1.x (c.xBlk lk + i + j * c.size (c.rowOf lk))
        = s2.x (c.xBlk lk + i + j * c.size (c.rowOf lk)) := by
    intro j hj i
    induction i using Nat.strong_induction_on with
    | _ i ihi =>
    intro hi
    rw [G1.xin lk hkn j hj i hi, G2.xin lk hkn j hj i hi]
    have hY : c.Y s0 P1 (c.applied P1 S1 ∅) s1 lk i j
        = c.Y s0 P2 (c.applied P2 S2 ∅) s2 lk i j := by
      unfold LeafCtx.Y
      rw [hPay]
      by_cases ht : c.trig s0 (c.applied P1 S1 ∅) lk
      · rw [if_pos ht, if_pos (htrig.mp ht)]
        have hl := hls _ (add_mul_lt hi hj)
        rw [← Nat.add_assoc] at hl
        rw [hl]
      · rw [if_neg ht, if_neg (fun h => ht (htrig.mpr h))]
    rw [hY]
    congr 1
    by_cases hs : c.rowOf lk ∈ S1
    · rw [if_pos hs, if_pos (hS.mp hs)]
      congr 1
      apply List.map_congr_left
      intro t ht
      rw [ihi t (List.mem_range.mp ht) (by have := List.mem_range.mp ht; omega)]
    · rw [if_neg hs, if_neg (fun h => hs (hS.mpr h))]
  refine ⟨hS, ?_⟩
  intro lk' hlk' _ j hj i hi
  have he : lk' = lk := by
    rw [← (c.LBi_rowOf H1.iam_lt lk').1, hlk', hlk0]
  subst he
  exact hxeq j hj i hi

/-- The state at the exit of the receive loop is fixed by the columns received
and the payloads of the `LSUM` messages per block row. -/
theorem GInv.unique {c : LeafCtx} {D : Nat → Nat → ℚ} {s0 : SolveState}
    {l1 l2 P1 P2 : List Message} {S1 S2 : Finset Nat} {s1 s2 : SolveState}
    (H1 : FwdHyp c s0 l1) (H2 : FwdHyp c s0 l2)
    (G1 : GInv c D s0 l1 none P1 S1 ∅ s1) (G2 : GInv c D s0 l2 none P2 S2 ∅ s2)
    (hX : xkCols P1 = xkCols P2) (hC : ∀ lk, c.lsumCount P1 lk = c.lsumCount P2 lk)
    (hPay : ∀ lk t, c.lsumPay P1 lk t = c.lsumPay P2 lk t) :
    S1 = S2 ∧ s1.x = s2.x ∧ s1.lsum = s2.lsum ∧ s1.fmod = s2.fmod ∧ s1.frecv = s2.frecv := by
  have aux := GInv.unique_aux H1 H2 G1 G2 hX hC hPay
  have hS : S1 = S2 := Finset.ext (fun k => (aux k).1)
  subst hS
  have hA : c.applied P1 S1 ∅ = c.applied P2 S1 ∅ := by
    rw [c.applied_empty, c.applied_empty, hX]
  have hx : s1.x = s2.x := by
    funext q
    by_cases hq : ∃ lk, c.rowOf lk < c.nsupers ∧ ∃ j, j < c.nrhs ∧ ∃ i,
        i < c.size (c.rowOf lk) ∧ q = c.xBlk lk + i + j * c.size (c.rowOf lk)
    · obtain ⟨lk, hlk, j, hj, i, hi, rfl⟩ := hq
      exact (aux (c.rowOf lk)).2 lk rfl hlk j hj i hi
    · have hout : ∀ lk, c.rowOf lk < c.nsupers → ∀ j < c.nrhs, ∀ i < c.size (c.rowOf lk),
          q ≠ c.xBlk lk + i + j * c.size (c.rowOf lk) :=
        fun lk hlk j hj i hi hc => hq ⟨lk, hlk, j, hj, i, hi, hc⟩
      rw [G1.xout q hout, G2.xout q hout]
  refine ⟨rfl, hx, ?_, ?_, ?_⟩
  · funext q
    rw [G1.lsum, G2.lsum, hA]
    congr 1
    apply Finset.sum_congr rfl
    intro b _
    apply c.blkDelta_congr
    intro t _
    unfold LeafCtx.val
    rw [hx]
  · funext lk
    rw [G1.fmod, G2.fmod, hA]
  · funext lk
    rw [G1.frecv, G2.frecv, hC]

theorem foldlOpt_range_total {σ : Type} (f : σ → Nat → Option σ) (I : Nat → σ → Prop) :
    ∀ n, (∀ t < n, ∀ a, I t a → f a t ≠ none) →
      (∀ t < n, ∀ a b, I t a → f a t = some b → I (t + 1) b) →
      ∀ a, I 0 a → foldlOpt f a (List.range n) ≠ none := by
  intro n
  induction n with
  | zero =>
    intro _ _ a _
    simp [foldlOpt]
  | succ n ih =>
    intro htot hstep a h0
    rw [List.range_succ, foldlOpt_concat]
    cases hf : foldlOpt f a (List.range n) with
    | none =>
      exact absurd hf (ih (fun t ht => htot t (Nat.lt_succ_of_lt ht))
        (fun t ht => hstep t (Nat.lt_succ_of_lt ht)) a h0)
    | some a1 =>
      have h1 := foldlOpt_range_inv f I n (fun t ht => hstep t (Nat.lt_succ_of_lt ht))
        a a1 h0 hf
      exact htot n (Nat.lt_succ_self n) a1 h1

/-- One iteration of the block loop returns, when the routine used for the
cascade returns on the columns of smaller depth. -/
theorem dlsum_fmod_leaf_block_total {c : LeafCtx} {D : Nat → Nat → ℚ} {s0 : SolveState}
    {l : List Message} (H : FwdHyp c s0 l) (hst : c.stored)
    (recurse : FmodCall → SolveState → Option SolveState) (n : Nat)
    (hrecT : ∀ n', n = n' + 1 → TotalStep c D s0 l n' recurse)
    (k lb : Nat) (xk : XkPtr) (P : List Message) (S : Finset Nat) (O : Finset (Nat × Nat))
    (s : SolveState) (G : GInv c D s0 l none P S O s) (hb : (k, lb) ∈ O)
    (hxk : ∀ t < c.size k * c.nrhs, xk.read s t = c.val D s k t)
    (hdep : c.depth k ≤ n) :
    dlsum_fmod_leaf_block recurse c.treeId c.trf3Dpartition xk c.nrhs (c.size k)
        c.LUstruct.Glu_persist.xsup c.grid c.LUstruct.Llu (c.colSub k) (c.colVal k)
        (c.colSub k 1)
        ((lBlockPos (c.colSub k) lb).1, (lBlockPos (c.colSub k) lb).2, s) ≠ none := by
  intro h
  have hl : ∀ (rt : Nat → ℚ) (q : Nat),
      lsumScatterSub s.lsum (c.lsumBlk (c.blkLk (k, lb))) (c.size (c.blkRow (k, lb)))
        (c.blkRows (k, lb)) c.nrhs (c.colSub k) ((lBlockPos (c.colSub k) lb).1 + LB_DESCRIPTOR)
        (c.LUstruct.Glu_persist.xsup (c.blkRow (k, lb)))
        (dgemm_ (c.blkRows (k, lb)) c.nrhs (c.size k) 1
          (fun i => c.colVal k ((lBlockPos (c.colSub k) lb).2 + i)) (c.colSub k 1) (xk.read s)
          (c.size k) 0 rt 0 (c.blkRows (k, lb))) q
      = s.lsum q + c.blkDelta (k, lb) (c.val D s k) q :=
    fun rt q => c.blk_lsum D s (k, lb) (xk.read s) rt hxk q
  obtain ⟨hne, hkS, _⟩ := G.owed_row H (k, lb) hb
  obtain ⟨hkb, hprow, hrow, hlk⟩ := G.blk_row H (k, lb) (G.sub hb)
  obtain ⟨a1, a2, a3, a4, a5⟩ := G.blk_valid H (k, lb) (G.sub hb)
  have hlt : PROW k c.grid = c.myrow → k < c.blkRow (k, lb) :=
    (H.blocks k a1 a2 lb a4 a3).2.2.1
  have hn : ∃ n', n = n' + 1 ∧ c.depth (c.blkRow (k, lb)) ≤ n' := by
    refine ⟨n - 1, ?_, ?_⟩
    · unfold LeafCtx.depth at hdep
      split at hdep
      · rename_i hp
        have := hlt hp
        omega
      · omega
    · unfold LeafCtx.depth at hdep ⊢
      rw [if_pos hprow]
      split at hdep
      · rename_i hp
        have := hlt hp
        omega
      · omega
  obtain ⟨n', hn', hdep'⟩ := hn
  unfold dlsum_fmod_leaf_block at h
  simp only [] at h
  split at h
  · rename_i hz
    have hz1 : s.fmod (c.blkLk (k, lb)) - 1 = 0 := by
      have := hz
      rw [Function.update_same] at this
      exact this
    split at h
    · rename_i ht
      have ht1 : c.trf3Dpartition.supernode2treeMap (c.blkRow (k, lb)) = c.treeId := ht
      split at h
      · exact absurd h (by simp)
      · rename_i hp
        have hp1 : PCOL (c.blkRow (k, lb)) c.grid = c.mycol := by
          apply (c.diag_iff H.iam_lt (c.blkRow (k, lb))).mp
          by_contra hc
          exact hp hc
        split at h
        · rename_i hfr
          have hfr1 : s.frecv (c.blkLk (k, lb)) = 0 := hfr
          split at h
          · rename_i hnone
            exact hst _ hkb hprow hp1 ht1 hnone
          · rename_i lsub1 hsub1
            split at h
            · rename_i hs6
              have hsub1' : c.LUstruct.Llu.Lrowind_bc_ptr (LBj (c.blkRow (k, lb)) c.grid)
                  = some lsub1 := hsub1
              have hcs1 := c.colSub_eq (c.blkRow (k, lb)) lsub1 hsub1'
              refine hrecT n' hn' _ 1 P (insert (c.blkRow (k, lb)) S)
                (O.erase (k, lb) ∪ c.colBlocks (c.blkRow (k, lb))) _
                (GInv.sends (G.upd_solve H (k, lb) hb _ (fun q => hl s.rtemp q) (by rfl)
                    (by rfl) ⟨_, rfl, by rfl⟩ (by rw [hcs1]; rfl) ⟨hz1, ht1, hp1⟩ hfr1)
                  (fun p => c.LUstruct.Llu.fsendx_plist (LBj (c.blkRow (k, lb)) c.grid) p
                    ≠ EMPTY) _ _ _ _ _)
                (by rfl)
                (by
                  show BC_HEADER + LB_DESCRIPTOR + c.size (c.blkRow (k, lb))
                    = BC_HEADER + LB_DESCRIPTOR + c.colSub (c.blkRow (k, lb)) (BC_HEADER + 1)
                  rw [H.diag _ hkb hprow hp1 (by rw [hsub1']; simp)])
                (by
                  show c.size (c.blkRow (k, lb))
                    = 0 + c.colSub (c.blkRow (k, lb)) (BC_HEADER + 1)
                  rw [H.diag _ hkb hprow hp1 (by rw [hsub1']; simp), Nat.zero_add])
                (by
                  show (Finset.Ico 1 (1 + (lsub1 0 - 1))).image
                    (fun lb' => (c.blkRow (k, lb), lb')) ⊆ _
                  rw [c.cascade_blocks _ lsub1 hsub1' hprow]
                  exact Finset.subset_union_right)
                (by
                  intro s1 _ t ht
                  have ht' : t < c.size (c.blkRow (k, lb)) * c.nrhs := ht
                  show s1.x (c.xBlk (c.blkLk (k, lb)) + t) = c.val D s1 (c.blkRow (k, lb)) t
                  unfold LeafCtx.val
                  rw [if_pos ht', if_pos hprow]
                  rfl)
                (by
                  show c.LUstruct.Llu.Lrowind_bc_ptr (LBj (c.blkRow (k, lb)) c.grid) ≠ none
                  rw [hsub1']
                  simp)
                hdep' hs6
            · exact absurd h (by simp)
        · exact absurd h (by simp)
    · exact absurd h (by simp)
  · exact absurd h (by simp)

/-- One activation of `dlsum_fmod_leaf` returns, when the routine used for the
cascade returns on the columns of smaller depth. -/
theorem dlsum_fmod_leaf_with_total {c : LeafCtx} {D : Nat → Nat → ℚ} {s0 : SolveState}
    {l : List Message} (H : FwdHyp c s0 l) (hst : c.stored)
    (recurse : FmodCall → SolveState → Option SolveState) (hrec : BigStep c D s0 l recurse)
    (n : Nat) (hrecT : ∀ n', n = n' + 1 → TotalStep c D s0 l n' recurse) :
    TotalStep c D s0 l n
      (dlsum_fmod_leaf_with recurse c.treeId c.trf3Dpartition c.nrhs
        c.LUstruct.Glu_persist.xsup c.grid c.LUstruct.Llu) := by
  intro call lb0 P S O s G hkn hlp hlu hsub hxk hne hdep h
  unfold dlsum_fmod_leaf_with at h
  simp only [] at h
  split at h
  · rename_i hnone
    exact hne hnone
  · rename_i lsub hlsub
    split at h
    · rename_i hfold
      have hcs : c.colSub call.k = lsub := c.colSub_eq _ _ hlsub
      subst hcs
      rw [hkn, hlp, hlu] at hfold
      refine foldlOpt_range_total
        (fun st (_ : Nat) => dlsum_fmod_leaf_block recurse c.treeId c.trf3Dpartition call.xk
          c.nrhs (c.size call.k) c.LUstruct.Glu_persist.xsup c.grid c.LUstruct.Llu
          (c.colSub call.k) (c.LUstruct.Llu.Lnzval_bc_ptr (LBj call.k c.grid))
          (c.colSub call.k 1) st)
        (FmodLoopInv c D s0 l call.k lb0 P S O s)
        call.nlb ?_
        (fun t ht a b hI hf => dlsum_fmod_leaf_step_inv H recurse hrec call.k lb0 call.nlb
          call.xk P S O s hsub hxk t ht a b hI hf)
        ((lBlockPos (c.colSub call.k) lb0).1, (lBlockPos (c.colSub call.k) lb0).2, s)
        ⟨rfl, rfl, S, Finset.Subset.refl _, by simpa using G, rfl⟩ hfold
      intro t ht a hI
      obtain ⟨lptr, luptr, sa⟩ := a
      obtain ⟨h1, h2, S1, hS1, G1, hr1⟩ := hI
      have h1' : lptr = (lBlockPos (c.colSub call.k) (lb0 + t)).1 := h1
      have h2' : luptr = (lBlockPos (c.colSub call.k) (lb0 + t)).2 := h2
      subst h1' h2'
      exact dlsum_fmod_leaf_block_total H hst recurse n hrecT call.k (lb0 + t) call.xk P S1 _
        sa G1 (owed_next call.nlb t ht hsub) (hxk sa hr1) hdep
    · exact absurd h (by simp)

/-- A run of `dlsum_fmod_leaf` returns when its fuel is at least the depth of
the column it is called with. -/
theorem dlsum_fmod_leaf_total {c : LeafCtx} {D : Nat → Nat → ℚ} {s0 : SolveState}
    {l : List Message} (H : FwdHyp c s0 l) (hst : c.stored) :
    ∀ fuel, TotalStep c D s0 l fuel
      (dlsum_fmod_leaf fuel c.treeId c.trf3Dpartition c.nrhs
        c.LUstruct.Glu_persist.xsup c.grid c.LUstruct.Llu) := by
  intro fuel
  induction fuel with
  | zero =>
    intro call lb0 P S O s G hkn hlp hlu hsub hxk hne hdep h
    unfold dlsum_fmod_leaf at h
    refine dlsum_fmod_leaf_with_total H hst _ ?_ 0 ?_ call lb0 P S O s G hkn hlp hlu hsub hxk
      hne hdep h
    · intro call1 lb1 P1 S1 O1 s1 s1' _ _ _ _ _ _ h1
      exact absurd h1 (by simp)
    · intro n' hn'
      omega
  | succ fuel ih =>
    intro call lb0 P S O s G hkn hlp hlu hsub hxk hne hdep h
    unfold dlsum_fmod_leaf at h
    refine dlsum_fmod_leaf_with_total H hst _ (dlsum_fmod_leaf_big H fuel) (fuel + 1) ?_
      call lb0 P S O s G hkn hlp hlu hsub hxk hne hdep h
    intro n' hn'
    have : fuel = n' := by omega
    subst this
    exact ih

theorem LeafCtx.depth_le (c : LeafCtx) (k : Nat) : c.depth k ≤ c.nsupers := by
  unfold LeafCtx.depth
  split <;> omega

/-- The handler of an `Xk` message returns with enough fuel. -/
theorem leafForestForwardSolve3d_Xk_total {c : LeafCtx} {D : Nat → Nat → ℚ}
    {s0 : SolveState} {l : List Message} (H : FwdHyp c s0 l) (hst : c.stored)
    (hD : ∀ m ∈ l, m.tag = MsgTag.Xk → ∀ t < c.size m.block * c.nrhs,
      m.data (XK_H + t) = D m.block t)
    (fuel : Nat) (hfuel : c.nsupers ≤ fuel) (P : List Message) (S : Finset Nat)
    (s : SolveState) (G : GInv c D s0 l none P S ∅ s) (m : Message) (hm : P ++ [m] <+: l)
    (htag : m.tag = MsgTag.Xk) :
    leafForestForwardSolve3d_Xk fuel c.treeId c.nrhs c.LUstruct c.trf3Dpartition c.grid
      (headerToBlock ((MPI_Recv m s).recvbuf 0)) (MPI_Recv m s) ≠ none := by
  intro h
  have hml : m ∈ l := by
    obtain ⟨t, ht⟩ := hm
    rw [← ht]
    simp
  have hshape := H.msgs m hml
  rcases hshape with hx | hx
  swap
  · rw [htag] at hx
    exact absurd hx.1 (by simp)
  obtain ⟨_, hkn, hpc, hpr, hcount⟩ := hx
  have hXK : XK_H = 2 := rfl
  have hk : headerToBlock ((MPI_Recv m s).recvbuf 0) = m.block := by
    unfold MPI_Recv Message.block
    simp only []
    rw [if_pos (by omega)]
  rw [hk] at h
  have G1 := G.xkMsg H m hm htag (MPI_Recv m s) rfl rfl rfl rfl rfl
  unfold leafForestForwardSolve3d_Xk at h
  simp only [] at h
  split at h
  · rename_i lsub hlsub
    have hcs := c.colSub_eq m.block lsub hlsub
    have hst0 : c.colStart m.block = 0 := by
      unfold LeafCtx.colStart
      rw [if_neg hpr]
    have hcb : (Finset.Ico 0 (0 + lsub 0)).image (fun lb => (m.block, lb))
        = c.colBlocks m.block := by
      unfold LeafCtx.colBlocks
      rw [hst0, hcs, Nat.zero_add]
    refine dlsum_fmod_leaf_total H hst fuel _ 0 (P ++ [m]) S (∅ ∪ c.colBlocks m.block)
      (MPI_Recv m s) G1 (by rfl) (by rfl) (by rfl)
      (by
        show (Finset.Ico 0 (0 + lsub 0)).image (fun lb => (m.block, lb)) ⊆ _
        rw [hcb]
        exact Finset.subset_union_right)
      (by
        intro s1 hs1 t ht
        have ht' : t < c.size m.block * c.nrhs := ht
        show s1.recvbuf (XK_H + t) = c.val D s1 m.block t
        rw [hs1]
        unfold LeafCtx.val
        rw [if_pos ht', if_neg hpr, ← hD m hml htag t ht']
        unfold MPI_Recv
        simp only []
        rw [if_pos (by omega)])
      (by
        show c.LUstruct.Llu.Lrowind_bc_ptr (LBj m.block c.grid) ≠ none
        rw [show c.LUstruct.Llu.Lrowind_bc_ptr (LBj m.block c.grid) = some lsub from hlsub]
        simp)
      ((c.depth_le m.block).trans hfuel) h
  · exact absurd h (by simp)

/-- The handler of an `LSUM` message returns with enough fuel. -/
theorem leafForestForwardSolve3d_LSUM_total {c : LeafCtx} {D : Nat → Nat → ℚ}
    {s0 : SolveState} {l : List Message} (H : FwdHyp c s0 l) (hst : c.stored)
    (fuel : Nat) (hfuel : c.nsupers ≤ fuel) (P : List Message) (S : Finset Nat)
    (s : SolveState) (G : GInv c D s0 l none P S ∅ s) (m : Message) (hm : P ++ [m] <+: l)
    (htag : m.tag = MsgTag.LSUM) :
    leafForestForwardSolve3d_LSUM fuel c.treeId c.nrhs c.LUstruct c.trf3Dpartition c.grid
      (headerToBlock ((MPI_Recv m s).recvbuf 0)) (MPI_Recv m s) ≠ none := by
  intro h
  have hml : m ∈ l := by
    obtain ⟨t, ht⟩ := hm
    rw [← ht]
    simp
  have hshape := H.msgs m hml
  rcases hshape with hx | hx
  · rw [htag] at hx
    exact absurd hx.1 (by simp)
  obtain ⟨_, hkn, hpr, hpc, htree, hcount, _⟩ := hx
  have hLS : LSUM_H = 2 := rfl
  have hk : headerToBlock ((MPI_Recv m s).recvbuf 0) = m.block := by
    unfold MPI_Recv Message.block
    simp only []
    rw [if_pos (by omega)]
  rw [hk] at h
  have hrb : ∀ t < m.count, (MPI_Recv m s).recvbuf t = m.data t := by
    intro t ht
    unfold MPI_Recv
    simp only []
    rw [if_pos ht]
  have hstk := hst m.block hkn hpr hpc htree
  have G1 := G.lsumMsg H m hm htag
    ({ MPI_Recv m s with x := addBlock s.x (c.xBlk (LBi m.block c.grid)) (MPI_Recv m s).recvbuf LSUM_H (c.size m.block) c.nrhs, frecv := Function.update s.frecv (LBi m.block c.grid) (s.frecv (LBi m.block c.grid) - 1) } : SolveState)
    (MPI_Recv m s).recvbuf hrb rfl rfl rfl rfl rfl
  unfold leafForestForwardSolve3d_LSUM at h
  simp only [] at h
  split at h
  · rename_i hc
    have hc1 : s.frecv (LBi m.block c.grid) - 1 = 0 ∧ s.fmod (LBi m.block c.grid) = 0 := by
      have h1 := hc.1
      rw [Function.update_same] at h1
      exact ⟨h1, hc.2⟩
    rw [if_pos hc1] at G1
    split at h
    · rename_i hs5
      unfold localSolveXkYk at hs5
      simp only [] at hs5
      split at hs5
      · rename_i hnone
        exact hstk hnone
      · exact absurd hs5 (by simp)
    · rename_i s5 hs5
      unfold localSolveXkYk at hs5
      simp only [] at hs5
      split at hs5
      · exact absurd hs5 (by simp)
      · rename_i lsub hlsub
        simp only [Option.some.injEq] at hs5
        subst hs5
        have hcs := c.colSub_eq m.block lsub hlsub
        split at h
        · rename_i hnone
          exact hstk hnone
        · rename_i lsub1 hlsub1
          have hlsub1' : c.LUstruct.Llu.Lrowind_bc_ptr (LBj m.block c.grid) = some lsub1 :=
            hlsub1
          have hdiag := H.diag _ hkn hpr hpc (by rw [hlsub1']; simp)
          refine dlsum_fmod_leaf_total H hst fuel _ 1 (P ++ [m]) (insert m.block S)
            (∅ ∪ c.colBlocks m.block) _
            ((GInv.solve H m.block G1 _ (by rw [hcs]; rfl) (by rfl) (by rfl) (by rfl)
              ⟨_, rfl, by rfl⟩).bcast m.block
                (X_BLK c.LUstruct.Llu.ilsum c.nrhs (LBi m.block c.grid) - XK_H)
                c.LUstruct.Llu.fsendx_plist)
            (by rfl)
            (by
              show BC_HEADER + LB_DESCRIPTOR + c.size m.block
                = BC_HEADER + LB_DESCRIPTOR + c.colSub m.block (BC_HEADER + 1)
              rw [hdiag])
            (by
              show c.size m.block = 0 + c.colSub m.block (BC_HEADER + 1)
              rw [hdiag, Nat.zero_add])
            (by
              show (Finset.Ico 1 (1 + (lsub1 0 - 1))).image (fun lb => (m.block, lb)) ⊆ _
              rw [c.cascade_blocks _ lsub1 hlsub1' hpr]
              exact Finset.subset_union_right)
            (by
              intro s1 _ t ht
              have ht' : t < c.size m.block * c.nrhs := ht
              show s1.x (c.xBlk (LBi m.block c.grid) + t) = c.val D s1 m.block t
              unfold LeafCtx.val
              rw [if_pos ht', if_pos hpr])
            hstk ((c.depth_le m.block).trans hfuel) h
  · exact absurd h (by simp)

/-- The receive loop, started with counters equal to the numbers of messages
left and with enough fuel, returns. -/
theorem leafForestForwardSolve3d_recv_total {c : LeafCtx} {D : Nat → Nat → ℚ}
    {s0 : SolveState} {l : List Message} (H : FwdHyp c s0 l) (hst : c.stored)
    (hD : ∀ m ∈ l, m.tag = MsgTag.Xk → ∀ t < c.size m.block * c.nrhs,
      m.data (XK_H + t) = D m.block t)
    (fuel : Nat) (hfuel : c.nsupers ≤ fuel) :
    ∀ (rest P : List Message) (S : Finset Nat) (s : SolveState) (nfrecvx nfrecvmod : Int),
      P ++ rest = l → GInv c D s0 l none P S ∅ s →
      nfrecvx = ((rest.filter (fun a => a.tag = MsgTag.Xk)).length : Int) →
      nfrecvmod = ((rest.filter (fun a => a.tag = MsgTag.LSUM)).length : Int) →
      leafForestForwardSolve3d_recv fuel c.treeId c.nrhs c.LUstruct c.trf3Dpartition c.grid
        nfrecvx nfrecvmod s rest ≠ none := by
  intro rest
  induction rest with
  | nil =>
    intro P S s nfrecvx nfrecvmod hP G hx hmod h
    unfold leafForestForwardSolve3d_recv at h
    split at h
    · rename_i hc
      rw [hx, hmod] at hc
      simp at hc
    · exact absurd h (by simp)
  | cons m rest ih =>
    intro P S s nfrecvx nfrecvmod hP G hx hmod h
    have hpre : P ++ [m] <+: l := by
      refine ⟨rest, ?_⟩
      rw [List.append_assoc]
      exact hP
    have hP' : (P ++ [m]) ++ rest = l := by
      rw [List.append_assoc]
      exact hP
    have hml : m ∈ l := by
      rw [← hP]
      simp
    rw [tagCount_cons] at hx hmod
    unfold leafForestForwardSolve3d_recv at h
    simp only [] at h
    split at h
    · split at h
      · rename_i htag
        split at h
        · rename_i hs1
          exact leafForestForwardSolve3d_Xk_total H hst hD fuel hfuel P S s G m hpre htag hs1
        · rename_i s1 hs1
          obtain ⟨S1, hS1, G1⟩ :=
            leafForestForwardSolve3d_Xk_inv H hD fuel P S s G m hpre htag s1 hs1
          rw [if_pos htag] at hx
          rw [if_neg (by rw [htag]; simp)] at hmod
          exact ih (P ++ [m]) S1 s1 _ _ hP' G1 (by rw [hx]; ring) (by rw [hmod]; ring) h
      · rename_i htag
        split at h
        · rename_i hs1
          exact leafForestForwardSolve3d_LSUM_total H hst fuel hfuel P S s G m hpre htag hs1
        · rename_i s1 hs1
          obtain ⟨S1, hS1, G1⟩ :=
            leafForestForwardSolve3d_LSUM_inv H fuel P S s G m hpre htag s1 hs1
          rw [if_neg (by rw [htag]; simp)] at hx
          rw [if_pos htag] at hmod
          exact ih (P ++ [m]) S1 s1 _ _ hP' G1 (by rw [hx]; ring) (by rw [hmod]; ring) h
      · rename_i htag
        rcases H.msgs m hml with hc | hc
        · rw [htag] at hc
          exact absurd hc.1 (by simp)
        · rw [htag] at hc
          exact absurd hc.1 (by simp)
    · exact absurd h (by simp)

theorem xkCols_perm {l1 l2 : List Message} (h : l1.Perm l2) : xkCols l1 = xkCols l2 := by
  unfold xkCols
  exact List.toFinset_eq_of_perm _ _ ((h.filter _).map _)

theorem LeafCtx.lsumCount_perm (c : LeafCtx) {l1 l2 : List Message} (h : l1.Perm l2)
    (lk : Nat) : c.lsumCount l1 lk = c.lsumCount l2 lk := by
  unfold LeafCtx.lsumCount LeafCtx.lsumMsgs
  exact (h.filter _).length_eq

theorem LeafCtx.lsumPay_perm (c : LeafCtx) {l1 l2 : List Message} (h : l1.Perm l2)
    (lk t : Nat) : c.lsumPay l1 lk t = c.lsumPay l2 lk t := by
  unfold LeafCtx.lsumPay LeafCtx.lsumMsgs
  exact ((h.filter _).map _).sum_eq

/-- The consistency of a list of messages with the counters does not depend on
the order of the list. -/
theorem FwdHyp.perm {c : LeafCtx} {s0 : SolveState} {l1 l2 : List Message}
    (H : FwdHyp c s0 l1) (h : l1.Perm l2) : FwdHyp c s0 l2 := by
  refine ⟨H.iam_lt, H.blocks, H.diag, H.regions, ?_, ?_, ?_⟩
  · intro m hm
    have := H.msgs m (h.mem_iff.mpr hm)
    simp only [c.lsumCount_perm h] at this
    exact this
  · exact (((h.filter _).map _).nodup_iff).mp H.xk_nodup
  · intro lk hlk h0
    rw [← xkCols_perm h]
    exact H.fmod_cons lk hlk h0

/-- The payload recorded for a supernode is that of its `Xk` message, when no two
`Xk` messages name the same supernode. -/
theorem xkData_spec (l : List Message)
    (hnd : ((l.filter (fun m => m.tag = MsgTag.Xk)).map Message.block).Nodup)
    (m : Message) (hm : m ∈ l) (htag : m.tag = MsgTag.Xk) (t : Nat) :
    m.data (XK_H + t) = xkData l m.block t := by
  unfold xkData
  cases hf : l.find? (fun a => a.tag = MsgTag.Xk ∧ a.block = m.block) with
  | none =>
    have := List.find?_eq_none.mp hf m hm
    simp [htag] at this
  | some a =>
    have ha := List.find?_some hf
    have hal := List.mem_of_find?_eq_some hf
    simp only [decide_eq_true_eq] at ha
    have hfa : a ∈ l.filter (fun m => m.tag = MsgTag.Xk) := by
      rw [List.mem_filter]
      exact ⟨hal, by simpa using ha.1⟩
    have hfm : m ∈ l.filter (fun m => m.tag = MsgTag.Xk) := by
      rw [List.mem_filter]
      exact ⟨hm, by simpa using htag⟩
    have := List.inj_on_of_nodup_map hnd hfa hfm ha.2
    rw [this]

/-- The set of supernodes solved is read off the log of the solves. -/
theorem GInv.solved_iff {c : LeafCtx} {D : Nat → Nat → ℚ} {s0 : SolveState}
    {l : List Message} {r : Option Nat} {P : List Message} {S : Finset Nat}
    {O : Finset (Nat × Nat)} {s : SolveState} (G : GInv c D s0 l r P S O s) (k : Nat) :
    (∃ e ∈ s.solved, e.k = k) ↔ ((∃ e ∈ s0.solved, e.k = k) ∨ k ∈ S) := by
  obtain ⟨L, hL, hS⟩ := G.log
  rw [hL, ← hS k]
  constructor
  · rintro ⟨e, he, hk⟩
    rcases List.mem_append.mp he with h | h
    · exact Or.inl ⟨e, h, hk⟩
    · exact Or.inr ⟨e, h, hk⟩
  · rintro (⟨e, he, hk⟩ | ⟨e, he, hk⟩)
    · exact ⟨e, List.mem_append_left _ he, hk⟩
    · exact ⟨e, List.mem_append_right _ he, hk⟩

/-- The receive loop run on a list of messages consistent with the counters ends
in a state of the invariant with all the messages received and no block owed. -/
theorem leafForestForwardSolve3d_recv_final {c : LeafCtx} {s0 : SolveState}
    {l : List Message} (D : Nat → Nat → ℚ) (H : FwdHyp c s0 l)
    (hD : ∀ m ∈ l, m.tag = MsgTag.Xk → ∀ t < c.size m.block * c.nrhs,
      m.data (XK_H + t) = D m.block t)
    (fuel : Nat) (nfrecvx nfrecvmod : Int)
    (hx : nfrecvx = ((l.filter (fun a => a.tag = MsgTag.Xk)).length : Int))
    (hmod : nfrecvmod = ((l.filter (fun a => a.tag = MsgTag.LSUM)).length : Int))
    (s' : SolveState)
    (h : leafForestForwardSolve3d_recv fuel c.treeId c.nrhs c.LUstruct c.trf3Dpartition c.grid
      nfrecvx nfrecvmod s0 l = some s') :
    ∃ S', GInv c D s0 l none l S' ∅ s' := by
  obtain ⟨S', _, G⟩ := leafForestForwardSolve3d_recv_inv H hD fuel l [] ∅ s0 nfrecvx nfrecvmod
    s' (List.nil_append l) (GInv.init c D s0 l) hx hmod h
  exact ⟨S', G⟩

/-- C7: the receive loop of `leafForestForwardSolve3d`, run from the state `s0`
on two orderings `l1` and `l2` of the same `Xk` and `LSUM` messages, with
`nfrecvx` and `nfrecvmod` the numbers of `Xk` and of `LSUM` messages, the
messages being consistent with the counters of `s0` and the stored factor, in
exact arithmetic: whenever both runs return, the final `x`, `lsum`, `fmod` and
`frecv` are equal and the same supernodes have been solved; and both runs
return when the fuel of the cascade is at least the number of supernodes and
the diagonal block columns of the forest are stored. -/
theorem leafForestForwardSolve3d_recv_order_independent (c : LeafCtx) (s0 : SolveState)
    (l1 l2 : List Message) (H : FwdHyp c s0 l1) (hperm : l1.Perm l2)
    (nfrecvx nfrecvmod : Int)
    (hx : nfrecvx = ((l1.filter (fun a => a.tag = MsgTag.Xk)).length : Int))
    (hmod : nfrecvmod = ((l1.filter (fun a => a.tag = MsgTag.LSUM)).length : Int)) :
    (∀ fuel1 fuel2 s1 s2,
      leafForestForwardSolve3d_recv fuel1 c.treeId c.nrhs c.LUstruct c.trf3Dpartition c.grid
        nfrecvx nfrecvmod s0 l1 = some s1 →
      leafForestForwardSolve3d_recv fuel2 c.treeId c.nrhs c.LUstruct c.trf3Dpartition c.grid
        nfrecvx nfrecvmod s0 l2 = some s2 →
      s1.x = s2.x ∧ s1.lsum = s2.lsum ∧ s1.fmod = s2.fmod ∧ s1.frecv = s2.frecv ∧
      ∀ k, (∃ e ∈ s1.solved, e.k = k) ↔ (∃ e ∈ s2.solved, e.k = k)) ∧
    (c.stored → ∀ fuel, c.nsupers ≤ fuel →
      ∃ s1 s2,
        leafForestForwardSolve3d_recv fuel c.treeId c.nrhs c.LUstruct c.trf3Dpartition c.grid
          nfrecvx nfrecvmod s0 l1 = some s1 ∧
        leafForestForwardSolve3d_recv fuel c.treeId c.nrhs c.LUstruct c.trf3Dpartition c.grid
          nfrecvx nfrecvmod s0 l2 = some s2) := by
  have H2 : FwdHyp c s0 l2 := H.perm hperm
  have hD1 : ∀ m ∈ l1, m.tag = MsgTag.Xk → ∀ t < c.size m.block * c.nrhs,
      m.data (XK_H + t) = xkData l1 m.block t :=
    fun m hm htag t _ => xkData_spec l1 H.xk_nodup m hm htag t
  have hD2 : ∀ m ∈ l2, m.tag = MsgTag.Xk → ∀ t < c.size m.block * c.nrhs,
      m.data (XK_H + t) = xkData l1 m.block t :=
    fun m hm htag t _ => xkData_spec l1 H.xk_nodup m (hperm.mem_iff.mpr hm) htag t
  have hx2 : nfrecvx = ((l2.filter (fun a => a.tag = MsgTag.Xk)).length : Int) := by
    rw [hx, (hperm.filter _).length_eq]
  have hmod2 : nfrecvmod = ((l2.filter (fun a => a.tag = MsgTag.LSUM)).length : Int) := by
    rw [hmod, (hperm.filter _).length_eq]
  constructor
  · intro fuel1 fuel2 s1 s2 h1 h2
    obtain ⟨S1, G1⟩ := leafForestForwardSolve3d_recv_final (xkData l1) H hD1 fuel1 nfrecvx
      nfrecvmod hx hmod s1 h1
    obtain ⟨S2, G2⟩ := leafForestForwardSolve3d_recv_final (xkData l1) H2 hD2 fuel2 nfrecvx
      nfrecvmod hx2 hmod2 s2 h2
    obtain ⟨hS, e1, e2, e3, e4⟩ := GInv.unique H H2 G1 G2 (xkCols_perm hperm)
      (fun lk => c.lsumCount_perm hperm lk) (fun lk t => c.lsumPay_perm hperm lk t)
    refine ⟨e1, e2, e3, e4, ?_⟩
    intro k
    rw [G1.solved_iff k, G2.solved_iff k, hS]
  · intro hst fuel hfuel
    have n1 := leafForestForwardSolve3d_recv_total H hst hD1 fuel hfuel l1 [] ∅ s0 nfrecvx
      nfrecvmod (List.nil_append l1) (GInv.init c (xkData l1) s0 l1) hx hmod
    have n2 := leafForestForwardSolve3d_recv_total H2 hst hD2 fuel hfuel l2 [] ∅ s0 nfrecvx
      nfrecvmod (List.nil_append l2) (GInv.init c (xkData l1) s0 l2) hx2 hmod2
    obtain ⟨s1, h1⟩ := Option.ne_none_iff_exists'.mp n1
    obtain ⟨s2, h2⟩ := Option.ne_none_iff_exists'.mp n2
    exact ⟨s1, s2, h1, h2⟩

/-- The two messages of the example are consistent with `stateSeven`. -/
theorem fwdHyp_seven : FwdHyp ctxSeven stateSeven [msgXk3, msgLsum6] := by
  refine ⟨by decide, ?_, ?_, by decide, ?_, by decide!, by decide!⟩
  · intro k hk
    have hk' : k < 7 := hk
    interval_cases k <;> decide
  · intro k hk
    have hk' : k < 7 := hk
    interval_cases k <;> (intro _ _ _; decide)
  · intro m hm
    simp only [List.mem_cons, List.mem_singleton, List.not_mem_nil, or_false] at hm
    rcases hm with rfl | rfl
    · left
      decide!
    · right
      decide!

theorem stored_seven : ctxSeven.stored := by
  intro k hk
  have hk' : k < 7 := hk
  interval_cases k <;> (intro h1 h2 _ h; first | exact absurd h1 (by decide) | exact absurd h2 (by decide) | exact absurd h (by simp [ctxSeven, LUSeven, LBj, grid2x3]))

theorem leafForestForwardSolve3d_recv_order_independent_witness :
    ∃ s1 s2,
      leafForestForwardSolve3d_recv 7 0 1 LUSeven trfOneTree grid2x3 1 1 stateSeven
        [msgXk3, msgLsum6] = some s1 ∧
      leafForestForwardSolve3d_recv 7 0 1 LUSeven trfOneTree grid2x3 1 1 stateSeven
        [msgLsum6, msgXk3] = some s2 ∧
      s1.x = s2.x ∧ s1.lsum = s2.lsum ∧ s1.fmod = s2.fmod ∧ s1.frecv = s2.frecv ∧
      ∀ k, (∃ e ∈ s1.solved, e.k = k) ↔ (∃ e ∈ s2.solved, e.k = k) := by
  have T := leafForestForwardSolve3d_recv_order_independent ctxSeven stateSeven
    [msgXk3, msgLsum6] [msgLsum6, msgXk3] fwdHyp_seven (List.Perm.swap _ _ _) 1 1
    (by decide) (by decide)
  obtain ⟨s1, s2, h1, h2⟩ := T.2 stored_seven 7 (Nat.le_refl 7)
  exact ⟨s1, s2, h1, h2, T.1 7 7 s1 s2 h1 h2⟩


/-! ## A block column without L storage -/

/-- C21: when the L storage pointer of the block column of `k` is `NULL`, the
handler of an `Xk` message for `k` returns the state it was given; the receive
loop of `leafForestForwardSolve3d` that gets such a message goes on with
`nfrecvx - 1`, the same `nfrecvmod` and a state in which only `recvbuf` holds the
message: `x`, `lsum`, `fmod` and `frecv` are as before; and `lsumForestFsolve`
returns 0 and leaves the state, `lsum` included, as it was.  No call fails and
no status other than 0 is produced. -/
theorem null_block_column_skipped (fuel treeId nrhs : Nat) (LUstruct : dLUstruct_t)
    (trf3Dpartition : dtrf3Dpartition_t) (grid : gridinfo_t) (ilsumT : Nat → Nat) (k : Nat)
    (hnull : LUstruct.Llu.Lrowind_bc_ptr (LBj k grid) = none) :
    (∀ s, leafForestForwardSolve3d_Xk fuel treeId nrhs LUstruct trf3Dpartition grid k s
      = some s) ∧
    (∀ (m : Message) (rest : List Message) (nfrecvx nfrecvmod : Int) (s : SolveState),
      m.tag = MsgTag.Xk → 0 < m.count → headerToBlock (m.data 0) = k →
      (nfrecvx ≠ 0 ∨ nfrecvmod ≠ 0) →
      leafForestForwardSolve3d_recv fuel treeId nrhs LUstruct trf3Dpartition grid
          nfrecvx nfrecvmod s (m :: rest)
        = leafForestForwardSolve3d_recv fuel treeId nrhs LUstruct trf3Dpartition grid
          (nfrecvx - 1) nfrecvmod (MPI_Recv m s) rest ∧
      (MPI_Recv m s).x = s.x ∧ (MPI_Recv m s).lsum = s.lsum ∧
      (MPI_Recv m s).fmod = s.fmod ∧ (MPI_Recv m s).frecv = s.frecv) ∧
    (∀ s, lsumForestFsolve_status k nrhs LUstruct grid ilsumT s = (0, s)) := by
  have hX : ∀ s, leafForestForwardSolve3d_Xk fuel treeId nrhs LUstruct trf3Dpartition grid k s
      = some s := by
    intro s
    unfold leafForestForwardSolve3d_Xk
    simp only [hnull]
  refine ⟨hX, ?_, ?_⟩
  · intro m rest nfrecvx nfrecvmod s htag hcount hk hc
    refine ⟨?_, rfl, rfl, rfl, rfl⟩
    have hk' : headerToBlock ((MPI_Recv m s).recvbuf 0) = k := by
      unfold MPI_Recv
      simp only []
      rw [if_pos hcount]
      exact hk
    rw [leafForestForwardSolve3d_recv]
    simp only [hc, if_true, htag, hk', hX]
  · intro s
    unfold lsumForestFsolve_status
    simp only [hnull]

theorem null_block_column_skipped_witness :
    (∀ s, leafForestForwardSolve3d_Xk 0 0 1 LUEmpty trfOneTree grid1x1 0 s = some s) ∧
    (∀ (m : Message) (rest : List Message) (nfrecvx nfrecvmod : Int) (s : SolveState),
      m.tag = MsgTag.Xk → 0 < m.count → headerToBlock (m.data 0) = 0 →
      (nfrecvx ≠ 0 ∨ nfrecvmod ≠ 0) →
      leafForestForwardSolve3d_recv 0 0 1 LUEmpty trfOneTree grid1x1
          nfrecvx nfrecvmod s (m :: rest)
        = leafForestForwardSolve3d_recv 0 0 1 LUEmpty trfOneTree grid1x1
          (nfrecvx - 1) nfrecvmod (MPI_Recv m s) rest ∧
      (MPI_Recv m s).x = s.x ∧ (MPI_Recv m s).lsum = s.lsum ∧
      (MPI_Recv m s).fmod = s.fmod ∧ (MPI_Recv m s).frecv = s.frecv) ∧
    (∀ s, lsumForestFsolve_status 0 1 LUEmpty grid1x1 (fun _ => 0) s = (0, s)) :=
  null_block_column_skipped 0 0 1 LUEmpty trfOneTree grid1x1 (fun _ => 0) 0 rfl



/-! ## The value of `*info` and the parameter list of `pdgstrs3d` -/

/-- The exit codes as the code sets them: `pdgstrs3d` stores -1 in `*info` exactly
when `n < 0`, -9 exactly when `n >= 0` and `nrhs < 0`, and 0 otherwise; a call
with a bad dimension always returns.  In the parameter list of `pdgstrs3d` the
order `n` is the parameter number 2 and `nrhs` is the parameter number 11, while
the parameters number 1 and 9 are `options` and `fst_row`. -/
theorem pdgstrs3d_info_codes (fuel : Nat) (n : Int) (LUstruct : dLUstruct_t)
    (ScalePermstruct : dScalePermstruct_t) (trf3Dpartition : dtrf3Dpartition_t)
    (grid3d : gridinfo3d_t) (m_loc fst_row ldb : Nat) (nrhs : Int) (maxsup : Nat)
    (SOLVEstruct : dSOLVEstruct_t) (env : SolveEnv) (w : SolveWorld) :
    (n < 0 →
      (pdgstrs3d fuel n LUstruct ScalePermstruct trf3Dpartition grid3d m_loc fst_row ldb nrhs
        maxsup SOLVEstruct env w).map Prod.fst = some (-1)) ∧
    (0 ≤ n → nrhs < 0 →
      (pdgstrs3d fuel n LUstruct ScalePermstruct trf3Dpartition grid3d m_loc fst_row ldb nrhs
        maxsup SOLVEstruct env w).map Prod.fst = some (-9)) ∧
    (∀ r, pdgstrs3d fuel n LUstruct ScalePermstruct trf3Dpartition grid3d m_loc fst_row ldb
        nrhs maxsup SOLVEstruct env w = some r →
      (r.1 = -1 ↔ n < 0) ∧ (r.1 = -9 ↔ (0 ≤ n ∧ nrhs < 0)) ∧
      (r.1 = 0 ↔ (0 ≤ n ∧ 0 ≤ nrhs)) ∧ (r.1 = 0 ∨ r.1 = -1 ∨ r.1 = -9)) ∧
    pdgstrs3d_params.indexOf "n" + 1 = 2 ∧ pdgstrs3d_params.indexOf "nrhs" + 1 = 11 ∧
    pdgstrs3d_params.get? (1 - 1) = some "options" ∧
    pdgstrs3d_params.get? (9 - 1) = some "fst_row" := by
  refine ⟨fun hn => ?_, fun hn hr => ?_, fun r h => ?_, by decide, by decide, by decide,
    by decide⟩
  · unfold pdgstrs3d
    simp [hn]
  · unfold pdgstrs3d
    have hn' : ¬ n < 0 := not_lt.mpr hn
    simp [hn', hr]
  · unfold pdgstrs3d at h
    by_cases hn : n < 0
    · simp [hn] at h
      subst h
      dsimp only
      omega
    · by_cases hr : nrhs < 0
      · simp [hn, hr] at h
        subst h
        dsimp only
        omega
      · simp [hn, hr] at h
        obtain ⟨w1, _, hw⟩ := h
        subst hw
        dsimp only
        omega

theorem pdgstrs3d_info_codes_witness :
    (pdgstrs3d 0 (-1) LU1 permId trfOne grid1x1x1 2 0 2 (-1) 2 solveStructOne envSolve
      world0).map Prod.fst = some (-1) ∧
    (pdgstrs3d 0 2 LU1 permId trfOne grid1x1x1 2 0 2 (-1) 2 solveStructOne envSolve
      world0).map Prod.fst = some (-9) :=
  ⟨(pdgstrs3d_info_codes 0 (-1) LU1 permId trfOne grid1x1x1 2 0 2 (-1) 2 solveStructOne
      envSolve world0).1 (by decide),
   (pdgstrs3d_info_codes 0 2 LU1 permId trfOne grid1x1x1 2 0 2 (-1) 2 solveStructOne
      envSolve world0).2.1 (by decide) (by decide)⟩

/-- C23: the code does not keep the contract of its header comment, "if
info = -i, the i-th argument had an illegal value".  A negative order `n` gives
`*info = -1` although the parameter number 1 of `pdgstrs3d` is `options`, not
`n`, and a negative `nrhs` gives `*info = -9` although the parameter number 9 is
`fst_row`, not `nrhs`. -/
theorem pdgstrs3d_info_not_parameter_number :
    (pdgstrs3d 0 (-1) LU1 permId trfOne grid1x1x1 2 0 2 1 2 solveStructOne envSolve
      world0).map Prod.fst = some (-1) ∧
    pdgstrs3d_params.get? (1 - 1) = some "options" ∧
    pdgstrs3d_params.get? (1 - 1) ≠ some "n" ∧
    (pdgstrs3d 0 2 LU1 permId trfOne grid1x1x1 2 0 2 (-1) 2 solveStructOne envSolve
      world0).map Prod.fst = some (-9) ∧
    pdgstrs3d_params.get? (9 - 1) = some "fst_row" ∧
    pdgstrs3d_params.get? (9 - 1) ≠ some "nrhs" := by
  refine ⟨?_, by decide, by decide, ?_, by decide, by decide⟩
  · unfold pdgstrs3d
    simp
  · unfold pdgstrs3d
    simp



/-! ## The set-up of `xT` in `pdgstrs3d` -/

/-- A loop of guarded writes: an entry that no iteration writes keeps its value,
and an entry written by one iteration only holds the value written. -/
theorem foldl_cond_update {α : Type} (c : Nat → Prop) [DecidablePred c] (pos : Nat → Nat)
    (v : Nat → α) (a : Nat → α) :
    ∀ n,
      (∀ q, (∀ i < n, c i → q ≠ pos i) →
        ((List.range n).foldl (fun a i => if c i then Function.update a (pos i) (v i) else a) a) q
          = a q) ∧
      (∀ i < n, c i → (∀ i' < n, c i' → pos i' = pos i → i' = i) →
        ((List.range n).foldl (fun a i => if c i then Function.update a (pos i) (v i) else a) a)
          (pos i) = v i) := by
  intro n
  induction n with
  | zero =>
    exact ⟨fun q _ => rfl, fun i hi => absurd hi (Nat.not_lt_zero _)⟩
  | succ n ih =>
    rw [List.range_succ, List.foldl_append]
    simp only [List.foldl_cons, List.foldl_nil]
    constructor
    · intro q hq
      by_cases hc : c n
      · rw [if_pos hc, Function.update_noteq (hq n (Nat.lt_succ_self n) hc)]
        exact ih.1 q (fun i hi => hq i (Nat.lt_succ_of_lt hi))
      · rw [if_neg hc]
        exact ih.1 q (fun i hi => hq i (Nat.lt_succ_of_lt hi))
    · intro i hi hci hinj
      by_cases hin : i = n
      · subst hin
        rw [if_pos hci, Function.update_same]
      · have hi' : i < n := by omega
        have hrec := ih.2 i hi' hci
          (fun i' hi'' hc' hp => hinj i' (Nat.lt_succ_of_lt hi'') hc' hp)
        by_cases hc : c n
        · rw [if_pos hc, Function.update_noteq, hrec]
          intro hp
          exact hin (hinj n (Nat.lt_succ_self n) hc hp.symm).symm
        · rw [if_neg hc]
          exact hrec

/-- The loop of `pdgstrs3d` that fills `ilsumT` gives the running sums of the
sizes of the supernodes of my process column. -/
theorem xT_ilsumT_step (LUstruct : dLUstruct_t) (grid : gridinfo_t) (heap : Nat → Nat) :
    ∀ nsupers,
      xT_ilsumT nsupers LUstruct grid heap 0 = 0 ∧
      (∀ jb < nsupers, MYCOL grid.iam grid = PCOL jb grid →
        xT_ilsumT nsupers LUstruct grid heap (LBj jb grid + 1)
          = xT_ilsumT nsupers LUstruct grid heap (LBj jb grid)
            + SuperSize LUstruct.Glu_persist.xsup jb) := by
  intro nsupers
  induction nsupers with
  | zero =>
    refine ⟨?_, fun jb hjb => absurd hjb (Nat.not_lt_zero _)⟩
    unfold xT_ilsumT
    simp
  | succ n ih =>
    have hstep : xT_ilsumT (n + 1) LUstruct grid heap
        = if MYCOL grid.iam grid = PCOL n grid then
            Function.update (xT_ilsumT n LUstruct grid heap) (LBj n grid + 1)
              (xT_ilsumT n LUstruct grid heap (LBj n grid)
                + SuperSize LUstruct.Glu_persist.xsup n)
          else xT_ilsumT n LUstruct grid heap := by
      unfold xT_ilsumT
      rw [List.range_succ, List.foldl_append]
      rfl
    rw [hstep]
    by_cases hc : MYCOL grid.iam grid = PCOL n grid
    · rw [if_pos hc]
      refine ⟨?_, ?_⟩
      · rw [Function.update_noteq (by omega)]
        exact ih.1
      · intro jb hjb hcol
        by_cases hjn : jb = n
        · subst hjn
          rw [Function.update_same, Function.update_noteq (by omega)]
        · have hlt : jb < n := by omega
          have hcc : PCOL jb grid = PCOL n grid := by rw [← hcol, hc]
          have hL : LBj jb grid < LBj n grid := by
            unfold PCOL at hcc
            unfold LBj
            have h1 := Nat.div_add_mod jb grid.npcol
            have h2 := Nat.div_add_mod n grid.npcol
            by_contra hge
            have hge' : n / grid.npcol ≤ jb / grid.npcol := by omega
            have := Nat.mul_le_mul_left grid.npcol hge'
            omega
          rw [Function.update_noteq (by omega), Function.update_noteq (by omega)]
          exact ih.2 jb hlt hcol
    · rw [if_neg hc]
      refine ⟨ih.1, ?_⟩
      intro jb hjb hcol
      have hlt : jb < n := by
        rcases Nat.lt_succ_iff_lt_or_eq.mp hjb with h | h
        · exact h
        · subst h
          exact absurd hcol hc
      exact ih.2 jb hlt hcol

/-- The supernode of my process column with the local number `l`. -/
theorem LBj_local (grid : gridinfo_t) (hnp : 0 < grid.npcol) (l : Nat) :
    LBj (l * grid.npcol + MYCOL grid.iam grid) grid = l ∧
    PCOL (l * grid.npcol + MYCOL grid.iam grid) grid = MYCOL grid.iam grid := by
  have hm : MYCOL grid.iam grid < grid.npcol := by
    unfold MYCOL
    exact Nat.mod_lt _ hnp
  unfold LBj PCOL
  constructor
  · rw [Nat.mul_comm, Nat.mul_add_div hnp, Nat.div_eq_of_lt hm, Nat.add_zero]
  · rw [Nat.mul_comm, Nat.mul_add_mod, Nat.mod_eq_of_lt hm]

theorem local_eq (grid : gridinfo_t) (jb : Nat) (h : MYCOL grid.iam grid = PCOL jb grid) :
    LBj jb grid * grid.npcol + MYCOL grid.iam grid = jb := by
  rw [h]
  unfold LBj PCOL
  exact Nat.div_add_mod' jb grid.npcol

/-- The offsets `ilsumT` do not decrease along the block columns of my process
column. -/
theorem xT_ilsumT_mono (nsupers : Nat) (LUstruct : dLUstruct_t) (grid : gridinfo_t)
    (heap : Nat → Nat) (hnp : 0 < grid.npcol) (l : Nat) :
    ∀ d, (l + d) * grid.npcol + MYCOL grid.iam grid < nsupers + grid.npcol →
      xT_ilsumT nsupers LUstruct grid heap l
        ≤ xT_ilsumT nsupers LUstruct grid heap (l + d) := by
  intro d
  induction d with
  | zero => intro _; exact Nat.le_refl _
  | succ d ih =>
    intro hb
    have hb' : (l + d) * grid.npcol + MYCOL grid.iam grid < nsupers := by
      have : (l + (d + 1)) * grid.npcol = (l + d) * grid.npcol + grid.npcol := by ring
      omega
    have h1 := ih (by omega)
    obtain ⟨e1, e2⟩ := LBj_local grid hnp (l + d)
    have h2 := (xT_ilsumT_step LUstruct grid heap nsupers).2 _ hb' e2.symm
    rw [e1] at h2
    have : l + (d + 1) = l + d + 1 := rfl
    rw [this, h2]
    omega

/-- The starts of the blocks of `xT` of two supernodes of my process column: the
later block starts after the earlier one, and `XK_H` words before its start
there is no start of a block when the supernodes are not empty. -/
theorem XT_BLK_lt (nsupers nrhs : Nat) (LUstruct : dLUstruct_t) (grid : gridinfo_t)
    (heap : Nat → Nat) (hnp : 0 < grid.npcol) (jb jb' : Nat) (hjb' : jb' < nsupers)
    (hc : MYCOL grid.iam grid = PCOL jb grid) (hc' : MYCOL grid.iam grid = PCOL jb' grid)
    (hlt : jb < jb') :
    XT_BLK (xT_ilsumT nsupers LUstruct grid heap) nrhs (LBj jb grid)
        < XT_BLK (xT_ilsumT nsupers LUstruct grid heap) nrhs (LBj jb' grid) ∧
    (0 < nrhs → 0 < SuperSize LUstruct.Glu_persist.xsup jb →
      XT_BLK (xT_ilsumT nsupers LUstruct grid heap) nrhs (LBj jb grid) + XK_H
        < XT_BLK (xT_ilsumT nsupers LUstruct grid heap) nrhs (LBj jb' grid)) := by
  have e := local_eq grid jb hc
  have e' := local_eq grid jb' hc'
  have hL : LBj jb grid < LBj jb' grid := by
    by_contra hge
    have hge' : LBj jb' grid ≤ LBj jb grid := by omega
    have := Nat.mul_le_mul_right grid.npcol hge'
    omega
  obtain ⟨d, hd⟩ : ∃ d, LBj jb' grid = LBj jb grid + 1 + d := ⟨LBj jb' grid - (LBj jb grid + 1),
    by omega⟩
  have hmono := xT_ilsumT_mono nsupers LUstruct grid heap hnp (LBj jb grid + 1) d
    (by rw [← hd, e']; omega)
  rw [← hd] at hmono
  have hjb : jb < nsupers := by omega
  have hstep := (xT_ilsumT_step LUstruct grid heap nsupers).2 jb hjb hc
  have hm0 : xT_ilsumT nsupers LUstruct grid heap (LBj jb grid)
      ≤ xT_ilsumT nsupers LUstruct grid heap (LBj jb' grid) := by omega
  have hmul := Nat.mul_le_mul_right nrhs hm0
  unfold XT_BLK
  have hXK : XK_H = 2 := rfl
  rw [hXK]
  constructor
  · omega
  · intro hn hs
    have hm1 : xT_ilsumT nsupers LUstruct grid heap (LBj jb grid) + 1
        ≤ xT_ilsumT nsupers LUstruct grid heap (LBj jb' grid) := by omega
    have hmul1 := Nat.mul_le_mul_right nrhs hm1
    rw [Nat.add_mul, Nat.one_mul] at hmul1
    omega



/-- What the code of the set-up of `xT` in `pdgstrs3d` writes (the loop that fills
`ilsumT` and the loop "Setup the headers for xT"): for every supernode `jb` of my
process column the block number `jb` is stored in the first word of its block,
`xT[XT_BLK(LBj(jb))]`, and every other word of `xT` is as before.  In
particular the header word `xT[XT_BLK(LBj(jb)) - XK_H]` is not written: with
`nrhs >= 1` and supernodes that are not empty it keeps the content of the fresh
array. -/
theorem xT_setup_first_word (nsupers nrhs : Nat) (LUstruct : dLUstruct_t) (grid : gridinfo_t)
    (heap : Nat → Nat) (xT0 : Nat → ℚ) (hnp : 0 < grid.npcol) :
    (∀ jb < nsupers, MYCOL grid.iam grid = PCOL jb grid →
      xT_headers nsupers nrhs grid (xT_ilsumT nsupers LUstruct grid heap) xT0
        (XT_BLK (xT_ilsumT nsupers LUstruct grid heap) nrhs (LBj jb grid)) = (jb : ℚ)) ∧
    (∀ q, (∀ jb < nsupers, MYCOL grid.iam grid = PCOL jb grid →
        q ≠ XT_BLK (xT_ilsumT nsupers LUstruct grid heap) nrhs (LBj jb grid)) →
      xT_headers nsupers nrhs grid (xT_ilsumT nsupers LUstruct grid heap) xT0 q = xT0 q) ∧
    (0 < nrhs → (∀ jb < nsupers, 0 < SuperSize LUstruct.Glu_persist.xsup jb) →
      ∀ jb < nsupers, MYCOL grid.iam grid = PCOL jb grid →
        xT_headers nsupers nrhs grid (xT_ilsumT nsupers LUstruct grid heap) xT0
          (XT_BLK (xT_ilsumT nsupers LUstruct grid heap) nrhs (LBj jb grid) - XK_H)
        = xT0 (XT_BLK (xT_ilsumT nsupers LUstruct grid heap) nrhs (LBj jb grid) - XK_H)) := by
  have key := foldl_cond_update (fun jb => MYCOL grid.iam grid = PCOL jb grid)
    (fun jb => XT_BLK (xT_ilsumT nsupers LUstruct grid heap) nrhs (LBj jb grid))
    (fun jb => (jb : ℚ)) xT0 nsupers
  have hdef : xT_headers nsupers nrhs grid (xT_ilsumT nsupers LUstruct grid heap) xT0
      = (List.range nsupers).foldl (fun a i =>
          if MYCOL grid.iam grid = PCOL i grid then
            Function.update a (XT_BLK (xT_ilsumT nsupers LUstruct grid heap) nrhs (LBj i grid))
              (i : ℚ)
          else a) xT0 := rfl
  rw [hdef]
  have hinj : ∀ jb < nsupers, MYCOL grid.iam grid = PCOL jb grid →
      ∀ jb' < nsupers, MYCOL grid.iam grid = PCOL jb' grid →
      XT_BLK (xT_ilsumT nsupers LUstruct grid heap) nrhs (LBj jb' grid)
        = XT_BLK (xT_ilsumT nsupers LUstruct grid heap) nrhs (LBj jb grid) → jb' = jb := by
    intro jb hjb hc jb' hjb' hc' he
    rcases Nat.lt_trichotomy jb jb' with h | h | h
    · have := (XT_BLK_lt nsupers nrhs LUstruct grid heap hnp jb jb' hjb' hc hc' h).1
      omega
    · exact h.symm
    · have := (XT_BLK_lt nsupers nrhs LUstruct grid heap hnp jb' jb hjb hc' hc h).1
      omega
  refine ⟨?_, key.1, ?_⟩
  · intro jb hjb hc
    exact key.2 jb hjb hc (fun jb' hjb' hc' he => hinj jb hjb hc jb' hjb' hc' he)
  · intro hn hs jb hjb hc
    apply key.1
    intro jb' hjb' hc' he
    have hge : XK_H ≤ XT_BLK (xT_ilsumT nsupers LUstruct grid heap) nrhs (LBj jb grid) := by
      unfold XT_BLK
      have hXK : XK_H = 2 := rfl
      rw [hXK]
      omega
    have hXK : XK_H = 2 := rfl
    rcases Nat.lt_trichotomy jb jb' with h | h | h
    · have := (XT_BLK_lt nsupers nrhs LUstruct grid heap hnp jb jb' hjb' hc hc' h).1
      omega
    · subst h
      omega
    · have := (XT_BLK_lt nsupers nrhs LUstruct grid heap hnp jb' jb hjb hc' hc h).2 hn
        (hs jb' hjb')
      omega

theorem xT_setup_first_word_witness :
    (∀ jb < 2, MYCOL grid1x1.iam grid1x1 = PCOL jb grid1x1 →
      xT_headers 2 1 grid1x1 (xT_ilsumT 2 LUEmpty grid1x1 (fun _ => 0)) (fun _ => 9)
        (XT_BLK (xT_ilsumT 2 LUEmpty grid1x1 (fun _ => 0)) 1 (LBj jb grid1x1)) = (jb : ℚ)) ∧
    (∀ jb < 2, MYCOL grid1x1.iam grid1x1 = PCOL jb grid1x1 →
      xT_headers 2 1 grid1x1 (xT_ilsumT 2 LUEmpty grid1x1 (fun _ => 0)) (fun _ => 9)
        (XT_BLK (xT_ilsumT 2 LUEmpty grid1x1 (fun _ => 0)) 1 (LBj jb grid1x1) - XK_H) = 9) :=
  ⟨(xT_setup_first_word 2 1 LUEmpty grid1x1 (fun _ => 0) (fun _ => 9) (by decide)).1,
   (xT_setup_first_word 2 1 LUEmpty grid1x1 (fun _ => 0) (fun _ => 9) (by decide)).2.2
    (by decide) (by decide)⟩

/-- C30: the loop under the comment "Setup the headers for xT" does not write the
header words.  For two supernodes of one column each on one process and an
array `xT` that holds 9 everywhere, the set-up leaves 9 in the header word
`xT[XT_BLK(1) - XK_H]` of the block of the supernode 1 and stores the block
number 1 in the first word `xT[XT_BLK(1)]` of the block, whereas the set-ups of
`x` and of `lsum` store the block number in the header word. -/
theorem xT_header_word_not_written :
    xT_headers 2 1 grid1x1 (xT_ilsumT 2 LUEmpty grid1x1 (fun _ => 0)) (fun _ => 9)
        (XT_BLK (xT_ilsumT 2 LUEmpty grid1x1 (fun _ => 0)) 1 (LBj 1 grid1x1) - XK_H) = 9 ∧
    xT_headers 2 1 grid1x1 (xT_ilsumT 2 LUEmpty grid1x1 (fun _ => 0)) (fun _ => 9)
        (XT_BLK (xT_ilsumT 2 LUEmpty grid1x1 (fun _ => 0)) 1 (LBj 1 grid1x1)) = 1 ∧
    MYCOL grid1x1.iam grid1x1 = PCOL 1 grid1x1 ∧
    XT_BLK (xT_ilsumT 2 LUEmpty grid1x1 (fun _ => 0)) 1 (LBj 1 grid1x1) = 5 := by
  decide!



/-! ## Which entries of `lsum` the off-diagonal updates write -/

/-- The scatter loop leaves an entry alone that is not a target of it. -/
theorem lsumScatterSub_frame (lsum : Nat → ℚ) (il iknsupc nbrow nrhs : Nat) (lsub : Nat → Nat)
    (lptr rel : Nat) (rtemp : Nat → ℚ) (q : Nat)
    (h : ∀ i < nbrow, ∀ j < nrhs, q ≠ il + (lsub (lptr + i) - rel) + j * iknsupc) :
    lsumScatterSub lsum il iknsupc nbrow nrhs lsub lptr rel rtemp q = lsum q := by
  rw [lsumScatterSub_apply]
  have : ((List.range nbrow).map (fun i =>
      (((List.range nrhs).filter
        (fun j => il + (lsub (lptr + i) - rel) + j * iknsupc = q)).map
        (fun j => rtemp (i + j * nbrow))).sum)).sum = 0 := by
    apply List.sum_eq_zero
    intro x hx
    obtain ⟨i, hi, rfl⟩ := List.mem_map.mp hx
    rw [List.mem_range] at hi
    have hnil : (List.range nrhs).filter
        (fun j => il + (lsub (lptr + i) - rel) + j * iknsupc = q) = [] := by
      apply List.filter_eq_nil_iff.mpr
      intro j hj
      rw [List.mem_range] at hj
      simp only [decide_eq_true_eq]
      exact fun hc => h i hi j hj hc.symm
    rw [hnil]
    rfl
  rw [this, sub_zero]

/-- The routine `dgemm_` leaves an entry alone that is not in the block `C`. -/
theorem dgemm_frame (m n k : Nat) (alpha : ℚ) (A : Nat → ℚ) (lda : Nat) (B : Nat → ℚ)
    (ldb : Nat) (beta : ℚ) (C : Nat → ℚ) (coff ldc : Nat) (q : Nat)
    (h : ∀ i < m, ∀ j < n, q ≠ coff + i + j * ldc) :
    dgemm_ m n k alpha A lda B ldb beta C coff ldc q = C q := by
  unfold dgemm_
  have key : ∀ (L : List Nat), (∀ j ∈ L, j < n) → ∀ C1 : Nat → ℚ, C1 q = C q →
      (L.foldl (fun C j => (List.range m).foldl (fun C i =>
        Function.update C (coff + i + j * ldc)
          (alpha * ((List.range k).map (fun l => A (i + l * lda) * B (l + j * ldb))).sum
            + beta * C (coff + i + j * ldc))) C) C1) q = C q := by
    intro L
    induction L with
    | nil => intro _ C1 h1; exact h1
    | cons j L ih =>
      intro hL C1 h1
      rw [List.foldl_cons]
      apply ih (fun j' hj' => hL j' (List.mem_cons_of_mem _ hj'))
      have hj : j < n := hL j (List.mem_cons_self _ _)
      have inner : ∀ (M : List Nat), (∀ i ∈ M, i < m) → ∀ C2 : Nat → ℚ, C2 q = C q →
          (M.foldl (fun C i => Function.update C (coff + i + j * ldc)
            (alpha * ((List.range k).map (fun l => A (i + l * lda) * B (l + j * ldb))).sum
              + beta * C (coff + i + j * ldc))) C2) q = C q := by
        intro M
        induction M with
        | nil => intro _ C2 h2; exact h2
        | cons i M ihM =>
          intro hM C2 h2
          rw [List.foldl_cons]
          apply ihM (fun i' hi' => hM i' (List.mem_cons_of_mem _ hi'))
          rw [Function.update_noteq (h i (hM i (List.mem_cons_self _ _)) j hj)]
          exact h2
      exact inner (List.range m) (fun i hi => List.mem_range.mp hi) C1 h1
  exact key (List.range n) (fun j hj => List.mem_range.mp hj) C rfl



theorem foldl_range_inv {σ : Type} (f : σ → Nat → σ) (I : Nat → σ → Prop) :
    ∀ n, (∀ t < n, ∀ a, I t a → I (t + 1) (f a t)) →
      ∀ a, I 0 a → I n ((List.range n).foldl f a) := by
  intro n
  induction n with
  | zero => intro _ a h0; exact h0
  | succ n ih =>
    intro hstep a h0
    rw [List.range_succ, List.foldl_append]
    exact hstep n (Nat.lt_succ_self n) _ (ih (fun t ht => hstep t (Nat.lt_succ_of_lt ht)) a h0)

/-- What the code of `lsumForestFsolve(k, ...)`, the off-diagonal update of
`nonLeafForestForwardSolve3d`, writes: it changes `lsum` only in the entries to
which the L blocks stored below the diagonal block in the block column of `k`
are scattered, that is in the block rows of these blocks, whatever the forest of
their supernodes: the routine does not read `supernode2treeMap`.  It changes
neither `x`, `xT`, the dependency counters nor the posted messages. -/
theorem lsumForestFsolve_rows (k nrhs : Nat) (LUstruct : dLUstruct_t) (grid : gridinfo_t)
    (ilsumT : Nat → Nat) (s : SolveState) (lsub : Nat → Nat)
    (hlsub : LUstruct.Llu.Lrowind_bc_ptr (LBj k grid) = some lsub) (nlb lptr0 : Nat)
    (hnlb : nlb = if MYROW grid.iam grid = PROW k grid then lsub 0 - 1 else lsub 0)
    (hlptr : lptr0 = if MYROW grid.iam grid = PROW k grid
      then BC_HEADER + (LB_DESCRIPTOR + SuperSize LUstruct.Glu_persist.xsup k) else BC_HEADER) :
    (lsumForestFsolve k nrhs LUstruct grid ilsumT s).x = s.x ∧
    (lsumForestFsolve k nrhs LUstruct grid ilsumT s).xT = s.xT ∧
    (lsumForestFsolve k nrhs LUstruct grid ilsumT s).fmod = s.fmod ∧
    (lsumForestFsolve k nrhs LUstruct grid ilsumT s).frecv = s.frecv ∧
    (lsumForestFsolve k nrhs LUstruct grid ilsumT s).bmod = s.bmod ∧
    (lsumForestFsolve k nrhs LUstruct grid ilsumT s).brecv = s.brecv ∧
    (lsumForestFsolve k nrhs LUstruct grid ilsumT s).sent = s.sent ∧
    ∀ q, (∀ lb < nlb, ∀ i < lsub (blockStart lsub lptr0 lb + 1), ∀ j < nrhs,
        q ≠ LSUM_BLK LUstruct.Llu.ilsum nrhs (LBi (lsub (blockStart lsub lptr0 lb)) grid)
          + (lsub (blockStart lsub lptr0 lb + LB_DESCRIPTOR + i)
            - LUstruct.Glu_persist.xsup (lsub (blockStart lsub lptr0 lb)))
          + j * SuperSize LUstruct.Glu_persist.xsup (lsub (blockStart lsub lptr0 lb))) →
      (lsumForestFsolve k nrhs LUstruct grid ilsumT s).lsum q = s.lsum q := by
  unfold lsumForestFsolve
  simp only [hlsub]
  rw [← hnlb, ← hlptr]
  have key := foldl_range_inv
    (fun st (_ : Nat) => lsumForestFsolve_block nrhs (SuperSize LUstruct.Glu_persist.xsup k)
      LUstruct.Glu_persist.xsup grid LUstruct.Llu lsub
      (LUstruct.Llu.Lnzval_bc_ptr (LBj k grid)) (lsub 1)
      (fun i => s.xT (XT_BLK ilsumT nrhs (LBj k grid) + i)) st)
    (fun t (st : Nat × Nat × SolveState) =>
      st.1 = blockStart lsub lptr0 t ∧
      st.2.2.x = s.x ∧ st.2.2.xT = s.xT ∧ st.2.2.fmod = s.fmod ∧ st.2.2.frecv = s.frecv ∧
      st.2.2.bmod = s.bmod ∧ st.2.2.brecv = s.brecv ∧ st.2.2.sent = s.sent ∧
      ∀ q, (∀ lb < t, ∀ i < lsub (blockStart lsub lptr0 lb + 1), ∀ j < nrhs,
        q ≠ LSUM_BLK LUstruct.Llu.ilsum nrhs (LBi (lsub (blockStart lsub lptr0 lb)) grid)
          + (lsub (blockStart lsub lptr0 lb + LB_DESCRIPTOR + i)
            - LUstruct.Glu_persist.xsup (lsub (blockStart lsub lptr0 lb)))
          + j * SuperSize LUstruct.Glu_persist.xsup (lsub (blockStart lsub lptr0 lb))) →
        st.2.2.lsum q = s.lsum q)
    nlb
    (by
      intro t _ a hI
      obtain ⟨lptr, luptr, sa⟩ := a
      obtain ⟨h1, h2, h3, h4, h5, h6, h7, h8, h9⟩ := hI
      have h1' : lptr = blockStart lsub lptr0 t := h1
      subst h1'
      refine ⟨rfl, h2, h3, h4, h5, h6, h7, h8, ?_⟩
      intro q hq
      show lsumScatterSub sa.lsum _ _ _ _ _ _ _ _ q = s.lsum q
      rw [lsumScatterSub_frame]
      · exact h9 q (fun lb hlb => hq lb (Nat.lt_succ_of_lt hlb))
      · intro i hi j hj
        exact hq t (Nat.lt_succ_self t) i hi j hj)
    (lptr0, (if MYROW grid.iam grid = PROW k grid
        then SuperSize LUstruct.Glu_persist.xsup k else 0), s)
    ⟨rfl, rfl, rfl, rfl, rfl, rfl, rfl, rfl, fun _ _ => rfl⟩
  obtain ⟨_, h2, h3, h4, h5, h6, h7, h8, h9⟩ := key
  exact ⟨h2, h3, h4, h5, h6, h7, h8, h9⟩



theorem lsumForestFsolve_rows_witness :
    LU3.Llu.Lrowind_bc_ptr (LBj 0 grid1x1) = some lsubCol0 ∧
      (lsumForestFsolve 0 1 LU3 grid1x1 (fun l => l) stateX).x = stateX.x ∧
      (lsumForestFsolve 0 1 LU3 grid1x1 (fun l => l) stateX).lsum 9 = stateX.lsum 9 := by
  have T := lsumForestFsolve_rows 0 1 LU3 grid1x1 (fun l => l) stateX lsubCol0 rfl 1 5
    (by decide) (by decide)
  refine ⟨rfl, T.1, T.2.2.2.2.2.2.2 9 ?_⟩
  intro lb hlb i hi j hj
  obtain rfl : lb = 0 := by omega
  have e : lsubCol0 (blockStart lsubCol0 5 0 + 1) = 1 := by decide
  rw [e] at hi
  obtain rfl : i = 0 := by omega
  obtain rfl : j = 0 := by omega
  have e2 : LSUM_BLK LU3.Llu.ilsum 1 (LBi (lsubCol0 (blockStart lsubCol0 5 0)) grid1x1)
      + (lsubCol0 (blockStart lsubCol0 5 0 + LB_DESCRIPTOR + 0)
        - LU3.Glu_persist.xsup (lsubCol0 (blockStart lsubCol0 5 0)))
      + 0 * SuperSize LU3.Glu_persist.xsup (lsubCol0 (blockStart lsubCol0 5 0)) = 8 := by
    decide
  rw [e2]
  decide

/-- The routine `lsumBmod` changes `lsum` only inside the block that starts at
`il`, and neither `x`, `xT`, the counters nor the posted messages. -/
theorem lsumBmod_rows (gik gjk nrhs : Nat) (usub : Nat → Nat) (uval : Nat → ℚ)
    (xk : Nat → ℚ) (il : Nat) (xsup : Nat → Nat) (s s' : SolveState)
    (h : lsumBmod gik gjk nrhs usub uval xk il xsup s = some s') :
    s'.x = s.x ∧ s'.xT = s.xT ∧ s'.fmod = s.fmod ∧ s'.frecv = s.frecv ∧ s'.bmod = s.bmod ∧
    s'.brecv = s.brecv ∧ s'.sent = s.sent ∧
    ∀ q, ¬ (il ≤ q ∧ q < il + SuperSize xsup gik * nrhs) → s'.lsum q = s.lsum q := by
  unfold lsumBmod at h
  simp only [] at h
  split at h
  · exact absurd h (by simp)
  · split at h
    · exact absurd h (by simp)
    · rename_i ps _ hldu
      simp only [Option.some.injEq] at h
      subst h
      refine ⟨rfl, rfl, rfl, rfl, rfl, rfl, rfl, ?_⟩
      intro q hq
      show dgemm_ _ _ _ _ _ _ _ _ _ _ _ _ q = s.lsum q
      apply dgemm_frame
      intro i hi j hj hc
      apply hq
      have hle : getldu (SuperSize xsup gjk) (FstBlockC xsup (gik + 1)) usub
          ≤ SuperSize xsup gik := Nat.le_of_not_lt hldu
      have hmul : (j + 1) * SuperSize xsup gik ≤ nrhs * SuperSize xsup gik :=
        Nat.mul_le_mul_right _ hj
      rw [Nat.add_mul, Nat.one_mul, Nat.mul_comm nrhs] at hmul
      constructor
      · omega
      · omega

/-- C26: `lsumForestBsolve(k, treeId, ...)`, and with it
`dlasum_bmod_Tree(pTree, cTree, ...)` for `treeId = cTree`, changes `lsum` only
inside the blocks of the local block rows whose supernode `gik` has
`supernode2treeMap[gik] = treeId`: every other entry of `lsum`, the arrays `x`
and `xT`, the dependency counters and the posted messages are as before. -/
theorem lsumForestBsolve_forest_rows (treeId nrhs : Nat) (LUstruct : dLUstruct_t)
    (trf3Dpartition : dtrf3Dpartition_t) (grid : gridinfo_t) (ilsumT : Nat → Nat) :
    (∀ (k : Nat) (s s' : SolveState),
      lsumForestBsolve k treeId nrhs LUstruct trf3Dpartition grid ilsumT s = some s' →
      ForestRowsOnly treeId nrhs LUstruct trf3Dpartition grid s s') ∧
    (∀ (pTree : Nat) (s s' : SolveState),
      dlasum_bmod_Tree pTree treeId nrhs LUstruct trf3Dpartition grid ilsumT s = some s' →
      ForestRowsOnly treeId nrhs LUstruct trf3Dpartition grid s s') := by
  have hrefl : ∀ s, ForestRowsOnly treeId nrhs LUstruct trf3Dpartition grid s s :=
    fun s => ⟨rfl, rfl, rfl, rfl, rfl, rfl, rfl, fun _ _ => rfl⟩
  have htrans : ∀ s a b, ForestRowsOnly treeId nrhs LUstruct trf3Dpartition grid s a →
      ForestRowsOnly treeId nrhs LUstruct trf3Dpartition grid a b →
      ForestRowsOnly treeId nrhs LUstruct trf3Dpartition grid s b := by
    intro s a b ⟨a1, a2, a3, a4, a5, a6, a7, a8⟩ ⟨b1, b2, b3, b4, b5, b6, b7, b8⟩
    exact ⟨b1.trans a1, b2.trans a2, b3.trans a3, b4.trans a4, b5.trans a5, b6.trans a6,
      b7.trans a7, fun q hq => (b8 q hq).trans (a8 q hq)⟩
  have hB : ∀ (k : Nat) (s s' : SolveState),
      lsumForestBsolve k treeId nrhs LUstruct trf3Dpartition grid ilsumT s = some s' →
      ForestRowsOnly treeId nrhs LUstruct trf3Dpartition grid s s' := by
    intro k s s' h
    unfold lsumForestBsolve at h
    simp only [] at h
    refine foldlOpt_inv
      (fun a => ForestRowsOnly treeId nrhs LUstruct trf3Dpartition grid s a) _ ?_ _ s s'
      (hrefl s) h
    intro a ub b ha hab
    apply htrans s a b ha
    simp only [] at hab
    split at hab
    · rename_i htree
      split at hab
      · exact absurd hab (by simp)
      · obtain ⟨c1, c2, c3, c4, c5, c6, c7, c8⟩ := lsumBmod_rows _ _ _ _ _ _ _ _ _ _ hab
        refine ⟨c1, c2, c3, c4, c5, c6, c7, ?_⟩
        intro q hq
        exact c8 q (hq _ htree)
    · simp only [Option.some.injEq] at hab
      subst hab
      exact hrefl a
  refine ⟨hB, ?_⟩
  intro pTree s s' h
  unfold dlasum_bmod_Tree at h
  split at h
  · split at h
    · simp only [Option.some.injEq] at h
      subst h
      exact hrefl s
    · refine foldlOpt_inv
        (fun a => ForestRowsOnly treeId nrhs LUstruct trf3Dpartition grid s a) _ ?_ _ s s'
        (hrefl s) h
      intro a k0 b ha hab
      apply htrans s a b ha
      simp only [] at hab
      split at hab
      · exact hB _ a b hab
      · simp only [Option.some.injEq] at hab
        subst hab
        exact hrefl a
  · simp only [Option.some.injEq] at h
    subst h
    exact hrefl s

theorem lsumForestBsolve_forest_rows_witness :
    ∃ s', dlasum_bmod_Tree 0 0 1 LUBack trfOneTree grid1x1 (fun l => l) stateXT = some s' ∧
      s'.lsum 2 = -12 ∧ ForestRowsOnly 0 1 LUBack trfOneTree grid1x1 stateXT s' := by
  have hproj : (dlasum_bmod_Tree 0 0 1 LUBack trfOneTree grid1x1 (fun l => l) stateXT).map
      (fun r => r.lsum 2) = some (-12) := by decide!
  cases hr : dlasum_bmod_Tree 0 0 1 LUBack trfOneTree grid1x1 (fun l => l) stateXT with
  | none => rw [hr] at hproj; exact absurd hproj (by simp)
  | some s' =>
    rw [hr] at hproj
    simp only [Option.map_some', Option.some.injEq] at hproj
    exact ⟨s', rfl, hproj,
      (lsumForestBsolve_forest_rows 0 1 LUBack trfOneTree grid1x1 (fun l => l)).2 0 stateXT s' hr⟩



/-! ## The receive counts of the backward leaf solve -/

/-- A block row below `nlb` that holds no node of the forest gets the count 0 from
`getBrecvTree`. -/
theorem getBrecvTree_no_node (nlb : Nat) (sforest : sForest_t) (grid : gridinfo_t)
    (mod_bitRow : Nat → Nat → Int) (heap : Nat → Int) (brecv : Nat → Int)
    (h : getBrecvTree nlb sforest grid mod_bitRow heap = some brecv)
    (lk : Nat) (hlk : lk < nlb)
    (hno : ∀ k ∈ sforest.nodes, PROW k grid = MYROW grid.iam grid → LBi k grid ≠ lk) :
    brecv lk = 0 := by
  unfold getBrecvTree at h
  split at h
  · exact absurd h (by simp)
  · simp only [Option.some.injEq] at h
    subst h
    unfold MPI_Allreduce_SUM
    simp only [hlk, if_true]
    have hmap : (List.range grid.npcol).map (fun c =>
          getBrecvTree_mod_bit nlb sforest (grid.inColumn c) (mod_bitRow c) lk)
        = (List.range grid.npcol).map (fun _ => (0 : Int)) := by
      apply List.map_congr_left
      intro c hcm
      have hcl : c < grid.npcol := List.mem_range.mp hcm
      rw [getBrecvTree_mod_bit_eq, MYROW_inColumn grid c hcl, MYCOL_inColumn grid c hcl]
      have hP : ∀ k2, PROW k2 (grid.inColumn c) = PROW k2 grid := fun _ => rfl
      have hL : ∀ k2, LBi k2 (grid.inColumn c) = LBi k2 grid := fun _ => rfl
      have hC : ∀ k2, PCOL k2 (grid.inColumn c) = PCOL k2 grid := fun _ => rfl
      simp only [hP, hL, hC]
      rw [if_neg, if_pos hlk]
      rintro ⟨k2, hk2, h1, h2, _⟩
      exact hno k2 hk2 h1.symm h2
    rw [hmap]
    simp

/-- When every diagonal block of the forest on this process still waits for a
message, `getNrootUsolveTree` counts no root. -/
theorem getNrootUsolveTree_zero (nbrecvmod : Int) (sforest : sForest_t)
    (brecv bmod : Nat → Int) (grid : gridinfo_t)
    (hb : ∀ k ∈ sforest.nodes, MYROW grid.iam grid = PROW k grid → brecv (LBi k grid) ≠ 0) :
    (getNrootUsolveTree nbrecvmod sforest brecv bmod grid).1 = 0 := by
  unfold getNrootUsolveTree
  split
  · rfl
  · simp only []
    refine foldl_range_inv _ (fun _ (st : Int × Int) => st.1 = 0) sforest.nNodes ?_ _ rfl
    intro t ht a ha
    have hmem : sforest.nodeList t ∈ sforest.nodes :=
      List.mem_map.mpr ⟨t, List.mem_range.mpr ht, rfl⟩
    show (if MYROW grid.iam grid = PROW (sforest.nodeList t) grid then
        if MYCOL grid.iam grid = PCOL (sforest.nodeList t) grid then
          ((if brecv (LBi (sforest.nodeList t) grid) = 0 ∧ bmod (LBi (sforest.nodeList t) grid) = 0
            then a.1 + 1 else a.1), a.2 + brecv (LBi (sforest.nodeList t) grid))
        else a
      else a).1 = 0
    split
    · rename_i hrow
      split
      · rw [if_neg (fun hc => hb _ hmem hrow hc.1)]
        exact ha
      · exact ha
    · exact ha

/-- One step of the seeding loop of `leafForestBackSolve3d` for a node whose row
still waits for a message: the step returns, solves nothing and keeps the
counters. -/
theorem leafForestBackSolve3d_seed_no_solve (fuel nrhs : Nat) (LUstruct : dLUstruct_t)
    (grid : gridinfo_t) (st : Int × SolveState) (k : Nat)
    (hw : MYROW grid.iam grid = PROW k grid → st.2.brecv (LBi k grid) ≠ 0) :
    ∃ st', leafForestBackSolve3d_seed fuel nrhs LUstruct grid st k = some st' ∧
      st'.2.solved = st.2.solved ∧ st'.2.brecv = st.2.brecv ∧ st'.2.bmod = st.2.bmod ∧
      st'.1 = st.1 := by
  obtain ⟨nroot, s⟩ := st
  have hw : MYROW grid.iam grid = PROW k grid → s.brecv (LBi k grid) ≠ 0 := hw
  unfold leafForestBackSolve3d_seed
  simp only []
  split
  · rename_i hrow
    split
    · split
      · exact ⟨_, rfl, rfl, rfl, rfl, rfl⟩
      · rw [if_neg (hw hrow)]
        exact ⟨_, rfl, rfl, rfl, rfl, rfl⟩
    · exact ⟨_, rfl, rfl, rfl, rfl, rfl⟩
  · exact ⟨_, rfl, rfl, rfl, rfl, rfl⟩

/-- The seeding loop of `leafForestBackSolve3d` over nodes whose rows all wait for
a message returns without solving a diagonal block. -/
theorem leafForestBackSolve3d_seedLoop_no_solve (fuel nrhs : Nat) (LUstruct : dLUstruct_t)
    (grid : gridinfo_t) (sforest : sForest_t) (brecv : Nat → Int) :
    ∀ (l : List Nat),
      (∀ k0 ∈ l, MYROW grid.iam grid = PROW (sforest.nodeList k0) grid →
        brecv (LBi (sforest.nodeList k0) grid) ≠ 0) →
      ∀ st : Int × SolveState, st.2.brecv = brecv →
        ∃ st', foldlOpt (fun st k0 =>
            leafForestBackSolve3d_seed fuel nrhs LUstruct grid st (sforest.nodeList k0)) st l
              = some st' ∧
          st'.2.solved = st.2.solved ∧ st'.2.brecv = brecv ∧ st'.2.bmod = st.2.bmod ∧
          st'.1 = st.1 := by
  intro l
  induction l with
  | nil =>
    intro _ st hst
    exact ⟨st, rfl, rfl, hst, rfl, rfl⟩
  | cons k0 l ih =>
    intro hl st hst
    obtain ⟨st1, h1, hs1, hb1, hm1, hn1⟩ :=
      leafForestBackSolve3d_seed_no_solve fuel nrhs LUstruct grid st (sforest.nodeList k0)
        (fun hrow => by rw [hst]; exact hl k0 (List.mem_cons_self _ _) hrow)
    obtain ⟨st2, h2, hs2, hb2, hm2, hn2⟩ :=
      ih (fun k1 hk1 => hl k1 (List.mem_cons_of_mem _ hk1)) st1 (hb1.trans hst)
    refine ⟨st2, ?_, hs2.trans hs1, hb2, hm2.trans hm1, hn2.trans hn1⟩
    unfold foldlOpt
    rw [h1]
    exact h2

/-- C27: with the row all-reduce of `getBrecvTree` taken as the sum over the
`npcol` processes of the process row, the count `brecv[LBi(k)]` of every forest
node `k` of my process row is `npcol - 1` (`bmod` is not read), and a block row
without forest node gets 0.  On a grid with more than one process column
`getNrootUsolveTree` therefore returns 0, and the seeding loop of
`leafForestBackSolve3d` returns without solving a diagonal block: the log of
solved blocks, the counters `bmod` and the running `nroot` are unchanged. -/
theorem getBrecvTree_row_counts (nlb : Nat) (sforest : sForest_t) (grid : gridinfo_t)
    (mod_bitRow : Nat → Nat → Int) (heap : Nat → Int) (brecv : Nat → Int)
    (hc : 0 < grid.npcol)
    (h : getBrecvTree nlb sforest grid mod_bitRow heap = some brecv)
    (hnlb : ∀ k ∈ sforest.nodes, PROW k grid = MYROW grid.iam grid → LBi k grid < nlb) :
    (∀ k ∈ sforest.nodes, PROW k grid = MYROW grid.iam grid →
      brecv (LBi k grid) = ((grid.npcol - 1 : Nat) : Int)) ∧
    (∀ lk < nlb,
      (∀ k ∈ sforest.nodes, PROW k grid = MYROW grid.iam grid → LBi k grid ≠ lk) →
      brecv lk = 0) ∧
    (1 < grid.npcol → ∀ (bmod : Nat → Int) (nbrecvmod : Int),
      (getNrootUsolveTree nbrecvmod sforest brecv bmod grid).1 = 0) ∧
    (1 < grid.npcol → ∀ (fuel nrhs : Nat) (LUstruct : dLUstruct_t) (nroot : Int)
        (s : SolveState), s.brecv = brecv →
      ∃ st', foldlOpt (fun st k0 =>
          leafForestBackSolve3d_seed fuel nrhs LUstruct grid st (sforest.nodeList k0))
            (nroot, s) (List.range sforest.nNodes).reverse = some st' ∧
        st'.2.solved = s.solved ∧ st'.2.bmod = s.bmod ∧ st'.1 = nroot) := by
  have hown : ∀ k ∈ sforest.nodes, PROW k grid = MYROW grid.iam grid →
      brecv (LBi k grid) = ((grid.npcol - 1 : Nat) : Int) := fun k hk hrow =>
    getBrecvTree_own nlb sforest grid mod_bitRow heap brecv hc h k hk hrow (hnlb k hk hrow)
  have hne : 1 < grid.npcol → ∀ k ∈ sforest.nodes, MYROW grid.iam grid = PROW k grid →
      brecv (LBi k grid) ≠ 0 := by
    intro h1 k hk hrow
    rw [hown k hk hrow.symm]
    have : 0 < grid.npcol - 1 := by omega
    exact_mod_cast this.ne'
  refine ⟨hown, ?_, ?_, ?_⟩
  · intro lk hlk hno
    exact getBrecvTree_no_node nlb sforest grid mod_bitRow heap brecv h lk hlk hno
  · intro h1 bmod nbrecvmod
    exact getNrootUsolveTree_zero nbrecvmod sforest brecv bmod grid (hne h1)
  · intro h1 fuel nrhs LUstruct nroot s hs
    obtain ⟨st', hrun, hsol, _, hbm, hn⟩ :=
      leafForestBackSolve3d_seedLoop_no_solve fuel nrhs LUstruct grid sforest brecv
        (List.range sforest.nNodes).reverse
        (fun k0 hk0 hrow => hne h1 _
          (List.mem_map.mpr ⟨k0, List.mem_reverse.mp hk0, rfl⟩) hrow)
        (nroot, s) hs
    exact ⟨st', hrun, hsol, hbm, hn⟩

theorem getBrecvTree_row_counts_witness :
    ∃ brecv, getBrecvTree 2 forest01 grid1x2 (fun _ _ => 7) (fun _ => 9) = some brecv ∧
      brecv (LBi 0 grid1x2) = 1 ∧ brecv (LBi 1 grid1x2) = 1 ∧
      (getNrootUsolveTree 0 forest01 brecv (fun _ => 0) grid1x2).1 = 0 := by
  have T := getBrecvTree_row_counts 2 forest01 grid1x2 (fun _ _ => 7) (fun _ => 9) _
    (by decide) rfl (by decide)
  exact ⟨_, rfl, T.1 0 (by decide) (by decide), T.1 1 (by decide) (by decide),
    T.2.2.1 (by decide) (fun _ => 0) 0⟩



/-! ## Partner layers share their ancestor forests -/

theorem shiftRight_partner (r ilvl alvl : Nat) (hr : r % 2 ^ (ilvl + 1) = 0)
    (h : ilvl < alvl) : (r + 2 ^ ilvl) >>> alvl = r >>> alvl := by
  obtain ⟨e, rfl⟩ : ∃ e, alvl = ilvl + 1 + e := ⟨alvl - (ilvl + 1), by omega⟩
  obtain ⟨q, rfl⟩ := Nat.dvd_of_mod_eq_zero hr
  have hp : 0 < 2 ^ (ilvl + 1) := Nat.two_pow_pos _
  have hlt : 2 ^ ilvl < 2 ^ (ilvl + 1) := Nat.pow_lt_pow_right (by decide) (Nat.lt_succ_self _)
  have hpow : 2 ^ (ilvl + 1 + e) = 2 ^ (ilvl + 1) * 2 ^ e := Nat.pow_add 2 (ilvl + 1) e
  have h1 : (2 ^ (ilvl + 1) * q + 2 ^ ilvl) / 2 ^ (ilvl + 1) = q := by
    rw [Nat.mul_add_div hp, Nat.div_eq_of_lt hlt, Nat.add_zero]
  rw [Nat.shiftRight_eq_div_pow, Nat.shiftRight_eq_div_pow, hpow,
    ← Nat.div_div_eq_div_mul, ← Nat.div_div_eq_div_mul, h1, Nat.mul_div_cancel_left _ hp]

theorem trs_X_gather3d_st_partner (maxLvl r ilvl alvl : Nat) (hr : r % 2 ^ (ilvl + 1) = 0)
    (h : ilvl < alvl) :
    trs_X_gather3d_st maxLvl (r + 2 ^ ilvl) alvl = trs_X_gather3d_st maxLvl r alvl := by
  unfold trs_X_gather3d_st
  simp only []
  rw [shiftRight_partner r ilvl alvl hr h]

theorem flatMap_ite_singleton {α β : Type} (p : α → Prop) [DecidablePred p] (h : α → β)
    (l : List α) :
    l.flatMap (fun a => if p a then [h a] else []) = (l.filter (fun a => decide (p a))).map h := by
  induction l with
  | nil => rfl
  | cons a t ih =>
    rw [List.flatMap_cons, ih]
    by_cases hp : p a
    · rw [if_pos hp, List.filter_cons_of_pos (by simpa using hp)]
      rfl
    · rw [if_neg hp, List.filter_cons_of_neg (by simpa using hp)]
      rfl

theorem flatMap_congr_mem {α β : Type} (f g : α → List β) (l : List α)
    (h : ∀ a ∈ l, f a = g a) : l.flatMap f = l.flatMap g := by
  induction l with
  | nil => rfl
  | cons a t ih =>
    rw [List.flatMap_cons, List.flatMap_cons, h a (List.mem_cons_self _ _),
      ih (fun b hb => h b (List.mem_cons_of_mem _ hb))]

theorem map_flatMap_list {α β γ : Type} (f : α → List β) (g : β → γ) (l : List α) :
    (l.flatMap f).map g = l.flatMap (fun a => (f a).map g) := by
  induction l with
  | nil => rfl
  | cons a t ih =>
    rw [List.flatMap_cons, List.flatMap_cons, List.map_append, ih]

theorem pair_receiver_layer (r ilvl : Nat) (hr : r % 2 ^ (ilvl + 1) = 0) :
    pdgsTrForwardSolve3d_pair r ilvl = (((r + 2 ^ ilvl : Nat) : Int), (r : Int)) ∧
    bsolve_Xt_bcast_pair r ilvl = ((r : Int), ((r + 2 ^ ilvl : Nat) : Int)) := by
  unfold pdgsTrForwardSolve3d_pair bsolve_Xt_bcast_pair
  rw [Nat.one_shiftLeft, Nat.one_shiftLeft, if_pos hr, if_pos hr]
  push_cast
  exact ⟨rfl, rfl⟩

theorem pair_sender_layer (r ilvl : Nat) (hr : r % 2 ^ (ilvl + 1) = 0) :
    pdgsTrForwardSolve3d_pair (r + 2 ^ ilvl) ilvl = (((r + 2 ^ ilvl : Nat) : Int), (r : Int)) ∧
    bsolve_Xt_bcast_pair (r + 2 ^ ilvl) ilvl = ((r : Int), ((r + 2 ^ ilvl : Nat) : Int)) := by
  have hlt : 2 ^ ilvl < 2 ^ (ilvl + 1) := Nat.pow_lt_pow_right (by decide) (Nat.lt_succ_self _)
  have hne : ¬ (r + 2 ^ ilvl) % 2 ^ (ilvl + 1) = 0 := by
    rw [Nat.add_mod, hr, Nat.zero_add, Nat.mod_mod, Nat.mod_eq_of_lt hlt]
    exact (Nat.two_pow_pos ilvl).ne'
  unfold pdgsTrForwardSolve3d_pair bsolve_Xt_bcast_pair
  rw [Nat.one_shiftLeft, Nat.one_shiftLeft, if_neg hne, if_neg hne]
  push_cast
  constructor
  · congr 1
    ring
  · congr 1
    ring

theorem mem_range'_levels (ilvl maxLvl alvl : Nat)
    (h : alvl ∈ List.range' (ilvl + 1) (maxLvl - (ilvl + 1))) : ilvl < alvl ∧ alvl < maxLvl := by
  rw [List.mem_range'_1] at h
  omega



theorem flatMap_map_list {α β γ : Type} (g : α → β) (F : β → List γ) (l : List α) :
    (l.map g).flatMap F = l.flatMap (fun a => F (g a)) := by
  induction l with
  | nil => rfl
  | cons a t ih =>
    rw [List.map_cons, List.flatMap_cons, List.flatMap_cons, ih]

theorem forest_flatMap {β : Type} (sforest : sForest_t) (F : Nat → List β) (p : Nat → Prop)
    [DecidablePred p] (h : Nat → β) (hF : ∀ k, F k = if p k then [h k] else []) :
    (List.range sforest.nNodes).flatMap (fun k0 => F (sforest.nodeList k0))
      = (sforest.nodes.filter (fun k => decide (p k))).map h := by
  unfold sForest_t.nodes
  rw [← flatMap_ite_singleton, flatMap_map_list]
  apply flatMap_congr_mem
  intro k0 _
  exact hF _

/-- The operations of `fsolveReduceLsum3d` on one process: one per forest node
whose diagonal block is on this process, a send on the layer `sender` and a
receive elsewhere. -/
theorem fsolveReduceLsum3d_zops_eq (treeId : Nat) (sender receiver : Int) (nrhs : Nat)
    (trf3Dpartition : dtrf3Dpartition_t) (LUstruct : dLUstruct_t) (grid3d : gridinfo3d_t) :
    fsolveReduceLsum3d_zops treeId sender receiver nrhs trf3Dpartition LUstruct grid3d
      = match trf3Dpartition.sForests treeId with
        | none => []
        | some sforest =>
          (sforest.nodes.filter (fun k =>
            decide (MYROW grid3d.grid2d.iam grid3d.grid2d = PROW k grid3d.grid2d ∧
              MYCOL grid3d.grid2d.iam grid3d.grid2d = PCOL k grid3d.grid2d))).map
            (fun k => if (grid3d.zscp.Iam : Int) = sender
              then ZOp.MPI_Send receiver k (SuperSize LUstruct.Glu_persist.xsup k * nrhs)
              else ZOp.MPI_Recv sender k (SuperSize LUstruct.Glu_persist.xsup k * nrhs)) := by
  unfold fsolveReduceLsum3d_zops
  cases trf3Dpartition.sForests treeId with
  | none => rfl
  | some sforest =>
    simp only []
    apply forest_flatMap sforest
      (fun k =>
        if MYROW grid3d.grid2d.iam grid3d.grid2d = PROW k grid3d.grid2d then
          if (grid3d.zscp.Iam : Int) = sender then
            if MYCOL grid3d.grid2d.iam grid3d.grid2d = PCOL k grid3d.grid2d
            then [ZOp.MPI_Send receiver k (SuperSize LUstruct.Glu_persist.xsup k * nrhs)] else []
          else
            if MYCOL grid3d.grid2d.iam grid3d.grid2d = PCOL k grid3d.grid2d
            then [ZOp.MPI_Recv sender k (SuperSize LUstruct.Glu_persist.xsup k * nrhs)] else []
        else [])
      (fun k =>
        MYROW grid3d.grid2d.iam grid3d.grid2d = PROW k grid3d.grid2d ∧
          MYCOL grid3d.grid2d.iam grid3d.grid2d = PCOL k grid3d.grid2d)
    intro k
    by_cases h1 : MYROW grid3d.grid2d.iam grid3d.grid2d = PROW k grid3d.grid2d
    · by_cases h2 : MYCOL grid3d.grid2d.iam grid3d.grid2d = PCOL k grid3d.grid2d
      · by_cases h3 : (grid3d.zscp.Iam : Int) = sender
        · simp only [if_pos h1, if_pos h2, if_pos h3, if_pos (And.intro h1 h2)]
        · simp only [if_pos h1, if_pos h2, if_neg h3, if_pos (And.intro h1 h2)]
      · by_cases h3 : (grid3d.zscp.Iam : Int) = sender
        · simp only [if_pos h1, if_neg h2, if_pos h3, if_neg (fun hc : _ ∧ _ => h2 hc.2)]
        · simp only [if_pos h1, if_neg h2, if_neg h3, if_neg (fun hc : _ ∧ _ => h2 hc.2)]
    · simp only [if_neg h1, if_neg (fun hc : _ ∧ _ => h1 hc.1)]

/-- The operations of `bsolve_Xt_bcast` for one ancestor forest on one process. -/
theorem bsolve_Xt_bcast_forest_zops (sender receiver : Int) (nrhs : Nat) (xsup : Nat → Nat)
    (grid : gridinfo_t) (myGrid : Nat) (sforest : sForest_t) :
    (List.range sforest.nNodes).flatMap (fun k0 =>
        if (myGrid : Int) = sender then
          if MYCOL grid.iam grid = PCOL (sforest.nodeList k0) grid ∧
              MYROW grid.iam grid = PROW (sforest.nodeList k0) grid
          then [ZOp.MPI_Send receiver (sforest.nodeList k0)
            (SuperSize xsup (sforest.nodeList k0) * nrhs)] else []
        else
          if MYCOL grid.iam grid = PCOL (sforest.nodeList k0) grid then
            if MYROW grid.iam grid = PROW (sforest.nodeList k0) grid
            then [ZOp.MPI_Recv sender (sforest.nodeList k0)
              (SuperSize xsup (sforest.nodeList k0) * nrhs)] else []
          else [])
      = (sforest.nodes.filter (fun k =>
          decide (MYROW grid.iam grid = PROW k grid ∧ MYCOL grid.iam grid = PCOL k grid))).map
          (fun k => if (myGrid : Int) = sender
            then ZOp.MPI_Send receiver k (SuperSize xsup k * nrhs)
            else ZOp.MPI_Recv sender k (SuperSize xsup k * nrhs)) := by
  apply forest_flatMap sforest
    (fun k => if (myGrid : Int) = sender then
          if MYCOL grid.iam grid = PCOL k grid ∧ MYROW grid.iam grid = PROW k grid
          then [ZOp.MPI_Send receiver k (SuperSize xsup k * nrhs)] else []
        else
          if MYCOL grid.iam grid = PCOL k grid then
            if MYROW grid.iam grid = PROW k grid
            then [ZOp.MPI_Recv sender k (SuperSize xsup k * nrhs)] else []
          else [])
    (fun k => MYROW grid.iam grid = PROW k grid ∧ MYCOL grid.iam grid = PCOL k grid)
  intro k
  by_cases h1 : MYROW grid.iam grid = PROW k grid
  · by_cases h2 : MYCOL grid.iam grid = PCOL k grid
    · by_cases h3 : (myGrid : Int) = sender
      · simp only [if_pos h1, if_pos h2, if_pos h3, if_pos (And.intro h1 h2),
          if_pos (And.intro h2 h1)]
      · simp only [if_pos h1, if_pos h2, if_neg h3, if_pos (And.intro h1 h2)]
    · by_cases h3 : (myGrid : Int) = sender
      · simp only [if_neg h2, if_pos h3, if_neg (fun hc : _ ∧ _ => h2 hc.2),
          if_neg (fun hc : _ ∧ _ => h2 hc.1)]
      · simp only [if_neg h2, if_neg h3, if_neg (fun hc : _ ∧ _ => h2 hc.2)]
  · by_cases h2 : MYCOL grid.iam grid = PCOL k grid
    · by_cases h3 : (myGrid : Int) = sender
      · simp only [if_neg h1, if_pos h3, if_neg (fun hc : _ ∧ _ => h1 hc.1),
          if_neg (fun hc : _ ∧ _ => h1 hc.2)]
      · simp only [if_neg h1, if_pos h2, if_neg h3, if_neg (fun hc : _ ∧ _ => h1 hc.1)]
    · by_cases h3 : (myGrid : Int) = sender
      · simp only [if_pos h3, if_neg (fun hc : _ ∧ _ => h1 hc.1),
          if_neg (fun hc : _ ∧ _ => h1 hc.2)]
      · simp only [if_neg h2, if_neg h3, if_neg (fun hc : _ ∧ _ => h1 hc.1)]

/-- The operations that a process of the layer `myGrid` posts in the reduction
after the level `ilvl` of the forward sweep, when its tree ids follow the heap
numbering of the layer `g`. -/
theorem pdgsTrForwardSolve3d_zops_eq (ilvl nrhs g : Nat) (trf3Dpartition : dtrf3Dpartition_t)
    (LUstruct : dLUstruct_t) (grid3d : gridinfo3d_t)
    (hT : ∀ alvl, ilvl < alvl → alvl < log2i grid3d.zscp.Np + 1 →
      trf3Dpartition.myTreeIdxs alvl = trs_X_gather3d_st (log2i grid3d.zscp.Np + 1) g alvl) :
    pdgsTrForwardSolve3d_zops ilvl nrhs trf3Dpartition LUstruct grid3d
      = (ancestorDiagNodes trf3Dpartition grid3d.grid2d (log2i grid3d.zscp.Np + 1) g ilvl).map
        (fun k =>
          if (grid3d.zscp.Iam : Int) = (pdgsTrForwardSolve3d_pair grid3d.zscp.Iam ilvl).1
          then ZOp.MPI_Send (pdgsTrForwardSolve3d_pair grid3d.zscp.Iam ilvl).2 k
            (SuperSize LUstruct.Glu_persist.xsup k * nrhs)
          else ZOp.MPI_Recv (pdgsTrForwardSolve3d_pair grid3d.zscp.Iam ilvl).1 k
            (SuperSize LUstruct.Glu_persist.xsup k * nrhs)) := by
  unfold pdgsTrForwardSolve3d_zops ancestorDiagNodes
  simp only []
  rw [map_flatMap_list]
  by_cases hl : ilvl ≠ log2i grid3d.zscp.Np + 1 - 1
  · rw [if_pos hl]
    apply flatMap_congr_mem
    intro alvl hmem
    obtain ⟨h1, h2⟩ := mem_range'_levels _ _ _ hmem
    rw [fsolveReduceLsum3d_zops_eq, hT alvl h1 h2]
    cases trf3Dpartition.sForests (trs_X_gather3d_st (log2i grid3d.zscp.Np + 1) g alvl) with
    | none => rfl
    | some sforest => rfl
  · rw [if_neg hl]
    have hz : log2i grid3d.zscp.Np + 1 - (ilvl + 1) = 0 := by omega
    rw [hz]
    rfl

/-- The operations that a process of the layer `myGrid` posts in `bsolve_Xt_bcast`
for the level `ilvl`, when its tree ids follow the heap numbering of the layer
`g`. -/
theorem bsolve_Xt_bcast_zops_eq (ilvl nrhs g : Nat) (trf3Dpartition : dtrf3Dpartition_t)
    (LUstruct : dLUstruct_t) (grid3d : gridinfo3d_t)
    (hT : ∀ alvl, ilvl < alvl → alvl < log2i grid3d.zscp.Np + 1 →
      trf3Dpartition.myTreeIdxs alvl = trs_X_gather3d_st (log2i grid3d.zscp.Np + 1) g alvl) :
    bsolve_Xt_bcast_zops ilvl nrhs trf3Dpartition LUstruct grid3d
      = (ancestorDiagNodes trf3Dpartition grid3d.grid2d (log2i grid3d.zscp.Np + 1) g ilvl).map
        (fun k =>
          if (grid3d.zscp.Iam : Int) = (bsolve_Xt_bcast_pair grid3d.zscp.Iam ilvl).1
          then ZOp.MPI_Send (bsolve_Xt_bcast_pair grid3d.zscp.Iam ilvl).2 k
            (SuperSize LUstruct.Glu_persist.xsup k * nrhs)
          else ZOp.MPI_Recv (bsolve_Xt_bcast_pair grid3d.zscp.Iam ilvl).1 k
            (SuperSize LUstruct.Glu_persist.xsup k * nrhs)) := by
  unfold bsolve_Xt_bcast_zops ancestorDiagNodes
  simp only []
  rw [map_flatMap_list]
  apply flatMap_congr_mem
  intro alvl hmem
  obtain ⟨h1, h2⟩ := mem_range'_levels _ _ _ hmem
  rw [hT alvl h1 h2]
  cases trf3Dpartition.sForests (trs_X_gather3d_st (log2i grid3d.zscp.Np + 1) g alvl) with
  | none => rfl
  | some sforest =>
    exact bsolve_Xt_bcast_forest_zops _ _ nrhs LUstruct.Glu_persist.xsup grid3d.grid2d
      grid3d.zscp.Iam sforest

theorem ancestorDiagNodes_congr (trfA trfB : dtrf3Dpartition_t) (grid : gridinfo_t)
    (maxLvl g ilvl : Nat)
    (hF : ∀ alvl, ilvl < alvl → alvl < maxLvl →
      trfA.sForests (trs_X_gather3d_st maxLvl g alvl)
        = trfB.sForests (trs_X_gather3d_st maxLvl g alvl)) :
    ancestorDiagNodes trfA grid maxLvl g ilvl = ancestorDiagNodes trfB grid maxLvl g ilvl := by
  unfold ancestorDiagNodes
  apply flatMap_congr_mem
  intro alvl hmem
  obtain ⟨h1, h2⟩ := mem_range'_levels _ _ _ hmem
  show (match trfA.sForests (trs_X_gather3d_st maxLvl g alvl) with
    | none => []
    | some sforest => sforest.nodes.filter (fun k =>
        decide (MYROW grid.iam grid = PROW k grid ∧ MYCOL grid.iam grid = PCOL k grid)))
    = (match trfB.sForests (trs_X_gather3d_st maxLvl g alvl) with
    | none => []
    | some sforest => sforest.nodes.filter (fun k =>
        decide (MYROW grid.iam grid = PROW k grid ∧ MYCOL grid.iam grid = PCOL k grid)))
  rw [hF alvl h1 h2]

theorem ancestorDiagNodes_partner (trf3Dpartition : dtrf3Dpartition_t) (grid : gridinfo_t)
    (maxLvl r ilvl : Nat) (hr : r % 2 ^ (ilvl + 1) = 0) :
    ancestorDiagNodes trf3Dpartition grid maxLvl (r + 2 ^ ilvl) ilvl
      = ancestorDiagNodes trf3Dpartition grid maxLvl r ilvl := by
  unfold ancestorDiagNodes
  apply flatMap_congr_mem
  intro alvl hmem
  obtain ⟨h1, _⟩ := mem_range'_levels _ _ _ hmem
  show (match trf3Dpartition.sForests (trs_X_gather3d_st maxLvl (r + 2 ^ ilvl) alvl) with
    | none => []
    | some sforest => sforest.nodes.filter (fun k =>
        decide (MYROW grid.iam grid = PROW k grid ∧ MYCOL grid.iam grid = PCOL k grid)))
    = (match trf3Dpartition.sForests (trs_X_gather3d_st maxLvl r alvl) with
    | none => []
    | some sforest => sforest.nodes.filter (fun k =>
        decide (MYROW grid.iam grid = PROW k grid ∧ MYCOL grid.iam grid = PCOL k grid)))
  rw [trs_X_gather3d_st_partner maxLvl r ilvl alvl hr h1]



/-- C29: with the tree ids of every layer in the heap numbering
`(1 << (maxLvl - 1 - lvl)) - 1 + (g >> lvl)` of `trs_X_gather3d`, the partner
layers `r` and `r + 2 ^ ilvl` (`r` a multiple of `2 ^ (ilvl + 1)`) have the same
tree id at every level `alvl` with `ilvl < alvl < maxLvl`.  Two processes with
the same position in the 2D grid, one on each of the two layers, therefore walk
through the same ancestor forests and the same nodes in the same order: in the
reduction after the level `ilvl` of `pdgsTrForwardSolve3d` the process on the
layer `r + 2 ^ ilvl` posts one send to the layer `r` per node `k` with the tag
`k` and `knsupc * nrhs` words, and the process on the layer `r` posts the
receives with the same tags and lengths in the same order; in `bsolve_Xt_bcast`
the roles are swapped. -/
theorem partner_layers_same_ancestors (r ilvl nrhs : Nat) (gA gB : gridinfo3d_t)
    (trfA trfB : dtrf3Dpartition_t) (LUA LUB : dLUstruct_t)
    (hr : r % 2 ^ (ilvl + 1) = 0)
    (hIamA : gA.zscp.Iam = r) (hIamB : gB.zscp.Iam = r + 2 ^ ilvl)
    (hNp : gB.zscp.Np = gA.zscp.Np) (hgrid : gB.grid2d = gA.grid2d)
    (hxsup : LUB.Glu_persist.xsup = LUA.Glu_persist.xsup)
    (hA : ∀ alvl, ilvl < alvl → alvl < log2i gA.zscp.Np + 1 →
      trfA.myTreeIdxs alvl = trs_X_gather3d_st (log2i gA.zscp.Np + 1) r alvl)
    (hB : ∀ alvl, ilvl < alvl → alvl < log2i gA.zscp.Np + 1 →
      trfB.myTreeIdxs alvl = trs_X_gather3d_st (log2i gA.zscp.Np + 1) (r + 2 ^ ilvl) alvl)
    (hF : ∀ alvl, ilvl < alvl → alvl < log2i gA.zscp.Np + 1 →
      trfB.sForests (trs_X_gather3d_st (log2i gA.zscp.Np + 1) r alvl)
        = trfA.sForests (trs_X_gather3d_st (log2i gA.zscp.Np + 1) r alvl)) :
    (∀ alvl, ilvl < alvl → alvl < log2i gA.zscp.Np + 1 →
      trs_X_gather3d_st (log2i gA.zscp.Np + 1) r alvl
        = trs_X_gather3d_st (log2i gA.zscp.Np + 1) (r + 2 ^ ilvl) alvl) ∧
    (∀ alvl, ilvl < alvl → alvl < log2i gA.zscp.Np + 1 →
      trfA.myTreeIdxs alvl = trfB.myTreeIdxs alvl ∧
      trfA.sForests (trfA.myTreeIdxs alvl) = trfB.sForests (trfB.myTreeIdxs alvl)) ∧
    pdgsTrForwardSolve3d_zops ilvl nrhs trfB LUB gB
      = (ancestorDiagNodes trfA gA.grid2d (log2i gA.zscp.Np + 1) r ilvl).map
          (fun k => ZOp.MPI_Send (r : Int) k (SuperSize LUA.Glu_persist.xsup k * nrhs)) ∧
    pdgsTrForwardSolve3d_zops ilvl nrhs trfA LUA gA
      = (ancestorDiagNodes trfA gA.grid2d (log2i gA.zscp.Np + 1) r ilvl).map
          (fun k => ZOp.MPI_Recv ((r + 2 ^ ilvl : Nat) : Int) k
            (SuperSize LUA.Glu_persist.xsup k * nrhs)) ∧
    bsolve_Xt_bcast_zops ilvl nrhs trfA LUA gA
      = (ancestorDiagNodes trfA gA.grid2d (log2i gA.zscp.Np + 1) r ilvl).map
          (fun k => ZOp.MPI_Send ((r + 2 ^ ilvl : Nat) : Int) k
            (SuperSize LUA.Glu_persist.xsup k * nrhs)) ∧
    bsolve_Xt_bcast_zops ilvl nrhs trfB LUB gB
      = (ancestorDiagNodes trfA gA.grid2d (log2i gA.zscp.Np + 1) r ilvl).map
          (fun k => ZOp.MPI_Recv (r : Int) k (SuperSize LUA.Glu_persist.xsup k * nrhs)) := by
  have hst : ∀ alvl, ilvl < alvl → alvl < log2i gA.zscp.Np + 1 →
      trs_X_gather3d_st (log2i gA.zscp.Np + 1) r alvl
        = trs_X_gather3d_st (log2i gA.zscp.Np + 1) (r + 2 ^ ilvl) alvl :=
    fun alvl h1 _ => (trs_X_gather3d_st_partner _ r ilvl alvl hr h1).symm
  have hne : ¬ ((r : Int) = ((r + 2 ^ ilvl : Nat) : Int)) := by
    have hp : 0 < 2 ^ ilvl := Nat.two_pow_pos ilvl
    intro hc
    have : r = r + 2 ^ ilvl := by exact_mod_cast hc
    omega
  have hB' : ∀ alvl, ilvl < alvl → alvl < log2i gB.zscp.Np + 1 →
      trfB.myTreeIdxs alvl = trs_X_gather3d_st (log2i gB.zscp.Np + 1) (r + 2 ^ ilvl) alvl := by
    rw [hNp]
    exact hB
  have hnodesB : ancestorDiagNodes trfB gB.grid2d (log2i gB.zscp.Np + 1) (r + 2 ^ ilvl) ilvl
      = ancestorDiagNodes trfA gA.grid2d (log2i gA.zscp.Np + 1) r ilvl := by
    rw [hNp, hgrid, ancestorDiagNodes_partner _ _ _ r ilvl hr]
    exact ancestorDiagNodes_congr trfB trfA gA.grid2d _ r ilvl hF
  refine ⟨hst, ?_, ?_, ?_, ?_, ?_⟩
  · intro alvl h1 h2
    have e : trfA.myTreeIdxs alvl = trfB.myTreeIdxs alvl := by
      rw [hA alvl h1 h2, hB alvl h1 h2, hst alvl h1 h2]
    refine ⟨e, ?_⟩
    rw [← e, hA alvl h1 h2, hF alvl h1 h2]
  · rw [pdgsTrForwardSolve3d_zops_eq ilvl nrhs (r + 2 ^ ilvl) trfB LUB gB hB', hnodesB, hIamB,
      (pair_sender_layer r ilvl hr).1, hxsup]
    simp only [if_true]
  · rw [pdgsTrForwardSolve3d_zops_eq ilvl nrhs r trfA LUA gA hA, hIamA,
      (pair_receiver_layer r ilvl hr).1]
    simp only [if_neg hne]
  · rw [bsolve_Xt_bcast_zops_eq ilvl nrhs r trfA LUA gA hA, hIamA,
      (pair_receiver_layer r ilvl hr).2]
    simp only [if_true]
  · rw [bsolve_Xt_bcast_zops_eq ilvl nrhs (r + 2 ^ ilvl) trfB LUB gB hB', hnodesB, hIamB,
      (pair_sender_layer r ilvl hr).2, hxsup]
    have hne2 : ¬ (((r + 2 ^ ilvl : Nat) : Int) = (r : Int)) := fun hc => hne hc.symm
    simp only [if_neg hne2]

theorem partner_layers_same_ancestors_witness :
    pdgsTrForwardSolve3d_zops 0 2 (trfHeap 1) LUEmpty grid3dLayer1
      = [ZOp.MPI_Send 0 0 2, ZOp.MPI_Send 0 1 2] ∧
    pdgsTrForwardSolve3d_zops 0 2 (trfHeap 0) LUEmpty grid3dLayer0
      = [ZOp.MPI_Recv 1 0 2, ZOp.MPI_Recv 1 1 2] ∧
    bsolve_Xt_bcast_zops 0 2 (trfHeap 0) LUEmpty grid3dLayer0
      = [ZOp.MPI_Send 1 0 2, ZOp.MPI_Send 1 1 2] ∧
    bsolve_Xt_bcast_zops 0 2 (trfHeap 1) LUEmpty grid3dLayer1
      = [ZOp.MPI_Recv 0 0 2, ZOp.MPI_Recv 0 1 2] := by
  have hlog : log2i grid3dLayer0.zscp.Np + 1 = 3 := by decide!
  have T := partner_layers_same_ancestors 0 0 2 grid3dLayer0 grid3dLayer1 (trfHeap 0)
    (trfHeap 1) LUEmpty LUEmpty (by decide) rfl rfl rfl rfl rfl
    (fun alvl _ _ => by rw [hlog]; rfl) (fun alvl _ _ => by rw [hlog]; rfl)
    (fun _ _ _ => rfl)
  have hks : ancestorDiagNodes (trfHeap 0) grid3dLayer0.grid2d
      (log2i grid3dLayer0.zscp.Np + 1) 0 0 = [0, 1] := by decide!
  rw [hks] at T
  exact ⟨T.2.2.1, T.2.2.2.1, T.2.2.2.2.1, T.2.2.2.2.2⟩



/-! ## The trees gathered by `trs_X_gather3d` -/

theorem heapAncestor_eq (d t : Nat) :
    heapAncestor d t = if 2 ^ d ≤ t + 1 then some ((t + 1) / 2 ^ d - 1) else none := by
  induction d with
  | zero =>
    have h : 2 ^ 0 ≤ t + 1 := by simp
    rw [if_pos h]
    simp [heapAncestor]
  | succ d ih =>
    have hp : 0 < 2 ^ d := Nat.two_pow_pos d
    have hpow : 2 ^ (d + 1) = 2 ^ d * 2 := Nat.pow_succ 2 d
    unfold heapAncestor
    rw [ih]
    by_cases h : 2 ^ d ≤ t + 1
    · rw [if_pos h]
      have h1 : 1 ≤ (t + 1) / 2 ^ d := (Nat.le_div_iff_mul_le hp).mpr (by omega)
      have hdd : (t + 1) / 2 ^ (d + 1) = (t + 1) / 2 ^ d / 2 := by
        rw [hpow, Nat.div_div_eq_div_mul]
      show heapParent ((t + 1) / 2 ^ d - 1) = _
      unfold heapParent
      by_cases h2 : 2 ^ (d + 1) ≤ t + 1
      · have h3 : 2 ≤ (t + 1) / 2 ^ d := (Nat.le_div_iff_mul_le hp).mpr (by omega)
        rw [if_pos h2, if_neg (by omega), hdd]
        congr 2
        omega
      · have h3 : (t + 1) / 2 ^ d < 2 := (Nat.div_lt_iff_lt_mul hp).mpr (by omega)
        rw [if_neg h2, if_pos (by omega)]
    · rw [if_neg h, if_neg (by omega)]
      rfl

theorem heapAncestor_iff (d t T : Nat) :
    heapAncestor d t = some T ↔ (T + 1) * 2 ^ d ≤ t + 1 ∧ t + 1 < (T + 2) * 2 ^ d := by
  have hp : 0 < 2 ^ d := Nat.two_pow_pos d
  rw [heapAncestor_eq]
  constructor
  · intro h
    split at h
    · rename_i hle
      simp only [Option.some.injEq] at h
      have h1 : 1 ≤ (t + 1) / 2 ^ d := (Nat.le_div_iff_mul_le hp).mpr (by omega)
      have h2 : (t + 1) / 2 ^ d = T + 1 := by omega
      constructor
      · exact (Nat.le_div_iff_mul_le hp).mp (by omega)
      · exact (Nat.div_lt_iff_lt_mul hp).mp (by omega)
    · exact absurd h (by simp)
  · rintro ⟨h1, h2⟩
    have hle : 2 ^ d ≤ t + 1 := by
      have : 1 * 2 ^ d ≤ (T + 1) * 2 ^ d := Nat.mul_le_mul_right _ (by omega)
      omega
    rw [if_pos hle]
    have h3 : T + 1 ≤ (t + 1) / 2 ^ d := (Nat.le_div_iff_mul_le hp).mpr h1
    have h4 : (t + 1) / 2 ^ d < T + 2 := (Nat.div_lt_iff_lt_mul hp).mpr h2
    congr 1
    omega

theorem mem_trs_X_gather3d_trees (maxLvl sender ilvl t : Nat) :
    t ∈ trs_X_gather3d_trees maxLvl sender ilvl ↔
      ∃ alvl, alvl ≤ ilvl ∧ trs_X_gather3d_st maxLvl sender alvl ≤ t ∧
        t < trs_X_gather3d_st maxLvl sender alvl + 2 ^ (ilvl - alvl) := by
  unfold trs_X_gather3d_trees
  simp only [List.mem_flatMap, List.mem_range, List.mem_range'_1, Nat.one_shiftLeft]
  constructor
  · rintro ⟨a, ha, h1, h2⟩
    exact ⟨a, by omega, h1, h2⟩
  · rintro ⟨a, ha, h1, h2⟩
    exact ⟨a, by omega, h1, h2⟩

/-- For a sender that is a multiple of `2 ^ ilvl`, the trees of the level `alvl`
start at `W * 2 ^ (ilvl - alvl) - 1`, where `W - 1` is the sender's tree of the
level `ilvl`. -/
theorem trs_X_gather3d_st_succ (maxLvl ilvl alvl j : Nat) (hl : ilvl + 1 ≤ maxLvl)
    (ha : alvl ≤ ilvl) :
    trs_X_gather3d_st maxLvl (j * 2 ^ ilvl) alvl + 1
      = (2 ^ (maxLvl - ilvl - 1) + j) * 2 ^ (ilvl - alvl) := by
  unfold trs_X_gather3d_st
  simp only [Nat.one_shiftLeft, Nat.shiftRight_eq_div_pow]
  have hb : maxLvl - alvl - 1 = (maxLvl - ilvl - 1) + (ilvl - alvl) := by omega
  have hi : 2 ^ ilvl = 2 ^ (ilvl - alvl) * 2 ^ alvl := by
    rw [← Nat.pow_add]
    congr 1
    omega
  have hdiv : j * 2 ^ ilvl / 2 ^ alvl = j * 2 ^ (ilvl - alvl) := by
    rw [hi, ← Nat.mul_assoc, Nat.mul_div_cancel _ (Nat.two_pow_pos alvl)]
  have hp : 0 < 2 ^ (maxLvl - ilvl - 1 + (ilvl - alvl)) := Nat.two_pow_pos _
  rw [hb, hdiv, Nat.add_mul, ← Nat.pow_add]
  omega



theorem pow_block_le (W d1 d2 : Nat) (hW : 1 ≤ W) (h : d2 < d1) :
    (W + 1) * 2 ^ d2 ≤ W * 2 ^ d1 := by
  obtain ⟨e, rfl⟩ : ∃ e, d1 = d2 + 1 + e := ⟨d1 - (d2 + 1), by omega⟩
  have he : 1 ≤ 2 ^ e := Nat.two_pow_pos e
  have h1 : 2 ^ (d2 + 1 + e) = 2 ^ d2 * 2 * 2 ^ e := by
    rw [Nat.pow_add, Nat.pow_succ]
  have h2 : 2 ^ d2 * 2 * 1 ≤ 2 ^ d2 * 2 * 2 ^ e := Nat.mul_le_mul_left _ he
  have h3 : W * (2 ^ d2 * 2 * 1) ≤ W * (2 ^ d2 * 2 * 2 ^ e) := Nat.mul_le_mul_left _ h2
  have h4 : (W + 1) * 2 ^ d2 ≤ W * (2 ^ d2 * 2 * 1) := by
    have : 1 * 2 ^ d2 ≤ W * 2 ^ d2 := Nat.mul_le_mul_right _ hW
    have e1 : W * (2 ^ d2 * 2 * 1) = W * 2 ^ d2 + W * 2 ^ d2 := by ring
    have e2 : (W + 1) * 2 ^ d2 = W * 2 ^ d2 + 1 * 2 ^ d2 := by ring
    omega
  rw [h1]
  exact Nat.le_trans h4 h3

/-- Membership in the list of gathered trees, for a sender `j * 2 ^ ilvl`: the
trees `t` with `W * 2 ^ d <= t + 1 < (W + 1) * 2 ^ d` for a depth `d <= ilvl`,
where `W = 2 ^ (maxLvl - ilvl - 1) + j`. -/
theorem mem_trees_iff (maxLvl ilvl j t : Nat) (hl : ilvl + 1 ≤ maxLvl) :
    t ∈ trs_X_gather3d_trees maxLvl (j * 2 ^ ilvl) ilvl ↔
      ∃ d, d ≤ ilvl ∧ (2 ^ (maxLvl - ilvl - 1) + j) * 2 ^ d ≤ t + 1 ∧
        t + 1 < (2 ^ (maxLvl - ilvl - 1) + j + 1) * 2 ^ d := by
  rw [mem_trs_X_gather3d_trees]
  constructor
  · rintro ⟨alvl, ha, h1, h2⟩
    have e := trs_X_gather3d_st_succ maxLvl ilvl alvl j hl ha
    have e2 : (2 ^ (maxLvl - ilvl - 1) + j + 1) * 2 ^ (ilvl - alvl)
        = (2 ^ (maxLvl - ilvl - 1) + j) * 2 ^ (ilvl - alvl) + 2 ^ (ilvl - alvl) := by ring
    refine ⟨ilvl - alvl, by omega, ?_, ?_⟩
    · omega
    · omega
  · rintro ⟨d, hd, h1, h2⟩
    have e := trs_X_gather3d_st_succ maxLvl ilvl (ilvl - d) j hl (by omega)
    have hdd : ilvl - (ilvl - d) = d := by omega
    rw [hdd] at e
    have e2 : (2 ^ (maxLvl - ilvl - 1) + j + 1) * 2 ^ d
        = (2 ^ (maxLvl - ilvl - 1) + j) * 2 ^ d + 2 ^ d := by ring
    refine ⟨ilvl - d, by omega, ?_, ?_⟩
    · omega
    · rw [hdd]
      omega

/-- C28: in `trs_X_gather3d` with `Np = 2 ^ (maxLvl - 1)` layers, at a level
`ilvl < maxLvl - 1` both partner layers `r` and `s = r + 2 ^ ilvl < Np` (`r` a
multiple of `2 ^ (ilvl + 1)`) take `s` as the sender, and the tree ids passed to
`gatherSolvedX3d` are pairwise distinct, lie below `2 * Np - 1`, and are exactly
the tree `2 ^ (maxLvl - 1 - ilvl) - 1 + (s >> ilvl)` of the sender at the level
`ilvl` together with its descendants in the heap numbering, in which the parent
of `t` is `(t + 1) / 2 - 1`. -/
theorem trs_X_gather3d_trees_subtree (maxLvl ilvl r : Nat) (hl : ilvl + 1 < maxLvl)
    (hr : r % 2 ^ (ilvl + 1) = 0) (hs : r + 2 ^ ilvl < 2 ^ (maxLvl - 1)) :
    (trs_X_gather3d_pair r ilvl).1 = ((r + 2 ^ ilvl : Nat) : Int) ∧
    (trs_X_gather3d_pair (r + 2 ^ ilvl) ilvl).1 = ((r + 2 ^ ilvl : Nat) : Int) ∧
    trs_X_gather3d_st maxLvl (r + 2 ^ ilvl) ilvl
      = 2 ^ (maxLvl - 1 - ilvl) - 1 + (r + 2 ^ ilvl) >>> ilvl ∧
    (trs_X_gather3d_trees maxLvl (r + 2 ^ ilvl) ilvl).Nodup ∧
    (∀ t ∈ trs_X_gather3d_trees maxLvl (r + 2 ^ ilvl) ilvl, t < 2 * 2 ^ (maxLvl - 1) - 1) ∧
    (∀ t, t ∈ trs_X_gather3d_trees maxLvl (r + 2 ^ ilvl) ilvl ↔
      t < 2 * 2 ^ (maxLvl - 1) - 1 ∧
        ∃ d, heapAncestor d t = some (trs_X_gather3d_st maxLvl (r + 2 ^ ilvl) ilvl)) := by
  obtain ⟨q, hq⟩ := Nat.dvd_of_mod_eq_zero hr
  have hsj : r + 2 ^ ilvl = (2 * q + 1) * 2 ^ ilvl := by
    rw [hq, Nat.pow_succ]
    ring
  have hl' : ilvl + 1 ≤ maxLvl := by omega
  have hpi : 0 < 2 ^ ilvl := Nat.two_pow_pos ilvl
  -- the sizes
  obtain ⟨b, hb⟩ : ∃ b, maxLvl - ilvl - 1 = b + 1 := ⟨maxLvl - ilvl - 2, by omega⟩
  have hNp : 2 ^ (maxLvl - 1) = 2 ^ (b + 1) * 2 ^ ilvl := by
    rw [← Nat.pow_add]
    congr 1
    omega
  have hb2 : 2 ^ (b + 1) = 2 * 2 ^ b := by rw [Nat.pow_succ, Nat.mul_comm]
  have hj : 2 * q + 1 < 2 ^ (b + 1) := by
    rw [hsj, hNp] at hs
    exact Nat.lt_of_mul_lt_mul_right hs
  have hj2 : 2 * q + 2 ≤ 2 ^ (b + 1) := by omega
  have hT : trs_X_gather3d_st maxLvl (r + 2 ^ ilvl) ilvl + 1 = 2 ^ (b + 1) + (2 * q + 1) := by
    have e := trs_X_gather3d_st_succ maxLvl ilvl ilvl (2 * q + 1) hl' (Nat.le_refl _)
    rw [Nat.sub_self, Nat.pow_zero, Nat.mul_one, hb, ← hsj] at e
    exact e
  have hT2 : trs_X_gather3d_st maxLvl (r + 2 ^ ilvl) ilvl + 2
      = 2 ^ (b + 1) + (2 * q + 1) + 1 := by omega
  have hmem : ∀ t, t ∈ trs_X_gather3d_trees maxLvl (r + 2 ^ ilvl) ilvl ↔
      ∃ d, d ≤ ilvl ∧ (2 ^ (b + 1) + (2 * q + 1)) * 2 ^ d ≤ t + 1 ∧
        t + 1 < (2 ^ (b + 1) + (2 * q + 1) + 1) * 2 ^ d := by
    intro t
    rw [hsj, mem_trees_iff maxLvl ilvl (2 * q + 1) t hl', hb]
  have hbound : ∀ t d, d ≤ ilvl → t + 1 < (2 ^ (b + 1) + (2 * q + 1) + 1) * 2 ^ d →
      t < 2 * 2 ^ (maxLvl - 1) - 1 := by
    intro t d hd h2
    have h3 : 2 ^ d ≤ 2 ^ ilvl := Nat.pow_le_pow_right (by decide) hd
    have h4 : (2 ^ (b + 1) + (2 * q + 1) + 1) * 2 ^ d
        ≤ (2 ^ (b + 1) + 2 ^ (b + 1)) * 2 ^ ilvl :=
      Nat.mul_le_mul (by omega) h3
    have h5 : (2 ^ (b + 1) + 2 ^ (b + 1)) * 2 ^ ilvl = 2 * 2 ^ (maxLvl - 1) := by
      rw [hNp]
      ring
    omega
  refine ⟨?_, ?_, ?_, ?_, ?_, ?_⟩
  · exact congrArg Prod.fst (pair_receiver_layer r ilvl hr).1
  · exact congrArg Prod.fst (pair_sender_layer r ilvl hr).1
  · unfold trs_X_gather3d_st
    simp only [Nat.one_shiftLeft]
    have : maxLvl - ilvl - 1 = maxLvl - 1 - ilvl := by omega
    rw [this]
  · unfold trs_X_gather3d_trees
    rw [List.nodup_flatMap]
    constructor
    · intro a _
      exact List.nodup_range' _ _
    · refine List.Pairwise.imp_of_mem ?_ (List.pairwise_lt_range (ilvl + 1))
      intro a1 a2 ha1 ha2 hlt t h1 h2
      rw [List.mem_range] at ha1 ha2
      simp only [List.mem_range'_1, Nat.one_shiftLeft] at h1 h2
      have e1 := trs_X_gather3d_st_succ maxLvl ilvl a1 (2 * q + 1) hl' (by omega)
      have e2 := trs_X_gather3d_st_succ maxLvl ilvl a2 (2 * q + 1) hl' (by omega)
      rw [← hsj, hb] at e1 e2
      have hle := pow_block_le (2 ^ (b + 1) + (2 * q + 1)) (ilvl - a1) (ilvl - a2)
        (by omega) (by omega)
      have e3 : (2 ^ (b + 1) + (2 * q + 1) + 1) * 2 ^ (ilvl - a2)
          = (2 ^ (b + 1) + (2 * q + 1)) * 2 ^ (ilvl - a2) + 2 ^ (ilvl - a2) := by ring
      omega
  · intro t ht
    obtain ⟨d, hd, _, h2⟩ := (hmem t).mp ht
    exact hbound t d hd h2
  · intro t
    rw [hmem t]
    constructor
    · rintro ⟨d, hd, h1, h2⟩
      refine ⟨hbound t d hd h2, d, ?_⟩
      rw [heapAncestor_iff, hT, hT2]
      exact ⟨h1, h2⟩
    · rintro ⟨hlt, d, hd⟩
      rw [heapAncestor_iff, hT, hT2] at hd
      refine ⟨d, ?_, hd.1, hd.2⟩
      by_contra hnot
      have hd1 : ilvl + 1 ≤ d := by omega
      have h3 : 2 ^ (ilvl + 1) ≤ 2 ^ d := Nat.pow_le_pow_right (by decide) hd1
      have h4 : 2 ^ (b + 1) * 2 ^ (ilvl + 1) ≤ (2 ^ (b + 1) + (2 * q + 1)) * 2 ^ d :=
        Nat.mul_le_mul (by omega) h3
      have h5 : 2 ^ (b + 1) * 2 ^ (ilvl + 1) = 2 * 2 ^ (maxLvl - 1) := by
        rw [hNp, Nat.pow_succ 2 ilvl]
        ring
      omega

theorem trs_X_gather3d_trees_subtree_witness :
    trs_X_gather3d_trees 3 2 1 = [5, 6, 2] ∧
      (trs_X_gather3d_trees 3 2 1).Nodup ∧
      trs_X_gather3d_st 3 2 1 = 2 ∧
      (5 ∈ trs_X_gather3d_trees 3 2 1 ↔
        5 < 2 * 2 ^ (3 - 1) - 1 ∧ ∃ d, heapAncestor d 5 = some (trs_X_gather3d_st 3 2 1)) := by
  have T := trs_X_gather3d_trees_subtree 3 1 0 (by decide) (by decide) (by decide)
  exact ⟨by decide, T.2.2.2.1, by decide, T.2.2.2.2.2 5⟩



/-! ## The sends of the leaf solves are completed after the receive loop -/

theorem SendsCounted_kept (nrhs : Nat) (xsup : Nat → Nat) (s0 : SolveState) :
    SendKept nrhs xsup (SendsCounted s0) :=
  { frame := fun s s' _ hs hc h => by
      obtain ⟨h1, posted, h2⟩ := h
      refine ⟨?_, posted, hs.trans h2⟩
      rw [hs, hc]
      exact h1
    post := fun s s' m _ hs hc _ h => by
      obtain ⟨h1, posted, h2⟩ := h
      refine ⟨?_, posted ++ [m], ?_⟩
      · rw [hs, hc, List.length_append, List.length_singleton]
        omega
      · rw [hs, h2, List.append_assoc] }

theorem SendsCounted_refl (s : SolveState) : SendsCounted s s :=
  ⟨rfl, [], (List.append_nil _).symm⟩

/-- The loops of `leafForestForwardSolve3d` keep every property that looks only
at `xT`, the posted messages and the counter of the posted messages. -/
theorem leafForestForwardSolve3d_loop_kept {nrhs : Nat} {P : SolveState → Prop}
    (LUstruct : dLUstruct_t) (K : SendKept nrhs LUstruct.Glu_persist.xsup P)
    (fuel treeId n : Nat) (trf3Dpartition : dtrf3Dpartition_t) (grid : gridinfo_t)
    (sforest : sForest_t) (env : LeafEnv) (s s1 : SolveState) (hinv : P s)
    (hs1 : leafForestForwardSolve3d_loop fuel treeId n LUstruct trf3Dpartition grid nrhs
      sforest env s = some s1) : P s1 := by
  unfold leafForestForwardSolve3d_loop at hs1
  simp only [] at hs1
  split at hs1
  · exact absurd hs1 (by simp)
  · rename_i st hst
    refine leafForestForwardSolve3d_recv_kept LUstruct K _ _ _ _ _ _ _ _ _ ?_ hs1
    exact foldlOpt_inv (fun st : Int × SolveState => P st.2) _
      (fun a k0 b ha hab =>
        leafForestForwardSolve3d_seed_kept LUstruct K _ _ _ _ a b _ ha hab)
      _ _ _ (K.frame s _ (by rfl) (by rfl) (by rfl) hinv) hst

/-- The loops of `leafForestBackSolve3d` keep every property that looks only at
`xT`, the posted messages and the counter of the posted messages. -/
theorem leafForestBackSolve3d_loop_kept {nrhs : Nat} {P : SolveState → Prop}
    (LUstruct : dLUstruct_t) (K : SendKept nrhs LUstruct.Glu_persist.xsup P)
    (fuel treeId n : Nat) (trf3Dpartition : dtrf3Dpartition_t) (grid : gridinfo_t)
    (sforest : sForest_t) (env : LeafEnv) (s s1 : SolveState) (hinv : P s)
    (hs1 : leafForestBackSolve3d_loop fuel treeId n LUstruct trf3Dpartition grid nrhs
      sforest env s = some s1) : P s1 := by
  unfold leafForestBackSolve3d_loop at hs1
  simp only [] at hs1
  split at hs1
  · exact absurd hs1 (by simp)
  · split at hs1
    · exact absurd hs1 (by simp)
    · split at hs1
      · exact absurd hs1 (by simp)
      · rename_i st hst
        refine leafForestBackSolve3d_recv_kept LUstruct K _ _ _ _ _ _ _ ?_ hs1
        exact foldlOpt_inv (fun st : Int × SolveState => P st.2) _
          (fun a k0 b ha hab =>
            leafForestBackSolve3d_seed_kept LUstruct K _ _ a b _ ha hab)
          _ _ _ (K.frame s _ (by rfl) (by rfl) (by rfl) hinv) hst

theorem leafForestForwardSolve3d_finish_eq (s : SolveState) :
    leafForestForwardSolve3d_finish s
      = ((List.range s.SolveMsgSent).map CommEvent.MPI_Wait ++ [CommEvent.MPI_Barrier],
          { s with SolveMsgSent := 0 }) := by
  unfold leafForestForwardSolve3d_finish
  simp only []
  rw [foldl_log_map, List.nil_append]

theorem leafForestBackSolve3d_finish_eq (s : SolveState) :
    leafForestBackSolve3d_finish s
      = ((List.range s.SolveMsgSent).map CommEvent.MPI_Wait, { s with SolveMsgSent := 0 }) := by
  unfold leafForestBackSolve3d_finish
  simp only []
  rw [foldl_log_map, List.nil_append]

/-- C22: each leaf procedure, run on a non-empty forest whose receive loop exits
in the state `s1`, has made no `MPI_Wait` call before that exit; it then waits
on the requests `0 .. SolveMsgSent - 1`, as many as the sends it has posted
when the counter was 0 at entry, and resets `Llu->SolveMsgSent` to 0.
`leafForestForwardSolve3d` then calls `MPI_Barrier` on the communicator of the
2D grid and returns 0; `leafForestBackSolve3d` returns 0 without a barrier.  The
states and return values are those of the procedures without the call log. -/
theorem leaf_solves_wait_after_loop (fuel treeId n nrhs : Nat) (LUstruct : dLUstruct_t)
    (trf3Dpartition : dtrf3Dpartition_t) (grid3d : gridinfo3d_t) (env : LeafEnv)
    (s : SolveState) (sforest : sForest_t)
    (hf : trf3Dpartition.sForests treeId = some sforest) (hn : ¬ sforest.nNodes < 1) :
    (∀ s1, leafForestForwardSolve3d_loop fuel treeId n LUstruct trf3Dpartition grid3d.grid2d
          nrhs sforest env s = some s1 →
      SendsCounted s s1 ∧
      (s.SolveMsgSent = 0 → s1.SolveMsgSent = s1.sent.length - s.sent.length) ∧
      leafForestForwardSolve3d_comm fuel treeId n LUstruct trf3Dpartition grid3d nrhs env s
        = some (0, (List.range s1.SolveMsgSent).map CommEvent.MPI_Wait
            ++ [CommEvent.MPI_Barrier], { s1 with SolveMsgSent := 0 })) ∧
    (∀ s1, leafForestBackSolve3d_loop fuel treeId n LUstruct trf3Dpartition grid3d.grid2d
          nrhs sforest env s = some s1 →
      SendsCounted s s1 ∧
      (s.SolveMsgSent = 0 → s1.SolveMsgSent = s1.sent.length - s.sent.length) ∧
      leafForestBackSolve3d_comm fuel treeId n LUstruct trf3Dpartition grid3d nrhs env s
        = some (0, (List.range s1.SolveMsgSent).map CommEvent.MPI_Wait,
            { s1 with SolveMsgSent := 0 })) ∧
    (leafForestForwardSolve3d_comm fuel treeId n LUstruct trf3Dpartition grid3d nrhs env s).map
        (fun r => (r.1, r.2.2))
      = leafForestForwardSolve3d fuel treeId n LUstruct trf3Dpartition grid3d nrhs env s ∧
    (leafForestBackSolve3d_comm fuel treeId n LUstruct trf3Dpartition grid3d nrhs env s).map
        (fun r => (r.1, r.2.2))
      = leafForestBackSolve3d fuel treeId n LUstruct trf3Dpartition grid3d nrhs env s := by
  refine ⟨?_, ?_, ?_, ?_⟩
  · intro s1 h1
    have hc : SendsCounted s s1 :=
      leafForestForwardSolve3d_loop_kept LUstruct
        (SendsCounted_kept nrhs LUstruct.Glu_persist.xsup s) fuel treeId n trf3Dpartition
        grid3d.grid2d sforest env s s1 (SendsCounted_refl s) h1
    refine ⟨hc, ?_, ?_⟩
    · intro h0
      have := hc.1
      omega
    · unfold leafForestForwardSolve3d_comm
      rw [hf]
      simp only [if_neg hn, h1, leafForestForwardSolve3d_finish_eq]
  · intro s1 h1
    have hc : SendsCounted s s1 :=
      leafForestBackSolve3d_loop_kept LUstruct
        (SendsCounted_kept nrhs LUstruct.Glu_persist.xsup s) fuel treeId n trf3Dpartition
        grid3d.grid2d sforest env s s1 (SendsCounted_refl s) h1
    refine ⟨hc, ?_, ?_⟩
    · intro h0
      have := hc.1
      omega
    · unfold leafForestBackSolve3d_comm
      rw [hf]
      simp only [if_neg hn, h1, leafForestBackSolve3d_finish_eq]
  · unfold leafForestForwardSolve3d_comm leafForestForwardSolve3d
    rw [hf]
    simp only [if_neg hn]
    cases leafForestForwardSolve3d_loop fuel treeId n LUstruct trf3Dpartition grid3d.grid2d
        nrhs sforest env s with
    | none => rfl
    | some s1 => rfl
  · unfold leafForestBackSolve3d_comm leafForestBackSolve3d
    rw [hf]
    simp only [if_neg hn]
    cases leafForestBackSolve3d_loop fuel treeId n LUstruct trf3Dpartition grid3d.grid2d
        nrhs sforest env s with
    | none => rfl
    | some s1 => rfl



theorem leaf_solves_wait_after_loop_witness :
    ∃ s1, leafForestForwardSolve3d_loop 1 0 2 LUSend trfNode0 grid2x1x1.grid2d 1 forest0
        envQuiet stateX = some s1 ∧
      s1.SolveMsgSent = 1 ∧ s1.sent.length = 1 ∧
      (leafForestForwardSolve3d_comm 1 0 2 LUSend trfNode0 grid2x1x1 1 envQuiet stateX).map
          (fun r => (r.1, r.2.1))
        = some (0, [CommEvent.MPI_Wait 0, CommEvent.MPI_Barrier]) := by
  have hrun : (leafForestForwardSolve3d_loop 1 0 2 LUSend trfNode0 grid2x1x1.grid2d 1 forest0
      envQuiet stateX).map (fun s1 => (s1.SolveMsgSent, s1.sent.length)) = some (1, 1) := by
    decide!
  cases h1 : leafForestForwardSolve3d_loop 1 0 2 LUSend trfNode0 grid2x1x1.grid2d 1 forest0
      envQuiet stateX with
  | none => rw [h1] at hrun; exact absurd hrun (by simp)
  | some s1 =>
    rw [h1] at hrun
    simp only [Option.map_some', Option.some.injEq, Prod.mk.injEq] at hrun
    have T := (leaf_solves_wait_after_loop 1 0 2 1 LUSend trfNode0 grid2x1x1 envQuiet stateX
      forest0 rfl (by decide)).1 s1 h1
    refine ⟨s1, rfl, hrun.1, hrun.2, ?_⟩
    rw [T.2.2, hrun.1]
    rfl

/-- C22, as stated, fails for the backward leaf solve: on the process 0 of a
2 x 1 grid, `leafForestBackSolve3d` run on the forest of the supernode 0 posts one
send, waits for it after the receive loop and returns 0; its list of calls holds
no `MPI_Barrier`. -/
theorem leafForestBackSolve3d_no_barrier :
    trfNode0.sForests 0 = some forest0 ∧ forest0.nNodes = 1 ∧
    (leafForestBackSolve3d_comm 1 0 2 LUSend trfNode0 grid2x1x1 1 envQuiet stateX).map
        (fun r => (r.1, r.2.1, r.2.2.sent.length))
      = some (0, [CommEvent.MPI_Wait 0], 1) := by
  refine ⟨rfl, rfl, ?_⟩
  decide!



/-! ## `lsumBmod` against the reference loop: the packing -/

theorem segOff_succ (iklrow : Nat) (usub : Nat → Nat) (n : Nat) :
    segOff iklrow usub (n + 1) = segOff iklrow usub n + (iklrow - usub n) := by
  unfold segOff
  rw [List.range_succ, List.map_append, List.sum_append]
  simp

theorem segCount_succ (iklrow : Nat) (usub : Nat → Nat) (n : Nat) :
    segCount iklrow usub (n + 1)
      = segCount iklrow usub n + (if usub n < iklrow then 1 else 0) := by
  unfold segCount
  rw [List.range_succ, List.filter_append, List.length_append]
  by_cases h : usub n < iklrow
  · rw [if_pos h, List.filter_cons_of_pos (by simpa using h)]
    rfl
  · rw [if_neg h, List.filter_cons_of_neg (by simpa using h)]
    rfl

theorem segCount_mono (iklrow : Nat) (usub : Nat → Nat) (m n : Nat) (h : m ≤ n) :
    segCount iklrow usub m ≤ segCount iklrow usub n := by
  induction n with
  | zero =>
    have : m = 0 := by omega
    rw [this]
  | succ n ih =>
    rcases Nat.lt_or_ge m (n + 1) with hlt | hge
    · have := ih (by omega)
      rw [segCount_succ]
      omega
    · have : m = n + 1 := by omega
      rw [this]

theorem segCount_lt (iklrow : Nat) (usub : Nat → Nat) (jj n : Nat) (h : jj < n)
    (hne : usub jj < iklrow) : segCount iklrow usub jj < segCount iklrow usub n := by
  have h1 := segCount_mono iklrow usub (jj + 1) n h
  rw [segCount_succ, if_pos hne] at h1
  omega

theorem segCount_le (iklrow : Nat) (usub : Nat → Nat) (n : Nat) :
    segCount iklrow usub n ≤ n := by
  induction n with
  | zero => exact Nat.le_refl _
  | succ n ih =>
    rw [segCount_succ]
    split <;> omega

/-- When every column is packed, the packed position of a column is the column
itself and every segment is non-empty. -/
theorem segCount_full (iklrow : Nat) (usub : Nat → Nat) (n : Nat)
    (h : segCount iklrow usub n = n) :
    ∀ jj < n, usub jj < iklrow ∧ segCount iklrow usub jj = jj := by
  induction n with
  | zero => intro jj hjj; exact absurd hjj (Nat.not_lt_zero _)
  | succ n ih =>
    have hle := segCount_le iklrow usub n
    rw [segCount_succ] at h
    by_cases hn : usub n < iklrow
    · rw [if_pos hn] at h
      have hn' : segCount iklrow usub n = n := by omega
      intro jj hjj
      rcases Nat.lt_succ_iff_lt_or_eq.mp hjj with hlt | heq
      · exact ih hn' jj hlt
      · rw [heq]
        exact ⟨hn, hn'⟩
    · rw [if_neg hn] at h
      omega

theorem getldu_succ (iklrow : Nat) (usub : Nat → Nat) (n : Nat) :
    getldu (n + 1) iklrow usub
      = if usub n < iklrow then max (getldu n iklrow usub) (iklrow - usub n)
        else getldu n iklrow usub := by
  unfold getldu
  rw [List.range_succ, List.foldl_append]
  rfl

/-- The value of `getldu` is at least every segment size. -/
theorem getldu_ge (iklrow : Nat) (usub : Nat → Nat) (n : Nat) :
    ∀ jj < n, iklrow - usub jj ≤ getldu n iklrow usub := by
  induction n with
  | zero => intro jj hjj; exact absurd hjj (Nat.not_lt_zero _)
  | succ n ih =>
    intro jj hjj
    rw [getldu_succ]
    rcases Nat.lt_succ_iff_lt_or_eq.mp hjj with hlt | heq
    · have := ih jj hlt
      split
      · exact Nat.le_trans this (Nat.le_max_left _ _)
      · exact this
    · rw [heq]
      split
      · exact Nat.le_max_right _ _
      · omega

/-- The value of `getldu` stays below every bound of the segment sizes. -/
theorem getldu_le (iklrow : Nat) (usub : Nat → Nat) (n b : Nat)
    (h : ∀ jj < n, iklrow - usub jj ≤ b) : getldu n iklrow usub ≤ b := by
  induction n with
  | zero => exact Nat.zero_le _
  | succ n ih =>
    rw [getldu_succ]
    have h1 := ih (fun jj hjj => h jj (Nat.lt_succ_of_lt hjj))
    have h2 := h n (Nat.lt_succ_self n)
    split
    · exact Nat.max_le.mpr ⟨h1, h2⟩
    · exact h1



theorem packUblock_succ (ldu : Nat) (indCols : Nat → Nat) (n iklrow : Nat) (usub : Nat → Nat)
    (tempu : Nat → ℚ) (uval : Nat → ℚ) :
    packUblock ldu indCols (n + 1) iklrow usub tempu uval
      = (packUblock ldu indCols n iklrow usub tempu uval).bind (fun st =>
          if iklrow < usub n then none
          else
            if iklrow - usub n ≠ 0 then
              if ldu < iklrow - usub n then none
              else
                some { ncols := st.ncols + 1
                       indCols := Function.update st.indCols st.ncols n
                       tempu := (List.range (iklrow - usub n)).foldl
                          (fun t i => Function.update t (st.tpos + (ldu - (iklrow - usub n)) + i)
                            (uval (st.upos + i)))
                          ((List.range (ldu - (iklrow - usub n))).foldl
                            (fun t i => Function.update t (st.tpos + i) 0) st.tempu)
                       tpos := st.tpos + (ldu - (iklrow - usub n)) + (iklrow - usub n)
                       upos := st.upos + (iklrow - usub n) }
            else some st) := by
  unfold packUblock
  rw [List.range_succ, foldlOpt_concat]

/-- The loop of `packUblock` over the first `n` columns returns and establishes
`PackInv`, when no segment starts behind the last row of the block row and no
segment is longer than `ldu`. -/
theorem packUblock_spec (ldu : Nat) (indCols : Nat → Nat) (iklrow : Nat) (usub : Nat → Nat)
    (tempu : Nat → ℚ) (uval : Nat → ℚ) (n : Nat)
    (hle : ∀ jj < n, usub jj ≤ iklrow) (hldu : ∀ jj < n, iklrow - usub jj ≤ ldu) :
    ∃ ps, packUblock ldu indCols n iklrow usub tempu uval = some ps ∧
      PackInv ldu iklrow usub uval n ps := by
  induction n with
  | zero =>
    refine ⟨{ ncols := 0, indCols := indCols, tempu := tempu, tpos := 0, upos := 0 }, rfl, ?_⟩
    exact
      { ncols := rfl
        tpos := by simp [segCount]
        upos := rfl
        ind := fun jj hjj => absurd hjj (Nat.not_lt_zero _)
        val := fun jj hjj => absurd hjj (Nat.not_lt_zero _) }
  | succ n ih =>
    obtain ⟨st, hst, I⟩ := ih (fun jj hjj => hle jj (Nat.lt_succ_of_lt hjj))
      (fun jj hjj => hldu jj (Nat.lt_succ_of_lt hjj))
    have h1 := hle n (Nat.lt_succ_self n)
    have h2 := hldu n (Nat.lt_succ_self n)
    rw [packUblock_succ, hst]
    simp only [Option.some_bind, Option.bind_some, if_neg (Nat.not_lt.mpr h1)]
    by_cases hseg : iklrow - usub n ≠ 0
    · have hlt : usub n < iklrow := by omega
      rw [if_pos hseg, if_neg (Nat.not_lt.mpr h2)]
      refine ⟨_, rfl, ?_⟩
      have hcnt : segCount iklrow usub (n + 1) = segCount iklrow usub n + 1 := by
        rw [segCount_succ, if_pos hlt]
      have hsum : ldu - (iklrow - usub n) + (iklrow - usub n) = ldu := by omega
      refine
        { ncols := ?_
          tpos := ?_
          upos := ?_
          ind := ?_
          val := ?_ }
      · show st.ncols + 1 = _
        rw [I.ncols, hcnt]
      · show st.tpos + (ldu - (iklrow - usub n)) + (iklrow - usub n) = _
        rw [I.tpos, hcnt, Nat.add_mul, Nat.one_mul]
        omega
      · show st.upos + (iklrow - usub n) = _
        rw [I.upos, segOff_succ]
      · intro jj hjj hne
        show Function.update st.indCols st.ncols n (segCount iklrow usub jj) = jj
        rcases Nat.lt_succ_iff_lt_or_eq.mp hjj with hlt2 | heq
        · have := segCount_lt iklrow usub jj n hlt2 hne
          rw [Function.update_noteq (by rw [I.ncols]; omega)]
          exact I.ind jj hlt2 hne
        · rw [heq, I.ncols, Function.update_same]
      · intro jj hjj hne i hi
        show (List.range (iklrow - usub n)).foldl
            (fun t i => Function.update t (st.tpos + (ldu - (iklrow - usub n)) + i)
              (uval (st.upos + i)))
            ((List.range (ldu - (iklrow - usub n))).foldl
              (fun t i => Function.update t (st.tpos + i) 0) st.tempu)
            (segCount iklrow usub jj * ldu + i) = _
        rw [foldl_update_offset (iklrow - usub n) (st.tpos + (ldu - (iklrow - usub n)))
          (fun i => uval (st.upos + i)),
          foldl_update_offset (ldu - (iklrow - usub n)) st.tpos (fun _ => (0 : ℚ))]
        rcases Nat.lt_succ_iff_lt_or_eq.mp hjj with hlt2 | heq
        · have hc := segCount_lt iklrow usub jj n hlt2 hne
          have hb : (segCount iklrow usub jj + 1) * ldu ≤ segCount iklrow usub n * ldu :=
            Nat.mul_le_mul_right _ hc
          rw [Nat.add_mul, Nat.one_mul] at hb
          have hp : segCount iklrow usub jj * ldu + i < st.tpos := by
            rw [I.tpos]
            omega
          rw [if_neg (by omega), if_neg (by omega)]
          exact I.val jj hlt2 hne i hi
        · rw [heq, ← I.tpos]
          by_cases hi2 : i < ldu - (iklrow - usub n)
          · rw [if_neg (by omega), if_pos (by omega), if_pos hi2]
          · rw [if_pos (by omega), if_neg hi2, I.upos]
            congr 2
            omega
    · have hnlt : ¬ usub n < iklrow := by omega
      rw [if_neg hseg]
      refine ⟨st, rfl, ?_⟩
      have hcnt : segCount iklrow usub (n + 1) = segCount iklrow usub n := by
        rw [segCount_succ, if_neg hnlt, Nat.add_zero]
      have hoff : segOff iklrow usub (n + 1) = segOff iklrow usub n := by
        rw [segOff_succ]
        omega
      exact
        { ncols := by rw [hcnt]; exact I.ncols
          tpos := by rw [hcnt]; exact I.tpos
          upos := by rw [hoff]; exact I.upos
          ind := fun jj hjj hne => by
            rcases Nat.lt_succ_iff_lt_or_eq.mp hjj with hlt2 | heq
            · exact I.ind jj hlt2 hne
            · rw [heq] at hne
              exact absurd hne hnlt
          val := fun jj hjj hne => by
            rcases Nat.lt_succ_iff_lt_or_eq.mp hjj with hlt2 | heq
            · exact I.val jj hlt2 hne
            · rw [heq] at hne
              exact absurd hne hnlt }



theorem packXbmod_succ (knsupc ncols n : Nat) (indCols : Nat → Nat) (xk tempx : Nat → ℚ) :
    packXbmod knsupc ncols (n + 1) indCols xk tempx
      = (List.range ncols).foldl
          (fun tempx jj => Function.update tempx (n * ncols + jj) (xk (n * knsupc + indCols jj)))
          (packXbmod knsupc ncols n indCols xk tempx) := by
  unfold packXbmod
  rw [List.range_succ, List.foldl_append]
  rfl

/-- The routine `packXbmod` gathers the rows `indCols` of every right-hand
side. -/
theorem packXbmod_apply (knsupc ncols nrhs : Nat) (indCols : Nat → Nat) (xk tempx : Nat → ℚ) :
    ∀ j < nrhs, ∀ l < ncols,
      packXbmod knsupc ncols nrhs indCols xk tempx (j * ncols + l)
        = xk (j * knsupc + indCols l) := by
  induction nrhs with
  | zero => intro j hj; exact absurd hj (Nat.not_lt_zero _)
  | succ n ih =>
    intro j hj l hl
    rw [packXbmod_succ,
      foldl_update_offset ncols (n * ncols) (fun jj => xk (n * knsupc + indCols jj))]
    rcases Nat.lt_succ_iff_lt_or_eq.mp hj with hlt | heq
    · have hb : (j + 1) * ncols ≤ n * ncols := Nat.mul_le_mul_right _ hlt
      rw [Nat.add_mul, Nat.one_mul] at hb
      rw [if_neg (by omega)]
      exact ih j hlt l hl
    · rw [heq, if_pos (by omega), Nat.add_sub_cancel_left]

/-- A sum over the packed columns is the sum over the columns with a non-empty
segment. -/
theorem sum_packed (iklrow : Nat) (usub : Nat → Nat) (f : Nat → ℚ) (n : Nat) :
    ((List.range (segCount iklrow usub n)).map f).sum
      = ((List.range n).map
          (fun jj => if usub jj < iklrow then f (segCount iklrow usub jj) else 0)).sum := by
  induction n with
  | zero => rfl
  | succ n ih =>
    rw [segCount_succ, List.range_succ (n := n), List.map_append, List.sum_append, ← ih]
    by_cases h : usub n < iklrow
    · simp only [if_pos h, List.map_cons, List.map_nil, List.sum_cons, List.sum_nil]
      rw [List.range_succ, List.map_append, List.sum_append]
      simp
    · simp only [if_neg h, List.map_cons, List.map_nil, List.sum_cons, List.sum_nil]
      simp

theorem strided_eq {r r' j j' n : Nat} (hr : r < n) (hr' : r' < n)
    (h : r + j * n = r' + j' * n) : r = r' ∧ j = j' := by
  have h1 : (r + j * n) % n = (r' + j' * n) % n := by rw [h]
  rw [Nat.add_mul_mod_self_right, Nat.add_mul_mod_self_right, Nat.mod_eq_of_lt hr,
    Nat.mod_eq_of_lt hr'] at h1
  refine ⟨h1, ?_⟩
  rw [h1] at h
  have h2 : j * n = j' * n := by omega
  exact Nat.eq_of_mul_eq_mul_right (by omega) h2

theorem sum_map_zero (l : List Nat) (g : Nat → ℚ) (h : ∀ a ∈ l, g a = 0) :
    (l.map g).sum = 0 := by
  induction l with
  | nil => rfl
  | cons a t ih =>
    rw [List.map_cons, List.sum_cons, h a (List.mem_cons_self _ _),
      ih (fun b hb => h b (List.mem_cons_of_mem _ hb)), add_zero]



/-- The routine `lsumBmod` entry by entry: for a block whose segments lie in the
block row `gik`, the routine returns, subtracts from the entry of the row `irow`
and the right-hand side `j` the products of the segment entries of that row with
the entries of `xk`, and changes no other entry of `lsum`. -/
theorem lsumBmod_entries (gik gjk nrhs : Nat) (usub : Nat → Nat) (uval : Nat → ℚ)
    (xk : Nat → ℚ) (il : Nat) (xsup : Nat → Nat) (s : SolveState)
    (H : ∀ jj < SuperSize xsup gjk, xsup gik ≤ usub jj ∧ usub jj ≤ xsup (gik + 1)) :
    ∃ s', lsumBmod gik gjk nrhs usub uval xk il xsup s = some s' ∧
      (∀ j < nrhs, ∀ irow, xsup gik ≤ irow → irow < xsup (gik + 1) →
        s'.lsum (il + (irow - xsup gik) + j * SuperSize xsup gik)
          = s.lsum (il + (irow - xsup gik) + j * SuperSize xsup gik)
            - ((List.range (SuperSize xsup gjk)).map (fun jj =>
                if usub jj ≤ irow
                then uval (segOff (xsup (gik + 1)) usub jj + (irow - usub jj))
                  * xk (jj + j * SuperSize xsup gjk)
                else 0)).sum) ∧
      (∀ q, (∀ j < nrhs, ∀ irow, xsup gik ≤ irow → irow < xsup (gik + 1) →
          q ≠ il + (irow - xsup gik) + j * SuperSize xsup gik) →
        s'.lsum q = s.lsum q) := by
  have hge : ∀ jj < SuperSize xsup gjk,
      xsup (gik + 1) - usub jj ≤ getldu (SuperSize xsup gjk) (xsup (gik + 1)) usub :=
    getldu_ge _ _ _
  have hle : getldu (SuperSize xsup gjk) (xsup (gik + 1)) usub ≤ SuperSize xsup gik := by
    apply getldu_le
    intro jj hjj
    have := (H jj hjj).1
    unfold SuperSize
    omega
  obtain ⟨ps, hps, I⟩ := packUblock_spec
    (getldu (SuperSize xsup gjk) (xsup (gik + 1)) usub) s.indCols (xsup (gik + 1)) usub s.tU uval
    (SuperSize xsup gjk) (fun jj hjj => (H jj hjj).2) hge
  -- the matrix `X` handed to `dgemm_`
  have hX : ∀ j < nrhs, ∀ jj < SuperSize xsup gjk, usub jj < xsup (gik + 1) →
      (if ps.ncols < SuperSize xsup gjk
        then (if ps.ncols < SuperSize xsup gjk
          then packXbmod (SuperSize xsup gjk) ps.ncols nrhs ps.indCols xk s.tX else s.tX)
        else xk) (segCount (xsup (gik + 1)) usub jj + j * ps.ncols)
        = xk (jj + j * SuperSize xsup gjk) := by
    intro j hj jj hjj hne
    by_cases hc : ps.ncols < SuperSize xsup gjk
    · rw [if_pos hc, if_pos hc, Nat.add_comm,
        packXbmod_apply _ _ _ _ _ _ j hj _
          (by rw [I.ncols]; exact segCount_lt _ _ _ _ hjj hne),
        I.ind jj hjj hne, Nat.add_comm]
    · rw [if_neg hc]
      have hfull : segCount (xsup (gik + 1)) usub (SuperSize xsup gjk) = SuperSize xsup gjk := by
        have := segCount_le (xsup (gik + 1)) usub (SuperSize xsup gjk)
        rw [I.ncols] at hc
        omega
      rw [(segCount_full _ _ _ hfull jj hjj).2, I.ncols, hfull]
  have hrun : ∃ s', lsumBmod gik gjk nrhs usub uval xk il xsup s = some s' ∧
      s'.lsum = dgemm_ (getldu (SuperSize xsup gjk) (xsup (gik + 1)) usub) nrhs ps.ncols (-1)
        ps.tempu (getldu (SuperSize xsup gjk) (xsup (gik + 1)) usub)
        (if ps.ncols < SuperSize xsup gjk
          then (if ps.ncols < SuperSize xsup gjk
            then packXbmod (SuperSize xsup gjk) ps.ncols nrhs ps.indCols xk s.tX else s.tX)
          else xk)
        ps.ncols 1 s.lsum
        (il + (SuperSize xsup gik - getldu (SuperSize xsup gjk) (xsup (gik + 1)) usub))
        (SuperSize xsup gik) := by
    unfold lsumBmod
    simp only [FstBlockC, hps, if_neg (Nat.not_lt.mpr hle)]
    exact ⟨_, rfl, rfl⟩
  obtain ⟨s', hs', hl⟩ := hrun
  refine ⟨s', hs', ?_, ?_⟩
  · intro j hj irow h1 h2
    rw [hl]
    have hI : SuperSize xsup gik = xsup (gik + 1) - xsup gik := rfl
    by_cases hr : irow - xsup gik
        < SuperSize xsup gik - getldu (SuperSize xsup gjk) (xsup (gik + 1)) usub
    · rw [dgemm_frame]
      · rw [sum_map_zero, sub_zero]
        intro jj hjj
        have hjj' : jj < SuperSize xsup gjk := List.mem_range.mp hjj
        have := hge jj hjj'
        have := (H jj hjj').2
        rw [if_neg (by omega)]
      · intro i hi j' hj' hc
        have hc' : (irow - xsup gik) + j * SuperSize xsup gik
            = (SuperSize xsup gik - getldu (SuperSize xsup gjk) (xsup (gik + 1)) usub + i)
              + j' * SuperSize xsup gik := by omega
        have := (strided_eq (by omega) (by omega) hc').1
        omega
    · obtain ⟨i, hi⟩ : ∃ i, i = irow - xsup gik
          - (SuperSize xsup gik - getldu (SuperSize xsup gjk) (xsup (gik + 1)) usub) := ⟨_, rfl⟩
      have hi1 : i < getldu (SuperSize xsup gjk) (xsup (gik + 1)) usub := by omega
      have hq : il + (irow - xsup gik) + j * SuperSize xsup gik
          = il + (SuperSize xsup gik - getldu (SuperSize xsup gjk) (xsup (gik + 1)) usub)
            + i + j * SuperSize xsup gik := by omega
      have hsum := sum_packed (xsup (gik + 1)) usub
        (fun t => ps.tempu (i + t * getldu (SuperSize xsup gjk) (xsup (gik + 1)) usub)
          * (if ps.ncols < SuperSize xsup gjk
              then (if ps.ncols < SuperSize xsup gjk
                then packXbmod (SuperSize xsup gjk) ps.ncols nrhs ps.indCols xk s.tX
                else s.tX)
              else xk) (t + j * ps.ncols)) (SuperSize xsup gjk)
      rw [← I.ncols] at hsum
      rw [hq, dgemm_apply _ _ _ _ _ _ _ _ _ _ _ _ hle j hj i hi1, hsum]
      have hterm : ∀ jj ∈ List.range (SuperSize xsup gjk),
          (if usub jj < xsup (gik + 1)
            then ps.tempu (i + segCount (xsup (gik + 1)) usub jj
                * getldu (SuperSize xsup gjk) (xsup (gik + 1)) usub)
              * (if ps.ncols < SuperSize xsup gjk
                  then (if ps.ncols < SuperSize xsup gjk
                    then packXbmod (SuperSize xsup gjk) ps.ncols nrhs ps.indCols xk s.tX
                    else s.tX)
                  else xk) (segCount (xsup (gik + 1)) usub jj + j * ps.ncols)
            else 0)
          = (if usub jj ≤ irow
              then uval (segOff (xsup (gik + 1)) usub jj + (irow - usub jj))
                * xk (jj + j * SuperSize xsup gjk)
              else 0) := by
        intro jj hjj
        have hjj' : jj < SuperSize xsup gjk := List.mem_range.mp hjj
        have hg := hge jj hjj'
        have hH := H jj hjj'
        by_cases hne : usub jj < xsup (gik + 1)
        · rw [if_pos hne, hX j hj jj hjj' hne, Nat.add_comm i, I.val jj hjj' hne i hi1]
          by_cases hlead : i < getldu (SuperSize xsup gjk) (xsup (gik + 1)) usub
              - (xsup (gik + 1) - usub jj)
          · rw [if_pos hlead, if_neg (by omega), zero_mul]
          · rw [if_neg hlead, if_pos (by omega)]
            congr 3
            omega
        · rw [if_neg hne, if_neg (by omega)]
      rw [List.map_congr_left hterm]
      ring
  · intro q hq
    rw [hl]
    apply dgemm_frame
    intro i hi j hj hc
    have hI : SuperSize xsup gik = xsup (gik + 1) - xsup gik := rfl
    refine hq j hj (xsup (gik + 1) - getldu (SuperSize xsup gjk) (xsup (gik + 1)) usub + i)
      (by omega) (by omega) ?_
    rw [hc]
    omega



/-! ## `lsumBmod` against the reference loop: the reference loop entry by entry -/

/-- The AXPY loop of the reference over the rows `fnz .. fnz + n - 1`: the
position in `uval` advances by `n`, and the slice of `n` entries of `lsum` that
starts at `base + (fnz - ikfrow)` receives the update. -/
theorem axpy_fold (base ikfrow fnz : Nat) (c : ℚ) (uval : Nat → ℚ) (hF : ikfrow ≤ fnz)
    (u0 : Nat) (l0 : Nat → ℚ) (n : Nat) :
    (List.range' fnz n).foldl
        (fun (st : Nat × (Nat → ℚ)) irow =>
          (st.1 + 1,
            Function.update st.2 (base + (irow - ikfrow))
              (st.2 (base + (irow - ikfrow)) - uval st.1 * c)))
        (u0, l0)
      = (u0 + n, fun p =>
          if base + (fnz - ikfrow) ≤ p ∧ p < base + (fnz - ikfrow) + n
          then l0 p - uval (u0 + (p - (base + (fnz - ikfrow)))) * c else l0 p) := by
  induction n with
  | zero =>
    show (u0, l0) = _
    congr 1
    funext p
    rw [if_neg (by omega)]
  | succ n ih =>
    rw [List.range'_concat, List.foldl_append, ih]
    simp only [List.foldl_cons, List.foldl_nil, Nat.one_mul]
    congr 1
    funext p
    by_cases hp : p = base + (fnz + n - ikfrow)
    · rw [hp, Function.update_same, if_neg (by omega), if_pos (by omega)]
      congr 3
      omega
    · rw [Function.update_noteq hp]
      by_cases h2 : base + (fnz - ikfrow) ≤ p ∧ p < base + (fnz - ikfrow) + n
      · rw [if_pos h2, if_pos (by omega)]
      · rw [if_neg h2, if_neg (by omega)]

/-- The update that the column `jj` of the block makes to the entry `p` of `lsum`
in the reference loop for the right-hand side whose column of `lsum` starts at
`base` and whose entry of `xk` is `c`. -/
theorem column_fold (base ikfrow iklrow : Nat) (usub : Nat → Nat) (uval : Nat → ℚ)
    (c : Nat → ℚ) (l0 : Nat → ℚ) (n : Nat) (hF : ∀ jj < n, ikfrow ≤ usub jj) :
    (List.range n).foldl
        (fun (st : Nat × (Nat → ℚ)) jj =>
          if usub jj < iklrow then
            (List.range' (usub jj) (iklrow - usub jj)).foldl
              (fun (st : Nat × (Nat → ℚ)) irow =>
                (st.1 + 1,
                  Function.update st.2 (base + (irow - ikfrow))
                    (st.2 (base + (irow - ikfrow)) - uval st.1 * c jj)))
              st
          else st)
        (0, l0)
      = (segOff iklrow usub n, fun p =>
          l0 p - ((List.range n).map (fun jj =>
            if base + (usub jj - ikfrow) ≤ p ∧ p < base + (usub jj - ikfrow) + (iklrow - usub jj)
            then uval (segOff iklrow usub jj + (p - (base + (usub jj - ikfrow)))) * c jj
            else 0)).sum) := by
  induction n with
  | zero =>
    show (0, l0) = _
    congr 1
    funext p
    simp
  | succ n ih =>
    rw [List.range_succ, List.foldl_append, ih (fun jj h => hF jj (Nat.lt_succ_of_lt h))]
    simp only [List.foldl_cons, List.foldl_nil]
    rw [segOff_succ]
    simp only [List.map_append, List.sum_append, List.map_cons, List.map_nil, List.sum_cons,
      List.sum_nil, add_zero]
    by_cases hlt : usub n < iklrow
    · rw [if_pos hlt, axpy_fold base ikfrow (usub n) (c n) uval (hF n (Nat.lt_succ_self n))]
      congr 1
      funext p
      by_cases hp : base + (usub n - ikfrow) ≤ p
          ∧ p < base + (usub n - ikfrow) + (iklrow - usub n)
      · rw [if_pos hp, if_pos hp]
        ring
      · rw [if_neg hp, if_neg hp]
        ring
    · rw [if_neg hlt]
      have hz : iklrow - usub n = 0 := by omega
      rw [hz]
      congr 1
      funext p
      rw [if_neg (by omega)]
      ring

theorem sum_single (n j0 : Nat) (f : Nat → ℚ) (hj0 : j0 < n)
    (h : ∀ j < n, j ≠ j0 → f j = 0) : ((List.range n).map f).sum = f j0 := by
  rw [list_range_map_sum]
  apply Finset.sum_eq_single j0
  · intro j hj hne
    exact h j (Finset.mem_range.mp hj) hne
  · intro hc
    exact absurd (Finset.mem_range.mpr hj0) hc



/-- The reference loop as a sum: every right-hand side `j` subtracts from the
entry `q` the updates of the columns of the block. -/
theorem lsumBmod_reference_sum (gik gjk nrhs : Nat) (usub : Nat → Nat) (uval : Nat → ℚ)
    (xk : Nat → ℚ) (il : Nat) (xsup : Nat → Nat) (lsum : Nat → ℚ)
    (H : ∀ jj < SuperSize xsup gjk, xsup gik ≤ usub jj) (q : Nat) :
    lsumBmod_reference gik gjk nrhs usub uval xk il xsup lsum q
      = lsum q - ((List.range nrhs).map (fun j =>
          ((List.range (SuperSize xsup gjk)).map (fun jj =>
            if il + j * SuperSize xsup gik + (usub jj - xsup gik) ≤ q
                ∧ q < il + j * SuperSize xsup gik + (usub jj - xsup gik)
                  + (xsup (gik + 1) - usub jj)
            then uval (segOff (xsup (gik + 1)) usub jj
                + (q - (il + j * SuperSize xsup gik + (usub jj - xsup gik))))
              * xk (j * SuperSize xsup gjk + jj)
            else 0)).sum)).sum := by
  unfold lsumBmod_reference
  simp only [FstBlockC]
  apply foldl_shift
    (fun j (l : Nat → ℚ) => ((List.range (SuperSize xsup gjk)).foldl
        (fun (st : Nat × (Nat → ℚ)) jj =>
          if usub jj < xsup (gik + 1) then
            (List.range' (usub jj) (xsup (gik + 1) - usub jj)).foldl
              (fun (st : Nat × (Nat → ℚ)) irow =>
                (st.1 + 1,
                  Function.update st.2 (il + j * SuperSize xsup gik + (irow - xsup gik))
                    (st.2 (il + j * SuperSize xsup gik + (irow - xsup gik))
                      - uval st.1 * xk (j * SuperSize xsup gjk + jj))))
              st
          else st)
        (0, l)).2)
  intro j l p
  rw [column_fold (il + j * SuperSize xsup gik) (xsup gik) (xsup (gik + 1)) usub uval
    (fun jj => xk (j * SuperSize xsup gjk + jj)) l (SuperSize xsup gjk) H]

/-- The reference loop entry by entry: the same entries as `lsumBmod`. -/
theorem lsumBmod_reference_entries (gik gjk nrhs : Nat) (usub : Nat → Nat) (uval : Nat → ℚ)
    (xk : Nat → ℚ) (il : Nat) (xsup : Nat → Nat) (lsum : Nat → ℚ)
    (H : ∀ jj < SuperSize xsup gjk, xsup gik ≤ usub jj ∧ usub jj ≤ xsup (gik + 1)) :
    (∀ j < nrhs, ∀ irow, xsup gik ≤ irow → irow < xsup (gik + 1) →
      lsumBmod_reference gik gjk nrhs usub uval xk il xsup lsum
          (il + (irow - xsup gik) + j * SuperSize xsup gik)
        = lsum (il + (irow - xsup gik) + j * SuperSize xsup gik)
          - ((List.range (SuperSize xsup gjk)).map (fun jj =>
              if usub jj ≤ irow
              then uval (segOff (xsup (gik + 1)) usub jj + (irow - usub jj))
                * xk (jj + j * SuperSize xsup gjk)
              else 0)).sum) ∧
    (∀ q, (∀ j < nrhs, ∀ irow, xsup gik ≤ irow → irow < xsup (gik + 1) →
        q ≠ il + (irow - xsup gik) + j * SuperSize xsup gik) →
      lsumBmod_reference gik gjk nrhs usub uval xk il xsup lsum q = lsum q) := by
  have hI : SuperSize xsup gik = xsup (gik + 1) - xsup gik := rfl
  constructor
  · intro j0 hj0 irow h1 h2
    rw [lsumBmod_reference_sum gik gjk nrhs usub uval xk il xsup lsum (fun jj hjj => (H jj hjj).1),
      sum_single nrhs j0 _ hj0]
    · congr 2
      apply List.map_congr_left
      intro jj hjj
      have hH := H jj (List.mem_range.mp hjj)
      by_cases hle : usub jj ≤ irow
      · rw [if_pos hle, if_pos (by omega), Nat.add_comm jj]
        congr 3
        omega
      · rw [if_neg hle, if_neg (by omega)]
    · intro j hj hne
      apply sum_map_zero
      intro jj hjj
      have hH := H jj (List.mem_range.mp hjj)
      rw [if_neg]
      rintro ⟨c1, c2⟩
      obtain ⟨t, ht⟩ : ∃ t, il + (irow - xsup gik) + j0 * SuperSize xsup gik
          = il + j * SuperSize xsup gik + (usub jj - xsup gik) + t :=
        ⟨il + (irow - xsup gik) + j0 * SuperSize xsup gik
          - (il + j * SuperSize xsup gik + (usub jj - xsup gik)), by omega⟩
      have hc : (irow - xsup gik) + j0 * SuperSize xsup gik
          = (usub jj - xsup gik + t) + j * SuperSize xsup gik := by omega
      exact hne (strided_eq (by omega) (by omega) hc).2.symm
  · intro q hq
    rw [lsumBmod_reference_sum gik gjk nrhs usub uval xk il xsup lsum (fun jj hjj => (H jj hjj).1),
      sum_map_zero, sub_zero]
    intro j hj
    apply sum_map_zero
    intro jj hjj
    have hH := H jj (List.mem_range.mp hjj)
    rw [if_neg]
    rintro ⟨c1, c2⟩
    have hj' : j < nrhs := List.mem_range.mp hj
    obtain ⟨t, ht⟩ : ∃ t, q = il + j * SuperSize xsup gik + (usub jj - xsup gik) + t :=
      ⟨q - (il + j * SuperSize xsup gik + (usub jj - xsup gik)), by omega⟩
    refine hq j hj' (usub jj + t) (by omega) (by omega) ?_
    omega



/-- C24: for a block of U whose segments lie in the block row `gik`
(`xsup[gik] <= usub[jj] <= xsup[gik+1]` for every column `jj` of the supernode
`gjk`), the routine `lsumBmod` - `getldu`, `packUblock`, `packXbmod` when a column
is empty, and one `dgemm_` - returns and leaves in `lsum` exactly what the
reference AXPY loop kept in the source under `#else` computes, in exact
arithmetic: for every right-hand side `j` and every row `irow` of the block row,
the entry `lsum[irow - xsup[gik] + j * iknsupc]` is decreased by the sum over the
columns `jj` with `usub[jj] <= irow` of the segment entry of that row times
`xk[jj + j * knsupc]`, and no other entry of `lsum` changes.  The case
`ncols = knsupc`, in which `xk` is passed to `dgemm_` unpacked, is included; `x`
and `xT` are not written. -/
theorem lsumBmod_refines_reference (gik gjk nrhs : Nat) (usub : Nat → Nat) (uval : Nat → ℚ)
    (xk : Nat → ℚ) (il : Nat) (xsup : Nat → Nat) (s : SolveState)
    (H : ∀ jj < SuperSize xsup gjk, xsup gik ≤ usub jj ∧ usub jj ≤ xsup (gik + 1)) :
    ∃ s', lsumBmod gik gjk nrhs usub uval xk il xsup s = some s' ∧
      s'.lsum = lsumBmod_reference gik gjk nrhs usub uval xk il xsup s.lsum ∧
      (∀ j < nrhs, ∀ irow, xsup gik ≤ irow → irow < xsup (gik + 1) →
        s'.lsum (il + (irow - xsup gik) + j * SuperSize xsup gik)
          = s.lsum (il + (irow - xsup gik) + j * SuperSize xsup gik)
            - ((List.range (SuperSize xsup gjk)).map (fun jj =>
                if usub jj ≤ irow
                then uval (segOff (xsup (gik + 1)) usub jj + (irow - usub jj))
                  * xk (jj + j * SuperSize xsup gjk)
                else 0)).sum) ∧
      (∀ q, (∀ j < nrhs, ∀ irow, xsup gik ≤ irow → irow < xsup (gik + 1) →
          q ≠ il + (irow - xsup gik) + j * SuperSize xsup gik) →
        s'.lsum q = s.lsum q) ∧
      s'.x = s.x ∧ s'.xT = s.xT := by
  obtain ⟨s', hs', hent, hframe⟩ := lsumBmod_entries gik gjk nrhs usub uval xk il xsup s H
  obtain ⟨rent, rframe⟩ :=
    lsumBmod_reference_entries gik gjk nrhs usub uval xk il xsup s.lsum H
  have hrows := lsumBmod_rows gik gjk nrhs usub uval xk il xsup s s' hs'
  refine ⟨s', hs', ?_, hent, hframe, hrows.1, hrows.2.1⟩
  funext q
  by_cases hq : ∃ j, j < nrhs ∧ ∃ irow, xsup gik ≤ irow ∧ irow < xsup (gik + 1) ∧
      q = il + (irow - xsup gik) + j * SuperSize xsup gik
  · obtain ⟨j, hj, irow, h1, h2, rfl⟩ := hq
    rw [hent j hj irow h1 h2, rent j hj irow h1 h2]
  · have hq' : ∀ j < nrhs, ∀ irow, xsup gik ≤ irow → irow < xsup (gik + 1) →
        q ≠ il + (irow - xsup gik) + j * SuperSize xsup gik :=
      fun j hj irow h1 h2 hc => hq ⟨j, hj, irow, h1, h2, hc⟩
    rw [hframe q hq', rframe q hq']

theorem lsumBmod_refines_reference_witness :
    (∃ s', lsumBmod 0 1 2 usubSeg uvalSeg xkSeg 0 xsupBlock state0 = some s' ∧
      s'.lsum = lsumBmod_reference 0 1 2 usubSeg uvalSeg xkSeg 0 xsupBlock state0.lsum ∧
      s'.lsum 0 = -1 ∧ s'.lsum 1 = -302 ∧ s'.lsum 2 = -2 ∧ s'.lsum 3 = -604) ∧
    (∃ s', lsumBmod 0 1 2 usubFull uvalSeg xkSeg 0 xsupBlock state0 = some s' ∧
      s'.lsum = lsumBmod_reference 0 1 2 usubFull uvalSeg xkSeg 0 xsupBlock state0.lsum ∧
      s'.lsum 1 = -642) := by
  constructor
  · obtain ⟨s', h1, h2, _⟩ := lsumBmod_refines_reference 0 1 2 usubSeg uvalSeg xkSeg 0
      xsupBlock state0 (by decide)
    refine ⟨s', h1, h2, ?_, ?_, ?_, ?_⟩ <;> rw [h2] <;> decide!
  · obtain ⟨s', h1, h2, _⟩ := lsumBmod_refines_reference 0 1 2 usubFull uvalSeg xkSeg 0
      xsupBlock state0 (by decide)
    refine ⟨s', h1, h2, ?_⟩
    rw [h2]
    decide!

/-! ## The wire format of the messages of the leaf solves -/

theorem LeafCtx.lsumBlk_eq (c : LeafCtx) (lk : Nat) : c.lsumBlk lk = c.xBlk lk := rfl

end Pdgstrs3d
